import Mathlib

/-!
# sp_smaps_filter: aggregation, range index and snapshot diff

A shallow embedding of the data pipeline of `sp_smaps_filter.c`:

* the `meminfo_t` counters with their `unsigned` (32 bit) arithmetic,
* `analyze_enumerate_data` and `analyze_accumulate_data`,
* the binary searches `array_find_lower` / `array_find_upper`,
* the diff working table (`diffkey_compare`, `diff_ins`, the accumulation
  loop of `smapsfilt_diff`) and `diffkey_rank`.

C `int` values are modelled as `Int`, `unsigned` counters as `Nat` with an
explicit reduction modulo `2 ^ 32` at every addition.  A failed `assert`
is modelled by the result `none`.
-/

namespace SpSmaps

/-! ## Machine arithmetic -/

/-- Number of values of the C type `unsigned` (32 bit). -/
def UINT_MOD : Nat := 4294967296

/-- Source: `pusum`, `*a += b` on `unsigned`. -/
def pusum (a b : Nat) : Nat := (a + b) % UINT_MOD

/-- Source: `pumax`, `if( *a < b ) *a=b`. -/
def pumax (a b : Nat) : Nat := if a < b then b else a

/-- The maximum of a list of counters, 0 for the empty list. -/
def max_list (l : List Nat) : Nat := l.foldr max 0

/-- The loop `for( int i = lo; i < hi; ++i )` visits these values in order. -/
def int_range (lo hi : Int) : List Int :=
  (List.range (hi - lo).toNat).map (fun (k : Nat) => lo + (k : Int))

/-! ## meminfo_t -/

/-- Source: `struct meminfo_t`, six `unsigned` counters. -/
structure meminfo_t where
  Size : Nat := 0
  Rss : Nat := 0
  Shared_Clean : Nat := 0
  Shared_Dirty : Nat := 0
  Private_Clean : Nat := 0
  Private_Dirty : Nat := 0
deriving DecidableEq, Repr

/-- Source: `meminfo_ctor`; also the content of a `calloc`ed table cell. -/
def meminfo_ctor : meminfo_t := {}

instance : Inhabited meminfo_t := ⟨meminfo_ctor⟩

/-- Source: `meminfo_accumulate_appdata`. -/
def meminfo_accumulate_appdata (self that : meminfo_t) : meminfo_t :=
  { Size          := pusum self.Size          that.Size
    Rss           := pusum self.Rss           that.Rss
    Shared_Clean  := pusum self.Shared_Clean  that.Shared_Clean
    Shared_Dirty  := pusum self.Shared_Dirty  that.Shared_Dirty
    Private_Clean := pusum self.Private_Clean that.Private_Clean
    Private_Dirty := pusum self.Private_Dirty that.Private_Dirty }

/-- Source: `meminfo_accumulate_libdata` (the `Rss` line occurs twice there). -/
def meminfo_accumulate_libdata (self that : meminfo_t) : meminfo_t :=
  { Size          := pumax self.Size          that.Size
    Rss           := pumax (pumax self.Rss that.Rss) that.Rss
    Shared_Clean  := pumax self.Shared_Clean  that.Shared_Clean
    Shared_Dirty  := pumax self.Shared_Dirty  that.Shared_Dirty
    Private_Clean := pusum self.Private_Clean that.Private_Clean
    Private_Dirty := pusum self.Private_Dirty that.Private_Dirty }

/-- Source: `meminfo_accumulate_maxdata`. -/
def meminfo_accumulate_maxdata (self that : meminfo_t) : meminfo_t :=
  { Size          := pumax self.Size          that.Size
    Rss           := pumax self.Rss           that.Rss
    Shared_Clean  := pumax self.Shared_Clean  that.Shared_Clean
    Shared_Dirty  := pumax self.Shared_Dirty  that.Shared_Dirty
    Private_Clean := pumax self.Private_Clean that.Private_Clean
    Private_Dirty := pumax self.Private_Dirty that.Private_Dirty }

/-- The names of the six counters, used to state field-wise properties. -/
inductive counter_t where
  | Size | Rss | Shared_Clean | Shared_Dirty | Private_Clean | Private_Dirty
deriving DecidableEq, Repr

/-- The counter of `m` named by `c`. -/
def meminfo_t.field (m : meminfo_t) : counter_t → Nat
  | .Size => m.Size
  | .Rss => m.Rss
  | .Shared_Clean => m.Shared_Clean
  | .Shared_Dirty => m.Shared_Dirty
  | .Private_Clean => m.Private_Clean
  | .Private_Dirty => m.Private_Dirty

/-- The two counters that the library table sums; the other four it maximises. -/
def counter_t.is_private : counter_t → Bool
  | .Private_Clean => true
  | .Private_Dirty => true
  | _ => false

/-! ## Text formatting -/

/-- Decimal digits of `n`, most significant first (`fuel` bounds the digit count). -/
def dec_digits : Nat → Nat → List Char
  | 0, _ => []
  | fuel + 1, n =>
    if n < 10 then [Nat.digitChar n]
    else dec_digits fuel (n / 10) ++ [Nat.digitChar (n % 10)]

/-- The conversion `%d` of `printf` for a value that is not negative. -/
def fmt_u (n : Nat) : List Char := dec_digits (n + 1) n

/-- The conversion `%d` of `printf`. -/
def fmt_d (n : Int) : List Char :=
  if n < 0 then '-' :: fmt_u n.natAbs else fmt_u n.natAbs

/-- The conversion `%03d` of `printf`: zero padding up to a width of three,
the sign counting towards the width. -/
def fmt_03d (n : Int) : List Char :=
  if n < 0 then
    '-' :: (List.replicate (2 - (fmt_u n.natAbs).length) '0' ++ fmt_u n.natAbs)
  else
    List.replicate (3 - (fmt_u n.natAbs).length) '0' ++ fmt_u n.natAbs

/-- Source: `snprintf(temp, sizeof temp, "%s (%d)", Name, Pid)` with
`char temp[512]`: at most 511 characters are kept. -/
def appl_key (Name : String) (Pid : Int) : String :=
  String.mk ((Name.data ++ [' ', '('] ++ fmt_d Pid ++ [')']).take 511)

/-- Source: `snprintf(temp, sizeof temp, "app%03d::lib%03d", AID, LID)`.
For 32 bit arguments the text has at most 31 characters, so the 512 byte
buffer never truncates it. -/
def group_key (AID LID : Int) : String :=
  String.mk (['a', 'p', 'p'] ++ fmt_03d AID ++ [':', ':', 'l', 'i', 'b'] ++ fmt_03d LID)

/-! ## Symbol tables -/

/-- Modelled from the spec: `symtab.h` / `symtab.c` are not among the sources.
The spec (§6) describes the interning primitive as `enumerate(table, key) ->
dense_id`, stable and insertion-ordered, returning the existing id for a
previously seen key, with `count(table)`.  The table is the list of its keys,
the id of a key being its position. -/
structure symtab_t where
  symtab_entry : List String := []
deriving DecidableEq, Repr

/-- Modelled from the spec: `symtab_create`, the empty table. -/
def symtab_create : symtab_t := {}

/-- Modelled from the spec: `symtab_count`, the number of interned keys. -/
def symtab_t.symtab_count (self : symtab_t) : Int := self.symtab_entry.length

/-- Modelled from the spec: `symtab_enumerate`, the id of `key`, which is
appended with the next free id when it has not been seen before. -/
def symtab_enumerate (self : symtab_t) (key : String) : symtab_t × Int :=
  if key ∈ self.symtab_entry then
    (self, (self.symtab_entry.indexOf key : Nat))
  else
    ({ symtab_entry := self.symtab_entry ++ [key] }, (self.symtab_entry.length : Nat))

/-! ## Snapshot data -/

/-- Source: `struct mapinfo_t`. -/
structure mapinfo_t where
  head : Nat := 0
  tail : Nat := 0
  prot : String := ""
  offs : Nat := 0
  node : String := ""
  flgs : Nat := 0
  path : String := ""
  type : String := ""
deriving DecidableEq, Repr

/-- Source: `struct pidinfo_t`. -/
structure pidinfo_t where
  Name : String := "<noname>"
  Pid : Int := 0
  PPid : Int := 0
  Threads : Int := 0
  VmSize : Nat := 0
  VmLck : Nat := 0
  VmRSS : Nat := 0
  VmData : Nat := 0
  VmStk : Nat := 0
  VmExe : Nat := 0
  VmLib : Nat := 0
  VmPTE : Nat := 0
deriving DecidableEq, Repr

/-- Source: `struct smapsmapp_t`; the ids are `-1` after `smapsmapp_ctor`. -/
structure smapsmapp_t where
  smapsmapp_uid : Int := 0
  smapsmapp_map : mapinfo_t := {}
  smapsmapp_mem : meminfo_t := {}
  smapsmapp_AID : Int := -1
  smapsmapp_PID : Int := -1
  smapsmapp_LID : Int := -1
  smapsmapp_TID : Int := -1
  smapsmapp_EID : Int := -1
deriving DecidableEq, Repr

/-- Source: `struct smapsproc_t`.  A pointer to a process record is the
`smapsproc_uid` of the record, which `smapsproc_ctor` takes from a counter, so
no two records share one: `smapsproc_parent` is `none` for the null pointer,
and an entry of `smapsproc_children` is `none` while it is zeroed, before
`array_compact` removes it. -/
structure smapsproc_t where
  smapsproc_uid : Int := 0
  smapsproc_AID : Int := -1
  smapsproc_PID : Int := -1
  smapsproc_pid : pidinfo_t := {}
  smapsproc_mapplist : List smapsmapp_t := []
  smapsproc_parent : Option Int := none
  smapsproc_children : List (Option Int) := []
deriving DecidableEq, Repr

/-- Source: `struct smapssnap_t` (source name, format tag, process list and
the synthetic root of the process hierarchy). -/
structure smapssnap_t where
  smapssnap_source : String := ""
  smapssnap_format : Int := 0
  smapssnap_proclist : List smapsproc_t := []
  smapssnap_rootproc : smapsproc_t := {}
deriving DecidableEq, Repr

/-! ## analyze_t and enumeration -/

/-- Source: `struct analyze_t`.  The accumulation tables are flat arrays,
`grp_mem` of `groups * ntypes` cells and so on. -/
structure analyze_t where
  mapp_tab : List smapsmapp_t := []
  appl_tab : symtab_t := {}
  type_tab : symtab_t := {}
  path_tab : symtab_t := {}
  summ_tab : symtab_t := {}
  ntypes : Int := 0
  nappls : Int := 0
  npaths : Int := 0
  groups : Int := 0
  stype : List String := []
  sappl : List String := []
  spath : List String := []
  grp_app : List Int := []
  grp_lib : List Int := []
  grp_mem : List meminfo_t := []
  app_mem : List meminfo_t := []
  lib_mem : List meminfo_t := []
  sysest : List meminfo_t := []
  sysmax : List meminfo_t := []
  appmax : List meminfo_t := []
deriving DecidableEq, Repr

/-- Source: `analyze_ctor` / `analyze_create`: empty tables, zero counts. -/
def analyze_create : analyze_t := {}

/-- Source: `analyze_enumerate_data`, body of the loop over the mappings of one
process: the mapping receives the ids of its process and its type id, and is
appended to `mapp_tab`.  The state is `(type_tab, mapp_tab)`. -/
def enumerate_mapp_step (AID PID : Int) (st : symtab_t × List smapsmapp_t)
    (mapp : smapsmapp_t) : symtab_t × List smapsmapp_t :=
  ((symtab_enumerate st.1 mapp.smapsmapp_map.type).1,
   st.2 ++ [{ mapp with
                smapsmapp_AID := AID
                smapsmapp_PID := PID
                smapsmapp_TID := (symtab_enumerate st.1 mapp.smapsmapp_map.type).2 }])

/-- Source: `analyze_enumerate_data`, body of the loop over the process list.
The state is `(appl_tab, (type_tab, mapp_tab))`; `smapsproc_AID` is set to
`smapsproc_PID`, the id of the key `"<name> (<pid>)"`. -/
def enumerate_proc_step (st : symtab_t × (symtab_t × List smapsmapp_t))
    (proc : smapsproc_t) : symtab_t × (symtab_t × List smapsmapp_t) :=
  ((symtab_enumerate st.1 (appl_key proc.smapsproc_pid.Name proc.smapsproc_pid.Pid)).1,
   proc.smapsproc_mapplist.foldl
     (enumerate_mapp_step
       (symtab_enumerate st.1 (appl_key proc.smapsproc_pid.Name proc.smapsproc_pid.Pid)).2
       (symtab_enumerate st.1 (appl_key proc.smapsproc_pid.Name proc.smapsproc_pid.Pid)).2)
     st.2)

/-- Source: `analyze_enumerate_data`, body of the loop over the sorted
`mapp_tab` that interns paths and (instance, path) pairs.  The state is
`(path_tab, (summ_tab, mappings done))`. -/
def enumerate_path_step (st : symtab_t × (symtab_t × List smapsmapp_t))
    (mapp : smapsmapp_t) : symtab_t × (symtab_t × List smapsmapp_t) :=
  ((symtab_enumerate st.1 mapp.smapsmapp_map.path).1,
   ((symtab_enumerate st.2.1
      (group_key mapp.smapsmapp_AID (symtab_enumerate st.1 mapp.smapsmapp_map.path).2)).1,
    st.2.2 ++ [{ mapp with
                  smapsmapp_LID := (symtab_enumerate st.1 mapp.smapsmapp_map.path).2
                  smapsmapp_EID := (symtab_enumerate st.2.1
                    (group_key mapp.smapsmapp_AID
                      (symtab_enumerate st.1 mapp.smapsmapp_map.path).2)).2 }]))

/-- Source: `analyze_enumerate_data`, body of the loop that fills `grp_app` and
`grp_lib`; the two `assert`s fail when a group id already belongs to another
application or library.  The state is `(grp_app, grp_lib)`. -/
def enumerate_group_step (st : List Int × List Int) (mapp : smapsmapp_t) :
    Option (List Int × List Int) :=
  if (st.1.getD mapp.smapsmapp_EID.toNat (-1) = -1 ∨
        st.1.getD mapp.smapsmapp_EID.toNat (-1) = mapp.smapsmapp_AID) ∧
     (st.2.getD mapp.smapsmapp_EID.toNat (-1) = -1 ∨
        st.2.getD mapp.smapsmapp_EID.toNat (-1) = mapp.smapsmapp_LID) then
    some (st.1.set mapp.smapsmapp_EID.toNat mapp.smapsmapp_AID,
          st.2.set mapp.smapsmapp_EID.toNat mapp.smapsmapp_LID)
  else none

/-- Source: `analyze_enumerate_data`, first part: the six base types are
interned in their fixed order, then the sorted process list is walked.
`array_sort` belongs to libsysperf, which is not part of the repository: the
sort of the process list (by name and pid) is the parameter `sort_procs`.  The
result is `(appl_tab, (type_tab, mapp_tab))`. -/
def enumerate_procs (sort_procs : List smapsproc_t → List smapsproc_t)
    (self : analyze_t) (snap : smapssnap_t) : symtab_t × (symtab_t × List smapsmapp_t) :=
  (sort_procs snap.smapssnap_proclist).foldl enumerate_proc_step
    (self.appl_tab,
     ((symtab_enumerate (symtab_enumerate (symtab_enumerate (symtab_enumerate
        (symtab_enumerate (symtab_enumerate self.type_tab "total").1 "code").1 "data").1
        "heap").1 "anon").1 "stack").1,
      self.mapp_tab))

/-- Source: `analyze_enumerate_data`, second part: the mapping table is sorted
by path (the parameter `sort_mapps`, see `enumerate_procs`) and walked to
intern paths and groups.  The result is `(path_tab, (summ_tab, mapp_tab))`. -/
def enumerate_paths (sort_mapps : List smapsmapp_t → List smapsmapp_t)
    (self : analyze_t) (mapp_tab : List smapsmapp_t) :
    symtab_t × (symtab_t × List smapsmapp_t) :=
  (sort_mapps mapp_tab).foldl enumerate_path_step (self.path_tab, (self.summ_tab, []))

/-- Source: `analyze_enumerate_data`, last part: `grp_app` and `grp_lib` start
as `-1` everywhere, are filled from the mappings, and must then be set for
every group (the final two `assert`s). -/
def enumerate_groups (groups : Int) (mapp_tab : List smapsmapp_t) :
    Option (List Int × List Int) :=
  match mapp_tab.foldlM enumerate_group_step
      (List.replicate groups.toNat (-1 : Int), List.replicate groups.toNat (-1 : Int)) with
  | none => none
  | some grp =>
    if (int_range 0 groups).all
        (fun g => grp.1.getD g.toNat (-1) != -1 && grp.2.getD g.toNat (-1) != -1) then
      some grp
    else none

/-- Source: `analyze_enumerate_data`. -/
def analyze_enumerate_data
    (sort_procs : List smapsproc_t → List smapsproc_t)
    (sort_mapps : List smapsmapp_t → List smapsmapp_t)
    (self : analyze_t) (snap : smapssnap_t) : Option analyze_t :=
  let st1 := enumerate_procs sort_procs self snap
  let st2 := enumerate_paths sort_mapps self st1.2.2
  match enumerate_groups st2.2.1.symtab_count st2.2.2 with
  | none => none
  | some grp =>
    some { self with
      mapp_tab := st2.2.2
      appl_tab := st1.1
      type_tab := st1.2.1
      path_tab := st2.1
      summ_tab := st2.2.1
      ntypes := st1.2.1.symtab_count
      nappls := st1.1.symtab_count
      npaths := st2.1.symtab_count
      groups := st2.2.1.symtab_count
      stype := st1.2.1.symtab_entry
      sappl := st1.1.symtab_entry
      spath := st2.1.symtab_entry
      grp_app := grp.1
      grp_lib := grp.2 }

/-! ## Accumulation -/

/-- Source: `analyze_grp_mem`: the position of cell `[gid][tid]` in the flat
table, `none` when one of the two `assert`s fails. -/
def analyze_grp_mem (self : analyze_t) (gid tid : Int) : Option Nat :=
  if 0 ≤ gid ∧ gid < self.groups ∧ 0 ≤ tid ∧ tid < self.ntypes then
    some (tid + gid * self.ntypes).toNat
  else none

/-- Source: `analyze_lib_mem`. -/
def analyze_lib_mem (self : analyze_t) (lid tid : Int) : Option Nat :=
  if 0 ≤ lid ∧ lid < self.npaths ∧ 0 ≤ tid ∧ tid < self.ntypes then
    some (tid + lid * self.ntypes).toNat
  else none

/-- Source: `analyze_app_mem`. -/
def analyze_app_mem (self : analyze_t) (aid tid : Int) : Option Nat :=
  if 0 ≤ aid ∧ aid < self.nappls ∧ 0 ≤ tid ∧ tid < self.ntypes then
    some (tid + aid * self.ntypes).toNat
  else none

/-- Source: `analyze_sysest`. -/
def analyze_sysest (self : analyze_t) (tid : Int) : Option Nat :=
  if 0 ≤ tid ∧ tid < self.ntypes then some tid.toNat else none

/-- Source: `analyze_sysmax`. -/
def analyze_sysmax (self : analyze_t) (tid : Int) : Option Nat :=
  if 0 ≤ tid ∧ tid < self.ntypes then some tid.toNat else none

/-- Source: `analyze_appmax`. -/
def analyze_appmax (self : analyze_t) (tid : Int) : Option Nat :=
  if 0 ≤ tid ∧ tid < self.ntypes then some tid.toNat else none

/-- The cell at position `i` of a flat table. -/
def cell (tab : List meminfo_t) (i : Nat) : meminfo_t := tab.getD i meminfo_ctor

/-- The six `pusum` lines written out in the first two loops of
`analyze_accumulate_data`. -/
def accumulate_sum6 (dest srce : meminfo_t) : meminfo_t :=
  { Size          := pusum dest.Size          srce.Size
    Rss           := pusum dest.Rss           srce.Rss
    Shared_Clean  := pusum dest.Shared_Clean  srce.Shared_Clean
    Shared_Dirty  := pusum dest.Shared_Dirty  srce.Shared_Dirty
    Private_Clean := pusum dest.Private_Clean srce.Private_Clean
    Private_Dirty := pusum dest.Private_Dirty srce.Private_Dirty }

/-- The four `pumax` and two `pusum` lines written out for the library table
in `analyze_accumulate_data`. -/
def accumulate_max4_sum2 (dest srce : meminfo_t) : meminfo_t :=
  { Size          := pumax dest.Size          srce.Size
    Rss           := pumax dest.Rss           srce.Rss
    Shared_Clean  := pumax dest.Shared_Clean  srce.Shared_Clean
    Shared_Dirty  := pumax dest.Shared_Dirty  srce.Shared_Dirty
    Private_Clean := pusum dest.Private_Clean srce.Private_Clean
    Private_Dirty := pusum dest.Private_Dirty srce.Private_Dirty }

/-- Source: `analyze_accumulate_data`, first loop: the counters of a mapping are
added to `grp_mem[EID][TID]`. -/
def accumulate_grp_step (self : analyze_t) (grp_mem : List meminfo_t)
    (mapp : smapsmapp_t) : Option (List meminfo_t) :=
  match analyze_grp_mem self mapp.smapsmapp_EID mapp.smapsmapp_TID with
  | none => none
  | some dest => some (grp_mem.set dest (accumulate_sum6 (cell grp_mem dest) mapp.smapsmapp_mem))

/-- Source: `analyze_accumulate_data`, second loop, body for group `g` and type
`t`: `grp_mem[g][t]` is summed into `app_mem[a][t]` and combined (maximum of
four counters, sum of the two private ones) into `lib_mem[p][t]`.  The state is
`(app_mem, lib_mem)`. -/
def accumulate_applib_step (self : analyze_t) (g : Int)
    (st : List meminfo_t × List meminfo_t) (t : Int) :
    Option (List meminfo_t × List meminfo_t) :=
  match analyze_grp_mem self g t,
        analyze_app_mem self (self.grp_app.getD g.toNat (-1)) t,
        analyze_lib_mem self (self.grp_lib.getD g.toNat (-1)) t with
  | some srce, some dapp, some dlib =>
    some (st.1.set dapp (accumulate_sum6 (cell st.1 dapp) (cell self.grp_mem srce)),
          st.2.set dlib (accumulate_max4_sum2 (cell st.2 dlib) (cell self.grp_mem srce)))
  | _, _, _ => none

/-- Source: `analyze_accumulate_data`, the loops "application instance totals"
and "library path totals": row `t` of entity `i` is added to its row 0.  `acc`
is `analyze_app_mem` or `analyze_lib_mem`. -/
def accumulate_total_step (acc : Int → Int → Option Nat) (i : Int)
    (tab : List meminfo_t) (t : Int) : Option (List meminfo_t) :=
  match acc i 0, acc i t with
  | some dest, some srce =>
    some (tab.set dest (meminfo_accumulate_appdata (cell tab dest) (cell tab srce)))
  | _, _ => none

/-- Source: `analyze_accumulate_data`, loop "application data -> appl
estimates", body for application `i` and type `t`.  The state is
`(appmax, sysmax)`. -/
def accumulate_appest_step (self : analyze_t) (i : Int)
    (st : List meminfo_t × List meminfo_t) (t : Int) :
    Option (List meminfo_t × List meminfo_t) :=
  match analyze_app_mem self i t, analyze_appmax self t, analyze_sysmax self t with
  | some srce, some dmax, some dsum =>
    some (st.1.set dmax (meminfo_accumulate_maxdata (cell st.1 dmax) (cell self.app_mem srce)),
          st.2.set dsum (meminfo_accumulate_appdata (cell st.2 dsum) (cell self.app_mem srce)))
  | _, _, _ => none

/-- Source: `analyze_accumulate_data`, loop "library data -> system estimates",
body for library `i` and type `t`. -/
def accumulate_sysest_step (self : analyze_t) (i : Int)
    (sysest : List meminfo_t) (t : Int) : Option (List meminfo_t) :=
  match analyze_sysest self t, analyze_lib_mem self i t with
  | some dest, some srce =>
    some (sysest.set dest (meminfo_accumulate_appdata (cell sysest dest) (cell self.lib_mem srce)))
  | _, _ => none

/-- Source: `analyze_accumulate_data`, loop "system estimate totals", the
update of one of the three tables: row `t` is added to row 0.  `acc` is
`analyze_sysest`, `analyze_sysmax` or `analyze_appmax`. -/
def accumulate_systotal_step (acc : Int → Option Nat)
    (tab : List meminfo_t) (t : Int) : Option (List meminfo_t) :=
  match acc t, acc 0 with
  | some srce, some dest =>
    some (tab.set dest (meminfo_accumulate_appdata (cell tab dest) (cell tab srce)))
  | _, _ => none

/-- Source: `analyze_accumulate_data`, loop "system estimate totals", body for
type `t`.  The state is `(sysest, (sysmax, appmax))`. -/
def accumulate_systotals_step (self : analyze_t)
    (st : List meminfo_t × (List meminfo_t × List meminfo_t)) (t : Int) :
    Option (List meminfo_t × (List meminfo_t × List meminfo_t)) :=
  match accumulate_systotal_step (analyze_sysest self) st.1 t,
        accumulate_systotal_step (analyze_sysmax self) st.2.1 t,
        accumulate_systotal_step (analyze_appmax self) st.2.2 t with
  | some e, some m, some a => some (e, (m, a))
  | _, _, _ => none

/-- Source: `analyze_accumulate_data`.  The six tables are allocated zeroed
(`calloc`) and filled by the seven loops in the order of the source. -/
def analyze_accumulate_data (self : analyze_t) : Option analyze_t := do
  let zt := List.replicate self.ntypes.toNat meminfo_ctor
  let grp_mem ← self.mapp_tab.foldlM (accumulate_grp_step self)
    (List.replicate (self.groups * self.ntypes).toNat meminfo_ctor)
  let self := { self with grp_mem := grp_mem }
  let applib ← (int_range 0 self.groups).foldlM
    (fun st g => (int_range 1 self.ntypes).foldlM (accumulate_applib_step self g) st)
    (List.replicate (self.nappls * self.ntypes).toNat meminfo_ctor,
     List.replicate (self.npaths * self.ntypes).toNat meminfo_ctor)
  let app_mem ← (int_range 0 self.nappls).foldlM
    (fun tab i => (int_range 1 self.ntypes).foldlM
      (accumulate_total_step (analyze_app_mem self) i) tab) applib.1
  let lib_mem ← (int_range 0 self.npaths).foldlM
    (fun tab i => (int_range 1 self.ntypes).foldlM
      (accumulate_total_step (analyze_lib_mem self) i) tab) applib.2
  let self := { self with app_mem := app_mem, lib_mem := lib_mem }
  let appest ← (int_range 0 self.nappls).foldlM
    (fun st i => (int_range 1 self.ntypes).foldlM (accumulate_appest_step self i) st)
    (zt, zt)
  let sysest ← (int_range 0 self.npaths).foldlM
    (fun tab i => (int_range 1 self.ntypes).foldlM (accumulate_sysest_step self i) tab)
    zt
  let tot ← (int_range 1 self.ntypes).foldlM (accumulate_systotals_step self)
    (sysest, (appest.2, appest.1))
  pure { self with sysest := tot.1, sysmax := tot.2.1, appmax := tot.2.2 }

/-- The pipeline of the report generators: `analyze_create`, then
`analyze_enumerate_data`, then `analyze_accumulate_data`. -/
def analyze_snapshot
    (sort_procs : List smapsproc_t → List smapsproc_t)
    (sort_mapps : List smapsmapp_t → List smapsmapp_t)
    (snap : smapssnap_t) : Option analyze_t :=
  match analyze_enumerate_data sort_procs sort_mapps analyze_create snap with
  | none => none
  | some az => analyze_accumulate_data az

/-- Cell `[g][t]` of the group table. -/
def analyze_t.grp (self : analyze_t) (g t : Int) : meminfo_t :=
  cell self.grp_mem (t + g * self.ntypes).toNat

/-- Cell `[a][t]` of the application table. -/
def analyze_t.app (self : analyze_t) (a t : Int) : meminfo_t :=
  cell self.app_mem (t + a * self.ntypes).toNat

/-- Cell `[l][t]` of the library table. -/
def analyze_t.lib (self : analyze_t) (l t : Int) : meminfo_t :=
  cell self.lib_mem (t + l * self.ntypes).toNat


/-! ## Range index -/

/-- Largest value of the C type `int` (32 bit). -/
def INT_MAX : Int := 2147483647

/-- Source: `self->data[i]` of an `array_t`; `none` outside the array. -/
def array_get {α : Type} (data : List α) (i : Int) : Option α :=
  if 0 ≤ i then data[i.toNat]? else none

/-- Source: `array_find_lower`, the `while( lo < hi )` loop.  Every iteration
shrinks `hi - lo`, so `fuel = hi - lo` iterations are never used up.  The
result is `none` when `lo + hi` overflows `int` (undefined in C) or when an
index falls outside the array. -/
def array_find_lower_loop {α : Type} (data : List α) (fn : α → Int) :
    Nat → Int → Int → Option Int
  | 0, lo, hi => if lo < hi then none else some lo
  | fuel + 1, lo, hi =>
    if lo < hi then
      if lo + hi ≤ INT_MAX then
        match array_get data (Int.tdiv (lo + hi) 2) with
        | none => none
        | some x =>
          if fn x ≥ 0 then array_find_lower_loop data fn fuel lo (Int.tdiv (lo + hi) 2 + 0)
          else array_find_lower_loop data fn fuel (Int.tdiv (lo + hi) 2 + 1) hi
      else none
    else some lo

/-- Source: `array_find_lower`, binary search for the first index of `[lo, hi)`
whose entry has `fn >= 0`. -/
def array_find_lower {α : Type} (data : List α) (lo hi : Int) (fn : α → Int) : Option Int :=
  array_find_lower_loop data fn (hi - lo).toNat lo hi

/-- Source: `array_find_upper`, the `while( lo < hi )` loop (see
`array_find_lower_loop`). -/
def array_find_upper_loop {α : Type} (data : List α) (fn : α → Int) :
    Nat → Int → Int → Option Int
  | 0, lo, hi => if lo < hi then none else some lo
  | fuel + 1, lo, hi =>
    if lo < hi then
      if lo + hi ≤ INT_MAX then
        match array_get data (Int.tdiv (lo + hi) 2) with
        | none => none
        | some x =>
          if fn x > 0 then array_find_upper_loop data fn fuel lo (Int.tdiv (lo + hi) 2 + 0)
          else array_find_upper_loop data fn fuel (Int.tdiv (lo + hi) 2 + 1) hi
      else none
    else some lo

/-- Source: `array_find_upper`, binary search for the first index of `[lo, hi)`
whose entry has `fn > 0`. -/
def array_find_upper {α : Type} (data : List α) (lo hi : Int) (fn : α → Int) : Option Int :=
  array_find_upper_loop data fn (hi - lo).toNat lo hi

/-! ## Snapshot diff -/

/-- Smallest value of the C type `int` (32 bit). -/
def INT_MIN : Int := -2147483648

/-- The arithmetic on `double` of the platform (the IEEE 754 operations of the
processor and `sqrt` of libm), which is not part of the repository: a
parameter.  A `double` is represented by the rational number it holds. -/
structure fp_ops where
  add : ℚ → ℚ → ℚ
  sub : ℚ → ℚ → ℚ
  mul : ℚ → ℚ → ℚ
  div : ℚ → ℚ → ℚ
  sqrt : ℚ → ℚ

/-- The integer part of the square root of `n`. -/
def nat_sqrt (n : Nat) : Nat :=
  ((List.range (n + 1)).filter (fun k => decide (k * k ≤ n))).length - 1

/-- Exact arithmetic.  It agrees with IEEE 754 `double` arithmetic on every
computation all of whose results are representable (the operations and `sqrt`
are correctly rounded, so they return a representable exact result as it is).
`sqrt` is the quotient of the integer parts of the square roots of the
numerator and of the denominator: it is the square root on squares of
rationals, and only there; on any other argument it is not the correctly
rounded root that libm returns.  The theorems evaluate it on squares of
rationals only. -/
def fp_exact : fp_ops :=
  { add := fun a b => a + b
    sub := fun a b => a - b
    mul := fun a b => a * b
    div := fun a b => a / b
    sqrt := fun q => (nat_sqrt q.num.toNat : ℚ) / (nat_sqrt q.den : ℚ) }

/-- Source: `struct diffval_t`, three `double` measures. -/
structure diffval_t where
  pri : ℚ := 0
  sha : ℚ := 0
  cln : ℚ := 0
deriving DecidableEq, Repr

/-- Source: `struct diffkey_t`: the key fields, the slot count `cnt`, and the
`cnt` value slots that `diffkey_create` allocates behind the header. -/
structure diffkey_t where
  appl : Int := 0
  inst : Int := 0
  type : Int := 0
  path : Int := 0
  cnt : Int := 0
  val : List diffval_t := []
deriving DecidableEq, Repr

/-- Source: `diffval_ctor`. -/
def diffval_ctor : diffval_t := { pri := 0, sha := 0, cln := 0 }

/-- Source: `diffval_add`. -/
def diffval_add (fp : fp_ops) (self that : diffval_t) : diffval_t :=
  { pri := fp.add self.pri that.pri
    sha := fp.add self.sha that.sha
    cln := fp.add self.cln that.cln }

/-- Source: `diffkey_val`: the slot `cap`, `none` when the `assert` fails (or
the slot was never allocated). -/
def diffkey_val (self : diffkey_t) (cap : Int) : Option diffval_t :=
  if 0 ≤ cap ∧ cap < self.cnt then self.val[cap.toNat]? else none

/-- A C subtraction `a - b` on `int`: undefined (`none`) when it overflows. -/
def int_sub (a b : Int) : Option Int :=
  if INT_MIN ≤ a - b ∧ a - b ≤ INT_MAX then some (a - b) else none

/-- Source: `diffkey_compare`, the first difference of (appl, inst, type, path)
that is not zero. -/
def diffkey_compare (k1 k2 : diffkey_t) : Option Int :=
  match int_sub k1.appl k2.appl with
  | none => none
  | some r =>
    if r ≠ 0 then some r else
    match int_sub k1.inst k2.inst with
    | none => none
    | some r =>
      if r ≠ 0 then some r else
      match int_sub k1.type k2.type with
      | none => none
      | some r =>
        if r ≠ 0 then some r else
        match int_sub k1.path k2.path with
        | none => none
        | some r => if r ≠ 0 then some r else some 0

/-- Source: `diffkey_create`: a copy of the header of `templ` with `cnt` zeroed
slots. -/
def diffkey_create (templ : diffkey_t) : diffkey_t :=
  { templ with val := List.replicate templ.cnt.toNat diffval_ctor }

/-- Source: the statement `diffval_add(diffkey_val(k, cap), val)` of
`diff_ins`. -/
def diffkey_add (fp : fp_ops) (k : diffkey_t) (cap : Int) (val : diffval_t) :
    Option diffkey_t :=
  match diffkey_val k cap with
  | none => none
  | some slot => some { k with val := k.val.set cap.toNat (diffval_add fp slot val) }

/-- Source: `diff_ins` (nested in `smapsfilt_diff`), the loop
`for( int lo = 0, hi = diff_cnt;; )` on the table `diff_tab`.  Every iteration
either ends the loop or shrinks `hi - lo`, so `hi - lo + 1` iterations of
`fuel` are never used up.  The growth of the buffer by `realloc` is not
modelled. -/
def diff_ins_loop (fp : fp_ops) (key : diffkey_t) (val : diffval_t) (cap : Int)
    (diff_tab : List diffkey_t) : Nat → Int → Int → Option (List diffkey_t)
  | 0, _, _ => none
  | fuel + 1, lo, hi =>
    if lo = hi then
      match diffkey_add fp (diffkey_create key) cap val with
      | none => none
      | some k => some (diff_tab.take lo.toNat ++ k :: diff_tab.drop lo.toNat)
    else if lo + hi ≤ INT_MAX then
      match array_get diff_tab (Int.tdiv (lo + hi) 2) with
      | none => none
      | some k =>
        match diffkey_compare k key with
        | none => none
        | some r =>
          if r < 0 then diff_ins_loop fp key val cap diff_tab fuel (Int.tdiv (lo + hi) 2 + 1) hi
          else if r > 0 then
            diff_ins_loop fp key val cap diff_tab fuel lo (Int.tdiv (lo + hi) 2 + 0)
          else
            match diffkey_add fp k cap val with
            | none => none
            | some k1 => some (diff_tab.set (Int.tdiv (lo + hi) 2).toNat k1)
    else none

/-- Source: `diff_ins`: insert-or-accumulate `val` into slot `cap` of the group
`key` of the sorted table. -/
def diff_ins (fp : fp_ops) (diff_tab : List diffkey_t) (key : diffkey_t) (val : diffval_t)
    (cap : Int) : Option (List diffkey_t) :=
  diff_ins_loop fp key val cap diff_tab (diff_tab.length + 1) 0 diff_tab.length

/-- Source: `smapsfilt_diff`, the `switch( diff_lev )` that fills the grouping
key; the cases fall through, and `default` stands before `case 4`. -/
def diff_switch (diff_lev : Int) (key : diffkey_t) (mapp : smapsmapp_t) : diffkey_t :=
  if diff_lev = 0 then key
  else if diff_lev = 1 then { key with appl := mapp.smapsmapp_AID }
  else if diff_lev = 2 then
    { key with inst := mapp.smapsmapp_PID, appl := mapp.smapsmapp_AID }
  else if diff_lev = 3 then
    { key with type := mapp.smapsmapp_TID, inst := mapp.smapsmapp_PID,
               appl := mapp.smapsmapp_AID }
  else
    { key with path := mapp.smapsmapp_LID, type := mapp.smapsmapp_TID,
               inst := mapp.smapsmapp_PID, appl := mapp.smapsmapp_AID }

/-- Source: `smapsfilt_diff`, the value added for a mapping: `Private_Dirty`,
`Shared_Dirty` and the `unsigned` sum `Shared_Clean + Private_Clean`, each
converted to `double` (exact for every `unsigned`). -/
def diff_value (mapp : smapsmapp_t) : diffval_t :=
  { pri := (mapp.smapsmapp_mem.Private_Dirty : ℚ)
    sha := (mapp.smapsmapp_mem.Shared_Dirty : ℚ)
    cln := (((mapp.smapsmapp_mem.Shared_Clean + mapp.smapsmapp_mem.Private_Clean)
              % UINT_MOD : Nat) : ℚ) }

/-- Source: `smapsfilt_diff`, loop "accumulate stats", body for one mapping of
snapshot `i`.  The state is `(key, diff_tab)`: the variable `key` lives
outside the loops and keeps its fields from one mapping to the next. -/
def diff_accumulate_step (fp : fp_ops) (diff_lev : Int) (i : Int)
    (st : diffkey_t × List diffkey_t) (mapp : smapsmapp_t) :
    Option (diffkey_t × List diffkey_t) :=
  match diff_ins fp st.2 (diff_switch diff_lev st.1 mapp) (diff_value mapp) i with
  | none => none
  | some tab => some (diff_switch diff_lev st.1 mapp, tab)

/-- Source: `smapsfilt_diff`, loop "accumulate stats" over the snapshots from
index `i` on. -/
def diff_accumulate_snaps (fp : fp_ops) (diff_lev : Int) :
    List smapssnap_t → Int → diffkey_t × List diffkey_t →
    Option (diffkey_t × List diffkey_t)
  | [], _, st => some st
  | snap :: rest, i, st =>
    match snap.smapssnap_proclist.foldlM
        (fun st proc => proc.smapsproc_mapplist.foldlM (diff_accumulate_step fp diff_lev i) st)
        st with
    | none => none
    | some st1 => diff_accumulate_snaps fp diff_lev rest (i + 1) st1

/-- Source: `smapsfilt_diff`, section "accumulate stats": the key starts as
`(-1, -1, -1, -1)` with one slot per snapshot, the table starts empty; the
result is the table `diff_tab`.  The snapshots carry the ids assigned by the
enumeration pass that precedes this section. -/
def diff_accumulate (fp : fp_ops) (smapsfilt_snaplist : List smapssnap_t) (diff_lev : Int) :
    Option (List diffkey_t) :=
  match diff_accumulate_snaps fp diff_lev smapsfilt_snaplist 0
      ({ appl := -1, inst := -1, type := -1, path := -1,
         cnt := (smapsfilt_snaplist.length : Int) }, []) with
  | none => none
  | some st => some st.2

/-- Source: `pow2`. -/
def pow2 (fp : fp_ops) (a : ℚ) : ℚ := fp.mul a a

/-- Conversion of a `double` to `unsigned`: the fraction is discarded;
undefined (`none`) when the result does not fit. -/
def double_to_unsigned (q : ℚ) : Option Nat :=
  if -1 < q ∧ q < (UINT_MOD : ℚ) then some (Int.toNat ⌊q⌋) else none

/-- Source: `fmax3`, declared `double fmax3(unsigned a, unsigned b, unsigned c)`:
the three arguments are converted to `unsigned` at the call. -/
def fmax3 (a b c : Nat) : ℚ := max (max (a : ℚ) (b : ℚ)) (c : ℚ)

/-- Source: `diffkey_rank`, first loop: the sums of the three measures. -/
def diffkey_rank_sum (fp : fp_ops) (self : diffkey_t) : Option diffval_t :=
  (int_range 0 self.cnt).foldlM
    (fun acc i => match diffkey_val self i with
      | none => none
      | some val => some { pri := fp.add acc.pri val.pri
                           sha := fp.add acc.sha val.sha
                           cln := fp.add acc.cln val.cln })
    { pri := 0, sha := 0, cln := 0 }

/-- Source: `diffkey_rank`, second loop: the sums of the squared deviations
from the means `mean`. -/
def diffkey_rank_dev (fp : fp_ops) (self : diffkey_t) (mean : diffval_t) : Option diffval_t :=
  (int_range 0 self.cnt).foldlM
    (fun res i => match diffkey_val self i with
      | none => none
      | some val => some { pri := fp.add res.pri (pow2 fp (fp.sub val.pri mean.pri))
                           sha := fp.add res.sha (pow2 fp (fp.sub val.sha mean.sha))
                           cln := fp.add res.cln (pow2 fp (fp.sub val.cln mean.cln)) })
    { pri := 0, sha := 0, cln := 0 }

/-- Source: `diffkey_rank`; the result is `(return value, *res)`. -/
def diffkey_rank (fp : fp_ops) (self : diffkey_t) : Option (ℚ × diffval_t) :=
  match diffkey_rank_sum fp self with
  | none => none
  | some s =>
    match diffkey_rank_dev fp self
        { pri := fp.div s.pri (self.cnt : ℚ)
          sha := fp.div s.sha (self.cnt : ℚ)
          cln := fp.div s.cln (self.cnt : ℚ) } with
    | none => none
    | some d =>
      match double_to_unsigned (fp.sqrt (fp.div d.pri (self.cnt : ℚ))),
            double_to_unsigned (fp.sqrt (fp.div d.sha (self.cnt : ℚ))),
            double_to_unsigned (fp.sqrt (fp.div d.cln (self.cnt : ℚ))) with
      | some a, some b, some c =>
        some (fmax3 a b c,
              { pri := fp.sqrt (fp.div d.pri (self.cnt : ℚ))
                sha := fp.sqrt (fp.div d.sha (self.cnt : ℚ))
                cln := fp.sqrt (fp.div d.cln (self.cnt : ℚ)) })
      | _, _, _ => none

/-! ## Thread detection -/

/-- Source: `smapsproc_are_same`: `strcmp` on the names, then the macro `cp`
on the eight `Vm` fields in the order of the source. -/
def smapsproc_are_same (self that : smapsproc_t) : Int :=
  if self.smapsproc_pid.Name ≠ that.smapsproc_pid.Name then 0
  else if self.smapsproc_pid.VmSize ≠ that.smapsproc_pid.VmSize then 0
  else if self.smapsproc_pid.VmLck ≠ that.smapsproc_pid.VmLck then 0
  else if self.smapsproc_pid.VmRSS ≠ that.smapsproc_pid.VmRSS then 0
  else if self.smapsproc_pid.VmData ≠ that.smapsproc_pid.VmData then 0
  else if self.smapsproc_pid.VmStk ≠ that.smapsproc_pid.VmStk then 0
  else if self.smapsproc_pid.VmExe ≠ that.smapsproc_pid.VmExe then 0
  else if self.smapsproc_pid.VmLib ≠ that.smapsproc_pid.VmLib then 0
  else if self.smapsproc_pid.VmPTE ≠ that.smapsproc_pid.VmPTE then 0
  else 1

/-! ## Output table of the diff report -/

/-- Source: `diff_emit_table` (nested in `smapsfilt_diff`), the loop
`for( int k = 0; k <= trim_cols; ++k )` that computes `N[i]` from the row
`cur = out_row[i]` and the row `prev = out_row[i-1]`; the arguments are the
iterations left, `k` and the value of `N[i]` so far.  A row has
`out_dta = 4 + 1 + size + 1` entries, so the entries `0 .. 4` that the loop
reads exist. -/
def diff_emit_table_count (cur prev : List (Option String)) (trim_cols : Int) :
    Nat → Nat → Nat → Nat
  | 0, _, N => N
  | fuel + 1, k, N =>
    if (k : Int) ≤ trim_cols then
      match cur.getD k none, prev.getD k none with
      | some a, some b =>
        if a ≠ b then k else diff_emit_table_count cur prev trim_cols fuel (k + 1) k
      | _, _ => k
    else N

/-- Source: `diff_emit_table`, the loop `for( int k = 0; k < N[i]; ++k )` on one
row: the entry is freed and zeroed for the html report, and cut to the empty
string otherwise. -/
def diff_emit_table_blank (html_diff : Bool) (row : List (Option String)) (N : Nat) :
    List (Option String) :=
  (List.range N).foldl (fun r k => r.set k (if html_diff then none else some "")) row

/-- Source: `diff_emit_table`, the block `if( trim_cols > 0 )`: first `N[i]` for
every row `i ≥ 1`, then the blanking of every row `i ≥ 1`; the result is the
table `out_row` that is printed. -/
def diff_emit_table (out_row : List (List (Option String))) (html_diff : Bool)
    (trim_cols : Int) : List (List (Option String)) :=
  if trim_cols > 0 then
    (List.range out_row.length).map (fun i =>
      if 1 ≤ i then
        diff_emit_table_blank html_diff (out_row.getD i [])
          ((((List.range out_row.length).map (fun i =>
            if 1 ≤ i then
              diff_emit_table_count (out_row.getD i []) (out_row.getD (i - 1) []) trim_cols
                (trim_cols + 1).toNat 0 0
            else 0)).getD i 0))
      else out_row.getD i [])
  else out_row

/-- Source: `smapsfilt_diff`, the statement `if( trim_cols > 4 ) trim_cols = 4;`
followed (at the end of the function) by the call of `diff_emit_table`. -/
def diff_trim (out_row : List (List (Option String))) (html_diff : Bool)
    (trim_cols : Int) : List (List (Option String)) :=
  diff_emit_table out_row html_diff (if trim_cols > 4 then 4 else trim_cols)

/-- The conversions of `printf` that `diff_emit_entry` applies to a `double`:
`fmt_g` is `"%g"`, `fmt_f1` is `"%.1f\n"`.  They belong to the C library and
are taken as parameters. -/
structure fmt_ops where
  fmt_g : ℚ → String
  fmt_f1 : ℚ → String

/-- The reverse lookup arrays `appl_str`, `type_str`, `path_str` of
`smapsfilt_diff`. -/
structure diff_str_t where
  appl_str : List String := []
  type_str : List String := []
  path_str : List String := []
deriving DecidableEq, Repr

/-- Source: `diff_emit_entry` (nested in `smapsfilt_diff`): the row of
`out_dta = 4 + 1 + cnt + 1` entries for one measure of the group `k`; `none` when
a key field indexes past its reverse lookup array or `data` has fewer than
`k->cnt` values. -/
def diff_emit_entry (fmt : fmt_ops) (str : diff_str_t) (k : diffkey_t) (name : String)
    (rank : ℚ) (data : List ℚ) : Option (List (Option String)) :=
  if (k.appl ≥ 0 → k.appl.toNat < str.appl_str.length) ∧
     (k.type ≥ 0 → k.type.toNat < str.type_str.length) ∧
     (k.path ≥ 0 → k.path.toNat < str.path_str.length) ∧
     k.cnt.toNat ≤ data.length then
    some ([ (if k.appl ≥ 0 then str.appl_str[k.appl.toNat]? else none),
            (if k.inst ≥ 0 then some (String.mk (fmt_d k.inst)) else none),
            (if k.type ≥ 0 then str.type_str[k.type.toNat]? else none),
            (if k.path ≥ 0 then str.path_str[k.path.toNat]? else none),
            some name ]
          ++ (data.take k.cnt.toNat).map (fun x => some (fmt.fmt_g x))
          ++ [some (fmt.fmt_f1 rank)])
  else none

/-- Source: `smapsfilt_diff`, the loops `d[j] = diffkey_val(k, j)->pri` (and
`sha`, `cln`): the values of one measure `f` over the slots of `k`. -/
def diff_measure (k : diffkey_t) (f : diffval_t → ℚ) : Option (List ℚ) :=
  (int_range 0 k.cnt).mapM (fun j => (diffkey_val k j).map f)

/-- Source: `smapsfilt_diff`, one of the three blocks
`if( val.pri >= min_rank ) { ...; diff_emit_entry(k, "pri", val.pri, d); }`:
the rows `out_row` with the row of the measure appended when its deviation
reaches `min_rank`. -/
def diff_emit_measure (fmt : fmt_ops) (str : diff_str_t) (min_rank : ℚ) (k : diffkey_t)
    (name : String) (dev : ℚ) (f : diffval_t → ℚ)
    (out_row : List (List (Option String))) : Option (List (List (Option String))) :=
  if dev ≥ min_rank then
    match diff_measure k f with
    | none => none
    | some d =>
      match diff_emit_entry fmt str k name dev d with
      | none => none
      | some out => some (out_row ++ [out])
  else some out_row

/-- Source: `smapsfilt_diff`, body of the loop over `diff_tab` that emits the
rows of one group. -/
def diff_emit_group (fp : fp_ops) (fmt : fmt_ops) (str : diff_str_t) (min_rank : ℚ)
    (out_row : List (List (Option String))) (k : diffkey_t) :
    Option (List (List (Option String))) :=
  match diffkey_rank fp k with
  | none => none
  | some (rank, val) =>
    if rank ≥ min_rank then
      match diff_emit_measure fmt str min_rank k "pri" val.pri (fun v => v.pri) out_row with
      | none => none
      | some out1 =>
        match diff_emit_measure fmt str min_rank k "sha" val.sha (fun v => v.sha) out1 with
        | none => none
        | some out2 =>
          diff_emit_measure fmt str min_rank k "cln" val.cln (fun v => v.cln) out2
    else some out_row

/-- Source: `smapsfilt_diff`, the loop `for( size_t i = 0; i < diff_cnt; ++i )`
with `double min_rank = 4`: the rows `out_row` before trimming. -/
def diff_emit (fp : fp_ops) (fmt : fmt_ops) (str : diff_str_t)
    (diff_tab : List diffkey_t) : Option (List (List (Option String))) :=
  diff_tab.foldlM (diff_emit_group fp fmt str 4) []

/-! ## Enumeration pass of the diff report -/

/-- Source: `cmp_app_pid` (nested in `smapsfilt_diff`), the comparison that
`array_sort` is given: the difference of the application ids, then the
difference of the `PID` fields. -/
def cmp_app_pid (p1 p2 : smapsproc_t) : Option Int :=
  match int_sub p1.smapsproc_AID p2.smapsproc_AID with
  | none => none
  | some r =>
    if r ≠ 0 then some r else
    match int_sub p1.smapsproc_PID p2.smapsproc_PID with
    | none => none
    | some r => if r ≠ 0 then some r else some 0

/-- Source: `smapsfilt_diff`, "initialize symbol tables": the five type names
interned into `type_tab` in this order. -/
def diff_type_tab : symtab_t :=
  (symtab_enumerate (symtab_enumerate (symtab_enumerate (symtab_enumerate
    (symtab_enumerate symtab_create "code").1 "data").1 "heap").1 "anon").1 "stack").1

/-- Source: `smapsfilt_diff`, first loop over the snapshots, body for one
process: the name goes into `appl_tab` (first component), the path of every
mapping into `path_tab` (second component). -/
def diff_intern_proc (st : symtab_t × symtab_t) (proc : smapsproc_t) : symtab_t × symtab_t :=
  ((symtab_enumerate st.1 proc.smapsproc_pid.Name).1,
   proc.smapsproc_mapplist.foldl
     (fun path_tab mapp => (symtab_enumerate path_tab mapp.smapsmapp_map.path).1) st.2)

/-- Source: `smapsfilt_diff`, first loop over the snapshots: `(appl_tab,
path_tab)` before `symtab_renum`. -/
def diff_intern (smapsfilt_snaplist : List smapssnap_t) : symtab_t × symtab_t :=
  smapsfilt_snaplist.foldl
    (fun st snap => snap.smapssnap_proclist.foldl diff_intern_proc st)
    (symtab_create, symtab_create)

/-- Source: `smapsfilt_diff`, second loop over the snapshots, first inner loop:
`proc->smapsproc_PID = proc->smapsproc_pid.Pid` and
`proc->smapsproc_AID = symtab_enumerate(appl_tab, Name)`.  The state is
`appl_tab` and the records done so far. -/
def diff_assign_proc (st : symtab_t × List smapsproc_t) (proc : smapsproc_t) :
    symtab_t × List smapsproc_t :=
  ((symtab_enumerate st.1 proc.smapsproc_pid.Name).1,
   st.2 ++ [{ proc with
     smapsproc_PID := proc.smapsproc_pid.Pid
     smapsproc_AID := (symtab_enumerate st.1 proc.smapsproc_pid.Name).2 }])

/-- Source: `smapsfilt_diff`, the innermost loop of the numbering: the mapping
takes `AID` and `PID` of its process and its type and path ids.  The state is
`(type_tab, path_tab)` and the mappings done so far. -/
def diff_number_mapp (AID PID : Int) (st : (symtab_t × symtab_t) × List smapsmapp_t)
    (mapp : smapsmapp_t) : (symtab_t × symtab_t) × List smapsmapp_t :=
  (((symtab_enumerate st.1.1 mapp.smapsmapp_map.type).1,
    (symtab_enumerate st.1.2 mapp.smapsmapp_map.path).1),
   st.2 ++ [{ mapp with
     smapsmapp_AID := AID
     smapsmapp_PID := PID
     smapsmapp_TID := (symtab_enumerate st.1.1 mapp.smapsmapp_map.type).2
     smapsmapp_LID := (symtab_enumerate st.1.2 mapp.smapsmapp_map.path).2 }])

/-- The variables of the numbering loop of `smapsfilt_diff`: `aid`, `pid`,
`cnt` (set to `-1, -1, 0` before the loop), `inst_cnt`, the two tables that the
loop interns into, and the process records done so far. -/
structure diff_number_t where
  aid : Int := -1
  pid : Int := -1
  cnt : Int := 0
  inst_cnt : Int := 0
  type_tab : symtab_t := {}
  path_tab : symtab_t := {}
  proclist : List smapsproc_t := []

/-- Source: `smapsfilt_diff`, the `if( aid != ... ) else if( pid != ... )` of
the numbering loop: the new values of `(aid, pid, cnt, inst_cnt)`. -/
def diff_number_next (st : diff_number_t) (proc : smapsproc_t) : Int × Int × Int × Int :=
  if st.aid ≠ proc.smapsproc_AID then
    (proc.smapsproc_AID, proc.smapsproc_PID, 0, st.inst_cnt)
  else if st.pid ≠ proc.smapsproc_PID then
    (st.aid, proc.smapsproc_PID, st.cnt + 1,
     if st.inst_cnt < st.cnt + 1 then st.cnt + 1 else st.inst_cnt)
  else (st.aid, st.pid, st.cnt, st.inst_cnt)

/-- Source: `smapsfilt_diff`, body of the numbering loop for one process:
`proc->smapsproc_PID = cnt`, then the loop over its mappings. -/
def diff_number_proc (st : diff_number_t) (proc : smapsproc_t) : diff_number_t :=
  { aid := (diff_number_next st proc).1
    pid := (diff_number_next st proc).2.1
    cnt := (diff_number_next st proc).2.2.1
    inst_cnt := (diff_number_next st proc).2.2.2
    type_tab := (proc.smapsproc_mapplist.foldl
      (diff_number_mapp proc.smapsproc_AID (diff_number_next st proc).2.2.1)
      ((st.type_tab, st.path_tab), [])).1.1
    path_tab := (proc.smapsproc_mapplist.foldl
      (diff_number_mapp proc.smapsproc_AID (diff_number_next st proc).2.2.1)
      ((st.type_tab, st.path_tab), [])).1.2
    proclist := st.proclist ++ [{ proc with
      smapsproc_PID := (diff_number_next st proc).2.2.1
      smapsproc_mapplist := (proc.smapsproc_mapplist.foldl
        (diff_number_mapp proc.smapsproc_AID (diff_number_next st proc).2.2.1)
        ((st.type_tab, st.path_tab), [])).2 }] }

/-- The tables and the counter that `smapsfilt_diff` carries from one snapshot
to the next in its second loop. -/
structure diff_enum_t where
  appl_tab : symtab_t := {}
  type_tab : symtab_t := {}
  path_tab : symtab_t := {}
  inst_cnt : Int := 0

/-- Source: `smapsfilt_diff`, second loop over the snapshots, body for one
snapshot: ids, `array_sort(&snap->smapssnap_proclist, cmp_app_pid)`, numbering.
`array_sort` belongs to libsysperf and is the parameter `sort_app_pid`.  The
state is the tables and the snapshots done so far. -/
def diff_enumerate_snap (sort_app_pid : List smapsproc_t → List smapsproc_t)
    (st : diff_enum_t × List smapssnap_t) (snap : smapssnap_t) :
    diff_enum_t × List smapssnap_t :=
  ({ appl_tab := (snap.smapssnap_proclist.foldl diff_assign_proc (st.1.appl_tab, [])).1
     type_tab := ((sort_app_pid
        (snap.smapssnap_proclist.foldl diff_assign_proc (st.1.appl_tab, [])).2).foldl
        diff_number_proc { inst_cnt := st.1.inst_cnt, type_tab := st.1.type_tab,
                           path_tab := st.1.path_tab }).type_tab
     path_tab := ((sort_app_pid
        (snap.smapssnap_proclist.foldl diff_assign_proc (st.1.appl_tab, [])).2).foldl
        diff_number_proc { inst_cnt := st.1.inst_cnt, type_tab := st.1.type_tab,
                           path_tab := st.1.path_tab }).path_tab
     inst_cnt := ((sort_app_pid
        (snap.smapssnap_proclist.foldl diff_assign_proc (st.1.appl_tab, [])).2).foldl
        diff_number_proc { inst_cnt := st.1.inst_cnt, type_tab := st.1.type_tab,
                           path_tab := st.1.path_tab }).inst_cnt },
   st.2 ++ [{ snap with smapssnap_proclist := ((sort_app_pid
        (snap.smapssnap_proclist.foldl diff_assign_proc (st.1.appl_tab, [])).2).foldl
        diff_number_proc { inst_cnt := st.1.inst_cnt, type_tab := st.1.type_tab,
                           path_tab := st.1.path_tab }).proclist }])

/-- Source: `smapsfilt_diff`, from `symtab_create` to the end of the section
"enumerate data": the tables and the snapshots with their ids.
`symtab_renum` is the parameter `symtab_renum`. -/
def diff_enumerate (symtab_renum : symtab_t → symtab_t)
    (sort_app_pid : List smapsproc_t → List smapsproc_t)
    (smapsfilt_snaplist : List smapssnap_t) : diff_enum_t × List smapssnap_t :=
  smapsfilt_snaplist.foldl (diff_enumerate_snap sort_app_pid)
    ({ appl_tab := symtab_renum (diff_intern smapsfilt_snaplist).1
       type_tab := diff_type_tab
       path_tab := symtab_renum (diff_intern smapsfilt_snaplist).2 }, [])

/-- Source: `smapsfilt_diff`, "reverse lookup tables": entry `id` of each array
is the key with that id. -/
def diff_str (e : diff_enum_t) : diff_str_t :=
  { appl_str := e.appl_tab.symtab_entry
    type_str := e.type_tab.symtab_entry
    path_str := e.path_tab.symtab_entry }

/-- Source: `smapsfilt_diff`: enumeration, accumulation, emission and trimming;
the result is the table of rows that `diff_emit_table` prints (the opening of
the output file is not modelled). -/
def smapsfilt_diff (fp : fp_ops) (fmt : fmt_ops) (symtab_renum : symtab_t → symtab_t)
    (sort_app_pid : List smapsproc_t → List smapsproc_t)
    (smapsfilt_snaplist : List smapssnap_t) (diff_lev : Int) (html_diff : Bool)
    (trim_cols : Int) : Option (List (List (Option String))) :=
  match diff_accumulate fp (diff_enumerate symtab_renum sort_app_pid smapsfilt_snaplist).2
      diff_lev with
  | none => none
  | some diff_tab =>
    match diff_emit fp fmt
        (diff_str (diff_enumerate symtab_renum sort_app_pid smapsfilt_snaplist).1) diff_tab with
    | none => none
    | some out_row => some (diff_trim out_row html_diff trim_cols)

/-! ## Strings and numbers of the capture parser

A C string is modelled by the list of its bytes before the terminating NUL,
one `Char` per byte; the records hold them as `String`. -/

/-- Source: `slice`, "split string at separator char": bytes `1 .. 32` are
skipped, then the token runs up to the first byte `<= 32` (for `sep < 0`) or
the first byte equal to `sep`, which is overwritten by NUL and stepped over.
The result is the token and the rest (`*ppos` after the call). -/
def slice (pos : List Char) (sep : Int) : List Char × List Char :=
  if sep < 0 then
    ((pos.dropWhile (fun c => decide (0 < c.toNat ∧ c.toNat ≤ 32))).takeWhile
        (fun c => decide (¬ c.toNat ≤ 32)),
     ((pos.dropWhile (fun c => decide (0 < c.toNat ∧ c.toNat ≤ 32))).dropWhile
        (fun c => decide (¬ c.toNat ≤ 32))).drop 1)
  else
    ((pos.dropWhile (fun c => decide (0 < c.toNat ∧ c.toNat ≤ 32))).takeWhile
        (fun c => decide (¬ (c.toNat : Int) = sep)),
     ((pos.dropWhile (fun c => decide (0 < c.toNat ∧ c.toNat ≤ 32))).dropWhile
        (fun c => decide (¬ (c.toNat : Int) = sep))).drop 1)

/-- The value of the byte `c` as a digit of base `base` (`strtoul` and `strtol`
of the C library): `0 .. 9`, then the letters of either case. -/
def digit_value (base : Nat) (c : Char) : Option Nat :=
  if 48 ≤ c.toNat ∧ c.toNat ≤ 57 then
    (if c.toNat - 48 < base then some (c.toNat - 48) else none)
  else if 97 ≤ c.toNat ∧ c.toNat ≤ 122 then
    (if c.toNat - 87 < base then some (c.toNat - 87) else none)
  else if 65 ≤ c.toNat ∧ c.toNat ≤ 90 then
    (if c.toNat - 55 < base then some (c.toNat - 55) else none)
  else none

/-- The value of the longest prefix of `s` that consists of digits of base
`base`; 0 when there is none. -/
def strto_digits (base : Nat) (s : List Char) : Nat :=
  (s.takeWhile (fun c => (digit_value base c).isSome)).foldl
    (fun acc c => acc * base + (digit_value base c).getD 0) 0

/-- The function `isspace` of the C library in the C locale. -/
def c_isspace (c : Char) : Bool := decide (c.toNat = 32 ∨ (9 ≤ c.toNat ∧ c.toNat ≤ 13))

/-- The subject of `strtoul` and `strtol`: white space is skipped, then an
optional sign, then for base 16 an optional `0x`.  The result is the sign
(`true` for `-`) and the text at which the digits start. -/
def strto_subject (s : List Char) (base : Nat) : Bool × List Char :=
  match s.dropWhile c_isspace with
  | '-' :: rest =>
    (true, if base = 16 ∧ (rest.take 2 = ['0', 'x'] ∨ rest.take 2 = ['0', 'X'])
           then rest.drop 2 else rest)
  | '+' :: rest =>
    (false, if base = 16 ∧ (rest.take 2 = ['0', 'x'] ∨ rest.take 2 = ['0', 'X'])
            then rest.drop 2 else rest)
  | rest =>
    (false, if base = 16 ∧ (rest.take 2 = ['0', 'x'] ∨ rest.take 2 = ['0', 'X'])
            then rest.drop 2 else rest)

/-- The function `strtoul(s, 0, base)` of the C library for base 10 or 16 as
the C standard describes it; `ULONG_MOD` is `ULONG_MAX + 1` of the platform
(`2 ^ 32` or `2 ^ 64`), a parameter.  A value that does not fit gives
`ULONG_MAX`; a minus sign negates in `unsigned long`. -/
def strtoul (ULONG_MOD : Nat) (s : List Char) (base : Nat) : Nat :=
  if strto_digits base (strto_subject s base).2 ≥ ULONG_MOD then ULONG_MOD - 1
  else if (strto_subject s base).1 then
    (ULONG_MOD - strto_digits base (strto_subject s base).2) % ULONG_MOD
  else strto_digits base (strto_subject s base).2

/-- The function `strtol(s, 0, base)` of the C library; `LONG_MAX` is
`ULONG_MOD / 2 - 1`.  A value that does not fit gives `LONG_MAX` or
`LONG_MIN`. -/
def strtol (ULONG_MOD : Nat) (s : List Char) (base : Nat) : Int :=
  if (strto_subject s base).1 then
    (if strto_digits base (strto_subject s base).2 > ULONG_MOD / 2 then
      - ((ULONG_MOD / 2 : Nat) : Int)
     else - ((strto_digits base (strto_subject s base).2 : Nat) : Int))
  else
    (if strto_digits base (strto_subject s base).2 ≥ ULONG_MOD / 2 then
      ((ULONG_MOD / 2 - 1 : Nat) : Int)
     else ((strto_digits base (strto_subject s base).2 : Nat) : Int))

/-- Conversion of a `long` to `int` (the value modulo `2 ^ 32`, taken in
`INT_MIN .. INT_MAX`). -/
def long_to_int (x : Int) : Int :=
  if x % 4294967296 ≤ INT_MAX then x % 4294967296 else x % 4294967296 - 4294967296

/-! ## Unknown keys -/

/-- Source: `unknown_add`: the strings of the argz vector `un_data` are
searched for `txt`, which is appended when it is not found; the result is the
vector and the return value. -/
def unknown_add (self : List String) (txt : String) : List String × Int :=
  if txt ∈ self then (self, 0) else (self ++ [txt], 1)

/-- The text that `meminfo_parse` and `pidinfo_parse` print to `stderr` for an
unknown key: `"%s: Unknown key: '%s' = '%s'\n"` with the name of the
function. -/
def unknown_message (func key val : String) : String :=
  func ++ ": Unknown key: '" ++ key ++ "' = '" ++ val ++ "'\n"

/-! ## Counter lines and metadata lines -/

/-- Source: `meminfo_parse`.  The state is the record, the vector of the
`static unknown_t unkn` of the function and the text printed to `stderr` by
the call. -/
def meminfo_parse (ULONG_MOD : Nat) (unkn : List String) (self : meminfo_t)
    (line : List Char) : meminfo_t × List String × List String :=
  if (slice line 58).1 = "Size".data then
    ({ self with Size := strtoul ULONG_MOD (slice (slice line 58).2 (-1)).1 10 % UINT_MOD },
     unkn, [])
  else if (slice line 58).1 = "Rss".data then
    ({ self with Rss := strtoul ULONG_MOD (slice (slice line 58).2 (-1)).1 10 % UINT_MOD },
     unkn, [])
  else if (slice line 58).1 = "Shared_Clean".data then
    ({ self with
       Shared_Clean := strtoul ULONG_MOD (slice (slice line 58).2 (-1)).1 10 % UINT_MOD },
     unkn, [])
  else if (slice line 58).1 = "Shared_Dirty".data then
    ({ self with
       Shared_Dirty := strtoul ULONG_MOD (slice (slice line 58).2 (-1)).1 10 % UINT_MOD },
     unkn, [])
  else if (slice line 58).1 = "Private_Clean".data then
    ({ self with
       Private_Clean := strtoul ULONG_MOD (slice (slice line 58).2 (-1)).1 10 % UINT_MOD },
     unkn, [])
  else if (slice line 58).1 = "Private_Dirty".data then
    ({ self with
       Private_Dirty := strtoul ULONG_MOD (slice (slice line 58).2 (-1)).1 10 % UINT_MOD },
     unkn, [])
  else
    (self, (unknown_add unkn (String.mk (slice line 58).1)).1,
     if (unknown_add unkn (String.mk (slice line 58).1)).2 ≠ 0 then
       [unknown_message "meminfo_parse" (String.mk (slice line 58).1)
          (String.mk (slice (slice line 58).2 (-1)).1)]
     else [])

/-- Source: `pidinfo_parse`; the state is as for `meminfo_parse`.  The name
loses its leading `-` characters. -/
def pidinfo_parse (ULONG_MOD : Nat) (unkn : List String) (self : pidinfo_t)
    (line : List Char) : pidinfo_t × List String × List String :=
  if (slice line 58).1 = "Name".data then
    ({ self with
       Name := String.mk ((slice (slice line 58).2 (-1)).1.dropWhile (fun c => c = '-')) },
     unkn, [])
  else if (slice line 58).1 = "Pid".data then
    ({ self with
       Pid := long_to_int (strtol ULONG_MOD (slice (slice line 58).2 (-1)).1 10) }, unkn, [])
  else if (slice line 58).1 = "PPid".data then
    ({ self with
       PPid := long_to_int (strtol ULONG_MOD (slice (slice line 58).2 (-1)).1 10) }, unkn, [])
  else if (slice line 58).1 = "Threads".data then
    ({ self with
       Threads := long_to_int (strtol ULONG_MOD (slice (slice line 58).2 (-1)).1 10) },
     unkn, [])
  else if (slice line 58).1 = "VmSize".data then
    ({ self with VmSize := strtoul ULONG_MOD (slice (slice line 58).2 (-1)).1 10 % UINT_MOD },
     unkn, [])
  else if (slice line 58).1 = "VmLck".data then
    ({ self with VmLck := strtoul ULONG_MOD (slice (slice line 58).2 (-1)).1 10 % UINT_MOD },
     unkn, [])
  else if (slice line 58).1 = "VmRSS".data then
    ({ self with VmRSS := strtoul ULONG_MOD (slice (slice line 58).2 (-1)).1 10 % UINT_MOD },
     unkn, [])
  else if (slice line 58).1 = "VmData".data then
    ({ self with VmData := strtoul ULONG_MOD (slice (slice line 58).2 (-1)).1 10 % UINT_MOD },
     unkn, [])
  else if (slice line 58).1 = "VmStk".data then
    ({ self with VmStk := strtoul ULONG_MOD (slice (slice line 58).2 (-1)).1 10 % UINT_MOD },
     unkn, [])
  else if (slice line 58).1 = "VmExe".data then
    ({ self with VmExe := strtoul ULONG_MOD (slice (slice line 58).2 (-1)).1 10 % UINT_MOD },
     unkn, [])
  else if (slice line 58).1 = "VmLib".data then
    ({ self with VmLib := strtoul ULONG_MOD (slice (slice line 58).2 (-1)).1 10 % UINT_MOD },
     unkn, [])
  else if (slice line 58).1 = "VmPTE".data then
    ({ self with VmPTE := strtoul ULONG_MOD (slice (slice line 58).2 (-1)).1 10 % UINT_MOD },
     unkn, [])
  else
    (self, (unknown_add unkn (String.mk (slice line 58).1)).1,
     if (unknown_add unkn (String.mk (slice line 58).1)).2 ≠ 0 then
       [unknown_message "pidinfo_parse" (String.mk (slice line 58).1)
          (String.mk (slice (slice line 58).2 (-1)).1)]
     else [])

/-! ## Mappings and processes of a snapshot -/

/-- Source: `smapsproc_add_mapping`; `uid` is the `static int uid` of
`smapsmapp_ctor`.  The path is `none` for the null pointer.  The type of a
path that starts with `[` is printed into `char temp[32]` by `snprintf` with
`"%.*s"` and the length `strcspn(path, "]")`, so at most 31 bytes of it are
kept.  The result is the process with the mapping appended. -/
def smapsproc_add_mapping (uid : Int) (self : smapsproc_t) (head tail : Nat)
    (prot : List Char) (offs : Nat) (node : List Char) (flgs : Nat)
    (path : Option (List Char)) : smapsproc_t :=
  { self with smapsproc_mapplist := self.smapsproc_mapplist ++ [
      { smapsmapp_uid := uid
        smapsmapp_map :=
          { head := head
            tail := tail
            offs := offs
            flgs := flgs
            prot := String.mk prot
            node := String.mk node
            path := String.mk
              (if path = none ∨ path = some [] then "[anon]".data else path.getD [])
            type :=
              match (if path = none ∨ path = some [] then "[anon]".data else path.getD []) with
              | '[' :: rest => String.mk (((rest.takeWhile (fun c => c ≠ ']'))).take 31)
              | _ => if 'x' ∈ prot then "code" else "data" } }] }

/-- Source: `smapssnap_add_process`, the loop `for( int i = size; i-- > 0; )`:
the index of the last record among the first `i` whose `Pid` is `pid`. -/
def smapssnap_find_process (proclist : List smapsproc_t) (pid : Int) : Nat → Option Nat
  | 0 => none
  | i + 1 =>
    match proclist[i]? with
    | none => none
    | some proc =>
      if proc.smapsproc_pid.Pid = pid then some i
      else smapssnap_find_process proclist pid i

/-- Source: `smapssnap_add_process`; `uid` is the `static int uid` of
`smapsproc_ctor`.  The result is the snapshot, the position of the record that
is returned in the process list, and the counter. -/
def smapssnap_add_process (uid : Int) (self : smapssnap_t) (pid : Int) :
    smapssnap_t × Nat × Int :=
  match smapssnap_find_process self.smapssnap_proclist pid self.smapssnap_proclist.length with
  | some i => (self, i, uid)
  | none =>
    ({ self with smapssnap_proclist := self.smapssnap_proclist ++ [
        { smapsproc_uid := uid
          smapsproc_AID := -1
          smapsproc_PID := -1
          smapsproc_pid := { Name := "<noname>", Pid := pid, PPid := 0, Threads := 0,
                             VmSize := 0, VmLck := 0, VmRSS := 0, VmData := 0, VmStk := 0,
                             VmExe := 0, VmLib := 0, VmPTE := 0 }
          smapsproc_mapplist := []
          smapsproc_parent := none
          smapsproc_children := [] }] },
     self.smapssnap_proclist.length, uid + 1)

/-! ## Loading a capture file -/

/-- The variables of `smapssnap_load_cap`: the snapshot `self`, the pointers
`proc` and `mapp`, and the static data that its callees keep: the counters
`uid` of `smapsproc_ctor` and `smapsmapp_ctor`, the vectors `unkn` of
`pidinfo_parse` and `meminfo_parse`, and the text printed to `stderr`.  The
arrays only grow at their end while a file is loaded, so the pointer `proc` is
modelled by the position of the record in the process list and `mapp` by the
position of the mapping in the list of that process; `none` is the null
pointer. -/
structure load_t where
  snap : smapssnap_t := {}
  proc : Option Nat := none
  mapp : Option Nat := none
  proc_uid : Int := 0
  mapp_uid : Int := 0
  unkn_pid : List String := []
  unkn_mem : List String := []
  err : List String := []
deriving DecidableEq, Repr

/-- The function `isxdigit` of the C library. -/
def c_isxdigit (c : Char) : Bool :=
  decide ((48 ≤ c.toNat ∧ c.toNat ≤ 57) ∨ (97 ≤ c.toNat ∧ c.toNat ≤ 102) ∨
    (65 ≤ c.toNat ∧ c.toNat ≤ 70))

/-- Source: `hexterm` (nested in `smapssnap_load_cap`): the byte after the
leading hexadecimal digits, `none` for the terminating NUL. -/
def hexterm (s : List Char) : Option Char := (s.dropWhile c_isxdigit).head?

/-- Source: `smapssnap_load_cap`, the loop
`while( *pos && strcmp(slice(&pos, '/'), "proc") ) { }`; the result is `pos`
after the loop.  Every call of `slice` on a text that is not empty steps over
one byte at least, so the length of the text bounds the number of
iterations, which is `fuel`. -/
def load_cap_seek : Nat → List Char → List Char
  | 0, pos => pos
  | fuel + 1, pos =>
    if pos = [] then pos
    else if (slice pos 47).1 = "proc".data then (slice pos 47).2
    else load_cap_seek fuel (slice pos 47).2

/-- Source: `smapssnap_load_cap`, the branch of a line that starts with `==>`
up to the test `pid > 0 && !strcmp(slice(&pos, -1), "smaps")`: the pid when
the test holds, `none` when `assert( 0 )` is reached. -/
def load_cap_header (ULONG_MOD : Nat) (data : List Char) : Option Int :=
  if long_to_int (strtol ULONG_MOD (slice (load_cap_seek data.length data) 47).1 10) > 0 ∧
     (slice (slice (load_cap_seek data.length data) 47).2 (-1)).1 = "smaps".data then
    some (long_to_int (strtol ULONG_MOD (slice (load_cap_seek data.length data) 47).1 10))
  else none

/-- Source: `smapssnap_load_cap`, the branch of a range line: the arguments of
the call of `smapsproc_add_mapping`, and the process with the new mapping. -/
def load_cap_range (ULONG_MOD : Nat) (uid : Int) (proc : smapsproc_t) (data : List Char) :
    smapsproc_t :=
  smapsproc_add_mapping uid proc
    (strtoul ULONG_MOD (slice data 45).1 16 % UINT_MOD)
    (strtoul ULONG_MOD (slice (slice data 45).2 (-1)).1 16 % UINT_MOD)
    (slice (slice (slice data 45).2 (-1)).2 (-1)).1
    (strtoul ULONG_MOD (slice (slice (slice (slice data 45).2 (-1)).2 (-1)).2 (-1)).1 16
      % UINT_MOD)
    (slice (slice (slice (slice (slice data 45).2 (-1)).2 (-1)).2 (-1)).2 (-1)).1
    (strtoul ULONG_MOD
      (slice (slice (slice (slice (slice (slice data 45).2 (-1)).2 (-1)).2 (-1)).2 (-1)).2
        (-1)).1 10 % UINT_MOD)
    (some (slice (slice (slice (slice (slice (slice (slice data 45).2 (-1)).2 (-1)).2
      (-1)).2 (-1)).2 (-1)).2 0).1)

/-- Source: `smapssnap_load_cap`, body of the loop over the lines for the line
`line` that `getline` has read: the line is cut at the first `\r` or `\n`,
then it is an empty line, a header, a metadata line, a range line or a counter
line.  The result is `none` when an `assert` fails. -/
def load_cap_line (ULONG_MOD : Nat) (st : load_t) (line : List Char) : Option load_t :=
  if line.takeWhile (fun c => decide (c ≠ '\r' ∧ c ≠ '\n')) = [] then some st
  else if (line.takeWhile (fun c => decide (c ≠ '\r' ∧ c ≠ '\n'))).take 3 = "==>".data then
    match load_cap_header ULONG_MOD (line.takeWhile (fun c => decide (c ≠ '\r' ∧ c ≠ '\n'))) with
    | none => none
    | some pid =>
      some { st with
        snap := (smapssnap_add_process st.proc_uid st.snap pid).1
        proc := some (smapssnap_add_process st.proc_uid st.snap pid).2.1
        mapp := none
        proc_uid := (smapssnap_add_process st.proc_uid st.snap pid).2.2 }
  else if (line.takeWhile (fun c => decide (c ≠ '\r' ∧ c ≠ '\n'))).head? = some '#' then
    match st.proc with
    | none => none
    | some p =>
      match st.snap.smapssnap_proclist[p]? with
      | none => none
      | some proc =>
        some { st with
          snap := { st.snap with
            smapssnap_format := 1
            smapssnap_proclist := st.snap.smapssnap_proclist.set p
              { proc with
                smapsproc_pid := (pidinfo_parse ULONG_MOD st.unkn_pid proc.smapsproc_pid
                  ((line.takeWhile (fun c => decide (c ≠ '\r' ∧ c ≠ '\n'))).drop 1)).1 } }
          unkn_pid := (pidinfo_parse ULONG_MOD st.unkn_pid proc.smapsproc_pid
            ((line.takeWhile (fun c => decide (c ≠ '\r' ∧ c ≠ '\n'))).drop 1)).2.1
          err := st.err ++ (pidinfo_parse ULONG_MOD st.unkn_pid proc.smapsproc_pid
            ((line.takeWhile (fun c => decide (c ≠ '\r' ∧ c ≠ '\n'))).drop 1)).2.2 }
  else if hexterm (line.takeWhile (fun c => decide (c ≠ '\r' ∧ c ≠ '\n'))) = some '-' then
    match st.proc with
    | none => none
    | some p =>
      match st.snap.smapssnap_proclist[p]? with
      | none => none
      | some proc =>
        some { st with
          snap := { st.snap with
            smapssnap_proclist := st.snap.smapssnap_proclist.set p
              (load_cap_range ULONG_MOD st.mapp_uid proc
                (line.takeWhile (fun c => decide (c ≠ '\r' ∧ c ≠ '\n')))) }
          mapp := some proc.smapsproc_mapplist.length
          mapp_uid := st.mapp_uid + 1 }
  else
    match st.mapp, st.proc with
    | some m, some p =>
      match st.snap.smapssnap_proclist[p]? with
      | none => none
      | some proc =>
        match proc.smapsproc_mapplist[m]? with
        | none => none
        | some mapp =>
          some { st with
            snap := { st.snap with
              smapssnap_proclist := st.snap.smapssnap_proclist.set p
                { proc with
                  smapsproc_mapplist := proc.smapsproc_mapplist.set m
                    { mapp with
                      smapsmapp_mem := (meminfo_parse ULONG_MOD st.unkn_mem
                        mapp.smapsmapp_mem
                        (line.takeWhile (fun c => decide (c ≠ '\r' ∧ c ≠ '\n')))).1 } } }
            unkn_mem := (meminfo_parse ULONG_MOD st.unkn_mem mapp.smapsmapp_mem
              (line.takeWhile (fun c => decide (c ≠ '\r' ∧ c ≠ '\n')))).2.1
            err := st.err ++ (meminfo_parse ULONG_MOD st.unkn_mem mapp.smapsmapp_mem
              (line.takeWhile (fun c => decide (c ≠ '\r' ∧ c ≠ '\n')))).2.2 }
    | _, _ => none

/-- The lines that `getline` reads from a file with the content `text`, each
without its `\n`; `fuel` bounds their number. -/
def text_lines_from : Nat → List Char → List (List Char)
  | 0, _ => []
  | fuel + 1, text =>
    if text = [] then []
    else text.takeWhile (fun c => decide (c ≠ '\n')) ::
      text_lines_from fuel ((text.dropWhile (fun c => decide (c ≠ '\n'))).drop 1)

/-- The lines of a file with the content `text`. -/
def text_lines (text : List Char) : List (List Char) := text_lines_from text.length text

/-- Source: `smapssnap_load_cap` for a file `path` that can be opened and has
the content `text`; the pointers `proc` and `mapp` start as null pointers.
The result is `none` when an `assert` fails. -/
def smapssnap_load_cap (ULONG_MOD : Nat) (st : load_t) (path : String) (text : List Char) :
    Option load_t :=
  (text_lines text).foldlM (load_cap_line ULONG_MOD)
    { st with snap := { st.snap with smapssnap_source := path }, proc := none, mapp := none }

/-- Source: `smapssnap_create`: the constructor of the root process takes the
next value of the counter `uid` of `smapsproc_ctor`.  The result is the
snapshot and the counter. -/
def smapssnap_create (uid : Int) : smapssnap_t × Int :=
  ({ smapssnap_source := "<unset>"
     smapssnap_format := 0
     smapssnap_proclist := []
     smapssnap_rootproc :=
       { smapsproc_uid := uid
         smapsproc_AID := -1
         smapsproc_PID := -1
         smapsproc_pid := { Name := "<noname>", Pid := 0, PPid := 0, Threads := 0,
                            VmSize := 0, VmLck := 0, VmRSS := 0, VmData := 0, VmStk := 0,
                            VmExe := 0, VmLib := 0, VmPTE := 0 }
         smapsproc_mapplist := []
         smapsproc_parent := none
         smapsproc_children := [] } }, uid + 1)

/-! ## Saving a capture file -/

/-- Hexadecimal digits of `n` in lower case, most significant first (`fuel`
bounds the digit count). -/
def hex_digits : Nat → Nat → List Char
  | 0, _ => []
  | fuel + 1, n =>
    if n < 16 then [Nat.digitChar n]
    else hex_digits fuel (n / 16) ++ [Nat.digitChar (n % 16)]

/-- The conversion `%08x` of `printf`. -/
def fmt_08x (n : Nat) : List Char :=
  List.replicate (8 - (hex_digits (n + 1) n).length) '0' ++ hex_digits (n + 1) n

/-- A conversion of `printf` with the flag `-` and the width `w`: padding with
blanks on the right. -/
def fmt_left (w : Nat) (s : List Char) : List Char := s ++ List.replicate (w - s.length) ' '

/-- A conversion of `printf` with the width `w`: padding with blanks on the
left. -/
def fmt_right (w : Nat) (s : List Char) : List Char := List.replicate (w - s.length) ' ' ++ s

/-- Source: `smapssnap_save_cap`, the macro `Pu` of the inner loop:
`fprintf(file, "%-14s %8u kB\n", #v":", mem->v)`. -/
def save_cap_counter (name : String) (v : Nat) : List Char :=
  fmt_left 14 (name.data ++ [':']) ++ [' '] ++ fmt_right 8 (fmt_u v) ++ " kB\n".data

/-- Source: `smapssnap_save_cap`, body of the loop over the mappings of a
process: the range line and the six counter lines. -/
def save_cap_mapp (mapp : smapsmapp_t) : List Char :=
  fmt_08x mapp.smapsmapp_map.head ++ ['-'] ++ fmt_08x mapp.smapsmapp_map.tail ++ [' '] ++
  mapp.smapsmapp_map.prot.data ++ [' '] ++ fmt_08x mapp.smapsmapp_map.offs ++ [' '] ++
  mapp.smapsmapp_map.node.data ++ [' '] ++ fmt_left 10 (fmt_u mapp.smapsmapp_map.flgs) ++
  [' '] ++ mapp.smapsmapp_map.path.data ++ ['\n'] ++
  save_cap_counter "Size" mapp.smapsmapp_mem.Size ++
  save_cap_counter "Rss" mapp.smapsmapp_mem.Rss ++
  save_cap_counter "Shared_Clean" mapp.smapsmapp_mem.Shared_Clean ++
  save_cap_counter "Shared_Dirty" mapp.smapsmapp_mem.Shared_Dirty ++
  save_cap_counter "Private_Clean" mapp.smapsmapp_mem.Private_Clean ++
  save_cap_counter "Private_Dirty" mapp.smapsmapp_mem.Private_Dirty

/-- Source: `smapssnap_save_cap`, the lines that the macros `Ps`, `Pi` and `Pu`
print for a process: the name and the three `int` fields, and the eight `Vm`
fields when one of them is not 0. -/
def save_cap_pidinfo (pi : pidinfo_t) : List Char :=
  "#Name: ".data ++ pi.Name.data ++ ['\n'] ++
  "#Pid: ".data ++ fmt_d pi.Pid ++ ['\n'] ++
  "#PPid: ".data ++ fmt_d pi.PPid ++ ['\n'] ++
  "#Threads: ".data ++ fmt_d pi.Threads ++ ['\n'] ++
  (if pi.VmSize ≠ 0 ∨ pi.VmLck ≠ 0 ∨ pi.VmRSS ≠ 0 ∨ pi.VmData ≠ 0 ∨
      pi.VmStk ≠ 0 ∨ pi.VmExe ≠ 0 ∨ pi.VmLib ≠ 0 ∨ pi.VmPTE ≠ 0 then
    "#VmSize: ".data ++ fmt_u pi.VmSize ++ ['\n'] ++
    "#VmLck: ".data ++ fmt_u pi.VmLck ++ ['\n'] ++
    "#VmRSS: ".data ++ fmt_u pi.VmRSS ++ ['\n'] ++
    "#VmData: ".data ++ fmt_u pi.VmData ++ ['\n'] ++
    "#VmStk: ".data ++ fmt_u pi.VmStk ++ ['\n'] ++
    "#VmExe: ".data ++ fmt_u pi.VmExe ++ ['\n'] ++
    "#VmLib: ".data ++ fmt_u pi.VmLib ++ ['\n'] ++
    "#VmPTE: ".data ++ fmt_u pi.VmPTE ++ ['\n']
  else [])

/-- Source: `smapssnap_save_cap`, body of the loop over the processes. -/
def save_cap_proc (proc : smapsproc_t) : List Char :=
  "==> /proc/".data ++ fmt_d proc.smapsproc_pid.Pid ++ "/smaps <==\n".data ++
  save_cap_pidinfo proc.smapsproc_pid ++
  (proc.smapsproc_mapplist.map save_cap_mapp).flatten ++ ['\n']

/-- Source: `smapssnap_save_cap` for a file that can be opened: the process
list is sorted by `array_sort` with `smapsproc_compare_pid_cb` (libsysperf, the
parameter `sort_pid`); the result is the snapshot and the content of the
file. -/
def smapssnap_save_cap (sort_pid : List smapsproc_t → List smapsproc_t) (self : smapssnap_t) :
    smapssnap_t × List Char :=
  ({ self with smapssnap_proclist := sort_pid self.smapssnap_proclist },
   ((sort_pid self.smapssnap_proclist).map save_cap_proc).flatten)

/-! ## Process hierarchy

The process records of a snapshot live in memory: the root record, which is
part of the snapshot, and the records that the process list points to.  The
memory is modelled by the list of these records, the root first, then the
records in the order of the process list.  A pointer to a record is the
`smapsproc_uid` of the record. -/

/-- The record that the pointer `p` points to; `none` when there is none. -/
def proc_deref (heap : List smapsproc_t) (p : Int) : Option smapsproc_t :=
  heap.find? (fun r => decide (r.smapsproc_uid = p))

/-- An assignment through the pointer `p`: the record it points to becomes
`f` of itself. -/
def proc_store (heap : List smapsproc_t) (p : Int) (f : smapsproc_t → smapsproc_t) :
    List smapsproc_t :=
  heap.map (fun r => if r.smapsproc_uid = p then f r else r)

/-- Source: `find` (nested in `smapssnap_create_hierarchy`), binary search of
the process list for a record with the pid `pid`; `fuel` bounds the
iterations, each of which shrinks `hi - lo`.  The result is the pointer
returned (`some none` for the null pointer), and `none` when `lo + hi`
overflows `int` or an index falls outside the array. -/
def create_hierarchy_find (proclist : List smapsproc_t) (pid : Int) :
    Nat → Int → Int → Option (Option Int)
  | 0, lo, hi => if lo < hi then none else some none
  | fuel + 1, lo, hi =>
    if lo < hi then
      if lo + hi ≤ INT_MAX then
        match array_get proclist (Int.tdiv (lo + hi) 2) with
        | none => none
        | some p =>
          if p.smapsproc_pid.Pid > pid then
            create_hierarchy_find proclist pid fuel lo (Int.tdiv (lo + hi) 2 + 0)
          else if p.smapsproc_pid.Pid < pid then
            create_hierarchy_find proclist pid fuel (Int.tdiv (lo + hi) 2 + 1) hi
          else some (some p.smapsproc_uid)
      else none
    else some none

/-- Source: `smapssnap_create_hierarchy`, body of the loop "find parent for
every process" for the record at index `i` of the process list, on the memory
`heap` (the root, then the process list).  The result is `none` when the
`assert` fails. -/
def create_hierarchy_step (heap : List smapsproc_t) (i : Nat) : Option (List smapsproc_t) :=
  match heap.head?, heap.tail[i]? with
  | some root, some cur =>
    match create_hierarchy_find heap.tail cur.smapsproc_pid.PPid heap.tail.length 0
        heap.tail.length with
    | none => none
    | some par =>
      if cur.smapsproc_parent ≠ none then none
      else
        some (proc_store
          (proc_store heap cur.smapsproc_uid (fun r => { r with
            smapsproc_parent :=
              some (if par = none ∨ par = some cur.smapsproc_uid then root.smapsproc_uid
                    else par.getD 0) }))
          (if par = none ∨ par = some cur.smapsproc_uid then root.smapsproc_uid
           else par.getD 0)
          (fun r => { r with
            smapsproc_children := r.smapsproc_children ++ [some cur.smapsproc_uid] }))
  | _, _ => none

/-- Source: `smapssnap_create_hierarchy`; `array_sort` with
`smapsproc_compare_pid_cb` (libsysperf) is the parameter `sort_pid`. -/
def smapssnap_create_hierarchy (sort_pid : List smapsproc_t → List smapsproc_t)
    (self : smapssnap_t) : Option smapssnap_t :=
  match (List.range self.smapssnap_proclist.length).foldlM create_hierarchy_step
      (self.smapssnap_rootproc :: sort_pid self.smapssnap_proclist) with
  | some (root :: proclist) =>
    some { self with smapssnap_rootproc := root, smapssnap_proclist := proclist }
  | _ => none

/-- The value that a computation on `int` wraps to when it overflows: the
value modulo `2 ^ 32`, taken in `INT_MIN .. INT_MAX`. -/
def int_wrap (x : Int) : Int :=
  if x % 4294967296 ≤ INT_MAX then x % 4294967296 else x % 4294967296 - 4294967296

/-- Source: `smapsproc_adopt_children`, the loop "fix parent pointers", body
for the entry `child` of the child list of `that`: `none` for a null pointer
or a pointer to no record. -/
def adopt_children_step (self : Int) (heap : List smapsproc_t) (child : Option Int) :
    Option (List smapsproc_t) :=
  match child, proc_deref heap self with
  | some c, some s =>
    match proc_deref heap c with
    | none => none
    | some _ =>
      some (proc_store heap c (fun r => { r with
        smapsproc_parent := some self
        smapsproc_pid := { r.smapsproc_pid with PPid := s.smapsproc_pid.Pid } }))
  | _, _ => none

/-- Source: `smapsproc_adopt_children`: the loop over the child list of
`that`, which the loop does not change, then `array_move`, which appends the
list to the one of `self` and empties it.  With `self == that` the loop of
`array_move` does not end; the result is then `none`. -/
def smapsproc_adopt_children (heap : List smapsproc_t) (self that : Int) :
    Option (List smapsproc_t) :=
  if self = that then none
  else
    match proc_deref heap that with
    | none => none
    | some t =>
      match t.smapsproc_children.foldlM (adopt_children_step self) heap with
      | none => none
      | some heap1 =>
        match proc_deref heap1 that with
        | none => none
        | some t1 =>
          some (proc_store
            (proc_store heap1 self (fun r => { r with
              smapsproc_children := r.smapsproc_children ++ t1.smapsproc_children }))
            that (fun r => { r with smapsproc_children := [] }))

/-- Source: `smapsproc_collapse_threads`, the block of the second loop for a
child `that` at index `i` that is the same as `self`: the grandchildren are
adopted, the entry of the child is zeroed, the thread count of the child is
added to the one of `self` (wrapping on overflow), and the child loses its
parent. -/
def collapse_thread (heap : List smapsproc_t) (self : Int) (i : Nat) (that : Int) :
    Option (List smapsproc_t) :=
  match smapsproc_adopt_children heap self that with
  | none => none
  | some heap1 =>
    match proc_deref heap1 that with
    | none => none
    | some t =>
      some (proc_store
        (proc_store heap1 self (fun r => { r with
          smapsproc_children := r.smapsproc_children.set i none
          smapsproc_pid := { r.smapsproc_pid with
            Threads := int_wrap (r.smapsproc_pid.Threads + t.smapsproc_pid.Threads) } }))
        that (fun r => { r with smapsproc_parent := none }))

/-- Source: `smapsproc_collapse_threads`, the first loop, "recurse depth
first", from index `i` on; `collapse` is the recursive call and `fuel` bounds
the iterations.  The size and the entries of the child list are read in every
iteration. -/
def collapse_threads_recurse (collapse : Int → List smapsproc_t → Option (List smapsproc_t))
    (self : Int) : Nat → Nat → List smapsproc_t → Option (List smapsproc_t)
  | 0, _, _ => none
  | fuel + 1, i, heap =>
    match proc_deref heap self with
    | none => none
    | some s =>
      if i < s.smapsproc_children.length then
        match s.smapsproc_children[i]? with
        | some (some that) =>
          match collapse that heap with
          | none => none
          | some heap1 => collapse_threads_recurse collapse self fuel (i + 1) heap1
        | _ => none
      else some heap

/-- Source: `smapsproc_collapse_threads`, the second loop, "children that are
similar enough to parent are actually threads", from index `i` on; `fuel`
bounds the iterations.  The loop reads the size of the child list in every
iteration, so it also visits the grandchildren that it has adopted. -/
def collapse_threads_merge (self : Int) : Nat → Nat → List smapsproc_t →
    Option (List smapsproc_t)
  | 0, _, _ => none
  | fuel + 1, i, heap =>
    match proc_deref heap self with
    | none => none
    | some s =>
      if i < s.smapsproc_children.length then
        match s.smapsproc_children[i]? with
        | some (some that) =>
          match proc_deref heap that with
          | none => none
          | some t =>
            if smapsproc_are_same s t ≠ 0 then
              match collapse_thread heap self i that with
              | none => none
              | some heap1 => collapse_threads_merge self fuel (i + 1) heap1
            else collapse_threads_merge self fuel (i + 1) heap
        | _ => none
      else some heap

/-- Source: `smapsproc_collapse_threads`; `fuel` bounds the depth of the
recursion, and the loops run at most once for every record of the memory.
`array_compact` (libsysperf) removes the zeroed entries of the child list. -/
def smapsproc_collapse_threads : Nat → Int → List smapsproc_t → Option (List smapsproc_t)
  | 0, _, _ => none
  | fuel + 1, self, heap =>
    match collapse_threads_recurse (smapsproc_collapse_threads fuel) self (heap.length + 1) 0
        heap with
    | none => none
    | some heap1 =>
      match collapse_threads_merge self (heap.length + 1) 0 heap1 with
      | none => none
      | some heap2 =>
        some (proc_store heap2 self (fun r => { r with
          smapsproc_children := r.smapsproc_children.filter (fun c => decide (c ≠ none)) }))

/-- Source: `smapssnap_collapse_threads`: the threads are collapsed from the
root, then every record of the process list without a parent is deleted and
the list is compacted.  The hierarchy has at most one level for every
record. -/
def smapssnap_collapse_threads (self : smapssnap_t) : Option smapssnap_t :=
  match smapsproc_collapse_threads (self.smapssnap_proclist.length + 1)
      self.smapssnap_rootproc.smapsproc_uid
      (self.smapssnap_rootproc :: self.smapssnap_proclist) with
  | some (root :: proclist) =>
    some { self with
      smapssnap_rootproc := root
      smapssnap_proclist := proclist.filter (fun r => decide (r.smapsproc_parent ≠ none)) }
  | _ => none

/-! ## The ranges of an application and of a library in the mapping table -/

/-- Source: `analyze_get_apprange`; the result is `(*plo, *phi)`.  The
callback `cmp_app` computes `m->smapsmapp_AID - aid` on `int`, wrapping on
overflow. -/
def analyze_get_apprange (self : analyze_t) (lo hi aid : Int) : Option (Int × Int) :=
  match array_find_lower self.mapp_tab lo hi (fun m => int_wrap (m.smapsmapp_AID - aid)),
        array_find_upper self.mapp_tab lo hi (fun m => int_wrap (m.smapsmapp_AID - aid)) with
  | some plo, some phi => some (plo, phi)
  | _, _ => none

/-- Source: `analyze_get_librange`; the result is `(*plo, *phi)`.  The
callback `cmp_lib` computes `m->smapsmapp_LID - lid` on `int`, wrapping on
overflow. -/
def analyze_get_librange (self : analyze_t) (lo hi lid : Int) : Option (Int × Int) :=
  match array_find_lower self.mapp_tab lo hi (fun m => int_wrap (m.smapsmapp_LID - lid)),
        array_find_upper self.mapp_tab lo hi (fun m => int_wrap (m.smapsmapp_LID - lid)) with
  | some plo, some phi => some (plo, phi)
  | _, _ => none

/-! ## The header interval of the application and library tables -/

/-- Source: `analyze_emit_application_table` and `analyze_emit_library_table`,
one evaluation of `(n + N-1)/N` on `int`: `none` when `N` is 0 (division by
zero) or when `n + N` or `n + N - 1` is outside of `int`. -/
def emit_table_interval_step (n N : Int) : Option Int :=
  if N = 0 then none
  else if n + N < INT_MIN ∨ INT_MAX < n + N then none
  else if n + N - 1 < INT_MIN ∨ INT_MAX < n + N - 1 then none
  else some (Int.tdiv (n + N - 1) N)

/-- Source: `analyze_emit_application_table` and `analyze_emit_library_table`:
`int N = 20; N = (n + N-1)/N, N = (n + N-1)/N;` with `n` the number of
applications or of libraries. -/
def emit_table_interval (n : Int) : Option Int :=
  match emit_table_interval_step n 20 with
  | none => none
  | some N => emit_table_interval_step n N

/-! ## Auxiliary definitions used in the proofs -/

/-- Two nested loops visit the pairs of the product list. -/
def loop_pairs {α β : Type} (G : List α) (T : List β) : List (α × β) :=
  (G.map (fun g => T.map (fun t => (g, t)))).flatten

/-- Reads a decimal numeral (leading zeros allowed). -/
def parse_dec (l : List Char) : Nat :=
  l.foldl (fun acc c => acc * 10 + (c.toNat - 48)) 0

/-- Reads the two numbers back from a group key. -/
def group_key_decode (k : String) : Nat × Nat :=
  (parse_dec ((k.data.drop 3).takeWhile Char.isDigit),
   parse_dec (((k.data.drop 3).dropWhile Char.isDigit).drop 5))

/-- Invariant of the loop over processes of `analyze_enumerate_data`: the
application and type ids handed out so far lie within their tables. -/
def inv_proc (nA : Int) (st : symtab_t × List smapsmapp_t) : Prop :=
  ∀ m ∈ st.2, 0 ≤ m.smapsmapp_AID ∧ m.smapsmapp_AID < nA ∧
    0 ≤ m.smapsmapp_TID ∧ m.smapsmapp_TID < st.1.symtab_count

/-- Invariant of the loop over the sorted mapping table of
`analyze_enumerate_data`: all four ids lie within their tables, the group id
of a mapping is the id of the key of its (application, library) pair, and every
group id belongs to some mapping. -/
def inv_path (nA nT : Int) (st : symtab_t × (symtab_t × List smapsmapp_t)) : Prop :=
  (∀ m ∈ st.2.2, 0 ≤ m.smapsmapp_AID ∧ m.smapsmapp_AID < nA ∧
      0 ≤ m.smapsmapp_TID ∧ m.smapsmapp_TID < nT ∧
      0 ≤ m.smapsmapp_LID ∧ m.smapsmapp_LID < st.1.symtab_count ∧
      0 ≤ m.smapsmapp_EID ∧
      st.2.1.symtab_entry[m.smapsmapp_EID.toNat]?
        = some (group_key m.smapsmapp_AID m.smapsmapp_LID)) ∧
  (∀ g : Nat, g < st.2.1.symtab_entry.length → ∃ m ∈ st.2.2, m.smapsmapp_EID = (g : Int))

/-- The facts about an enumerated `analyze_t` that `analyze_accumulate_data`
relies on: every id of a mapping lies within its table, `grp_app` and `grp_lib`
send the group of a mapping to its application and library, and every group
has a mapping. -/
structure enumerated (az : analyze_t) : Prop where
  ntypes_pos : 6 ≤ az.ntypes
  groups_eq : az.groups = az.summ_tab.symtab_count
  ids : ∀ m ∈ az.mapp_tab,
    (0 ≤ m.smapsmapp_EID ∧ m.smapsmapp_EID < az.groups) ∧
    (0 ≤ m.smapsmapp_TID ∧ m.smapsmapp_TID < az.ntypes) ∧
    (0 ≤ m.smapsmapp_AID ∧ m.smapsmapp_AID < az.nappls) ∧
    (0 ≤ m.smapsmapp_LID ∧ m.smapsmapp_LID < az.npaths)
  grp : ∀ m ∈ az.mapp_tab,
    az.grp_app.getD m.smapsmapp_EID.toNat (-1) = m.smapsmapp_AID ∧
    az.grp_lib.getD m.smapsmapp_EID.toNat (-1) = m.smapsmapp_LID
  onto : ∀ g : Int, 0 ≤ g → g < az.groups → ∃ m ∈ az.mapp_tab, m.smapsmapp_EID = g

/-- The update made by `enumerate_group_step` when its `assert`s hold. -/
def group_step_pure (st : List Int × List Int) (mapp : smapsmapp_t) : List Int × List Int :=
  (st.1.set mapp.smapsmapp_EID.toNat mapp.smapsmapp_AID,
   st.2.set mapp.smapsmapp_EID.toNat mapp.smapsmapp_LID)

/-- Position of cell `[i][t]` in a flat table with rows of `n` cells. -/
def flat (n i t : Int) : Nat := (t + i * n).toNat

/-- One step of an accumulating loop: the value `v t x` is combined by `f`
into the cell `d x` of the table `t`. -/
def upd {α : Type} (d : α → Nat) (v : List meminfo_t → α → meminfo_t)
    (f : meminfo_t → meminfo_t → meminfo_t) (t : List meminfo_t) (x : α) : List meminfo_t :=
  t.set (d x) (f (cell t (d x)) (v t x))

/-- Destination of a mapping in the group table. -/
def dG (self : analyze_t) (m : smapsmapp_t) : Nat :=
  flat self.ntypes m.smapsmapp_EID m.smapsmapp_TID

/-- Destination of `(group, type)` in the application table. -/
def dA (self : analyze_t) (p : Int × Int) : Nat :=
  flat self.ntypes (self.grp_app.getD p.1.toNat (-1)) p.2

/-- Destination of `(group, type)` in the library table. -/
def dL (self : analyze_t) (p : Int × Int) : Nat :=
  flat self.ntypes (self.grp_lib.getD p.1.toNat (-1)) p.2

/-- Destination of `(entity, type)` in the total row of the entity. -/
def d0 (self : analyze_t) (p : Int × Int) : Nat := flat self.ntypes p.1 0

/-- Destination of `(entity, type)` in a per-type table. -/
def dT (p : Int × Int) : Nat := p.2.toNat

/-- Value read from a fixed flat table at `(entity, type)`. -/
def vFix (self : analyze_t) (src : List meminfo_t) (_ : List meminfo_t) (p : Int × Int) :
    meminfo_t :=
  cell src (flat self.ntypes p.1 p.2)

/-- Value read from the table being updated at `(entity, type)`. -/
def vSelf (self : analyze_t) (tab : List meminfo_t) (p : Int × Int) : meminfo_t :=
  cell tab (flat self.ntypes p.1 p.2)

/-- Value read from the per-type table being updated at row `t`. -/
def vRow (tab : List meminfo_t) (t : Int) : meminfo_t := cell tab t.toNat

/-- The counts, the mapping ids and the group lookup tables are consistent:
what the `assert`s of the table accessors need. -/
def in_bounds (self : analyze_t) : Prop :=
  (∀ m ∈ self.mapp_tab, (0 ≤ m.smapsmapp_EID ∧ m.smapsmapp_EID < self.groups) ∧
    (0 ≤ m.smapsmapp_TID ∧ m.smapsmapp_TID < self.ntypes)) ∧
  (∀ g : Int, 0 ≤ g → g < self.groups →
    (0 ≤ self.grp_app.getD g.toNat (-1) ∧ self.grp_app.getD g.toNat (-1) < self.nappls) ∧
    (0 ≤ self.grp_lib.getD g.toNat (-1) ∧ self.grp_lib.getD g.toNat (-1) < self.npaths))

/-- A zeroed flat table of `k` cells. -/
def zeros (k : Int) : List meminfo_t := List.replicate k.toNat meminfo_ctor

/-- The group table after the first loop of `analyze_accumulate_data`. -/
def grp_final (az : analyze_t) : List meminfo_t :=
  az.mapp_tab.foldl (upd (dG az) (fun _ m => m.smapsmapp_mem) accumulate_sum6)
    (zeros (az.groups * az.ntypes))

/-- The application table after the second loop (rows 1.. filled). -/
def app_rows (az : analyze_t) : List meminfo_t :=
  (loop_pairs (int_range 0 az.groups) (int_range 1 az.ntypes)).foldl
    (upd (dA az) (vFix az (grp_final az)) accumulate_sum6) (zeros (az.nappls * az.ntypes))

/-- The library table after the second loop (rows 1.. filled). -/
def lib_rows (az : analyze_t) : List meminfo_t :=
  (loop_pairs (int_range 0 az.groups) (int_range 1 az.ntypes)).foldl
    (upd (dL az) (vFix az (grp_final az)) accumulate_max4_sum2) (zeros (az.npaths * az.ntypes))

/-- The final application table (total rows added). -/
def app_final (az : analyze_t) : List meminfo_t :=
  (loop_pairs (int_range 0 az.nappls) (int_range 1 az.ntypes)).foldl
    (upd (d0 az) (vSelf az) meminfo_accumulate_appdata) (app_rows az)

/-- The final library table (total rows added). -/
def lib_final (az : analyze_t) : List meminfo_t :=
  (loop_pairs (int_range 0 az.npaths) (int_range 1 az.ntypes)).foldl
    (upd (d0 az) (vSelf az) meminfo_accumulate_appdata) (lib_rows az)

/-- The table `appmax` before its total row is computed. -/
def appmax_rows (az : analyze_t) : List meminfo_t :=
  (loop_pairs (int_range 0 az.nappls) (int_range 1 az.ntypes)).foldl
    (upd dT (vFix az (app_final az)) meminfo_accumulate_maxdata) (zeros az.ntypes)

/-- The table `sysmax` before its total row is computed. -/
def sysmax_rows (az : analyze_t) : List meminfo_t :=
  (loop_pairs (int_range 0 az.nappls) (int_range 1 az.ntypes)).foldl
    (upd dT (vFix az (app_final az)) meminfo_accumulate_appdata) (zeros az.ntypes)

/-- The table `sysest` before its total row is computed. -/
def sysest_rows (az : analyze_t) : List meminfo_t :=
  (loop_pairs (int_range 0 az.npaths) (int_range 1 az.ntypes)).foldl
    (upd dT (vFix az (lib_final az)) meminfo_accumulate_appdata) (zeros az.ntypes)

/-- The last loop of `analyze_accumulate_data` on one table: row 0 becomes the
sum of the rows 1... -/
def with_total (az : analyze_t) (tab : List meminfo_t) : List meminfo_t :=
  (int_range 1 az.ntypes).foldl (upd (fun _ => 0) vRow meminfo_accumulate_appdata) tab

/-- Row `t` of the system estimate table. -/
def analyze_t.est (self : analyze_t) (t : Int) : meminfo_t := cell self.sysest t.toNat

/-- Row `t` of the system maximum table. -/
def analyze_t.smax (self : analyze_t) (t : Int) : meminfo_t := cell self.sysmax t.toNat

/-- Row `t` of the application maximum table. -/
def analyze_t.amax (self : analyze_t) (t : Int) : meminfo_t := cell self.appmax t.toNat

/-- A snapshot of two processes that share a library: `foo` maps its code and
data, `bar` its code. -/
def example_snap : smapssnap_t :=
  { smapssnap_proclist := [
      { smapsproc_pid := { Name := "foo", Pid := 100 }
        smapsproc_mapplist := [
          { smapsmapp_map := { path := "/lib/libc.so", type := "code" }
            smapsmapp_mem := { Size := 5, Rss := 3, Private_Dirty := 2 } },
          { smapsmapp_map := { path := "/lib/libc.so", type := "data" }
            smapsmapp_mem := { Size := 7, Rss := 1, Shared_Clean := 1 } } ] },
      { smapsproc_pid := { Name := "bar", Pid := 101 }
        smapsproc_mapplist := [
          { smapsmapp_map := { path := "/lib/libc.so", type := "code" }
            smapsmapp_mem := { Size := 9, Rss := 4, Private_Dirty := 5 } } ] } ] }

/-- Binary search for the first index of `[lo, hi)` whose entry satisfies `p`:
the common shape of `array_find_lower_loop` and `array_find_upper_loop`. -/
def bsearch_loop {α : Type} (data : List α) (p : α → Bool) : Nat → Int → Int → Option Int
  | 0, lo, hi => if lo < hi then none else some lo
  | fuel + 1, lo, hi =>
    if lo < hi then
      if lo + hi ≤ INT_MAX then
        match array_get data (Int.tdiv (lo + hi) 2) with
        | none => none
        | some x =>
          if p x = true then bsearch_loop data p fuel lo (Int.tdiv (lo + hi) 2 + 0)
          else bsearch_loop data p fuel (Int.tdiv (lo + hi) 2 + 1) hi
      else none
    else some lo

/-- Number of indices `i` of the window `[lo, hi)` whose entry `x` satisfies
`q (fn x)`. -/
def window_count {α : Type} (data : List α) (fn : α → Int) (lo hi : Int) (q : Int → Bool) : Nat :=
  ((int_range lo hi).filter
    (fun i => match array_get data i with
      | some x => q (fn x)
      | none => false)).length

/-- A table of five mappings sorted by application id: ids 0, 1, 1, 1, 3. -/
def example_table : List smapsmapp_t :=
  [{ smapsmapp_AID := 0 }, { smapsmapp_AID := 1 }, { smapsmapp_AID := 1 },
   { smapsmapp_AID := 1 }, { smapsmapp_AID := 3 }]

/-- The four key fields of a diff group. -/
def ktup (k : diffkey_t) : Int × Int × Int × Int := (k.appl, k.inst, k.type, k.path)

/-- Lexicographic order on (appl, inst, type, path). -/
def klt (a b : Int × Int × Int × Int) : Prop :=
  a.1 < b.1 ∨ (a.1 = b.1 ∧ (a.2.1 < b.2.1 ∨ (a.2.1 = b.2.1 ∧
    (a.2.2.1 < b.2.2.1 ∨ (a.2.2.1 = b.2.2.1 ∧ a.2.2.2 < b.2.2.2)))))

/-- The key fields are ids or the unset value `-1`, and leave room for the
subtractions of `diffkey_compare`. -/
def key_ok (k : diffkey_t) : Prop :=
  (-1 ≤ k.appl ∧ k.appl < INT_MAX) ∧ (-1 ≤ k.inst ∧ k.inst < INT_MAX) ∧
  (-1 ≤ k.type ∧ k.type < INT_MAX) ∧ (-1 ≤ k.path ∧ k.path < INT_MAX)

/-- The grouping key of a mapping at depth `d`, in closed form. -/
def masked_key (d n : Int) (m : smapsmapp_t) : diffkey_t :=
  { appl := if 1 ≤ d then m.smapsmapp_AID else -1
    inst := if 2 ≤ d then m.smapsmapp_PID else -1
    type := if 3 ≤ d then m.smapsmapp_TID else -1
    path := if 4 ≤ d then m.smapsmapp_LID else -1
    cnt := n
    val := [] }

/-- The keys that the loop of `smapsfilt_diff` computes for a sequence of
mappings, the variable `key` being carried from one mapping to the next. -/
def diff_keys (d : Int) : diffkey_t → List smapsmapp_t → List diffkey_t
  | _, [] => []
  | key, m :: ms => diff_switch d key m :: diff_keys d (diff_switch d key m) ms

/-- The mappings of a list of snapshots in the order of the loops of
`smapsfilt_diff`, each with the index of its snapshot (counted from `i`). -/
def diff_items : List smapssnap_t → Int → List (smapsmapp_t × Int)
  | [], _ => []
  | snap :: rest, i =>
    ((snap.smapssnap_proclist.map (fun proc => proc.smapsproc_mapplist)).flatten.map
      (fun m => (m, i))) ++ diff_items rest (i + 1)

/-- What one call of `diff_ins` does to a sorted table: either the group of
`key` exists at some index and `val` is added into its slot `cap`, or a fresh
group holding `val` in slot `cap` is inserted at the position `p` that keeps
the table sorted. -/
def ins_rel (fp : fp_ops) (T : List diffkey_t) (key : diffkey_t) (val : diffval_t) (cap : Int)
    (T1 : List diffkey_t) : Prop :=
  (∃ (i : Nat) (e : diffkey_t) (slot : diffval_t) (enew : diffkey_t),
      T[i]? = some e ∧ ktup e = ktup key ∧ e.val[cap.toNat]? = some slot ∧
      enew = { e with val := e.val.set cap.toNat (diffval_add fp slot val) } ∧
      T1 = T.set i enew) ∨
  (∃ (p : Nat) (enew : diffkey_t), p ≤ T.length ∧
      (∀ (j : Nat) (e : diffkey_t), j < p → T[j]? = some e → klt (ktup e) (ktup key)) ∧
      (∀ (j : Nat) (e : diffkey_t), p ≤ j → T[j]? = some e → klt (ktup key) (ktup e)) ∧
      enew = { key with val := (List.replicate key.cnt.toNat diffval_ctor).set cap.toNat
                                (diffval_add fp diffval_ctor val) } ∧
      T1 = T.take p ++ enew :: T.drop p)

/-- The table is strictly sorted by key. -/
def tab_sorted (T : List diffkey_t) : Prop :=
  ∀ (i j : Nat) (a b : diffkey_t), i < j → T[i]? = some a → T[j]? = some b →
    klt (ktup a) (ktup b)

/-- Every group of the table has valid key fields and `n` slots. -/
def tab_ok (n : Int) (T : List diffkey_t) : Prop :=
  ∀ e ∈ T, key_ok e ∧ e.cnt = n ∧ e.val.length = n.toNat

/-- The measure `cln` of a mapping: the `unsigned` sum of its two clean
counters. -/
def clean_of (m : smapsmapp_t) : Nat :=
  (m.smapsmapp_mem.Shared_Clean + m.smapsmapp_mem.Private_Clean) % UINT_MOD

/-- The sum of the three measures of a mapping. -/
def diff_weight (m : smapsmapp_t) : Nat :=
  m.smapsmapp_mem.Private_Dirty + m.smapsmapp_mem.Shared_Dirty + clean_of m

/-- Sum of `f` over the mappings of snapshot `i` whose masked key is `K`. -/
def fsum (f : smapsmapp_t → Nat) (d n : Int) (items : List (smapsmapp_t × Int))
    (K : Int × Int × Int × Int) (i : Int) : Nat :=
  ((items.filter (fun x => decide (ktup (masked_key d n x.1) = K) && decide (x.2 = i))).map
    (fun x => f x.1)).sum

/-- The triple that slot `i` of the group `K` is claimed to hold. -/
def slot_sum (d n : Int) (items : List (smapsmapp_t × Int))
    (K : Int × Int × Int × Int) (i : Int) : diffval_t :=
  { pri := (fsum (fun m => m.smapsmapp_mem.Private_Dirty) d n items K i : ℚ)
    sha := (fsum (fun m => m.smapsmapp_mem.Shared_Dirty) d n items K i : ℚ)
    cln := (fsum clean_of d n items K i : ℚ) }

/-- Invariant of the accumulation loop of `smapsfilt_diff`: the table is
sorted, every group has `n` slots holding the sums over the mappings seen so
far, and the groups are exactly the masked keys seen so far. -/
def diff_inv (d n : Int) (items : List (smapsmapp_t × Int)) (T : List diffkey_t) : Prop :=
  tab_ok n T ∧ tab_sorted T ∧ (T.length ≤ items.length) ∧
  (∀ e ∈ T, ∀ i : Nat, (i : Int) < n → e.val[i]? = some (slot_sum d n items (ktup e) i)) ∧
  (∀ K, (∃ e ∈ T, ktup e = K) ↔ ∃ x ∈ items, ktup (masked_key d n x.1) = K)

/-- The exactness of `double` addition that the accumulation relies on: a sum
of two natural numbers below `2 ^ 53` is computed exactly. -/
def add_exact (fp : fp_ops) : Prop :=
  ∀ a b : Nat, a + b < 2 ^ 53 → fp.add (a : ℚ) (b : ℚ) = ((a + b : Nat) : ℚ)

/-- The fields of the loop variable `key` that depth `d` never sets still hold
the unset value `-1`; the slot count is `n`. -/
def unset_ok (d n : Int) (k : diffkey_t) : Prop :=
  k.cnt = n ∧ k.val = [] ∧ (¬ 1 ≤ d → k.appl = -1) ∧ (¬ 2 ≤ d → k.inst = -1) ∧
  (¬ 3 ≤ d → k.type = -1) ∧ (¬ 4 ≤ d → k.path = -1)

/-- The four ids of a mapping are ids or `-1`, below `INT_MAX`. -/
def mapp_ids_ok (m : smapsmapp_t) : Prop :=
  (-1 ≤ m.smapsmapp_AID ∧ m.smapsmapp_AID < INT_MAX) ∧
  (-1 ≤ m.smapsmapp_PID ∧ m.smapsmapp_PID < INT_MAX) ∧
  (-1 ≤ m.smapsmapp_TID ∧ m.smapsmapp_TID < INT_MAX) ∧
  (-1 ≤ m.smapsmapp_LID ∧ m.smapsmapp_LID < INT_MAX)

/-- Three calls of `diff_ins` on a table with two slots per group: two
different keys in descending order, then the first key again. -/
def example_calls : List (diffkey_t × diffval_t × Int) :=
  [({ appl := 1, inst := 0, type := 1, path := 2, cnt := 2 }, { pri := 4 }, 0),
   ({ appl := 0, inst := 0, type := 1, path := 2, cnt := 2 }, { sha := 1 }, 1),
   ({ appl := 1, inst := 0, type := 1, path := 2, cnt := 2 }, { pri := 8 }, 1)]

/-- Two snapshots of one process with one mapping (ids 0, type id 0):
`Private_Dirty` is 10 in the first snapshot and 50 in the second. -/
def example_snaps : List smapssnap_t :=
  [{ smapssnap_proclist := [{ smapsproc_AID := 0, smapsproc_PID := 0, smapsproc_mapplist := [
      { smapsmapp_AID := 0, smapsmapp_PID := 0, smapsmapp_TID := 0, smapsmapp_LID := 0,
        smapsmapp_mem := { Private_Dirty := 10 } }] }] },
   { smapssnap_proclist := [{ smapsproc_AID := 0, smapsproc_PID := 0, smapsproc_mapplist := [
      { smapsmapp_AID := 0, smapsmapp_PID := 0, smapsmapp_TID := 0, smapsmapp_LID := 0,
        smapsmapp_mem := { Private_Dirty := 50 } }] }] }]

/-- One snapshot with one mapping whose two clean counters are `2 ^ 31` kB
each. -/
def wrap_snaps : List smapssnap_t :=
  [{ smapssnap_proclist := [{ smapsproc_AID := 0, smapsproc_PID := 0, smapsproc_mapplist := [
      { smapsmapp_AID := 0, smapsmapp_PID := 0, smapsmapp_TID := 0, smapsmapp_LID := 0,
        smapsmapp_mem := { Shared_Clean := 2147483648, Private_Clean := 2147483648 } }] }] }]

/-- A diff group with two snapshot slots whose `pri` values are 0 and 3. -/
def rank_example : diffkey_t :=
  { appl := 0, inst := 0, type := 1, path := -1, cnt := 2, val := [{ pri := 0 }, { pri := 3 }] }


/-! ## Auxiliary definitions for the diff report and the process hierarchy -/

/-- Entry `c` of row `i` of an output table; `none` outside of the table. -/
def out_entry (rows : List (List (Option String))) (i c : Nat) : Option (Option String) :=
  match rows[i]? with
  | none => none
  | some r => r[c]?

/-- The columns `0 .. c` of the rows `i` and `i - 1` are all present and hold
equal strings. -/
def same_upto (rows : List (List (Option String))) (i c : Nat) : Prop :=
  ∀ k, k ≤ c → ∃ s, out_entry rows i k = some (some s) ∧
    out_entry rows (i - 1) k = some (some s)

/-- A blanked entry: the null pointer in the html report, the empty string in
the csv report. -/
def blank_entry (html_diff : Bool) : Option String := if html_diff then none else some ""

/-- The population standard deviation of the values `xs` in the arithmetic
`fp`: the mean is the sum divided by the count, the result is the square root
of the mean of the squared deviations from it. -/
def pop_stddev (fp : fp_ops) (xs : List ℚ) : ℚ :=
  fp.sqrt (fp.div
    (xs.foldl (fun acc x =>
      fp.add acc (pow2 fp (fp.sub x (fp.div (xs.foldl fp.add 0) (xs.length : ℚ))))) 0)
    (xs.length : ℚ))

/-- The values of the three measures over the slots of a group, with the
names under which they are reported, in the order of emission. -/
def measures (k : diffkey_t) : List (String × List ℚ) :=
  [("pri", k.val.map (fun v => v.pri)), ("sha", k.val.map (fun v => v.sha)),
   ("cln", k.val.map (fun v => v.cln))]

/-- A report row: the four key columns (absent when the field is unset), the
name of the measure, one value per snapshot, and the rank. -/
def report_row (fmt : fmt_ops) (str : diff_str_t) (k : diffkey_t) (name : String)
    (data : List ℚ) (rank : ℚ) : List (Option String) :=
  [ (if k.appl ≥ 0 then str.appl_str[k.appl.toNat]? else none),
    (if k.inst ≥ 0 then some (String.mk (fmt_d k.inst)) else none),
    (if k.type ≥ 0 then str.type_str[k.type.toNat]? else none),
    (if k.path ≥ 0 then str.path_str[k.path.toNat]? else none),
    some name ] ++ data.map (fun x => some (fmt.fmt_g x)) ++ [some (fmt.fmt_f1 rank)]

/-- The rows of one group: one row for each measure whose own standard
deviation reaches 4, in the order pri, sha, cln. -/
def group_rows (fp : fp_ops) (fmt : fmt_ops) (str : diff_str_t) (k : diffkey_t) :
    List (List (Option String)) :=
  ((measures k).filter (fun m => decide (pop_stddev fp m.2 ≥ 4))).map
    (fun m => report_row fmt str k m.1 m.2 (pop_stddev fp m.2))

/-- The rank of a group as the largest of the three standard deviations. -/
def group_rank (fp : fp_ops) (k : diffkey_t) : ℚ :=
  max (max (pop_stddev fp (k.val.map (fun v => v.pri)))
           (pop_stddev fp (k.val.map (fun v => v.sha))))
      (pop_stddev fp (k.val.map (fun v => v.cln)))

/-- What the emission needs of a group: the slots are allocated, the key
fields index into the reverse lookup arrays, and the three standard
deviations convert to `unsigned`. -/
def emit_ok (fp : fp_ops) (str : diff_str_t) (k : diffkey_t) : Prop :=
  0 < k.cnt ∧ k.val.length = k.cnt.toNat ∧
  (k.appl ≥ 0 → k.appl.toNat < str.appl_str.length) ∧
  (k.type ≥ 0 → k.type.toNat < str.type_str.length) ∧
  (k.path ≥ 0 → k.path.toNat < str.path_str.length) ∧
  (∀ m ∈ measures k, -1 < pop_stddev fp m.2 ∧ pop_stddev fp m.2 < (UINT_MOD : ℚ))

/-- The table `T2` holds the keys of `T` under the ids they have in `T`. -/
def tab_ext (T T2 : symtab_t) : Prop :=
  ∃ ext, T2.symtab_entry = T.symtab_entry ++ ext

/-- The id of `key` in the table `T`. -/
def tab_id (T : symtab_t) (key : String) : Int := (T.symtab_entry.indexOf key : Nat)

/-- The ids that the second loop of `smapsfilt_diff` gives a process before
sorting, in terms of the final table of applications. -/
def assign_ids (A : symtab_t) (proc : smapsproc_t) : smapsproc_t :=
  { proc with
    smapsproc_PID := proc.smapsproc_pid.Pid
    smapsproc_AID := tab_id A proc.smapsproc_pid.Name }

/-- The ids that the numbering loop gives the mappings of a process, in terms
of the final tables of types and paths. -/
def number_mapps (T P : symtab_t) (AID PID : Int) (ms : List smapsmapp_t) : List smapsmapp_t :=
  ms.map (fun mapp => { mapp with
    smapsmapp_AID := AID
    smapsmapp_PID := PID
    smapsmapp_TID := tab_id T mapp.smapsmapp_map.type
    smapsmapp_LID := tab_id P mapp.smapsmapp_map.path })

/-- The new values of `(aid, pid, cnt)` in the numbering loop. -/
def inst_next (aid pid cnt : Int) (proc : smapsproc_t) : Int × Int × Int :=
  if aid ≠ proc.smapsproc_AID then (proc.smapsproc_AID, proc.smapsproc_PID, 0)
  else if pid ≠ proc.smapsproc_PID then (aid, proc.smapsproc_PID, cnt + 1)
  else (aid, pid, cnt)

/-- The records that the numbering loop produces from a list of processes, in
terms of the final tables of types and paths. -/
def number_procs (T P : symtab_t) : Int → Int → Int → List smapsproc_t → List smapsproc_t
  | _, _, _, [] => []
  | aid, pid, cnt, proc :: rest =>
    { proc with
      smapsproc_PID := (inst_next aid pid cnt proc).2.2
      smapsproc_mapplist := number_mapps T P proc.smapsproc_AID
        (inst_next aid pid cnt proc).2.2 proc.smapsproc_mapplist } ::
    number_procs T P (inst_next aid pid cnt proc).1 (inst_next aid pid cnt proc).2.1
      (inst_next aid pid cnt proc).2.2 rest

/-- A snapshot after the enumeration pass, in terms of the final tables. -/
def enum_snap (sort_app_pid : List smapsproc_t → List smapsproc_t) (A T P : symtab_t)
    (snap : smapssnap_t) : smapssnap_t :=
  { snap with smapssnap_proclist :=
      number_procs T P (-1) (-1) 0 (sort_app_pid (snap.smapssnap_proclist.map (assign_ids A))) }

/-- The order that `cmp_app_pid` describes when its subtractions do not
overflow: by application id, then by `PID`. -/
def app_pid_le (a b : smapsproc_t) : Prop :=
  a.smapsproc_AID < b.smapsproc_AID ∨
  (a.smapsproc_AID = b.smapsproc_AID ∧ a.smapsproc_PID ≤ b.smapsproc_PID)

/-- The contract of `array_sort` with `cmp_app_pid`: the result is a
rearrangement of the argument in the order of the comparison. -/
def sorts_app_pid (sort_app_pid : List smapsproc_t → List smapsproc_t) : Prop :=
  ∀ l, (sort_app_pid l).Perm l ∧ (sort_app_pid l).Pairwise app_pid_le

/-- The number of processes of `procs` with the name of `p` and a smaller
pid. -/
def inst_index (procs : List smapsproc_t) (p : smapsproc_t) : Int :=
  ((procs.filter (fun q => decide (q.smapsproc_pid.Name = p.smapsproc_pid.Name ∧
    q.smapsproc_pid.Pid < p.smapsproc_pid.Pid))).length : Nat)

/-- The number of processes of `pre` with the application id of `p`. -/
def count_same (pre : List smapsproc_t) (p : smapsproc_t) : Int :=
  ((pre.filter (fun q => decide (q.smapsproc_AID = p.smapsproc_AID))).length : Nat)

/-- The record that the numbering loop makes of `p` when it gives it the
instance index `c`. -/
def numbered (T P : symtab_t) (c : Int) (p : smapsproc_t) : smapsproc_t :=
  { p with
    smapsproc_PID := c
    smapsproc_mapplist := number_mapps T P p.smapsproc_AID c p.smapsproc_mapplist }

/-- A snapshot of one process `foo` with pid 100 and one mapping of
`/lib/libc.so` of type `code` with `Private_Dirty = v`, every other counter
being 0. -/
def scenario_snap (v : Nat) : smapssnap_t :=
  { smapssnap_proclist := [
      { smapsproc_pid := { Name := "foo", Pid := 100 }
        smapsproc_mapplist := [
          { smapsmapp_map := { path := "/lib/libc.so", type := "code" }
            smapsmapp_mem := { Private_Dirty := v } }] }] }

/-- Two such snapshots, with `Private_Dirty` 10 and 50. -/
def scenario_snaps : List smapssnap_t := [scenario_snap 10, scenario_snap 50]

/-- The snapshot `scenario_snap v` with the ids of the enumeration pass. -/
def scenario_enum (v : Nat) : smapssnap_t :=
  { smapssnap_proclist := [
      { smapsproc_AID := 0
        smapsproc_PID := 0
        smapsproc_pid := { Name := "foo", Pid := 100 }
        smapsproc_mapplist := [
          { smapsmapp_map := { path := "/lib/libc.so", type := "code" }
            smapsmapp_mem := { Private_Dirty := v }
            smapsmapp_AID := 0
            smapsmapp_PID := 0
            smapsmapp_TID := 0
            smapsmapp_LID := 0 }] }] }

/-- The group of the two mappings at depth 3: application 0, instance 0, type
0, path unset, with the slots `pri = 10` and `pri = 50`. -/
def scenario_key : diffkey_t :=
  { appl := 0, inst := 0, type := 0, path := -1, cnt := 2,
    val := [{ pri := 10 }, { pri := 50 }] }

/-- The reverse lookup arrays of the scenario. -/
def scenario_str : diff_str_t :=
  { appl_str := ["foo"]
    type_str := ["code", "data", "heap", "anon", "stack"]
    path_str := ["/lib/libc.so"] }

/-- The contract of `symtab_renum` as far as the ids go: the table keeps its
keys. -/
def renums (symtab_renum : symtab_t → symtab_t) : Prop :=
  ∀ t, (symtab_renum t).symtab_entry.Perm t.symtab_entry

/-- Insertion sort by (application id, `PID`), an instance of the sorting
routine. -/
def sort_example (l : List smapsproc_t) : List smapsproc_t :=
  l.insertionSort (fun a b => decide (a.smapsproc_AID < b.smapsproc_AID ∨
    (a.smapsproc_AID = b.smapsproc_AID ∧ a.smapsproc_PID ≤ b.smapsproc_PID)) = true)

/-- A snapshot of three processes: `foo` with pid 30, `bar` with pid 10 and
`foo` with pid 20. -/
def inst_snap : smapssnap_t :=
  { smapssnap_proclist := [
      { smapsproc_pid := { Name := "foo", Pid := 30 } },
      { smapsproc_pid := { Name := "bar", Pid := 10 } },
      { smapsproc_pid := { Name := "foo", Pid := 20 } }] }

/-- An instance of the two conversions: the decimal digits of the numerator,
which is what `"%g"` prints for a whole number of at most six digits, and the
same digits followed by `.0` and a newline, which is what `"%.1f\n"` prints
for a whole number. -/
def fmt_example : fmt_ops :=
  { fmt_g := fun q => String.mk (fmt_d q.num)
    fmt_f1 := fun q => String.mk (fmt_d q.num) ++ ".0\n" }

/-! ## Auxiliary definitions for the capture parser -/

/-- The path that `smapsproc_add_mapping` works with: `[anon]` when the path
given is absent or empty. -/
def mapping_path (path : Option (List Char)) : List Char :=
  match path with
  | none => "[anon]".data
  | some [] => "[anon]".data
  | some (c :: p) => c :: p

/-- The text after the first byte of `p` up to, not including, the first
`]`. -/
def bracket_content (p : List Char) : List Char :=
  (p.drop 1).takeWhile (fun c => decide (c ≠ ']'))

/-- A bracketed path with a content of 40 bytes. -/
def long_path : List Char := '[' :: (List.replicate 40 'a' ++ [']'])

/-- The key of a counter in a capture file. -/
def counter_t.key : counter_t → String
  | .Size => "Size"
  | .Rss => "Rss"
  | .Shared_Clean => "Shared_Clean"
  | .Shared_Dirty => "Shared_Dirty"
  | .Private_Clean => "Private_Clean"
  | .Private_Dirty => "Private_Dirty"

/-- The bytes that `slice` skips in front of a token. -/
def is_blank (c : Char) : Prop := 0 < c.toNat ∧ c.toNat ≤ 32

/-- The keys that `meminfo_parse` recognizes. -/
def meminfo_keys : List String :=
  ["Size", "Rss", "Shared_Clean", "Shared_Dirty", "Private_Clean", "Private_Dirty"]

/-- The keys that `pidinfo_parse` recognizes. -/
def pidinfo_keys : List String :=
  ["Name", "Pid", "PPid", "Threads", "VmSize", "VmLck", "VmRSS", "VmData", "VmStk", "VmExe",
   "VmLib", "VmPTE"]

/-- The key of a counter line or metadata line: the first token that `slice`
cuts at `:`. -/
def line_key (line : List Char) : String := String.mk (slice line 58).1

/-- A sequence of calls of `meminfo_parse` on one record: the state is the
record, the vector of unknown keys and the text printed to `stderr`. -/
def meminfo_parse_lines (ULONG_MOD : Nat) (lines : List (List Char))
    (st : meminfo_t × List String × List String) : meminfo_t × List String × List String :=
  lines.foldl (fun st line =>
    ((meminfo_parse ULONG_MOD st.2.1 st.1 line).1,
     (meminfo_parse ULONG_MOD st.2.1 st.1 line).2.1,
     st.2.2 ++ (meminfo_parse ULONG_MOD st.2.1 st.1 line).2.2)) st

/-- A line as `smapssnap_load_cap` sees it: cut at the first `\r` or `\n`. -/
def line_data (line : List Char) : List Char :=
  line.takeWhile (fun c => decide (c ≠ '\r' ∧ c ≠ '\n'))

/-- The kinds of lines of a capture file. -/
inductive line_kind where
  | blank | header | metadata | range | counter
deriving DecidableEq, Repr

/-- The kind of a line, in the order in which `smapssnap_load_cap` tests: an
empty line, a line that starts with `==>`, a line that starts with `#`, a
line that starts with hexadecimal digits and `-`, any other line. -/
def line_kind_of (line : List Char) : line_kind :=
  if line_data line = [] then line_kind.blank
  else if (line_data line).take 3 = "==>".data then line_kind.header
  else if (line_data line).head? = some '#' then line_kind.metadata
  else if hexterm (line_data line) = some '-' then line_kind.range
  else line_kind.counter

/-- There is a current process after the lines `pre`: one of them is a
header. -/
def has_proc (pre : List (List Char)) : Bool :=
  pre.foldl (fun b line => b || decide (line_kind_of line = line_kind.header)) false

/-- There is a current mapping after the lines `pre`: one of them is a range
line and no header follows it. -/
def has_mapp (pre : List (List Char)) : Bool :=
  pre.foldl (fun b line =>
    if line_kind_of line = line_kind.header then false
    else if line_kind_of line = line_kind.range then true
    else b) false

/-- The line `line`, which follows the lines `pre`, makes
`smapssnap_load_cap` fail: a header that is not accepted, a metadata line or
a range line without a current process, a counter line without a current
mapping. -/
def line_fatal (ULONG_MOD : Nat) (pre : List (List Char)) (line : List Char) : Prop :=
  (line_kind_of line = line_kind.header ∧ load_cap_header ULONG_MOD (line_data line) = none) ∨
  (line_kind_of line = line_kind.metadata ∧ has_proc pre = false) ∨
  (line_kind_of line = line_kind.range ∧ has_proc pre = false) ∨
  (line_kind_of line = line_kind.counter ∧ has_mapp pre = false)

/-- The pointers `proc` and `mapp` of `smapssnap_load_cap` point into the
process list and into the mapping list of the current process. -/
def load_ok (st : load_t) : Prop :=
  (∀ p, st.proc = some p → p < st.snap.smapssnap_proclist.length) ∧
  (∀ m, st.mapp = some m → ∃ p proc, st.proc = some p ∧
    st.snap.smapssnap_proclist[p]? = some proc ∧ m < proc.smapsproc_mapplist.length)

/-- The header line that `smapssnap_save_cap` writes for the pid `pid`. -/
def header_line (pid : Int) : List Char :=
  "==> /proc/".data ++ fmt_d pid ++ "/smaps <==".data

/-! ## Auxiliary definitions for the process hierarchy -/

/-- The contract of `array_sort` with `smapsproc_compare_pid_cb`: the result is
a rearrangement of the argument in ascending order of `Pid`. -/
def sorts_pid (sort_pid : List smapsproc_t → List smapsproc_t) : Prop :=
  ∀ l, (sort_pid l).Perm l ∧
    (sort_pid l).Pairwise (fun a b => a.smapsproc_pid.Pid ≤ b.smapsproc_pid.Pid)

/-- A snapshot as the capture parser leaves it: the records are distinct
objects (no two share a `smapsproc_uid`), and no record has a parent or a
child. -/
def fresh_snap (snap : smapssnap_t) : Prop :=
  ((snap.smapssnap_rootproc :: snap.smapssnap_proclist).map
    (fun r => r.smapsproc_uid)).Nodup ∧
  ∀ r ∈ snap.smapssnap_rootproc :: snap.smapssnap_proclist,
    r.smapsproc_parent = none ∧ r.smapsproc_children = []

/-- The parent that the hierarchy is to give the record `cur`: the record of
`procs` whose `Pid` is the `PPid` of `cur`, when there is one and it is not
`cur` itself, and the root otherwise. -/
def parent_uid (root : Int) (procs : List smapsproc_t) (cur : smapsproc_t) : Int :=
  match procs.find? (fun q => decide (q.smapsproc_pid.Pid = cur.smapsproc_pid.PPid)) with
  | some q => if q.smapsproc_uid = cur.smapsproc_uid then root else q.smapsproc_uid
  | none => root

/-- The parent that the loop of `smapssnap_create_hierarchy` gives the record
`cur`: the record that `find` returns for its `PPid` in the sorted process list
`procs`, and the root when that is the null pointer or `cur` itself. -/
def hier_target (root : Int) (procs : List smapsproc_t) (cur : smapsproc_t) : Int :=
  match create_hierarchy_find procs cur.smapsproc_pid.PPid procs.length 0 procs.length with
  | some (some u) => if u = cur.smapsproc_uid then root else u
  | _ => root

/-- The record `r` after the first `k` records of the sorted process list
`procs` have been given their parents. -/
def built (root : Int) (procs : List smapsproc_t) (k : Nat) (r : smapsproc_t) : smapsproc_t :=
  { r with
    smapsproc_parent :=
      if r.smapsproc_uid ∈ (procs.take k).map (fun c => c.smapsproc_uid) then
        some (hier_target root procs r)
      else none
    smapsproc_children :=
      ((procs.take k).filter (fun c => decide (hier_target root procs c = r.smapsproc_uid))).map
        (fun c => some c.smapsproc_uid) }

/-- Insertion sort by `Pid`, an instance of the sorting routine. -/
def sort_pid_example (l : List smapsproc_t) : List smapsproc_t :=
  l.insertionSort (fun a b => decide (a.smapsproc_pid.Pid ≤ b.smapsproc_pid.Pid) = true)

/-- A process record with the given `uid`, name, `Pid`, `PPid` and thread
count. -/
def proc_example (uid : Int) (name : String) (pid ppid threads : Int) : smapsproc_t :=
  { smapsproc_uid := uid
    smapsproc_pid := { Name := name, Pid := pid, PPid := ppid, Threads := threads } }

/-- A snapshot of six processes: `init` (pid 1), its child `foo` (pid 10), a
chain `foo` (pid 11) and `foo` (pid 13) below it, and the processes `bar` (pid
12, child of 11) and `baz` (pid 14, child of 13). -/
def hier_snap : smapssnap_t :=
  { smapssnap_rootproc := { smapsproc_uid := 0 }
    smapssnap_proclist := [proc_example 1 "init" 1 0 1, proc_example 2 "foo" 10 1 1,
      proc_example 3 "foo" 11 10 1, proc_example 4 "bar" 12 11 1, proc_example 5 "foo" 13 11 1,
      proc_example 6 "baz" 14 13 1] }

/-- A snapshot of two processes each of which names the other as its
parent. -/
def cycle_snap : smapssnap_t :=
  { smapssnap_rootproc := { smapsproc_uid := 0 }
    smapssnap_proclist := [proc_example 1 "a" 1 2 1, proc_example 2 "b" 2 1 1] }

/-- The record that `k` parent links lead to from the record with the pointer
`p`. -/
def ancestor (heap : List smapsproc_t) : Nat → Int → Option Int
  | 0, p => some p
  | k + 1, p =>
    match proc_deref heap p with
    | none => none
    | some r =>
      match r.smapsproc_parent with
      | none => none
      | some q => ancestor heap k q

/-- The snapshot `cycle_snap` with the parents and children that
`smapssnap_create_hierarchy` gives it. -/
def cycle_hier : smapssnap_t :=
  { smapssnap_rootproc := { smapsproc_uid := 0 }
    smapssnap_proclist := [
      { proc_example 1 "a" 1 2 1 with
        smapsproc_parent := some 2, smapsproc_children := [some 2] },
      { proc_example 2 "b" 2 1 1 with
        smapsproc_parent := some 1, smapsproc_children := [some 1] }] }

/-- What `smapsproc_adopt_children` does to a child of the thread: the parent
becomes `self` and `PPid` becomes the pid `P` of `self`. -/
def reparent (self P : Int) (r : smapsproc_t) : smapsproc_t :=
  { r with
    smapsproc_parent := some self
    smapsproc_pid := { r.smapsproc_pid with PPid := P } }

/-- The part of a record that the hierarchy functions never write: everything
but the parent, the child list, `PPid` and the thread count. -/
def proc_data (r : smapsproc_t) : smapsproc_t :=
  { r with
    smapsproc_parent := none
    smapsproc_children := []
    smapsproc_pid := { r.smapsproc_pid with PPid := 0, Threads := 0 } }

/-- The record with the pointer `u` is the root of a tree of child lists in
the memory `H`: `L` lists the records of the tree, the root first, then the
trees of its children in the order of its child list; `n` bounds the number
of levels.  No entry of a child list of the tree is zeroed. -/
def shape (H : List smapsproc_t) : Nat → Int → List Int → Prop
  | 0, _, _ => False
  | n + 1, u, L =>
    ∃ r ks Ls, proc_deref H u = some r ∧ r.smapsproc_children = ks.map some ∧
      L = u :: Ls.flatten ∧ List.Forall₂ (fun k Lk => shape H n k Lk) ks Ls

/-- Every child of a record of `L` is a record of `L` and has that record as
its parent. -/
def linked (H : List smapsproc_t) (L : List Int) : Prop :=
  ∀ x ∈ L, ∀ rx, proc_deref H x = some rx → ∀ c, some c ∈ rx.smapsproc_children →
    c ∈ L ∧ ∃ rc, proc_deref H c = some rc ∧ rc.smapsproc_parent = some x

/-- No record of `L` has a child that `smapsproc_are_same` takes for a thread
of it. -/
def nosame (H : List smapsproc_t) (L : List Int) : Prop :=
  ∀ x ∈ L, ∀ rx, proc_deref H x = some rx → ∀ c, some c ∈ rx.smapsproc_children →
    ∀ rc, proc_deref H c = some rc → smapsproc_are_same rx rc = 0

/-- The thread count of the record with the pointer `x`. -/
def threads_of (H : List smapsproc_t) (x : Int) : Int :=
  ((proc_deref H x).map (fun r => r.smapsproc_pid.Threads)).getD 0

/-- The sum of the thread counts of the records `L`. -/
def thread_sum (H : List smapsproc_t) (L : List Int) : Int :=
  (L.map (threads_of H)).sum

/-- The parent link and the `PPid` of the record with the pointer `x`. -/
def parent_of (H : List smapsproc_t) (x : Int) : Option (Option Int × Int) :=
  (proc_deref H x).map (fun r => (r.smapsproc_parent, r.smapsproc_pid.PPid))

/-- The thread counts of the records `L1` in the memory `H1` have the sum of
the thread counts of the records `L` in the memory `H`: modulo `2 ^ 32` in
every case, and exactly, none of them negative, when no thread count of `L`
is negative and their sum is at most `INT_MAX`. -/
def threads_kept (H H1 : List smapsproc_t) (L L1 : List Int) : Prop :=
  (thread_sum H1 L1) % 4294967296 = (thread_sum H L) % 4294967296 ∧
  ((∀ x ∈ L, 0 ≤ threads_of H x) → thread_sum H L ≤ INT_MAX →
    (∀ x ∈ L1, 0 ≤ threads_of H1 x) ∧ thread_sum H1 L1 = thread_sum H L)

/-- The memory `H1` holds the records of the memory `H`, with the same data;
of the records `L` it keeps the records `L1`, the other ones have lost
their parent and their children; no record outside of `L` has changed; the
thread counts of `L1` have the sum of the thread counts of `L`. -/
def region (H H1 : List smapsproc_t) (L L1 : List Int) : Prop :=
  H1.map (fun r => r.smapsproc_uid) = H.map (fun r => r.smapsproc_uid) ∧
  L1.Nodup ∧ (∀ x ∈ L1, x ∈ L) ∧
  (∀ x, x ∉ L → proc_deref H1 x = proc_deref H x) ∧
  (∀ x, (proc_deref H1 x).map proc_data = (proc_deref H x).map proc_data) ∧
  (∀ x ∈ L, x ∉ L1 → ∃ rx, proc_deref H1 x = some rx ∧ rx.smapsproc_parent = none ∧
    rx.smapsproc_children = []) ∧
  threads_kept H H1 L L1

/-- What `smapsproc_collapse_threads` makes of the tree `L` of the record `u`
in the memory `H`: the tree of `u` is now `L1`, made of records of `L`, and
none of its records has a thread as a child; the records of `L` that are no
more in the tree have no parent and no child; no record outside of `L` has
changed, nor have the parent and the `PPid` of `u`; the thread counts of the
tree have the same sum. -/
def collapsed (H H1 : List smapsproc_t) (n : Nat) (u : Int) (L L1 : List Int) : Prop :=
  region H H1 L L1 ∧ shape H1 n u L1 ∧ linked H1 L1 ∧ nosame H1 L1 ∧
  parent_of H1 u = parent_of H u

/-- The memory `H` holds a hierarchy below the record `u`: the records are
distinct objects, `u` has no parent, no entry of a child list is zeroed, no
child list holds a record twice, every entry of the child list of a record is
a record that has it as its parent, and every record is in the child list of
its parent. -/
def hierarchy (H : List smapsproc_t) (u : Int) : Prop :=
  (H.map (fun r => r.smapsproc_uid)).Nodup ∧
  (∃ ru, proc_deref H u = some ru ∧ ru.smapsproc_parent = none) ∧
  (∀ y ry, proc_deref H y = some ry → ∃ ks : List Int, ry.smapsproc_children = ks.map some ∧ ks.Nodup ∧
    ∀ k ∈ ks, ∃ rk, proc_deref H k = some rk ∧ rk.smapsproc_parent = some y) ∧
  (∀ x y rx ry, proc_deref H x = some rx → proc_deref H y = some ry →
    rx.smapsproc_parent = some y → some x ∈ ry.smapsproc_children)

/-- A memory of four records: the root, a process `foo` below it, a thread
`foo` of that process, and a process `bar` below the thread. -/
def thread_heap : List smapsproc_t :=
  [{ smapsproc_uid := 0, smapsproc_children := [some 1] },
   { proc_example 1 "foo" 10 0 1 with smapsproc_parent := some 0, smapsproc_children := [some 2] },
   { proc_example 2 "foo" 11 10 2 with smapsproc_parent := some 1, smapsproc_children := [some 3] },
   { proc_example 3 "bar" 12 11 1 with smapsproc_parent := some 2 }]

/-- The parent links and the child lists of a snapshot agree: a process is
in the child list of a record, a process or the root, if and only if the
record is its parent, and it is then in the list once. -/
def adjacency (snap : smapssnap_t) : Prop :=
  ∀ c ∈ snap.smapssnap_proclist,
    ∀ n ∈ snap.smapssnap_rootproc :: snap.smapssnap_proclist,
      (some c.smapsproc_uid ∈ n.smapsproc_children ↔
        c.smapsproc_parent = some n.smapsproc_uid) ∧
      (c.smapsproc_parent = some n.smapsproc_uid →
        n.smapsproc_children.countP (fun e => decide (e = some c.smapsproc_uid)) = 1)

/-- The name and the `Vm` fields of a process are those that `pidinfo_ctor`
gives them, and `PPid` is 0. -/
def legacy_pid (p : pidinfo_t) : Prop :=
  p.Name = "<noname>" ∧ p.PPid = 0 ∧ p.VmSize = 0 ∧ p.VmLck = 0 ∧ p.VmRSS = 0 ∧
  p.VmData = 0 ∧ p.VmStk = 0 ∧ p.VmExe = 0 ∧ p.VmLib = 0 ∧ p.VmPTE = 0

/-- The part of a process record that the branches of `smapssnap_load_cap`
for range lines and counter lines leave alone. -/
def proc_core (r : smapsproc_t) : Int × pidinfo_t × Option Int × List (Option Int) :=
  (r.smapsproc_uid, r.smapsproc_pid, r.smapsproc_parent, r.smapsproc_children)

/-- The state of `smapssnap_load_cap` while it loads, into the snapshot that
`smapssnap_create` has made with the counter `u0`, a file without metadata
lines: the root is the one of `smapssnap_create`, every process has the name
and the `Vm` fields of `pidinfo_ctor`, `PPid` 0, a pid greater than 0, no
parent and no child, and the records are distinct objects. -/
def legacy_state (u0 : Int) (st : load_t) : Prop :=
  st.snap.smapssnap_rootproc = (smapssnap_create u0).1.smapssnap_rootproc ∧
  (∀ c ∈ st.snap.smapssnap_proclist.map proc_core,
    legacy_pid c.2.1 ∧ 0 < c.2.1.Pid ∧ c.2.2.1 = none ∧ c.2.2.2 = [] ∧ u0 < c.1 ∧
      c.1 < st.proc_uid) ∧
  ((st.snap.smapssnap_proclist.map proc_core).map Prod.fst).Nodup ∧ u0 < st.proc_uid

/-- A capture file of the legacy dialect: one process with one mapping. -/
def legacy_text : List Char :=
  "==> /proc/1/smaps <==\n08048000-08051000 r-xp 00000000 03:03 2060370 /sbin/init\nSize: 36 kB\n".data

/-- A line that starts like a range line, with a hexadecimal digit, and has
no `-` after its leading hexadecimal digits. -/
def missing_separator (line : List Char) : Prop :=
  (∃ c, (line_data line).head? = some c ∧ c_isxdigit c = true) ∧
  hexterm (line_data line) ≠ some '-'

/-- A capture file whose only range line has a blank for the `-`. -/
def unsep_first_text : List Char :=
  "==> /proc/1/smaps <==\n08048000 08051000 r-xp 00000000 03:03 2060370 /sbin/init\n".data

/-- A capture file in which a range line with a blank for the `-` follows a
range line. -/
def unsep_second_text : List Char :=
  ("==> /proc/1/smaps <==\n08048000-08051000 r-xp 00000000 03:03 2060370 /sbin/init\n" ++
   "08051000 08052000 rw-p 00009000 03:03 2060370 /sbin/init\nSize: 4 kB\n").data

/-- The keys `l` are interned one after the other into the table with the
keys `acc`: a key that is not in the table yet is appended. -/
def intern_all (acc : List String) (l : List String) : List String :=
  l.foldl (fun tab k => if k ∈ tab then tab else tab ++ [k]) acc

/-- The six base types, in the order in which `analyze_enumerate_data` interns
them. -/
def base_types : List String := ["total", "code", "data", "heap", "anon", "stack"]

/-- The mappings of a snapshot in the order in which `analyze_enumerate_data`
walks them: process after process of the sorted process list. -/
def enum_mapps (sort_procs : List smapsproc_t → List smapsproc_t) (snap : smapssnap_t) :
    List smapsmapp_t :=
  (sort_procs snap.smapssnap_proclist).flatMap (fun p => p.smapsproc_mapplist)

/-- A snapshot of one process with two mappings, the first of which has the
path `[total]`. -/
def total_snap : smapssnap_t :=
  { smapssnap_proclist := [
      { smapsproc_pid := { Name := "foo", Pid := 1 }
        smapsproc_mapplist := (smapsproc_add_mapping 0
          (smapsproc_add_mapping 0 {} 0 4096 "rw-p".data 0 "00:00".data 0 (some "[total]".data))
          4096 8192 "r-xp".data 0 "03:03".data 7 (some "/bin/foo".data)).smapsproc_mapplist.map
            (fun m => { m with smapsmapp_mem := { Size := 4, Rss := 4, Private_Dirty := 4 } }) }] }

/-- The mappings of a snapshot in the order of the loops of `smapsfilt_diff`. -/
def snap_mapps (snap : smapssnap_t) : List smapsmapp_t :=
  (snap.smapssnap_proclist.map (fun proc => proc.smapsproc_mapplist)).flatten

/-- The sum over the groups of a table of the measure `f` of slot `i`. -/
def slot_total (f : diffval_t → ℚ) (tab : List diffkey_t) (i : Nat) : ℚ :=
  (tab.map (fun e => f (e.val.getD i diffval_ctor))).sum

/-- Further cases in which `double` arithmetic is exact, beside `add_exact`:
halving the double of a natural number, subtracting a natural number from
itself (both below `2 ^ 53`), the square of 0 and the square root of 0. -/
def fp_laws (fp : fp_ops) : Prop :=
  add_exact fp ∧
  (∀ a : Nat, a + a < 2 ^ 53 → fp.div ((a + a : Nat) : ℚ) 2 = (a : ℚ)) ∧
  (∀ a : Nat, a < 2 ^ 53 → fp.sub (a : ℚ) (a : ℚ) = 0) ∧
  fp.mul 0 0 = 0 ∧ fp.sqrt 0 = 0


/-! ## Auxiliary definitions for the round trip of a capture -/

/-- The fields of a process record that a capture file holds: the record
`smapsproc_pid` (name, pid, parent pid, thread count and the eight `Vm`
fields) and, for every mapping in order, the record `smapsmapp_map` (head,
tail, prot, offs, node, flgs, path, type) and the six counters. -/
def cap_fields (r : smapsproc_t) : pidinfo_t × List (mapinfo_t × meminfo_t) :=
  (r.smapsproc_pid, r.smapsproc_mapplist.map (fun m => (m.smapsmapp_map, m.smapsmapp_mem)))

/-- A token as `slice` cuts it at white space: it has no byte `<= 32`. -/
def is_token (s : List Char) : Prop := ∀ c ∈ s, ¬ c.toNat ≤ 32

/-- The type that `smapsproc_add_mapping` gives a mapping with the path `path`
and the protection `prot`. -/
def mapping_type (path prot : List Char) : String :=
  match path with
  | '[' :: rest => String.mk ((rest.takeWhile (fun c => c ≠ ']')).take 31)
  | _ => if 'x' ∈ prot then "code" else "data"

/-- A mapping as the capture parser makes it: the numbers are `unsigned`, the
protection and the node are tokens, the path is a text of one line that is
not empty and does not start with a blank, and the type is the one that goes
with the path and the protection. -/
def mapp_parsed (m : smapsmapp_t) : Prop :=
  (m.smapsmapp_map.head < UINT_MOD ∧ m.smapsmapp_map.tail < UINT_MOD ∧
    m.smapsmapp_map.offs < UINT_MOD ∧ m.smapsmapp_map.flgs < UINT_MOD) ∧
  (is_token m.smapsmapp_map.prot.data ∧ is_token m.smapsmapp_map.node.data) ∧
  (m.smapsmapp_map.path.data ≠ [] ∧
    (∀ c, m.smapsmapp_map.path.data.head? = some c → ¬ c.toNat ≤ 32) ∧
    (∀ c ∈ m.smapsmapp_map.path.data, c.toNat ≠ 0 ∧ c ≠ '\r' ∧ c ≠ '\n')) ∧
  m.smapsmapp_map.type
    = mapping_type m.smapsmapp_map.path.data m.smapsmapp_map.prot.data ∧
  (m.smapsmapp_mem.Size < UINT_MOD ∧ m.smapsmapp_mem.Rss < UINT_MOD ∧
    m.smapsmapp_mem.Shared_Clean < UINT_MOD ∧ m.smapsmapp_mem.Shared_Dirty < UINT_MOD ∧
    m.smapsmapp_mem.Private_Clean < UINT_MOD ∧ m.smapsmapp_mem.Private_Dirty < UINT_MOD)

/-- The record `smapsproc_pid` as the capture parser makes it: the name is a
token that does not start with `-`, the three `int` fields are `int`s and the
eight `Vm` fields are `unsigned`. -/
def pid_parsed (p : pidinfo_t) : Prop :=
  (is_token p.Name.data ∧ p.Name.data.head? ≠ some '-') ∧
  ((INT_MIN ≤ p.Pid ∧ p.Pid ≤ INT_MAX) ∧ (INT_MIN ≤ p.PPid ∧ p.PPid ≤ INT_MAX) ∧
    (INT_MIN ≤ p.Threads ∧ p.Threads ≤ INT_MAX)) ∧
  (p.VmSize < UINT_MOD ∧ p.VmLck < UINT_MOD ∧ p.VmRSS < UINT_MOD ∧ p.VmData < UINT_MOD ∧
    p.VmStk < UINT_MOD ∧ p.VmExe < UINT_MOD ∧ p.VmLib < UINT_MOD ∧ p.VmPTE < UINT_MOD)

/-- A process record as the capture parser makes it. -/
def proc_parsed (r : smapsproc_t) : Prop :=
  pid_parsed r.smapsproc_pid ∧ ∀ m ∈ r.smapsproc_mapplist, mapp_parsed m

/-- What holds of every character of a numeral in base 16: it is a digit of
that base, and neither a blank nor a sign nor the letter `x`. -/
def hex_char (c : Char) : Prop :=
  (∃ d, d < 16 ∧ digit_value 16 c = some d) ∧ c_isxdigit c = true ∧
  ¬ c.toNat ≤ 32 ∧ c_isspace c = false ∧ c ≠ '-' ∧ c ≠ '+' ∧ c ≠ 'x' ∧ c ≠ 'X' ∧ c ≠ '\n'

/-- The text of the lines `ls`, each ended by a newline. -/
def unlines (ls : List (List Char)) : List Char := (ls.map (fun l => l ++ ['\n'])).flatten

/-- The line that the macro `Pu` of the inner loop of `smapssnap_save_cap`
prints, without its newline. -/
def counter_line (name : String) (v : Nat) : List Char :=
  fmt_left 14 (name.data ++ [':']) ++ [' '] ++ fmt_right 8 (fmt_u v) ++ " kB".data

/-- The range line that `smapssnap_save_cap` prints for a mapping, without its
newline. -/
def range_line (map : mapinfo_t) : List Char :=
  fmt_08x map.head ++ ['-'] ++ fmt_08x map.tail ++ [' '] ++
  map.prot.data ++ [' '] ++ fmt_08x map.offs ++ [' '] ++
  map.node.data ++ [' '] ++ fmt_left 10 (fmt_u map.flgs) ++
  [' '] ++ map.path.data

/-- The seven lines that `smapssnap_save_cap` prints for a mapping. -/
def mapp_lines (m : smapsmapp_t) : List (List Char) :=
  [range_line m.smapsmapp_map,
   counter_line "Size" m.smapsmapp_mem.Size,
   counter_line "Rss" m.smapsmapp_mem.Rss,
   counter_line "Shared_Clean" m.smapsmapp_mem.Shared_Clean,
   counter_line "Shared_Dirty" m.smapsmapp_mem.Shared_Dirty,
   counter_line "Private_Clean" m.smapsmapp_mem.Private_Clean,
   counter_line "Private_Dirty" m.smapsmapp_mem.Private_Dirty]

/-- The metadata lines that `smapssnap_save_cap` prints for a process. -/
def pid_lines (pi : pidinfo_t) : List (List Char) :=
  ["#Name: ".data ++ pi.Name.data, "#Pid: ".data ++ fmt_d pi.Pid,
   "#PPid: ".data ++ fmt_d pi.PPid, "#Threads: ".data ++ fmt_d pi.Threads] ++
  (if pi.VmSize ≠ 0 ∨ pi.VmLck ≠ 0 ∨ pi.VmRSS ≠ 0 ∨ pi.VmData ≠ 0 ∨
      pi.VmStk ≠ 0 ∨ pi.VmExe ≠ 0 ∨ pi.VmLib ≠ 0 ∨ pi.VmPTE ≠ 0 then
    ["#VmSize: ".data ++ fmt_u pi.VmSize, "#VmLck: ".data ++ fmt_u pi.VmLck,
     "#VmRSS: ".data ++ fmt_u pi.VmRSS, "#VmData: ".data ++ fmt_u pi.VmData,
     "#VmStk: ".data ++ fmt_u pi.VmStk, "#VmExe: ".data ++ fmt_u pi.VmExe,
     "#VmLib: ".data ++ fmt_u pi.VmLib, "#VmPTE: ".data ++ fmt_u pi.VmPTE]
  else [])

/-- The lines that `smapssnap_save_cap` prints for a process: the header, the
metadata lines, the lines of the mappings and an empty line. -/
def proc_lines (proc : smapsproc_t) : List (List Char) :=
  header_line proc.smapsproc_pid.Pid :: (pid_lines proc.smapsproc_pid ++
    (proc.smapsproc_mapplist.map mapp_lines).flatten ++ [[]])

/-- A capture with a range line that has neither protection nor node. -/
def bare_range_text : List Char := "==> /proc/1/smaps <==\n0-1\n".data

/-- A capture of one process with one mapping. -/
def round_trip_text : List Char :=
  ("==> /proc/1/smaps <==\n#Name: init\n#Pid: 1\n#PPid: 0\n#Threads: 1\n" ++
   "08048000-08051000 r-xp 00000000 03:03 2060370    /sbin/init\n" ++
   "Size:                36 kB\nRss:                 36 kB\n" ++
   "Shared_Clean:         0 kB\nShared_Dirty:         0 kB\n" ++
   "Private_Clean:       36 kB\nPrivate_Dirty:        0 kB\n").data

/-- The record with the pointer `x` has no parent in the memory `H`. -/
def orphan (H : List smapsproc_t) (x : Int) : Prop :=
  ∃ r, proc_deref H x = some r ∧ r.smapsproc_parent = none

/-- The record with the pointer `x` is a child that `smapsproc_are_same`
takes for a thread of its parent in the memory `H`. -/
def is_thread (H : List smapsproc_t) (x : Int) : Prop :=
  ∃ rx p rp, proc_deref H x = some rx ∧ rx.smapsproc_parent = some p ∧
    proc_deref H p = some rp ∧ smapsproc_are_same rp rx ≠ 0

/-! # Theorems -/
/-! ## Generic facts about loops and flat tables -/

theorem cell_set (tab : List meminfo_t) (i j : Nat) (v : meminfo_t) (h : i < tab.length) :
    cell (tab.set i v) j = if i = j then v else cell tab j := by
  unfold cell
  simp only [List.getD_eq_getElem?_getD, List.getElem?_set]
  by_cases hij : i = j
  · subst hij; simp [h]
  · simp [hij]

theorem cell_replicate (n i : Nat) : cell (List.replicate n meminfo_ctor) i = meminfo_ctor := by
  unfold cell
  simp only [List.getD_eq_getElem?_getD, List.getElem?_replicate]
  split <;> rfl

/-- A loop in the `Option` monad whose body succeeds on every state satisfying
an invariant computes the same as the pure loop. -/
theorem foldlM_option_inv {σ α : Type} (P : σ → Prop) (f : σ → α → Option σ)
    (g : σ → α → σ) (xs : List α)
    (h : ∀ x ∈ xs, ∀ s, P s → f s x = some (g s x) ∧ P (g s x)) (s : σ) (hs : P s) :
    xs.foldlM f s = some (xs.foldl g s) ∧ P (xs.foldl g s) := by
  induction xs generalizing s with
  | nil => exact ⟨rfl, hs⟩
  | cons x xs ih =>
    have hx := h x (List.mem_cons_self _ _) s hs
    simp only [List.foldlM_cons, List.foldl_cons, hx.1]
    exact ih (fun y hy => h y (List.mem_cons_of_mem _ hy)) _ hx.2

theorem foldl_pair {σ τ α : Type} (F : σ → α → σ) (G : τ → α → τ) (xs : List α) (a : σ) (b : τ) :
    xs.foldl (fun st x => (F st.1 x, G st.2 x)) (a, b) = (xs.foldl F a, xs.foldl G b) := by
  induction xs generalizing a b with
  | nil => rfl
  | cons x xs ih => simp only [List.foldl_cons]; exact ih _ _

theorem foldl_nested {σ α β : Type} (h : α → σ → β → σ) (G : List α) (T : List β) (s : σ) :
    G.foldl (fun st g => T.foldl (h g) st) s
      = (loop_pairs G T).foldl (fun st p => h p.1 st p.2) s := by
  unfold loop_pairs
  rw [List.foldl_flatten, List.foldl_map]
  congr 1
  funext st g
  rw [List.foldl_map]

theorem mem_loop_pairs {α β : Type} (G : List α) (T : List β) (p : α × β) :
    p ∈ loop_pairs G T ↔ p.1 ∈ G ∧ p.2 ∈ T := by
  unfold loop_pairs
  simp only [List.mem_flatten, List.mem_map]
  constructor
  · rintro ⟨l, ⟨g, hg, rfl⟩, hp⟩
    simp only [List.mem_map] at hp
    obtain ⟨t, ht, rfl⟩ := hp
    exact ⟨hg, ht⟩
  · rintro ⟨hg, ht⟩
    exact ⟨_, ⟨p.1, hg, rfl⟩, List.mem_map.mpr ⟨p.2, ht, rfl⟩⟩

/-- A loop that updates one cell of a flat table per step, from values that no
step of the loop overwrites: every cell ends as the fold of the values written
to it. -/
theorem foldl_set_cell {α : Type} (d : α → Nat) (v : List meminfo_t → α → meminfo_t)
    (f : meminfo_t → meminfo_t → meminfo_t) (xs : List α) (tab : List meminfo_t)
    (hd : ∀ x ∈ xs, d x < tab.length)
    (hv : ∀ x ∈ xs, ∀ y ∈ xs, ∀ t z, d y < t.length → v (t.set (d y) z) x = v t x) :
    (xs.foldl (fun t x => t.set (d x) (f (cell t (d x)) (v t x))) tab).length = tab.length ∧
    ∀ j, cell (xs.foldl (fun t x => t.set (d x) (f (cell t (d x)) (v t x))) tab) j
      = ((xs.filter (fun x => d x = j)).map (v tab)).foldl f (cell tab j) := by
  induction xs generalizing tab with
  | nil => exact ⟨rfl, fun j => rfl⟩
  | cons x xs ih =>
    have hx : d x < tab.length := hd x (List.mem_cons_self _ _)
    have ih1 := ih (tab.set (d x) (f (cell tab (d x)) (v tab x)))
      (fun y hy => by rw [List.length_set]; exact hd y (List.mem_cons_of_mem _ hy))
      (fun a ha b hb t z ht => hv a (List.mem_cons_of_mem _ ha) b (List.mem_cons_of_mem _ hb) t z ht)
    simp only [List.foldl_cons]
    refine ⟨by rw [ih1.1, List.length_set], fun j => ?_⟩
    rw [ih1.2 j, cell_set _ _ _ _ hx]
    have hmap : (xs.filter (fun x => d x = j)).map
          (v (tab.set (d x) (f (cell tab (d x)) (v tab x))))
        = (xs.filter (fun x => d x = j)).map (v tab) := by
      apply List.map_congr_left
      intro y hy
      exact hv y (List.mem_cons_of_mem _ (List.mem_of_mem_filter hy)) x (List.mem_cons_self _ _) tab _ hx
    rw [hmap, List.filter_cons]
    by_cases hj : d x = j
    · simp [hj]
    · simp [hj]

/-! ## Sums and maxima of counters -/

theorem field_sum6 (a b : meminfo_t) (c : counter_t) :
    (accumulate_sum6 a b).field c = pusum (a.field c) (b.field c) := by
  cases c <;> rfl

theorem field_appdata (a b : meminfo_t) (c : counter_t) :
    (meminfo_accumulate_appdata a b).field c = pusum (a.field c) (b.field c) := by
  cases c <;> rfl

theorem field_maxdata (a b : meminfo_t) (c : counter_t) :
    (meminfo_accumulate_maxdata a b).field c = pumax (a.field c) (b.field c) := by
  cases c <;> rfl

theorem field_max4_sum2 (a b : meminfo_t) (c : counter_t) :
    (accumulate_max4_sum2 a b).field c
      = if c.is_private then pusum (a.field c) (b.field c) else pumax (a.field c) (b.field c) := by
  cases c <;> rfl

theorem field_ctor (c : counter_t) : meminfo_ctor.field c = 0 := by
  cases c <;> rfl

theorem field_foldl (f : meminfo_t → meminfo_t → meminfo_t) (op : Nat → Nat → Nat)
    (c : counter_t) (hf : ∀ a b, (f a b).field c = op (a.field c) (b.field c))
    (ms : List meminfo_t) (m0 : meminfo_t) :
    (ms.foldl f m0).field c = (ms.map (fun m => m.field c)).foldl op (m0.field c) := by
  induction ms generalizing m0 with
  | nil => rfl
  | cons m ms ih => simp only [List.foldl_cons, List.map_cons]; rw [ih, hf]

theorem foldl_pusum (l : List Nat) (a : Nat) (ha : a < UINT_MOD) :
    l.foldl pusum a = (a + l.sum) % UINT_MOD := by
  induction l generalizing a with
  | nil => simp [Nat.mod_eq_of_lt ha]
  | cons x xs ih =>
    simp only [List.foldl_cons, List.sum_cons]
    rw [ih _ (show pusum a x < UINT_MOD from Nat.mod_lt _ (by decide))]
    unfold pusum
    rw [Nat.add_mod, Nat.mod_mod, ← Nat.add_mod, Nat.add_assoc]

theorem foldl_pusum_zero (l : List Nat) : l.foldl pusum 0 = l.sum % UINT_MOD := by
  rw [foldl_pusum l 0 (by decide), Nat.zero_add]

theorem pumax_eq_max (a b : Nat) : pumax a b = max a b := by
  unfold pumax
  split
  · rw [max_eq_right]; omega
  · rw [max_eq_left]; omega

theorem foldl_pumax (l : List Nat) (a : Nat) : l.foldl pumax a = max a (max_list l) := by
  induction l generalizing a with
  | nil => simp [max_list]
  | cons x xs ih =>
    simp only [List.foldl_cons]
    rw [ih, pumax_eq_max]
    simp only [max_list, List.foldr_cons]
    rw [max_assoc]

theorem foldl_pumax_zero (l : List Nat) : l.foldl pumax 0 = max_list l := by
  rw [foldl_pumax]; simp

theorem le_max_list (l : List Nat) (x : Nat) (h : x ∈ l) : x ≤ max_list l := by
  induction l with
  | nil => simp at h
  | cons y ys ih =>
    simp only [max_list, List.foldr_cons]
    rcases List.mem_cons.mp h with rfl | h
    · exact le_max_left _ _
    · exact le_trans (ih h) (le_max_right _ _)

theorem max_list_mem (l : List Nat) (h : l ≠ []) : max_list l ∈ l := by
  induction l with
  | nil => exact absurd rfl h
  | cons y ys ih =>
    simp only [max_list, List.foldr_cons]
    by_cases hys : ys = []
    · subst hys; simp
    · rcases max_choice y (List.foldr max 0 ys) with h1 | h1
      · rw [h1]; exact List.mem_cons_self _ _
      · rw [h1]; exact List.mem_cons_of_mem _ (ih hys)

/-! ## Index arithmetic -/

theorem mem_int_range (lo hi x : Int) : x ∈ int_range lo hi ↔ lo ≤ x ∧ x < hi := by
  unfold int_range
  simp only [List.mem_map, List.mem_range]
  constructor
  · rintro ⟨k, hk, rfl⟩; omega
  · rintro ⟨h1, h2⟩
    exact ⟨(x - lo).toNat, by omega, by omega⟩

theorem int_range_nodup (lo hi : Int) : (int_range lo hi).Nodup := by
  unfold int_range
  apply List.Nodup.map _ (List.nodup_range _)
  intro a b h
  simp only at h
  omega

theorem flat_index_lt (t g n G : Int) (ht0 : 0 ≤ t) (ht : t < n) (hg0 : 0 ≤ g) (hg : g < G) :
    (t + g * n).toNat < (G * n).toNat := by
  have h1 : (g + 1) * n ≤ G * n := Int.mul_le_mul_of_nonneg_right (by omega) (by omega)
  have h2 : 0 ≤ g * n := Int.mul_nonneg hg0 (by omega)
  have h3 : (g + 1) * n = g * n + n := by ring
  omega

theorem flat_index_inj (t g t1 g1 n : Int) (ht0 : 0 ≤ t) (ht : t < n) (hg0 : 0 ≤ g)
    (ht10 : 0 ≤ t1) (ht1 : t1 < n) (hg10 : 0 ≤ g1)
    (h : (t + g * n).toNat = (t1 + g1 * n).toNat) : t = t1 ∧ g = g1 := by
  have h2 : 0 ≤ g * n := Int.mul_nonneg hg0 (by omega)
  have h3 : 0 ≤ g1 * n := Int.mul_nonneg hg10 (by omega)
  have h4 : t + g * n = t1 + g1 * n := by omega
  have hg : g = g1 := by
    rcases lt_trichotomy g g1 with hlt | heq | hgt
    · exfalso
      have : (g + 1) * n ≤ g1 * n := Int.mul_le_mul_of_nonneg_right (by omega) (by omega)
      have h5 : (g + 1) * n = g * n + n := by ring
      omega
    · exact heq
    · exfalso
      have : (g1 + 1) * n ≤ g * n := Int.mul_le_mul_of_nonneg_right (by omega) (by omega)
      have h5 : (g1 + 1) * n = g1 * n + n := by ring
      omega
  subst hg
  exact ⟨by omega, rfl⟩

/-! ## The group key determines the (application, library) pair -/

theorem digitChar_val (d : Nat) (h : d < 10) : (Nat.digitChar d).toNat - 48 = d := by
  interval_cases d <;> rfl

theorem digitChar_isDigit (d : Nat) (h : d < 10) : (Nat.digitChar d).isDigit = true := by
  interval_cases d <;> rfl

theorem parse_dec_digits (fuel n : Nat) (h : n < fuel) : parse_dec (dec_digits fuel n) = n := by
  induction fuel generalizing n with
  | zero => omega
  | succ fuel ih =>
    unfold dec_digits
    split
    · rename_i hn
      simp [parse_dec, digitChar_val n hn]
    · rename_i hn
      have h1 := ih (n / 10) (by omega)
      unfold parse_dec at h1 ⊢
      rw [List.foldl_append, h1]
      simp only [List.foldl_cons, List.foldl_nil]
      rw [digitChar_val _ (Nat.mod_lt _ (by decide))]
      omega

theorem dec_digits_isDigit (fuel n : Nat) : ∀ c ∈ dec_digits fuel n, c.isDigit = true := by
  induction fuel generalizing n with
  | zero => intro c hc; simp [dec_digits] at hc
  | succ fuel ih =>
    intro c hc
    unfold dec_digits at hc
    split at hc
    · rename_i hn
      simp only [List.mem_singleton] at hc
      subst hc; exact digitChar_isDigit n hn
    · rcases List.mem_append.mp hc with h1 | h1
      · exact ih _ c h1
      · simp only [List.mem_singleton] at h1
        subst h1; exact digitChar_isDigit _ (Nat.mod_lt _ (by decide))

theorem parse_dec_zeros (k : Nat) (l : List Char) :
    parse_dec (List.replicate k '0' ++ l) = parse_dec l := by
  induction k with
  | zero => simp
  | succ k ih =>
    rw [List.replicate_succ, List.cons_append]
    unfold parse_dec at ih ⊢
    rw [List.foldl_cons]
    exact ih

theorem fmt_03d_nonneg (n : Int) (h : 0 ≤ n) :
    parse_dec (fmt_03d n) = n.natAbs ∧ ∀ c ∈ fmt_03d n, c.isDigit = true := by
  unfold fmt_03d
  rw [if_neg (by omega)]
  refine ⟨?_, ?_⟩
  · rw [parse_dec_zeros]
    exact parse_dec_digits _ _ (by omega)
  · intro c hc
    rcases List.mem_append.mp hc with h1 | h1
    · rw [(List.mem_replicate.mp h1).2]; rfl
    · exact dec_digits_isDigit _ _ c h1

theorem takeWhile_append_stop (p : Char → Bool) (A rest : List Char) (c : Char)
    (hA : ∀ a ∈ A, p a = true) (hc : p c = false) :
    (A ++ c :: rest).takeWhile p = A ∧ (A ++ c :: rest).dropWhile p = c :: rest := by
  induction A with
  | nil => simp [List.takeWhile, List.dropWhile, hc]
  | cons a A ih =>
    have ha : p a = true := hA a (List.mem_cons_self _ _)
    have ih1 := ih (fun b hb => hA b (List.mem_cons_of_mem _ hb))
    rw [List.cons_append, List.takeWhile_cons, List.dropWhile_cons, ha]
    simp only [if_true]
    exact ⟨by rw [ih1.1], ih1.2⟩

theorem group_key_decode_eq (a l : Int) (ha : 0 ≤ a) (hl : 0 ≤ l) :
    group_key_decode (group_key a l) = (a.natAbs, l.natAbs) := by
  unfold group_key_decode group_key
  have h1 : (['a', 'p', 'p'] ++ fmt_03d a ++ [':', ':', 'l', 'i', 'b'] ++ fmt_03d l).drop 3
      = fmt_03d a ++ ':' :: (':' :: 'l' :: 'i' :: 'b' :: fmt_03d l) := by
    simp
  have h2 := takeWhile_append_stop Char.isDigit (fmt_03d a)
    (':' :: 'l' :: 'i' :: 'b' :: fmt_03d l) ':' (fmt_03d_nonneg a ha).2 (by rfl)
  simp only [h1, h2.1, h2.2, List.drop_succ_cons, List.drop_zero,
    (fmt_03d_nonneg a ha).1, (fmt_03d_nonneg l hl).1]

theorem group_key_inj (a l a1 l1 : Int) (ha : 0 ≤ a) (hl : 0 ≤ l) (ha1 : 0 ≤ a1) (hl1 : 0 ≤ l1)
    (h : group_key a l = group_key a1 l1) : a = a1 ∧ l = l1 := by
  have h1 := group_key_decode_eq a l ha hl
  rw [h, group_key_decode_eq a1 l1 ha1 hl1] at h1
  simp only [Prod.mk.injEq] at h1
  omega

/-! ## Symbol tables -/

theorem symtab_enumerate_spec (self : symtab_t) (key : String) :
    (∃ ext, (symtab_enumerate self key).1.symtab_entry = self.symtab_entry ++ ext) ∧
    0 ≤ (symtab_enumerate self key).2 ∧
    (symtab_enumerate self key).1.symtab_entry[(symtab_enumerate self key).2.toNat]? = some key := by
  unfold symtab_enumerate
  split
  · rename_i h
    refine ⟨⟨[], by simp⟩, by simp, ?_⟩
    simp only [Int.toNat_ofNat]
    have hlt : List.indexOf key self.symtab_entry < self.symtab_entry.length :=
      List.indexOf_lt_length.mpr h
    rw [List.getElem?_eq_getElem hlt, List.getElem_indexOf hlt]
  · refine ⟨⟨[key], rfl⟩, by simp, ?_⟩
    simp

theorem symtab_enumerate_count_le (self : symtab_t) (key : String) :
    self.symtab_count ≤ (symtab_enumerate self key).1.symtab_count := by
  obtain ⟨⟨ext, h⟩, -, -⟩ := symtab_enumerate_spec self key
  unfold symtab_t.symtab_count
  rw [h, List.length_append]
  omega

theorem symtab_enumerate_lt (self : symtab_t) (key : String) :
    (symtab_enumerate self key).2 < (symtab_enumerate self key).1.symtab_count := by
  obtain ⟨-, h0, h⟩ := symtab_enumerate_spec self key
  have := (List.getElem?_eq_some_iff.mp h).1
  unfold symtab_t.symtab_count
  omega

theorem symtab_enumerate_keep (self : symtab_t) (key k : String) (i : Nat)
    (h : self.symtab_entry[i]? = some k) :
    (symtab_enumerate self key).1.symtab_entry[i]? = some k := by
  obtain ⟨⟨ext, he⟩, -, -⟩ := symtab_enumerate_spec self key
  rw [he, List.getElem?_append_left (List.getElem?_eq_some_iff.mp h).1]
  exact h

theorem symtab_enumerate_new (self : symtab_t) (key : String) (g : Nat)
    (hg : g < (symtab_enumerate self key).1.symtab_entry.length)
    (hlt : ¬ g < self.symtab_entry.length) : (symtab_enumerate self key).2 = (g : Int) := by
  unfold symtab_enumerate at hg ⊢
  split at hg
  · exact absurd hg hlt
  · rename_i hk
    rw [if_neg hk]
    simp only [List.length_append, List.length_singleton] at hg
    simp only [Nat.cast_inj]
    omega

theorem foldl_inv {σ α : Type} (P : σ → Prop) (f : σ → α → σ) (xs : List α)
    (h : ∀ x ∈ xs, ∀ s, P s → P (f s x)) (s : σ) (hs : P s) : P (xs.foldl f s) := by
  induction xs generalizing s with
  | nil => exact hs
  | cons x xs ih =>
    exact ih (fun y hy => h y (List.mem_cons_of_mem _ hy)) _ (h x (List.mem_cons_self _ _) s hs)

/-! ## Invariants of analyze_enumerate_data -/

theorem inv_proc_mapp_step (nA a p : Int) (ha0 : 0 ≤ a) (ha : a < nA)
    (st : symtab_t × List smapsmapp_t) (mapp : smapsmapp_t) (h : inv_proc nA st) :
    inv_proc nA (enumerate_mapp_step a p st mapp) := by
  intro m hm
  unfold enumerate_mapp_step at hm ⊢
  simp only [List.mem_append, List.mem_singleton] at hm
  rcases hm with hm | rfl
  · obtain ⟨h1, h2, h3, h4⟩ := h m hm
    exact ⟨h1, h2, h3, lt_of_lt_of_le h4 (symtab_enumerate_count_le _ _)⟩
  · exact ⟨ha0, ha, (symtab_enumerate_spec _ _).2.1, symtab_enumerate_lt _ _⟩

theorem inv_proc_mono (nA nB : Int) (h : nA ≤ nB) (st : symtab_t × List smapsmapp_t)
    (hs : inv_proc nA st) : inv_proc nB st := by
  intro m hm
  obtain ⟨h1, h2, h3, h4⟩ := hs m hm
  exact ⟨h1, by omega, h3, h4⟩

theorem inv_proc_step (st : symtab_t × (symtab_t × List smapsmapp_t)) (proc : smapsproc_t)
    (h : inv_proc st.1.symtab_count st.2) :
    inv_proc (enumerate_proc_step st proc).1.symtab_count (enumerate_proc_step st proc).2 := by
  unfold enumerate_proc_step
  simp only
  apply foldl_inv (inv_proc _)
  · intro mapp _ s hs
    exact inv_proc_mapp_step _ _ _ (symtab_enumerate_spec _ _).2.1 (symtab_enumerate_lt _ _) s mapp hs
  · exact inv_proc_mono _ _ (symtab_enumerate_count_le _ _) _ h

theorem inv_path_step (nA nT : Int) (st : symtab_t × (symtab_t × List smapsmapp_t))
    (mapp : smapsmapp_t)
    (hm : 0 ≤ mapp.smapsmapp_AID ∧ mapp.smapsmapp_AID < nA ∧
      0 ≤ mapp.smapsmapp_TID ∧ mapp.smapsmapp_TID < nT)
    (h : inv_path nA nT st) : inv_path nA nT (enumerate_path_step st mapp) := by
  obtain ⟨h1, h2⟩ := h
  refine ⟨?_, ?_⟩
  · intro m hmem
    unfold enumerate_path_step at hmem ⊢
    simp only [List.mem_append, List.mem_singleton] at hmem
    rcases hmem with hmem | rfl
    · obtain ⟨a1, a2, a3, a4, a5, a6, a7, a8⟩ := h1 m hmem
      exact ⟨a1, a2, a3, a4, a5, lt_of_lt_of_le a6 (symtab_enumerate_count_le _ _), a7,
        symtab_enumerate_keep _ _ _ _ a8⟩
    · exact ⟨hm.1, hm.2.1, hm.2.2.1, hm.2.2.2, (symtab_enumerate_spec _ _).2.1,
        symtab_enumerate_lt _ _, (symtab_enumerate_spec _ _).2.1, (symtab_enumerate_spec _ _).2.2⟩
  · intro g hg
    unfold enumerate_path_step at hg ⊢
    simp only at hg ⊢
    by_cases hlt : g < st.2.1.symtab_entry.length
    · obtain ⟨m, hmem, he⟩ := h2 g hlt
      exact ⟨m, List.mem_append_left _ hmem, he⟩
    · refine ⟨_, List.mem_append_right _ (List.mem_singleton_self _), ?_⟩
      exact symtab_enumerate_new _ _ g hg hlt

theorem getD_set_int (l : List Int) (i j : Nat) (v d : Int) :
    (l.set i v).getD j d = if i = j ∧ i < l.length then v else l.getD j d := by
  simp only [List.getD_eq_getElem?_getD, List.getElem?_set]
  by_cases hij : i = j
  · subst hij
    by_cases hl : i < l.length
    · simp [hl]
    · simp [hl, List.getElem?_eq_none (Nat.le_of_not_lt hl)]
  · simp [hij]

/-- The pure content of `enumerate_group_step`. -/
theorem group_step_keep (xs : List smapsmapp_t) (st : List Int × List Int) (j : Nat) (v w : Int)
    (hv : st.1.getD j (-1) = v) (hw : st.2.getD j (-1) = w)
    (h : ∀ m ∈ xs, m.smapsmapp_EID.toNat = j → m.smapsmapp_AID = v ∧ m.smapsmapp_LID = w) :
    (xs.foldl group_step_pure st).1.getD j (-1) = v ∧
    (xs.foldl group_step_pure st).2.getD j (-1) = w := by
  induction xs generalizing st with
  | nil => exact ⟨hv, hw⟩
  | cons x xs ih =>
    simp only [List.foldl_cons]
    apply ih
    · unfold group_step_pure
      simp only [getD_set_int]
      split
      · rename_i hc; exact (h x (List.mem_cons_self _ _) hc.1).1
      · exact hv
    · unfold group_step_pure
      simp only [getD_set_int]
      split
      · rename_i hc; exact (h x (List.mem_cons_self _ _) hc.1).2
      · exact hw
    · exact fun m hm => h m (List.mem_cons_of_mem _ hm)

theorem group_step_length (xs : List smapsmapp_t) (st : List Int × List Int) :
    (xs.foldl group_step_pure st).1.length = st.1.length ∧
    (xs.foldl group_step_pure st).2.length = st.2.length := by
  induction xs generalizing st with
  | nil => exact ⟨rfl, rfl⟩
  | cons x xs ih =>
    simp only [List.foldl_cons]
    rw [(ih _).1, (ih _).2]
    simp [group_step_pure]

theorem group_step_all (xs : List smapsmapp_t) (st : List Int × List Int)
    (hb : ∀ m ∈ xs, 0 ≤ m.smapsmapp_EID ∧ m.smapsmapp_EID.toNat < st.1.length ∧
      m.smapsmapp_EID.toNat < st.2.length)
    (H : ∀ m ∈ xs, ∀ m1 ∈ xs, m.smapsmapp_EID = m1.smapsmapp_EID →
      m.smapsmapp_AID = m1.smapsmapp_AID ∧ m.smapsmapp_LID = m1.smapsmapp_LID) :
    ∀ m ∈ xs, (xs.foldl group_step_pure st).1.getD m.smapsmapp_EID.toNat (-1) = m.smapsmapp_AID ∧
      (xs.foldl group_step_pure st).2.getD m.smapsmapp_EID.toNat (-1) = m.smapsmapp_LID := by
  induction xs generalizing st with
  | nil => intro m hm; simp at hm
  | cons x xs ih =>
    intro m hm
    simp only [List.foldl_cons]
    have hx := hb x (List.mem_cons_self _ _)
    have key : ∀ m ∈ x :: xs, m.smapsmapp_EID.toNat = x.smapsmapp_EID.toNat →
        m.smapsmapp_AID = x.smapsmapp_AID ∧ m.smapsmapp_LID = x.smapsmapp_LID := by
      intro m1 hm1 he
      have := (hb m1 hm1).1
      exact H m1 hm1 x (List.mem_cons_self _ _) (by omega)
    have hstep : (group_step_pure st x).1.getD x.smapsmapp_EID.toNat (-1) = x.smapsmapp_AID ∧
        (group_step_pure st x).2.getD x.smapsmapp_EID.toNat (-1) = x.smapsmapp_LID := by
      unfold group_step_pure
      rw [getD_set_int, getD_set_int]
      exact ⟨by rw [if_pos ⟨rfl, hx.2.1⟩], by rw [if_pos ⟨rfl, hx.2.2⟩]⟩
    by_cases hmx : m.smapsmapp_EID.toNat = x.smapsmapp_EID.toNat
    · have hk := key m hm hmx
      rw [hmx, hk.1, hk.2]
      exact group_step_keep xs _ _ _ _ hstep.1 hstep.2
        (fun m1 hm1 he => key m1 (List.mem_cons_of_mem _ hm1) he)
    · rcases List.mem_cons.mp hm with rfl | hm1
      · exact absurd rfl hmx
      · apply ih _ _ _ m hm1
        · intro m1 h1
          have := hb m1 (List.mem_cons_of_mem _ h1)
          simpa [group_step_pure] using this
        · exact fun a ha b hb1 => H a (List.mem_cons_of_mem _ ha) b (List.mem_cons_of_mem _ hb1)

theorem group_loop_some (all xs : List smapsmapp_t) (n : Nat) (hsub : ∀ m ∈ xs, m ∈ all)
    (hb : ∀ m ∈ all, 0 ≤ m.smapsmapp_EID)
    (H : ∀ m ∈ all, ∀ m1 ∈ all, m.smapsmapp_EID = m1.smapsmapp_EID →
      m.smapsmapp_AID = m1.smapsmapp_AID ∧ m.smapsmapp_LID = m1.smapsmapp_LID) :
    xs.foldlM enumerate_group_step (List.replicate n (-1 : Int), List.replicate n (-1 : Int))
      = some (xs.foldl group_step_pure (List.replicate n (-1 : Int), List.replicate n (-1 : Int))) := by
  refine (foldlM_option_inv
    (fun st : List Int × List Int => ∀ j : Nat,
      (st.1.getD j (-1) = -1 ∨ ∃ m ∈ all, m.smapsmapp_EID.toNat = j ∧ st.1.getD j (-1) = m.smapsmapp_AID) ∧
      (st.2.getD j (-1) = -1 ∨ ∃ m ∈ all, m.smapsmapp_EID.toNat = j ∧ st.2.getD j (-1) = m.smapsmapp_LID))
    enumerate_group_step group_step_pure xs ?_ _ ?_).1
  · intro x hx st hP
    have hxa := hsub x hx
    have same : ∀ m ∈ all, m.smapsmapp_EID.toNat = x.smapsmapp_EID.toNat →
        m.smapsmapp_AID = x.smapsmapp_AID ∧ m.smapsmapp_LID = x.smapsmapp_LID := by
      intro m hm he
      have h1 := hb m hm
      have h2 := hb x hxa
      exact H m hm x hxa (by omega)
    refine ⟨?_, ?_⟩
    · unfold enumerate_group_step
      rw [if_pos]
      · rfl
      · refine ⟨?_, ?_⟩
        · rcases (hP x.smapsmapp_EID.toNat).1 with h | ⟨m, hm, he, hv⟩
          · exact Or.inl h
          · exact Or.inr (by rw [hv]; exact (same m hm he).1)
        · rcases (hP x.smapsmapp_EID.toNat).2 with h | ⟨m, hm, he, hv⟩
          · exact Or.inl h
          · exact Or.inr (by rw [hv]; exact (same m hm he).2)
    · intro j
      unfold group_step_pure
      simp only [getD_set_int]
      refine ⟨?_, ?_⟩
      · split
        · rename_i hc; exact Or.inr ⟨x, hxa, hc.1, rfl⟩
        · exact (hP j).1
      · split
        · rename_i hc; exact Or.inr ⟨x, hxa, hc.1, rfl⟩
        · exact (hP j).2
  · intro j
    have : (List.replicate n (-1 : Int)).getD j (-1) = -1 := by
      simp only [List.getD_eq_getElem?_getD, List.getElem?_replicate]
      split <;> rfl
    exact ⟨Or.inl this, Or.inl this⟩

theorem enumerate_groups_some (st : symtab_t × (symtab_t × List smapsmapp_t)) (nA nT : Int)
    (h : inv_path nA nT st) :
    ∃ grp, enumerate_groups st.2.1.symtab_count st.2.2 = some grp ∧
      ∀ m ∈ st.2.2, grp.1.getD m.smapsmapp_EID.toNat (-1) = m.smapsmapp_AID ∧
        grp.2.getD m.smapsmapp_EID.toNat (-1) = m.smapsmapp_LID := by
  obtain ⟨h1, h2⟩ := h
  have hb : ∀ m ∈ st.2.2, 0 ≤ m.smapsmapp_EID := fun m hm => (h1 m hm).2.2.2.2.2.2.1
  have H : ∀ m ∈ st.2.2, ∀ m1 ∈ st.2.2, m.smapsmapp_EID = m1.smapsmapp_EID →
      m.smapsmapp_AID = m1.smapsmapp_AID ∧ m.smapsmapp_LID = m1.smapsmapp_LID := by
    intro m hm m1 hm1 he
    obtain ⟨a1, -, -, -, a5, -, -, a8⟩ := h1 m hm
    obtain ⟨b1, -, -, -, b5, -, -, b8⟩ := h1 m1 hm1
    rw [he, b8] at a8
    have hk := group_key_inj _ _ _ _ b1 b5 a1 a5 (Option.some.inj a8)
    exact ⟨hk.1.symm, hk.2.symm⟩
  have hlen : ∀ m ∈ st.2.2, m.smapsmapp_EID.toNat < st.2.1.symtab_count.toNat := by
    intro m hm
    have := (List.getElem?_eq_some_iff.mp (h1 m hm).2.2.2.2.2.2.2).1
    unfold symtab_t.symtab_count
    simpa using this
  have hall := group_step_all st.2.2
    (List.replicate st.2.1.symtab_count.toNat (-1 : Int),
     List.replicate st.2.1.symtab_count.toNat (-1 : Int))
    (fun m hm => ⟨hb m hm, by simpa using hlen m hm, by simpa using hlen m hm⟩) H
  refine ⟨_, ?_, hall⟩
  unfold enumerate_groups
  rw [group_loop_some st.2.2 st.2.2 _ (fun m hm => hm) hb H]
  simp only
  rw [if_pos]
  rw [List.all_eq_true]
  intro g hg
  rw [mem_int_range] at hg
  obtain ⟨m, hm, he⟩ := h2 g.toNat (by
    unfold symtab_t.symtab_count at hg
    omega)
  have hge : m.smapsmapp_EID = g := by rw [he]; omega
  have hm1 := hall m hm
  rw [hge] at hm1
  have a1 := (h1 m hm).1
  have a5 := (h1 m hm).2.2.2.2.1
  simp only [Bool.and_eq_true, bne_iff_ne, ne_eq]
  rw [hm1.1, hm1.2]
  omega

theorem base_types_count :
    (symtab_enumerate (symtab_enumerate (symtab_enumerate (symtab_enumerate
      (symtab_enumerate (symtab_enumerate analyze_create.type_tab "total").1 "code").1 "data").1
      "heap").1 "anon").1 "stack").1.symtab_count = 6 := by
  decide

theorem enumerate_procs_inv (sort_procs : List smapsproc_t → List smapsproc_t)
    (snap : smapssnap_t) :
    inv_proc (enumerate_procs sort_procs analyze_create snap).1.symtab_count
      (enumerate_procs sort_procs analyze_create snap).2 ∧
    6 ≤ (enumerate_procs sort_procs analyze_create snap).2.1.symtab_count := by
  unfold enumerate_procs
  apply foldl_inv (fun st : symtab_t × (symtab_t × List smapsmapp_t) =>
    inv_proc st.1.symtab_count st.2 ∧ 6 ≤ st.2.1.symtab_count)
  · intro proc _ s hs
    refine ⟨inv_proc_step s proc hs.1, ?_⟩
    unfold enumerate_proc_step
    simp only
    apply foldl_inv (fun st : symtab_t × List smapsmapp_t => 6 ≤ st.1.symtab_count)
    · intro mapp _ s1 hs1
      unfold enumerate_mapp_step
      exact le_trans hs1 (symtab_enumerate_count_le _ _)
    · exact hs.2
  · refine ⟨?_, ?_⟩
    · intro m hm
      simp [analyze_create] at hm
    · rw [base_types_count]

theorem enumerate_paths_inv (sort_mapps : List smapsmapp_t → List smapsmapp_t)
    (hsort : ∀ l, ∀ m ∈ sort_mapps l, m ∈ l) (nA : Int) (st : symtab_t × List smapsmapp_t)
    (h : inv_proc nA st) :
    inv_path nA st.1.symtab_count (enumerate_paths sort_mapps analyze_create st.2) := by
  unfold enumerate_paths
  apply foldl_inv (inv_path nA st.1.symtab_count)
  · intro mapp hmapp s hs
    exact inv_path_step _ _ s mapp (h mapp (hsort _ mapp hmapp)) hs
  · refine ⟨?_, ?_⟩
    · intro m hm; simp at hm
    · intro g hg; simp [analyze_create] at hg

theorem analyze_enumerate_data_enumerated
    (sort_procs : List smapsproc_t → List smapsproc_t)
    (sort_mapps : List smapsmapp_t → List smapsmapp_t)
    (hsort : ∀ l, ∀ m ∈ sort_mapps l, m ∈ l) (snap : smapssnap_t) :
    ∃ az, analyze_enumerate_data sort_procs sort_mapps analyze_create snap = some az ∧
      enumerated az := by
  have h1 := enumerate_procs_inv sort_procs snap
  have h2 := enumerate_paths_inv sort_mapps hsort _ _ h1.1
  obtain ⟨grp, hg, hgrp⟩ := enumerate_groups_some _ _ _ h2
  unfold analyze_enumerate_data
  simp only [hg]
  refine ⟨_, rfl, ?_⟩
  constructor
  · exact h1.2
  · rfl
  · intro m hm
    obtain ⟨a1, a2, a3, a4, a5, a6, a7, a8⟩ := h2.1 m hm
    refine ⟨⟨a7, ?_⟩, ⟨a3, a4⟩, ⟨a1, a2⟩, ⟨a5, a6⟩⟩
    have := (List.getElem?_eq_some_iff.mp a8).1
    simp only [symtab_t.symtab_count]
    omega
  · exact hgrp
  · intro g hg0 hgl
    obtain ⟨m, hm, he⟩ := h2.2 g.toNat (by
      simp only [symtab_t.symtab_count] at hgl
      omega)
    exact ⟨m, hm, by rw [he]; omega⟩

/-! ## Accumulating loops -/

theorem foldl_upd {α : Type} (d : α → Nat) (v : List meminfo_t → α → meminfo_t)
    (f : meminfo_t → meminfo_t → meminfo_t) (xs : List α) (tab : List meminfo_t)
    (hd : ∀ x ∈ xs, d x < tab.length)
    (hv : ∀ x ∈ xs, ∀ y ∈ xs, ∀ t z, d y < t.length → v (t.set (d y) z) x = v t x) :
    (xs.foldl (upd d v f) tab).length = tab.length ∧
    ∀ j, cell (xs.foldl (upd d v f) tab) j
      = ((xs.filter (fun x => d x = j)).map (v tab)).foldl f (cell tab j) :=
  foldl_set_cell d v f xs tab hd hv

theorem foldlM_option_pure {σ α : Type} (f : σ → α → Option σ) (g : σ → α → σ) (xs : List α)
    (h : ∀ x ∈ xs, ∀ s, f s x = some (g s x)) (s : σ) :
    xs.foldlM f s = some (xs.foldl g s) :=
  (foldlM_option_inv (fun _ => True) f g xs (fun x hx s _ => ⟨h x hx s, trivial⟩) s trivial).1

theorem foldlM_nested_pure {σ α β : Type} (f : α → σ → β → Option σ) (h : α → σ → β → σ)
    (G : List α) (T : List β) (H : ∀ g ∈ G, ∀ t ∈ T, ∀ s, f g s t = some (h g s t)) (s : σ) :
    G.foldlM (fun st g => T.foldlM (f g) st) s
      = some ((loop_pairs G T).foldl (fun st p => h p.1 st p.2) s) := by
  rw [← foldl_nested]
  exact foldlM_option_pure _ _ G
    (fun g hg s => foldlM_option_pure (f g) (h g) T (fun t ht s => H g hg t ht s) s) s

theorem nodup_filter_eq {α : Type} [DecidableEq α] (T : List α) (hT : T.Nodup) (t0 : α)
    (h : t0 ∈ T) : T.filter (fun t => t = t0) = [t0] := by
  induction T with
  | nil => simp at h
  | cons a T ih =>
    rw [List.nodup_cons] at hT
    rw [List.filter_cons]
    by_cases ha : a = t0
    · subst ha
      simp only [decide_True, if_true]
      congr 1
      rw [List.filter_eq_nil_iff]
      intro b hb
      simp only [decide_eq_true_eq]
      rintro rfl
      exact hT.1 hb
    · simp only [ha, decide_False]
      rcases List.mem_cons.mp h with rfl | h1
      · exact absurd rfl ha
      · simpa using ih hT.2 h1

theorem loop_pairs_cons {α β : Type} (g : α) (G : List α) (T : List β) :
    loop_pairs (g :: G) T = T.map (fun t => (g, t)) ++ loop_pairs G T := by
  simp [loop_pairs]

/-- The pairs of a nested loop that hit a given column. -/
theorem filter_loop_pairs_col {α β : Type} [DecidableEq β] (P : α → Bool) (G : List α)
    (T : List β) (hT : T.Nodup) (t0 : β) (h : t0 ∈ T) :
    (loop_pairs G T).filter (fun p => P p.1 && decide (p.2 = t0))
      = (G.filter P).map (fun g => (g, t0)) := by
  induction G with
  | nil => simp [loop_pairs]
  | cons g G ih =>
    rw [loop_pairs_cons, List.filter_append, ih, List.filter_map, List.filter_cons]
    by_cases hp : P g = true
    · have : (T.filter ((fun p : α × β => P p.1 && decide (p.2 = t0)) ∘ fun t => (g, t)))
          = T.filter (fun t => t = t0) := by
        apply List.filter_congr
        intro t _
        simp [hp]
      rw [this, nodup_filter_eq T hT t0 h]
      simp [hp]
    · have : (T.filter ((fun p : α × β => P p.1 && decide (p.2 = t0)) ∘ fun t => (g, t))) = [] := by
        rw [List.filter_eq_nil_iff]
        intro t _
        simp [hp]
      rw [this]
      simp [hp]

/-- The pairs of a nested loop that hit a given row. -/
theorem filter_loop_pairs_row {α β : Type} [DecidableEq α] (G : List α) (hG : G.Nodup)
    (T : List β) (g0 : α) (h : g0 ∈ G) :
    (loop_pairs G T).filter (fun p => decide (p.1 = g0)) = T.map (fun t => (g0, t)) := by
  induction G with
  | nil => simp at h
  | cons g G ih =>
    rw [List.nodup_cons] at hG
    rw [loop_pairs_cons, List.filter_append, List.filter_map]
    by_cases hg : g = g0
    · subst hg
      have h1 : T.filter ((fun p : α × β => decide (p.1 = g)) ∘ fun t => (g, t)) = T := by
        rw [List.filter_eq_self]
        intro t _
        simp
      have h2 : (loop_pairs G T).filter (fun p => decide (p.1 = g)) = [] := by
        rw [List.filter_eq_nil_iff]
        intro p hp
        rw [mem_loop_pairs] at hp
        simp only [decide_eq_true_eq]
        intro he
        exact hG.1 (he ▸ hp.1)
      rw [h1, h2, List.append_nil]
    · have h1 : T.filter ((fun p : α × β => decide (p.1 = g0)) ∘ fun t => (g, t)) = [] := by
        rw [List.filter_eq_nil_iff]
        intro t _
        simp [hg]
      rcases List.mem_cons.mp h with rfl | h3
      · exact absurd rfl hg
      · rw [h1, List.map_nil, List.nil_append, ih hG.2 h3]

/-! ## analyze_accumulate_data as pure loops -/

theorem enumerated_in_bounds (az : analyze_t) (h : enumerated az) : in_bounds az := by
  refine ⟨fun m hm => ⟨(h.ids m hm).1, (h.ids m hm).2.1⟩, ?_⟩
  intro g hg0 hg
  obtain ⟨m, hm, he⟩ := h.onto g hg0 hg
  have h1 := h.grp m hm
  have h2 := h.ids m hm
  rw [he] at h1
  rw [h1.1, h1.2]
  exact ⟨h2.2.2.1, h2.2.2.2⟩

theorem grp_loop_pure (self : analyze_t) (hb : in_bounds self) (tab : List meminfo_t) :
    self.mapp_tab.foldlM (accumulate_grp_step self) tab
      = some (self.mapp_tab.foldl
          (upd (dG self) (fun _ m => m.smapsmapp_mem) accumulate_sum6) tab) := by
  apply foldlM_option_pure
  intro m hm s
  have h := hb.1 m hm
  unfold accumulate_grp_step analyze_grp_mem
  rw [if_pos ⟨h.1.1, h.1.2, h.2.1, h.2.2⟩]
  rfl

theorem applib_loop_pure (self : analyze_t) (hb : in_bounds self)
    (st : List meminfo_t × List meminfo_t) :
    (int_range 0 self.groups).foldlM
        (fun st g => (int_range 1 self.ntypes).foldlM (accumulate_applib_step self g) st) st
      = some
        ((loop_pairs (int_range 0 self.groups) (int_range 1 self.ntypes)).foldl
            (upd (dA self) (vFix self self.grp_mem) accumulate_sum6) st.1,
         (loop_pairs (int_range 0 self.groups) (int_range 1 self.ntypes)).foldl
            (upd (dL self) (vFix self self.grp_mem) accumulate_max4_sum2) st.2) := by
  rw [foldlM_nested_pure (accumulate_applib_step self)
    (fun g st t => (upd (dA self) (vFix self self.grp_mem) accumulate_sum6 st.1 (g, t),
                    upd (dL self) (vFix self self.grp_mem) accumulate_max4_sum2 st.2 (g, t)))]
  · exact congrArg some (foldl_pair _ _ _ st.1 st.2)
  · intro g hg t ht s
    rw [mem_int_range] at hg ht
    have h := hb.2 g hg.1 hg.2
    unfold accumulate_applib_step analyze_grp_mem analyze_app_mem analyze_lib_mem
    rw [if_pos ⟨hg.1, hg.2, by omega, ht.2⟩, if_pos ⟨h.1.1, h.1.2, by omega, ht.2⟩,
      if_pos ⟨h.2.1, h.2.2, by omega, ht.2⟩]
    rfl

theorem total_loop_pure (self : analyze_t) (cnt : Int) (acc : Int → Int → Option Nat)
    (hacc : ∀ i t, 0 ≤ i → i < cnt → 0 ≤ t → t < self.ntypes →
      acc i t = some (flat self.ntypes i t))
    (tab : List meminfo_t) :
    (int_range 0 cnt).foldlM
        (fun tab i => (int_range 1 self.ntypes).foldlM (accumulate_total_step acc i) tab) tab
      = some ((loop_pairs (int_range 0 cnt) (int_range 1 self.ntypes)).foldl
          (upd (d0 self) (vSelf self) meminfo_accumulate_appdata) tab) := by
  rw [foldlM_nested_pure (accumulate_total_step acc)
    (fun i tab t => upd (d0 self) (vSelf self) meminfo_accumulate_appdata tab (i, t))]
  intro i hi t ht s
  rw [mem_int_range] at hi ht
  unfold accumulate_total_step
  rw [hacc i 0 hi.1 hi.2 (le_refl _) (by omega), hacc i t hi.1 hi.2 (by omega) ht.2]
  rfl

theorem app_mem_acc (self : analyze_t) (i t : Int) (hi0 : 0 ≤ i) (hi : i < self.nappls)
    (ht0 : 0 ≤ t) (ht : t < self.ntypes) :
    analyze_app_mem self i t = some (flat self.ntypes i t) := by
  unfold analyze_app_mem
  rw [if_pos ⟨hi0, hi, ht0, ht⟩]
  rfl

theorem lib_mem_acc (self : analyze_t) (i t : Int) (hi0 : 0 ≤ i) (hi : i < self.npaths)
    (ht0 : 0 ≤ t) (ht : t < self.ntypes) :
    analyze_lib_mem self i t = some (flat self.ntypes i t) := by
  unfold analyze_lib_mem
  rw [if_pos ⟨hi0, hi, ht0, ht⟩]
  rfl

theorem appest_loop_pure (self : analyze_t) (st : List meminfo_t × List meminfo_t) :
    (int_range 0 self.nappls).foldlM
        (fun st i => (int_range 1 self.ntypes).foldlM (accumulate_appest_step self i) st) st
      = some
        ((loop_pairs (int_range 0 self.nappls) (int_range 1 self.ntypes)).foldl
            (upd dT (vFix self self.app_mem) meminfo_accumulate_maxdata) st.1,
         (loop_pairs (int_range 0 self.nappls) (int_range 1 self.ntypes)).foldl
            (upd dT (vFix self self.app_mem) meminfo_accumulate_appdata) st.2) := by
  rw [foldlM_nested_pure (accumulate_appest_step self)
    (fun i st t => (upd dT (vFix self self.app_mem) meminfo_accumulate_maxdata st.1 (i, t),
                    upd dT (vFix self self.app_mem) meminfo_accumulate_appdata st.2 (i, t)))]
  · exact congrArg some (foldl_pair _ _ _ st.1 st.2)
  · intro i hi t ht s
    rw [mem_int_range] at hi ht
    unfold accumulate_appest_step analyze_appmax analyze_sysmax
    rw [app_mem_acc self i t hi.1 hi.2 (by omega) ht.2, if_pos ⟨by omega, ht.2⟩]
    rfl

theorem sysest_loop_pure (self : analyze_t) (tab : List meminfo_t) :
    (int_range 0 self.npaths).foldlM
        (fun tab i => (int_range 1 self.ntypes).foldlM (accumulate_sysest_step self i) tab) tab
      = some ((loop_pairs (int_range 0 self.npaths) (int_range 1 self.ntypes)).foldl
          (upd dT (vFix self self.lib_mem) meminfo_accumulate_appdata) tab) := by
  rw [foldlM_nested_pure (accumulate_sysest_step self)
    (fun i tab t => upd dT (vFix self self.lib_mem) meminfo_accumulate_appdata tab (i, t))]
  intro i hi t ht s
  rw [mem_int_range] at hi ht
  unfold accumulate_sysest_step analyze_sysest
  rw [lib_mem_acc self i t hi.1 hi.2 (by omega) ht.2, if_pos ⟨by omega, ht.2⟩]
  rfl

theorem systotals_loop_pure (self : analyze_t)
    (st : List meminfo_t × (List meminfo_t × List meminfo_t)) :
    (int_range 1 self.ntypes).foldlM (accumulate_systotals_step self) st
      = some
        ((int_range 1 self.ntypes).foldl
            (upd (fun _ => 0) vRow meminfo_accumulate_appdata) st.1,
         ((int_range 1 self.ntypes).foldl
            (upd (fun _ => 0) vRow meminfo_accumulate_appdata) st.2.1,
          (int_range 1 self.ntypes).foldl
            (upd (fun _ => 0) vRow meminfo_accumulate_appdata) st.2.2)) := by
  rw [foldlM_option_pure (accumulate_systotals_step self)
    (fun st t => (upd (fun _ => 0) vRow meminfo_accumulate_appdata st.1 t,
      (upd (fun _ => 0) vRow meminfo_accumulate_appdata st.2.1 t,
       upd (fun _ => 0) vRow meminfo_accumulate_appdata st.2.2 t)))]
  · rw [foldl_pair _ (fun (s : List meminfo_t × List meminfo_t) t =>
        (upd (fun _ => 0) vRow meminfo_accumulate_appdata s.1 t,
         upd (fun _ => 0) vRow meminfo_accumulate_appdata s.2 t)) _ st.1 st.2,
      foldl_pair _ _ _ st.2.1 st.2.2]
  · intro t ht s
    rw [mem_int_range] at ht
    unfold accumulate_systotals_step accumulate_systotal_step analyze_sysest analyze_sysmax
      analyze_appmax
    rw [if_pos ⟨by omega, ht.2⟩, if_pos ⟨le_refl _, by omega⟩]
    rfl

theorem analyze_accumulate_data_eq (az : analyze_t) (hb : in_bounds az) :
    analyze_accumulate_data az = some { az with
      grp_mem := grp_final az
      app_mem := app_final az
      lib_mem := lib_final az
      sysest := with_total az (sysest_rows az)
      sysmax := with_total az (sysmax_rows az)
      appmax := with_total az (appmax_rows az) } := by
  have e1 : az.mapp_tab.foldlM (accumulate_grp_step az)
      (List.replicate (az.groups * az.ntypes).toNat meminfo_ctor) = some (grp_final az) :=
    grp_loop_pure az hb _
  have e2 := applib_loop_pure { az with grp_mem := grp_final az } hb
    (List.replicate (az.nappls * az.ntypes).toNat meminfo_ctor,
     List.replicate (az.npaths * az.ntypes).toNat meminfo_ctor)
  have e3 := total_loop_pure { az with grp_mem := grp_final az } az.nappls
    (analyze_app_mem { az with grp_mem := grp_final az })
    (app_mem_acc { az with grp_mem := grp_final az }) (app_rows az)
  have e4 := total_loop_pure { az with grp_mem := grp_final az } az.npaths
    (analyze_lib_mem { az with grp_mem := grp_final az })
    (lib_mem_acc { az with grp_mem := grp_final az }) (lib_rows az)
  have e5 := appest_loop_pure { az with
        grp_mem := grp_final az
        app_mem := app_final az
        lib_mem := lib_final az }
    (List.replicate az.ntypes.toNat meminfo_ctor, List.replicate az.ntypes.toNat meminfo_ctor)
  have e6 := sysest_loop_pure { az with
        grp_mem := grp_final az
        app_mem := app_final az
        lib_mem := lib_final az }
    (List.replicate az.ntypes.toNat meminfo_ctor)
  have e7 := systotals_loop_pure { az with
        grp_mem := grp_final az
        app_mem := app_final az
        lib_mem := lib_final az }
    (sysest_rows az, (sysmax_rows az, appmax_rows az))
  unfold analyze_accumulate_data
  simp only [Option.bind_eq_bind]
  rw [e1]
  simp only [Option.some_bind]
  erw [e2]
  simp only [Option.some_bind]
  erw [e3, e4]
  simp only [Option.some_bind]
  erw [e5, e6]
  simp only [Option.some_bind]
  erw [e7]
  rfl

/-! ## The content of the tables -/

theorem zeros_length (k : Int) : (zeros k).length = k.toNat := by
  simp [zeros]

theorem cell_zeros (k : Int) (i : Nat) : cell (zeros k) i = meminfo_ctor :=
  cell_replicate _ _

theorem flat_lt (n cnt i t : Int) (hi0 : 0 ≤ i) (hi : i < cnt) (ht0 : 0 ≤ t) (ht : t < n) :
    flat n i t < (zeros (cnt * n)).length := by
  rw [zeros_length]
  exact flat_index_lt t i n cnt ht0 ht hi0 hi

theorem flat_inj (n i t i1 t1 : Int) (hi0 : 0 ≤ i) (ht0 : 0 ≤ t) (ht : t < n)
    (hi10 : 0 ≤ i1) (ht10 : 0 ≤ t1) (ht1 : t1 < n) :
    flat n i t = flat n i1 t1 ↔ i = i1 ∧ t = t1 := by
  constructor
  · intro h
    have := flat_index_inj t i t1 i1 n ht0 ht hi0 ht10 ht1 hi10 h
    exact ⟨this.2, this.1⟩
  · rintro ⟨rfl, rfl⟩; rfl

theorem grp_final_cell (az : analyze_t) (hb : in_bounds az) (g t : Int)
    (hg0 : 0 ≤ g) (ht0 : 0 ≤ t) (ht : t < az.ntypes) :
    cell (grp_final az) (flat az.ntypes g t)
      = ((az.mapp_tab.filter
            (fun m => decide (m.smapsmapp_EID = g) && decide (m.smapsmapp_TID = t))).map
          (fun m => m.smapsmapp_mem)).foldl accumulate_sum6 meminfo_ctor := by
  unfold grp_final
  rw [(foldl_upd (dG az) (fun _ m => m.smapsmapp_mem) accumulate_sum6 az.mapp_tab _ ?_ ?_).2,
    cell_zeros]
  · congr 2
    apply List.filter_congr
    intro m hm
    have h := hb.1 m hm
    have hi := flat_inj az.ntypes m.smapsmapp_EID m.smapsmapp_TID g t h.1.1 h.2.1 h.2.2 hg0 ht0 ht
    simp only [dG, hi, Bool.decide_and]
  · intro m hm
    have h := hb.1 m hm
    exact flat_lt _ _ _ _ h.1.1 h.1.2 h.2.1 h.2.2
  · intros; rfl

theorem grp_final_length (az : analyze_t) (hb : in_bounds az) :
    (grp_final az).length = (zeros (az.groups * az.ntypes)).length := by
  unfold grp_final
  refine (foldl_upd (dG az) (fun _ m => m.smapsmapp_mem) accumulate_sum6 az.mapp_tab _ ?_ ?_).1
  · intro m hm
    have h := hb.1 m hm
    exact flat_lt _ _ _ _ h.1.1 h.1.2 h.2.1 h.2.2
  · intros; rfl

/-- Cells of a table filled by the second loop of `analyze_accumulate_data`. -/
theorem rows_cell (az : analyze_t) (look : List Int) (cnt : Int)
    (f : meminfo_t → meminfo_t → meminfo_t)
    (hlook : ∀ g : Int, 0 ≤ g → g < az.groups →
      0 ≤ look.getD g.toNat (-1) ∧ look.getD g.toNat (-1) < cnt)
    (a t : Int) (ha0 : 0 ≤ a) (ht0 : 0 ≤ t) (ht : t < az.ntypes) :
    cell ((loop_pairs (int_range 0 az.groups) (int_range 1 az.ntypes)).foldl
        (upd (fun p => flat az.ntypes (look.getD p.1.toNat (-1)) p.2)
          (vFix az (grp_final az)) f) (zeros (cnt * az.ntypes))) (flat az.ntypes a t)
      = if 1 ≤ t then
          (((int_range 0 az.groups).filter (fun g => decide (look.getD g.toNat (-1) = a))).map
            (fun g => cell (grp_final az) (flat az.ntypes g t))).foldl f meminfo_ctor
        else meminfo_ctor := by
  rw [(foldl_upd _ (vFix az (grp_final az)) f _ _ ?_ ?_).2, cell_zeros]
  · have hfc : (loop_pairs (int_range 0 az.groups) (int_range 1 az.ntypes)).filter
          (fun p => decide (flat az.ntypes (look.getD p.1.toNat (-1)) p.2 = flat az.ntypes a t))
        = (loop_pairs (int_range 0 az.groups) (int_range 1 az.ntypes)).filter
          (fun p => decide (look.getD p.1.toNat (-1) = a) && decide (p.2 = t)) := by
      apply List.filter_congr
      intro p hp
      rw [mem_loop_pairs, mem_int_range, mem_int_range] at hp
      have h := hlook p.1 hp.1.1 hp.1.2
      have hi := flat_inj az.ntypes (look.getD p.1.toNat (-1)) p.2 a t h.1 (by omega) hp.2.2
        ha0 ht0 ht
      simp only [hi, Bool.decide_and]
    rw [hfc]
    by_cases h1 : 1 ≤ t
    · rw [if_pos h1, filter_loop_pairs_col (fun g => decide (look.getD g.toNat (-1) = a))
        (int_range 0 az.groups) (int_range 1 az.ntypes) (int_range_nodup _ _) t
        ((mem_int_range _ _ _).mpr ⟨h1, ht⟩), List.map_map]
      rfl
    · rw [if_neg h1]
      have : (loop_pairs (int_range 0 az.groups) (int_range 1 az.ntypes)).filter
          (fun p => decide (look.getD p.1.toNat (-1) = a) && decide (p.2 = t)) = [] := by
        rw [List.filter_eq_nil_iff]
        intro p hp
        rw [mem_loop_pairs, mem_int_range, mem_int_range] at hp
        simp only [Bool.and_eq_true, decide_eq_true_eq, not_and]
        intro _
        omega
      rw [this]
      rfl
  · intro p hp
    rw [mem_loop_pairs, mem_int_range, mem_int_range] at hp
    have h := hlook p.1 hp.1.1 hp.1.2
    exact flat_lt _ _ _ _ h.1 h.2 (by omega) hp.2.2
  · intros; rfl

theorem rows_length (az : analyze_t) (look : List Int) (cnt : Int)
    (f : meminfo_t → meminfo_t → meminfo_t)
    (hlook : ∀ g : Int, 0 ≤ g → g < az.groups →
      0 ≤ look.getD g.toNat (-1) ∧ look.getD g.toNat (-1) < cnt) :
    ((loop_pairs (int_range 0 az.groups) (int_range 1 az.ntypes)).foldl
        (upd (fun p => flat az.ntypes (look.getD p.1.toNat (-1)) p.2)
          (vFix az (grp_final az)) f) (zeros (cnt * az.ntypes))).length
      = (zeros (cnt * az.ntypes)).length := by
  refine (foldl_upd _ (vFix az (grp_final az)) f _ _ ?_ ?_).1
  · intro p hp
    rw [mem_loop_pairs, mem_int_range, mem_int_range] at hp
    have h := hlook p.1 hp.1.1 hp.1.2
    exact flat_lt _ _ _ _ h.1 h.2 (by omega) hp.2.2
  · intros; rfl

/-- Cells of a table after its total rows have been added. -/
theorem total_cell (az : analyze_t) (cnt : Int) (tab : List meminfo_t)
    (hlen : tab.length = (zeros (cnt * az.ntypes)).length)
    (a t : Int) (ha0 : 0 ≤ a) (ha : a < cnt) (ht0 : 0 ≤ t) (ht : t < az.ntypes) :
    cell ((loop_pairs (int_range 0 cnt) (int_range 1 az.ntypes)).foldl
        (upd (d0 az) (vSelf az) meminfo_accumulate_appdata) tab) (flat az.ntypes a t)
      = if t = 0 then
          ((int_range 1 az.ntypes).map (fun t => cell tab (flat az.ntypes a t))).foldl
            meminfo_accumulate_appdata (cell tab (flat az.ntypes a 0))
        else cell tab (flat az.ntypes a t) := by
  rw [(foldl_upd (d0 az) (vSelf az) meminfo_accumulate_appdata _ tab ?_ ?_).2]
  · by_cases h0 : t = 0
    · subst h0
      rw [if_pos rfl]
      have hfc : (loop_pairs (int_range 0 cnt) (int_range 1 az.ntypes)).filter
            (fun p => decide (d0 az p = flat az.ntypes a 0))
          = (loop_pairs (int_range 0 cnt) (int_range 1 az.ntypes)).filter
            (fun p => decide (p.1 = a)) := by
        apply List.filter_congr
        intro p hp
        rw [mem_loop_pairs, mem_int_range, mem_int_range] at hp
        have hi := flat_inj az.ntypes p.1 0 a 0 hp.1.1 (le_refl _) ht ha0 (le_refl _) ht
        simp only [d0, hi, and_true]
      rw [hfc, filter_loop_pairs_row _ (int_range_nodup _ _) _ a
        ((mem_int_range _ _ _).mpr ⟨ha0, ha⟩), List.map_map]
      rfl
    · rw [if_neg h0]
      have hfc : (loop_pairs (int_range 0 cnt) (int_range 1 az.ntypes)).filter
            (fun p => decide (d0 az p = flat az.ntypes a t)) = [] := by
        rw [List.filter_eq_nil_iff]
        intro p hp
        rw [mem_loop_pairs, mem_int_range, mem_int_range] at hp
        have hi := flat_inj az.ntypes p.1 0 a t hp.1.1 (le_refl _) (by omega) ha0 ht0 ht
        simp only [d0, hi, decide_eq_true_eq, not_and]
        intro _ h
        exact h0 h.symm
      rw [hfc]
      rfl
  · intro p hp
    rw [mem_loop_pairs, mem_int_range, mem_int_range] at hp
    rw [hlen]
    exact flat_lt _ _ _ _ hp.1.1 hp.1.2 (le_refl _) (by omega)
  · intro x hx y hy tb z hlt
    rw [mem_loop_pairs, mem_int_range, mem_int_range] at hx hy
    unfold vSelf
    rw [cell_set _ _ _ _ hlt, if_neg]
    intro h
    have hi := (flat_inj az.ntypes y.1 0 x.1 x.2 hy.1.1 (le_refl _) (by omega) hx.1.1
      (by omega) hx.2.2).mp h
    omega

/-- Cells of a per-type table filled from all rows of an entity table. -/
theorem pertype_cell (az : analyze_t) (cnt : Int) (src : List meminfo_t)
    (f : meminfo_t → meminfo_t → meminfo_t) (t : Int) (ht0 : 0 ≤ t) (ht : t < az.ntypes) :
    cell ((loop_pairs (int_range 0 cnt) (int_range 1 az.ntypes)).foldl
        (upd dT (vFix az src) f) (zeros az.ntypes)) t.toNat
      = if 1 ≤ t then
          ((int_range 0 cnt).map (fun a => cell src (flat az.ntypes a t))).foldl f meminfo_ctor
        else meminfo_ctor := by
  rw [(foldl_upd dT (vFix az src) f _ _ ?_ ?_).2, cell_zeros]
  · have hfc : (loop_pairs (int_range 0 cnt) (int_range 1 az.ntypes)).filter
          (fun p => decide (dT p = t.toNat))
        = (loop_pairs (int_range 0 cnt) (int_range 1 az.ntypes)).filter
          (fun p => true && decide (p.2 = t)) := by
      apply List.filter_congr
      intro p hp
      rw [mem_loop_pairs, mem_int_range, mem_int_range] at hp
      have hi : dT p = t.toNat ↔ p.2 = t := by unfold dT; omega
      simp only [hi, Bool.true_and]
    rw [hfc]
    by_cases h1 : 1 ≤ t
    · rw [if_pos h1, filter_loop_pairs_col (fun _ => true)
        (int_range 0 cnt) (int_range 1 az.ntypes) (int_range_nodup _ _) t
        ((mem_int_range _ _ _).mpr ⟨h1, ht⟩), List.map_map, List.filter_true]
      rfl
    · rw [if_neg h1]
      have : (loop_pairs (int_range 0 cnt) (int_range 1 az.ntypes)).filter
          (fun p => true && decide (p.2 = t)) = [] := by
        rw [List.filter_eq_nil_iff]
        intro p hp
        rw [mem_loop_pairs, mem_int_range, mem_int_range] at hp
        simp only [Bool.true_and, decide_eq_true_eq]
        omega
      rw [this]
      rfl
  · intro p hp
    rw [mem_loop_pairs, mem_int_range, mem_int_range] at hp
    rw [zeros_length]
    unfold dT
    omega
  · intros; rfl

theorem pertype_length (az : analyze_t) (cnt : Int) (src : List meminfo_t)
    (f : meminfo_t → meminfo_t → meminfo_t) :
    ((loop_pairs (int_range 0 cnt) (int_range 1 az.ntypes)).foldl
        (upd dT (vFix az src) f) (zeros az.ntypes)).length = az.ntypes.toNat := by
  rw [(foldl_upd dT (vFix az src) f _ _ ?_ ?_).1, zeros_length]
  · intro p hp
    rw [mem_loop_pairs, mem_int_range, mem_int_range] at hp
    rw [zeros_length]
    unfold dT
    omega
  · intros; rfl

/-- Cells of a per-type table after its total row has been computed. -/
theorem with_total_cell (az : analyze_t) (tab : List meminfo_t)
    (hlen : tab.length = az.ntypes.toNat) (t : Int) (ht0 : 0 ≤ t) :
    cell (with_total az tab) t.toNat
      = if t = 0 then
          ((int_range 1 az.ntypes).map (fun t => cell tab t.toNat)).foldl
            meminfo_accumulate_appdata (cell tab 0)
        else cell tab t.toNat := by
  unfold with_total
  rw [(foldl_upd (fun _ => 0) vRow meminfo_accumulate_appdata _ tab ?_ ?_).2]
  · by_cases h0 : t = 0
    · subst h0
      rw [if_pos rfl]
      have : (int_range 1 az.ntypes).filter (fun _ => decide (0 = (0 : Int).toNat))
          = int_range 1 az.ntypes := by
        rw [List.filter_eq_self]
        intro _ _
        rfl
      rw [this]
      rfl
    · rw [if_neg h0]
      have : (int_range 1 az.ntypes).filter (fun _ => decide (0 = t.toNat)) = [] := by
        rw [List.filter_eq_nil_iff]
        intro _ _
        simp only [decide_eq_true_eq]
        omega
      rw [this]
      rfl
  · intro x hx
    rw [mem_int_range] at hx
    show 0 < tab.length
    omega
  · intro x hx y _ tb z hlt
    rw [mem_int_range] at hx
    unfold vRow
    rw [cell_set _ _ _ _ hlt, if_neg]
    show ¬ (0 = x.toNat)
    omega

/-! ## Field-wise content of the tables -/

theorem field_foldl_sum (f : meminfo_t → meminfo_t → meminfo_t) (c : counter_t)
    (hf : ∀ a b, (f a b).field c = pusum (a.field c) (b.field c)) (ms : List meminfo_t) :
    (ms.foldl f meminfo_ctor).field c = (ms.map (fun m => m.field c)).sum % UINT_MOD := by
  rw [field_foldl f pusum c hf, field_ctor, foldl_pusum_zero]

theorem field_foldl_max (f : meminfo_t → meminfo_t → meminfo_t) (c : counter_t)
    (hf : ∀ a b, (f a b).field c = pumax (a.field c) (b.field c)) (ms : List meminfo_t) :
    (ms.foldl f meminfo_ctor).field c = max_list (ms.map (fun m => m.field c)) := by
  rw [field_foldl f pumax c hf, field_ctor, foldl_pumax_zero]

theorem grp_final_field (az : analyze_t) (hb : in_bounds az) (g t : Int)
    (hg0 : 0 ≤ g) (ht0 : 0 ≤ t) (ht : t < az.ntypes) (c : counter_t) :
    (cell (grp_final az) (flat az.ntypes g t)).field c
      = ((az.mapp_tab.filter
            (fun m => decide (m.smapsmapp_EID = g) && decide (m.smapsmapp_TID = t))).map
          (fun m => m.smapsmapp_mem.field c)).sum % UINT_MOD := by
  rw [grp_final_cell az hb g t hg0 ht0 ht, field_foldl_sum _ c (fun a b => field_sum6 a b c),
    List.map_map]
  rfl

theorem app_rows_length (az : analyze_t) (hb : in_bounds az) :
    (app_rows az).length = (zeros (az.nappls * az.ntypes)).length :=
  rows_length az az.grp_app az.nappls accumulate_sum6 (fun g h0 h1 => (hb.2 g h0 h1).1)

theorem lib_rows_length (az : analyze_t) (hb : in_bounds az) :
    (lib_rows az).length = (zeros (az.npaths * az.ntypes)).length :=
  rows_length az az.grp_lib az.npaths accumulate_max4_sum2 (fun g h0 h1 => (hb.2 g h0 h1).2)

theorem app_final_row (az : analyze_t) (hb : in_bounds az) (a t : Int)
    (ha0 : 0 ≤ a) (ha : a < az.nappls) (ht1 : 1 ≤ t) (ht : t < az.ntypes) :
    cell (app_final az) (flat az.ntypes a t)
      = (((int_range 0 az.groups).filter
            (fun g => decide (az.grp_app.getD g.toNat (-1) = a))).map
          (fun g => cell (grp_final az) (flat az.ntypes g t))).foldl
          accumulate_sum6 meminfo_ctor := by
  unfold app_final
  rw [total_cell az az.nappls _ (app_rows_length az hb) a t ha0 ha (by omega) ht,
    if_neg (by omega)]
  have := rows_cell az az.grp_app az.nappls accumulate_sum6
    (fun g h0 h1 => (hb.2 g h0 h1).1) a t ha0 (by omega) ht
  rw [if_pos ht1] at this
  exact this

theorem lib_final_row (az : analyze_t) (hb : in_bounds az) (l t : Int)
    (hl0 : 0 ≤ l) (hl : l < az.npaths) (ht1 : 1 ≤ t) (ht : t < az.ntypes) :
    cell (lib_final az) (flat az.ntypes l t)
      = (((int_range 0 az.groups).filter
            (fun g => decide (az.grp_lib.getD g.toNat (-1) = l))).map
          (fun g => cell (grp_final az) (flat az.ntypes g t))).foldl
          accumulate_max4_sum2 meminfo_ctor := by
  unfold lib_final
  rw [total_cell az az.npaths _ (lib_rows_length az hb) l t hl0 hl (by omega) ht,
    if_neg (by omega)]
  have := rows_cell az az.grp_lib az.npaths accumulate_max4_sum2
    (fun g h0 h1 => (hb.2 g h0 h1).2) l t hl0 (by omega) ht
  rw [if_pos ht1] at this
  exact this

/-- Row 0 of an entity table is the sum of its rows 1... -/
theorem final_total (az : analyze_t) (cnt : Int) (rows : List meminfo_t)
    (hlen : rows.length = (zeros (cnt * az.ntypes)).length)
    (hzero : ∀ a : Int, 0 ≤ a → cell rows (flat az.ntypes a 0) = meminfo_ctor)
    (a : Int) (ha0 : 0 ≤ a) (ha : a < cnt) (hn : 0 < az.ntypes) (c : counter_t) :
    (cell ((loop_pairs (int_range 0 cnt) (int_range 1 az.ntypes)).foldl
        (upd (d0 az) (vSelf az) meminfo_accumulate_appdata) rows) (flat az.ntypes a 0)).field c
      = ((int_range 1 az.ntypes).map
          (fun t => (cell ((loop_pairs (int_range 0 cnt) (int_range 1 az.ntypes)).foldl
            (upd (d0 az) (vSelf az) meminfo_accumulate_appdata) rows)
              (flat az.ntypes a t)).field c)).sum % UINT_MOD := by
  rw [total_cell az cnt rows hlen a 0 ha0 ha (le_refl _) hn, if_pos rfl, hzero a ha0,
    field_foldl_sum _ c (fun x y => field_appdata x y c), List.map_map]
  congr 2
  apply List.map_congr_left
  intro t ht
  rw [mem_int_range] at ht
  simp only [Function.comp]
  rw [total_cell az cnt rows hlen a t ha0 ha (by omega) ht.2, if_neg (by omega)]

/-! ## Regrouping sums -/

theorem sum_map_mod (l : List Int) (x : Int → Nat) :
    (l.map (fun g => x g % UINT_MOD)).sum % UINT_MOD = (l.map x).sum % UINT_MOD := by
  induction l with
  | nil => rfl
  | cons a l ih =>
    simp only [List.map_cons, List.sum_cons]
    rw [Nat.add_mod, ih, Nat.mod_mod, ← Nat.add_mod]

theorem sum_indicator (G : List Int) (hG : G.Nodup) (P : Int → Bool) (x : Int) (hx : x ∈ G)
    (v : Nat) :
    ((G.filter P).map (fun g => if x = g then v else 0)).sum = if P x = true then v else 0 := by
  induction G with
  | nil => simp at hx
  | cons a G ih =>
    rw [List.nodup_cons] at hG
    have hzero : ∀ (L : List Int), x ∉ L → (L.map (fun g => if x = g then v else 0)).sum = 0 := by
      intro L hL
      induction L with
      | nil => rfl
      | cons b L ihL =>
        simp only [List.map_cons, List.sum_cons]
        have hne : ¬ x = b := fun h => hL (by rw [h]; exact List.mem_cons_self _ _)
        rw [ihL (fun h => hL (List.mem_cons_of_mem _ h)), if_neg hne]
    by_cases hxa : x = a
    · subst hxa
      have hx2 : x ∉ G.filter P := fun h => hG.1 (List.mem_of_mem_filter h)
      rw [List.filter_cons]
      by_cases hp : P x = true
      · rw [if_pos hp, if_pos hp, List.map_cons, List.sum_cons, hzero _ hx2, if_pos rfl,
          Nat.add_zero]
      · rw [if_neg hp, if_neg hp, hzero _ hx2]
    · rcases List.mem_cons.mp hx with h | h
      · exact absurd h hxa
      · rw [List.filter_cons]
        by_cases hp : P a = true
        · rw [if_pos hp, List.map_cons, List.sum_cons, if_neg hxa, Nat.zero_add, ih hG.2 h]
        · rw [if_neg hp, ih hG.2 h]

/-- Summing group by group is summing over all members of the selected groups. -/
theorem sum_by_group (ms : List smapsmapp_t) (k : smapsmapp_t → Int) (f : smapsmapp_t → Nat)
    (G : List Int) (hG : G.Nodup) (P : Int → Bool) (hk : ∀ m ∈ ms, k m ∈ G) :
    ((G.filter P).map (fun g => ((ms.filter (fun m => decide (k m = g))).map f).sum)).sum
      = ((ms.filter (fun m => P (k m))).map f).sum := by
  induction ms with
  | nil => simp
  | cons m ms ih =>
    have hsplit : ∀ g, (((m :: ms).filter (fun m => decide (k m = g))).map f).sum
        = (if k m = g then f m else 0) + ((ms.filter (fun m => decide (k m = g))).map f).sum := by
      intro g
      rw [List.filter_cons]
      by_cases h : k m = g
      · simp [h]
      · simp [h]
    simp only [hsplit]
    rw [List.sum_map_add, ih (fun x hx => hk x (List.mem_cons_of_mem _ hx)),
      sum_indicator G hG P (k m) (hk m (List.mem_cons_self _ _)) (f m), List.filter_cons]
    by_cases hp : P (k m) = true
    · simp [hp]
    · simp [hp]

/-! ## The aggregation pipeline -/

theorem analyze_snapshot_eq
    (sort_procs : List smapsproc_t → List smapsproc_t)
    (sort_mapps : List smapsmapp_t → List smapsmapp_t)
    (hsort : ∀ l, (sort_mapps l).Perm l) (snap : smapssnap_t) :
    ∃ az0, enumerated az0 ∧
      analyze_enumerate_data sort_procs sort_mapps analyze_create snap = some az0 ∧
      analyze_snapshot sort_procs sort_mapps snap = some { az0 with
        grp_mem := grp_final az0
        app_mem := app_final az0
        lib_mem := lib_final az0
        sysest := with_total az0 (sysest_rows az0)
        sysmax := with_total az0 (sysmax_rows az0)
        appmax := with_total az0 (appmax_rows az0) } := by
  obtain ⟨az0, h1, h2⟩ := analyze_enumerate_data_enumerated sort_procs sort_mapps
    (fun l m hm => (hsort l).subset hm) snap
  refine ⟨az0, h2, h1, ?_⟩
  unfold analyze_snapshot
  rw [h1]
  exact analyze_accumulate_data_eq az0 (enumerated_in_bounds az0 h2)

theorem lib_final_field (az : analyze_t) (hb : in_bounds az) (l t : Int)
    (hl0 : 0 ≤ l) (hl : l < az.npaths) (ht1 : 1 ≤ t) (ht : t < az.ntypes) (c : counter_t) :
    (cell (lib_final az) (flat az.ntypes l t)).field c
      = if c.is_private = true then
          (((int_range 0 az.groups).filter
              (fun g => decide (az.grp_lib.getD g.toNat (-1) = l))).map
            (fun g => (cell (grp_final az) (flat az.ntypes g t)).field c)).sum % UINT_MOD
        else
          max_list (((int_range 0 az.groups).filter
              (fun g => decide (az.grp_lib.getD g.toNat (-1) = l))).map
            (fun g => (cell (grp_final az) (flat az.ntypes g t)).field c)) := by
  rw [lib_final_row az hb l t hl0 hl ht1 ht]
  by_cases hc : c.is_private = true
  · rw [if_pos hc, field_foldl_sum _ c
      (fun a b => by rw [field_max4_sum2, if_pos hc]), List.map_map]
    rfl
  · rw [if_neg hc, field_foldl_max _ c
      (fun a b => by rw [field_max4_sum2, if_neg hc]), List.map_map]
    rfl

theorem app_final_field (az : analyze_t) (hb : in_bounds az) (a t : Int)
    (ha0 : 0 ≤ a) (ha : a < az.nappls) (ht1 : 1 ≤ t) (ht : t < az.ntypes) (c : counter_t) :
    (cell (app_final az) (flat az.ntypes a t)).field c
      = (((int_range 0 az.groups).filter
            (fun g => decide (az.grp_app.getD g.toNat (-1) = a))).map
          (fun g => (cell (grp_final az) (flat az.ntypes g t)).field c)).sum % UINT_MOD := by
  rw [app_final_row az hb a t ha0 ha ht1 ht, field_foldl_sum _ c
    (fun x y => field_sum6 x y c), List.map_map]
  rfl

/-- The application table in terms of the mappings. -/
theorem app_final_field_mappings (az : analyze_t) (he : enumerated az) (a t : Int)
    (ha0 : 0 ≤ a) (ha : a < az.nappls) (ht1 : 1 ≤ t) (ht : t < az.ntypes) (c : counter_t) :
    (cell (app_final az) (flat az.ntypes a t)).field c
      = ((az.mapp_tab.filter
            (fun m => decide (m.smapsmapp_AID = a) && decide (m.smapsmapp_TID = t))).map
          (fun m => m.smapsmapp_mem.field c)).sum % UINT_MOD := by
  have hb := enumerated_in_bounds az he
  rw [app_final_field az hb a t ha0 ha ht1 ht c]
  have hg : ∀ g ∈ (int_range 0 az.groups).filter
        (fun g => decide (az.grp_app.getD g.toNat (-1) = a)),
      (cell (grp_final az) (flat az.ntypes g t)).field c
        = (((az.mapp_tab.filter (fun m => decide (m.smapsmapp_TID = t))).filter
            (fun m => decide (m.smapsmapp_EID = g))).map
          (fun m => m.smapsmapp_mem.field c)).sum % UINT_MOD := by
    intro g hg
    have hg1 := (mem_int_range _ _ _).mp (List.mem_of_mem_filter hg)
    rw [grp_final_field az hb g t hg1.1 (by omega) ht c, List.filter_filter]
  rw [List.map_congr_left hg, sum_map_mod,
    sum_by_group _ (fun m => m.smapsmapp_EID) _ _ (int_range_nodup _ _)
      (fun g => decide (az.grp_app.getD g.toNat (-1) = a))
      (fun m hm => (mem_int_range _ _ _).mpr (he.ids m (List.mem_of_mem_filter hm)).1),
    List.filter_filter]
  congr 3
  apply List.filter_congr
  intro m hm
  rw [(he.grp m hm).1]

theorem enumerate_pid_eq_aid
    (sort_procs : List smapsproc_t → List smapsproc_t)
    (sort_mapps : List smapsmapp_t → List smapsmapp_t)
    (hsort : ∀ l, ∀ m ∈ sort_mapps l, m ∈ l) (snap : smapssnap_t) (az : analyze_t)
    (h : analyze_enumerate_data sort_procs sort_mapps analyze_create snap = some az) :
    ∀ m ∈ az.mapp_tab, m.smapsmapp_PID = m.smapsmapp_AID := by
  have h1 : ∀ m ∈ (enumerate_procs sort_procs analyze_create snap).2.2,
      m.smapsmapp_PID = m.smapsmapp_AID := by
    unfold enumerate_procs
    apply foldl_inv (fun st : symtab_t × (symtab_t × List smapsmapp_t) =>
      ∀ m ∈ st.2.2, m.smapsmapp_PID = m.smapsmapp_AID)
    · intro proc _ s hs
      unfold enumerate_proc_step
      simp only
      apply foldl_inv (fun st : symtab_t × List smapsmapp_t =>
        ∀ m ∈ st.2, m.smapsmapp_PID = m.smapsmapp_AID)
      · intro mapp _ s1 hs1 m hm
        unfold enumerate_mapp_step at hm
        simp only [List.mem_append, List.mem_singleton] at hm
        rcases hm with hm | rfl
        · exact hs1 m hm
        · rfl
      · exact hs
    · intro m hm
      simp [analyze_create] at hm
  have h2 : ∀ m ∈ (enumerate_paths sort_mapps analyze_create
      (enumerate_procs sort_procs analyze_create snap).2.2).2.2,
      m.smapsmapp_PID = m.smapsmapp_AID := by
    unfold enumerate_paths
    apply foldl_inv (fun st : symtab_t × (symtab_t × List smapsmapp_t) =>
      ∀ m ∈ st.2.2, m.smapsmapp_PID = m.smapsmapp_AID)
    · intro mapp hmapp s hs m hm
      unfold enumerate_path_step at hm
      simp only [List.mem_append, List.mem_singleton] at hm
      rcases hm with hm | rfl
      · exact hs m hm
      · exact h1 mapp (hsort _ mapp hmapp)
    · intro m hm
      simp at hm
  unfold analyze_enumerate_data at h
  simp only at h
  split at h
  · exact absurd h (by simp)
  · rw [← Option.some.inj h]
    exact h2

theorem with_total_conservation (az : analyze_t) (tab : List meminfo_t)
    (hlen : tab.length = az.ntypes.toNat) (hzero : cell tab 0 = meminfo_ctor) (c : counter_t) :
    (cell (with_total az tab) (0 : Int).toNat).field c
      = ((int_range 1 az.ntypes).map
          (fun t => (cell (with_total az tab) t.toNat).field c)).sum % UINT_MOD := by
  rw [with_total_cell az tab hlen 0 (le_refl _), if_pos rfl, hzero,
    field_foldl_sum _ c (fun x y => field_appdata x y c), List.map_map]
  congr 2
  apply List.map_congr_left
  intro t ht
  rw [mem_int_range] at ht
  simp only [Function.comp]
  rw [with_total_cell az tab hlen t (by omega), if_neg (by omega)]

theorem with_total_row (az : analyze_t) (tab : List meminfo_t)
    (hlen : tab.length = az.ntypes.toNat) (t : Int) (ht1 : 1 ≤ t) :
    cell (with_total az tab) t.toNat = cell tab t.toNat := by
  rw [with_total_cell az tab hlen t (by omega), if_neg (by omega)]

theorem pertype_zero (az : analyze_t) (cnt : Int) (src : List meminfo_t)
    (f : meminfo_t → meminfo_t → meminfo_t) (hn : 0 < az.ntypes) :
    cell ((loop_pairs (int_range 0 cnt) (int_range 1 az.ntypes)).foldl
        (upd dT (vFix az src) f) (zeros az.ntypes)) 0 = meminfo_ctor := by
  have := pertype_cell az cnt src f 0 (le_refl _) hn
  rw [if_neg (by omega)] at this
  exact this

/-! ## Claims about the aggregation engine -/

/-- C1: after `analyze_enumerate_data` and `analyze_accumulate_data`, for every
library `l` and every type `t >= 1`, the counters Size, Rss, Shared_Clean and
Shared_Dirty of `lib_mem[l][t]` are the maximum, over the groups `g` with
`grp_lib[g] = l`, of the same counter of `grp_mem[g][t]` (0 without such a
group), while Private_Clean and Private_Dirty are the sum over those groups
modulo `2 ^ 32`; and every counter of `grp_mem[g][t]` is the sum modulo
`2 ^ 32` of that counter over the mappings with group id `g` and type id `t`. -/
theorem lib_table_max_and_sum
    (sort_procs : List smapsproc_t → List smapsproc_t)
    (sort_mapps : List smapsmapp_t → List smapsmapp_t)
    (hsort : ∀ l, (sort_mapps l).Perm l) (snap : smapssnap_t) :
    ∃ az, analyze_snapshot sort_procs sort_mapps snap = some az ∧
      (∀ (l t : Int) (c : counter_t), 0 ≤ l → l < az.npaths → 1 ≤ t → t < az.ntypes →
        (az.lib l t).field c
          = if c.is_private = true then
              (((int_range 0 az.groups).filter
                  (fun g => decide (az.grp_lib.getD g.toNat (-1) = l))).map
                (fun g => (az.grp g t).field c)).sum % UINT_MOD
            else
              max_list (((int_range 0 az.groups).filter
                  (fun g => decide (az.grp_lib.getD g.toNat (-1) = l))).map
                (fun g => (az.grp g t).field c))) ∧
      (∀ (g t : Int) (c : counter_t), 0 ≤ g → g < az.groups → 0 ≤ t → t < az.ntypes →
        (az.grp g t).field c
          = ((az.mapp_tab.filter
                (fun m => decide (m.smapsmapp_EID = g) && decide (m.smapsmapp_TID = t))).map
              (fun m => m.smapsmapp_mem.field c)).sum % UINT_MOD) := by
  obtain ⟨az0, he, -, h⟩ := analyze_snapshot_eq sort_procs sort_mapps hsort snap
  have hb := enumerated_in_bounds az0 he
  refine ⟨_, h, ?_, ?_⟩
  · intro l t c hl0 hl ht1 ht
    exact lib_final_field az0 hb l t hl0 hl ht1 ht c
  · intro g t c hg0 _ ht0 ht
    exact grp_final_field az0 hb g t hg0 ht0 ht c

/-- C2: after `analyze_enumerate_data` and `analyze_accumulate_data`, for every
application instance `a` and every type `t >= 1`, each counter of
`app_mem[a][t]` is the sum modulo `2 ^ 32` of that counter over the mappings
whose instance id is `a` and whose type id is `t`, which is also the sum over
the groups of that application of the per-type counters of the group. -/
theorem app_table_sum
    (sort_procs : List smapsproc_t → List smapsproc_t)
    (sort_mapps : List smapsmapp_t → List smapsmapp_t)
    (hsort : ∀ l, (sort_mapps l).Perm l) (snap : smapssnap_t) :
    ∃ az, analyze_snapshot sort_procs sort_mapps snap = some az ∧
      ∀ (a t : Int) (c : counter_t), 0 ≤ a → a < az.nappls → 1 ≤ t → t < az.ntypes →
        (az.app a t).field c
          = ((az.mapp_tab.filter
                (fun m => decide (m.smapsmapp_PID = a) && decide (m.smapsmapp_TID = t))).map
              (fun m => m.smapsmapp_mem.field c)).sum % UINT_MOD ∧
        (az.app a t).field c
          = (((int_range 0 az.groups).filter
                (fun g => decide (az.grp_app.getD g.toNat (-1) = a))).map
              (fun g => (az.grp g t).field c)).sum % UINT_MOD := by
  obtain ⟨az0, he, h0, h⟩ := analyze_snapshot_eq sort_procs sort_mapps hsort snap
  have hb := enumerated_in_bounds az0 he
  have hpid := enumerate_pid_eq_aid sort_procs sort_mapps
    (fun l m hm => (hsort l).subset hm) snap az0 h0
  refine ⟨_, h, ?_⟩
  intro a t c ha0 ha ht1 ht
  refine ⟨?_, app_final_field az0 hb a t ha0 ha ht1 ht c⟩
  have hf : az0.mapp_tab.filter
        (fun m => decide (m.smapsmapp_PID = a) && decide (m.smapsmapp_TID = t))
      = az0.mapp_tab.filter
        (fun m => decide (m.smapsmapp_AID = a) && decide (m.smapsmapp_TID = t)) := by
    apply List.filter_congr
    intro m hm
    rw [hpid m hm]
  show (cell (app_final az0) (flat az0.ntypes a t)).field c = _
  rw [app_final_field_mappings az0 he a t ha0 ha ht1 ht c]
  exact congrArg (fun l => (List.map (fun m => m.smapsmapp_mem.field c) l).sum % UINT_MOD) hf.symm

/-- C3: after `analyze_accumulate_data`, every counter of row 0 of an
application, of a library, and of `sysest`, `sysmax` and `appmax` is the sum
modulo `2 ^ 32` of that counter over the rows `1 .. ntypes-1` of the same
table entry. -/
theorem total_rows_conservation
    (sort_procs : List smapsproc_t → List smapsproc_t)
    (sort_mapps : List smapsmapp_t → List smapsmapp_t)
    (hsort : ∀ l, (sort_mapps l).Perm l) (snap : smapssnap_t) :
    ∃ az, analyze_snapshot sort_procs sort_mapps snap = some az ∧
      (∀ (a : Int) (c : counter_t), 0 ≤ a → a < az.nappls →
        (az.app a 0).field c
          = ((int_range 1 az.ntypes).map (fun t => (az.app a t).field c)).sum % UINT_MOD) ∧
      (∀ (l : Int) (c : counter_t), 0 ≤ l → l < az.npaths →
        (az.lib l 0).field c
          = ((int_range 1 az.ntypes).map (fun t => (az.lib l t).field c)).sum % UINT_MOD) ∧
      (∀ c : counter_t,
        (az.est 0).field c
          = ((int_range 1 az.ntypes).map (fun t => (az.est t).field c)).sum % UINT_MOD ∧
        (az.smax 0).field c
          = ((int_range 1 az.ntypes).map (fun t => (az.smax t).field c)).sum % UINT_MOD ∧
        (az.amax 0).field c
          = ((int_range 1 az.ntypes).map (fun t => (az.amax t).field c)).sum % UINT_MOD) := by
  obtain ⟨az0, he, -, h⟩ := analyze_snapshot_eq sort_procs sort_mapps hsort snap
  have hb := enumerated_in_bounds az0 he
  have hn : 0 < az0.ntypes := lt_of_lt_of_le (by decide) he.ntypes_pos
  refine ⟨_, h, ?_, ?_, ?_⟩
  · intro a c ha0 ha
    refine final_total az0 az0.nappls (app_rows az0) (app_rows_length az0 hb) ?_ a ha0 ha hn c
    intro a1 ha1
    have := rows_cell az0 az0.grp_app az0.nappls accumulate_sum6
      (fun g h0 h1 => (hb.2 g h0 h1).1) a1 0 ha1 (le_refl _) hn
    rw [if_neg (by omega)] at this
    exact this
  · intro l c hl0 hl
    refine final_total az0 az0.npaths (lib_rows az0) (lib_rows_length az0 hb) ?_ l hl0 hl hn c
    intro a1 ha1
    have := rows_cell az0 az0.grp_lib az0.npaths accumulate_max4_sum2
      (fun g h0 h1 => (hb.2 g h0 h1).2) a1 0 ha1 (le_refl _) hn
    rw [if_neg (by omega)] at this
    exact this
  · intro c
    exact ⟨with_total_conservation az0 _ (pertype_length _ _ _ _) (pertype_zero _ _ _ _ hn) c,
      with_total_conservation az0 _ (pertype_length _ _ _ _) (pertype_zero _ _ _ _ hn) c,
      with_total_conservation az0 _ (pertype_length _ _ _ _) (pertype_zero _ _ _ _ hn) c⟩

/-- C4: after `analyze_accumulate_data`, for every type `t >= 1`, each counter
of `appmax[t]` is the maximum over all applications of that counter of
`app_mem[a][t]` (0 without applications), each counter of `sysmax[t]` is the
sum modulo `2 ^ 32` over all applications of `app_mem[a][t]`, and each counter
of `sysest[t]` is the sum modulo `2 ^ 32` over all libraries of
`lib_mem[l][t]`. -/
theorem system_tables
    (sort_procs : List smapsproc_t → List smapsproc_t)
    (sort_mapps : List smapsmapp_t → List smapsmapp_t)
    (hsort : ∀ l, (sort_mapps l).Perm l) (snap : smapssnap_t) :
    ∃ az, analyze_snapshot sort_procs sort_mapps snap = some az ∧
      ∀ (t : Int) (c : counter_t), 1 ≤ t → t < az.ntypes →
        (az.amax t).field c
          = max_list ((int_range 0 az.nappls).map (fun a => (az.app a t).field c)) ∧
        (az.smax t).field c
          = ((int_range 0 az.nappls).map (fun a => (az.app a t).field c)).sum % UINT_MOD ∧
        (az.est t).field c
          = ((int_range 0 az.npaths).map (fun l => (az.lib l t).field c)).sum % UINT_MOD := by
  obtain ⟨az0, he, -, h⟩ := analyze_snapshot_eq sort_procs sort_mapps hsort snap
  refine ⟨_, h, ?_⟩
  intro t c ht1 ht
  refine ⟨?_, ?_, ?_⟩
  · show (cell (with_total az0 (appmax_rows az0)) t.toNat).field c = _
    rw [with_total_row az0 (appmax_rows az0) (pertype_length _ _ _ _) t ht1]
    unfold appmax_rows
    rw [pertype_cell az0 _ _ _ t (by omega) ht, if_pos ht1,
      field_foldl_max _ c (fun x y => field_maxdata x y c), List.map_map]
    rfl
  · show (cell (with_total az0 (sysmax_rows az0)) t.toNat).field c = _
    rw [with_total_row az0 (sysmax_rows az0) (pertype_length _ _ _ _) t ht1]
    unfold sysmax_rows
    rw [pertype_cell az0 _ _ _ t (by omega) ht, if_pos ht1,
      field_foldl_sum _ c (fun x y => field_appdata x y c), List.map_map]
    rfl
  · show (cell (with_total az0 (sysest_rows az0)) t.toNat).field c = _
    rw [with_total_row az0 (sysest_rows az0) (pertype_length _ _ _ _) t ht1]
    unfold sysest_rows
    rw [pertype_cell az0 _ _ _ t (by omega) ht, if_pos ht1,
      field_foldl_sum _ c (fun x y => field_appdata x y c), List.map_map]
    rfl

/-- C5 (counterexample): in `example_snap` the group 0 (process foo, library
/lib/libc.so) has Size 5 in row code and Size 7 in row data, yet row 0 of the
group table holds 0, not 12: `analyze_accumulate_data` derives no total row
for the group table. -/
theorem group_total_row_counterexample :
    ∃ az, analyze_snapshot id id example_snap = some az ∧
      (0 : Int) < az.groups ∧
      (az.grp 0 0).field counter_t.Size = 0 ∧
      ((int_range 1 az.ntypes).map (fun t => (az.grp 0 t).field counter_t.Size)).sum = 12 ∧
      (az.grp 0 0).field counter_t.Size
        ≠ ((int_range 1 az.ntypes).map (fun t => (az.grp 0 t).field counter_t.Size)).sum
            % UINT_MOD :=
  ⟨_, rfl, by decide, by decide, by decide, by decide⟩

/-- C5 (amended): after `analyze_accumulate_data`, row 0 of a group holds, for
each counter, the sum modulo `2 ^ 32` of that counter over the mappings of the
group that have type id 0; no total over the rows `1 .. ntypes-1` is derived
for the group table. -/
theorem group_row_zero
    (sort_procs : List smapsproc_t → List smapsproc_t)
    (sort_mapps : List smapsmapp_t → List smapsmapp_t)
    (hsort : ∀ l, (sort_mapps l).Perm l) (snap : smapssnap_t) :
    ∃ az, analyze_snapshot sort_procs sort_mapps snap = some az ∧
      ∀ (g : Int) (c : counter_t), 0 ≤ g → g < az.groups →
        (az.grp g 0).field c
          = ((az.mapp_tab.filter
                (fun m => decide (m.smapsmapp_EID = g) && decide (m.smapsmapp_TID = 0))).map
              (fun m => m.smapsmapp_mem.field c)).sum % UINT_MOD := by
  obtain ⟨az0, he, -, h⟩ := analyze_snapshot_eq sort_procs sort_mapps hsort snap
  have hb := enumerated_in_bounds az0 he
  refine ⟨_, h, ?_⟩
  intro g c hg0 _
  exact grp_final_field az0 hb g 0 hg0 (le_refl _)
    (lt_of_lt_of_le (by decide) he.ntypes_pos) c

/-! ## Instances on the example snapshot -/

theorem lib_table_max_and_sum_witness :
    (∀ l : List smapsmapp_t, (id l).Perm l) ∧
    (∃ az, analyze_snapshot id id example_snap = some az ∧
      (∀ (l t : Int) (c : counter_t), 0 ≤ l → l < az.npaths → 1 ≤ t → t < az.ntypes →
        (az.lib l t).field c
          = if c.is_private = true then
              (((int_range 0 az.groups).filter
                  (fun g => decide (az.grp_lib.getD g.toNat (-1) = l))).map
                (fun g => (az.grp g t).field c)).sum % UINT_MOD
            else
              max_list (((int_range 0 az.groups).filter
                  (fun g => decide (az.grp_lib.getD g.toNat (-1) = l))).map
                (fun g => (az.grp g t).field c))) ∧
      (∀ (g t : Int) (c : counter_t), 0 ≤ g → g < az.groups → 0 ≤ t → t < az.ntypes →
        (az.grp g t).field c
          = ((az.mapp_tab.filter
                (fun m => decide (m.smapsmapp_EID = g) && decide (m.smapsmapp_TID = t))).map
              (fun m => m.smapsmapp_mem.field c)).sum % UINT_MOD)) :=
  ⟨fun l => List.Perm.refl l, lib_table_max_and_sum id id (fun l => List.Perm.refl l) example_snap⟩

theorem app_table_sum_witness :
    (∀ l : List smapsmapp_t, (id l).Perm l) ∧
    (∃ az, analyze_snapshot id id example_snap = some az ∧
      ∀ (a t : Int) (c : counter_t), 0 ≤ a → a < az.nappls → 1 ≤ t → t < az.ntypes →
        (az.app a t).field c
          = ((az.mapp_tab.filter
                (fun m => decide (m.smapsmapp_PID = a) && decide (m.smapsmapp_TID = t))).map
              (fun m => m.smapsmapp_mem.field c)).sum % UINT_MOD ∧
        (az.app a t).field c
          = (((int_range 0 az.groups).filter
                (fun g => decide (az.grp_app.getD g.toNat (-1) = a))).map
              (fun g => (az.grp g t).field c)).sum % UINT_MOD) :=
  ⟨fun l => List.Perm.refl l, app_table_sum id id (fun l => List.Perm.refl l) example_snap⟩

theorem total_rows_conservation_witness :
    (∀ l : List smapsmapp_t, (id l).Perm l) ∧
    (∃ az, analyze_snapshot id id example_snap = some az ∧
      (∀ (a : Int) (c : counter_t), 0 ≤ a → a < az.nappls →
        (az.app a 0).field c
          = ((int_range 1 az.ntypes).map (fun t => (az.app a t).field c)).sum % UINT_MOD) ∧
      (∀ (l : Int) (c : counter_t), 0 ≤ l → l < az.npaths →
        (az.lib l 0).field c
          = ((int_range 1 az.ntypes).map (fun t => (az.lib l t).field c)).sum % UINT_MOD) ∧
      (∀ c : counter_t,
        (az.est 0).field c
          = ((int_range 1 az.ntypes).map (fun t => (az.est t).field c)).sum % UINT_MOD ∧
        (az.smax 0).field c
          = ((int_range 1 az.ntypes).map (fun t => (az.smax t).field c)).sum % UINT_MOD ∧
        (az.amax 0).field c
          = ((int_range 1 az.ntypes).map (fun t => (az.amax t).field c)).sum % UINT_MOD)) :=
  ⟨fun l => List.Perm.refl l, total_rows_conservation id id (fun l => List.Perm.refl l) example_snap⟩

theorem system_tables_witness :
    (∀ l : List smapsmapp_t, (id l).Perm l) ∧
    (∃ az, analyze_snapshot id id example_snap = some az ∧
      ∀ (t : Int) (c : counter_t), 1 ≤ t → t < az.ntypes →
        (az.amax t).field c
          = max_list ((int_range 0 az.nappls).map (fun a => (az.app a t).field c)) ∧
        (az.smax t).field c
          = ((int_range 0 az.nappls).map (fun a => (az.app a t).field c)).sum % UINT_MOD ∧
        (az.est t).field c
          = ((int_range 0 az.npaths).map (fun l => (az.lib l t).field c)).sum % UINT_MOD) :=
  ⟨fun l => List.Perm.refl l, system_tables id id (fun l => List.Perm.refl l) example_snap⟩

theorem group_row_zero_witness :
    (∀ l : List smapsmapp_t, (id l).Perm l) ∧
    (∃ az, analyze_snapshot id id example_snap = some az ∧
      ∀ (g : Int) (c : counter_t), 0 ≤ g → g < az.groups →
        (az.grp g 0).field c
          = ((az.mapp_tab.filter
                (fun m => decide (m.smapsmapp_EID = g) && decide (m.smapsmapp_TID = 0))).map
              (fun m => m.smapsmapp_mem.field c)).sum % UINT_MOD) :=
  ⟨fun l => List.Perm.refl l, group_row_zero id id (fun l => List.Perm.refl l) example_snap⟩

/-! ## Binary search -/

theorem array_find_lower_loop_eq {α : Type} (data : List α) (fn : α → Int) (fuel : Nat)
    (lo hi : Int) :
    array_find_lower_loop data fn fuel lo hi
      = bsearch_loop data (fun x => decide (fn x ≥ 0)) fuel lo hi := by
  induction fuel generalizing lo hi with
  | zero => rfl
  | succ fuel ih =>
    unfold array_find_lower_loop bsearch_loop
    simp only [ih, decide_eq_true_eq]

theorem array_find_upper_loop_eq {α : Type} (data : List α) (fn : α → Int) (fuel : Nat)
    (lo hi : Int) :
    array_find_upper_loop data fn fuel lo hi
      = bsearch_loop data (fun x => decide (fn x > 0)) fuel lo hi := by
  induction fuel generalizing lo hi with
  | zero => rfl
  | succ fuel ih =>
    unfold array_find_upper_loop bsearch_loop
    simp only [ih, decide_eq_true_eq]

theorem array_get_some {α : Type} (data : List α) (i : Int) (h0 : 0 ≤ i)
    (h : i < data.length) : ∃ x, array_get data i = some x := by
  unfold array_get
  rw [if_pos h0]
  have hlt : i.toNat < data.length := by omega
  exact ⟨data[i.toNat], List.getElem?_eq_getElem hlt⟩

/-- The binary search returns the boundary of a monotone predicate. -/
theorem bsearch_loop_spec {α : Type} (data : List α) (p : α → Bool) (fuel : Nat) (lo hi : Int)
    (hfuel : hi - lo ≤ fuel) (hlo : 0 ≤ lo) (hle : lo ≤ hi) (hlen : hi ≤ data.length)
    (hmax : 2 * hi ≤ INT_MAX)
    (hmono : ∀ i j x y, lo ≤ i → i ≤ j → j < hi → array_get data i = some x →
      array_get data j = some y → p x = true → p y = true) :
    ∃ r, bsearch_loop data p fuel lo hi = some r ∧ lo ≤ r ∧ r ≤ hi ∧
      (∀ i x, lo ≤ i → i < r → array_get data i = some x → p x = false) ∧
      (∀ i x, r ≤ i → i < hi → array_get data i = some x → p x = true) := by
  induction fuel generalizing lo hi with
  | zero =>
    have : lo = hi := by omega
    subst this
    refine ⟨lo, by simp [bsearch_loop], le_refl _, le_refl _, ?_, ?_⟩
    · intro i x h1 h2; omega
    · intro i x h1 h2; omega
  | succ fuel ih =>
    unfold bsearch_loop
    by_cases hlt : lo < hi
    · have hmid : Int.tdiv (lo + hi) 2 = (lo + hi) / 2 := by
        exact Int.tdiv_eq_ediv (by omega) (by decide)
      have hm1 : lo ≤ (lo + hi) / 2 := by omega
      have hm2 : (lo + hi) / 2 < hi := by omega
      rw [if_pos hlt, if_pos (by unfold INT_MAX at hmax ⊢; omega), hmid]
      obtain ⟨x, hx⟩ := array_get_some data ((lo + hi) / 2) (by omega) (by omega)
      rw [hx]
      simp only
      by_cases hp : p x = true
      · rw [if_pos hp]
        obtain ⟨r, h1, h2, h3, h4, h5⟩ := ih lo ((lo + hi) / 2 + 0) (by omega) hlo (by omega)
          (by omega) (by unfold INT_MAX at hmax ⊢; omega)
          (fun i j a b hi1 hij hj => hmono i j a b hi1 hij (by omega))
        refine ⟨r, h1, h2, by omega, h4, ?_⟩
        intro i y hri hih hy
        by_cases hc : i < (lo + hi) / 2 + 0
        · exact h5 i y hri hc hy
        · exact hmono ((lo + hi) / 2) i x y hm1 (by omega) hih hx hy hp
      · rw [if_neg hp]
        obtain ⟨r, h1, h2, h3, h4, h5⟩ := ih ((lo + hi) / 2 + 1) hi (by omega) (by omega)
          (by omega) hlen hmax
          (fun i j a b hi1 hij hj => hmono i j a b (by omega) hij hj)
        refine ⟨r, h1, by omega, h3, ?_, h5⟩
        intro i y hli hir hy
        by_cases hc : (lo + hi) / 2 + 1 ≤ i
        · exact h4 i y hc hir hy
        · cases hpy : p y with
          | false => rfl
          | true =>
            exact absurd (hmono i ((lo + hi) / 2) y x hli (by omega) hm2 hy hx hpy) hp
    · have : lo = hi := by omega
      subst this
      rw [if_neg hlt]
      refine ⟨lo, rfl, le_refl _, le_refl _, ?_, ?_⟩
      · intro i x h1 h2; omega
      · intro i x h1 h2; omega

theorem range_filter_interval (n a b : Nat) (hab : a ≤ b) :
    ((List.range n).filter (fun k => decide (a ≤ k) && decide (k < b))).length
      = min n b - min n a := by
  induction n with
  | zero => simp
  | succ n ih =>
    rw [List.range_succ, List.filter_append, List.length_append, ih]
    by_cases h1 : a ≤ n
    · by_cases h2 : n < b
      · simp [h1, h2]; omega
      · simp [h1, h2]; omega
    · simp [h1]; omega

theorem int_range_filter_interval (lo hi a b : Int) (hla : lo ≤ a) (hab : a ≤ b) (hbh : b ≤ hi) :
    ((int_range lo hi).filter (fun i => decide (a ≤ i) && decide (i < b))).length
      = (b - a).toNat := by
  unfold int_range
  rw [List.filter_map, List.length_map]
  have hc : (List.range (hi - lo).toNat).filter
        ((fun i : Int => decide (a ≤ i) && decide (i < b)) ∘ fun (k : Nat) => lo + (k : Int))
      = (List.range (hi - lo).toNat).filter
        (fun k => decide ((a - lo).toNat ≤ k) && decide (k < (b - lo).toNat)) := by
    apply List.filter_congr
    intro k _
    simp only [Function.comp]
    congr 1
    · rw [decide_eq_decide]; omega
    · rw [decide_eq_decide]; omega
  rw [hc, range_filter_interval _ _ _ (by omega)]
  omega

/-- C6: for a window `[lo, hi)` of a table that is sorted consistently with the
three-way predicate `fn` (entries with `fn < 0` first, then `fn = 0`, then
`fn > 0`), `array_find_lower` and `array_find_upper` return `plo` and `phi`
with `lo <= plo <= phi <= hi`, the indices in `[plo, phi)` are exactly the
indices of the window whose entry has `fn = 0`, `plo` is `lo` plus the number
of entries with `fn < 0`, and `phi - plo` is the number of entries with
`fn = 0` (so an absent target gives the empty interval at its insertion point).
The window lies in the table and `lo + hi` does not overflow `int`. -/
theorem range_index_correct {α : Type} (data : List α) (fn : α → Int) (lo hi : Int)
    (hlo : 0 ≤ lo) (hle : lo ≤ hi) (hlen : hi ≤ data.length) (hmax : 2 * hi ≤ INT_MAX)
    (hsorted : ∀ i j x y, lo ≤ i → i ≤ j → j < hi → array_get data i = some x →
      array_get data j = some y → (fn x ≥ 0 → fn y ≥ 0) ∧ (fn x > 0 → fn y > 0)) :
    ∃ plo phi, array_find_lower data lo hi fn = some plo ∧
      array_find_upper data lo hi fn = some phi ∧
      lo ≤ plo ∧ plo ≤ phi ∧ phi ≤ hi ∧
      (∀ i x, lo ≤ i → i < hi → array_get data i = some x →
        ((plo ≤ i ∧ i < phi) ↔ fn x = 0)) ∧
      plo = lo + window_count data fn lo hi (fun r => decide (r < 0)) ∧
      phi - plo = window_count data fn lo hi (fun r => decide (r = 0)) := by
  obtain ⟨plo, e1, a1, a2, a3, a4⟩ := bsearch_loop_spec data (fun x => decide (fn x ≥ 0))
    (hi - lo).toNat lo hi (by omega) hlo hle hlen hmax
    (fun i j x y h1 h2 h3 hx hy hp => by
      simp only [decide_eq_true_eq] at hp ⊢
      exact (hsorted i j x y h1 h2 h3 hx hy).1 hp)
  obtain ⟨phi, e2, b1, b2, b3, b4⟩ := bsearch_loop_spec data (fun x => decide (fn x > 0))
    (hi - lo).toNat lo hi (by omega) hlo hle hlen hmax
    (fun i j x y h1 h2 h3 hx hy hp => by
      simp only [decide_eq_true_eq] at hp ⊢
      exact (hsorted i j x y h1 h2 h3 hx hy).2 hp)
  simp only [decide_eq_false_iff_not, decide_eq_true_eq] at a3 a4 b3 b4
  have hpp : plo ≤ phi := by
    by_contra hc
    obtain ⟨x, hx⟩ := array_get_some data phi (by omega) (by omega)
    have h1 := a3 phi x b1 (by omega) hx
    have h2 := b4 phi x (le_refl _) (by omega) hx
    omega
  have hiff : ∀ i x, lo ≤ i → i < hi → array_get data i = some x →
      ((plo ≤ i ∧ i < phi) ↔ fn x = 0) := by
    intro i x h1 h2 hx
    constructor
    · rintro ⟨h3, h4⟩
      have := a4 i x h3 h2 hx
      have := b3 i x h1 h4 hx
      omega
    · intro h0
      constructor
      · by_contra hc
        have := a3 i x h1 (by omega) hx
        omega
      · by_contra hc
        have := b4 i x (by omega) h2 hx
        omega
  have hneg : ∀ i x, lo ≤ i → i < hi → array_get data i = some x → (i < plo ↔ fn x < 0) := by
    intro i x h1 h2 hx
    constructor
    · intro h3
      have := a3 i x h1 h3 hx
      omega
    · intro h3
      by_contra hc
      have := a4 i x (by omega) h2 hx
      omega
  refine ⟨plo, phi, ?_, ?_, a1, hpp, b2, hiff, ?_, ?_⟩
  · unfold array_find_lower
    rw [array_find_lower_loop_eq, e1]
  · unfold array_find_upper
    rw [array_find_upper_loop_eq, e2]
  · have hc : window_count data fn lo hi (fun r => decide (r < 0)) = (plo - lo).toNat := by
      unfold window_count
      rw [← int_range_filter_interval lo hi lo plo (le_refl _) a1 a2]
      congr 1
      apply List.filter_congr
      intro i hi1
      rw [mem_int_range] at hi1
      obtain ⟨x, hx⟩ := array_get_some data i (by omega) (by omega)
      rw [hx]
      simp only
      have := hneg i x hi1.1 hi1.2 hx
      rw [Bool.eq_iff_iff]
      simp only [decide_eq_true_eq, Bool.and_eq_true]
      constructor
      · intro h; exact ⟨hi1.1, this.mpr h⟩
      · intro h; exact this.mp h.2
    rw [hc]
    omega
  · have hc : window_count data fn lo hi (fun r => decide (r = 0)) = (phi - plo).toNat := by
      unfold window_count
      rw [← int_range_filter_interval lo hi plo phi a1 hpp b2]
      congr 1
      apply List.filter_congr
      intro i hi1
      rw [mem_int_range] at hi1
      obtain ⟨x, hx⟩ := array_get_some data i (by omega) (by omega)
      rw [hx]
      simp only
      have := hiff i x hi1.1 hi1.2 hx
      rw [Bool.eq_iff_iff]
      simp only [decide_eq_true_eq, Bool.and_eq_true]
      exact this.symm
    rw [hc]
    omega

theorem range_index_correct_witness :
    ((0 : Int) ≤ 0 ∧ (0 : Int) ≤ 5 ∧ (5 : Int) ≤ example_table.length ∧ 2 * (5 : Int) ≤ INT_MAX ∧
      (∀ i j x y, (0 : Int) ≤ i → i ≤ j → j < 5 → array_get example_table i = some x →
        array_get example_table j = some y →
        (x.smapsmapp_AID - 1 ≥ 0 → y.smapsmapp_AID - 1 ≥ 0) ∧
        (x.smapsmapp_AID - 1 > 0 → y.smapsmapp_AID - 1 > 0))) ∧
    ∃ plo phi, array_find_lower example_table 0 5 (fun m => m.smapsmapp_AID - 1) = some plo ∧
      array_find_upper example_table 0 5 (fun m => m.smapsmapp_AID - 1) = some phi ∧
      0 ≤ plo ∧ plo ≤ phi ∧ phi ≤ 5 ∧
      (∀ i x, 0 ≤ i → i < 5 → array_get example_table i = some x →
        ((plo ≤ i ∧ i < phi) ↔ x.smapsmapp_AID - 1 = 0)) ∧
      plo = 0 + window_count example_table (fun m => m.smapsmapp_AID - 1) 0 5
        (fun r => decide (r < 0)) ∧
      phi - plo = window_count example_table (fun m => m.smapsmapp_AID - 1) 0 5
        (fun r => decide (r = 0)) := by
  have hs : ∀ i j x y, (0 : Int) ≤ i → i ≤ j → j < 5 → array_get example_table i = some x →
      array_get example_table j = some y →
      (x.smapsmapp_AID - 1 ≥ 0 → y.smapsmapp_AID - 1 ≥ 0) ∧
      (x.smapsmapp_AID - 1 > 0 → y.smapsmapp_AID - 1 > 0) := by
    intro i j x y h1 h2 h3 hx hy
    have hi : i = 0 ∨ i = 1 ∨ i = 2 ∨ i = 3 ∨ i = 4 := by omega
    have hj : j = 0 ∨ j = 1 ∨ j = 2 ∨ j = 3 ∨ j = 4 := by omega
    rcases hi with rfl | rfl | rfl | rfl | rfl <;> rcases hj with rfl | rfl | rfl | rfl | rfl <;>
      first
      | (exfalso; omega)
      | (simp only [array_get, example_table] at hx hy
         simp at hx hy
         subst hx; subst hy
         decide)
  exact ⟨⟨by decide, by decide, by decide, by decide, hs⟩,
    range_index_correct example_table (fun m => m.smapsmapp_AID - 1) 0 5
      (by decide) (by decide) (by decide) (by decide) hs⟩

/-! ## The diff working table -/

theorem klt_irrefl (a : Int × Int × Int × Int) : ¬ klt a a := by
  unfold klt; omega

theorem klt_trans (a b c : Int × Int × Int × Int) (h1 : klt a b) (h2 : klt b c) : klt a c := by
  unfold klt at *; omega

theorem klt_trichotomy (a b : Int × Int × Int × Int) : klt a b ∨ a = b ∨ klt b a := by
  obtain ⟨a1, a2, a3, a4⟩ := a
  obtain ⟨b1, b2, b3, b4⟩ := b
  simp only [klt, Prod.mk.injEq]
  omega

theorem klt_asymm (a b : Int × Int × Int × Int) (h1 : klt a b) : ¬ klt b a := by
  unfold klt at *; omega

theorem klt_ne (a b : Int × Int × Int × Int) (h1 : klt a b) : a ≠ b := by
  rintro rfl; exact klt_irrefl _ h1

theorem int_sub_ok (a b : Int) (ha : -1 ≤ a ∧ a < INT_MAX) (hb : -1 ≤ b ∧ b < INT_MAX) :
    int_sub a b = some (a - b) := by
  unfold int_sub
  unfold INT_MAX at ha hb
  rw [if_pos]
  unfold INT_MIN INT_MAX
  omega

/-- `diffkey_compare` is the three-way comparison of the lexicographic order. -/
theorem diffkey_compare_spec (a b : diffkey_t) (ha : key_ok a) (hb : key_ok b) :
    ∃ r, diffkey_compare a b = some r ∧ (r < 0 ↔ klt (ktup a) (ktup b)) ∧
      (r > 0 ↔ klt (ktup b) (ktup a)) ∧ (r = 0 ↔ ktup a = ktup b) := by
  obtain ⟨a1, a2, a3, a4⟩ := ha
  obtain ⟨b1, b2, b3, b4⟩ := hb
  unfold diffkey_compare
  rw [int_sub_ok _ _ a1 b1, int_sub_ok _ _ a2 b2, int_sub_ok _ _ a3 b3, int_sub_ok _ _ a4 b4]
  simp only [ktup, klt, Prod.mk.injEq]
  by_cases h1 : a.appl - b.appl ≠ 0
  · rw [if_pos h1]
    exact ⟨_, rfl, by omega, by omega, by omega⟩
  · rw [if_neg h1]
    by_cases h2 : a.inst - b.inst ≠ 0
    · rw [if_pos h2]
      exact ⟨_, rfl, by omega, by omega, by omega⟩
    · rw [if_neg h2]
      by_cases h3 : a.type - b.type ≠ 0
      · rw [if_pos h3]
        exact ⟨_, rfl, by omega, by omega, by omega⟩
      · rw [if_neg h3]
        by_cases h4 : a.path - b.path ≠ 0
        · rw [if_pos h4]
          exact ⟨_, rfl, by omega, by omega, by omega⟩
        · rw [if_neg h4]
          exact ⟨_, rfl, by omega, by omega, by omega⟩

theorem array_get_nat {α : Type} (T : List α) (i : Int) (h : 0 ≤ i) :
    array_get T i = T[i.toNat]? := by
  unfold array_get
  rw [if_pos h]

theorem diffkey_add_some (fp : fp_ops) (e : diffkey_t) (cap n : Int) (val : diffval_t)
    (hcnt : e.cnt = n) (hlen : e.val.length = n.toNat) (hcap : 0 ≤ cap ∧ cap < n) :
    ∃ slot, e.val[cap.toNat]? = some slot ∧
      diffkey_add fp e cap val
        = some { e with val := e.val.set cap.toNat (diffval_add fp slot val) } := by
  have hlt : cap.toNat < e.val.length := by omega
  refine ⟨e.val[cap.toNat], List.getElem?_eq_getElem hlt, ?_⟩
  unfold diffkey_add diffkey_val
  rw [if_pos ⟨hcap.1, by omega⟩, List.getElem?_eq_getElem hlt]

theorem diffkey_add_create (fp : fp_ops) (key : diffkey_t) (cap : Int) (val : diffval_t)
    (hcap : 0 ≤ cap ∧ cap < key.cnt) :
    diffkey_add fp (diffkey_create key) cap val
      = some { key with val := (List.replicate key.cnt.toNat diffval_ctor).set cap.toNat
                                (diffval_add fp diffval_ctor val) } := by
  obtain ⟨slot, h1, h2⟩ := diffkey_add_some fp (diffkey_create key) cap key.cnt val rfl
    (by simp [diffkey_create]) hcap
  rw [h2]
  have : slot = diffval_ctor := by
    simp only [diffkey_create, List.getElem?_replicate] at h1
    split at h1
    · exact (Option.some.inj h1).symm
    · exact absurd h1 (by simp)
  subst this
  rfl

theorem diff_ins_loop_spec (fp : fp_ops) (key : diffkey_t) (val : diffval_t) (cap n : Int)
    (T : List diffkey_t) (hT : tab_ok n T) (hS : tab_sorted T) (hkey : key_ok key)
    (hcnt : key.cnt = n) (hcap : 0 ≤ cap ∧ cap < n) (hlen : 2 * (T.length : Int) ≤ INT_MAX)
    (fuel : Nat) (lo hi : Int) (hfuel : hi - lo < fuel) (hlo : 0 ≤ lo) (hle : lo ≤ hi)
    (hhi : hi ≤ T.length)
    (hbelow : ∀ (j : Nat) (e : diffkey_t), (j : Int) < lo → T[j]? = some e →
      klt (ktup e) (ktup key))
    (habove : ∀ (j : Nat) (e : diffkey_t), hi ≤ (j : Int) → T[j]? = some e →
      klt (ktup key) (ktup e)) :
    ∃ T1, diff_ins_loop fp key val cap T fuel lo hi = some T1 ∧ ins_rel fp T key val cap T1 := by
  induction fuel generalizing lo hi with
  | zero => omega
  | succ fuel ih =>
    unfold diff_ins_loop
    by_cases heq : lo = hi
    · subst heq
      rw [if_pos rfl, diffkey_add_create fp key cap val ⟨hcap.1, by omega⟩]
      refine ⟨_, rfl, Or.inr ⟨lo.toNat, _, by omega, ?_, ?_, rfl, rfl⟩⟩
      · intro j e hj he
        exact hbelow j e (by omega) he
      · intro j e hj he
        exact habove j e (by omega) he
    · have hmid : Int.tdiv (lo + hi) 2 = (lo + hi) / 2 :=
        Int.tdiv_eq_ediv (by omega) (by decide)
      have hm1 : lo ≤ (lo + hi) / 2 := by omega
      have hm2 : (lo + hi) / 2 < hi := by omega
      rw [if_neg heq, if_pos (by unfold INT_MAX at hlen ⊢; omega), hmid,
        array_get_nat T _ (by omega)]
      have hlt : ((lo + hi) / 2).toNat < T.length := by omega
      rw [List.getElem?_eq_getElem hlt]
      simp only
      have hmem : T[((lo + hi) / 2).toNat] ∈ T := List.getElem_mem _
      obtain ⟨r, hr, r1, r2, r3⟩ := diffkey_compare_spec _ key (hT _ hmem).1 hkey
      rw [hr]
      simp only
      by_cases hneg : r < 0
      · rw [if_pos hneg]
        apply ih _ _ (by omega) (by omega) (by omega) hhi
        · intro j e hj he
          by_cases hjm : j = ((lo + hi) / 2).toNat
          · subst hjm
            rw [List.getElem?_eq_getElem hlt] at he
            rw [← Option.some.inj he]
            exact r1.mp hneg
          · exact klt_trans _ _ _
              (hS j ((lo + hi) / 2).toNat e _ (by omega) he (List.getElem?_eq_getElem hlt))
              (r1.mp hneg)
        · exact habove
      · rw [if_neg hneg]
        by_cases hpos : r > 0
        · rw [if_pos hpos]
          apply ih _ _ (by omega) hlo (by omega) (by omega)
          · exact hbelow
          · intro j e hj he
            by_cases hjm : j = ((lo + hi) / 2).toNat
            · subst hjm
              rw [List.getElem?_eq_getElem hlt] at he
              rw [← Option.some.inj he]
              exact r2.mp hpos
            · exact klt_trans _ _ _ (r2.mp hpos)
                (hS ((lo + hi) / 2).toNat j _ e (by omega) (List.getElem?_eq_getElem hlt) he)
        · rw [if_neg hpos]
          have hz : r = 0 := by omega
          obtain ⟨slot, s1, s2⟩ := diffkey_add_some fp T[((lo + hi) / 2).toNat] cap n val
            (hT _ hmem).2.1 (hT _ hmem).2.2 hcap
          rw [s2]
          exact ⟨_, rfl, Or.inl ⟨_, _, slot, _, List.getElem?_eq_getElem hlt, r3.mp hz, s1, rfl, rfl⟩⟩

theorem diff_ins_spec (fp : fp_ops) (key : diffkey_t) (val : diffval_t) (cap n : Int)
    (T : List diffkey_t) (hT : tab_ok n T) (hS : tab_sorted T) (hkey : key_ok key)
    (hcnt : key.cnt = n) (hcap : 0 ≤ cap ∧ cap < n) (hlen : 2 * (T.length : Int) ≤ INT_MAX) :
    ∃ T1, diff_ins fp T key val cap = some T1 ∧ ins_rel fp T key val cap T1 := by
  unfold diff_ins
  apply diff_ins_loop_spec fp key val cap n T hT hS hkey hcnt hcap hlen
  · push_cast; omega
  · exact le_refl _
  · omega
  · exact le_refl _
  · intro j e hj; omega
  · intro j e hj he
    have := (List.getElem?_eq_some_iff.mp he).1
    omega

theorem insert_get {α : Type} (T : List α) (p : Nat) (x : α) (hp : p ≤ T.length) (j : Nat) :
    (T.take p ++ x :: T.drop p)[j]?
      = if j < p then T[j]? else if j = p then some x else T[j - 1]? := by
  have hl : (T.take p).length = p := by rw [List.length_take]; omega
  by_cases h1 : j < p
  · rw [if_pos h1, List.getElem?_append_left (by omega), List.getElem?_take_of_lt h1]
  · rw [if_neg h1, List.getElem?_append_right (by omega), hl]
    by_cases h2 : j = p
    · subst h2
      simp
    · rw [if_neg h2]
      have : j - p = (j - p - 1) + 1 := by omega
      rw [this, List.getElem?_cons_succ, List.getElem?_drop]
      congr 1
      omega

theorem set_get {α : Type} (T : List α) (i j : Nat) (x e : α) (hi : T[i]? = some e) :
    (T.set i x)[j]? = if i = j then some x else T[j]? := by
  rw [List.getElem?_set]
  have := (List.getElem?_eq_some_iff.mp hi).1
  by_cases h : i = j
  · rw [if_pos h, if_pos h, if_pos this]
  · rw [if_neg h, if_neg h]

theorem mem_of_getElem? {α : Type} (l : List α) (i : Nat) (a : α) (h : l[i]? = some a) :
    a ∈ l := by
  obtain ⟨hlt, rfl⟩ := List.getElem?_eq_some_iff.mp h
  exact List.getElem_mem _

/-- Every entry of the new table is the new or updated group, or an old entry
with another key. -/
theorem ins_rel_entries (fp : fp_ops) (T : List diffkey_t) (key : diffkey_t) (val : diffval_t)
    (cap : Int) (T1 : List diffkey_t) (hS : tab_sorted T) (h : ins_rel fp T key val cap T1) :
    ∃ (q : Nat) (enew : diffkey_t), T1[q]? = some enew ∧ ktup enew = ktup key ∧
      ((∃ (e : diffkey_t) (slot : diffval_t), e ∈ T ∧ ktup e = ktup key ∧
          e.val[cap.toNat]? = some slot ∧
          enew = { e with val := e.val.set cap.toNat (diffval_add fp slot val) }) ∨
        ((∀ e ∈ T, ktup e ≠ ktup key) ∧
          enew = { key with val := (List.replicate key.cnt.toNat diffval_ctor).set cap.toNat
                                    (diffval_add fp diffval_ctor val) })) ∧
      (∀ (j : Nat) (a : diffkey_t), j ≠ q → T1[j]? = some a →
        a ∈ T ∧ ktup a ≠ ktup key) ∧
      (∀ a ∈ T, ktup a ≠ ktup key → a ∈ T1) ∧
      (∀ (i j : Nat) (a b : diffkey_t), i < j → T1[i]? = some a → T1[j]? = some b →
        klt (ktup a) (ktup b)) ∧
      T1.length ≤ T.length + 1 := by
  rcases h with ⟨i, e, slot, enew, h1, h2, h3, hnew, rfl⟩ | ⟨p, enew, hp, h1, h2, hnew, rfl⟩
  · have hlt := (List.getElem?_eq_some_iff.mp h1).1
    have hke : ktup enew = ktup e := by rw [hnew]; rfl
    have hk : ∀ (j : Nat) (a : diffkey_t), (T.set i enew)[j]? = some a →
        ∃ a0, T[j]? = some a0 ∧ ktup a0 = ktup a ∧ (j ≠ i → a0 = a) := by
      intro j a ha
      rw [set_get T i j _ e h1] at ha
      by_cases hij : i = j
      · subst hij
        rw [if_pos rfl] at ha
        exact ⟨e, h1, by rw [← Option.some.inj ha, hke], fun h => absurd rfl h⟩
      · rw [if_neg hij] at ha
        exact ⟨a, ha, rfl, fun _ => rfl⟩
    refine ⟨i, enew, by rw [set_get T i i _ e h1, if_pos rfl], by rw [hke, h2],
      Or.inl ⟨e, slot, mem_of_getElem? _ _ _ h1, h2, h3, hnew⟩, ?_, ?_, ?_, ?_⟩
    · intro j a hj ha
      obtain ⟨a0, g1, g2, g3⟩ := hk j a ha
      have := g3 hj
      subst this
      refine ⟨mem_of_getElem? _ _ _ g1, ?_⟩
      rw [← h2]
      rcases Nat.lt_or_gt_of_ne hj with hlt1 | hgt
      · exact klt_ne _ _ (hS j i a0 e hlt1 g1 h1)
      · exact (klt_ne _ _ (hS i j e a0 hgt h1 g1)).symm
    · intro a ha hne
      obtain ⟨j, hj, rfl⟩ := List.mem_iff_getElem.mp ha
      have hji : i ≠ j := by
        rintro rfl
        rw [List.getElem?_eq_getElem hj] at h1
        rw [Option.some.inj h1] at hne
        exact hne h2
      apply mem_of_getElem? _ j
      rw [set_get T i j _ e h1, if_neg hji, List.getElem?_eq_getElem hj]
    · intro i1 j1 a b hij ha hb
      obtain ⟨a0, g1, g2, -⟩ := hk i1 a ha
      obtain ⟨b0, g3, g4, -⟩ := hk j1 b hb
      rw [← g2, ← g4]
      exact hS i1 j1 a0 b0 hij g1 g3
    · rw [List.length_set]; omega
  · refine ⟨p, enew, by rw [insert_get T p _ hp, if_neg (by omega), if_pos rfl], by rw [hnew]; rfl, Or.inr ⟨?_, hnew⟩, ?_, ?_, ?_, ?_⟩
    · intro e he hk
      obtain ⟨j, hj, rfl⟩ := List.mem_iff_getElem.mp he
      by_cases hjp : j < p
      · exact klt_ne _ _ (h1 j _ hjp (List.getElem?_eq_getElem hj)) hk
      · exact klt_ne _ _ (h2 j _ (by omega) (List.getElem?_eq_getElem hj)) hk.symm
    · intro j a hj ha
      rw [insert_get T p _ hp] at ha
      by_cases hjp : j < p
      · rw [if_pos hjp] at ha
        exact ⟨mem_of_getElem? _ _ _ ha, klt_ne _ _ (h1 j a hjp ha)⟩
      · rw [if_neg hjp, if_neg hj] at ha
        exact ⟨mem_of_getElem? _ _ _ ha, (klt_ne _ _ (h2 (j - 1) a (by omega) ha)).symm⟩
    · intro a ha _
      rw [← List.take_append_drop p T] at ha
      rcases List.mem_append.mp ha with h | h
      · exact List.mem_append_left _ h
      · exact List.mem_append_right _ (List.mem_cons_of_mem _ h)
    · intro i1 j1 a b hij ha hb
      have hke : ktup enew = ktup key := by rw [hnew]; rfl
      rw [insert_get T p _ hp] at ha hb
      by_cases hi1 : i1 < p
      · rw [if_pos hi1] at ha
        by_cases hj1 : j1 < p
        · rw [if_pos hj1] at hb
          exact hS i1 j1 a b hij ha hb
        · rw [if_neg hj1] at hb
          by_cases hj2 : j1 = p
          · rw [if_pos hj2] at hb
            rw [← Option.some.inj hb, hke]
            exact h1 i1 a hi1 ha
          · rw [if_neg hj2] at hb
            exact hS i1 (j1 - 1) a b (by omega) ha hb
      · rw [if_neg hi1] at ha
        rw [if_neg (by omega), if_neg (by omega)] at hb
        by_cases hi2 : i1 = p
        · rw [if_pos hi2] at ha
          rw [← Option.some.inj ha, hke]
          exact h2 (j1 - 1) b (by omega) hb
        · rw [if_neg hi2] at ha
          exact hS (i1 - 1) (j1 - 1) a b (by omega) ha hb
    · simp only [List.length_append, List.length_cons, List.length_take, List.length_drop]
      omega

theorem fsum_append (f : smapsmapp_t → Nat) (d n : Int) (items : List (smapsmapp_t × Int))
    (x : smapsmapp_t × Int) (K : Int × Int × Int × Int) (i : Int) :
    fsum f d n (items ++ [x]) K i
      = fsum f d n items K i
        + (if ktup (masked_key d n x.1) = K ∧ x.2 = i then f x.1 else 0) := by
  unfold fsum
  rw [List.filter_append, List.map_append, List.sum_append]
  congr 1
  by_cases h : ktup (masked_key d n x.1) = K ∧ x.2 = i
  · rw [if_pos h]; simp [List.filter_cons, h.1, h.2]
  · rw [if_neg h]
    have : (decide (ktup (masked_key d n x.1) = K) && decide (x.2 = i)) = false := by
      rw [Bool.and_eq_false_iff]
      by_cases h1 : ktup (masked_key d n x.1) = K
      · exact Or.inr (by simpa using fun h2 => h ⟨h1, h2⟩)
      · exact Or.inl (by simpa using h1)
    simp [List.filter_cons, this]

theorem fsum_le (f : smapsmapp_t → Nat) (hf : ∀ m, f m ≤ diff_weight m) (d n : Int)
    (items : List (smapsmapp_t × Int)) (K : Int × Int × Int × Int) (i : Int) :
    fsum f d n items K i ≤ (items.map (fun x => diff_weight x.1)).sum := by
  unfold fsum
  induction items with
  | nil => simp
  | cons x xs ih =>
    rw [List.filter_cons]
    split
    · simp only [List.map_cons, List.sum_cons]
      have := hf x.1
      omega
    · simp only [List.map_cons, List.sum_cons]
      omega

theorem fsum_no_key (f : smapsmapp_t → Nat) (d n : Int) (items : List (smapsmapp_t × Int))
    (K : Int × Int × Int × Int) (i : Int)
    (h : ¬ ∃ x ∈ items, ktup (masked_key d n x.1) = K) : fsum f d n items K i = 0 := by
  unfold fsum
  have : items.filter (fun x => decide (ktup (masked_key d n x.1) = K) && decide (x.2 = i))
      = [] := by
    rw [List.filter_eq_nil_iff]
    intro x hx hc
    simp only [Bool.and_eq_true, decide_eq_true_eq] at hc
    exact h ⟨x, hx, hc.1⟩
  rw [this]
  rfl

/-- Adding the value of a mapping to the slot of its group and snapshot. -/
theorem slot_sum_add (fp : fp_ops) (hadd : add_exact fp) (d n : Int)
    (items : List (smapsmapp_t × Int)) (x : smapsmapp_t × Int)
    (hsum : ((items ++ [x]).map (fun y => diff_weight y.1)).sum < 2 ^ 53) :
    diffval_add fp (slot_sum d n items (ktup (masked_key d n x.1)) x.2) (diff_value x.1)
      = slot_sum d n (items ++ [x]) (ktup (masked_key d n x.1)) x.2 := by
  have hb : ∀ f : smapsmapp_t → Nat, (∀ m, f m ≤ diff_weight m) →
      fsum f d n items (ktup (masked_key d n x.1)) x.2 + f x.1 < 2 ^ 53 := by
    intro f hf
    have h1 := fsum_le f hf d n (items ++ [x]) (ktup (masked_key d n x.1)) x.2
    rw [fsum_append, if_pos ⟨rfl, rfl⟩] at h1
    omega
  unfold diffval_add slot_sum diff_value
  simp only [fsum_append, and_self, if_true]
  rw [hadd _ _ (hb _ (fun m => by unfold diff_weight; omega)),
    hadd _ _ (hb _ (fun m => by unfold diff_weight; omega))]
  have hc := hadd _ _ (hb clean_of (fun m => by unfold diff_weight; omega))
  unfold clean_of at hc ⊢
  rw [hc]

theorem slot_sum_other (d n : Int) (items : List (smapsmapp_t × Int))
    (x : smapsmapp_t × Int) (K : Int × Int × Int × Int) (i : Int)
    (h : ¬ (ktup (masked_key d n x.1) = K ∧ x.2 = i)) :
    slot_sum d n (items ++ [x]) K i = slot_sum d n items K i := by
  unfold slot_sum
  simp only [fsum_append, if_neg h, Nat.add_zero]

theorem slot_sum_fresh (fp : fp_ops) (hadd : add_exact fp) (d n : Int)
    (items : List (smapsmapp_t × Int)) (x : smapsmapp_t × Int)
    (hno : ¬ ∃ y ∈ items, ktup (masked_key d n y.1) = ktup (masked_key d n x.1))
    (hsum : ((items ++ [x]).map (fun y => diff_weight y.1)).sum < 2 ^ 53) (i : Int) :
    slot_sum d n (items ++ [x]) (ktup (masked_key d n x.1)) i
      = if x.2 = i then diffval_add fp diffval_ctor (diff_value x.1) else diffval_ctor := by
  by_cases h : x.2 = i
  · subst h
    rw [if_pos rfl, ← slot_sum_add fp hadd d n items x hsum]
    congr 1
    unfold slot_sum diffval_ctor
    simp only [fsum_no_key _ d n items _ _ hno, Nat.cast_zero]
  · rw [if_neg h, slot_sum_other d n items x _ i (fun hc => h hc.2)]
    unfold slot_sum diffval_ctor
    simp only [fsum_no_key _ d n items _ _ hno, Nat.cast_zero]

theorem replicate_set_get (n c i : Nat) (v : diffval_t) (hc : c < n) (hi : i < n) :
    ((List.replicate n diffval_ctor).set c v)[i]?
      = some (if c = i then v else diffval_ctor) := by
  rw [List.getElem?_set, List.length_replicate, List.getElem?_replicate]
  by_cases h : c = i
  · rw [if_pos h, if_pos h, if_pos hc]
  · rw [if_neg h, if_neg h, if_pos hi]

/-- One call of `diff_ins` keeps the invariant of the accumulation loop. -/
theorem diff_inv_step (fp : fp_ops) (hadd : add_exact fp) (d n : Int)
    (items : List (smapsmapp_t × Int)) (x : smapsmapp_t × Int) (T T1 : List diffkey_t)
    (hinv : diff_inv d n items T) (hok : key_ok (masked_key d n x.1))
    (hcap : 0 ≤ x.2 ∧ x.2 < n)
    (hsum : ((items ++ [x]).map (fun y => diff_weight y.1)).sum < 2 ^ 53)
    (hrel : ins_rel fp T (masked_key d n x.1) (diff_value x.1) x.2 T1) :
    diff_inv d n (items ++ [x]) T1 := by
  obtain ⟨hT, hS, hL, hV, hK⟩ := hinv
  obtain ⟨q, enew, hq, hke, hcontent, hother, hkeep, hsorted, hlen⟩ :=
    ins_rel_entries fp T _ _ _ T1 hS hrel
  have hidx : ∀ a ∈ T1, (a = enew) ∨ (a ∈ T ∧ ktup a ≠ ktup (masked_key d n x.1)) := by
    intro a ha
    obtain ⟨j, hj, rfl⟩ := List.mem_iff_getElem.mp ha
    by_cases hjq : j = q
    · subst hjq
      rw [List.getElem?_eq_getElem hj] at hq
      exact Or.inl (Option.some.inj hq)
    · exact Or.inr (hother j _ hjq (List.getElem?_eq_getElem hj))
  have hnew_mem : enew ∈ T1 := mem_of_getElem? _ _ _ hq
  refine ⟨?_, hsorted, ?_, ?_, ?_⟩
  · intro a ha
    rcases hidx a ha with rfl | ⟨h1, -⟩
    · rcases hcontent with ⟨e, slot, he, -, -, hnew⟩ | ⟨-, hnew⟩
      · obtain ⟨k1, k2, k3⟩ := hT e he
        rw [hnew]
        exact ⟨k1, k2, by simpa using k3⟩
      · rw [hnew]
        exact ⟨hok, rfl, by simp [masked_key]⟩
    · exact hT a h1
  · rw [List.length_append, List.length_singleton]
    omega
  · intro a ha i hi
    rcases hidx a ha with rfl | ⟨h1, h2⟩
    · rw [hke]
      rcases hcontent with ⟨e, slot, he, hek, hslot, hnew⟩ | ⟨hno, hnew⟩
      · have h3 := hV e he x.2.toNat (by omega)
        rw [hek, hslot, Int.toNat_of_nonneg hcap.1] at h3
        have hslot2 : slot = slot_sum d n items (ktup (masked_key d n x.1)) x.2 :=
          Option.some.inj h3
        have hval : a.val = e.val.set x.2.toNat (diffval_add fp slot (diff_value x.1)) := by
          rw [hnew]
        rw [hval, set_get _ _ _ _ slot hslot]
        by_cases hci : x.2.toNat = i
        · rw [if_pos hci, hslot2, slot_sum_add fp hadd d n items x hsum]
          have : x.2 = (i : Int) := by omega
          rw [this]
        · rw [if_neg hci, hV e he i hi, hek,
            slot_sum_other d n items x _ _ (fun hc => hci (by omega))]
      · have hnoitem : ¬ ∃ y ∈ items,
            ktup (masked_key d n y.1) = ktup (masked_key d n x.1) := by
          intro hc
          obtain ⟨e, he, hek⟩ := (hK _).mpr hc
          exact hno e he hek
        have hval : a.val = (List.replicate n.toNat diffval_ctor).set x.2.toNat
            (diffval_add fp diffval_ctor (diff_value x.1)) := by
          rw [hnew]; rfl
        rw [hval, replicate_set_get _ _ _ _ (by omega) (by omega),
          slot_sum_fresh fp hadd d n items x hnoitem hsum]
        congr 1
        by_cases hci : x.2.toNat = i
        · rw [if_pos hci, if_pos (by omega)]
        · rw [if_neg hci, if_neg (by omega)]
    · rw [hV a h1 i hi, slot_sum_other d n items x _ _ (fun hc => h2 hc.1.symm)]
  · intro K
    constructor
    · rintro ⟨a, ha, rfl⟩
      rcases hidx a ha with rfl | ⟨h1, -⟩
      · exact ⟨x, List.mem_append_right _ (List.mem_singleton_self _), hke.symm⟩
      · obtain ⟨y, hy, hyk⟩ := (hK _).mp ⟨a, h1, rfl⟩
        exact ⟨y, List.mem_append_left _ hy, hyk⟩
    · rintro ⟨y, hy, rfl⟩
      by_cases hk : ktup (masked_key d n y.1) = ktup (masked_key d n x.1)
      · exact ⟨enew, hnew_mem, by rw [hke, hk]⟩
      · rcases List.mem_append.mp hy with h | h
        · obtain ⟨e, he, hek⟩ := (hK _).mpr ⟨y, h, rfl⟩
          exact ⟨e, hkeep e he (by rw [hek]; exact hk), hek⟩
        · rw [List.mem_singleton] at h
          exact absurd (by rw [h]) hk

/-- The `switch` of `smapsfilt_diff` computes the masked key, whatever mapping
was handled before. -/
theorem diff_switch_masked (d n : Int) (hd : 0 ≤ d) (k : diffkey_t) (m : smapsmapp_t)
    (hk : unset_ok d n k) :
    diff_switch d k m = masked_key d n m ∧ unset_ok d n (masked_key d n m) := by
  obtain ⟨h1, h2, h3, h4, h5, h6⟩ := hk
  obtain ⟨a, b, c, e, f, g⟩ := k
  simp only at h1 h2 h3 h4 h5 h6
  subst h1 h2
  unfold diff_switch masked_key unset_ok
  by_cases d0 : d = 0
  · subst d0
    simp only [if_true]
    rw [h3 (by decide), h4 (by decide), h5 (by decide), h6 (by decide)]
    simp
  · by_cases d1 : d = 1
    · subst d1
      rw [h4 (by decide), h5 (by decide), h6 (by decide)]
      simp
    · by_cases d2 : d = 2
      · subst d2
        rw [h5 (by decide), h6 (by decide)]
        simp
      · by_cases d3 : d = 3
        · subst d3
          rw [h6 (by decide)]
          simp
        · have e1 : 1 ≤ d := by omega
          have e2 : 2 ≤ d := by omega
          have e3 : 3 ≤ d := by omega
          have e4 : 4 ≤ d := by omega
          simp [d0, d1, d2, d3, e1, e2, e3, e4]

theorem masked_key_ok (d n : Int) (m : smapsmapp_t) (h : mapp_ids_ok m) :
    key_ok (masked_key d n m) := by
  obtain ⟨h1, h2, h3, h4⟩ := h
  unfold key_ok masked_key
  unfold INT_MAX at *
  simp only
  refine ⟨?_, ?_, ?_, ?_⟩ <;> split <;> omega

theorem ins_rel_ok (fp : fp_ops) (n : Int) (T T1 : List diffkey_t) (key : diffkey_t)
    (val : diffval_t) (cap : Int) (hT : tab_ok n T) (hS : tab_sorted T) (hkey : key_ok key)
    (hcnt : key.cnt = n) (hrel : ins_rel fp T key val cap T1) :
    tab_ok n T1 ∧ tab_sorted T1 ∧ T1.length ≤ T.length + 1 := by
  obtain ⟨q, enew, hq, hke, hcontent, hother, -, hsorted, hlen⟩ :=
    ins_rel_entries fp T _ _ _ T1 hS hrel
  refine ⟨?_, hsorted, hlen⟩
  intro a ha
  obtain ⟨j, hj, rfl⟩ := List.mem_iff_getElem.mp ha
  by_cases hjq : j = q
  · subst hjq
    rw [List.getElem?_eq_getElem hj] at hq
    rw [Option.some.inj hq]
    rcases hcontent with ⟨e, slot, he, -, -, hnew⟩ | ⟨-, hnew⟩
    · obtain ⟨k1, k2, k3⟩ := hT e he
      rw [hnew]
      exact ⟨k1, k2, by simpa using k3⟩
    · rw [hnew]
      exact ⟨hkey, hcnt, by simp [hcnt]⟩
  · exact hT _ (hother j _ hjq (List.getElem?_eq_getElem hj)).1

theorem foldlM_flatten_option {σ α : Type} (f : σ → α → Option σ) (L : List (List α)) (s : σ) :
    L.flatten.foldlM f s = L.foldlM (fun s l => l.foldlM f s) s := by
  induction L generalizing s with
  | nil => rfl
  | cons l L ih =>
    rw [List.flatten_cons, List.foldlM_append, List.foldlM_cons]
    cases h : l.foldlM f s with
    | none => rfl
    | some s1 => exact ih s1

theorem foldlM_map_option {σ α β : Type} (f : σ → β → Option σ) (g : α → β) (l : List α)
    (s : σ) : (l.map g).foldlM f s = l.foldlM (fun s a => f s (g a)) s := by
  induction l generalizing s with
  | nil => rfl
  | cons a l ih =>
    rw [List.map_cons, List.foldlM_cons, List.foldlM_cons]
    cases h : f s (g a) with
    | none => rfl
    | some s1 => exact ih s1

/-- The nested loops of `smapsfilt_diff` walk the list `diff_items`. -/
theorem diff_accumulate_snaps_eq (fp : fp_ops) (d : Int) (snaps : List smapssnap_t) (i : Int)
    (st : diffkey_t × List diffkey_t) :
    diff_accumulate_snaps fp d snaps i st
      = (diff_items snaps i).foldlM (fun st x => diff_accumulate_step fp d x.2 st x.1) st := by
  induction snaps generalizing i st with
  | nil => rfl
  | cons snap rest ih =>
    unfold diff_accumulate_snaps diff_items
    rw [List.foldlM_append, foldlM_map_option, foldlM_flatten_option, foldlM_map_option]
    cases h : snap.smapssnap_proclist.foldlM
        (fun st proc => proc.smapsproc_mapplist.foldlM (diff_accumulate_step fp d i) st) st with
    | none => rfl
    | some st1 => exact ih (i + 1) st1

theorem diff_items_cap (snaps : List smapssnap_t) (i : Int) :
    ∀ x ∈ diff_items snaps i, i ≤ x.2 ∧ x.2 < i + snaps.length := by
  induction snaps generalizing i with
  | nil => intro x hx; simp [diff_items] at hx
  | cons snap rest ih =>
    intro x hx
    unfold diff_items at hx
    rcases List.mem_append.mp hx with h | h
    · simp only [List.mem_map] at h
      obtain ⟨m, -, rfl⟩ := h
      simp only [List.length_cons]
      push_cast
      omega
    · have := ih (i + 1) x h
      simp only [List.length_cons]
      push_cast
      omega

theorem sum_initial_le (f : smapsmapp_t × Int → Nat) (a b : List (smapsmapp_t × Int)) :
    (a.map f).sum ≤ ((a ++ b).map f).sum := by
  rw [List.map_append, List.sum_append]
  omega

/-- The accumulation loop keeps its invariant over any sequence of mappings. -/
theorem diff_fold (fp : fp_ops) (hadd : add_exact fp) (d n : Int) (hd : 0 ≤ d)
    (todo done : List (smapsmapp_t × Int)) (st : diffkey_t × List diffkey_t)
    (hkey : unset_ok d n st.1) (hinv : diff_inv d n done st.2)
    (hids : ∀ x ∈ todo, mapp_ids_ok x.1) (hcaps : ∀ x ∈ todo, 0 ≤ x.2 ∧ x.2 < n)
    (hsum : ((done ++ todo).map (fun y => diff_weight y.1)).sum < 2 ^ 53)
    (hlen : 2 * ((done ++ todo).length : Int) ≤ INT_MAX) :
    ∃ st1, todo.foldlM (fun st x => diff_accumulate_step fp d x.2 st x.1) st = some st1 ∧
      diff_inv d n (done ++ todo) st1.2 := by
  induction todo generalizing done st with
  | nil => exact ⟨st, rfl, by rw [List.append_nil]; exact hinv⟩
  | cons x rest ih =>
    have hsw := diff_switch_masked d n hd st.1 x.1 hkey
    have hok := masked_key_ok d n x.1 (hids x (List.mem_cons_self _ _))
    have hcap := hcaps x (List.mem_cons_self _ _)
    have hTlen : 2 * (st.2.length : Int) ≤ INT_MAX := by
      have h1 := hinv.2.2.1
      rw [List.length_append] at hlen
      push_cast at hlen
      omega
    obtain ⟨T1, e1, hrel⟩ := diff_ins_spec fp (masked_key d n x.1) (diff_value x.1) x.2 n st.2
      hinv.1 hinv.2.1 hok rfl hcap hTlen
    have hassoc : done ++ x :: rest = (done ++ [x]) ++ rest := by simp
    have hsum1 : (((done ++ [x]) ++ rest).map (fun y => diff_weight y.1)).sum < 2 ^ 53 := by
      rw [← hassoc]; exact hsum
    have hinv1 := diff_inv_step fp hadd d n done x st.2 T1 hinv hok hcap
      (lt_of_le_of_lt (sum_initial_le _ _ _) hsum1) hrel
    obtain ⟨st1, e2, hfin⟩ := ih (done ++ [x]) (masked_key d n x.1, T1) hsw.2 hinv1
      (fun y hy => hids y (List.mem_cons_of_mem _ hy))
      (fun y hy => hcaps y (List.mem_cons_of_mem _ hy)) hsum1 (by rw [← hassoc]; exact hlen)
    refine ⟨st1, ?_, by rw [hassoc]; exact hfin⟩
    rw [List.foldlM_cons]
    unfold diff_accumulate_step
    rw [hsw.1, e1]
    exact e2

/-- Any sequence of `diff_ins` calls keeps the table sorted. -/
theorem diff_ins_fold (fp : fp_ops) (n : Int)
    (calls : List (diffkey_t × diffval_t × Int)) (T : List diffkey_t)
    (hT : tab_ok n T) (hS : tab_sorted T)
    (hcalls : ∀ c ∈ calls, key_ok c.1 ∧ c.1.cnt = n ∧ 0 ≤ c.2.2 ∧ c.2.2 < n)
    (hlen : 2 * ((T.length : Int) + calls.length) ≤ INT_MAX) :
    ∃ T1, calls.foldlM (fun tab c => diff_ins fp tab c.1 c.2.1 c.2.2) T = some T1 ∧
      tab_ok n T1 ∧ tab_sorted T1 := by
  induction calls generalizing T with
  | nil => exact ⟨T, rfl, hT, hS⟩
  | cons c rest ih =>
    obtain ⟨h1, h2, h3, h4⟩ := hcalls c (List.mem_cons_self _ _)
    simp only [List.length_cons] at hlen
    push_cast at hlen
    obtain ⟨T1, e1, hrel⟩ := diff_ins_spec fp c.1 c.2.1 c.2.2 n T hT hS h1 h2 ⟨h3, h4⟩
      (by omega)
    obtain ⟨k1, k2, k3⟩ := ins_rel_ok fp n T T1 c.1 c.2.1 c.2.2 hT hS h1 h2 hrel
    obtain ⟨T2, e2, hfin⟩ := ih T1 k1 k2
      (fun y hy => hcalls y (List.mem_cons_of_mem _ hy)) (by omega)
    refine ⟨T2, ?_, hfin⟩
    rw [List.foldlM_cons, e1]
    exact e2

theorem tab_sorted_pairwise (n : Int) (T : List diffkey_t) (hT : tab_ok n T)
    (hS : tab_sorted T) :
    T.Pairwise (fun a b => ∃ r, diffkey_compare a b = some r ∧ r < 0) ∧
    (T.map ktup).Nodup := by
  constructor
  · rw [List.pairwise_iff_getElem]
    intro i j hi hj hij
    obtain ⟨r, h1, h2, -, -⟩ := diffkey_compare_spec T[i] T[j]
      (hT _ (List.getElem_mem _)).1 (hT _ (List.getElem_mem _)).1
    exact ⟨r, h1, h2.mpr (hS i j _ _ hij (List.getElem?_eq_getElem hi)
      (List.getElem?_eq_getElem hj))⟩
  · unfold List.Nodup
    rw [List.pairwise_iff_getElem]
    intro i j hi hj hij
    simp only [List.getElem_map]
    rw [List.length_map] at hi hj
    exact klt_ne _ _ (hS i j _ _ hij (List.getElem?_eq_getElem hi)
      (List.getElem?_eq_getElem hj))

/-! ## Claims about the diff engine -/

/-- C7: starting from the empty table, after any sequence of `diff_ins` calls
(keys with fields that are ids or `-1`, a common slot count `n`, slot indices
below `n`, fewer than `2 ^ 30` calls) the table is strictly increasing in the
order of `diffkey_compare`, so no key occurs twice. -/
theorem diff_table_sorted (fp : fp_ops) (n : Int)
    (calls : List (diffkey_t × diffval_t × Int))
    (hcalls : ∀ c ∈ calls, key_ok c.1 ∧ c.1.cnt = n ∧ 0 ≤ c.2.2 ∧ c.2.2 < n)
    (hlen : 2 * (calls.length : Int) ≤ INT_MAX) :
    ∃ tab, calls.foldlM (fun tab c => diff_ins fp tab c.1 c.2.1 c.2.2) [] = some tab ∧
      tab.Pairwise (fun a b => ∃ r, diffkey_compare a b = some r ∧ r < 0) ∧
      (tab.map ktup).Nodup := by
  obtain ⟨tab, h1, h2, h3⟩ := diff_ins_fold fp n calls []
    (fun e he => by simp at he) (fun i j a b _ ha => by simp at ha) hcalls
    (by simpa using hlen)
  exact ⟨tab, h1, tab_sorted_pairwise n tab h2 h3⟩

theorem diff_table_sorted_witness :
    ((∀ c ∈ example_calls, key_ok c.1 ∧ c.1.cnt = 2 ∧ 0 ≤ c.2.2 ∧ c.2.2 < 2) ∧
      2 * (example_calls.length : Int) ≤ INT_MAX) ∧
    ∃ tab, example_calls.foldlM (fun tab c => diff_ins fp_exact tab c.1 c.2.1 c.2.2) []
        = some tab ∧
      tab.Pairwise (fun a b => ∃ r, diffkey_compare a b = some r ∧ r < 0) ∧
      (tab.map ktup).Nodup := by
  have h1 : ∀ c ∈ example_calls, key_ok c.1 ∧ c.1.cnt = 2 ∧ 0 ≤ c.2.2 ∧ c.2.2 < 2 := by
    intro c hc
    simp only [example_calls, List.mem_cons, List.mem_singleton, List.not_mem_nil,
      or_false] at hc
    rcases hc with rfl | rfl | rfl <;>
      exact ⟨by unfold key_ok INT_MAX; decide, by decide, by decide, by decide⟩
  have h2 : 2 * (example_calls.length : Int) ≤ INT_MAX := by decide
  exact ⟨⟨h1, h2⟩, diff_table_sorted fp_exact 2 example_calls h1 h2⟩

theorem diff_inv_nil (d n : Int) : diff_inv d n [] [] := by
  refine ⟨fun e he => by simp at he, fun i j a b _ ha => by simp at ha, le_refl _,
    fun e he => by simp at he, fun K => ⟨?_, ?_⟩⟩
  · rintro ⟨e, he, -⟩; simp at he
  · rintro ⟨x, hx, -⟩; simp at hx

/-- The accumulation section of `smapsfilt_diff` in terms of the mappings. -/
theorem diff_accumulate_spec (fp : fp_ops) (hadd : add_exact fp) (snaps : List smapssnap_t)
    (d : Int) (hd : 0 ≤ d) (hids : ∀ x ∈ diff_items snaps 0, mapp_ids_ok x.1)
    (hsum : ((diff_items snaps 0).map (fun y => diff_weight y.1)).sum < 2 ^ 53)
    (hlen : 2 * ((diff_items snaps 0).length : Int) ≤ INT_MAX) :
    ∃ tab, diff_accumulate fp snaps d = some tab ∧
      diff_inv d snaps.length (diff_items snaps 0) tab := by
  obtain ⟨st1, h1, h2⟩ := diff_fold fp hadd d snaps.length hd (diff_items snaps 0) []
    ({ appl := -1, inst := -1, type := -1, path := -1, cnt := (snaps.length : Int) }, [])
    ⟨rfl, rfl, fun _ => rfl, fun _ => rfl, fun _ => rfl, fun _ => rfl⟩
    (diff_inv_nil d snaps.length) hids
    (fun x hx => by have := diff_items_cap snaps 0 x hx; omega)
    (by simpa using hsum) (by simpa using hlen)
  refine ⟨st1.2, ?_, by simpa using h2⟩
  unfold diff_accumulate
  rw [diff_accumulate_snaps_eq, h1]

theorem add_exact_fp_exact : add_exact fp_exact := by
  intro a b _
  simp [fp_exact]

/-- C8 (counterexample): a mapping with `Shared_Clean = Private_Clean = 2 ^ 31`
has clean pages summing to `2 ^ 32`, but the slot of its group holds
`cln = 0`: the sum is formed in `unsigned` before the conversion to `double`. -/
theorem diff_clean_wraps :
    ∃ tab e, diff_accumulate fp_exact wrap_snaps 4 = some tab ∧ e ∈ tab ∧
      ktup e = (0, 0, 0, 0) ∧
      e.val[0]? = some { pri := 0, sha := 0, cln := 0 } ∧
      ((diff_items wrap_snaps 0).map
        (fun x => x.1.smapsmapp_mem.Shared_Clean + x.1.smapsmapp_mem.Private_Clean)).sum
        = 4294967296 := by
  have hids : ∀ x ∈ diff_items wrap_snaps 0, mapp_ids_ok x.1 := by
    intro x hx
    simp only [diff_items, wrap_snaps, List.map_cons, List.map_nil, List.flatten_cons,
      List.flatten_nil, List.append_nil, List.mem_singleton] at hx
    subst hx
    unfold mapp_ids_ok INT_MAX
    decide
  obtain ⟨tab, h1, -, -, -, hV, hK⟩ := diff_accumulate_spec fp_exact add_exact_fp_exact
    wrap_snaps 4 (by decide) hids (by decide) (by decide)
  obtain ⟨e, he, hk⟩ := (hK (0, 0, 0, 0)).mpr (by decide)
  refine ⟨tab, e, h1, he, hk, ?_, by decide⟩
  have h2 := hV e he 0 (by decide)
  rw [h2, hk]
  have f1 : fsum (fun m => m.smapsmapp_mem.Private_Dirty) 4 (wrap_snaps.length : Int)
      (diff_items wrap_snaps 0) (0, 0, 0, 0) ((0 : Nat) : Int) = 0 := by decide
  have f2 : fsum (fun m => m.smapsmapp_mem.Shared_Dirty) 4 (wrap_snaps.length : Int)
      (diff_items wrap_snaps 0) (0, 0, 0, 0) ((0 : Nat) : Int) = 0 := by decide
  have f3 : fsum clean_of 4 (wrap_snaps.length : Int)
      (diff_items wrap_snaps 0) (0, 0, 0, 0) ((0 : Nat) : Int) = 0 := by decide
  unfold slot_sum
  rw [f1, f2, f3]
  simp

/-- C8 (amended): after the accumulation section of `smapsfilt_diff` at depth
`d`, every group of the table has one value slot per snapshot, slot `i` of the
group with key `K` holds the triple (sum of Private_Dirty, sum of Shared_Dirty,
sum of `(Shared_Clean + Private_Clean) mod 2 ^ 32`) over the mappings of
snapshot `i` whose masked key is `K`, and a key is in the table iff some mapping
of some snapshot has it as masked key.  The ids are ids or `-1`, there are fewer
than `2 ^ 30` mappings, and the measures sum to less than `2 ^ 53`, the range in
which `double` addition is exact. -/
theorem diff_accumulation (fp : fp_ops) (hadd : add_exact fp) (snaps : List smapssnap_t)
    (d : Int) (hd : 0 ≤ d) (hids : ∀ x ∈ diff_items snaps 0, mapp_ids_ok x.1)
    (hsum : ((diff_items snaps 0).map (fun y => diff_weight y.1)).sum < 2 ^ 53)
    (hlen : 2 * ((diff_items snaps 0).length : Int) ≤ INT_MAX) :
    ∃ tab, diff_accumulate fp snaps d = some tab ∧
      (∀ e ∈ tab, e.cnt = snaps.length ∧ e.val.length = snaps.length) ∧
      (∀ e ∈ tab, ∀ i : Nat, i < snaps.length →
        e.val[i]? = some
          { pri := (fsum (fun m => m.smapsmapp_mem.Private_Dirty) d snaps.length
                      (diff_items snaps 0) (ktup e) i : ℚ)
            sha := (fsum (fun m => m.smapsmapp_mem.Shared_Dirty) d snaps.length
                      (diff_items snaps 0) (ktup e) i : ℚ)
            cln := (fsum (fun m => (m.smapsmapp_mem.Shared_Clean
                        + m.smapsmapp_mem.Private_Clean) % UINT_MOD) d snaps.length
                      (diff_items snaps 0) (ktup e) i : ℚ) }) ∧
      (∀ K, (∃ e ∈ tab, ktup e = K) ↔
        ∃ x ∈ diff_items snaps 0, ktup (masked_key d snaps.length x.1) = K) ∧
      (tab.map ktup).Nodup := by
  obtain ⟨tab, h1, hT, hS, -, hV, hK⟩ := diff_accumulate_spec fp hadd snaps d hd hids hsum hlen
  refine ⟨tab, h1, ?_, ?_, hK, (tab_sorted_pairwise _ tab hT hS).2⟩
  · intro e he
    obtain ⟨-, k2, k3⟩ := hT e he
    exact ⟨k2, by rw [k3]; simp⟩
  · intro e he i hi
    exact hV e he i (by omega)

theorem example_snaps_ids : ∀ x ∈ diff_items example_snaps 0, mapp_ids_ok x.1 := by
  intro x hx
  simp only [diff_items, example_snaps, List.map_cons, List.map_nil, List.flatten_cons,
    List.flatten_nil, List.append_nil, List.singleton_append, List.mem_cons,
    List.mem_singleton, List.not_mem_nil, or_false] at hx
  rcases hx with rfl | rfl <;> (unfold mapp_ids_ok INT_MAX; decide)

theorem diff_accumulation_witness :
    (add_exact fp_exact ∧ (0 : Int) ≤ 3 ∧ (∀ x ∈ diff_items example_snaps 0, mapp_ids_ok x.1) ∧
      ((diff_items example_snaps 0).map (fun y => diff_weight y.1)).sum < 2 ^ 53 ∧
      2 * ((diff_items example_snaps 0).length : Int) ≤ INT_MAX) ∧
    ∃ tab, diff_accumulate fp_exact example_snaps 3 = some tab ∧
      (∀ e ∈ tab, e.cnt = example_snaps.length ∧ e.val.length = example_snaps.length) ∧
      (∀ e ∈ tab, ∀ i : Nat, i < example_snaps.length →
        e.val[i]? = some
          { pri := (fsum (fun m => m.smapsmapp_mem.Private_Dirty) 3 example_snaps.length
                      (diff_items example_snaps 0) (ktup e) i : ℚ)
            sha := (fsum (fun m => m.smapsmapp_mem.Shared_Dirty) 3 example_snaps.length
                      (diff_items example_snaps 0) (ktup e) i : ℚ)
            cln := (fsum (fun m => (m.smapsmapp_mem.Shared_Clean
                        + m.smapsmapp_mem.Private_Clean) % UINT_MOD) 3 example_snaps.length
                      (diff_items example_snaps 0) (ktup e) i : ℚ) }) ∧
      (∀ K, (∃ e ∈ tab, ktup e = K) ↔
        ∃ x ∈ diff_items example_snaps 0, ktup (masked_key 3 example_snaps.length x.1) = K) ∧
      (tab.map ktup).Nodup :=
  ⟨⟨add_exact_fp_exact, by decide, example_snaps_ids, by decide, by decide⟩,
    diff_accumulation fp_exact add_exact_fp_exact example_snaps 3 (by decide)
      example_snaps_ids (by decide) (by decide)⟩

/-- The accumulation loop calls `diff_ins` with the masked key of each mapping. -/
theorem diff_fold_masked (fp : fp_ops) (d n : Int) (hd : 0 ≤ d)
    (items : List (smapsmapp_t × Int)) (st : diffkey_t × List diffkey_t)
    (hkey : unset_ok d n st.1) :
    (items.foldlM (fun st x => diff_accumulate_step fp d x.2 st x.1) st).map (fun s => s.2)
      = items.foldlM
          (fun tab x => diff_ins fp tab (masked_key d n x.1) (diff_value x.1) x.2) st.2 := by
  induction items generalizing st with
  | nil => rfl
  | cons x rest ih =>
    have hsw := diff_switch_masked d n hd st.1 x.1 hkey
    rw [List.foldlM_cons, List.foldlM_cons]
    unfold diff_accumulate_step
    rw [hsw.1]
    cases h : diff_ins fp st.2 (masked_key d n x.1) (diff_value x.1) x.2 with
    | none => rfl
    | some T1 => exact ih (masked_key d n x.1, T1) hsw.2

theorem diff_keys_masked (d n : Int) (hd : 0 ≤ d) (ms : List smapsmapp_t) (k : diffkey_t)
    (hkey : unset_ok d n k) : diff_keys d k ms = ms.map (masked_key d n) := by
  induction ms generalizing k with
  | nil => rfl
  | cons m ms ih =>
    have hsw := diff_switch_masked d n hd k m hkey
    unfold diff_keys
    rw [hsw.1, ih _ hsw.2]
    rfl

/-- C9: for a group depth `d` in `0 .. 4`, the key that the loop of
`smapsfilt_diff` computes for a mapping has its application field set iff
`d >= 1`, its instance field iff `d >= 2`, its type field iff `d >= 3` and its
path field iff `d >= 4`, every other field being `-1` (this is `masked_key`);
the accumulation is the sequence of `diff_ins` calls with these keys; at depth 0
every mapping has the key `(-1, -1, -1, -1)`. -/
theorem group_depth_cascade (fp : fp_ops) (d : Int) (hd0 : 0 ≤ d) (hd4 : d ≤ 4)
    (snaps : List smapssnap_t) :
    diff_keys d { appl := -1, inst := -1, type := -1, path := -1, cnt := (snaps.length : Int) }
        ((diff_items snaps 0).map (fun x => x.1))
      = (diff_items snaps 0).map (fun x =>
          ({ appl := if 1 ≤ d then x.1.smapsmapp_AID else -1
             inst := if 2 ≤ d then x.1.smapsmapp_PID else -1
             type := if 3 ≤ d then x.1.smapsmapp_TID else -1
             path := if 4 ≤ d then x.1.smapsmapp_LID else -1
             cnt := (snaps.length : Int)
             val := [] } : diffkey_t)) ∧
    diff_accumulate fp snaps d
      = (diff_items snaps 0).foldlM
          (fun tab x => diff_ins fp tab (masked_key d snaps.length x.1) (diff_value x.1) x.2)
          [] ∧
    (d = 0 → ∀ m : smapsmapp_t, ktup (masked_key d snaps.length m) = (-1, -1, -1, -1)) := by
  have hk : unset_ok d snaps.length
      { appl := -1, inst := -1, type := -1, path := -1, cnt := (snaps.length : Int) } :=
    ⟨rfl, rfl, fun _ => rfl, fun _ => rfl, fun _ => rfl, fun _ => rfl⟩
  refine ⟨?_, ?_, ?_⟩
  · rw [diff_keys_masked d _ hd0 _ _ hk, List.map_map]
    rfl
  · have := diff_fold_masked fp d snaps.length hd0 (diff_items snaps 0) (_, []) hk
    rw [← this]
    unfold diff_accumulate
    rw [diff_accumulate_snaps_eq]
    cases (diff_items snaps 0).foldlM (fun st x => diff_accumulate_step fp d x.2 st x.1)
        ({ appl := -1, inst := -1, type := -1, path := -1, cnt := (snaps.length : Int) }, []) with
    | none => rfl
    | some st => rfl
  · rintro rfl m
    rfl

theorem group_depth_cascade_witness :
    ((0 : Int) ≤ 3 ∧ (3 : Int) ≤ 4) ∧
    (diff_keys 3
        { appl := -1, inst := -1, type := -1, path := -1, cnt := (example_snaps.length : Int) }
        ((diff_items example_snaps 0).map (fun x => x.1))
      = (diff_items example_snaps 0).map (fun x =>
          ({ appl := if (1 : Int) ≤ 3 then x.1.smapsmapp_AID else -1
             inst := if (2 : Int) ≤ 3 then x.1.smapsmapp_PID else -1
             type := if (3 : Int) ≤ 3 then x.1.smapsmapp_TID else -1
             path := if (4 : Int) ≤ 3 then x.1.smapsmapp_LID else -1
             cnt := (example_snaps.length : Int)
             val := [] } : diffkey_t)) ∧
    diff_accumulate fp_exact example_snaps 3
      = (diff_items example_snaps 0).foldlM
          (fun tab x => diff_ins fp_exact tab (masked_key 3 example_snaps.length x.1)
            (diff_value x.1) x.2)
          [] ∧
    ((3 : Int) = 0 → ∀ m : smapsmapp_t,
      ktup (masked_key 3 example_snaps.length m) = (-1, -1, -1, -1))) :=
  ⟨⟨by decide, by decide⟩,
    group_depth_cascade fp_exact 3 (by decide) (by decide) example_snaps⟩

theorem int_range_0_2 : int_range 0 2 = [0, 1] := by decide

theorem rank_example_sum :
    diffkey_rank_sum fp_exact rank_example = some { pri := 3, sha := 0, cln := 0 } := by
  unfold diffkey_rank_sum
  simp only [rank_example, int_range_0_2, diffkey_val, fp_exact]
  norm_num

theorem rank_example_dev :
    diffkey_rank_dev fp_exact rank_example { pri := 3 / 2, sha := 0, cln := 0 }
      = some { pri := 9 / 2, sha := 0, cln := 0 } := by
  unfold diffkey_rank_dev
  simp only [rank_example, int_range_0_2, diffkey_val, fp_exact, pow2]
  norm_num

/-- C10 (failing input): for the group `rank_example`, whose two slots hold
`pri` 0 and 3, `diffkey_rank` stores the standard deviations `(3/2, 0, 0)` in
`res` but returns 1, not their maximum `3/2`: `fmax3` takes its arguments as
`unsigned`, so the fraction of each deviation is discarded at the call.  Every
value of this computation is representable as a `double`, so the exact
arithmetic `fp_exact` is the arithmetic of the C program here. -/
theorem diffkey_rank_truncated :
    diffkey_rank fp_exact rank_example = some (1, { pri := 3 / 2, sha := 0, cln := 0 }) ∧
    max (max ((3 : ℚ) / 2) 0) 0 = 3 / 2 ∧ (1 : ℚ) ≠ 3 / 2 := by
  refine ⟨?_, by norm_num, by norm_num⟩
  unfold diffkey_rank
  rw [rank_example_sum]
  simp only
  have h1 : fp_exact.div 3 ((rank_example.cnt : Int) : ℚ) = 3 / 2 := by
    simp [fp_exact, rank_example]
  have h0 : fp_exact.div 0 ((rank_example.cnt : Int) : ℚ) = 0 := by
    simp [fp_exact, rank_example]
  rw [h1, h0, rank_example_dev]
  simp only
  have h2 : fp_exact.sqrt (fp_exact.div (9 / 2) ((rank_example.cnt : Int) : ℚ)) = 3 / 2 := by
    have hq : fp_exact.div (9 / 2) ((rank_example.cnt : Int) : ℚ) = 9 / 4 := by
      simp [fp_exact, rank_example]; norm_num
    rw [hq]
    have hn : ((9 : ℚ) / 4).num = 9 := by norm_num
    have hd : ((9 : ℚ) / 4).den = 4 := by norm_num
    simp only [fp_exact, hn, hd]
    have hs : nat_sqrt (Int.toNat 9) = 3 ∧ nat_sqrt 4 = 2 := by decide
    rw [hs.1, hs.2]
    norm_num
  have h3 : fp_exact.sqrt 0 = 0 := by
    have hs : nat_sqrt 0 = 0 ∧ nat_sqrt 1 = 1 := by decide
    simp [fp_exact, hs]
  rw [h2, h0, h3]
  have h4 : double_to_unsigned (3 / 2) = some 1 := by
    unfold double_to_unsigned UINT_MOD
    rw [if_pos (by norm_num)]
    have hf : ⌊(3 : ℚ) / 2⌋ = 1 := by norm_num
    rw [hf]
    rfl
  have h5 : double_to_unsigned 0 = some 0 := by
    unfold double_to_unsigned UINT_MOD
    rw [if_pos (by norm_num)]
    simp
  rw [h4, h5]
  simp [fmax3]

theorem ne_chain_one {α : Type} [DecidableEq α] (a b : α) (x : Int) :
    (if a ≠ b then 0 else x) = 1 ↔ a = b ∧ x = 1 := by
  by_cases h : a = b
  · simp [h]
  · simp [h]

theorem ne_chain_01 {α : Type} [DecidableEq α] (a b : α) (x : Int) (hx : x = 0 ∨ x = 1) :
    (if a ≠ b then 0 else x) = 0 ∨ (if a ≠ b then 0 else x) = 1 := by
  by_cases h : a = b
  · simpa [h] using hx
  · simp [h]

/-- The fields that `smapsproc_are_same` compares. -/
theorem smapsproc_are_same_iff (p q : smapsproc_t) :
    smapsproc_are_same p q = 1 ↔
      (p.smapsproc_pid.Name = q.smapsproc_pid.Name ∧
       p.smapsproc_pid.VmSize = q.smapsproc_pid.VmSize ∧
       p.smapsproc_pid.VmLck = q.smapsproc_pid.VmLck ∧
       p.smapsproc_pid.VmRSS = q.smapsproc_pid.VmRSS ∧
       p.smapsproc_pid.VmData = q.smapsproc_pid.VmData ∧
       p.smapsproc_pid.VmStk = q.smapsproc_pid.VmStk ∧
       p.smapsproc_pid.VmExe = q.smapsproc_pid.VmExe ∧
       p.smapsproc_pid.VmLib = q.smapsproc_pid.VmLib ∧
       p.smapsproc_pid.VmPTE = q.smapsproc_pid.VmPTE) := by
  unfold smapsproc_are_same
  simp only [ne_chain_one, and_true]

theorem smapsproc_are_same_01 (p q : smapsproc_t) :
    smapsproc_are_same p q = 0 ∨ smapsproc_are_same p q = 1 := by
  unfold smapsproc_are_same
  repeat apply ne_chain_01
  exact Or.inr rfl

/-- C19: `smapsproc_are_same p q` returns 1 exactly when the names are the
same string and the eight fields VmSize, VmLck, VmRSS, VmData, VmStk, VmExe,
VmLib, VmPTE are equal, and 0 otherwise; the result does not change when Pid,
PPid, Threads, the mapping lists or any other field of either record is
replaced; the relation is reflexive, symmetric and transitive. -/
theorem smapsproc_are_same_equivalence :
    (∀ p q : smapsproc_t,
      (smapsproc_are_same p q = 1 ↔
        (p.smapsproc_pid.Name = q.smapsproc_pid.Name ∧
         p.smapsproc_pid.VmSize = q.smapsproc_pid.VmSize ∧
         p.smapsproc_pid.VmLck = q.smapsproc_pid.VmLck ∧
         p.smapsproc_pid.VmRSS = q.smapsproc_pid.VmRSS ∧
         p.smapsproc_pid.VmData = q.smapsproc_pid.VmData ∧
         p.smapsproc_pid.VmStk = q.smapsproc_pid.VmStk ∧
         p.smapsproc_pid.VmExe = q.smapsproc_pid.VmExe ∧
         p.smapsproc_pid.VmLib = q.smapsproc_pid.VmLib ∧
         p.smapsproc_pid.VmPTE = q.smapsproc_pid.VmPTE)) ∧
      (smapsproc_are_same p q = 0 ∨ smapsproc_are_same p q = 1)) ∧
    (∀ (p q : smapsproc_t) (pid1 ppid1 thr1 pid2 ppid2 thr2 : Int)
       (maps1 maps2 : List smapsmapp_t) (uid1 aid1 inst1 uid2 aid2 inst2 : Int)
       (par1 par2 : Option Int) (ch1 ch2 : List (Option Int)),
      smapsproc_are_same
        { smapsproc_uid := uid1, smapsproc_AID := aid1, smapsproc_PID := inst1,
          smapsproc_pid := { p.smapsproc_pid with Pid := pid1, PPid := ppid1, Threads := thr1 },
          smapsproc_mapplist := maps1, smapsproc_parent := par1, smapsproc_children := ch1 }
        { smapsproc_uid := uid2, smapsproc_AID := aid2, smapsproc_PID := inst2,
          smapsproc_pid := { q.smapsproc_pid with Pid := pid2, PPid := ppid2, Threads := thr2 },
          smapsproc_mapplist := maps2, smapsproc_parent := par2, smapsproc_children := ch2 }
        = smapsproc_are_same p q) ∧
    (∀ p : smapsproc_t, smapsproc_are_same p p = 1) ∧
    (∀ p q : smapsproc_t, smapsproc_are_same p q = 1 → smapsproc_are_same q p = 1) ∧
    (∀ p q r : smapsproc_t, smapsproc_are_same p q = 1 → smapsproc_are_same q r = 1 →
      smapsproc_are_same p r = 1) := by
  refine ⟨fun p q => ⟨smapsproc_are_same_iff p q, smapsproc_are_same_01 p q⟩, ?_, ?_, ?_, ?_⟩
  · intros
    rfl
  · intro p
    exact (smapsproc_are_same_iff p p).2 ⟨rfl, rfl, rfl, rfl, rfl, rfl, rfl, rfl, rfl⟩
  · intro p q h
    obtain ⟨h1, h2, h3, h4, h5, h6, h7, h8, h9⟩ := (smapsproc_are_same_iff p q).1 h
    exact (smapsproc_are_same_iff q p).2
      ⟨h1.symm, h2.symm, h3.symm, h4.symm, h5.symm, h6.symm, h7.symm, h8.symm, h9.symm⟩
  · intro p q r h k
    obtain ⟨h1, h2, h3, h4, h5, h6, h7, h8, h9⟩ := (smapsproc_are_same_iff p q).1 h
    obtain ⟨k1, k2, k3, k4, k5, k6, k7, k8, k9⟩ := (smapsproc_are_same_iff q r).1 k
    exact (smapsproc_are_same_iff p r).2
      ⟨h1.trans k1, h2.trans k2, h3.trans k3, h4.trans k4, h5.trans k5, h6.trans k6,
       h7.trans k7, h8.trans k8, h9.trans k9⟩

/-- The loop that computes `N[i]`: the columns below the result are those below
`trim_cols` up to which the two rows agree. -/
theorem diff_emit_table_count_spec (cur prev : List (Option String)) (t : Int) (ht : 0 ≤ t) :
    ∀ (fuel k N : Nat), (t + 1 - (k : Int)).toNat ≤ fuel →
      ((k = 0 ∧ N = 0) ∨ (k = N + 1 ∧ (N : Int) ≤ t)) →
      (∀ j, j < k → ∃ s, cur.getD j none = some s ∧ prev.getD j none = some s) →
      ∀ c : Nat, c < diff_emit_table_count cur prev t fuel k N ↔
        ((c : Int) < t ∧ ∀ j, j ≤ c → ∃ s, cur.getD j none = some s ∧ prev.getD j none = some s) := by
  have hexit : ∀ (k N : Nat), ¬ ((k : Int) ≤ t) →
      ((k = 0 ∧ N = 0) ∨ (k = N + 1 ∧ (N : Int) ≤ t)) →
      (∀ j, j < k → ∃ s, cur.getD j none = some s ∧ prev.getD j none = some s) →
      ∀ c : Nat, c < N ↔
        ((c : Int) < t ∧ ∀ j, j ≤ c → ∃ s, cur.getD j none = some s ∧ prev.getD j none = some s) := by
    intro k N hk hinv hprev c
    have hN : (N : Int) = t ∧ k = N + 1 := by omega
    constructor
    · intro hc
      exact ⟨by omega, fun j hj => hprev j (by omega)⟩
    · rintro ⟨hc, -⟩
      omega
  intro fuel
  induction fuel with
  | zero =>
    intro k N hf hinv hprev c
    unfold diff_emit_table_count
    exact hexit k N (by omega) hinv hprev c
  | succ fuel ih =>
    intro k N hf hinv hprev c
    unfold diff_emit_table_count
    by_cases hk : (k : Int) ≤ t
    · rw [if_pos hk]
      have hbreak : (¬ ∃ s, cur.getD k none = some s ∧ prev.getD k none = some s) →
          (c < k ↔ ((c : Int) < t ∧
            ∀ j, j ≤ c → ∃ s, cur.getD j none = some s ∧ prev.getD j none = some s)) := by
        intro hB
        constructor
        · intro hc
          exact ⟨by omega, fun j hj => hprev j (by omega)⟩
        · rintro ⟨-, hall⟩
          by_contra hck
          exact hB (hall k (by omega))
      cases hc1 : cur.getD k none with
      | none =>
        simp only
        exact hbreak (by rintro ⟨s, h1, -⟩; rw [hc1] at h1; cases h1)
      | some a =>
        cases hp1 : prev.getD k none with
        | none =>
          simp only
          exact hbreak (by rintro ⟨s, -, h2⟩; rw [hp1] at h2; cases h2)
        | some b =>
          simp only
          by_cases hab : a = b
          · rw [if_neg (not_not.2 hab)]
            refine ih (k + 1) k (by omega) (Or.inr ⟨rfl, hk⟩) ?_ c
            intro j hj
            by_cases hjk : j = k
            · subst hjk
              exact ⟨a, hc1, by rw [hp1, hab]⟩
            · exact hprev j (by omega)
          · rw [if_pos hab]
            refine hbreak ?_
            rintro ⟨s, h1, h2⟩
            rw [hc1] at h1
            rw [hp1] at h2
            cases h1
            cases h2
            exact hab rfl
    · rw [if_neg hk]
      exact hexit k N hk hinv hprev c

/-- The blanking loop on one row. -/
theorem diff_emit_table_blank_spec (html : Bool) (N : Nat) (row : List (Option String)) :
    (diff_emit_table_blank html row N).length = row.length ∧
    ∀ c, (diff_emit_table_blank html row N)[c]? =
      if c < N ∧ c < row.length then some (blank_entry html) else row[c]? := by
  induction N with
  | zero =>
    unfold diff_emit_table_blank
    simp
  | succ N ih =>
    have hstep : diff_emit_table_blank html row (N + 1) =
        (diff_emit_table_blank html row N).set N (blank_entry html) := by
      unfold diff_emit_table_blank blank_entry
      rw [List.range_succ, List.foldl_append]
      rfl
    rw [hstep]
    refine ⟨by simp [ih.1], fun c => ?_⟩
    rw [List.getElem?_set, ih.1]
    by_cases hc : N = c
    · subst hc
      by_cases hl : N < row.length
      · simp [hl]
      · rw [if_pos rfl, if_neg hl, if_neg (by simp [hl])]
        simp only [not_lt] at hl
        exact (List.getElem?_eq_none hl).symm
    · rw [if_neg hc, ih.2 c]
      by_cases h1 : c < N ∧ c < row.length
      · rw [if_pos h1, if_pos ⟨by omega, h1.2⟩]
      · rw [if_neg h1, if_neg (by omega)]

theorem out_entry_getD (rows : List (List (Option String))) (i c : Nat) :
    out_entry rows i c = if i < rows.length ∧ c < (rows.getD i []).length
      then some ((rows.getD i []).getD c none) else none := by
  unfold out_entry
  by_cases hi : i < rows.length
  · rw [List.getElem?_eq_getElem hi]
    have hg : rows.getD i [] = rows[i] := by
      simp [List.getD_eq_getElem?_getD, List.getElem?_eq_getElem hi]
    rw [hg]
    simp only
    by_cases hc : c < rows[i].length
    · rw [if_pos ⟨hi, hc⟩, List.getElem?_eq_getElem hc]
      simp [List.getD_eq_getElem?_getD, List.getElem?_eq_getElem hc]
    · rw [if_neg (by tauto)]
      exact List.getElem?_eq_none (by omega)
  · rw [if_neg (by tauto), List.getElem?_eq_none (by omega)]

theorem diff_emit_table_row (rows : List (List (Option String))) (html : Bool) (t : Int)
    (ht : 0 < t) (i : Nat) (hi : i < rows.length) :
    (diff_emit_table rows html t)[i]? = some (
      if 1 ≤ i then
        diff_emit_table_blank html (rows.getD i [])
          (diff_emit_table_count (rows.getD i []) (rows.getD (i - 1) []) t (t + 1).toNat 0 0)
      else rows.getD i []) := by
  unfold diff_emit_table
  rw [if_pos ht, List.getElem?_map, List.getElem?_range hi]
  simp only [Option.map_some']
  have hN : ((List.range rows.length).map (fun i =>
      if 1 ≤ i then
        diff_emit_table_count (rows.getD i []) (rows.getD (i - 1) []) t (t + 1).toNat 0 0
      else 0)).getD i 0 =
      if 1 ≤ i then
        diff_emit_table_count (rows.getD i []) (rows.getD (i - 1) []) t (t + 1).toNat 0 0
      else 0 := by
    rw [List.getD_eq_getElem?_getD, List.getElem?_map, List.getElem?_range hi]
    rfl
  rw [hN]
  by_cases h1 : 1 ≤ i
  · simp only [if_pos h1]
  · simp only [if_neg h1]

theorem diff_emit_table_length (rows : List (List (Option String))) (html : Bool) (t : Int) :
    (diff_emit_table rows html t).length = rows.length := by
  unfold diff_emit_table
  split_ifs <;> simp

theorem getD_some_iff (rows : List (List (Option String))) (i k : Nat) (hi : i < rows.length)
    (s : String) :
    (rows.getD i []).getD k none = some s ↔ out_entry rows i k = some (some s) := by
  rw [out_entry_getD]
  constructor
  · intro h
    have hk : k < (rows.getD i []).length := by
      by_contra hk
      rw [List.getD_eq_getElem?_getD, List.getElem?_eq_none (by omega)] at h
      cases h
    rw [if_pos ⟨hi, hk⟩, h]
  · intro h
    split_ifs at h
    exact Option.some.inj h

/-- Entry `c` of row `i ≥ 1` after trimming with `trim_cols = t > 0`. -/
theorem diff_emit_table_entry (rows : List (List (Option String))) (html : Bool) (t : Int)
    (ht : 0 < t) (i c : Nat) (hi : i < rows.length) (h1 : 1 ≤ i)
    (hc : c < (rows.getD i []).length) :
    (((c : Int) < t ∧ same_upto rows i c) →
      out_entry (diff_emit_table rows html t) i c = some (blank_entry html)) ∧
    (¬ ((c : Int) < t ∧ same_upto rows i c) →
      out_entry (diff_emit_table rows html t) i c = out_entry rows i c) := by
  have hcount := diff_emit_table_count_spec (rows.getD i []) (rows.getD (i - 1) []) t
    (le_of_lt ht) (t + 1).toNat 0 0 (by omega) (Or.inl ⟨rfl, rfl⟩)
    (fun j hj => absurd hj (by omega)) c
  have hsame : same_upto rows i c ↔ ∀ j, j ≤ c →
      ∃ s, (rows.getD i []).getD j none = some s ∧ (rows.getD (i - 1) []).getD j none = some s := by
    unfold same_upto
    constructor
    · intro h j hj
      obtain ⟨s, h2, h3⟩ := h j hj
      exact ⟨s, (getD_some_iff rows i j hi s).2 h2, (getD_some_iff rows (i - 1) j (by omega) s).2 h3⟩
    · intro h j hj
      obtain ⟨s, h2, h3⟩ := h j hj
      exact ⟨s, (getD_some_iff rows i j hi s).1 h2, (getD_some_iff rows (i - 1) j (by omega) s).1 h3⟩
  have hrow := diff_emit_table_row rows html t ht i hi
  rw [if_pos h1] at hrow
  have hent : out_entry (diff_emit_table rows html t) i c =
      if c < diff_emit_table_count (rows.getD i []) (rows.getD (i - 1) []) t (t + 1).toNat 0 0
          ∧ c < (rows.getD i []).length
        then some (blank_entry html) else (rows.getD i [])[c]? := by
    unfold out_entry
    rw [hrow]
    exact (diff_emit_table_blank_spec html _ (rows.getD i [])).2 c
  have horig : out_entry rows i c = (rows.getD i [])[c]? := by
    unfold out_entry
    rw [List.getElem?_eq_getElem hi]
    simp [List.getD_eq_getElem?_getD, List.getElem?_eq_getElem hi]
  constructor
  · rintro ⟨hct, hs⟩
    rw [hent, if_pos ⟨hcount.2 ⟨hct, hsame.1 hs⟩, hc⟩]
  · intro hn
    rw [hent, horig, if_neg]
    rintro ⟨h2, -⟩
    obtain ⟨h3, h4⟩ := hcount.1 h2
    exact hn ⟨h3, hsame.2 h4⟩

theorem out_entry_ge (rows : List (List (Option String))) (i c : Nat)
    (hi : rows.length ≤ i) : out_entry rows i c = none := by
  unfold out_entry
  rw [List.getElem?_eq_none hi]

theorem diff_emit_table_first (rows : List (List (Option String))) (html : Bool) (t : Int) :
    (diff_emit_table rows html t)[0]? = rows[0]? := by
  by_cases ht : 0 < t
  · by_cases hl : 0 < rows.length
    · rw [diff_emit_table_row rows html t ht 0 hl, if_neg (by omega)]
      simp [List.getD_eq_getElem?_getD, List.getElem?_eq_getElem hl]
    · rw [List.getElem?_eq_none (by rw [diff_emit_table_length]; omega),
        List.getElem?_eq_none (by omega)]
  · unfold diff_emit_table
    rw [if_neg (by omega)]

/-- Columns from index 4 on are never changed. -/
theorem diff_emit_table_data (rows : List (List (Option String))) (html : Bool) (t : Int)
    (ht4 : t ≤ 4) (i c : Nat) (hc : 4 ≤ c) :
    out_entry (diff_emit_table rows html t) i c = out_entry rows i c := by
  by_cases ht : 0 < t
  · by_cases hi : i < rows.length
    · by_cases h1 : 1 ≤ i
      · by_cases hcl : c < (rows.getD i []).length
        · exact (diff_emit_table_entry rows html t ht i c hi h1 hcl).2 (by omega)
        · have hrow := diff_emit_table_row rows html t ht i hi
          rw [if_pos h1] at hrow
          have horig : out_entry rows i c = (rows.getD i [])[c]? := by
            unfold out_entry
            rw [List.getElem?_eq_getElem hi]
            simp [List.getD_eq_getElem?_getD, List.getElem?_eq_getElem hi]
          rw [horig]
          unfold out_entry
          rw [hrow]
          simp only
          rw [(diff_emit_table_blank_spec html _ (rows.getD i [])).2 c, if_neg (by omega)]
      · have h0 : i = 0 := by omega
        subst h0
        unfold out_entry
        rw [diff_emit_table_first]
    · rw [out_entry_ge _ _ _ (by rw [diff_emit_table_length]; omega),
        out_entry_ge _ _ _ (by omega)]
  · unfold diff_emit_table
    rw [if_neg (by omega)]

/-- C15: trimming is presentational.  For every table of rows (each with the
five leading columns), either report format and every trim depth `t`: the
trimmed table has the same number of rows; its first row is the first row of
the input; no column at index 4 or above is changed in any row; for a row
`i ≥ 1` and a key column `c < 4` the entry is blanked when `c < t` and the
columns `0 .. c` are all present and string-equal in the untrimmed rows `i`
and `i - 1`, and is left as it was otherwise; a depth above 4 gives the
result of depth 4. -/
theorem diff_trim_presentational (rows : List (List (Option String))) (html : Bool) (t : Int)
    (hrows : ∀ r ∈ rows, 5 ≤ r.length) :
    (diff_trim rows html t).length = rows.length ∧
    (diff_trim rows html t)[0]? = rows[0]? ∧
    (∀ i c : Nat, 4 ≤ c → out_entry (diff_trim rows html t) i c = out_entry rows i c) ∧
    (∀ i c : Nat, 1 ≤ i → i < rows.length → c < 4 →
      (((c : Int) < t ∧ same_upto rows i c) →
        out_entry (diff_trim rows html t) i c = some (blank_entry html)) ∧
      (¬ ((c : Int) < t ∧ same_upto rows i c) →
        out_entry (diff_trim rows html t) i c = out_entry rows i c)) ∧
    (4 < t → diff_trim rows html t = diff_trim rows html 4) := by
  refine ⟨diff_emit_table_length _ _ _, diff_emit_table_first _ _ _, ?_, ?_, ?_⟩
  · intro i c hc
    unfold diff_trim
    exact diff_emit_table_data rows html _ (by split_ifs <;> omega) i c hc
  · intro i c h1 hi hc
    have hlen : c < (rows.getD i []).length := by
      have hg : rows.getD i [] = rows[i] := by
        simp [List.getD_eq_getElem?_getD, List.getElem?_eq_getElem hi]
      have := hrows rows[i] (List.getElem_mem hi)
      rw [hg]
      omega
    unfold diff_trim
    by_cases ht : 0 < t
    · have h := diff_emit_table_entry rows html (if t > 4 then 4 else t)
        (by split_ifs <;> omega) i c hi h1 hlen
      have hiff : ((c : Int) < (if t > 4 then 4 else t)) ↔ (c : Int) < t := by
        split_ifs <;> omega
      rw [hiff] at h
      exact h
    · have h4 : ¬ t > 4 := by omega
      rw [if_neg h4]
      unfold diff_emit_table
      rw [if_neg (by omega)]
      refine ⟨fun h => absurd h.1 (by omega), fun _ => rfl⟩
  · intro h4
    unfold diff_trim
    rw [if_pos h4, if_neg (by decide)]

/-- C15 (witness): two rows that agree in the first two key columns, trimmed
at depth 2 for the csv report. -/
theorem diff_trim_presentational_witness :
    (∀ r ∈ [[some "foo", some "0", some "code", none, some "pri", some "1", some "4.0"],
            [some "foo", some "0", some "data", none, some "pri", some "2", some "5.0"]],
        5 ≤ r.length) ∧
    ((diff_trim [[some "foo", some "0", some "code", none, some "pri", some "1", some "4.0"],
            [some "foo", some "0", some "data", none, some "pri", some "2", some "5.0"]]
        false 2).length = 2 ∧
     (diff_trim [[some "foo", some "0", some "code", none, some "pri", some "1", some "4.0"],
            [some "foo", some "0", some "data", none, some "pri", some "2", some "5.0"]]
        false 2)[0]? =
       [[some "foo", some "0", some "code", none, some "pri", some "1", some "4.0"],
        [some "foo", some "0", some "data", none, some "pri", some "2", some "5.0"]][0]?) := by
  have hr : ∀ r ∈ [[some "foo", some "0", some "code", none, some "pri", some "1", some "4.0"],
            [some "foo", some "0", some "data", none, some "pri", some "2", some "5.0"]],
        5 ≤ r.length := by decide
  have h := diff_trim_presentational _ false 2 hr
  exact ⟨hr, h.1, h.2.1⟩

theorem foldlM_option_congr {σ α : Type} (f g : σ → α → Option σ) (l : List α)
    (h : ∀ x ∈ l, ∀ s, f s x = g s x) (s : σ) : l.foldlM f s = l.foldlM g s := by
  induction l generalizing s with
  | nil => rfl
  | cons a l ih =>
    rw [List.foldlM_cons, List.foldlM_cons, h a (List.mem_cons_self _ _) s]
    cases g s a with
    | none => rfl
    | some s1 => exact ih (fun x hx => h x (List.mem_cons_of_mem _ hx)) s1

theorem foldlM_range_get {α β : Type} (g : β → α → β) (xs : List α) (init : β) :
    (List.range xs.length).foldlM
      (fun acc i => match xs[i]? with
        | none => none
        | some v => some (g acc v)) init = some (xs.foldl g init) := by
  induction xs using List.reverseRecOn with
  | nil => rfl
  | append_singleton xs x ih =>
    rw [List.length_append, List.length_singleton, List.range_succ, List.foldlM_append,
      List.foldl_append]
    have h1 : (List.range xs.length).foldlM
        (fun acc i => match (xs ++ [x])[i]? with
          | none => none
          | some v => some (g acc v)) init = some (xs.foldl g init) := by
      rw [← ih]
      apply foldlM_option_congr
      intro i hi acc
      rw [List.getElem?_append_left (List.mem_range.1 hi)]
    rw [h1]
    simp

theorem diffkey_val_get (k : diffkey_t) (hl : k.val.length = k.cnt.toNat)
    (i : Nat) : diffkey_val k (0 + (i : Int)) = k.val[i]? := by
  unfold diffkey_val
  by_cases h : (i : Int) < k.cnt
  · rw [if_pos ⟨by omega, by omega⟩]
    simp
  · rw [if_neg (by omega), List.getElem?_eq_none (by omega)]

theorem int_range_zero (n : Int) :
    int_range 0 n = (List.range n.toNat).map (fun (i : Nat) => (0 : Int) + (i : Int)) := by
  unfold int_range
  simp

/-- A loop over the slots of a group is a fold over the list of slots. -/
theorem foldlM_slots {β : Type} (k : diffkey_t)
    (hl : k.val.length = k.cnt.toNat) (g : β → diffval_t → β) (init : β) :
    (int_range 0 k.cnt).foldlM
      (fun acc i => match diffkey_val k i with
        | none => none
        | some v => some (g acc v)) init = some (k.val.foldl g init) := by
  rw [int_range_zero, List.foldlM_map, ← hl, ← foldlM_range_get g k.val init]
  apply foldlM_option_congr
  intro i _ acc
  rw [diffkey_val_get k hl i]
  cases k.val[i]? <;> rfl

theorem foldl_diffval (g1 g2 g3 : ℚ → diffval_t → ℚ) (xs : List diffval_t) (a : diffval_t) :
    xs.foldl (fun acc v => ({ pri := g1 acc.pri v, sha := g2 acc.sha v, cln := g3 acc.cln v }
      : diffval_t)) a =
      { pri := xs.foldl g1 a.pri, sha := xs.foldl g2 a.sha, cln := xs.foldl g3 a.cln } := by
  induction xs generalizing a with
  | nil => rfl
  | cons x xs ih => simp only [List.foldl_cons, ih]

theorem diffkey_rank_sum_eq (fp : fp_ops) (k : diffkey_t)
    (hl : k.val.length = k.cnt.toNat) :
    diffkey_rank_sum fp k = some
      { pri := (k.val.map (fun v => v.pri)).foldl fp.add 0,
        sha := (k.val.map (fun v => v.sha)).foldl fp.add 0,
        cln := (k.val.map (fun v => v.cln)).foldl fp.add 0 } := by
  unfold diffkey_rank_sum
  rw [foldlM_slots k hl (fun acc val =>
    ({ pri := fp.add acc.pri val.pri, sha := fp.add acc.sha val.sha,
       cln := fp.add acc.cln val.cln } : diffval_t))]
  rw [foldl_diffval (fun a v => fp.add a v.pri) (fun a v => fp.add a v.sha)
    (fun a v => fp.add a v.cln)]
  simp only [List.foldl_map]

theorem diffkey_rank_dev_eq (fp : fp_ops) (k : diffkey_t)
    (hl : k.val.length = k.cnt.toNat) (mean : diffval_t) :
    diffkey_rank_dev fp k mean = some
      { pri := (k.val.map (fun v => v.pri)).foldl
                (fun acc x => fp.add acc (pow2 fp (fp.sub x mean.pri))) 0,
        sha := (k.val.map (fun v => v.sha)).foldl
                (fun acc x => fp.add acc (pow2 fp (fp.sub x mean.sha))) 0,
        cln := (k.val.map (fun v => v.cln)).foldl
                (fun acc x => fp.add acc (pow2 fp (fp.sub x mean.cln))) 0 } := by
  unfold diffkey_rank_dev
  rw [foldlM_slots k hl (fun res val =>
    ({ pri := fp.add res.pri (pow2 fp (fp.sub val.pri mean.pri)),
       sha := fp.add res.sha (pow2 fp (fp.sub val.sha mean.sha)),
       cln := fp.add res.cln (pow2 fp (fp.sub val.cln mean.cln)) } : diffval_t))]
  rw [foldl_diffval (fun a v => fp.add a (pow2 fp (fp.sub v.pri mean.pri)))
    (fun a v => fp.add a (pow2 fp (fp.sub v.sha mean.sha)))
    (fun a v => fp.add a (pow2 fp (fp.sub v.cln mean.cln)))]
  simp only [List.foldl_map]

/-- The three deviations that `diffkey_rank` stores are the population
standard deviations of the three measures over the slots. -/
theorem diffkey_rank_eq (fp : fp_ops) (k : diffkey_t) (hc : 0 ≤ k.cnt)
    (hl : k.val.length = k.cnt.toNat) :
    diffkey_rank fp k =
      match double_to_unsigned (pop_stddev fp (k.val.map (fun v => v.pri))),
            double_to_unsigned (pop_stddev fp (k.val.map (fun v => v.sha))),
            double_to_unsigned (pop_stddev fp (k.val.map (fun v => v.cln))) with
      | some a, some b, some c =>
        some (fmax3 a b c,
              { pri := pop_stddev fp (k.val.map (fun v => v.pri))
                sha := pop_stddev fp (k.val.map (fun v => v.sha))
                cln := pop_stddev fp (k.val.map (fun v => v.cln)) })
      | _, _, _ => none := by
  have hn : (k.cnt : ℚ) = ((k.val.length : Nat) : ℚ) := by
    rw [hl]
    have : ((k.cnt.toNat : Nat) : Int) = k.cnt := Int.toNat_of_nonneg hc
    exact_mod_cast this.symm
  unfold diffkey_rank
  rw [diffkey_rank_sum_eq fp k hl]
  simp only
  rw [diffkey_rank_dev_eq fp k hl]
  simp only [pop_stddev, List.length_map, hn]

theorem mapM_option_congr {α β : Type} (f g : α → Option β) (l : List α)
    (h : ∀ x ∈ l, f x = g x) : l.mapM f = l.mapM g := by
  induction l with
  | nil => rfl
  | cons a l ih =>
    rw [List.mapM_cons, List.mapM_cons, h a (List.mem_cons_self _ _),
      ih (fun x hx => h x (List.mem_cons_of_mem _ hx))]

theorem mapM_option_map {α β γ : Type} (f : β → Option γ) (g : α → β) (l : List α) :
    (l.map g).mapM f = l.mapM (fun a => f (g a)) := by
  induction l with
  | nil => rfl
  | cons a l ih => rw [List.map_cons, List.mapM_cons, List.mapM_cons, ih]

theorem mapM_range_get {α β : Type} (f : α → β) (xs : List α) :
    (List.range xs.length).mapM (fun i => (xs[i]?).map f) = some (xs.map f) := by
  induction xs using List.reverseRecOn with
  | nil => rfl
  | append_singleton xs x ih =>
    rw [List.length_append, List.length_singleton, List.range_succ, List.mapM_append]
    have h1 : (List.range xs.length).mapM (fun i => ((xs ++ [x])[i]?).map f)
        = some (xs.map f) := by
      rw [← ih]
      apply mapM_option_congr
      intro i hi
      rw [List.getElem?_append_left (List.mem_range.1 hi)]
    rw [h1, List.mapM_cons, List.mapM_nil]
    simp

theorem diff_measure_eq (k : diffkey_t) (hl : k.val.length = k.cnt.toNat) (f : diffval_t → ℚ) :
    diff_measure k f = some (k.val.map f) := by
  unfold diff_measure
  rw [int_range_zero, mapM_option_map, ← hl, ← mapM_range_get f k.val]
  apply mapM_option_congr
  intro i _
  rw [diffkey_val_get k hl i]

theorem diff_emit_entry_eq (fmt : fmt_ops) (fp : fp_ops) (str : diff_str_t) (k : diffkey_t)
    (hk : emit_ok fp str k) (name : String) (rank : ℚ) (f : diffval_t → ℚ) :
    diff_emit_entry fmt str k name rank (k.val.map f)
      = some (report_row fmt str k name (k.val.map f) rank) := by
  obtain ⟨-, hl, h1, h2, h3, -⟩ := hk
  unfold diff_emit_entry report_row
  rw [if_pos ⟨h1, h2, h3, by simp [hl]⟩]
  have ht : (k.val.map f).take k.cnt.toNat = k.val.map f := by
    apply List.take_of_length_le
    simp [hl]
  rw [ht]

theorem diff_emit_measure_eq (fmt : fmt_ops) (fp : fp_ops) (str : diff_str_t) (k : diffkey_t)
    (hk : emit_ok fp str k) (name : String) (dev : ℚ) (f : diffval_t → ℚ)
    (out : List (List (Option String))) :
    diff_emit_measure fmt str 4 k name dev f out
      = some (out ++ if dev ≥ 4 then [report_row fmt str k name (k.val.map f) dev] else []) := by
  unfold diff_emit_measure
  by_cases hd : dev ≥ 4
  · rw [if_pos hd, if_pos hd, diff_measure_eq k hk.2.1 f]
    simp only
    rw [diff_emit_entry_eq fmt fp str k hk]
  · rw [if_neg hd, if_neg hd, List.append_nil]

theorem double_to_unsigned_ge (q : ℚ) (h : -1 < q ∧ q < (UINT_MOD : ℚ)) :
    ∃ a, double_to_unsigned q = some a ∧ ((a : ℚ) ≥ 4 ↔ q ≥ 4) := by
  unfold double_to_unsigned
  rw [if_pos h]
  refine ⟨_, rfl, ?_⟩
  constructor
  · intro ha
    have h4 : (4 : Int) ≤ ((Int.toNat ⌊q⌋ : Nat) : Int) := by exact_mod_cast ha
    have h5 : (4 : Int) ≤ ⌊q⌋ := by omega
    have := Int.le_floor.1 h5
    exact_mod_cast this
  · intro hq
    have h5 : (4 : Int) ≤ ⌊q⌋ := Int.le_floor.2 (by exact_mod_cast hq)
    have h4 : (4 : Int) ≤ ((Int.toNat ⌊q⌋ : Nat) : Int) := by omega
    exact_mod_cast h4

theorem group_rows_eq (fp : fp_ops) (fmt : fmt_ops) (str : diff_str_t) (k : diffkey_t) :
    group_rows fp fmt str k =
      (if pop_stddev fp (k.val.map (fun v => v.pri)) ≥ 4 then
        [report_row fmt str k "pri" (k.val.map (fun v => v.pri))
          (pop_stddev fp (k.val.map (fun v => v.pri)))] else []) ++
      ((if pop_stddev fp (k.val.map (fun v => v.sha)) ≥ 4 then
        [report_row fmt str k "sha" (k.val.map (fun v => v.sha))
          (pop_stddev fp (k.val.map (fun v => v.sha)))] else []) ++
       (if pop_stddev fp (k.val.map (fun v => v.cln)) ≥ 4 then
        [report_row fmt str k "cln" (k.val.map (fun v => v.cln))
          (pop_stddev fp (k.val.map (fun v => v.cln)))] else [])) := by
  unfold group_rows measures
  simp only [List.filter_cons, List.filter_nil]
  by_cases h1 : pop_stddev fp (k.val.map (fun v => v.pri)) ≥ 4 <;>
  by_cases h2 : pop_stddev fp (k.val.map (fun v => v.sha)) ≥ 4 <;>
  by_cases h3 : pop_stddev fp (k.val.map (fun v => v.cln)) ≥ 4 <;>
  simp [h1, h2, h3]

/-- The rows of one group: the test of the rank lets through every group one
of whose measures reaches 4. -/
theorem diff_emit_group_eq (fp : fp_ops) (fmt : fmt_ops) (str : diff_str_t) (k : diffkey_t)
    (hk : emit_ok fp str k) (out : List (List (Option String))) :
    diff_emit_group fp fmt str 4 out k = some (out ++ group_rows fp fmt str k) ∧
    ∃ r v, diffkey_rank fp k = some (r, v) ∧ (r ≥ 4 ↔ group_rank fp k ≥ 4) := by
  have hc : 0 ≤ k.cnt := le_of_lt hk.1
  have hl := hk.2.1
  have hm := hk.2.2.2.2.2
  obtain ⟨a, ha, ha4⟩ := double_to_unsigned_ge _ (hm ("pri", k.val.map (fun v => v.pri))
    (by simp [measures]))
  obtain ⟨b, hb, hb4⟩ := double_to_unsigned_ge _ (hm ("sha", k.val.map (fun v => v.sha))
    (by simp [measures]))
  obtain ⟨c, hcc, hc4⟩ := double_to_unsigned_ge _ (hm ("cln", k.val.map (fun v => v.cln))
    (by simp [measures]))
  simp only at ha hb hcc ha4 hb4 hc4
  have hrank := diffkey_rank_eq fp k hc hl
  rw [ha, hb, hcc] at hrank
  simp only at hrank
  have hgate : fmax3 a b c ≥ 4 ↔ group_rank fp k ≥ 4 := by
    unfold fmax3 group_rank
    simp only [ge_iff_le, le_max_iff]
    rw [← ge_iff_le, ← ge_iff_le, ← ge_iff_le, ha4, hb4, hc4]
  refine ⟨?_, _, _, hrank, hgate⟩
  unfold diff_emit_group
  rw [hrank]
  simp only
  rw [group_rows_eq]
  by_cases hg : fmax3 a b c ≥ 4
  · rw [if_pos hg, diff_emit_measure_eq fmt fp str k hk]
    simp only
    rw [diff_emit_measure_eq fmt fp str k hk]
    simp only
    rw [diff_emit_measure_eq fmt fp str k hk, List.append_assoc, List.append_assoc]
  · rw [if_neg hg]
    have hn : ¬ group_rank fp k ≥ 4 := fun h => hg (hgate.2 h)
    unfold group_rank at hn
    simp only [ge_iff_le, le_max_iff, not_or] at hn
    rw [if_neg (by simpa using hn.1.1), if_neg (by simpa using hn.1.2),
      if_neg (by simpa using hn.2)]
    simp

theorem foldlM_append_rows {α β : Type} (step : List β → α → Option (List β)) (g : α → List β)
    (l : List α) (h : ∀ k ∈ l, ∀ out, step out k = some (out ++ g k)) (init : List β) :
    l.foldlM step init = some (init ++ l.flatMap g) := by
  induction l generalizing init with
  | nil => simp
  | cons a l ih =>
    rw [List.foldlM_cons, h a (List.mem_cons_self _ _)]
    simp only [Option.bind_eq_bind, Option.some_bind]
    rw [ih (fun k hk => h k (List.mem_cons_of_mem _ hk)), List.flatMap_cons, List.append_assoc]

/-- C11: diff emission.  For a table `diff_tab` of groups (every group with its
slots allocated, key fields inside the reverse lookup arrays and standard
deviations that convert to `unsigned`), the rows that `smapsfilt_diff` emits
are the concatenation, over the groups in table order, of the rows of the
measures pri, sha, cln (in that order) whose own population standard deviation
is at least 4, for the groups whose rank is at least 4; the rank that
`diffkey_rank` returns passes the test exactly when the largest of the three
deviations does, so the test removes no row.  A group contributes at most
three rows, and none when no measure reaches 4; a row carries the key
columns, the name of the measure, the value of every slot and the deviation
of that measure. -/
theorem diff_emit_rows (fp : fp_ops) (fmt : fmt_ops) (str : diff_str_t)
    (diff_tab : List diffkey_t) (hok : ∀ k ∈ diff_tab, emit_ok fp str k) :
    diff_emit fp fmt str diff_tab = some (diff_tab.flatMap (fun k =>
      if group_rank fp k ≥ 4 then group_rows fp fmt str k else [])) ∧
    diff_emit fp fmt str diff_tab = some (diff_tab.flatMap (group_rows fp fmt str)) ∧
    (∀ k ∈ diff_tab, ∃ r v, diffkey_rank fp k = some (r, v) ∧
      (r ≥ 4 ↔ group_rank fp k ≥ 4) ∧
      v = { pri := pop_stddev fp (k.val.map (fun v => v.pri))
            sha := pop_stddev fp (k.val.map (fun v => v.sha))
            cln := pop_stddev fp (k.val.map (fun v => v.cln)) }) ∧
    (∀ k : diffkey_t, (group_rows fp fmt str k).length ≤ 3 ∧
      ((∀ m ∈ measures k, pop_stddev fp m.2 < 4) → group_rows fp fmt str k = []) ∧
      (∀ row ∈ group_rows fp fmt str k, ∃ m ∈ measures k, 4 ≤ pop_stddev fp m.2 ∧
        row = report_row fmt str k m.1 m.2 (pop_stddev fp m.2))) := by
  have h2 : diff_emit fp fmt str diff_tab = some (diff_tab.flatMap (group_rows fp fmt str)) := by
    unfold diff_emit
    rw [foldlM_append_rows (diff_emit_group fp fmt str 4) (group_rows fp fmt str) diff_tab
      (fun k hk out => (diff_emit_group_eq fp fmt str k (hok k hk) out).1), List.nil_append]
  have hgate : ∀ k : diffkey_t,
      (if group_rank fp k ≥ 4 then group_rows fp fmt str k else []) = group_rows fp fmt str k := by
    intro k
    by_cases hg : group_rank fp k ≥ 4
    · rw [if_pos hg]
    · rw [if_neg hg, group_rows_eq]
      unfold group_rank at hg
      simp only [ge_iff_le, le_max_iff, not_or] at hg
      rw [if_neg (by simpa using hg.1.1), if_neg (by simpa using hg.1.2),
        if_neg (by simpa using hg.2)]
      rfl
  refine ⟨?_, h2, ?_, ?_⟩
  · rw [h2]
    congr 2
    funext k
    exact (hgate k).symm
  · intro k hk
    obtain ⟨r, v, h3, h4⟩ := (diff_emit_group_eq fp fmt str k (hok k hk) []).2
    refine ⟨r, v, h3, h4, ?_⟩
    have h5 := diffkey_rank_eq fp k (le_of_lt (hok k hk).1) (hok k hk).2.1
    rw [h3] at h5
    split at h5
    · exact (Prod.mk.inj (Option.some.inj h5)).2
    · cases h5
  · intro k
    refine ⟨?_, ?_, ?_⟩
    · unfold group_rows
      rw [List.length_map]
      exact le_trans (List.length_filter_le _ _) (by simp [measures])
    · intro h
      unfold group_rows
      rw [List.filter_eq_nil_iff.2]
      · rfl
      · intro m hm
        have := h m hm
        simp only [ge_iff_le, decide_eq_true_eq, not_le]
        exact this
    · intro row hrow
      unfold group_rows at hrow
      obtain ⟨m, hm, rfl⟩ := List.mem_map.1 hrow
      obtain ⟨hm1, hm2⟩ := List.mem_filter.1 hm
      exact ⟨m, hm1, by simpa using hm2, rfl⟩

theorem tab_ext_refl (T : symtab_t) : tab_ext T T := ⟨[], by simp⟩

theorem tab_ext_trans (T1 T2 T3 : symtab_t) (h1 : tab_ext T1 T2) (h2 : tab_ext T2 T3) :
    tab_ext T1 T3 := by
  obtain ⟨e1, h1⟩ := h1
  obtain ⟨e2, h2⟩ := h2
  exact ⟨e1 ++ e2, by rw [h2, h1, List.append_assoc]⟩

/-- The id that `symtab_enumerate` returns is the id of the key in every table
that extends the result. -/
theorem symtab_enumerate_ext (T : symtab_t) (key : String) :
    tab_ext T (symtab_enumerate T key).1 ∧
    key ∈ (symtab_enumerate T key).1.symtab_entry ∧
    ∀ T2, tab_ext (symtab_enumerate T key).1 T2 → (symtab_enumerate T key).2 = tab_id T2 key := by
  unfold symtab_enumerate
  by_cases h : key ∈ T.symtab_entry
  · rw [if_pos h]
    refine ⟨tab_ext_refl T, h, ?_⟩
    rintro T2 ⟨ext, he⟩
    unfold tab_id
    simp only
    rw [he, List.indexOf_append_of_mem h]
  · rw [if_neg h]
    refine ⟨⟨[key], rfl⟩, by simp, ?_⟩
    rintro T2 ⟨ext, he⟩
    unfold tab_id
    simp only at he ⊢
    rw [he, List.append_assoc, List.indexOf_append_of_not_mem h]
    simp

theorem tab_ext_mem (T T2 : symtab_t) (h : tab_ext T T2) (key : String)
    (hk : key ∈ T.symtab_entry) : key ∈ T2.symtab_entry := by
  obtain ⟨ext, he⟩ := h
  rw [he]
  exact List.mem_append_left _ hk

/-- The loop over the mappings of a process, in terms of the final tables. -/
theorem diff_number_mapp_fold (A Pi : Int) (ms : List smapsmapp_t) :
    ∀ (s : (symtab_t × symtab_t) × List smapsmapp_t),
      tab_ext s.1.1 (ms.foldl (diff_number_mapp A Pi) s).1.1 ∧
      tab_ext s.1.2 (ms.foldl (diff_number_mapp A Pi) s).1.2 ∧
      ∀ T P, tab_ext (ms.foldl (diff_number_mapp A Pi) s).1.1 T →
        tab_ext (ms.foldl (diff_number_mapp A Pi) s).1.2 P →
        (ms.foldl (diff_number_mapp A Pi) s).2 = s.2 ++ number_mapps T P A Pi ms := by
  induction ms with
  | nil =>
    intro s
    exact ⟨tab_ext_refl _, tab_ext_refl _, fun T P _ _ => by simp [number_mapps]⟩
  | cons m ms ih =>
    intro s
    rw [List.foldl_cons]
    obtain ⟨h1, h2, h3⟩ := ih (diff_number_mapp A Pi s m)
    obtain ⟨t1, -, t3⟩ := symtab_enumerate_ext s.1.1 m.smapsmapp_map.type
    obtain ⟨p1, -, p3⟩ := symtab_enumerate_ext s.1.2 m.smapsmapp_map.path
    refine ⟨tab_ext_trans _ _ _ t1 h1, tab_ext_trans _ _ _ p1 h2, ?_⟩
    intro T P hT hP
    rw [h3 T P hT hP]
    have e1 := t3 T (tab_ext_trans _ _ _ h1 hT)
    have e2 := p3 P (tab_ext_trans _ _ _ h2 hP)
    unfold diff_number_mapp number_mapps
    simp only [List.map_cons, List.append_assoc, List.singleton_append]
    rw [e1, e2]

theorem diff_number_next_eq (st : diff_number_t) (proc : smapsproc_t) :
    (diff_number_next st proc).1 = (inst_next st.aid st.pid st.cnt proc).1 ∧
    (diff_number_next st proc).2.1 = (inst_next st.aid st.pid st.cnt proc).2.1 ∧
    (diff_number_next st proc).2.2.1 = (inst_next st.aid st.pid st.cnt proc).2.2 := by
  unfold diff_number_next inst_next
  split_ifs <;> exact ⟨rfl, rfl, rfl⟩

/-- The numbering loop, in terms of the final tables. -/
theorem diff_number_proc_fold (L : List smapsproc_t) :
    ∀ (st : diff_number_t),
      tab_ext st.type_tab (L.foldl diff_number_proc st).type_tab ∧
      tab_ext st.path_tab (L.foldl diff_number_proc st).path_tab ∧
      ∀ T P, tab_ext (L.foldl diff_number_proc st).type_tab T →
        tab_ext (L.foldl diff_number_proc st).path_tab P →
        (L.foldl diff_number_proc st).proclist
          = st.proclist ++ number_procs T P st.aid st.pid st.cnt L := by
  induction L with
  | nil =>
    intro st
    exact ⟨tab_ext_refl _, tab_ext_refl _, fun T P _ _ => by simp [number_procs]⟩
  | cons p L ih =>
    intro st
    rw [List.foldl_cons]
    obtain ⟨h1, h2, h3⟩ := ih (diff_number_proc st p)
    obtain ⟨m1, m2, m3⟩ := diff_number_mapp_fold p.smapsproc_AID (diff_number_next st p).2.2.1
      p.smapsproc_mapplist ((st.type_tab, st.path_tab), [])
    obtain ⟨n1, n2, n3⟩ := diff_number_next_eq st p
    have hT1 : (diff_number_proc st p).type_tab = (p.smapsproc_mapplist.foldl
        (diff_number_mapp p.smapsproc_AID (diff_number_next st p).2.2.1)
        ((st.type_tab, st.path_tab), [])).1.1 := rfl
    have hP1 : (diff_number_proc st p).path_tab = (p.smapsproc_mapplist.foldl
        (diff_number_mapp p.smapsproc_AID (diff_number_next st p).2.2.1)
        ((st.type_tab, st.path_tab), [])).1.2 := rfl
    refine ⟨tab_ext_trans _ _ _ (by rw [hT1]; exact m1) h1,
      tab_ext_trans _ _ _ (by rw [hP1]; exact m2) h2, ?_⟩
    intro T P hT hP
    rw [h3 T P hT hP]
    have hm := m3 T P (by rw [← hT1]; exact tab_ext_trans _ _ _ h1 hT)
      (by rw [← hP1]; exact tab_ext_trans _ _ _ h2 hP)
    have hpl : (diff_number_proc st p).proclist = st.proclist ++ [{ p with
        smapsproc_PID := (diff_number_next st p).2.2.1
        smapsproc_mapplist := (p.smapsproc_mapplist.foldl
          (diff_number_mapp p.smapsproc_AID (diff_number_next st p).2.2.1)
          ((st.type_tab, st.path_tab), [])).2 }] := rfl
    have ha : (diff_number_proc st p).aid = (diff_number_next st p).1 := rfl
    have hp : (diff_number_proc st p).pid = (diff_number_next st p).2.1 := rfl
    have hc : (diff_number_proc st p).cnt = (diff_number_next st p).2.2.1 := rfl
    rw [hpl, ha, hp, hc, hm, n1, n2, n3]
    simp only [List.nil_append, List.append_assoc, List.singleton_append, number_procs]

/-- The loop that assigns the application ids, in terms of the final table. -/
theorem diff_assign_proc_fold (L : List smapsproc_t) :
    ∀ (s : symtab_t × List smapsproc_t),
      tab_ext s.1 (L.foldl diff_assign_proc s).1 ∧
      (∀ p ∈ L, p.smapsproc_pid.Name ∈ (L.foldl diff_assign_proc s).1.symtab_entry) ∧
      ∀ A, tab_ext (L.foldl diff_assign_proc s).1 A →
        (L.foldl diff_assign_proc s).2 = s.2 ++ L.map (assign_ids A) := by
  induction L with
  | nil =>
    intro s
    exact ⟨tab_ext_refl _, fun p hp => by simp at hp, fun A _ => by simp⟩
  | cons p L ih =>
    intro s
    rw [List.foldl_cons]
    obtain ⟨h1, h2, h3⟩ := ih (diff_assign_proc s p)
    obtain ⟨t1, t2, t3⟩ := symtab_enumerate_ext s.1 p.smapsproc_pid.Name
    refine ⟨tab_ext_trans _ _ _ t1 h1, ?_, ?_⟩
    · intro q hq
      rcases List.mem_cons.1 hq with rfl | hq
      · exact tab_ext_mem _ _ h1 _ t2
      · exact h2 q hq
    · intro A hA
      rw [h3 A hA]
      have e1 := t3 A (tab_ext_trans _ _ _ h1 hA)
      unfold diff_assign_proc assign_ids
      simp only [List.map_cons, List.append_assoc, List.singleton_append]
      rw [e1]

/-- One snapshot of the second loop of `smapsfilt_diff`, in terms of the final
tables. -/
theorem diff_enumerate_snap_eq (sort_app_pid : List smapsproc_t → List smapsproc_t)
    (st : diff_enum_t × List smapssnap_t) (snap : smapssnap_t) :
    tab_ext st.1.appl_tab (diff_enumerate_snap sort_app_pid st snap).1.appl_tab ∧
    tab_ext st.1.type_tab (diff_enumerate_snap sort_app_pid st snap).1.type_tab ∧
    tab_ext st.1.path_tab (diff_enumerate_snap sort_app_pid st snap).1.path_tab ∧
    (∀ p ∈ snap.smapssnap_proclist, p.smapsproc_pid.Name ∈
      (diff_enumerate_snap sort_app_pid st snap).1.appl_tab.symtab_entry) ∧
    ∀ A T P, tab_ext (diff_enumerate_snap sort_app_pid st snap).1.appl_tab A →
      tab_ext (diff_enumerate_snap sort_app_pid st snap).1.type_tab T →
      tab_ext (diff_enumerate_snap sort_app_pid st snap).1.path_tab P →
      (diff_enumerate_snap sort_app_pid st snap).2 = st.2 ++ [enum_snap sort_app_pid A T P snap] := by
  obtain ⟨a1, a2, a3⟩ := diff_assign_proc_fold snap.smapssnap_proclist (st.1.appl_tab, [])
  obtain ⟨n1, n2, n3⟩ := diff_number_proc_fold
    (sort_app_pid (snap.smapssnap_proclist.foldl diff_assign_proc (st.1.appl_tab, [])).2)
    { inst_cnt := st.1.inst_cnt, type_tab := st.1.type_tab, path_tab := st.1.path_tab }
  refine ⟨a1, n1, n2, a2, ?_⟩
  intro A T P hA hT hP
  have e1 := a3 A hA
  have e2 := n3 T P hT hP
  unfold diff_enumerate_snap enum_snap
  simp only
  rw [e2, e1]
  simp only [List.nil_append]

/-- The second loop of `smapsfilt_diff`, in terms of the final tables. -/
theorem diff_enumerate_fold (sort_app_pid : List smapsproc_t → List smapsproc_t)
    (snaps : List smapssnap_t) :
    ∀ (st : diff_enum_t × List smapssnap_t),
      tab_ext st.1.appl_tab (snaps.foldl (diff_enumerate_snap sort_app_pid) st).1.appl_tab ∧
      tab_ext st.1.type_tab (snaps.foldl (diff_enumerate_snap sort_app_pid) st).1.type_tab ∧
      tab_ext st.1.path_tab (snaps.foldl (diff_enumerate_snap sort_app_pid) st).1.path_tab ∧
      (∀ snap ∈ snaps, ∀ p ∈ snap.smapssnap_proclist, p.smapsproc_pid.Name ∈
        (snaps.foldl (diff_enumerate_snap sort_app_pid) st).1.appl_tab.symtab_entry) ∧
      ∀ A T P, tab_ext (snaps.foldl (diff_enumerate_snap sort_app_pid) st).1.appl_tab A →
        tab_ext (snaps.foldl (diff_enumerate_snap sort_app_pid) st).1.type_tab T →
        tab_ext (snaps.foldl (diff_enumerate_snap sort_app_pid) st).1.path_tab P →
        (snaps.foldl (diff_enumerate_snap sort_app_pid) st).2
          = st.2 ++ snaps.map (enum_snap sort_app_pid A T P) := by
  induction snaps with
  | nil =>
    intro st
    exact ⟨tab_ext_refl _, tab_ext_refl _, tab_ext_refl _, fun s hs => by simp at hs,
      fun A T P _ _ _ => by simp⟩
  | cons snap snaps ih =>
    intro st
    rw [List.foldl_cons]
    obtain ⟨h1, h2, h3, h4, h5⟩ := ih (diff_enumerate_snap sort_app_pid st snap)
    obtain ⟨s1, s2, s3, s4, s5⟩ := diff_enumerate_snap_eq sort_app_pid st snap
    refine ⟨tab_ext_trans _ _ _ s1 h1, tab_ext_trans _ _ _ s2 h2, tab_ext_trans _ _ _ s3 h3,
      ?_, ?_⟩
    · intro s hs p hp
      rcases List.mem_cons.1 hs with rfl | hs
      · exact tab_ext_mem _ _ h1 _ (s4 p hp)
      · exact h4 s hs p hp
    · intro A T P hA hT hP
      rw [h5 A T P hA hT hP, s5 A T P (tab_ext_trans _ _ _ h1 hA) (tab_ext_trans _ _ _ h2 hT)
        (tab_ext_trans _ _ _ h3 hP)]
      simp

/-- The enumeration pass of `smapsfilt_diff`: every snapshot is enumerated
against the final tables. -/
theorem diff_enumerate_eq (renum : symtab_t → symtab_t)
    (sort_app_pid : List smapsproc_t → List smapsproc_t) (snaps : List smapssnap_t) :
    (diff_enumerate renum sort_app_pid snaps).2 = snaps.map (enum_snap sort_app_pid
      (diff_enumerate renum sort_app_pid snaps).1.appl_tab
      (diff_enumerate renum sort_app_pid snaps).1.type_tab
      (diff_enumerate renum sort_app_pid snaps).1.path_tab) ∧
    (∀ snap ∈ snaps, ∀ p ∈ snap.smapssnap_proclist, p.smapsproc_pid.Name ∈
      (diff_enumerate renum sort_app_pid snaps).1.appl_tab.symtab_entry) := by
  obtain ⟨-, -, -, h4, h5⟩ := diff_enumerate_fold sort_app_pid snaps
    ({ appl_tab := renum (diff_intern snaps).1
       type_tab := diff_type_tab
       path_tab := renum (diff_intern snaps).2 }, [])
  refine ⟨?_, h4⟩
  have := h5 _ _ _ (tab_ext_refl _) (tab_ext_refl _) (tab_ext_refl _)
  simpa using this

theorem count_same_append (pre : List smapsproc_t) (q p : smapsproc_t) :
    count_same (pre ++ [q]) p =
      count_same pre p + (if q.smapsproc_AID = p.smapsproc_AID then 1 else 0) := by
  unfold count_same
  rw [List.filter_append, List.length_append]
  by_cases h : q.smapsproc_AID = p.smapsproc_AID
  · simp [List.filter_cons, h]
  · simp [List.filter_cons, h]

theorem count_same_congr (pre : List smapsproc_t) (p q : smapsproc_t)
    (h : p.smapsproc_AID = q.smapsproc_AID) : count_same pre p = count_same pre q := by
  unfold count_same
  rw [h]

theorem count_same_zero (pre : List smapsproc_t) (p : smapsproc_t)
    (h : ∀ q ∈ pre, q.smapsproc_AID ≠ p.smapsproc_AID) : count_same pre p = 0 := by
  unfold count_same
  rw [List.filter_eq_nil_iff.2]
  · rfl
  · intro q hq
    simpa using h q hq

/-- The numbering loop gives every process the number of processes before it
that have its application id. -/
theorem number_procs_spec (T P : symtab_t) (rest : List smapsproc_t) :
    ∀ (pre : List smapsproc_t) (aid pid cnt : Int),
      (∀ p ∈ pre ++ rest, 0 ≤ p.smapsproc_AID) →
      (pre ++ rest).Pairwise app_pid_le →
      (pre ++ rest).Pairwise (fun a b => a.smapsproc_PID ≠ b.smapsproc_PID) →
      ((pre = [] ∧ aid = -1) ∨ (∃ init last, pre = init ++ [last] ∧
        aid = last.smapsproc_AID ∧ pid = last.smapsproc_PID ∧ cnt = count_same init last)) →
      ∀ p1 ∈ number_procs T P aid pid cnt rest, ∃ r1 p r2, rest = r1 ++ p :: r2 ∧
        p1 = numbered T P (count_same (pre ++ r1) p) p := by
  induction rest with
  | nil =>
    intro pre aid pid cnt _ _ _ _ p1 hp1
    simp [number_procs] at hp1
  | cons p rest ih =>
    intro pre aid pid cnt hA hS hD hst p1 hp1
    have hc : (inst_next aid pid cnt p).1 = p.smapsproc_AID ∧
        (inst_next aid pid cnt p).2.1 = p.smapsproc_PID ∧
        (inst_next aid pid cnt p).2.2 = count_same pre p := by
      rcases hst with ⟨rfl, rfl⟩ | ⟨init, last, rfl, rfl, rfl, rfl⟩
      · have h0 := hA p (by simp)
        unfold inst_next
        rw [if_pos (by omega)]
        exact ⟨rfl, rfl, by simp [count_same]⟩
      · have hlp : app_pid_le last p ∧ last.smapsproc_PID ≠ p.smapsproc_PID := by
          rw [List.append_assoc] at hS hD
          have h1 := (List.pairwise_append.1 hS).2.2
          have h2 := (List.pairwise_append.1 hD).2.2
          have h3 := (List.pairwise_append.1 hS).2.1
          have h4 := (List.pairwise_append.1 hD).2.1
          simp only [List.singleton_append, List.pairwise_cons] at h3 h4
          exact ⟨h3.1 p (by simp), h4.1 p (by simp)⟩
        unfold inst_next
        by_cases ha : last.smapsproc_AID = p.smapsproc_AID
        · rw [if_neg (not_not.2 ha), if_pos hlp.2]
          refine ⟨ha, rfl, ?_⟩
          simp only
          rw [count_same_append, if_pos ha, count_same_congr init last p ha]
        · rw [if_pos ha]
          refine ⟨rfl, rfl, ?_⟩
          simp only
          symm
          apply count_same_zero
          intro q hq hqa
          have hlt : last.smapsproc_AID < p.smapsproc_AID := by
            rcases hlp.1 with h | ⟨h, -⟩
            · exact h
            · exact absurd h ha
          rcases List.mem_append.1 hq with hq | hq
          · have hpre := (List.pairwise_append.1 (List.pairwise_append.1 hS).1).2.2 q hq last
              (by simp)
            rcases hpre with h | ⟨h, -⟩ <;> omega
          · simp only [List.mem_singleton] at hq
            subst hq
            exact ha hqa
    unfold number_procs at hp1
    rw [hc.1, hc.2.1, hc.2.2] at hp1
    rcases List.mem_cons.1 hp1 with h | h
    · exact ⟨[], p, rest, rfl, by rw [h]; simp [numbered]⟩
    · obtain ⟨r1, q, r2, hr, hq⟩ := ih (pre ++ [p]) p.smapsproc_AID p.smapsproc_PID
        (count_same pre p) (by simpa using hA) (by simpa using hS) (by simpa using hD)
        (Or.inr ⟨pre, p, rfl, rfl, rfl, rfl⟩) p1 h
      refine ⟨p :: r1, q, r2, by rw [hr]; rfl, ?_⟩
      rw [hq]
      simp

theorem number_procs_pid (T P : symtab_t) (rest : List smapsproc_t) :
    ∀ (aid pid cnt : Int),
      (number_procs T P aid pid cnt rest).map (fun p => (p.smapsproc_pid, p.smapsproc_AID))
        = rest.map (fun p => (p.smapsproc_pid, p.smapsproc_AID)) := by
  induction rest with
  | nil => intro aid pid cnt; rfl
  | cons p rest ih =>
    intro aid pid cnt
    unfold number_procs
    simp only [List.map_cons]
    rw [ih]

/-- In a list sorted by (application id, `PID`) with pairwise different `PID`
the processes before `p` with its application id are those of the whole list
with its application id and a smaller `PID`. -/
theorem count_same_sorted (r1 r2 : List smapsproc_t) (p : smapsproc_t)
    (hS : (r1 ++ p :: r2).Pairwise app_pid_le)
    (hD : (r1 ++ p :: r2).Pairwise (fun a b => a.smapsproc_PID ≠ b.smapsproc_PID)) :
    count_same r1 p = (((r1 ++ p :: r2).filter (fun q =>
      decide (q.smapsproc_AID = p.smapsproc_AID ∧ q.smapsproc_PID < p.smapsproc_PID))).length
        : Nat) := by
  have hS2 := List.pairwise_append.1 hS
  have hD2 := List.pairwise_append.1 hD
  have h1 : r1.filter (fun q =>
      decide (q.smapsproc_AID = p.smapsproc_AID ∧ q.smapsproc_PID < p.smapsproc_PID))
      = r1.filter (fun q => decide (q.smapsproc_AID = p.smapsproc_AID)) := by
    apply List.filter_congr
    intro q hq
    have hle := hS2.2.2 q hq p (by simp)
    have hne := hD2.2.2 q hq p (by simp)
    simp only [decide_eq_decide]
    constructor
    · exact fun h => h.1
    · intro h
      refine ⟨h, ?_⟩
      rcases hle with h2 | ⟨-, h2⟩
      · omega
      · omega
  have h2 : (p :: r2).filter (fun q =>
      decide (q.smapsproc_AID = p.smapsproc_AID ∧ q.smapsproc_PID < p.smapsproc_PID)) = [] := by
    apply List.filter_eq_nil_iff.2
    intro q hq
    simp only [decide_eq_true_eq, not_and, not_lt]
    intro ha
    rcases List.mem_cons.1 hq with rfl | hq
    · exact le_refl _
    · have hle := (List.pairwise_cons.1 hS2.2.1).1 q hq
      rcases hle with h3 | ⟨-, h3⟩
      · omega
      · exact h3
  unfold count_same
  rw [List.filter_append, h1, h2, List.append_nil]

theorem tab_id_spec (A : symtab_t) (n : String) (hn : n ∈ A.symtab_entry) :
    0 ≤ tab_id A n ∧ A.symtab_entry[(tab_id A n).toNat]? = some n := by
  unfold tab_id
  refine ⟨by omega, ?_⟩
  rw [Int.toNat_ofNat]
  exact List.getElem?_indexOf hn

theorem tab_id_inj (A : symtab_t) (n m : String) (hn : n ∈ A.symtab_entry)
    (hm : m ∈ A.symtab_entry) : tab_id A n = tab_id A m ↔ n = m := by
  unfold tab_id
  rw [← List.indexOf_inj hn hm]
  omega

/-- The instance index of an enumerated snapshot: the number of processes of
the snapshot with the same name and a smaller pid. -/
theorem enum_snap_spec (sort_app_pid : List smapsproc_t → List smapsproc_t)
    (hsort : sorts_app_pid sort_app_pid) (A T P : symtab_t) (snap : smapssnap_t)
    (hA : ∀ p ∈ snap.smapssnap_proclist, p.smapsproc_pid.Name ∈ A.symtab_entry)
    (hpid : (snap.smapssnap_proclist.map (fun p => p.smapsproc_pid.Pid)).Nodup) :
    ((enum_snap sort_app_pid A T P snap).smapssnap_proclist.map (fun p => p.smapsproc_pid)).Perm
      (snap.smapssnap_proclist.map (fun p => p.smapsproc_pid)) ∧
    ∀ p ∈ (enum_snap sort_app_pid A T P snap).smapssnap_proclist,
      p.smapsproc_PID = inst_index snap.smapssnap_proclist p ∧
      p.smapsproc_AID = tab_id A p.smapsproc_pid.Name ∧
      p.smapsproc_pid.Name ∈ A.symtab_entry ∧
      ∀ m ∈ p.smapsproc_mapplist,
        m.smapsmapp_AID = p.smapsproc_AID ∧ m.smapsmapp_PID = p.smapsproc_PID := by
  obtain ⟨hperm, hS⟩ := hsort (snap.smapssnap_proclist.map (assign_ids A))
  have hmem : ∀ p ∈ sort_app_pid (snap.smapssnap_proclist.map (assign_ids A)),
      ∃ p0 ∈ snap.smapssnap_proclist, p = assign_ids A p0 := by
    intro p hp
    obtain ⟨p0, h0, h1⟩ := List.mem_map.1 (hperm.mem_iff.1 hp)
    exact ⟨p0, h0, h1.symm⟩
  have hD : (sort_app_pid (snap.smapssnap_proclist.map (assign_ids A))).Pairwise
      (fun a b => a.smapsproc_PID ≠ b.smapsproc_PID) := by
    have h1 : ((snap.smapssnap_proclist.map (assign_ids A)).map
        (fun p => p.smapsproc_PID)).Nodup := by
      rw [List.map_map]
      exact hpid
    have h2 := ((hperm.map (fun p => p.smapsproc_PID)).nodup_iff).2 h1
    exact List.pairwise_map.1 h2
  refine ⟨?_, ?_⟩
  · have h1 := number_procs_pid T P (sort_app_pid (snap.smapssnap_proclist.map (assign_ids A)))
      (-1) (-1) 0
    have h2 : ((enum_snap sort_app_pid A T P snap).smapssnap_proclist.map
        (fun p => p.smapsproc_pid)) =
        (sort_app_pid (snap.smapssnap_proclist.map (assign_ids A))).map
          (fun p => p.smapsproc_pid) := by
      have := congrArg (List.map Prod.fst) h1
      simpa [List.map_map, enum_snap] using this
    rw [h2]
    have h3 := hperm.map (fun p => p.smapsproc_pid)
    rw [List.map_map] at h3
    exact h3
  · intro p1 hp1
    obtain ⟨r1, p, r2, hL, hp⟩ := number_procs_spec T P
      (sort_app_pid (snap.smapssnap_proclist.map (assign_ids A))) [] (-1) (-1) 0
      (by
        intro q hq
        obtain ⟨p0, -, rfl⟩ := hmem q (by simpa using hq)
        simp [assign_ids, tab_id])
      (by simpa using hS) (by simpa using hD) (Or.inl ⟨rfl, rfl⟩) p1 hp1
    rw [List.nil_append] at hp
    obtain ⟨p0, hp0, hpe⟩ := hmem p (by rw [hL]; simp)
    have hcnt : count_same r1 p = inst_index snap.smapssnap_proclist p1 := by
      rw [count_same_sorted r1 r2 p (by rw [← hL]; exact hS) (by rw [← hL]; exact hD), ← hL]
      unfold inst_index
      rw [(hperm.filter _).length_eq, List.filter_map, List.length_map]
      congr 2
      apply List.filter_congr
      intro q hq
      simp only [Function.comp_apply, decide_eq_decide]
      rw [hp, hpe]
      simp only [assign_ids, numbered]
      rw [tab_id_inj A _ _ (hA q hq) (hA p0 hp0)]
    refine ⟨?_, ?_, ?_, ?_⟩
    · rw [← hcnt, hp]
      rfl
    · rw [hp, hpe]
      rfl
    · rw [hp, hpe]
      exact hA p0 hp0
    · intro m hm
      rw [hp] at hm ⊢
      simp only [numbered, number_mapps, List.mem_map] at hm ⊢
      obtain ⟨m0, -, rfl⟩ := hm
      exact ⟨rfl, rfl⟩

/-- C14: instance numbering.  For every list of snapshots, every
renumbering of the symbol tables and every sorting routine that orders by
(application id, `PID`): a snapshot with pairwise different pids holds, after
the enumeration pass of `smapsfilt_diff`, the same process data as before, and
every process has as instance index the number of processes of that snapshot
with the same name and a smaller pid (so the processes of one name are
numbered 0, 1, 2, ... in ascending pid order, whatever the other snapshots
hold); its application id is the id of its name in the table of
applications; every mapping carries the application id and the instance index
of its owning process. -/
theorem diff_instance_numbering (symtab_renum : symtab_t → symtab_t)
    (sort_app_pid : List smapsproc_t → List smapsproc_t)
    (hsort : sorts_app_pid sort_app_pid) (snaps : List smapssnap_t) (i : Nat)
    (snap : smapssnap_t) (hi : snaps[i]? = some snap)
    (hpid : (snap.smapssnap_proclist.map (fun p => p.smapsproc_pid.Pid)).Nodup) :
    ∃ snap1, (diff_enumerate symtab_renum sort_app_pid snaps).2[i]? = some snap1 ∧
      (snap1.smapssnap_proclist.map (fun p => p.smapsproc_pid)).Perm
        (snap.smapssnap_proclist.map (fun p => p.smapsproc_pid)) ∧
      ∀ p ∈ snap1.smapssnap_proclist,
        p.smapsproc_PID = inst_index snap.smapssnap_proclist p ∧
        (0 ≤ p.smapsproc_AID ∧
          (diff_enumerate symtab_renum sort_app_pid snaps).1.appl_tab.symtab_entry[
            p.smapsproc_AID.toNat]? = some p.smapsproc_pid.Name) ∧
        ∀ m ∈ p.smapsproc_mapplist,
          m.smapsmapp_AID = p.smapsproc_AID ∧ m.smapsmapp_PID = p.smapsproc_PID := by
  obtain ⟨h1, h2⟩ := diff_enumerate_eq symtab_renum sort_app_pid snaps
  have hmem : snap ∈ snaps := (List.getElem?_eq_some_iff.1 hi).2 ▸ List.getElem_mem _
  obtain ⟨e1, e2⟩ := enum_snap_spec sort_app_pid hsort
    (diff_enumerate symtab_renum sort_app_pid snaps).1.appl_tab
    (diff_enumerate symtab_renum sort_app_pid snaps).1.type_tab
    (diff_enumerate symtab_renum sort_app_pid snaps).1.path_tab snap (h2 snap hmem) hpid
  refine ⟨_, by rw [h1, List.getElem?_map, hi]; rfl, e1, ?_⟩
  intro p hp
  obtain ⟨a1, a2, a3, a4⟩ := e2 p hp
  refine ⟨a1, ?_, a4⟩
  rw [a2]
  exact tab_id_spec _ _ a3

theorem sorts_short (sort_app_pid : List smapsproc_t → List smapsproc_t)
    (hsort : sorts_app_pid sort_app_pid) (l : List smapsproc_t) (hl : l.length ≤ 1) :
    sort_app_pid l = l := by
  have hp := (hsort l).1
  match l, hl with
  | [], _ => exact List.perm_nil.1 (by simpa using hp)
  | [a], _ => exact List.perm_singleton.1 hp

theorem renums_short (renum : symtab_t → symtab_t) (hr : renums renum) (t : symtab_t)
    (ht : t.symtab_entry.length ≤ 1) : renum t = t := by
  have hp := hr t
  have he : (renum t).symtab_entry = t.symtab_entry := by
    match h : t.symtab_entry, ht with
    | [], _ =>
      rw [h] at hp
      exact List.perm_nil.1 (by simpa using hp)
    | [a], _ =>
      rw [h] at hp
      exact List.perm_singleton.1 hp
  cases hrt : renum t
  cases t
  rw [hrt] at he
  simp only at he
  rw [he]

theorem sorts_sort_example : sorts_app_pid sort_example := by
  intro l
  unfold sort_example
  refine ⟨List.perm_insertionSort _ l, ?_⟩
  have hs := @List.sorted_insertionSort smapsproc_t
    (fun a b => decide (a.smapsproc_AID < b.smapsproc_AID ∨
      (a.smapsproc_AID = b.smapsproc_AID ∧ a.smapsproc_PID ≤ b.smapsproc_PID)) = true) _
    ⟨by
      intro a b
      simp only [decide_eq_true_eq]
      omega⟩
    ⟨by
      intro a b c
      simp only [decide_eq_true_eq]
      omega⟩ l
  refine List.Pairwise.imp ?_ hs
  intro a b h
  simpa [app_pid_le] using h

theorem foldl_congr_mem {σ α : Type} (f g : σ → α → σ) (l : List α)
    (h : ∀ x ∈ l, ∀ s, f s x = g s x) (s : σ) : l.foldl f s = l.foldl g s := by
  induction l generalizing s with
  | nil => rfl
  | cons a l ih =>
    rw [List.foldl_cons, List.foldl_cons, h a (List.mem_cons_self _ _) s]
    exact ih (fun x hx => h x (List.mem_cons_of_mem _ hx)) _

/-- On snapshots of at most one process the sorting routine changes nothing. -/
theorem diff_enumerate_snap_short (sort_app_pid : List smapsproc_t → List smapsproc_t)
    (hsort : sorts_app_pid sort_app_pid) (st : diff_enum_t × List smapssnap_t)
    (snap : smapssnap_t) (hs : snap.smapssnap_proclist.length ≤ 1) :
    diff_enumerate_snap sort_app_pid st snap = diff_enumerate_snap id st snap := by
  have hl : (snap.smapssnap_proclist.foldl diff_assign_proc (st.1.appl_tab, [])).2.length ≤ 1 := by
    rw [(diff_assign_proc_fold snap.smapssnap_proclist (st.1.appl_tab, [])).2.2 _
      (tab_ext_refl _)]
    simpa using hs
  unfold diff_enumerate_snap
  rw [sorts_short sort_app_pid hsort _ hl]
  rfl

theorem scenario_enumerate (renum : symtab_t → symtab_t) (hr : renums renum)
    (sort_app_pid : List smapsproc_t → List smapsproc_t) (hsort : sorts_app_pid sort_app_pid) :
    (diff_enumerate renum sort_app_pid scenario_snaps).2 = [scenario_enum 10, scenario_enum 50] ∧
    diff_str (diff_enumerate renum sort_app_pid scenario_snaps).1 = scenario_str := by
  have h1 : diff_enumerate renum sort_app_pid scenario_snaps
      = diff_enumerate id id scenario_snaps := by
    unfold diff_enumerate
    rw [renums_short renum hr (diff_intern scenario_snaps).1 (by decide),
      renums_short renum hr (diff_intern scenario_snaps).2 (by decide)]
    apply foldl_congr_mem
    intro snap hsnap st
    apply diff_enumerate_snap_short sort_app_pid hsort
    revert snap
    decide
  rw [h1]
  constructor
  · decide
  · decide

/-- The accumulation section as a sequence of `diff_ins` calls with the masked
keys. -/
theorem diff_accumulate_masked (fp : fp_ops) (d : Int) (hd0 : 0 ≤ d)
    (snaps : List smapssnap_t) :
    diff_accumulate fp snaps d
      = (diff_items snaps 0).foldlM
          (fun tab x => diff_ins fp tab (masked_key d snaps.length x.1) (diff_value x.1) x.2)
          [] := by
  have hk : unset_ok d snaps.length
      { appl := -1, inst := -1, type := -1, path := -1, cnt := (snaps.length : Int) } :=
    ⟨rfl, rfl, fun _ => rfl, fun _ => rfl, fun _ => rfl, fun _ => rfl⟩
  have := diff_fold_masked fp d snaps.length hd0 (diff_items snaps 0) (_, []) hk
  rw [← this]
  unfold diff_accumulate
  rw [diff_accumulate_snaps_eq]
  cases (diff_items snaps 0).foldlM (fun st x => diff_accumulate_step fp d x.2 st x.1)
      ({ appl := -1, inst := -1, type := -1, path := -1, cnt := (snaps.length : Int) }, []) with
  | none => rfl
  | some st => rfl

theorem scenario_accumulate :
    diff_accumulate fp_exact [scenario_enum 10, scenario_enum 50] 3 = some [scenario_key] := by
  rw [diff_accumulate_masked fp_exact 3 (by decide)]
  have h12 : Int.tdiv 1 2 = 0 := by decide
  simp [h12, diff_items, scenario_enum, masked_key, diff_value, diff_ins, diff_ins_loop,
    diffkey_add, diffkey_create, diffkey_val, diffval_add, diffval_ctor, fp_exact, array_get,
    diffkey_compare, int_sub, INT_MAX, INT_MIN, scenario_key, UINT_MOD, List.replicate]

theorem nat_sqrt_400 : nat_sqrt 400 = 20 ∧ nat_sqrt 1 = 1 ∧ nat_sqrt 0 = 0 := by
  decide

theorem scenario_stddev :
    pop_stddev fp_exact (scenario_key.val.map (fun v => v.pri)) = 20 ∧
    pop_stddev fp_exact (scenario_key.val.map (fun v => v.sha)) = 0 ∧
    pop_stddev fp_exact (scenario_key.val.map (fun v => v.cln)) = 0 := by
  have hn : ((400 : ℚ)).num = 400 := by norm_num
  have hd : ((400 : ℚ)).den = 1 := by norm_num
  have h400 : fp_exact.sqrt 400 = 20 := by
    simp only [fp_exact, hn, hd]
    have hs : nat_sqrt (Int.toNat 400) = 20 := nat_sqrt_400.1
    rw [hs, nat_sqrt_400.2.1]
    norm_num
  have h0 : fp_exact.sqrt 0 = 0 := by
    simp [fp_exact, nat_sqrt_400.2.2]
  refine ⟨?_, ?_, ?_⟩
  · have : fp_exact.div (List.foldl (fun acc x => fp_exact.add acc (pow2 fp_exact
        (fp_exact.sub x (fp_exact.div (List.foldl fp_exact.add 0 [(10 : ℚ), 50])
          (([(10 : ℚ), 50].length : Nat) : ℚ))))) 0 [(10 : ℚ), 50])
        (([(10 : ℚ), 50].length : Nat) : ℚ) = 400 := by
      simp [fp_exact, pow2]
      norm_num
    unfold pop_stddev
    simp only [scenario_key, List.map_cons, List.map_nil]
    rw [this, h400]
  · unfold pop_stddev
    simp only [scenario_key, List.map_cons, List.map_nil]
    have : fp_exact.div (List.foldl (fun acc x => fp_exact.add acc (pow2 fp_exact
        (fp_exact.sub x (fp_exact.div (List.foldl fp_exact.add 0 [(0 : ℚ), 0])
          (([(0 : ℚ), 0].length : Nat) : ℚ))))) 0 [(0 : ℚ), 0])
        (([(0 : ℚ), 0].length : Nat) : ℚ) = 0 := by
      simp [fp_exact, pow2]
    rw [this, h0]
  · unfold pop_stddev
    simp only [scenario_key, List.map_cons, List.map_nil]
    have : fp_exact.div (List.foldl (fun acc x => fp_exact.add acc (pow2 fp_exact
        (fp_exact.sub x (fp_exact.div (List.foldl fp_exact.add 0 [(0 : ℚ), 0])
          (([(0 : ℚ), 0].length : Nat) : ℚ))))) 0 [(0 : ℚ), 0])
        (([(0 : ℚ), 0].length : Nat) : ℚ) = 0 := by
      simp [fp_exact, pow2]
    rw [this, h0]

theorem scenario_emit_ok : ∀ k ∈ [scenario_key], emit_ok fp_exact scenario_str k := by
  intro k hk
  rw [List.mem_singleton] at hk
  subst hk
  refine ⟨by decide, by decide, by decide, by decide, by decide, ?_⟩
  intro m hm
  simp only [measures, List.mem_cons, List.mem_singleton, List.not_mem_nil, or_false] at hm
  unfold UINT_MOD
  rcases hm with rfl | rfl | rfl
  · rw [scenario_stddev.1]; norm_num
  · rw [scenario_stddev.2.1]; norm_num
  · rw [scenario_stddev.2.2]; norm_num

/-- The rows of the scenario before trimming. -/
theorem scenario_rows (fmt : fmt_ops) :
    diff_emit fp_exact fmt scenario_str [scenario_key]
      = some [[some "foo", some "0", some "code", none, some "pri",
               some (fmt.fmt_g 10), some (fmt.fmt_g 50), some (fmt.fmt_f1 20)]] := by
  unfold diff_emit
  rw [foldlM_append_rows (diff_emit_group fp_exact fmt scenario_str 4)
    (group_rows fp_exact fmt scenario_str) [scenario_key]
    (fun k hk out => (diff_emit_group_eq fp_exact fmt scenario_str k
      (scenario_emit_ok k hk) out).1), List.nil_append]
  simp only [List.flatMap_cons, List.flatMap_nil, List.append_nil]
  rw [group_rows_eq, scenario_stddev.1, scenario_stddev.2.1, scenario_stddev.2.2]
  rw [if_pos (by norm_num), if_neg (by norm_num), if_neg (by norm_num)]
  have hf : String.mk (fmt_d 0) = "0" := by decide
  simp [report_row, scenario_key, scenario_str, hf]

/-- C11 (witness): the table of the single group with the slots `pri = 10` and
`pri = 50`, in exact arithmetic. -/
theorem diff_emit_rows_witness :
    (∀ k ∈ [scenario_key], emit_ok fp_exact scenario_str k) ∧
    (diff_emit fp_exact fmt_example scenario_str [scenario_key]
        = some ([scenario_key].flatMap (fun k =>
            if group_rank fp_exact k ≥ 4 then group_rows fp_exact fmt_example scenario_str k
            else [])) ∧
     diff_emit fp_exact fmt_example scenario_str [scenario_key]
        = some ([scenario_key].flatMap (group_rows fp_exact fmt_example scenario_str))) := by
  have h := diff_emit_rows fp_exact fmt_example scenario_str [scenario_key] scenario_emit_ok
  exact ⟨scenario_emit_ok, h.1, h.2.1⟩

/-- C14 (witness): the snapshot of `foo` (pid 30), `bar` (pid 10) and `foo`
(pid 20), with insertion sort as the sorting routine. -/
theorem diff_instance_numbering_witness :
    (sorts_app_pid sort_example ∧ [inst_snap][0]? = some inst_snap ∧
      (inst_snap.smapssnap_proclist.map (fun p => p.smapsproc_pid.Pid)).Nodup) ∧
    ∃ snap1, (diff_enumerate id sort_example [inst_snap]).2[0]? = some snap1 ∧
      (snap1.smapssnap_proclist.map (fun p => p.smapsproc_pid)).Perm
        (inst_snap.smapssnap_proclist.map (fun p => p.smapsproc_pid)) ∧
      ∀ p ∈ snap1.smapssnap_proclist,
        p.smapsproc_PID = inst_index inst_snap.smapssnap_proclist p ∧
        (0 ≤ p.smapsproc_AID ∧
          (diff_enumerate id sort_example [inst_snap]).1.appl_tab.symtab_entry[
            p.smapsproc_AID.toNat]? = some p.smapsproc_pid.Name) ∧
        ∀ m ∈ p.smapsproc_mapplist,
          m.smapsmapp_AID = p.smapsproc_AID ∧ m.smapsmapp_PID = p.smapsproc_PID :=
  ⟨⟨sorts_sort_example, rfl, by decide⟩,
    diff_instance_numbering id sort_example sorts_sort_example [inst_snap] 0 inst_snap rfl
      (by decide)⟩

theorem renums_id : renums id := fun _ => List.Perm.refl _

theorem diff_trim_single (row : List (Option String)) (html_diff : Bool) (trim_cols : Int) :
    diff_trim [row] html_diff trim_cols = [row] := by
  have h : ∀ t : Int, diff_emit_table [row] html_diff t = [row] := by
    intro t
    unfold diff_emit_table
    split
    · rfl
    · rfl
  exact h _

/-- C12: the concrete scenario.  Two snapshots, each of one process `foo`
with pid 100 and one mapping `/lib/libc.so` of type `code`, with
`Private_Dirty` 10 in the first and 50 in the second and every other counter
0: `smapsfilt_diff` at depth 3 produces, in exact arithmetic, for every
renumbering of the symbol tables, every sorting routine and every trim
depth, the table of exactly one row: application `foo`, instance 0, type
`code`, path unset, measure `pri`, the values 10 and 50, the rank 20 (the
population standard deviation of 10 and 50); there is no row of `sha` or
`cln`, whose deviations are 0. -/
theorem diff_scenario (fmt : fmt_ops) (symtab_renum : symtab_t → symtab_t)
    (hr : renums symtab_renum) (sort_app_pid : List smapsproc_t → List smapsproc_t)
    (hsort : sorts_app_pid sort_app_pid) (html_diff : Bool) (trim_cols : Int) :
    smapsfilt_diff fp_exact fmt symtab_renum sort_app_pid scenario_snaps 3 html_diff trim_cols
      = some [[some "foo", some "0", some "code", none, some "pri",
               some (fmt.fmt_g 10), some (fmt.fmt_g 50), some (fmt.fmt_f1 20)]] ∧
    pop_stddev fp_exact [10, 50] = 20 ∧ pop_stddev fp_exact [0, 0] = 0 := by
  obtain ⟨h1, h2⟩ := scenario_enumerate symtab_renum hr sort_app_pid hsort
  refine ⟨?_, scenario_stddev.1, scenario_stddev.2.1⟩
  unfold smapsfilt_diff
  rw [h1, h2, scenario_accumulate]
  simp only
  rw [scenario_rows]
  simp only
  rw [diff_trim_single]

/-- C12 (witness): the scenario with the identity as renumbering and insertion
sort as sorting routine, csv report without trimming. -/
theorem diff_scenario_witness :
    (renums id ∧ sorts_app_pid sort_example) ∧
    (smapsfilt_diff fp_exact fmt_example id sort_example scenario_snaps 3 false 0
      = some [[some "foo", some "0", some "code", none, some "pri",
               some (fmt_example.fmt_g 10), some (fmt_example.fmt_g 50),
               some (fmt_example.fmt_f1 20)]] ∧
    pop_stddev fp_exact [10, 50] = 20 ∧ pop_stddev fp_exact [0, 0] = 0) :=
  ⟨⟨renums_id, sorts_sort_example⟩,
    diff_scenario fmt_example id renums_id sort_example sorts_sort_example false 0⟩

/-! ## Tokens of the capture parser -/

theorem dropWhile_append_stop (p : Char → Bool) (A B : List Char)
    (hA : ∀ a ∈ A, p a = true) (hB : ∀ c, B.head? = some c → p c = false) :
    (A ++ B).dropWhile p = B ∧ (A ++ B).takeWhile p = A := by
  induction A with
  | nil =>
    cases B with
    | nil => simp
    | cons b B =>
      have := hB b rfl
      simp [List.dropWhile_cons, List.takeWhile_cons, this]
  | cons a A ih =>
    have ha : p a = true := hA a (List.mem_cons_self _ _)
    have ih1 := ih (fun b hb => hA b (List.mem_cons_of_mem _ hb))
    rw [List.cons_append, List.dropWhile_cons, List.takeWhile_cons, ha]
    simp only [if_true]
    exact ⟨ih1.1, by rw [ih1.2]⟩

/-- The token that `slice` cuts at a separator: leading blanks are skipped, the
token is the text before the separator, the rest is the text after it. -/
theorem slice_sep (ws tok rest : List Char) (sep : Char)
    (hws : ∀ c ∈ ws, 0 < c.toNat ∧ c.toNat ≤ 32)
    (hhd : ∀ c, (tok ++ [sep]).head? = some c → ¬ (0 < c.toNat ∧ c.toNat ≤ 32))
    (htok : ∀ c ∈ tok, c ≠ sep) :
    slice (ws ++ tok ++ sep :: rest) (sep.toNat : Int) = (tok, rest) := by
  have h1 := dropWhile_append_stop (fun c => decide (0 < c.toNat ∧ c.toNat ≤ 32)) ws
    (tok ++ sep :: rest) (fun c hc => by simpa using hws c hc)
    (fun c hc => by
      have : (tok ++ [sep]).head? = some c := by
        cases tok with
        | nil => simpa using hc
        | cons t tok => simpa using hc
      simpa using hhd c this)
  have h2 := dropWhile_append_stop (fun c => decide (¬ (c.toNat : Int) = (sep.toNat : Int))) tok
    (sep :: rest)
    (fun c hc => by
      have := htok c hc
      simp only [decide_eq_true_eq]
      intro h
      exact this (Char.ext (by
        have h3 : c.toNat = sep.toNat := by exact_mod_cast h
        exact UInt32.ext (by simpa [Char.toNat] using h3))))
    (fun c hc => by
      simp only [List.head?_cons, Option.some.injEq] at hc
      subst hc
      simp)
  unfold slice
  rw [if_neg (by omega), List.append_assoc, h1.1, h2.1, h2.2]
  rfl

/-- The token that `slice` cuts at the end of the text. -/
theorem slice_sep_end (ws tok : List Char) (sep : Char)
    (hws : ∀ c ∈ ws, 0 < c.toNat ∧ c.toNat ≤ 32)
    (hhd : ∀ c, tok.head? = some c → ¬ (0 < c.toNat ∧ c.toNat ≤ 32))
    (htok : ∀ c ∈ tok, c ≠ sep) :
    slice (ws ++ tok) (sep.toNat : Int) = (tok, []) := by
  have h1 := dropWhile_append_stop (fun c => decide (0 < c.toNat ∧ c.toNat ≤ 32)) ws
    tok (fun c hc => by simpa using hws c hc) (fun c hc => by simpa using hhd c hc)
  have h2 := dropWhile_append_stop (fun c => decide (¬ (c.toNat : Int) = (sep.toNat : Int))) tok
    []
    (fun c hc => by
      have := htok c hc
      simp only [decide_eq_true_eq]
      intro h
      exact this (Char.ext (by
        have h3 : c.toNat = sep.toNat := by exact_mod_cast h
        exact UInt32.ext (by simpa [Char.toNat] using h3))))
    (fun c hc => by simp at hc)
  rw [List.append_nil] at h2
  unfold slice
  rw [if_neg (by omega), h1.1, h2.1, h2.2]
  rfl

/-- The token that `slice` cuts at a blank. -/
theorem slice_blank (ws tok rest : List Char) (b : Char)
    (hws : ∀ c ∈ ws, 0 < c.toNat ∧ c.toNat ≤ 32)
    (htok : ∀ c ∈ tok, ¬ c.toNat ≤ 32) (hne : tok ≠ []) (hb : b.toNat ≤ 32) :
    slice (ws ++ tok ++ b :: rest) (-1) = (tok, rest) := by
  have h1 := dropWhile_append_stop (fun c => decide (0 < c.toNat ∧ c.toNat ≤ 32)) ws
    (tok ++ b :: rest) (fun c hc => by simpa using hws c hc)
    (fun c hc => by
      cases tok with
      | nil => exact absurd rfl hne
      | cons t tok =>
        simp only [List.cons_append, List.head?_cons, Option.some.injEq] at hc
        subst hc
        have := htok t (List.mem_cons_self _ _)
        simp only [decide_eq_false_iff_not, not_and]
        intro _
        exact this)
  have h2 := dropWhile_append_stop (fun c => decide (¬ c.toNat ≤ 32)) tok (b :: rest)
    (fun c hc => by simpa using htok c hc)
    (fun c hc => by
      simp only [List.head?_cons, Option.some.injEq] at hc
      subst hc
      simpa using hb)
  unfold slice
  rw [if_pos (by omega), List.append_assoc, h1.1, h2.1, h2.2]
  rfl

/-- The token that `slice` cuts at a blank, at the end of the text. -/
theorem slice_blank_end (ws tok : List Char)
    (hws : ∀ c ∈ ws, 0 < c.toNat ∧ c.toNat ≤ 32)
    (htok : ∀ c ∈ tok, ¬ c.toNat ≤ 32) :
    slice (ws ++ tok) (-1) = (tok, []) := by
  have h1 := dropWhile_append_stop (fun c => decide (0 < c.toNat ∧ c.toNat ≤ 32)) ws
    tok (fun c hc => by simpa using hws c hc)
    (fun c hc => by
      have := htok c (List.mem_of_mem_head? hc)
      simp only [decide_eq_false_iff_not, not_and]
      intro _
      exact this)
  have h2 := dropWhile_append_stop (fun c => decide (¬ c.toNat ≤ 32)) tok []
    (fun c hc => by simpa using htok c hc) (fun c hc => by simp at hc)
  rw [List.append_nil] at h2
  unfold slice
  rw [if_pos (by omega), h1.1, h2.1, h2.2]
  rfl

/-! ## Numbers of the capture parser -/

theorem isDigit_range (c : Char) : c.isDigit = true ↔ 48 ≤ c.toNat ∧ c.toNat ≤ 57 := by
  simp only [Char.isDigit, Bool.and_eq_true, decide_eq_true_eq]
  exact Iff.rfl

theorem digit_value_dec (c : Char) (h : c.isDigit = true) :
    digit_value 10 c = some (c.toNat - 48) := by
  have h1 : 48 ≤ c.toNat ∧ c.toNat ≤ 57 := (isDigit_range c).1 h
  unfold digit_value
  rw [if_pos h1, if_pos (by omega)]

theorem digit_value_not_dec (c : Char) (h : c.isDigit = false) : digit_value 10 c = none := by
  have h1 : ¬ (48 ≤ c.toNat ∧ c.toNat ≤ 57) := by
    intro hc
    rw [(isDigit_range c).2 hc] at h
    cases h
  unfold digit_value
  rw [if_neg h1]
  split
  · rw [if_neg (by omega)]
  · split
    · rw [if_neg (by omega)]
    · rfl

theorem foldl_digit_dec (ds : List Char) (h : ∀ c ∈ ds, c.isDigit = true) (acc : Nat) :
    ds.foldl (fun acc c => acc * 10 + (digit_value 10 c).getD 0) acc
      = ds.foldl (fun acc c => acc * 10 + (c.toNat - 48)) acc := by
  induction ds generalizing acc with
  | nil => rfl
  | cons d ds ih =>
    rw [List.foldl_cons, List.foldl_cons, digit_value_dec d (h d (List.mem_cons_self _ _))]
    exact ih (fun c hc => h c (List.mem_cons_of_mem _ hc)) _

/-- The digits that `strtoul` reads in base 10 from a numeral followed by
something that is not a digit. -/
theorem strto_digits_dec (ds junk : List Char) (h : ∀ c ∈ ds, c.isDigit = true)
    (hj : ∀ c, junk.head? = some c → c.isDigit = false) :
    strto_digits 10 (ds ++ junk) = parse_dec ds := by
  unfold strto_digits parse_dec
  have h1 := dropWhile_append_stop (fun c => (digit_value 10 c).isSome) ds junk
    (fun c hc => by simp only [digit_value_dec c (h c hc)]; rfl)
    (fun c hc => by simp only [digit_value_not_dec c (hj c hc)]; rfl)
  rw [h1.2]
  exact foldl_digit_dec ds h 0

theorem fmt_u_isDigit (n : Nat) : ∀ c ∈ fmt_u n, c.isDigit = true :=
  dec_digits_isDigit _ _

theorem fmt_u_ne_nil (n : Nat) : fmt_u n ≠ [] := by
  unfold fmt_u dec_digits
  split
  · simp
  · simp

theorem parse_dec_fmt_u (n : Nat) : parse_dec (fmt_u n) = n :=
  parse_dec_digits _ _ (by omega)

theorem isDigit_not_space (c : Char) (h : c.isDigit = true) :
    c_isspace c = false ∧ c ≠ '-' ∧ c ≠ '+' ∧ ¬ c.toNat ≤ 32 ∧ c ≠ 'x' ∧ c ≠ 'X' := by
  have h1 : 48 ≤ c.toNat ∧ c.toNat ≤ 57 := (isDigit_range c).1 h
  refine ⟨?_, ?_, ?_, by omega, ?_, ?_⟩
  · unfold c_isspace
    simp only [decide_eq_false_iff_not]
    omega
  · rintro rfl; revert h1; decide
  · rintro rfl; revert h1; decide
  · rintro rfl; revert h1; decide
  · rintro rfl; revert h1; decide

/-- The sign and the digits that `strtoul` and `strtol` find in a text that
starts with a decimal digit, for base 10. -/
theorem strto_subject_dec (d : Char) (s : List Char) (h : d.isDigit = true) :
    strto_subject (d :: s) 10 = (false, d :: s) := by
  obtain ⟨h1, h2, h3, -⟩ := isDigit_not_space d h
  unfold strto_subject
  rw [List.dropWhile_cons, h1]
  simp only [Bool.false_eq_true, if_false]
  split
  · rename_i heq
    exact absurd (List.cons.inj heq).1 h2
  · rename_i heq
    exact absurd (List.cons.inj heq).1 h3
  · rw [if_neg (by omega)]

/-- The value that `strtoul` reads from the decimal numeral of `v` followed by
something that is not a digit: `v` itself when it fits. -/
theorem strtoul_fmt_u (U v : Nat) (junk : List Char) (hv : v < U)
    (hj : ∀ c, junk.head? = some c → c.isDigit = false) :
    strtoul U (fmt_u v ++ junk) 10 = v := by
  have hne := fmt_u_ne_nil v
  have hd := fmt_u_isDigit v
  cases hf : fmt_u v with
  | nil => exact absurd hf hne
  | cons d ds =>
    have hsub : strto_subject (fmt_u v ++ junk) 10 = (false, fmt_u v ++ junk) := by
      rw [hf, List.cons_append]
      exact strto_subject_dec d _ (hd d (by rw [hf]; exact List.mem_cons_self _ _))
    have hval : strto_digits 10 (fmt_u v ++ junk) = v := by
      rw [strto_digits_dec _ _ hd hj, parse_dec_fmt_u]
    unfold strtoul
    rw [← hf, hsub]
    simp only [hval, Bool.false_eq_true, if_false]
    rw [if_neg (by omega)]

/-! ## Mappings of a process -/

/-- C25 (counterexample): a bracketed path whose content has 40 bytes gets a
type of 31 bytes, which is not the bracket content. -/
theorem mapping_type_truncated :
    ∃ m, (smapsproc_add_mapping 0 {} 0 0 "rw-p".data 0 "00:00".data 0
        (some long_path)).smapsproc_mapplist = [m] ∧
      bracket_content long_path = List.replicate 40 'a' ∧
      m.smapsmapp_map.type = String.mk (List.replicate 31 'a') ∧
      m.smapsmapp_map.type.data ≠ bracket_content long_path :=
  ⟨_, rfl, by decide, by decide, by decide⟩

theorem mapping_path_eq (path : Option (List Char)) :
    (if path = none ∨ path = some [] then "[anon]".data else path.getD []) = mapping_path path := by
  cases path with
  | none => rfl
  | some p =>
    cases p with
    | nil => rfl
    | cons c p => simp [mapping_path]

theorem smapsproc_add_mapping_eq (uid : Int) (self : smapsproc_t) (head tail : Nat)
    (prot : List Char) (offs : Nat) (node : List Char) (flgs : Nat)
    (path : Option (List Char)) :
    smapsproc_add_mapping uid self head tail prot offs node flgs path =
      { self with smapsproc_mapplist := self.smapsproc_mapplist ++ [
        { smapsmapp_uid := uid
          smapsmapp_map :=
            { head := head, tail := tail, offs := offs, flgs := flgs,
              prot := String.mk prot, node := String.mk node,
              path := String.mk (mapping_path path),
              type :=
                match mapping_path path with
                | '[' :: rest => String.mk (((rest.takeWhile (fun c => c ≠ ']'))).take 31)
                | _ => if 'x' ∈ prot then "code" else "data" } }] } := by
  unfold smapsproc_add_mapping
  rw [mapping_path_eq]

/-- C25: mapping category.  The mapping that `smapsproc_add_mapping` appends
to the list of the process has, with an absent or empty path replaced by
`[anon]`: for a path that starts with `[`, as type the first 31 bytes of the
bracket content (the text after `[` up to the first `]`), which is the whole
content when that has at most 31 bytes; otherwise the type `code` when the
protection string contains `x` and `data` when it does not.  An absent or
empty path gives the type `anon`. -/
theorem mapping_category (uid : Int) (self : smapsproc_t) (head tail : Nat)
    (prot : List Char) (offs : Nat) (node : List Char) (flgs : Nat)
    (path : Option (List Char)) :
    ∃ m, (smapsproc_add_mapping uid self head tail prot offs node flgs
        path).smapsproc_mapplist = self.smapsproc_mapplist ++ [m] ∧
      ((mapping_path path).head? = some '[' →
        m.smapsmapp_map.type.data = (bracket_content (mapping_path path)).take 31 ∧
        ((bracket_content (mapping_path path)).length ≤ 31 →
          m.smapsmapp_map.type.data = bracket_content (mapping_path path))) ∧
      ((mapping_path path).head? ≠ some '[' →
        ('x' ∈ prot → m.smapsmapp_map.type = "code") ∧
        ('x' ∉ prot → m.smapsmapp_map.type = "data")) ∧
      (path = none ∨ path = some [] → m.smapsmapp_map.type = "anon") := by
  rw [smapsproc_add_mapping_eq]
  refine ⟨_, rfl, ?_, ?_, ?_⟩
  · intro h
    cases hp : mapping_path path with
    | nil => rw [hp] at h; cases h
    | cons c rest =>
      rw [hp] at h
      simp only [List.head?_cons, Option.some.injEq] at h
      subst h
      refine ⟨rfl, fun hl => ?_⟩
      exact List.take_of_length_le hl
  · intro h
    cases hp : mapping_path path with
    | nil =>
      simp only
      constructor
      · intro hx; rw [if_pos hx]
      · intro hx; rw [if_neg hx]
    | cons c rest =>
      rw [hp] at h
      have hc : c ≠ '[' := by
        intro hc
        exact h (by rw [hc]; rfl)
      constructor
      · intro hx
        split
        · rename_i heq
          exact absurd (List.cons.inj heq).1 hc
        · rw [if_pos hx]
      · intro hx
        split
        · rename_i heq
          exact absurd (List.cons.inj heq).1 hc
        · rw [if_neg hx]
  · intro h
    have : mapping_path path = "[anon]".data := by
      rcases h with rfl | rfl <;> rfl
    rw [this]
    rfl

/-- C26 (counterexample): for the path `[stack]` the path stored is `[stack]`
with its brackets, not the bracket content `stack`, which is stored as the
type. -/
theorem mapping_path_brackets :
    ∃ m, (smapsproc_add_mapping 0 {} 0 0 "rw-p".data 0 "00:00".data 0
        (some "[stack]".data)).smapsproc_mapplist = [m] ∧
      m.smapsmapp_map.path = "[stack]" ∧ m.smapsmapp_map.path ≠ "stack" ∧
      bracket_content "[stack]".data = "stack".data ∧ m.smapsmapp_map.type = "stack" :=
  ⟨_, rfl, by decide, by decide, by decide, by decide⟩

/-- C26: the path of a mapping.  The mapping that `smapsproc_add_mapping`
appends stores the path it is given as it is, so a bracketed name such as
`[stack]` is stored with its brackets (`[anon]` is stored for an absent or
empty path); the bracket content is stored as the type of the mapping (its
first 31 bytes), not as its path. -/
theorem mapping_path_stored (uid : Int) (self : smapsproc_t) (head tail : Nat)
    (prot : List Char) (offs : Nat) (node : List Char) (flgs : Nat)
    (path : Option (List Char)) :
    ∃ m, (smapsproc_add_mapping uid self head tail prot offs node flgs
        path).smapsproc_mapplist = self.smapsproc_mapplist ++ [m] ∧
      m.smapsmapp_map.path.data = mapping_path path ∧
      (∀ content : List Char, path = some ('[' :: (content ++ [']'])) →
        m.smapsmapp_map.path.data = '[' :: (content ++ [']']) ∧
        m.smapsmapp_map.path.data ≠ content ∧
        (']' ∉ content → m.smapsmapp_map.type.data = content.take 31)) := by
  rw [smapsproc_add_mapping_eq]
  refine ⟨_, rfl, rfl, ?_⟩
  rintro content rfl
  refine ⟨rfl, ?_, ?_⟩
  · intro h
    have := congrArg List.length h
    simp [mapping_path] at this
    omega
  · intro hc
    simp only [mapping_path]
    have h1 := dropWhile_append_stop (fun c => decide (c ≠ ']')) content [']']
      (fun c hcm => by
        simp only [decide_eq_true_eq]
        rintro rfl
        exact hc hcm)
      (fun c hcm => by
        simp only [List.head?_cons, Option.some.injEq] at hcm
        subst hcm
        simp)
    show (List.take 31 (List.takeWhile (fun c => decide (c ≠ ']')) (content ++ [']'])))
      = List.take 31 content
    rw [h1.2]

/-! ## Processes of a snapshot -/

/-- The search loop of `smapssnap_add_process` finds the last record with the
pid among the first `n`, and none when there is none. -/
theorem smapssnap_find_process_spec (l : List smapsproc_t) (pid : Int) (n : Nat)
    (hn : n ≤ l.length) :
    (∀ i, smapssnap_find_process l pid n = some i →
      i < n ∧ (∃ proc, l[i]? = some proc ∧ proc.smapsproc_pid.Pid = pid) ∧
      ∀ j proc, i < j → j < n → l[j]? = some proc → proc.smapsproc_pid.Pid ≠ pid) ∧
    (smapssnap_find_process l pid n = none →
      ∀ j proc, j < n → l[j]? = some proc → proc.smapsproc_pid.Pid ≠ pid) := by
  induction n with
  | zero =>
    refine ⟨fun i h => ?_, fun _ j proc hj => by omega⟩
    simp [smapssnap_find_process] at h
  | succ n ih =>
    obtain ⟨ih1, ih2⟩ := ih (by omega)
    have hlt : n < l.length := by omega
    unfold smapssnap_find_process
    rw [List.getElem?_eq_getElem hlt]
    simp only
    by_cases hp : l[n].smapsproc_pid.Pid = pid
    · rw [if_pos hp]
      refine ⟨fun i h => ?_, fun h => by cases h⟩
      have hi : n = i := Option.some.inj h
      subst hi
      exact ⟨by omega, ⟨_, List.getElem?_eq_getElem hlt, hp⟩, fun j proc h1 h2 => by omega⟩
    · rw [if_neg hp]
      refine ⟨fun i h => ?_, fun h j proc hj hjp => ?_⟩
      · obtain ⟨a, b, c⟩ := ih1 i h
        refine ⟨by omega, b, fun j proc h1 h2 hjp => ?_⟩
        by_cases hjn : j = n
        · subst hjn
          rw [List.getElem?_eq_getElem hlt] at hjp
          rw [← Option.some.inj hjp]
          exact hp
        · exact c j proc h1 (by omega) hjp
      · by_cases hjn : j = n
        · subst hjn
          rw [List.getElem?_eq_getElem hlt] at hjp
          rw [← Option.some.inj hjp]
          exact hp
        · exact ih2 h j proc (by omega) hjp

theorem smapssnap_find_process_last (l : List smapsproc_t) (proc : smapsproc_t) :
    smapssnap_find_process (l ++ [proc]) proc.smapsproc_pid.Pid (l ++ [proc]).length
      = some l.length := by
  rw [List.length_append, List.length_singleton]
  unfold smapssnap_find_process
  rw [List.getElem?_append_right (le_refl _)]
  simp

/-- C27: process lookup-or-create.  `smapssnap_add_process` returns a record
of the process list whose `Pid` is the pid asked for.  When the list holds
such a record, the last one is returned and the snapshot and the counter of
`smapsproc_ctor` stay as they are.  Otherwise exactly one record is appended
and returned: name `<noname>`, the pid, `PPid`, `Threads` and the eight `Vm`
fields 0, the ids `-1`, no mapping, no parent and no child; the rest of the
snapshot is unchanged.  A second call with the same pid returns the same
record and changes nothing. -/
theorem add_process_idempotent (uid : Int) (self : smapssnap_t) (pid : Int) :
    (∃ proc, (smapssnap_add_process uid self pid).1.smapssnap_proclist[
        (smapssnap_add_process uid self pid).2.1]? = some proc ∧
      proc.smapsproc_pid.Pid = pid) ∧
    ((∃ proc ∈ self.smapssnap_proclist, proc.smapsproc_pid.Pid = pid) →
      (smapssnap_add_process uid self pid).1 = self ∧
      (smapssnap_add_process uid self pid).2.2 = uid ∧
      self.smapssnap_proclist[(smapssnap_add_process uid self pid).2.1]?.isSome = true) ∧
    ((¬ ∃ proc ∈ self.smapssnap_proclist, proc.smapsproc_pid.Pid = pid) →
      (smapssnap_add_process uid self pid).1 =
        { self with smapssnap_proclist := self.smapssnap_proclist ++ [
          { smapsproc_uid := uid, smapsproc_AID := -1, smapsproc_PID := -1,
            smapsproc_pid := { Name := "<noname>", Pid := pid, PPid := 0, Threads := 0,
                               VmSize := 0, VmLck := 0, VmRSS := 0, VmData := 0, VmStk := 0,
                               VmExe := 0, VmLib := 0, VmPTE := 0 },
            smapsproc_mapplist := [], smapsproc_parent := none,
            smapsproc_children := [] }] } ∧
      (smapssnap_add_process uid self pid).2.1 = self.smapssnap_proclist.length ∧
      (smapssnap_add_process uid self pid).2.2 = uid + 1) ∧
    smapssnap_add_process (smapssnap_add_process uid self pid).2.2
        (smapssnap_add_process uid self pid).1 pid
      = smapssnap_add_process uid self pid := by
  obtain ⟨f1, f2⟩ := smapssnap_find_process_spec self.smapssnap_proclist pid
    self.smapssnap_proclist.length (le_refl _)
  cases hf : smapssnap_find_process self.smapssnap_proclist pid self.smapssnap_proclist.length with
  | some i =>
    obtain ⟨a, ⟨proc, b1, b2⟩, -⟩ := f1 i hf
    have heq : smapssnap_add_process uid self pid = (self, i, uid) := by
      unfold smapssnap_add_process
      rw [hf]
    rw [heq]
    refine ⟨⟨proc, b1, b2⟩, fun _ => ⟨rfl, rfl, by simp [b1]⟩, fun hno => ?_, ?_⟩
    · exact absurd ⟨proc, mem_of_getElem? _ _ _ b1, b2⟩ hno
    · exact heq
  | none =>
    have hno := f2 hf
    have heq : smapssnap_add_process uid self pid =
        ({ self with smapssnap_proclist := self.smapssnap_proclist ++ [
          { smapsproc_uid := uid, smapsproc_AID := -1, smapsproc_PID := -1,
            smapsproc_pid := { Name := "<noname>", Pid := pid, PPid := 0, Threads := 0,
                               VmSize := 0, VmLck := 0, VmRSS := 0, VmData := 0, VmStk := 0,
                               VmExe := 0, VmLib := 0, VmPTE := 0 },
            smapsproc_mapplist := [], smapsproc_parent := none,
            smapsproc_children := [] }] },
         self.smapssnap_proclist.length, uid + 1) := by
      unfold smapssnap_add_process
      rw [hf]
    rw [heq]
    refine ⟨⟨_, List.getElem?_concat_length _ _, rfl⟩, fun hex => ?_,
      fun _ => ⟨rfl, rfl, rfl⟩, ?_⟩
    · obtain ⟨proc, hm, hp⟩ := hex
      obtain ⟨j, hj, rfl⟩ := List.mem_iff_getElem.mp hm
      exact absurd hp (hno j _ hj (List.getElem?_eq_getElem hj))
    · simp only
      unfold smapssnap_add_process
      simp only
      have := smapssnap_find_process_last self.smapssnap_proclist
        { smapsproc_uid := uid, smapsproc_AID := -1, smapsproc_PID := -1,
          smapsproc_pid := { Name := "<noname>", Pid := pid, PPid := 0, Threads := 0,
                             VmSize := 0, VmLck := 0, VmRSS := 0, VmData := 0, VmStk := 0,
                             VmExe := 0, VmLib := 0, VmPTE := 0 },
          smapsproc_mapplist := [], smapsproc_parent := none,
          smapsproc_children := [] }
      simp only at this
      rw [this]

/-! ## Counter lines -/

/-- C28 (counterexample): in the line `Size : 4` the key is followed by a blank
before the delimiter; the key token is then `Size ` with the blank, which
`meminfo_parse` does not know, and the record stays as it is. -/
theorem counter_key_blank :
    (slice "Size : 4".data 58).1 = "Size ".data ∧
    (meminfo_parse 18446744073709551616 [] ({} : meminfo_t) "Size : 4".data).1
      = ({} : meminfo_t) ∧
    (meminfo_parse 18446744073709551616 [] ({} : meminfo_t) "Size : 4".data).1.Size
      ≠ 4 % UINT_MOD := by
  have h : (slice "Size : 4".data 58).1 = "Size ".data := by decide
  have hs : ∀ s : meminfo_t,
      (meminfo_parse 18446744073709551616 [] s "Size : 4".data).1 = s := by
    intro s
    unfold meminfo_parse
    rw [h]
    rfl
  refine ⟨h, hs _, ?_⟩
  rw [hs]
  decide

theorem counter_key_token (K : counter_t) :
    (∀ c, (K.key.data ++ [':']).head? = some c → ¬ (0 < c.toNat ∧ c.toNat ≤ 32)) ∧
    (∀ c ∈ K.key.data, c ≠ ':') := by
  cases K <;> exact ⟨by decide, by decide⟩

/-- The two tokens of a counter line. -/
theorem counter_line_tokens (key val ws1 ws2 rest : List Char)
    (hk1 : ∀ c, (key ++ [':']).head? = some c → ¬ (0 < c.toNat ∧ c.toNat ≤ 32))
    (hk2 : ∀ c ∈ key, c ≠ ':')
    (h1 : ∀ c ∈ ws1, 0 < c.toNat ∧ c.toNat ≤ 32)
    (h2 : ∀ c ∈ ws2, 0 < c.toNat ∧ c.toNat ≤ 32)
    (hv : ∀ c ∈ val, ¬ c.toNat ≤ 32) (hne : val ≠ [])
    (hrest : ∀ c, rest.head? = some c → c.toNat ≤ 32) :
    (slice (ws1 ++ key ++ ':' :: (ws2 ++ val ++ rest)) 58).1 = key ∧
    (slice (slice (ws1 ++ key ++ ':' :: (ws2 ++ val ++ rest)) 58).2 (-1)).1 = val := by
  have e1 := slice_sep ws1 key (ws2 ++ val ++ rest) ':' h1 hk1 hk2
  have e1b : slice (ws1 ++ key ++ ':' :: (ws2 ++ val ++ rest)) 58 = (key, ws2 ++ val ++ rest) := e1
  rw [e1b]
  refine ⟨rfl, ?_⟩
  cases rest with
  | nil =>
    rw [List.append_nil, slice_blank_end ws2 val h2 hv]
  | cons b rest =>
    rw [slice_blank ws2 val rest b h2 hv hne (hrest b rfl)]

/-- C28: counter-line tokenization.  For each of the six keys `K` and every
value `v` that `strtoul` can hold, `meminfo_parse` applied to a line made of
blanks (bytes `1 .. 32`), the key `K` directly followed by the delimiter `:`,
blanks, the decimal numeral of `v`, text attached to it that does not start
with a digit (such as nothing, or `kB`), and a rest that starts with a blank,
sets the field `K` to `v` modulo `2 ^ 32`, leaves the other five fields as
they are, and reports no unknown key. -/
theorem counter_line_parsed (ULONG_MOD : Nat) (unkn : List String) (self : meminfo_t)
    (K : counter_t) (v : Nat) (ws1 ws2 junk rest : List Char) (hv : v < ULONG_MOD)
    (h1 : ∀ c ∈ ws1, 0 < c.toNat ∧ c.toNat ≤ 32)
    (h2 : ∀ c ∈ ws2, 0 < c.toNat ∧ c.toNat ≤ 32)
    (hj : ∀ c ∈ junk, ¬ c.toNat ≤ 32)
    (hjd : ∀ c, junk.head? = some c → c.isDigit = false)
    (hrest : ∀ c, rest.head? = some c → c.toNat ≤ 32) :
    (meminfo_parse ULONG_MOD unkn self
      (ws1 ++ K.key.data ++ ':' :: (ws2 ++ (fmt_u v ++ junk) ++ rest))).1.field K
        = v % UINT_MOD ∧
    (∀ K2, K2 ≠ K → (meminfo_parse ULONG_MOD unkn self
      (ws1 ++ K.key.data ++ ':' :: (ws2 ++ (fmt_u v ++ junk) ++ rest))).1.field K2
        = self.field K2) ∧
    (meminfo_parse ULONG_MOD unkn self
      (ws1 ++ K.key.data ++ ':' :: (ws2 ++ (fmt_u v ++ junk) ++ rest))).2 = (unkn, []) := by
  have hval : ∀ c ∈ fmt_u v ++ junk, ¬ c.toNat ≤ 32 := by
    intro c hc
    rcases List.mem_append.mp hc with h | h
    · exact (isDigit_not_space c (fmt_u_isDigit v c h)).2.2.2.1
    · exact hj c h
  have hne : fmt_u v ++ junk ≠ [] := by
    intro h
    exact fmt_u_ne_nil v (List.append_eq_nil.mp h).1
  obtain ⟨e1, e2⟩ := counter_line_tokens K.key.data (fmt_u v ++ junk) ws1 ws2 rest
    (counter_key_token K).1 (counter_key_token K).2 h1 h2 hval hne hrest
  have e3 := strtoul_fmt_u ULONG_MOD v junk hv hjd
  unfold meminfo_parse
  rw [e1, e2, e3]
  cases K
  · refine ⟨?_, ?_, ?_⟩
    · rfl
    · intro K2 hK2; cases K2 <;> first | rfl | exact absurd rfl hK2
    · rfl
  · refine ⟨?_, ?_, ?_⟩
    · rfl
    · intro K2 hK2; cases K2 <;> first | rfl | exact absurd rfl hK2
    · rfl
  · refine ⟨?_, ?_, ?_⟩
    · rfl
    · intro K2 hK2; cases K2 <;> first | rfl | exact absurd rfl hK2
    · rfl
  · refine ⟨?_, ?_, ?_⟩
    · rfl
    · intro K2 hK2; cases K2 <;> first | rfl | exact absurd rfl hK2
    · rfl
  · refine ⟨?_, ?_, ?_⟩
    · rfl
    · intro K2 hK2; cases K2 <;> first | rfl | exact absurd rfl hK2
    · rfl
  · refine ⟨?_, ?_, ?_⟩
    · rfl
    · intro K2 hK2; cases K2 <;> first | rfl | exact absurd rfl hK2
    · rfl

/-- C28 (witness): the line `  Rss:   36 kB` on a platform with 32 bit
`unsigned long`. -/
theorem counter_line_parsed_witness :
    ((36 : Nat) < 4294967296 ∧
     (∀ c ∈ [' ', ' '], 0 < c.toNat ∧ c.toNat ≤ 32) ∧
     (∀ c ∈ [' ', ' ', ' '], 0 < c.toNat ∧ c.toNat ≤ 32) ∧
     (∀ c ∈ ([] : List Char), ¬ c.toNat ≤ 32) ∧
     (∀ c, ([] : List Char).head? = some c → c.isDigit = false) ∧
     (∀ c, " kB".data.head? = some c → c.toNat ≤ 32)) ∧
    ((meminfo_parse 4294967296 [] {}
      ([' ', ' '] ++ counter_t.Rss.key.data ++
        ':' :: ([' ', ' ', ' '] ++ (fmt_u 36 ++ []) ++ " kB".data))).1.field counter_t.Rss
        = 36 % UINT_MOD ∧
    (∀ K2, K2 ≠ counter_t.Rss → (meminfo_parse 4294967296 [] {}
      ([' ', ' '] ++ counter_t.Rss.key.data ++
        ':' :: ([' ', ' ', ' '] ++ (fmt_u 36 ++ []) ++ " kB".data))).1.field K2
        = ({} : meminfo_t).field K2) ∧
    (meminfo_parse 4294967296 [] {}
      ([' ', ' '] ++ counter_t.Rss.key.data ++
        ':' :: ([' ', ' ', ' '] ++ (fmt_u 36 ++ []) ++ " kB".data))).2 = ([], [])) :=
  ⟨⟨by decide, by decide, by decide, by simp, by simp, by decide⟩,
    counter_line_parsed 4294967296 [] {} counter_t.Rss 36 [' ', ' '] [' ', ' ', ' '] []
      " kB".data (by decide) (by decide) (by decide) (by simp) (by simp) (by decide)⟩

/-! ## Unknown keys -/

theorem meminfo_key_known (k : List Char) :
    String.mk k ∈ meminfo_keys ↔
      (k = "Size".data ∨ k = "Rss".data ∨ k = "Shared_Clean".data ∨ k = "Shared_Dirty".data ∨
        k = "Private_Clean".data ∨ k = "Private_Dirty".data) := by
  simp only [meminfo_keys, List.mem_cons, List.mem_singleton, List.not_mem_nil, or_false,
    String.ext_iff]

theorem pidinfo_key_known (k : List Char) :
    String.mk k ∈ pidinfo_keys ↔
      (k = "Name".data ∨ k = "Pid".data ∨ k = "PPid".data ∨ k = "Threads".data ∨
        k = "VmSize".data ∨ k = "VmLck".data ∨ k = "VmRSS".data ∨ k = "VmData".data ∨
        k = "VmStk".data ∨ k = "VmExe".data ∨ k = "VmLib".data ∨ k = "VmPTE".data) := by
  simp only [pidinfo_keys, List.mem_cons, List.mem_singleton, List.not_mem_nil, or_false,
    String.ext_iff]

/-- What `meminfo_parse` does with the vector of unknown keys and with
`stderr`. -/
theorem meminfo_parse_unknown (ULONG_MOD : Nat) (unkn : List String) (self : meminfo_t)
    (line : List Char) :
    (line_key line ∈ meminfo_keys →
      (meminfo_parse ULONG_MOD unkn self line).2 = (unkn, [])) ∧
    (line_key line ∉ meminfo_keys →
      (meminfo_parse ULONG_MOD unkn self line).1 = self ∧
      (meminfo_parse ULONG_MOD unkn self line).2.1 = (unknown_add unkn (line_key line)).1 ∧
      (meminfo_parse ULONG_MOD unkn self line).2.2 =
        if (unknown_add unkn (line_key line)).2 ≠ 0 then
          [unknown_message "meminfo_parse" (line_key line)
            (String.mk (slice (slice line 58).2 (-1)).1)]
        else []) := by
  unfold line_key
  rw [meminfo_key_known]
  unfold meminfo_parse
  constructor
  · intro h
    split_ifs <;> first | rfl | (exfalso; tauto)
  · intro h
    simp only [not_or] at h
    rw [if_neg h.1, if_neg h.2.1, if_neg h.2.2.1, if_neg h.2.2.2.1, if_neg h.2.2.2.2.1,
      if_neg h.2.2.2.2.2]
    exact ⟨rfl, rfl, rfl⟩

theorem pidinfo_parse_unknown (ULONG_MOD : Nat) (unkn : List String) (self : pidinfo_t)
    (line : List Char) (h : line_key line ∉ pidinfo_keys) :
    (pidinfo_parse ULONG_MOD unkn self line).1 = self ∧
    (pidinfo_parse ULONG_MOD unkn self line).2.1 = (unknown_add unkn (line_key line)).1 ∧
    (pidinfo_parse ULONG_MOD unkn self line).2.2 =
      if (unknown_add unkn (line_key line)).2 ≠ 0 then
        [unknown_message "pidinfo_parse" (line_key line)
          (String.mk (slice (slice line 58).2 (-1)).1)]
      else [] := by
  unfold line_key at h ⊢
  rw [pidinfo_key_known] at h
  simp only [not_or] at h
  unfold pidinfo_parse
  rw [if_neg h.1, if_neg h.2.1, if_neg h.2.2.1, if_neg h.2.2.2.1, if_neg h.2.2.2.2.1,
    if_neg h.2.2.2.2.2.1, if_neg h.2.2.2.2.2.2.1, if_neg h.2.2.2.2.2.2.2.1,
    if_neg h.2.2.2.2.2.2.2.2.1, if_neg h.2.2.2.2.2.2.2.2.2.1, if_neg h.2.2.2.2.2.2.2.2.2.2.1,
    if_neg h.2.2.2.2.2.2.2.2.2.2.2]
  exact ⟨rfl, rfl, rfl⟩

theorem unknown_add_spec (unkn : List String) (txt : String) :
    (txt ∈ unkn → unknown_add unkn txt = (unkn, 0)) ∧
    (txt ∉ unkn → unknown_add unkn txt = (unkn ++ [txt], 1)) ∧
    txt ∈ (unknown_add unkn txt).1 ∧
    (unknown_add (unknown_add unkn txt).1 txt) = ((unknown_add unkn txt).1, 0) := by
  unfold unknown_add
  by_cases h : txt ∈ unkn
  · simp [h]
  · simp [h]

/-- The vector of unknown keys and the diagnostics over a sequence of calls of
`meminfo_parse`. -/
theorem meminfo_parse_lines_unknown (ULONG_MOD : Nat) (lines : List (List Char))
    (st : meminfo_t × List String × List String) (hst : st.2.1.Nodup) :
    (meminfo_parse_lines ULONG_MOD lines st).2.1.Nodup ∧
    (∀ k, k ∈ (meminfo_parse_lines ULONG_MOD lines st).2.1 ↔
      k ∈ st.2.1 ∨ ∃ line ∈ lines, line_key line = k ∧ k ∉ meminfo_keys) ∧
    (meminfo_parse_lines ULONG_MOD lines st).2.2.length + st.2.1.length
      = st.2.2.length + (meminfo_parse_lines ULONG_MOD lines st).2.1.length := by
  induction lines generalizing st with
  | nil =>
    refine ⟨hst, fun k => ?_, by simp [meminfo_parse_lines]⟩
    simp [meminfo_parse_lines]
  | cons line lines ih =>
    obtain ⟨p1, p2⟩ := meminfo_parse_unknown ULONG_MOD st.2.1 st.1 line
    have hstep : meminfo_parse_lines ULONG_MOD (line :: lines) st
        = meminfo_parse_lines ULONG_MOD lines
            ((meminfo_parse ULONG_MOD st.2.1 st.1 line).1,
             (meminfo_parse ULONG_MOD st.2.1 st.1 line).2.1,
             st.2.2 ++ (meminfo_parse ULONG_MOD st.2.1 st.1 line).2.2) := rfl
    rw [hstep]
    by_cases hk : line_key line ∈ meminfo_keys
    · have e := p1 hk
      have e1 : (meminfo_parse ULONG_MOD st.2.1 st.1 line).2.1 = st.2.1 := by rw [e]
      have e2 : (meminfo_parse ULONG_MOD st.2.1 st.1 line).2.2 = [] := by rw [e]
      rw [e1, e2, List.append_nil]
      obtain ⟨i1, i2, i3⟩ := ih ((meminfo_parse ULONG_MOD st.2.1 st.1 line).1, st.2.1, st.2.2) hst
      refine ⟨i1, fun k => ?_, i3⟩
      rw [i2 k]
      constructor
      · rintro (h | ⟨l, hl, h1, h2⟩)
        · exact Or.inl h
        · exact Or.inr ⟨l, List.mem_cons_of_mem _ hl, h1, h2⟩
      · rintro (h | ⟨l, hl, h1, h2⟩)
        · exact Or.inl h
        · rcases List.mem_cons.mp hl with rfl | hl
          · exact absurd (h1 ▸ hk) h2
          · exact Or.inr ⟨l, hl, h1, h2⟩
    · obtain ⟨-, e1, e2⟩ := p2 hk
      obtain ⟨a1, a2, -, -⟩ := unknown_add_spec st.2.1 (line_key line)
      rw [e1, e2]
      by_cases hm : line_key line ∈ st.2.1
      · rw [a1 hm]
        simp only [ne_eq, not_true_eq_false, if_false, List.append_nil]
        obtain ⟨i1, i2, i3⟩ := ih ((meminfo_parse ULONG_MOD st.2.1 st.1 line).1, st.2.1, st.2.2) hst
        refine ⟨i1, fun k => ?_, i3⟩
        rw [i2 k]
        constructor
        · rintro (h | ⟨l, hl, h1, h2⟩)
          · exact Or.inl h
          · exact Or.inr ⟨l, List.mem_cons_of_mem _ hl, h1, h2⟩
        · rintro (h | ⟨l, hl, h1, h2⟩)
          · exact Or.inl h
          · rcases List.mem_cons.mp hl with rfl | hl
            · exact Or.inl (h1 ▸ hm)
            · exact Or.inr ⟨l, hl, h1, h2⟩
      · rw [a2 hm]
        simp only [ne_eq, one_ne_zero, not_false_eq_true, if_true]
        obtain ⟨i1, i2, i3⟩ := ih ((meminfo_parse ULONG_MOD st.2.1 st.1 line).1,
          st.2.1 ++ [line_key line], st.2.2 ++ [unknown_message "meminfo_parse" (line_key line)
            (String.mk (slice (slice line 58).2 (-1)).1)])
          (by
            simp only
            exact List.Nodup.append hst (List.nodup_singleton _)
              (by
                intro a ha hb
                rw [List.mem_singleton] at hb
                exact hm (hb ▸ ha)))
        refine ⟨i1, fun k => ?_, ?_⟩
        · rw [i2 k]
          simp only [List.mem_append, List.mem_singleton]
          constructor
          · rintro ((h | h) | ⟨l, hl, h1, h2⟩)
            · exact Or.inl h
            · exact Or.inr ⟨line, List.mem_cons_self _ _, h.symm, h ▸ hk⟩
            · exact Or.inr ⟨l, List.mem_cons_of_mem _ hl, h1, h2⟩
          · rintro (h | ⟨l, hl, h1, h2⟩)
            · exact Or.inl (Or.inl h)
            · rcases List.mem_cons.mp hl with rfl | hl
              · exact Or.inl (Or.inr h1.symm)
              · exact Or.inr ⟨l, hl, h1, h2⟩
        · simp only [List.length_append, List.length_singleton] at i3 ⊢
          omega

/-- C29: unknown keys are not fatal and are reported once.  A line whose key
`meminfo_parse` (or `pidinfo_parse`) does not know leaves every field of the
record as it is; `unknown_add` returns 1 for a key that the vector does not
hold, which is then added, and 0 for a key that it holds; so over any
sequence of lines given to `meminfo_parse`, starting with the empty vector,
the vector ends up with the distinct unknown keys of the lines, each once, and
the number of diagnostics printed is the number of these keys. -/
theorem unknown_reported_once (ULONG_MOD : Nat) :
    (∀ (unkn : List String) (self : meminfo_t) (line : List Char),
      line_key line ∉ meminfo_keys → (meminfo_parse ULONG_MOD unkn self line).1 = self) ∧
    (∀ (unkn : List String) (self : pidinfo_t) (line : List Char),
      line_key line ∉ pidinfo_keys → (pidinfo_parse ULONG_MOD unkn self line).1 = self) ∧
    (∀ (unkn : List String) (txt : String),
      (txt ∉ unkn → unknown_add unkn txt = (unkn ++ [txt], 1)) ∧
      (txt ∈ unkn → unknown_add unkn txt = (unkn, 0)) ∧
      unknown_add (unknown_add unkn txt).1 txt = ((unknown_add unkn txt).1, 0)) ∧
    (∀ (lines : List (List Char)) (self : meminfo_t),
      (meminfo_parse_lines ULONG_MOD lines (self, [], [])).2.1.Nodup ∧
      (∀ k, k ∈ (meminfo_parse_lines ULONG_MOD lines (self, [], [])).2.1 ↔
        ∃ line ∈ lines, line_key line = k ∧ k ∉ meminfo_keys) ∧
      (meminfo_parse_lines ULONG_MOD lines (self, [], [])).2.2.length
        = (meminfo_parse_lines ULONG_MOD lines (self, [], [])).2.1.length) := by
  refine ⟨fun unkn self line h => ((meminfo_parse_unknown ULONG_MOD unkn self line).2 h).1,
    fun unkn self line h => (pidinfo_parse_unknown ULONG_MOD unkn self line h).1,
    fun unkn txt => ?_, fun lines self => ?_⟩
  · obtain ⟨a1, a2, -, a4⟩ := unknown_add_spec unkn txt
    exact ⟨a2, a1, a4⟩
  · obtain ⟨i1, i2, i3⟩ := meminfo_parse_lines_unknown ULONG_MOD lines (self, [], [])
      List.nodup_nil
    refine ⟨i1, fun k => ?_, by simpa using i3⟩
    rw [i2 k]
    simp

/-! ## The loop of the capture parser -/

theorem smapssnap_add_process_index (uid : Int) (self : smapssnap_t) (pid : Int) :
    ∃ proc, (smapssnap_add_process uid self pid).1.smapssnap_proclist[
        (smapssnap_add_process uid self pid).2.1]? = some proc ∧
      proc.smapsproc_pid.Pid = pid := by
  obtain ⟨f1, -⟩ := smapssnap_find_process_spec self.smapssnap_proclist pid
    self.smapssnap_proclist.length (le_refl _)
  unfold smapssnap_add_process
  cases hf : smapssnap_find_process self.smapssnap_proclist pid self.smapssnap_proclist.length with
  | some i => exact (f1 i hf).2.1
  | none => exact ⟨_, List.getElem?_concat_length _ _, rfl⟩

theorem line_kind_cases (data : List Char) :
    (if data = [] then line_kind.blank
      else if data.take 3 = "==>".data then line_kind.header
      else if data.head? = some '#' then line_kind.metadata
      else if hexterm data = some '-' then line_kind.range
      else line_kind.counter) = line_kind.blank ↔ data = [] := by
  split_ifs <;> simp_all

/-- One line of the capture parser: when it fails, and what becomes of the
pointers `proc` and `mapp` when it does not. -/
theorem load_cap_line_step (ULONG_MOD : Nat) (st : load_t) (line : List Char)
    (hok : load_ok st) :
    (load_cap_line ULONG_MOD st line = none ↔
      ((line_kind_of line = line_kind.header ∧
          load_cap_header ULONG_MOD (line_data line) = none) ∨
        (line_kind_of line = line_kind.metadata ∧ st.proc.isSome = false) ∨
        (line_kind_of line = line_kind.range ∧ st.proc.isSome = false) ∨
        (line_kind_of line = line_kind.counter ∧ st.mapp.isSome = false))) ∧
    (∀ st1, load_cap_line ULONG_MOD st line = some st1 →
      load_ok st1 ∧
      st1.proc.isSome = (st.proc.isSome || decide (line_kind_of line = line_kind.header)) ∧
      st1.mapp.isSome = (if line_kind_of line = line_kind.header then false
        else if line_kind_of line = line_kind.range then true else st.mapp.isSome)) := by
  unfold load_cap_line line_kind_of line_data
  generalize line.takeWhile (fun c => decide (c ≠ '\r' ∧ c ≠ '\n')) = data
  by_cases h1 : data = []
  · simp only [h1, if_true]
    refine ⟨by simp, ?_⟩
    intro st1 h
    have : st = st1 := Option.some.inj h
    subst this
    exact ⟨hok, by simp, by simp⟩
  rw [if_neg h1, if_neg h1]
  by_cases h2 : data.take 3 = "==>".data
  · rw [if_pos h2, if_pos h2]
    cases hh : load_cap_header ULONG_MOD data with
    | none => simp
    | some pid =>
      simp only
      refine ⟨by simp, ?_⟩
      intro st1 h
      have := Option.some.inj h
      subst this
      obtain ⟨proc, hp, -⟩ := smapssnap_add_process_index st.proc_uid st.snap pid
      refine ⟨⟨?_, ?_⟩, by simp, by simp⟩
      · intro p hpp
        simp only [Option.some.injEq] at hpp
        subst hpp
        exact (List.getElem?_eq_some_iff.1 hp).1
      · intro m hm
        simp at hm
  rw [if_neg h2, if_neg h2]
  by_cases h3 : data.head? = some '#'
  · rw [if_pos h3, if_pos h3]
    cases hp : st.proc with
    | none => simp
    | some p =>
      have hlt := hok.1 p hp
      simp only
      rw [List.getElem?_eq_getElem hlt]
      simp only
      refine ⟨by simp, ?_⟩
      intro st1 h
      have := Option.some.inj h
      subst this
      refine ⟨⟨?_, ?_⟩, by simp, by simp⟩
      · intro q hq
        simp only [Option.some.injEq] at hq
        subst hq
        simpa using hlt
      · intro m hm
        obtain ⟨q, proc, a1, a2, a3⟩ := hok.2 m hm
        rw [hp] at a1
        have hqp : p = q := Option.some.inj a1
        subst hqp
        refine ⟨p, _, rfl, List.getElem?_set_self (by simpa using hlt), ?_⟩
        rw [List.getElem?_eq_getElem hlt] at a2
        rw [Option.some.inj a2]
        exact a3
  rw [if_neg h3, if_neg h3]
  by_cases h4 : hexterm data = some '-'
  · rw [if_pos h4, if_pos h4]
    cases hp : st.proc with
    | none => simp
    | some p =>
      have hlt := hok.1 p hp
      simp only
      rw [List.getElem?_eq_getElem hlt]
      simp only
      refine ⟨by simp, ?_⟩
      intro st1 h
      have := Option.some.inj h
      subst this
      refine ⟨⟨?_, ?_⟩, by simp, by simp⟩
      · intro q hq
        simp only [Option.some.injEq] at hq
        subst hq
        simpa using hlt
      · intro m hm
        simp only [Option.some.injEq] at hm
        subst hm
        refine ⟨p, _, rfl, List.getElem?_set_self (by simpa using hlt), ?_⟩
        unfold load_cap_range smapsproc_add_mapping
        simp
  rw [if_neg h4, if_neg h4]
  cases hm : st.mapp with
  | none => simp
  | some m =>
    obtain ⟨p, proc, a1, a2, a3⟩ := hok.2 m hm
    have hlt := hok.1 p a1
    rw [a1]
    simp only
    rw [a2]
    simp only
    rw [List.getElem?_eq_getElem a3]
    simp only
    refine ⟨by simp, ?_⟩
    intro st1 h
    have := Option.some.inj h
    subst this
    refine ⟨⟨?_, ?_⟩, by simp, by simp⟩
    · intro q hq
      simp only [Option.some.injEq] at hq
      subst hq
      simpa using hlt
    · intro m1 hm1
      simp only [Option.some.injEq] at hm1
      subst hm1
      refine ⟨p, _, rfl, List.getElem?_set_self (by simpa using hlt), ?_⟩
      simpa using a3

theorem has_proc_append (pre : List (List Char)) (line : List Char) :
    has_proc (pre ++ [line])
      = (has_proc pre || decide (line_kind_of line = line_kind.header)) := by
  unfold has_proc
  rw [List.foldl_append]
  rfl

theorem has_mapp_append (pre : List (List Char)) (line : List Char) :
    has_mapp (pre ++ [line])
      = (if line_kind_of line = line_kind.header then false
         else if line_kind_of line = line_kind.range then true else has_mapp pre) := by
  unfold has_mapp
  rw [List.foldl_append]
  rfl

/-- The loop of the capture parser fails exactly when it meets a fatal
line. -/
theorem load_cap_fold (ULONG_MOD : Nat) (lines pre : List (List Char)) (st : load_t)
    (hok : load_ok st) (hp : st.proc.isSome = has_proc pre)
    (hm : st.mapp.isSome = has_mapp pre) :
    lines.foldlM (load_cap_line ULONG_MOD) st = none ↔
      ∃ i line, lines[i]? = some line ∧ line_fatal ULONG_MOD (pre ++ lines.take i) line := by
  induction lines generalizing pre st with
  | nil => simp
  | cons l rest ih =>
    obtain ⟨s1, s2⟩ := load_cap_line_step ULONG_MOD st l hok
    rw [List.foldlM_cons]
    cases hstep : load_cap_line ULONG_MOD st l with
    | none =>
      simp only [Option.bind_eq_bind, Option.none_bind, true_iff]
      refine ⟨0, l, by simp, ?_⟩
      have := s1.1 hstep
      rw [hp, hm] at this
      simpa [line_fatal] using this
    | some st1 =>
      obtain ⟨k1, k2, k3⟩ := s2 st1 hstep
      simp only [Option.bind_eq_bind, Option.some_bind]
      rw [ih (pre ++ [l]) st1 k1 (by rw [k2, hp, has_proc_append])
        (by rw [k3, hm, has_mapp_append])]
      constructor
      · rintro ⟨i, line, h1, h2⟩
        refine ⟨i + 1, line, by simpa using h1, ?_⟩
        simpa using h2
      · rintro ⟨i, line, h1, h2⟩
        cases i with
        | zero =>
          exfalso
          simp only [List.getElem?_cons_zero, Option.some.injEq] at h1
          subst h1
          have hnot : ¬ (load_cap_line ULONG_MOD st l = none) := by rw [hstep]; simp
          apply hnot
          apply s1.2
          rw [hp, hm]
          simpa [line_fatal] using h2
        | succ j =>
          refine ⟨j, line, by simpa using h1, ?_⟩
          simpa using h2

theorem long_to_int_id (x : Int) (h1 : INT_MIN ≤ x) (h2 : x ≤ INT_MAX) : long_to_int x = x := by
  unfold long_to_int
  unfold INT_MIN at h1
  unfold INT_MAX at h2 ⊢
  by_cases h : 0 ≤ x
  · rw [Int.emod_eq_of_lt h (by omega), if_pos h2]
  · have : x % 4294967296 = x + 4294967296 := by omega
    rw [this, if_neg (by omega)]
    omega

/-- The value that `strtol` reads from the decimal numeral of `v` followed by
something that is not a digit: `v` itself when it fits. -/
theorem strtol_fmt_u (U v : Nat) (junk : List Char) (hv : v < U / 2)
    (hj : ∀ c, junk.head? = some c → c.isDigit = false) :
    strtol U (fmt_u v ++ junk) 10 = (v : Int) := by
  have hne := fmt_u_ne_nil v
  have hd := fmt_u_isDigit v
  cases hf : fmt_u v with
  | nil => exact absurd hf hne
  | cons d ds =>
    have hsub : strto_subject (fmt_u v ++ junk) 10 = (false, fmt_u v ++ junk) := by
      rw [hf, List.cons_append]
      exact strto_subject_dec d _ (hd d (by rw [hf]; exact List.mem_cons_self _ _))
    have hval : strto_digits 10 (fmt_u v ++ junk) = v := by
      rw [strto_digits_dec _ _ hd hj, parse_dec_fmt_u]
    unfold strtol
    rw [← hf, hsub]
    simp only [hval, Bool.false_eq_true, if_false]
    rw [if_neg (by omega)]

/-- The header line that `smapssnap_save_cap` writes is accepted with its
pid. -/
theorem load_cap_header_line (U : Nat) (pid : Int) (h0 : 0 < pid) (h1 : pid ≤ INT_MAX)
    (hU : 4294967296 ≤ U) : load_cap_header U (header_line pid) = some pid := by
  have hfd : fmt_d pid = fmt_u pid.natAbs := by
    unfold fmt_d
    rw [if_neg (by omega)]
  have hdig := fmt_u_isDigit pid.natAbs
  have e1 : slice (header_line pid) 47
      = ("==> ".data, "proc/".data ++ fmt_d pid ++ "/smaps <==".data) := by
    have := slice_sep [] "==> ".data ("proc/".data ++ fmt_d pid ++ "/smaps <==".data) '/'
      (by simp) (by decide) (by decide)
    exact this
  have e2 : slice ("proc/".data ++ fmt_d pid ++ "/smaps <==".data) 47
      = ("proc".data, fmt_d pid ++ "/smaps <==".data) := by
    have := slice_sep [] "proc".data (fmt_d pid ++ "/smaps <==".data) '/'
      (by simp) (by decide) (by decide)
    simpa using this
  have e3 : slice (fmt_d pid ++ "/smaps <==".data) 47 = (fmt_d pid, "smaps <==".data) := by
    have := slice_sep [] (fmt_d pid) "smaps <==".data '/' (by simp)
      (by
        intro c hc
        rw [hfd] at hc
        cases hf : fmt_u pid.natAbs with
        | nil => exact absurd hf (fmt_u_ne_nil _)
        | cons d ds =>
          rw [hf] at hc
          simp only [List.cons_append, List.head?_cons, Option.some.injEq] at hc
          subst hc
          have := (isDigit_not_space d (hdig d (by rw [hf]; exact List.mem_cons_self _ _))).2.2.2.1
          omega)
      (by
        intro c hc
        rw [hfd] at hc
        have := (isDigit_range c).1 (hdig c hc)
        rintro rfl
        revert this
        decide)
    simpa using this
  have e4 : slice "smaps <==".data (-1) = ("smaps".data, "<==".data) := by decide
  have hseek : load_cap_seek (header_line pid).length (header_line pid)
      = fmt_d pid ++ "/smaps <==".data := by
    obtain ⟨k, hk⟩ : ∃ k, (header_line pid).length = k + 2 := by
      refine ⟨(fmt_d pid).length + 18, ?_⟩
      simp [header_line]
    rw [hk]
    have hne : header_line pid ≠ [] := by
      intro h
      rw [h] at hk
      simp at hk
    unfold load_cap_seek
    rw [if_neg hne, e1]
    simp only
    rw [if_neg (by decide)]
    unfold load_cap_seek
    rw [if_neg (by simp), e2]
    simp only [if_true]
  have hval : strtol U (fmt_d pid) 10 = pid := by
    have := strtol_fmt_u U pid.natAbs [] (by unfold INT_MAX at h1; omega) (by simp)
    rw [List.append_nil] at this
    rw [hfd, this]
    omega
  unfold load_cap_header
  rw [hseek, e3]
  simp only
  rw [hval, long_to_int_id pid (by unfold INT_MIN; omega) h1, e4]
  simp only
  rw [if_pos ⟨h0, trivial⟩]

/-- C30: structural failures.  `smapssnap_load_cap` fails on a text exactly
when one of its lines is (a) a line that starts with `==>` and does not pass
the test of the header (after tokens cut at `/`, a token `proc`, then a token
that `strtol` reads as a pid greater than 0, then the token `smaps`), or (b) a
metadata line (starting with `#`) with no header before it, or (c) a range
line with no header before it, or (d) a counter line with no range line since
the last header; every other text is parsed to the end.  The header line
`==> /proc/<pid>/smaps <==` passes the test for every pid in `1 .. INT_MAX`,
and the one for pid 0 does not. -/
theorem load_cap_failures (ULONG_MOD : Nat) (st : load_t) (path : String) (text : List Char) :
    (smapssnap_load_cap ULONG_MOD st path text = none ↔
      ∃ i line, (text_lines text)[i]? = some line ∧
        line_fatal ULONG_MOD ((text_lines text).take i) line) ∧
    (∀ pre line, line_fatal ULONG_MOD pre line ↔
      ((line_kind_of line = line_kind.header ∧
          load_cap_header ULONG_MOD (line_data line) = none) ∨
        (line_kind_of line = line_kind.metadata ∧
          ∀ l ∈ pre, line_kind_of l ≠ line_kind.header) ∨
        (line_kind_of line = line_kind.range ∧
          ∀ l ∈ pre, line_kind_of l ≠ line_kind.header) ∨
        (line_kind_of line = line_kind.counter ∧ has_mapp pre = false))) ∧
    (∀ pre line, has_mapp (pre ++ [line]) = true ↔
      (line_kind_of line = line_kind.range ∨
        (line_kind_of line ≠ line_kind.header ∧ has_mapp pre = true))) ∧
    (∀ pid : Int, 0 < pid → pid ≤ INT_MAX → 4294967296 ≤ ULONG_MOD →
      load_cap_header ULONG_MOD (header_line pid) = some pid) ∧
    load_cap_header ULONG_MOD (header_line 0) = none := by
  have hproc : ∀ pre : List (List Char),
      has_proc pre = false ↔ ∀ l ∈ pre, line_kind_of l ≠ line_kind.header := by
    intro pre
    induction pre using List.reverseRecOn with
    | nil => simp [has_proc]
    | append_singleton pre l ih =>
      rw [has_proc_append]
      simp only [Bool.or_eq_false_iff, ih, decide_eq_false_iff_not, List.mem_append,
        List.mem_singleton]
      constructor
      · rintro ⟨h1, h2⟩ x (hx | rfl)
        · exact h1 x hx
        · exact h2
      · intro h
        exact ⟨fun x hx => h x (Or.inl hx), h l (Or.inr rfl)⟩
  refine ⟨?_, ?_, ?_, fun pid h0 h1 hU => load_cap_header_line ULONG_MOD pid h0 h1 hU, ?_⟩
  · unfold smapssnap_load_cap
    have := load_cap_fold ULONG_MOD (text_lines text) []
      { st with snap := { st.snap with smapssnap_source := path }, proc := none, mapp := none }
      ⟨fun p hp => by simp at hp, fun m hm => by simp at hm⟩ rfl rfl
    simpa using this
  · intro pre line
    unfold line_fatal
    rw [hproc]
  · intro pre line
    rw [has_mapp_append]
    by_cases h1 : line_kind_of line = line_kind.header
    · simp [h1]
    · by_cases h2 : line_kind_of line = line_kind.range
      · simp [h2]
      · simp [h1, h2]
  · have e1 : load_cap_seek (header_line 0).length (header_line 0) = "0/smaps <==".data := by
      decide
    unfold load_cap_header
    rw [e1]
    have e2 : (slice "0/smaps <==".data 47).1 = "0".data := by decide
    rw [e2]
    have e3 : strtol ULONG_MOD "0".data 10 = 0 := by
      have hs : strto_subject "0".data 10 = (false, "0".data) := by decide
      have hd : strto_digits 10 "0".data = 0 := by decide
      unfold strtol
      rw [hs]
      simp only [hd, Bool.false_eq_true, if_false]
      split
      · rename_i h
        have : ULONG_MOD / 2 = 0 := by omega
        rw [this]
        rfl
      · rfl
    rw [e3]
    rfl

/-! ## Building the hierarchy -/

/-- The search of `smapssnap_create_hierarchy` reads the `Pid` and the
identity of the records only. -/
theorem create_hierarchy_find_congr (l1 l2 : List smapsproc_t) (pid : Int)
    (h : l1.map (fun r => (r.smapsproc_pid.Pid, r.smapsproc_uid))
      = l2.map (fun r => (r.smapsproc_pid.Pid, r.smapsproc_uid)))
    (fuel : Nat) (lo hi : Int) :
    create_hierarchy_find l1 pid fuel lo hi = create_hierarchy_find l2 pid fuel lo hi := by
  have hget : ∀ i : Int, (array_get l1 i).map (fun r => (r.smapsproc_pid.Pid, r.smapsproc_uid))
      = (array_get l2 i).map (fun r => (r.smapsproc_pid.Pid, r.smapsproc_uid)) := by
    intro i
    unfold array_get
    split
    · rw [← List.getElem?_map, ← List.getElem?_map, h]
    · rfl
  induction fuel generalizing lo hi with
  | zero => rfl
  | succ fuel ih =>
    unfold create_hierarchy_find
    have hg := hget (Int.tdiv (lo + hi) 2)
    cases h1 : array_get l1 (Int.tdiv (lo + hi) 2) with
    | none =>
      rw [h1] at hg
      cases h2 : array_get l2 (Int.tdiv (lo + hi) 2) with
      | none => rfl
      | some y => rw [h2] at hg; cases hg
    | some x =>
      rw [h1] at hg
      cases h2 : array_get l2 (Int.tdiv (lo + hi) 2) with
      | none => rw [h2] at hg; cases hg
      | some y =>
        rw [h2] at hg
        simp only [Option.map_some', Option.some.injEq, Prod.mk.injEq] at hg
        simp only [hg.1, hg.2, ih]

/-- The search returns, and what it returns is a record with the pid. -/
theorem create_hierarchy_find_total (l : List smapsproc_t) (pid : Int) (fuel : Nat)
    (lo hi : Int) (hfuel : hi - lo ≤ fuel) (hlo : 0 ≤ lo) (hlen : hi ≤ l.length)
    (hmax : 2 * hi ≤ INT_MAX) :
    ∃ res, create_hierarchy_find l pid fuel lo hi = some res ∧
      ∀ u, res = some u → ∃ q ∈ l, q.smapsproc_uid = u ∧ q.smapsproc_pid.Pid = pid := by
  induction fuel generalizing lo hi with
  | zero =>
    unfold create_hierarchy_find
    rw [if_neg (by omega)]
    exact ⟨none, rfl, fun u h => by cases h⟩
  | succ fuel ih =>
    unfold create_hierarchy_find
    by_cases hlt : lo < hi
    · have hmid : Int.tdiv (lo + hi) 2 = (lo + hi) / 2 :=
        Int.tdiv_eq_ediv (by omega) (by decide)
      rw [if_pos hlt, if_pos (by unfold INT_MAX at hmax ⊢; omega), hmid]
      obtain ⟨x, hx⟩ := array_get_some l ((lo + hi) / 2) (by omega) (by omega)
      rw [hx]
      simp only
      by_cases h1 : x.smapsproc_pid.Pid > pid
      · rw [if_pos h1]
        exact ih lo ((lo + hi) / 2 + 0) (by omega) hlo (by omega) (by omega)
      · rw [if_neg h1]
        by_cases h2 : x.smapsproc_pid.Pid < pid
        · rw [if_pos h2]
          exact ih ((lo + hi) / 2 + 1) hi (by omega) (by omega) hlen hmax
        · rw [if_neg h2]
          refine ⟨_, rfl, fun u hu => ?_⟩
          have hxm : x ∈ l := by
            unfold array_get at hx
            rw [if_pos (by omega)] at hx
            exact mem_of_getElem? _ _ _ hx
          exact ⟨x, hxm, Option.some.inj hu, by omega⟩
    · rw [if_neg hlt]
      exact ⟨none, rfl, fun u h => by cases h⟩

/-- On a list in ascending order of `Pid` the search finds the pid when a
record has it. -/
theorem create_hierarchy_find_sorted (l : List smapsproc_t) (pid : Int) (fuel : Nat)
    (lo hi : Int)
    (hsorted : l.Pairwise (fun a b => a.smapsproc_pid.Pid ≤ b.smapsproc_pid.Pid))
    (hlo : 0 ≤ lo) (hlen : hi ≤ l.length)
    (hbelow : ∀ (j : Nat) x, (j : Int) < lo → l[j]? = some x → x.smapsproc_pid.Pid < pid)
    (habove : ∀ (j : Nat) x, hi ≤ (j : Int) → l[j]? = some x → pid < x.smapsproc_pid.Pid) :
    create_hierarchy_find l pid fuel lo hi = some none →
      ∀ q ∈ l, q.smapsproc_pid.Pid ≠ pid := by
  induction fuel generalizing lo hi with
  | zero =>
    unfold create_hierarchy_find
    intro h q hq
    have hge : ¬ lo < hi := by
      intro hlt
      rw [if_pos hlt] at h
      cases h
    obtain ⟨j, hj, rfl⟩ := List.mem_iff_getElem.mp hq
    by_cases hjl : (j : Int) < lo
    · have := hbelow j _ hjl (List.getElem?_eq_getElem hj)
      omega
    · have := habove j _ (by omega) (List.getElem?_eq_getElem hj)
      omega
  | succ fuel ih =>
    unfold create_hierarchy_find
    by_cases hlt : lo < hi
    · rw [if_pos hlt]
      by_cases hov : lo + hi ≤ INT_MAX
      · rw [if_pos hov]
        have hmid : Int.tdiv (lo + hi) 2 = (lo + hi) / 2 :=
          Int.tdiv_eq_ediv (by omega) (by decide)
        rw [hmid]
        cases hx : array_get l ((lo + hi) / 2) with
        | none => intro h; cases h
        | some x =>
          simp only
          have hxi : l[((lo + hi) / 2).toNat]? = some x := by
            unfold array_get at hx
            rw [if_pos (by omega)] at hx
            exact hx
          have hmlt := (List.getElem?_eq_some_iff.1 hxi).1
          by_cases h1 : x.smapsproc_pid.Pid > pid
          · rw [if_pos h1]
            apply ih lo ((lo + hi) / 2 + 0) hlo (by omega) hbelow
            intro j y hj hy
            have hjlt := (List.getElem?_eq_some_iff.1 hy).1
            by_cases hjm : j = ((lo + hi) / 2).toNat
            · subst hjm
              rw [hxi] at hy
              rw [← Option.some.inj hy]
              exact h1
            · have hlt2 : ((lo + hi) / 2).toNat < j := by omega
              have := List.pairwise_iff_getElem.1 hsorted _ _ hmlt hjlt hlt2
              rw [List.getElem?_eq_getElem hmlt] at hxi
              rw [List.getElem?_eq_getElem hjlt] at hy
              rw [Option.some.inj hxi, Option.some.inj hy] at this
              omega
          · rw [if_neg h1]
            by_cases h2 : x.smapsproc_pid.Pid < pid
            · rw [if_pos h2]
              apply ih ((lo + hi) / 2 + 1) hi (by omega) hlen ?_ habove
              intro j y hj hy
              have hjlt := (List.getElem?_eq_some_iff.1 hy).1
              by_cases hjm : j = ((lo + hi) / 2).toNat
              · subst hjm
                rw [hxi] at hy
                rw [← Option.some.inj hy]
                exact h2
              · have hlt2 : j < ((lo + hi) / 2).toNat := by omega
                have := List.pairwise_iff_getElem.1 hsorted _ _ hjlt hmlt hlt2
                rw [List.getElem?_eq_getElem hmlt] at hxi
                rw [List.getElem?_eq_getElem hjlt] at hy
                rw [Option.some.inj hxi, Option.some.inj hy] at this
                omega
            · rw [if_neg h2]
              intro h
              cases h
      · rw [if_neg hov]
        intro h
        cases h
    · rw [if_neg hlt]
      intro _ q hq
      obtain ⟨j, hj, rfl⟩ := List.mem_iff_getElem.mp hq
      by_cases hjl : (j : Int) < lo
      · have := hbelow j _ hjl (List.getElem?_eq_getElem hj)
        omega
      · have := habove j _ (by omega) (List.getElem?_eq_getElem hj)
        omega

theorem nodup_map_inj {α β : Type} (f : α → β) (l : List α) (h : (l.map f).Nodup) (a b : α)
    (ha : a ∈ l) (hb : b ∈ l) (hab : f a = f b) : a = b :=
  List.inj_on_of_nodup_map h ha hb hab

theorem take_succ_getElem {α : Type} (l : List α) (k : Nat) (h : k < l.length) :
    l.take (k + 1) = l.take k ++ [l[k]] := by
  rw [List.take_succ, List.getElem?_eq_getElem h]
  rfl

theorem built_zero (root : Int) (procs : List smapsproc_t) (r : smapsproc_t)
    (h : r.smapsproc_parent = none ∧ r.smapsproc_children = []) : built root procs 0 r = r := by
  cases r
  simp only at h
  simp [built, h.1, h.2]

/-- One iteration of the loop of `smapssnap_create_hierarchy`. -/
theorem create_hierarchy_step_built (R0 : smapsproc_t) (S : List smapsproc_t) (k : Nat)
    (hk : k < S.length) (hnd : ((R0 :: S).map (fun r => r.smapsproc_uid)).Nodup)
    (hmax : 2 * (S.length : Int) ≤ INT_MAX) :
    create_hierarchy_step ((R0 :: S).map (built R0.smapsproc_uid S k)) k
      = some ((R0 :: S).map (built R0.smapsproc_uid S (k + 1))) := by
  have htail : ((R0 :: S).map (built R0.smapsproc_uid S k)).tail
      = S.map (built R0.smapsproc_uid S k) := rfl
  have hcur : (S.map (built R0.smapsproc_uid S k))[k]?
      = some (built R0.smapsproc_uid S k S[k]) := by
    rw [List.getElem?_map, List.getElem?_eq_getElem hk]
    rfl
  have hcong := create_hierarchy_find_congr (S.map (built R0.smapsproc_uid S k)) S
    S[k].smapsproc_pid.PPid (by rw [List.map_map]; rfl) S.length 0 S.length
  obtain ⟨par, hpar, -⟩ := create_hierarchy_find_total S S[k].smapsproc_pid.PPid S.length 0
    S.length (by omega) (le_refl _) (le_refl _) hmax
  have hSk : S[k] ∈ S := List.getElem_mem _
  have hnotin : S[k].smapsproc_uid ∉ (S.take k).map (fun c => c.smapsproc_uid) := by
    intro hin
    obtain ⟨c, hc, hcu⟩ := List.mem_map.1 hin
    obtain ⟨j, hj, rfl⟩ := List.mem_iff_getElem.mp hc
    have hjk : j < k := by
      have := hj
      simp only [List.length_take] at this
      omega
    rw [List.getElem_take] at hcu
    have hnd2 : (S.map (fun r => r.smapsproc_uid)).Nodup := (List.nodup_cons.1 hnd).2
    have := List.nodup_iff_injective_get.1 hnd2
    have hj2 : j < (S.map (fun r => r.smapsproc_uid)).length := by simp; omega
    have hk2 : k < (S.map (fun r => r.smapsproc_uid)).length := by simp; omega
    have e : (S.map (fun r => r.smapsproc_uid))[j] = (S.map (fun r => r.smapsproc_uid))[k] := by
      simp only [List.getElem_map]
      exact hcu
    have := (List.Nodup.getElem_inj_iff hnd2).1 e
    omega
  have htgt : (if par = none ∨ par = some S[k].smapsproc_uid then R0.smapsproc_uid
      else par.getD 0) = hier_target R0.smapsproc_uid S S[k] := by
    unfold hier_target
    rw [hpar]
    cases par with
    | none => simp
    | some u =>
      by_cases hu : u = S[k].smapsproc_uid
      · simp [hu]
      · simp [hu]
  have key : proc_store
      (proc_store ((R0 :: S).map (built R0.smapsproc_uid S k)) S[k].smapsproc_uid
        (fun r => { r with
          smapsproc_parent := some (hier_target R0.smapsproc_uid S S[k]) }))
      (hier_target R0.smapsproc_uid S S[k])
      (fun r => { r with
        smapsproc_children := r.smapsproc_children ++ [some S[k].smapsproc_uid] })
      = (R0 :: S).map (built R0.smapsproc_uid S (k + 1)) := by
    unfold proc_store
    rw [List.map_map, List.map_map]
    apply List.map_congr_left
    intro r hr
    simp only [Function.comp]
    have hbu : (built R0.smapsproc_uid S k r).smapsproc_uid = r.smapsproc_uid := rfl
    rw [hbu]
    have htake := take_succ_getElem S k hk
    have hSk2 : S[k] ∈ R0 :: S := List.mem_cons_of_mem _ hSk
    by_cases h1 : r.smapsproc_uid = S[k].smapsproc_uid
    · have hreq : r = S[k] := nodup_map_inj _ _ hnd r S[k] hr hSk2 h1
      rw [if_pos h1]
      simp only
      subst hreq
      by_cases h2 : S[k].smapsproc_uid = hier_target R0.smapsproc_uid S S[k]
      · rw [if_pos h2]
        simp only [built, htake, List.filter_append, List.map_append, List.mem_append,
          List.mem_map, List.filter_cons, List.filter_nil]
        simp [h2.symm]
      · rw [if_neg h2]
        simp only [built, htake, List.filter_append, List.map_append, List.mem_append,
          List.mem_map, List.filter_cons, List.filter_nil]
        have h2b : ¬ hier_target R0.smapsproc_uid S S[k] = S[k].smapsproc_uid := fun h => h2 h.symm
        simp [h2b]
    · rw [if_neg h1, hbu]
      have hmem : (r.smapsproc_uid ∈ (S.take (k + 1)).map (fun c => c.smapsproc_uid)) ↔
          (r.smapsproc_uid ∈ (S.take k).map (fun c => c.smapsproc_uid)) := by
        rw [htake, List.map_append, List.mem_append]
        simp only [List.map_cons, List.map_nil, List.mem_singleton, h1, or_false]
      by_cases h2 : r.smapsproc_uid = hier_target R0.smapsproc_uid S S[k]
      · rw [if_pos h2]
        simp only [built, hmem, htake, List.filter_append, List.map_append, List.filter_cons,
          List.filter_nil]
        simp [h2.symm, h1]
      · rw [if_neg h2]
        have h2b : ¬ hier_target R0.smapsproc_uid S S[k] = r.smapsproc_uid := fun h => h2 h.symm
        simp only [built, hmem, htake, List.filter_append, List.map_append, List.filter_cons,
          List.filter_nil]
        simp [h2b, h1]
  unfold create_hierarchy_step
  rw [htail, hcur]
  simp only [List.map_cons, List.head?_cons, List.length_map]
  have hppid : (built R0.smapsproc_uid S k S[k]).smapsproc_pid.PPid
      = S[k].smapsproc_pid.PPid := rfl
  rw [hppid, hcong, hpar]
  simp only
  have hparent : (built R0.smapsproc_uid S k S[k]).smapsproc_parent = none := by
    simp only [built]
    rw [if_neg hnotin]
  rw [if_neg (by rw [hparent]; simp)]
  have huid : (built R0.smapsproc_uid S k S[k]).smapsproc_uid = S[k].smapsproc_uid := rfl
  have hruid : (built R0.smapsproc_uid S k R0).smapsproc_uid = R0.smapsproc_uid := rfl
  rw [huid, hruid, htgt]
  exact congrArg some key

/-- The loop of `smapssnap_create_hierarchy` after `k` iterations. -/
theorem create_hierarchy_fold (R0 : smapsproc_t) (S : List smapsproc_t)
    (hnd : ((R0 :: S).map (fun r => r.smapsproc_uid)).Nodup)
    (hmax : 2 * (S.length : Int) ≤ INT_MAX) (k : Nat) (hk : k ≤ S.length) :
    (List.range k).foldlM create_hierarchy_step ((R0 :: S).map (built R0.smapsproc_uid S 0))
      = some ((R0 :: S).map (built R0.smapsproc_uid S k)) := by
  induction k with
  | zero => rfl
  | succ k ih =>
    rw [List.range_succ, List.foldlM_append, ih (by omega)]
    simp only [Option.bind_eq_bind, Option.some_bind, List.foldlM_cons, List.foldlM_nil]
    rw [create_hierarchy_step_built R0 S k (by omega) hnd hmax]
    rfl

/-- The hierarchy that `smapssnap_create_hierarchy` builds on a fresh
snapshot, in closed form. -/
theorem smapssnap_create_hierarchy_eq (sort_pid : List smapsproc_t → List smapsproc_t)
    (hperm : ∀ l, (sort_pid l).Perm l) (snap : smapssnap_t) (hfresh : fresh_snap snap)
    (hmax : 2 * (snap.smapssnap_proclist.length : Int) ≤ INT_MAX) :
    smapssnap_create_hierarchy sort_pid snap = some { snap with
      smapssnap_rootproc := built snap.smapssnap_rootproc.smapsproc_uid
        (sort_pid snap.smapssnap_proclist) snap.smapssnap_proclist.length
        snap.smapssnap_rootproc
      smapssnap_proclist := (sort_pid snap.smapssnap_proclist).map
        (built snap.smapssnap_rootproc.smapsproc_uid (sort_pid snap.smapssnap_proclist)
          snap.smapssnap_proclist.length) } := by
  have hp := hperm snap.smapssnap_proclist
  have hlen : (sort_pid snap.smapssnap_proclist).length = snap.smapssnap_proclist.length :=
    hp.length_eq
  have hnd : ((snap.smapssnap_rootproc :: sort_pid snap.smapssnap_proclist).map
      (fun r => r.smapsproc_uid)).Nodup := by
    refine (List.Perm.nodup_iff ?_).2 hfresh.1
    exact (List.Perm.cons _ hp).map _
  have h0 : (snap.smapssnap_rootproc :: sort_pid snap.smapssnap_proclist).map
      (built snap.smapssnap_rootproc.smapsproc_uid (sort_pid snap.smapssnap_proclist) 0)
      = snap.smapssnap_rootproc :: sort_pid snap.smapssnap_proclist := by
    rw [List.map_congr_left (g := id), List.map_id]
    intro r hr
    apply built_zero
    apply hfresh.2
    rcases List.mem_cons.1 hr with rfl | hr
    · exact List.mem_cons_self _ _
    · exact List.mem_cons_of_mem _ (hp.subset hr)
  have hfold := create_hierarchy_fold snap.smapssnap_rootproc (sort_pid snap.smapssnap_proclist)
    hnd (by rw [hlen]; exact hmax) snap.smapssnap_proclist.length (by omega)
  rw [h0] at hfold
  unfold smapssnap_create_hierarchy
  rw [hfold]
  rfl

theorem sorts_pid_example : sorts_pid sort_pid_example := by
  intro l
  unfold sort_pid_example
  refine ⟨List.perm_insertionSort _ l, ?_⟩
  have hs := @List.sorted_insertionSort smapsproc_t
    (fun a b => decide (a.smapsproc_pid.Pid ≤ b.smapsproc_pid.Pid) = true) _
    ⟨by
      intro a b
      simp only [decide_eq_true_eq]
      omega⟩
    ⟨by
      intro a b c
      simp only [decide_eq_true_eq]
      omega⟩ l
  refine List.Pairwise.imp ?_ hs
  intro a b h
  simpa using h

/-- The parent that the loop gives a record, for a process list in ascending
order of `Pid` without a repeated pid. -/
theorem hier_target_sorted (root : Int) (S : List smapsproc_t) (p : smapsproc_t)
    (hsorted : S.Pairwise (fun a b => a.smapsproc_pid.Pid ≤ b.smapsproc_pid.Pid))
    (hpid : (S.map (fun r => r.smapsproc_pid.Pid)).Nodup)
    (hmax : 2 * (S.length : Int) ≤ INT_MAX) :
    (∀ q ∈ S, q.smapsproc_pid.Pid = p.smapsproc_pid.PPid → q.smapsproc_uid ≠ p.smapsproc_uid →
      hier_target root S p = q.smapsproc_uid) ∧
    ((¬ ∃ q ∈ S, q.smapsproc_pid.Pid = p.smapsproc_pid.PPid ∧
        q.smapsproc_uid ≠ p.smapsproc_uid) → hier_target root S p = root) := by
  obtain ⟨res, hres, hsome⟩ := create_hierarchy_find_total S p.smapsproc_pid.PPid S.length 0
    S.length (by omega) (le_refl _) (le_refl _) hmax
  have hnone := create_hierarchy_find_sorted S p.smapsproc_pid.PPid S.length 0 S.length hsorted
    (le_refl _) (le_refl _) (fun j x hj _ => by omega)
    (fun j x hj hx => by
      have := (List.getElem?_eq_some_iff.1 hx).1
      omega)
  unfold hier_target
  rw [hres]
  cases res with
  | none =>
    have hno := hnone hres
    refine ⟨fun q hq h1 _ => absurd h1 (hno q hq), fun _ => rfl⟩
  | some u =>
    obtain ⟨q1, hq1, hu, hp1⟩ := hsome u rfl
    refine ⟨fun q hq h1 h2 => ?_, fun hno => ?_⟩
    · have : q = q1 := nodup_map_inj _ _ hpid q q1 hq hq1 (by rw [h1, hp1])
      subst this
      simp only
      rw [if_neg (by rw [← hu]; exact h2), hu]
    · simp only
      by_cases h : u = p.smapsproc_uid
      · rw [if_pos h]
      · exact absurd ⟨q1, hq1, hp1, by rw [hu]; exact h⟩ hno

/-- C16: parent assignment.  For a snapshot as the capture parser leaves it
(distinct records, no parent and no child yet) whose processes have pairwise
distinct pids, `smapssnap_create_hierarchy` returns the snapshot with the
same processes, in which every process `p` has as parent the process `q`
with `q.Pid = p.PPid` when there is such a `q` other than `p` itself, and
the synthetic root otherwise.  `array_sort` is taken to sort by `Pid`; the
process list has at most `INT_MAX / 2` records, so that the binary search
does not overflow. -/
theorem parent_assignment (sort_pid : List smapsproc_t → List smapsproc_t)
    (hsort : sorts_pid sort_pid) (snap : smapssnap_t) (hfresh : fresh_snap snap)
    (hpid : (snap.smapssnap_proclist.map (fun r => r.smapsproc_pid.Pid)).Nodup)
    (hmax : 2 * (snap.smapssnap_proclist.length : Int) ≤ INT_MAX) :
    ∃ snap1, smapssnap_create_hierarchy sort_pid snap = some snap1 ∧
      snap1.smapssnap_rootproc.smapsproc_uid = snap.smapssnap_rootproc.smapsproc_uid ∧
      (snap1.smapssnap_proclist.map
          (fun p => (p.smapsproc_uid, p.smapsproc_pid, p.smapsproc_mapplist))).Perm
        (snap.smapssnap_proclist.map
          (fun p => (p.smapsproc_uid, p.smapsproc_pid, p.smapsproc_mapplist))) ∧
      ∀ p ∈ snap1.smapssnap_proclist,
        (∀ q ∈ snap1.smapssnap_proclist, q.smapsproc_pid.Pid = p.smapsproc_pid.PPid →
          q.smapsproc_uid ≠ p.smapsproc_uid → p.smapsproc_parent = some q.smapsproc_uid) ∧
        ((¬ ∃ q ∈ snap1.smapssnap_proclist, q.smapsproc_pid.Pid = p.smapsproc_pid.PPid ∧
            q.smapsproc_uid ≠ p.smapsproc_uid) →
          p.smapsproc_parent = some snap1.smapssnap_rootproc.smapsproc_uid) := by
  have hp := (hsort snap.smapssnap_proclist).1
  have hsorted := (hsort snap.smapssnap_proclist).2
  have hlen : (sort_pid snap.smapssnap_proclist).length = snap.smapssnap_proclist.length :=
    hp.length_eq
  have hpidS : ((sort_pid snap.smapssnap_proclist).map (fun r => r.smapsproc_pid.Pid)).Nodup :=
    (List.Perm.nodup_iff (hp.map _)).2 hpid
  refine ⟨_, smapssnap_create_hierarchy_eq sort_pid (fun l => (hsort l).1) snap hfresh hmax,
    rfl, ?_, ?_⟩
  · simp only [List.map_map]
    exact hp.map _
  · intro p hpm
    simp only at hpm
    obtain ⟨p0, hp0, rfl⟩ := List.mem_map.1 hpm
    obtain ⟨t1, t2⟩ := hier_target_sorted snap.smapssnap_rootproc.smapsproc_uid
      (sort_pid snap.smapssnap_proclist) p0 hsorted hpidS (by rw [hlen]; exact hmax)
    have hpar : (built snap.smapssnap_rootproc.smapsproc_uid (sort_pid snap.smapssnap_proclist)
        snap.smapssnap_proclist.length p0).smapsproc_parent
        = some (hier_target snap.smapssnap_rootproc.smapsproc_uid
            (sort_pid snap.smapssnap_proclist) p0) := by
      simp only [built]
      rw [if_pos]
      rw [← hlen, List.take_length]
      exact List.mem_map_of_mem _ hp0
    constructor
    · intro q hq h1 h2
      simp only at hq
      obtain ⟨q0, hq0, rfl⟩ := List.mem_map.1 hq
      rw [hpar]
      exact congrArg some (t1 q0 hq0 h1 h2)
    · intro hno
      rw [hpar]
      refine congrArg some (t2 ?_)
      rintro ⟨q0, hq0, h1, h2⟩
      exact hno ⟨_, List.mem_map_of_mem _ hq0, h1, h2⟩

/-- C16 (witness): the snapshot of six processes, with insertion sort as the
sorting routine. -/
theorem parent_assignment_witness :
    (sorts_pid sort_pid_example ∧ fresh_snap hier_snap ∧
      (hier_snap.smapssnap_proclist.map (fun r => r.smapsproc_pid.Pid)).Nodup ∧
      2 * (hier_snap.smapssnap_proclist.length : Int) ≤ INT_MAX) ∧
    ∃ snap1, smapssnap_create_hierarchy sort_pid_example hier_snap = some snap1 ∧
      snap1.smapssnap_rootproc.smapsproc_uid = hier_snap.smapssnap_rootproc.smapsproc_uid ∧
      (snap1.smapssnap_proclist.map
          (fun p => (p.smapsproc_uid, p.smapsproc_pid, p.smapsproc_mapplist))).Perm
        (hier_snap.smapssnap_proclist.map
          (fun p => (p.smapsproc_uid, p.smapsproc_pid, p.smapsproc_mapplist))) ∧
      ∀ p ∈ snap1.smapssnap_proclist,
        (∀ q ∈ snap1.smapssnap_proclist, q.smapsproc_pid.Pid = p.smapsproc_pid.PPid →
          q.smapsproc_uid ≠ p.smapsproc_uid → p.smapsproc_parent = some q.smapsproc_uid) ∧
        ((¬ ∃ q ∈ snap1.smapssnap_proclist, q.smapsproc_pid.Pid = p.smapsproc_pid.PPid ∧
            q.smapsproc_uid ≠ p.smapsproc_uid) →
          p.smapsproc_parent = some snap1.smapssnap_rootproc.smapsproc_uid) :=
  ⟨⟨sorts_pid_example, ⟨by decide, by decide⟩, by decide, by decide⟩,
    parent_assignment sort_pid_example sorts_pid_example hier_snap ⟨by decide, by decide⟩
      (by decide) (by decide)⟩


/-- C17 (failing input): two processes each of which names the other as its
parent.  After `smapssnap_create_hierarchy` each is the parent and the only
child of the other, the root has no child, no number of parent links leads
from them to the root, and two parent links lead from the first process to
itself. -/
theorem hierarchy_cycle :
    smapssnap_create_hierarchy sort_pid_example cycle_snap = some cycle_hier ∧
    cycle_hier.smapssnap_rootproc.smapsproc_uid = 0 ∧
    cycle_hier.smapssnap_rootproc.smapsproc_children = [] ∧
    (cycle_hier.smapssnap_proclist.map
      (fun p => (p.smapsproc_uid, p.smapsproc_parent, p.smapsproc_children)))
      = [(1, some 2, [some 2]), (2, some 1, [some 1])] ∧
    (∀ k, ancestor (cycle_hier.smapssnap_rootproc :: cycle_hier.smapssnap_proclist) k 1
      ≠ some 0) ∧
    ancestor (cycle_hier.smapssnap_rootproc :: cycle_hier.smapssnap_proclist) 2 1 = some 1 := by
  refine ⟨by decide, by decide, by decide, by decide, ?_, by decide⟩
  have h : ∀ k,
      (ancestor (cycle_hier.smapssnap_rootproc :: cycle_hier.smapssnap_proclist) k 1 = some 1 ∨
       ancestor (cycle_hier.smapssnap_rootproc :: cycle_hier.smapssnap_proclist) k 1 = some 2) ∧
      (ancestor (cycle_hier.smapssnap_rootproc :: cycle_hier.smapssnap_proclist) k 2 = some 1 ∨
       ancestor (cycle_hier.smapssnap_rootproc :: cycle_hier.smapssnap_proclist) k 2
        = some 2) := by
    intro k
    induction k with
    | zero => exact ⟨Or.inl rfl, Or.inr rfl⟩
    | succ k ih =>
      have e1 : ancestor (cycle_hier.smapssnap_rootproc :: cycle_hier.smapssnap_proclist)
          (k + 1) 1
          = ancestor (cycle_hier.smapssnap_rootproc :: cycle_hier.smapssnap_proclist) k 2 := rfl
      have e2 : ancestor (cycle_hier.smapssnap_rootproc :: cycle_hier.smapssnap_proclist)
          (k + 1) 2
          = ancestor (cycle_hier.smapssnap_rootproc :: cycle_hier.smapssnap_proclist) k 1 := rfl
      rw [e1, e2]
      exact ⟨ih.2, ih.1⟩
  intro k hk
  rcases (h k).1 with h1 | h1 <;> rw [h1] at hk <;> cases hk

/-! ## Records in memory -/

theorem proc_deref_uid (H : List smapsproc_t) (x : Int) (r : smapsproc_t)
    (h : proc_deref H x = some r) : r.smapsproc_uid = x := by
  have := List.find?_some h
  simpa using this

theorem proc_deref_mem (H : List smapsproc_t) (x : Int) (r : smapsproc_t)
    (h : proc_deref H x = some r) : r ∈ H :=
  List.mem_of_find?_eq_some h

theorem proc_deref_of_mem (H : List smapsproc_t)
    (hnd : (H.map (fun r => r.smapsproc_uid)).Nodup) (r : smapsproc_t) (hr : r ∈ H) :
    proc_deref H r.smapsproc_uid = some r := by
  cases hf : proc_deref H r.smapsproc_uid with
  | none =>
    have := List.find?_eq_none.1 hf r hr
    simp at this
  | some q =>
    have h1 := proc_deref_uid H _ q hf
    have h2 := proc_deref_mem H _ q hf
    exact congrArg some (nodup_map_inj _ _ hnd q r h2 hr h1)

/-- Reading through a pointer after an assignment through a pointer. -/
theorem proc_deref_store (H : List smapsproc_t) (p x : Int) (f : smapsproc_t → smapsproc_t)
    (hf : ∀ r, (f r).smapsproc_uid = r.smapsproc_uid) :
    proc_deref (proc_store H p f) x
      = if x = p then (proc_deref H p).map f else proc_deref H x := by
  unfold proc_deref proc_store
  rw [List.find?_map]
  have hcomp : ((fun r : smapsproc_t => decide (r.smapsproc_uid = x)) ∘
      (fun r => if r.smapsproc_uid = p then f r else r))
      = (fun r => decide (r.smapsproc_uid = x)) := by
    funext r
    simp only [Function.comp]
    split
    · rw [hf]
    · rfl
  rw [hcomp]
  by_cases hxp : x = p
  · subst hxp
    rw [if_pos rfl]
    cases hfind : H.find? (fun r => decide (r.smapsproc_uid = x)) with
    | none => rfl
    | some r =>
      have hu : r.smapsproc_uid = x := by simpa using List.find?_some hfind
      simp [hu]
  · rw [if_neg hxp]
    cases hfind : H.find? (fun r => decide (r.smapsproc_uid = x)) with
    | none => rfl
    | some r =>
      have hu : r.smapsproc_uid = x := by simpa using List.find?_some hfind
      have : ¬ r.smapsproc_uid = p := by rw [hu]; exact hxp
      simp [this]

theorem proc_store_length (H : List smapsproc_t) (p : Int) (f : smapsproc_t → smapsproc_t) :
    (proc_store H p f).length = H.length := by
  unfold proc_store
  rw [List.length_map]

theorem proc_store_uids (H : List smapsproc_t) (p : Int) (f : smapsproc_t → smapsproc_t)
    (hf : ∀ r, (f r).smapsproc_uid = r.smapsproc_uid) :
    (proc_store H p f).map (fun r => r.smapsproc_uid) = H.map (fun r => r.smapsproc_uid) := by
  unfold proc_store
  rw [List.map_map]
  apply List.map_congr_left
  intro r _
  simp only [Function.comp]
  split
  · exact hf r
  · rfl

/-- The loop "fix parent pointers" of `smapsproc_adopt_children`. -/
theorem adopt_children_fold (self P : Int) (gks : List Int) (H : List smapsproc_t)
    (hs : ∃ s, proc_deref H self = some s ∧ s.smapsproc_pid.Pid = P)
    (hg : ∀ g ∈ gks, ∃ r, proc_deref H g = some r) :
    ∃ H1, (gks.map some).foldlM (adopt_children_step self) H = some H1 ∧
      H1.map (fun r => r.smapsproc_uid) = H.map (fun r => r.smapsproc_uid) ∧
      ∀ x, proc_deref H1 x
        = if x ∈ gks then (proc_deref H x).map (reparent self P) else proc_deref H x := by
  induction gks generalizing H with
  | nil => exact ⟨H, rfl, rfl, fun x => by simp⟩
  | cons g gks ih =>
    obtain ⟨s, hs1, hs2⟩ := hs
    obtain ⟨rg, hrg⟩ := hg g (List.mem_cons_self _ _)
    have hstep : adopt_children_step self H (some g)
        = some (proc_store H g (reparent self P)) := by
      unfold adopt_children_step
      rw [hs1]
      simp only
      rw [hrg, hs2]
      rfl
    have hd : ∀ x, proc_deref (proc_store H g (reparent self P)) x
        = if x = g then (proc_deref H g).map (reparent self P) else proc_deref H x :=
      fun x => proc_deref_store H g x _ (fun _ => rfl)
    obtain ⟨H1, e1, e2, e3⟩ := ih (proc_store H g (reparent self P))
      (by
        rw [hd self]
        by_cases h : self = g
        · subst h
          rw [if_pos rfl, hs1]
          exact ⟨_, rfl, hs2⟩
        · rw [if_neg h]
          exact ⟨s, hs1, hs2⟩)
      (by
        intro g2 hg2
        rw [hd g2]
        by_cases h : g2 = g
        · subst h
          rw [if_pos rfl, hrg]
          exact ⟨_, rfl⟩
        · rw [if_neg h]
          exact hg g2 (List.mem_cons_of_mem _ hg2))
    refine ⟨H1, ?_, ?_, ?_⟩
    · rw [List.map_cons, List.foldlM_cons, hstep]
      exact e1
    · rw [e2]
      exact proc_store_uids _ _ _ (fun _ => rfl)
    · intro x
      rw [e3 x, hd x]
      by_cases hx : x = g
      · subst hx
        simp only [List.mem_cons, true_or, if_true]
        split
        · rw [Option.map_map]
          congr 1
        · rfl
      · simp only [List.mem_cons, hx, false_or, if_false]

/-- What `smapsproc_adopt_children` does to the memory. -/
theorem smapsproc_adopt_children_spec (H : List smapsproc_t) (u k : Int) (s t : smapsproc_t)
    (gks : List Int) (hu : proc_deref H u = some s) (hk : proc_deref H k = some t)
    (hne : u ≠ k) (hch : t.smapsproc_children = gks.map some)
    (hg : ∀ g ∈ gks, ∃ r, proc_deref H g = some r) :
    ∃ H2, smapsproc_adopt_children H u k = some H2 ∧
      H2.map (fun r => r.smapsproc_uid) = H.map (fun r => r.smapsproc_uid) ∧
      ∀ x, proc_deref H2 x =
        if x = k then
          ((if x ∈ gks then (proc_deref H x).map (reparent u s.smapsproc_pid.Pid)
            else proc_deref H x)).map (fun r => { r with smapsproc_children := [] })
        else if x = u then
          ((if x ∈ gks then (proc_deref H x).map (reparent u s.smapsproc_pid.Pid)
            else proc_deref H x)).map
            (fun r => { r with smapsproc_children := r.smapsproc_children ++ gks.map some })
        else if x ∈ gks then (proc_deref H x).map (reparent u s.smapsproc_pid.Pid)
        else proc_deref H x := by
  obtain ⟨H1, e1, e2, e3⟩ := adopt_children_fold u s.smapsproc_pid.Pid gks H ⟨s, hu, rfl⟩ hg
  have ht1 : ∃ t1, proc_deref H1 k = some t1 ∧ t1.smapsproc_children = gks.map some := by
    rw [e3 k]
    split
    · rw [hk]
      exact ⟨_, rfl, hch⟩
    · exact ⟨t, hk, hch⟩
  obtain ⟨t1, ht1a, ht1b⟩ := ht1
  refine ⟨proc_store
      (proc_store H1 u (fun r => { r with
        smapsproc_children := r.smapsproc_children ++ t1.smapsproc_children }))
      k (fun r => { r with smapsproc_children := [] }), ?_, ?_, ?_⟩
  · unfold smapsproc_adopt_children
    rw [if_neg hne, hk]
    simp only
    rw [hch, e1]
    simp only
    rw [ht1a]
  · unfold proc_store
    simp only [List.map_map]
    rw [← e2]
    apply List.map_congr_left
    intro r _
    simp only [Function.comp]
    split <;> split <;> rfl
  · intro x
    have d2 := fun (Hx : List smapsproc_t) (p y : Int) (f : smapsproc_t → smapsproc_t)
      (hf : ∀ r, (f r).smapsproc_uid = r.smapsproc_uid) => proc_deref_store Hx p y f hf
    rw [d2 _ k x (fun r => { r with smapsproc_children := [] }) (fun _ => rfl),
      d2 _ u k (fun r => { r with
        smapsproc_children := r.smapsproc_children ++ t1.smapsproc_children }) (fun _ => rfl),
      d2 _ u x (fun r => { r with
        smapsproc_children := r.smapsproc_children ++ t1.smapsproc_children }) (fun _ => rfl)]
    by_cases hxk : x = k
    · subst hxk
      rw [if_pos rfl, if_pos rfl, if_neg (fun h => hne h.symm), e3]
    · rw [if_neg hxk, if_neg hxk]
      by_cases hxu : x = u
      · subst hxu
        rw [if_pos rfl, if_pos rfl, e3, ht1b]
      · rw [if_neg hxu, if_neg hxu, e3]

/-- What the block of a thread in the second loop of
`smapsproc_collapse_threads` does to the memory, when the node, the thread and
the children of the thread are distinct records. -/
theorem collapse_thread_spec (H : List smapsproc_t) (u k : Int) (i : Nat) (s t : smapsproc_t)
    (gks : List Int) (hu : proc_deref H u = some s) (hk : proc_deref H k = some t)
    (hne : u ≠ k) (hch : t.smapsproc_children = gks.map some)
    (hg : ∀ g ∈ gks, ∃ r, proc_deref H g = some r) (hug : u ∉ gks) (hkg : k ∉ gks) :
    ∃ H3, collapse_thread H u i k = some H3 ∧
      H3.map (fun r => r.smapsproc_uid) = H.map (fun r => r.smapsproc_uid) ∧
      ∀ x, proc_deref H3 x =
        if x = u then
          some { s with
            smapsproc_children := (s.smapsproc_children ++ gks.map some).set i none
            smapsproc_pid := { s.smapsproc_pid with
              Threads := int_wrap (s.smapsproc_pid.Threads + t.smapsproc_pid.Threads) } }
        else if x = k then
          some { t with smapsproc_children := [], smapsproc_parent := none }
        else if x ∈ gks then (proc_deref H x).map (reparent u s.smapsproc_pid.Pid)
        else proc_deref H x := by
  obtain ⟨H2, e1, e2, e3⟩ := smapsproc_adopt_children_spec H u k s t gks hu hk hne hch hg
  have hk2 : proc_deref H2 k = some { t with smapsproc_children := [] } := by
    rw [e3 k, if_pos rfl, if_neg hkg, hk]
    rfl
  have hu2 : proc_deref H2 u = some { s with
      smapsproc_children := s.smapsproc_children ++ gks.map some } := by
    rw [e3 u, if_neg hne, if_pos rfl, if_neg hug, hu]
    rfl
  refine ⟨proc_store
      (proc_store H2 u (fun r => { r with
        smapsproc_children := r.smapsproc_children.set i none
        smapsproc_pid := { r.smapsproc_pid with
          Threads := int_wrap (r.smapsproc_pid.Threads + t.smapsproc_pid.Threads) } }))
      k (fun r => { r with smapsproc_parent := none }), ?_, ?_, ?_⟩
  · unfold collapse_thread
    rw [e1]
    simp only
    rw [hk2]
  · unfold proc_store
    simp only [List.map_map]
    rw [← e2]
    apply List.map_congr_left
    intro r _
    simp only [Function.comp]
    split <;> split <;> rfl
  · intro x
    have d2 := fun (Hx : List smapsproc_t) (p y : Int) (f : smapsproc_t → smapsproc_t)
      (hf : ∀ r, (f r).smapsproc_uid = r.smapsproc_uid) => proc_deref_store Hx p y f hf
    rw [d2 _ k x (fun r => { r with smapsproc_parent := none }) (fun _ => rfl),
      d2 _ u k (fun r => { r with
        smapsproc_children := r.smapsproc_children.set i none
        smapsproc_pid := { r.smapsproc_pid with
          Threads := int_wrap (r.smapsproc_pid.Threads + t.smapsproc_pid.Threads) } })
        (fun _ => rfl),
      d2 _ u x (fun r => { r with
        smapsproc_children := r.smapsproc_children.set i none
        smapsproc_pid := { r.smapsproc_pid with
          Threads := int_wrap (r.smapsproc_pid.Threads + t.smapsproc_pid.Threads) } })
        (fun _ => rfl)]
    by_cases hxk : x = k
    · subst hxk
      rw [if_pos rfl, if_neg (fun h => hne h.symm), if_pos rfl,
        if_neg (fun h => hne h.symm), hk2]
      rfl
    · rw [if_neg hxk]
      by_cases hxu : x = u
      · subst hxu
        rw [if_pos rfl, if_pos rfl, hu2]
        rfl
      · rw [if_neg hxu, if_neg hxu, if_neg hxk, e3, if_neg hxk, if_neg hxu]

/-! ## Trees of child lists -/

theorem shape_mono (H : List smapsproc_t) (n : Nat) (u : Int) (L : List Int)
    (h : shape H n u L) : shape H (n + 1) u L := by
  induction n generalizing u L with
  | zero => exact absurd h (by simp [shape])
  | succ n ih =>
    obtain ⟨r, ks, Ls, h1, h2, h3, h4⟩ := h
    exact ⟨r, ks, Ls, h1, h2, h3, h4.imp (fun k Lk hk => ih k Lk hk)⟩

theorem shape_mono_le (H : List smapsproc_t) (n m : Nat) (u : Int) (L : List Int)
    (h : shape H n u L) (hnm : n ≤ m) : shape H m u L := by
  induction m with
  | zero =>
    have : n = 0 := by omega
    subst this
    exact h
  | succ m ih =>
    by_cases hn : n = m + 1
    · subst hn
      exact h
    · exact shape_mono H m u L (ih (by omega))

theorem forall₂_mem_flatten {α β : Type} (R : α → List β → Prop) (ks : List α)
    (Ls : List (List β)) (h : List.Forall₂ R ks Ls) (k : α) (hk : k ∈ ks) :
    ∃ Lk ∈ Ls, R k Lk := by
  induction h with
  | nil => cases hk
  | cons hr _ ih =>
    rcases List.mem_cons.1 hk with rfl | hk
    · exact ⟨_, List.mem_cons_self _ _, hr⟩
    · obtain ⟨Lk, h1, h2⟩ := ih hk
      exact ⟨Lk, List.mem_cons_of_mem _ h1, h2⟩

theorem forall₂_mem_right {α β : Type} (R : α → List β → Prop) (ks : List α)
    (Ls : List (List β)) (h : List.Forall₂ R ks Ls) (Lk : List β) (hk : Lk ∈ Ls) :
    ∃ k ∈ ks, R k Lk := by
  induction h with
  | nil => cases hk
  | cons hr _ ih =>
    rcases List.mem_cons.1 hk with rfl | hk
    · exact ⟨_, List.mem_cons_self _ _, hr⟩
    · obtain ⟨k, h1, h2⟩ := ih hk
      exact ⟨k, List.mem_cons_of_mem _ h1, h2⟩

theorem shape_head (H : List smapsproc_t) (n : Nat) (u : Int) (L : List Int)
    (h : shape H n u L) : ∃ rest, L = u :: rest := by
  cases n with
  | zero => exact absurd h (by simp [shape])
  | succ n =>
    obtain ⟨r, ks, Ls, h1, h2, h3, h4⟩ := h
    exact ⟨_, h3⟩

/-- Every record of a tree is in the memory. -/
theorem shape_deref (H : List smapsproc_t) (n : Nat) (u : Int) (L : List Int)
    (h : shape H n u L) : ∀ x ∈ L, ∃ r, proc_deref H x = some r := by
  induction n generalizing u L with
  | zero => exact absurd h (by simp [shape])
  | succ n ih =>
    obtain ⟨r, ks, Ls, h1, h2, h3, h4⟩ := h
    intro x hx
    rw [h3] at hx
    rcases List.mem_cons.1 hx with rfl | hx
    · exact ⟨r, h1⟩
    · obtain ⟨Lk, hLk, hxk⟩ := List.mem_flatten.1 hx
      obtain ⟨k, _, hk⟩ := forall₂_mem_right _ ks Ls h4 Lk hLk
      exact ih _ _ hk x hxk

/-- A tree reads the child lists of its records only. -/
theorem shape_congr (H H1 : List smapsproc_t) (n : Nat) (u : Int) (L : List Int)
    (h : shape H n u L)
    (hc : ∀ x ∈ L, (proc_deref H1 x).map (fun r => r.smapsproc_children)
      = (proc_deref H x).map (fun r => r.smapsproc_children)) :
    shape H1 n u L := by
  induction n generalizing u L with
  | zero => exact absurd h (by simp [shape])
  | succ n ih =>
    obtain ⟨r, ks, Ls, h1, h2, h3, h4⟩ := h
    subst h3
    have hcu := hc u (List.mem_cons_self _ _)
    rw [h1] at hcu
    cases hr1 : proc_deref H1 u with
    | none => rw [hr1] at hcu; cases hcu
    | some r1 =>
      rw [hr1] at hcu
      simp only [Option.map_some', Option.some.injEq] at hcu
      refine ⟨r1, ks, Ls, hr1, by rw [hcu, h2], rfl, ?_⟩
      have hc2 : ∀ x ∈ Ls.flatten, (proc_deref H1 x).map (fun r => r.smapsproc_children)
          = (proc_deref H x).map (fun r => r.smapsproc_children) :=
        fun x hx => hc x (List.mem_cons_of_mem _ hx)
      clear hc h2 hcu h1
      induction h4 with
      | nil => exact List.Forall₂.nil
      | @cons k Lk ks Ls hr _ ih2 =>
        refine List.Forall₂.cons (ih k Lk hr (fun x hx => hc2 x (by
            rw [List.flatten_cons]
            exact List.mem_append_left _ hx)))
          (ih2 (fun x hx => hc2 x (by
              rw [List.flatten_cons]
              exact List.mem_append_right _ hx)))

theorem forall₂_length_flatten {α β : Type} (R : α → List β → Prop) (ks : List α)
    (Ls : List (List β)) (h : List.Forall₂ R ks Ls) (hpos : ∀ k Lk, R k Lk → 1 ≤ Lk.length) :
    ks.length ≤ Ls.flatten.length := by
  induction h with
  | nil => simp
  | cons hr _ ih =>
    have := hpos _ _ hr
    simp only [List.length_cons, List.flatten_cons, List.length_append]
    omega

/-- The number of records of a tree bounds the number of its levels. -/
theorem shape_size (H : List smapsproc_t) (n : Nat) (u : Int) (L : List Int)
    (h : shape H n u L) : shape H L.length u L := by
  induction n generalizing u L with
  | zero => exact absurd h (by simp [shape])
  | succ n ih =>
    obtain ⟨r, ks, Ls, h1, h2, h3, h4⟩ := h
    subst h3
    rw [List.length_cons]
    refine ⟨r, ks, Ls, h1, h2, rfl, ?_⟩
    clear h2 h1
    induction h4 with
    | nil => exact List.Forall₂.nil
    | @cons k Lk ks Ls hr _ ih2 =>
      refine List.Forall₂.cons (shape_mono_le H _ _ k Lk (ih k Lk hr) (by simp)) ?_
      exact (ih2).imp (fun a b hab => shape_mono_le H _ _ a b hab (by simp))

theorem forall₂_imp_mem {α β : Type} (R S : α → List β → Prop) (ks : List α)
    (Ls : List (List β)) (h : List.Forall₂ R ks Ls)
    (himp : ∀ k Lk, k ∈ ks → (∀ x ∈ Lk, x ∈ Ls.flatten) → R k Lk → S k Lk) :
    List.Forall₂ S ks Ls := by
  induction h with
  | nil => exact List.Forall₂.nil
  | @cons k Lk ks Ls hr _ ih =>
    refine List.Forall₂.cons (himp k Lk (List.mem_cons_self _ _) (fun x hx => by
      rw [List.flatten_cons]
      exact List.mem_append_left _ hx) hr) (ih (fun k2 Lk2 h1 h2 h3 =>
        himp k2 Lk2 (List.mem_cons_of_mem _ h1) (fun x hx => by
          rw [List.flatten_cons]
          exact List.mem_append_right _ (h2 x hx)) h3))

/-- The roots of the trees of a forest are records of the forest. -/
theorem forest_head_mem (H : List smapsproc_t) (n : Nat) (ks : List Int) (Ls : List (List Int))
    (h : List.Forall₂ (fun k Lk => shape H n k Lk) ks Ls) (k : Int) (hk : k ∈ ks) :
    k ∈ Ls.flatten := by
  obtain ⟨Lk, h1, h2⟩ := forall₂_mem_flatten _ ks Ls h k hk
  obtain ⟨rest, hrest⟩ := shape_head H n k Lk h2
  exact List.mem_flatten.2 ⟨Lk, h1, by rw [hrest]; exact List.mem_cons_self _ _⟩

/-- The children of a record of a tree are records of the tree. -/
theorem shape_closed (H : List smapsproc_t) (n : Nat) (u : Int) (L : List Int)
    (h : shape H n u L) : ∀ x ∈ L, ∀ rx, proc_deref H x = some rx →
      ∀ c, some c ∈ rx.smapsproc_children → c ∈ L := by
  induction n generalizing u L with
  | zero => exact absurd h (by simp [shape])
  | succ n ih =>
    obtain ⟨r, ks, Ls, h1, h2, h3, h4⟩ := h
    intro x hx rx hrx c hc
    rw [h3] at hx
    rw [h3]
    rcases List.mem_cons.1 hx with rfl | hx
    · rw [h1] at hrx
      simp only [Option.some.injEq] at hrx
      subst hrx
      rw [h2, List.mem_map] at hc
      obtain ⟨c2, hc2, hc3⟩ := hc
      simp only [Option.some.injEq] at hc3
      subst hc3
      exact List.mem_cons_of_mem _ (forest_head_mem H n ks Ls h4 c2 hc2)
    · obtain ⟨Lk, hLk, hxk⟩ := List.mem_flatten.1 hx
      obtain ⟨k, _, hk⟩ := forall₂_mem_right _ ks Ls h4 Lk hLk
      exact List.mem_cons_of_mem _ (List.mem_flatten.2 ⟨Lk, hLk, ih k Lk hk x hxk rx hrx c hc⟩)

theorem forest_closed (H : List smapsproc_t) (n : Nat) (ks : List Int) (Ls : List (List Int))
    (h : List.Forall₂ (fun k Lk => shape H n k Lk) ks Ls) : ∀ x ∈ Ls.flatten,
      ∀ rx, proc_deref H x = some rx → ∀ c, some c ∈ rx.smapsproc_children → c ∈ Ls.flatten := by
  intro x hx rx hrx c hc
  obtain ⟨Lk, hLk, hxk⟩ := List.mem_flatten.1 hx
  obtain ⟨k, _, hk⟩ := forall₂_mem_right _ ks Ls h Lk hLk
  exact List.mem_flatten.2 ⟨Lk, hLk, shape_closed H n k Lk hk x hxk rx hrx c hc⟩

theorem forest_deref (H : List smapsproc_t) (n : Nat) (ks : List Int) (Ls : List (List Int))
    (h : List.Forall₂ (fun k Lk => shape H n k Lk) ks Ls) :
    ∀ x ∈ Ls.flatten, ∃ r, proc_deref H x = some r := by
  intro x hx
  obtain ⟨Lk, hLk, hxk⟩ := List.mem_flatten.1 hx
  obtain ⟨k, _, hk⟩ := forall₂_mem_right _ ks Ls h Lk hLk
  exact shape_deref H n k Lk hk x hxk

theorem forest_congr (H H1 : List smapsproc_t) (n : Nat) (ks : List Int) (Ls : List (List Int))
    (h : List.Forall₂ (fun k Lk => shape H n k Lk) ks Ls)
    (hc : ∀ x ∈ Ls.flatten, (proc_deref H1 x).map (fun r => r.smapsproc_children)
      = (proc_deref H x).map (fun r => r.smapsproc_children)) :
    List.Forall₂ (fun k Lk => shape H1 n k Lk) ks Ls :=
  forall₂_imp_mem _ _ ks Ls h (fun k Lk _ h2 h3 =>
    shape_congr H H1 n k Lk h3 (fun x hx => hc x (h2 x hx)))

/-! ## Records kept and records changed -/

theorem thread_sum_append (H : List smapsproc_t) (A B : List Int) :
    thread_sum H (A ++ B) = thread_sum H A + thread_sum H B := by
  simp [thread_sum]

theorem thread_sum_cons (H : List smapsproc_t) (u : Int) (A : List Int) :
    thread_sum H (u :: A) = threads_of H u + thread_sum H A := by
  simp [thread_sum]

theorem thread_sum_congr (H H1 : List smapsproc_t) (L : List Int)
    (h : ∀ x ∈ L, proc_deref H1 x = proc_deref H x) : thread_sum H1 L = thread_sum H L := by
  unfold thread_sum
  rw [List.map_congr_left]
  intro x hx
  unfold threads_of
  rw [h x hx]

theorem thread_sum_perm (H : List smapsproc_t) (A B : List Int) (h : A.Perm B) :
    thread_sum H A = thread_sum H B :=
  (h.map _).sum_eq

theorem thread_sum_nonneg (H : List smapsproc_t) (L : List Int)
    (h : ∀ x ∈ L, 0 ≤ threads_of H x) : 0 ≤ thread_sum H L := by
  unfold thread_sum
  apply List.sum_nonneg
  intro y hy
  obtain ⟨x, hx, rfl⟩ := List.mem_map.1 hy
  exact h x hx

theorem are_same_data (a a1 b b1 : smapsproc_t) (ha : proc_data a = proc_data a1)
    (hb : proc_data b = proc_data b1) :
    smapsproc_are_same a b = smapsproc_are_same a1 b1 := by
  have a0 : a.smapsproc_pid.Name = a1.smapsproc_pid.Name :=
    congrArg (fun r => r.smapsproc_pid.Name) ha
  have a2 : a.smapsproc_pid.VmSize = a1.smapsproc_pid.VmSize :=
    congrArg (fun r => r.smapsproc_pid.VmSize) ha
  have a3 : a.smapsproc_pid.VmLck = a1.smapsproc_pid.VmLck :=
    congrArg (fun r => r.smapsproc_pid.VmLck) ha
  have a4 : a.smapsproc_pid.VmRSS = a1.smapsproc_pid.VmRSS :=
    congrArg (fun r => r.smapsproc_pid.VmRSS) ha
  have a5 : a.smapsproc_pid.VmData = a1.smapsproc_pid.VmData :=
    congrArg (fun r => r.smapsproc_pid.VmData) ha
  have a6 : a.smapsproc_pid.VmStk = a1.smapsproc_pid.VmStk :=
    congrArg (fun r => r.smapsproc_pid.VmStk) ha
  have a7 : a.smapsproc_pid.VmExe = a1.smapsproc_pid.VmExe :=
    congrArg (fun r => r.smapsproc_pid.VmExe) ha
  have a8 : a.smapsproc_pid.VmLib = a1.smapsproc_pid.VmLib :=
    congrArg (fun r => r.smapsproc_pid.VmLib) ha
  have a9 : a.smapsproc_pid.VmPTE = a1.smapsproc_pid.VmPTE :=
    congrArg (fun r => r.smapsproc_pid.VmPTE) ha
  have b0 : b.smapsproc_pid.Name = b1.smapsproc_pid.Name :=
    congrArg (fun r => r.smapsproc_pid.Name) hb
  have b2 : b.smapsproc_pid.VmSize = b1.smapsproc_pid.VmSize :=
    congrArg (fun r => r.smapsproc_pid.VmSize) hb
  have b3 : b.smapsproc_pid.VmLck = b1.smapsproc_pid.VmLck :=
    congrArg (fun r => r.smapsproc_pid.VmLck) hb
  have b4 : b.smapsproc_pid.VmRSS = b1.smapsproc_pid.VmRSS :=
    congrArg (fun r => r.smapsproc_pid.VmRSS) hb
  have b5 : b.smapsproc_pid.VmData = b1.smapsproc_pid.VmData :=
    congrArg (fun r => r.smapsproc_pid.VmData) hb
  have b6 : b.smapsproc_pid.VmStk = b1.smapsproc_pid.VmStk :=
    congrArg (fun r => r.smapsproc_pid.VmStk) hb
  have b7 : b.smapsproc_pid.VmExe = b1.smapsproc_pid.VmExe :=
    congrArg (fun r => r.smapsproc_pid.VmExe) hb
  have b8 : b.smapsproc_pid.VmLib = b1.smapsproc_pid.VmLib :=
    congrArg (fun r => r.smapsproc_pid.VmLib) hb
  have b9 : b.smapsproc_pid.VmPTE = b1.smapsproc_pid.VmPTE :=
    congrArg (fun r => r.smapsproc_pid.VmPTE) hb
  unfold smapsproc_are_same
  rw [a0, a2, a3, a4, a5, a6, a7, a8, a9, b0, b2, b3, b4, b5, b6, b7, b8, b9]

/-- A record with the data of a record of the memory `H` is in `H1` when
the data of the two memories agree. -/
theorem deref_of_data (H H1 : List smapsproc_t) (x : Int) (r1 : smapsproc_t)
    (hd : (proc_deref H1 x).map proc_data = (proc_deref H x).map proc_data)
    (h1 : proc_deref H1 x = some r1) :
    ∃ r, proc_deref H x = some r ∧ proc_data r1 = proc_data r := by
  rw [h1] at hd
  cases h : proc_deref H x with
  | none => rw [h] at hd; cases hd
  | some r =>
    rw [h] at hd
    simp only [Option.map_some', Option.some.injEq] at hd
    exact ⟨r, rfl, hd⟩

theorem nodup_length_le (H : List smapsproc_t) (L : List Int) (hn : L.Nodup)
    (hd : ∀ x ∈ L, ∃ r, proc_deref H x = some r) : L.length ≤ H.length := by
  have hsub : L ⊆ H.map (fun r => r.smapsproc_uid) := by
    intro x hx
    obtain ⟨r, hr⟩ := hd x hx
    exact List.mem_map.2 ⟨r, proc_deref_mem H x r hr, proc_deref_uid H x r hr⟩
  have := (List.subperm_of_subset hn hsub).length_le
  simpa using this

theorem region_refl (H : List smapsproc_t) (L : List Int) (hn : L.Nodup) : region H H L L :=
  ⟨rfl, hn, fun _ h => h, fun _ _ => rfl, fun _ => rfl, fun _ h1 h2 => absurd h1 h2, rfl,
    fun h _ => ⟨h, rfl⟩⟩

theorem region_trans (H H1 H2 : List smapsproc_t) (L L1 L2 : List Int)
    (h1 : region H H1 L L1) (h2 : region H1 H2 L1 L2) : region H H2 L L2 := by
  obtain ⟨a1, a2, a3, a4, a5, a6, a7⟩ := h1
  obtain ⟨b1, b2, b3, b4, b5, b6, b7⟩ := h2
  refine ⟨b1.trans a1, b2, fun x hx => a3 x (b3 x hx), ?_, fun x => (b5 x).trans (a5 x), ?_,
    b7.1.trans a7.1, fun hn hs => ?_⟩
  rotate_left 2
  · obtain ⟨n1, s1⟩ := a7.2 hn hs
    obtain ⟨n2, s2⟩ := b7.2 n1 (by rw [s1]; exact hs)
    exact ⟨n2, s2.trans s1⟩
  · intro x hx
    rw [b4 x (fun h => hx (a3 x h)), a4 x hx]
  · intro x hx hx2
    by_cases h : x ∈ L1
    · exact b6 x h hx2
    · rw [b4 x h]
      exact a6 x hx h

theorem region_append (H H1 H2 : List smapsproc_t) (A A1 B B1 : List Int)
    (h1 : region H H1 A A1) (h2 : region H1 H2 B B1) (hd : ∀ x ∈ A, x ∉ B) :
    region H H2 (A ++ B) (A1 ++ B1) := by
  obtain ⟨a1, a2, a3, a4, a5, a6, a7⟩ := h1
  obtain ⟨b1, b2, b3, b4, b5, b6, b7⟩ := h2
  have hA1 : thread_sum H2 A1 = thread_sum H1 A1 :=
    thread_sum_congr H1 H2 A1 (fun x hx => b4 x (hd x (a3 x hx)))
  have hB : thread_sum H1 B = thread_sum H B :=
    thread_sum_congr H H1 B (fun x hx => a4 x (fun h => hd x h hx))
  refine ⟨b1.trans a1, ?_, ?_, ?_, fun x => (b5 x).trans (a5 x), ?_, ?_, ?_⟩
  · rw [List.nodup_append]
    exact ⟨a2, b2, fun x hx hx2 => hd x (a3 x hx) (b3 x hx2)⟩
  · intro x hx
    rcases List.mem_append.1 hx with h | h
    · exact List.mem_append_left _ (a3 x h)
    · exact List.mem_append_right _ (b3 x h)
  · intro x hx
    rw [List.mem_append, not_or] at hx
    rw [b4 x hx.2, a4 x hx.1]
  · intro x hx hx2
    rw [List.mem_append, not_or] at hx2
    rcases List.mem_append.1 hx with h | h
    · rw [b4 x (hd x h)]
      exact a6 x h hx2.1
    · exact b6 x h hx2.2
  · rw [thread_sum_append, thread_sum_append, hA1, Int.add_emod, a7.1, b7.1, hB,
      ← Int.add_emod]
  · intro hn hs
    rw [thread_sum_append] at hs
    have hnA : ∀ x ∈ A, 0 ≤ threads_of H x := fun x hx => hn x (List.mem_append_left _ hx)
    have hnB : ∀ x ∈ B, 0 ≤ threads_of H x := fun x hx => hn x (List.mem_append_right _ hx)
    have h0A := thread_sum_nonneg H A hnA
    have h0B := thread_sum_nonneg H B hnB
    obtain ⟨n1, s1⟩ := a7.2 hnA (by omega)
    have hnB1 : ∀ x ∈ B, 0 ≤ threads_of H1 x := by
      intro x hx
      unfold threads_of
      rw [a4 x (fun h => hd x h hx)]
      exact hnB x hx
    obtain ⟨n2, s2⟩ := b7.2 hnB1 (by rw [hB]; omega)
    refine ⟨fun x hx => ?_, ?_⟩
    · rcases List.mem_append.1 hx with h | h
      · unfold threads_of
        rw [b4 x (hd x (a3 x h))]
        exact n1 x h
      · exact n2 x h
    · rw [thread_sum_append, thread_sum_append, hA1, s1, s2, hB]

theorem region_cons (H H1 : List smapsproc_t) (u : Int) (A A1 : List Int)
    (h1 : region H H1 A A1) (hu : u ∉ A) : region H H1 (u :: A) (u :: A1) := by
  obtain ⟨a1, a2, a3, a4, a5, a6, a7⟩ := h1
  have hthr : threads_of H1 u = threads_of H u := by
    unfold threads_of
    rw [a4 u hu]
  refine ⟨a1, List.nodup_cons.2 ⟨fun h => hu (a3 u h), a2⟩, ?_, ?_, a5, ?_, ?_, ?_⟩
  · intro x hx
    rcases List.mem_cons.1 hx with h | h
    · rw [h]; exact List.mem_cons_self _ _
    · exact List.mem_cons_of_mem _ (a3 x h)
  · intro x hx
    rw [List.mem_cons, not_or] at hx
    exact a4 x hx.2
  · intro x hx hx2
    rw [List.mem_cons, not_or] at hx2
    rcases List.mem_cons.1 hx with h | h
    · exact absurd h hx2.1
    · exact a6 x h hx2.2
  · rw [thread_sum_cons, thread_sum_cons, Int.add_emod, a7.1, ← Int.add_emod, hthr]
  · intro hn hs
    rw [thread_sum_cons] at hs
    have hnA : ∀ x ∈ A, 0 ≤ threads_of H x := fun x hx => hn x (List.mem_cons_of_mem _ hx)
    have h0u := hn u (List.mem_cons_self _ _)
    obtain ⟨n1, s1⟩ := a7.2 hnA (by omega)
    refine ⟨fun x hx => ?_, by rw [thread_sum_cons, thread_sum_cons, hthr, s1]⟩
    rcases List.mem_cons.1 hx with h | h
    · rw [h, hthr]; exact h0u
    · exact n1 x h

theorem linked_congr (H H1 : List smapsproc_t) (L : List Int) (h : linked H L)
    (hf : ∀ x ∈ L, proc_deref H1 x = proc_deref H x) : linked H1 L := by
  intro x hx rx hrx c hc
  rw [hf x hx] at hrx
  obtain ⟨h1, rc, h2, h3⟩ := h x hx rx hrx c hc
  exact ⟨h1, rc, by rw [hf c h1]; exact h2, h3⟩

theorem linked_append (H : List smapsproc_t) (A B : List Int) (ha : linked H A)
    (hb : linked H B) : linked H (A ++ B) := by
  intro x hx rx hrx c hc
  rcases List.mem_append.1 hx with h | h
  · obtain ⟨h1, h2⟩ := ha x h rx hrx c hc
    exact ⟨List.mem_append_left _ h1, h2⟩
  · obtain ⟨h1, h2⟩ := hb x h rx hrx c hc
    exact ⟨List.mem_append_right _ h1, h2⟩

theorem nosame_congr (H H1 : List smapsproc_t) (L : List Int) (h : nosame H L)
    (hf : ∀ x ∈ L, (proc_deref H1 x).map (fun r => r.smapsproc_children)
      = (proc_deref H x).map (fun r => r.smapsproc_children))
    (hd : ∀ x, (proc_deref H1 x).map proc_data = (proc_deref H x).map proc_data) :
    nosame H1 L := by
  intro x hx rx hrx c hc rc hrc
  obtain ⟨r, h1, h2⟩ := deref_of_data H H1 x rx (hd x) hrx
  obtain ⟨r2, h3, h4⟩ := deref_of_data H H1 c rc (hd c) hrc
  have h5 := hf x hx
  rw [hrx, h1] at h5
  simp only [Option.map_some', Option.some.injEq] at h5
  rw [are_same_data rx r rc r2 h2 h4]
  exact h x hx r h1 c (by rw [← h5]; exact hc) r2 h3

theorem nosame_append (H : List smapsproc_t) (A B : List Int) (ha : nosame H A)
    (hb : nosame H B) : nosame H (A ++ B) := by
  intro x hx
  rcases List.mem_append.1 hx with h | h
  · exact ha x h
  · exact hb x h

theorem linked_sub (H : List smapsproc_t) (L L1 : List Int) (h : linked H L)
    (hs : ∀ x ∈ L1, x ∈ L)
    (hc : ∀ x ∈ L1, ∀ rx, proc_deref H x = some rx →
      ∀ c, some c ∈ rx.smapsproc_children → c ∈ L1) : linked H L1 := by
  intro x hx rx hrx c hc2
  exact ⟨hc x hx rx hrx c hc2, (h x (hs x hx) rx hrx c hc2).2⟩

theorem thread_sum_congr_threads (H H1 : List smapsproc_t) (L : List Int)
    (h : ∀ x ∈ L, threads_of H1 x = threads_of H x) : thread_sum H1 L = thread_sum H L := by
  unfold thread_sum
  rw [List.map_congr_left]
  exact h

/-! ## The loops of `smapsproc_collapse_threads` -/

/-- The first loop of `smapsproc_collapse_threads` on the children `todo` of
`u` that it has not visited yet, when the recursive call does to every tree of
`n` levels what `collapsed` says. -/
theorem collapse_threads_recurse_spec
    (collapse : Int → List smapsproc_t → Option (List smapsproc_t)) (n : Nat) (u : Int)
    (hcol : ∀ H k Lk, shape H n k Lk → Lk.Nodup → linked H Lk →
      ∃ H1 L1, collapse k H = some H1 ∧ collapsed H H1 n k Lk L1)
    (todo : List Int) :
    ∀ (Lst : List (List Int)) (H : List smapsproc_t) (r : smapsproc_t)
      (done : List (Option Int)) (fuel : Nat),
      List.Forall₂ (fun k Lk => shape H n k Lk) todo Lst →
      proc_deref H u = some r → r.smapsproc_children = done ++ todo.map some →
      (u :: Lst.flatten).Nodup → linked H Lst.flatten →
      todo.length + 1 ≤ fuel →
      ∃ H1 Lst1, collapse_threads_recurse collapse u fuel done.length H = some H1 ∧
        region H H1 Lst.flatten Lst1.flatten ∧
        List.Forall₂ (fun k Lk => shape H1 n k Lk) todo Lst1 ∧
        linked H1 Lst1.flatten ∧ nosame H1 Lst1.flatten ∧
        (∀ k ∈ todo, parent_of H1 k = parent_of H k) := by
  induction todo with
  | nil =>
    intro Lst H r done fuel hf hr hch _ _ hfuel
    cases hf
    obtain ⟨f, rfl⟩ : ∃ f, fuel = f + 1 := ⟨fuel - 1, by omega⟩
    refine ⟨H, [], ?_, region_refl H _ List.nodup_nil, List.Forall₂.nil, ?_, ?_, fun _ _ => rfl⟩
    · unfold collapse_threads_recurse
      rw [hr]
      simp only [hch, List.map_nil, List.append_nil, lt_irrefl, if_false]
    · intro x hx; cases hx
    · intro x hx; cases hx
  | cons k todo ih =>
    intro Lst H r done fuel hf hr hch hnd hlk hfuel
    obtain ⟨f, rfl⟩ : ∃ f, fuel = f + 1 := ⟨fuel - 1, by omega⟩
    cases hf with
    | @cons _ Lk _ Lst hk hrest =>
    rw [List.flatten_cons] at hnd hlk
    rw [List.nodup_cons, List.nodup_append] at hnd
    obtain ⟨hu, hndk, hndr, hdis⟩ := hnd
    rw [List.mem_append, not_or] at hu
    have hdis2 : ∀ x ∈ Lk, x ∉ Lst.flatten := fun x h1 h2 => hdis h1 h2
    have hlkk : linked H Lk :=
      linked_sub H _ Lk hlk (fun x hx => List.mem_append_left _ hx) (shape_closed H n k Lk hk)
    have hlkr : linked H Lst.flatten :=
      linked_sub H _ _ hlk (fun x hx => List.mem_append_right _ hx) (forest_closed H n todo Lst hrest)
    obtain ⟨H2, Lk1, hc1, hreg, hsh, hl1, hn1, hp1⟩ := hcol H k Lk hk hndk hlkk
    have hreg0 := hreg
    obtain ⟨a1, a2, a3, a4, a5, a6, a7⟩ := hreg
    have hr2 : proc_deref H2 u = some r := by rw [a4 u hu.1]; exact hr
    have hf2 : List.Forall₂ (fun k Lk => shape H2 n k Lk) todo Lst :=
      forest_congr H H2 n todo Lst hrest (fun x hx => by
        rw [a4 x (fun h => hdis2 x h hx)])
    have hlk2 : linked H2 Lst.flatten :=
      linked_congr H H2 _ hlkr (fun x hx => a4 x (fun h => hdis2 x h hx))
    obtain ⟨H1, Lst1, hc2, hreg2, hsh2, hl2, hn2, hp2⟩ :=
      ih Lst H2 r (done ++ [some k]) f hf2 hr2
        (by rw [hch]; simp) (List.nodup_cons.2 ⟨hu.2, hndr⟩) hlk2
        (by simp only [List.length_cons] at hfuel; omega)
    have hreg20 := hreg2
    obtain ⟨b1, b2, b3, b4, b5, b6, b7⟩ := hreg2
    have hfr : ∀ x ∈ Lk, proc_deref H1 x = proc_deref H2 x := fun x hx => b4 x (hdis2 x hx)
    obtain ⟨rest, hrest2⟩ := shape_head H n k Lk hk
    have hkin : k ∈ Lk := by rw [hrest2]; exact List.mem_cons_self _ _
    refine ⟨H1, Lk1 :: Lst1, ?_, ?_, ?_, ?_, ?_, ?_⟩
    · unfold collapse_threads_recurse
      rw [hr]
      have hlen : done.length < r.smapsproc_children.length := by
        rw [hch]; simp
      have hget : r.smapsproc_children[done.length]? = some (some k) := by
        rw [hch, List.getElem?_append_right (le_refl _)]; simp
      simp only [hlen, if_true, hget, hc1]
      have := hc2
      simp only [List.length_append, List.length_singleton] at this
      exact this
    · rw [List.flatten_cons, List.flatten_cons]
      exact region_append H H2 H1 _ _ _ _ hreg0 hreg20 hdis2
    · refine List.Forall₂.cons ?_ hsh2
      exact shape_congr H2 H1 n k Lk1 hsh (fun x hx => by rw [hfr x (a3 x hx)])
    · rw [List.flatten_cons]
      exact linked_append H1 _ _ (linked_congr H2 H1 _ hl1 (fun x hx => hfr x (a3 x hx))) hl2
    · rw [List.flatten_cons]
      exact nosame_append H1 _ _
        (nosame_congr H2 H1 _ hn1 (fun x hx => by rw [hfr x (a3 x hx)]) b5) hn2
    · intro k2 hk2
      rcases List.mem_cons.1 hk2 with rfl | hk2
      · unfold parent_of at hp1 ⊢
        rw [hfr _ hkin, hp1]
      · have hin := forest_head_mem H n todo Lst hrest k2 hk2
        rw [hp2 k2 hk2]
        unfold parent_of
        rw [a4 k2 (fun h => hdis2 k2 h hin)]

theorem int_wrap_emod (x : Int) : int_wrap x % 4294967296 = x % 4294967296 := by
  unfold int_wrap INT_MAX
  split <;> omega

theorem int_wrap_id (x : Int) (h0 : 0 ≤ x) (h1 : x ≤ INT_MAX) : int_wrap x = x := by
  unfold int_wrap
  unfold INT_MAX at h1 ⊢
  split <;> omega

theorem proc_data_reparent (u P : Int) (r : smapsproc_t) :
    proc_data (reparent u P r) = proc_data r := rfl

theorem mem_of_filter_some (pre : List (Option Int)) (kept : List Int)
    (h : pre.filter (fun c => decide (c ≠ none)) = kept.map some) (c : Int) :
    some c ∈ pre ↔ c ∈ kept := by
  have h1 : some c ∈ pre.filter (fun c => decide (c ≠ none)) ↔ some c ∈ pre := by
    simp [List.mem_filter]
  rw [← h1, h]
  simp

/-- The block of the second loop of `smapsproc_collapse_threads` for a child
`k` of `u` that is a thread of `u`: the trees `Lgs` of the children `gks` of
`k` become trees of children of `u`, which the loop has yet to visit. -/
theorem collapse_thread_step (m : Nat) (u k : Int) (H : List smapsproc_t) (s t : smapsproc_t)
    (pre : List (Option Int)) (kept todo gks : List Int) (Lkept Ltodo Lgs : List (List Int))
    (hs : proc_deref H u = some s) (ht : proc_deref H k = some t)
    (hch : s.smapsproc_children = pre ++ (k :: todo).map some)
    (hfil : pre.filter (fun c => decide (c ≠ none)) = kept.map some)
    (hfk : List.Forall₂ (fun k Lk => shape H (m + 1) k Lk) kept Lkept)
    (hft : List.Forall₂ (fun k Lk => shape H (m + 1) k Lk) todo Ltodo)
    (htc : t.smapsproc_children = gks.map some)
    (hfg : List.Forall₂ (fun k Lk => shape H m k Lk) gks Lgs)
    (hnd : (u :: (Lkept.flatten ++ ((k :: Lgs.flatten) ++ Ltodo.flatten))).Nodup)
    (hlk : linked H (u :: (Lkept.flatten ++ ((k :: Lgs.flatten) ++ Ltodo.flatten))))
    (hns : nosame H (Lkept.flatten ++ ((k :: Lgs.flatten) ++ Ltodo.flatten)))
    (hkc : ∀ c ∈ kept, ∀ rc, proc_deref H c = some rc → smapsproc_are_same s rc = 0) :
    ∃ H3 s3, collapse_thread H u pre.length k = some H3 ∧ proc_deref H3 u = some s3 ∧
      s3.smapsproc_children = (pre ++ [none]) ++ (todo ++ gks).map some ∧
      List.Forall₂ (fun k Lk => shape H3 (m + 1) k Lk) kept Lkept ∧
      List.Forall₂ (fun k Lk => shape H3 (m + 1) k Lk) (todo ++ gks) (Ltodo ++ Lgs) ∧
      region H H3 (u :: (Lkept.flatten ++ ((k :: Lgs.flatten) ++ Ltodo.flatten)))
        (u :: (Lkept.flatten ++ (Ltodo ++ Lgs).flatten)) ∧
      linked H3 (u :: (Lkept.flatten ++ (Ltodo ++ Lgs).flatten)) ∧
      nosame H3 (Lkept.flatten ++ (Ltodo ++ Lgs).flatten) ∧
      (∀ c ∈ kept, ∀ rc, proc_deref H3 c = some rc → smapsproc_are_same s3 rc = 0) ∧
      parent_of H3 u = parent_of H u := by
  -- the records of the three forests
  have hperm : (u :: (Lkept.flatten ++ ((k :: Lgs.flatten) ++ Ltodo.flatten))).Perm
      (k :: u :: (Lkept.flatten ++ (Ltodo ++ Lgs).flatten)) := by
    rw [List.flatten_append]
    refine List.Perm.trans (List.Perm.cons u ?_) (List.Perm.swap k u _)
    refine List.Perm.trans ?_ List.perm_middle
    refine List.Perm.append_left _ ?_
    rw [List.cons_append]
    exact List.Perm.cons k List.perm_append_comm
  have hnd3 : (k :: u :: (Lkept.flatten ++ (Ltodo ++ Lgs).flatten)).Nodup :=
    hperm.nodup_iff.1 hnd
  have hmem : ∀ x, x ∈ u :: (Lkept.flatten ++ ((k :: Lgs.flatten) ++ Ltodo.flatten)) ↔
      x = k ∨ x ∈ u :: (Lkept.flatten ++ (Ltodo ++ Lgs).flatten) := by
    intro x
    rw [hperm.mem_iff, List.mem_cons]
  have hk3 : k ∉ u :: (Lkept.flatten ++ (Ltodo ++ Lgs).flatten) := (List.nodup_cons.1 hnd3).1
  have hnd4 := (List.nodup_cons.1 hnd3).2
  have hu3 : u ∉ Lkept.flatten ++ (Ltodo ++ Lgs).flatten := (List.nodup_cons.1 hnd4).1
  have hne : u ≠ k := fun h => hk3 (by rw [h]; exact List.mem_cons_self _ _)
  have hgin : ∀ g ∈ gks, g ∈ Lkept.flatten ++ (Ltodo ++ Lgs).flatten := by
    intro g hg
    rw [List.flatten_append]
    exact List.mem_append_right _ (List.mem_append_right _ (forest_head_mem H m gks Lgs hfg g hg))
  have hug : u ∉ gks := fun h => hu3 (hgin u h)
  have hkg : k ∉ gks := fun h => hk3 (List.mem_cons_of_mem _ (hgin k h))
  obtain ⟨H3, e1, e2, e3⟩ := collapse_thread_spec H u k pre.length s t gks hs ht hne htc
    (fun g hg => forest_deref H m gks Lgs hfg g (forest_head_mem H m gks Lgs hfg g hg)) hug hkg
  have hd3u := e3 u
  rw [if_pos rfl] at hd3u
  have hd3k := e3 k
  rw [if_neg (Ne.symm hne), if_pos rfl] at hd3k
  have hd3o : ∀ x, x ≠ u → x ≠ k → proc_deref H3 x =
      if x ∈ gks then (proc_deref H x).map (reparent u s.smapsproc_pid.Pid)
      else proc_deref H x := by
    intro x h1 h2
    rw [e3 x, if_neg h1, if_neg h2]
  have hchild : ∀ x, x ≠ u → x ≠ k → (proc_deref H3 x).map (fun r => r.smapsproc_children)
      = (proc_deref H x).map (fun r => r.smapsproc_children) := by
    intro x h1 h2
    rw [hd3o x h1 h2]
    split
    · cases proc_deref H x <;> rfl
    · rfl
  have hdata : ∀ x, (proc_deref H3 x).map proc_data = (proc_deref H x).map proc_data := by
    intro x
    by_cases h1 : x = u
    · rw [h1, hd3u, hs]; rfl
    · by_cases h2 : x = k
      · rw [h2, hd3k, ht]; rfl
      · rw [hd3o x h1 h2]
        split
        · cases proc_deref H x <;> rfl
        · rfl
  have hthr : ∀ x, x ≠ u → x ≠ k → threads_of H3 x = threads_of H x := by
    intro x h1 h2
    unfold threads_of
    rw [hd3o x h1 h2]
    split
    · cases proc_deref H x <;> rfl
    · rfl
  have hneu : ∀ x ∈ Lkept.flatten ++ (Ltodo ++ Lgs).flatten, x ≠ u :=
    fun x hx h => hu3 (h ▸ hx)
  have hnek : ∀ x ∈ Lkept.flatten ++ (Ltodo ++ Lgs).flatten, x ≠ k :=
    fun x hx h => hk3 (List.mem_cons_of_mem _ (h ▸ hx))
  have hch3 : ((s.smapsproc_children ++ gks.map some).set pre.length none)
      = (pre ++ [none]) ++ (todo ++ gks).map some := by
    rw [hch, List.append_assoc, List.set_append_right _ _ (le_refl _), Nat.sub_self]
    simp
  have hklive : k ∈ u :: (Lkept.flatten ++ ((k :: Lgs.flatten) ++ Ltodo.flatten)) :=
    (hmem k).2 (Or.inl rfl)
  have hkpar : t.smapsproc_parent = some u := by
    obtain ⟨_, rk, h1, h2⟩ := hlk u (List.mem_cons_self _ _) s hs k (by rw [hch]; simp)
    rw [ht] at h1
    simp only [Option.some.injEq] at h1
    rw [h1]
    exact h2
  have hgpar : ∀ g ∈ gks, ∃ rg, proc_deref H g = some rg ∧ rg.smapsproc_parent = some k := by
    intro g hg
    exact (hlk k hklive t ht g (by rw [htc]; exact List.mem_map.2 ⟨g, hg, rfl⟩)).2
  have hpar : ∀ c, c ∈ Lkept.flatten ++ (Ltodo ++ Lgs).flatten →
      (c ∈ gks ∨ ∃ rc0, proc_deref H c = some rc0 ∧ rc0.smapsproc_parent = some u) →
      ∃ rc, proc_deref H3 c = some rc ∧ rc.smapsproc_parent = some u := by
    intro c hc h
    rw [hd3o c (hneu c hc) (hnek c hc)]
    by_cases hg : c ∈ gks
    · obtain ⟨rg, h1, _⟩ := hgpar c hg
      rw [if_pos hg, h1]
      exact ⟨_, rfl, rfl⟩
    · rw [if_neg hg]
      rcases h with h | h
      · exact absurd h hg
      · exact h
  refine ⟨H3, _, e1, hd3u, hch3, ?_, ?_, ⟨e2, hnd4, ?_, ?_, hdata, ?_, ?_⟩, ?_, ?_, ?_, ?_⟩
  · exact forest_congr H H3 (m + 1) kept Lkept hfk (fun x hx =>
      hchild x (hneu x (List.mem_append_left _ hx)) (hnek x (List.mem_append_left _ hx)))
  · refine List.rel_append ?_ ?_
    · exact forest_congr H H3 (m + 1) todo Ltodo hft (fun x hx => by
        have hin : x ∈ Lkept.flatten ++ (Ltodo ++ Lgs).flatten := by
          rw [List.flatten_append]
          exact List.mem_append_right _ (List.mem_append_left _ hx)
        exact hchild x (hneu x hin) (hnek x hin))
    · exact forest_congr H H3 (m + 1) gks Lgs
        (hfg.imp (fun a b h => shape_mono H m a b h)) (fun x hx => by
        have hin : x ∈ Lkept.flatten ++ (Ltodo ++ Lgs).flatten := by
          rw [List.flatten_append]
          exact List.mem_append_right _ (List.mem_append_right _ hx)
        exact hchild x (hneu x hin) (hnek x hin))
  · exact fun x hx => (hmem x).2 (Or.inr hx)
  · intro x hx
    have h1 : x ≠ u := fun h => hx (by rw [h]; exact List.mem_cons_self _ _)
    have h2 : x ≠ k := fun h => hx ((hmem x).2 (Or.inl h))
    have h3 : x ∉ gks := fun h =>
      hx ((hmem x).2 (Or.inr (List.mem_cons_of_mem _ (hgin x h))))
    rw [hd3o x h1 h2, if_neg h3]
  · intro x hx hx2
    rcases (hmem x).1 hx with h | h
    · rw [h, hd3k]
      exact ⟨_, rfl, rfl, rfl⟩
    · exact absurd h hx2
  · have h1 : threads_of H3 u
        = int_wrap (s.smapsproc_pid.Threads + t.smapsproc_pid.Threads) := by
      unfold threads_of
      rw [hd3u]
      rfl
    have h2 : threads_of H u = s.smapsproc_pid.Threads := by
      unfold threads_of
      rw [hs]
      rfl
    have h3 : threads_of H k = t.smapsproc_pid.Threads := by
      unfold threads_of
      rw [ht]
      rfl
    have hrest := thread_sum_congr_threads H H3 _
      (fun x hx => hthr x (hneu x hx) (hnek x hx))
    have hsum : thread_sum H (u :: (Lkept.flatten ++ ((k :: Lgs.flatten) ++ Ltodo.flatten)))
        = t.smapsproc_pid.Threads + (s.smapsproc_pid.Threads
          + thread_sum H (Lkept.flatten ++ (Ltodo ++ Lgs).flatten)) := by
      rw [thread_sum_perm H _ _ hperm, thread_sum_cons H k, thread_sum_cons H u, h2, h3]
    have hsum3 : thread_sum H3 (u :: (Lkept.flatten ++ (Ltodo ++ Lgs).flatten))
        = int_wrap (s.smapsproc_pid.Threads + t.smapsproc_pid.Threads)
          + thread_sum H (Lkept.flatten ++ (Ltodo ++ Lgs).flatten) := by
      rw [thread_sum_cons H3, hrest, h1]
    refine ⟨?_, fun hn hsm => ?_⟩
    · rw [hsum, hsum3]
      have hw := int_wrap_emod (s.smapsproc_pid.Threads + t.smapsproc_pid.Threads)
      omega
    · have hn3 : ∀ x ∈ Lkept.flatten ++ (Ltodo ++ Lgs).flatten, 0 ≤ threads_of H x :=
        fun x hx => hn x ((hmem x).2 (Or.inr (List.mem_cons_of_mem _ hx)))
      have h0 := thread_sum_nonneg H _ hn3
      have h0s := hn u (List.mem_cons_self _ _)
      have h0t := hn k hklive
      rw [h2] at h0s
      rw [h3] at h0t
      rw [hsum] at hsm
      have hid := int_wrap_id (s.smapsproc_pid.Threads + t.smapsproc_pid.Threads)
        (by omega) (by omega)
      refine ⟨fun x hx => ?_, ?_⟩
      · rcases List.mem_cons.1 hx with h | h
        · rw [h, h1, hid]
          omega
        · rw [hthr x (hneu x h) (hnek x h)]
          exact hn3 x h
      · rw [hsum, hsum3, hid]
        omega
  · intro x hx rx hrx c hc
    rcases List.mem_cons.1 hx with hxu | hxr
    · rw [hxu, hd3u] at hrx
      simp only [Option.some.injEq] at hrx
      rw [← hrx] at hc
      simp only [hch3, List.mem_append, List.mem_map, List.mem_singleton, Option.some.injEq,
        exists_eq_right, reduceCtorEq, or_false] at hc
      rw [hxu]
      have hcin : c ∈ Lkept.flatten ++ (Ltodo ++ Lgs).flatten := by
        rcases hc with h | h | h
        · exact List.mem_append_left _
            (forest_head_mem H _ kept Lkept hfk c ((mem_of_filter_some pre kept hfil c).1 h))
        · rw [List.flatten_append]
          exact List.mem_append_right _ (List.mem_append_left _
            (forest_head_mem H _ todo Ltodo hft c h))
        · exact hgin c h
      refine ⟨List.mem_cons_of_mem _ hcin, hpar c hcin ?_⟩
      rcases hc with h | h | h
      · exact Or.inr (hlk u (List.mem_cons_self _ _) s hs c (by
          rw [hch]; exact List.mem_append_left _ h)).2
      · exact Or.inr (hlk u (List.mem_cons_self _ _) s hs c (by
          rw [hch]
          exact List.mem_append_right _ (List.mem_map.2 ⟨c, List.mem_cons_of_mem _ h, rfl⟩))).2
      · exact Or.inl h
    · have hxu := hneu x hxr
      have hxk := hnek x hxr
      have hcx := hchild x hxu hxk
      rw [hrx] at hcx
      cases h0 : proc_deref H x with
      | none => rw [h0] at hcx; cases hcx
      | some rx0 =>
        rw [h0] at hcx
        simp only [Option.map_some', Option.some.injEq] at hcx
        obtain ⟨hcl, rc0, h1, h2⟩ :=
          hlk x ((hmem x).2 (Or.inr hx)) rx0 h0 c (by rw [← hcx]; exact hc)
        have hck : c ≠ k := by
          intro h
          rw [h, ht] at h1
          simp only [Option.some.injEq] at h1
          rw [← h1, hkpar] at h2
          simp only [Option.some.injEq] at h2
          exact hxu h2.symm
        have hc3 : c ∈ u :: (Lkept.flatten ++ (Ltodo ++ Lgs).flatten) := by
          rcases (hmem c).1 hcl with h | h
          · exact absurd h hck
          · exact h
        refine ⟨hc3, ?_⟩
        rcases List.mem_cons.1 hc3 with hcu | hcr
        · rw [hcu, hd3u]
          rw [hcu, hs] at h1
          simp only [Option.some.injEq] at h1
          refine ⟨_, rfl, ?_⟩
          rw [← h1] at h2
          exact h2
        · rw [hd3o c (hneu c hcr) hck]
          have hg : c ∉ gks := by
            intro hg
            obtain ⟨rg, h3, h4⟩ := hgpar c hg
            rw [h1] at h3
            simp only [Option.some.injEq] at h3
            rw [h3, h4] at h2
            simp only [Option.some.injEq] at h2
            exact hxk h2.symm
          rw [if_neg hg]
          exact ⟨rc0, h1, h2⟩
  · refine nosame_congr H H3 _ (fun x hx => ?_)
      (fun x hx => hchild x (hneu x hx) (hnek x hx)) hdata
    have := (hmem x).2 (Or.inr (List.mem_cons_of_mem _ hx))
    rcases List.mem_cons.1 this with h | h
    · exact absurd h (hneu x hx)
    · exact hns x h
  · intro c hc rc hrc
    obtain ⟨r, h1, h2⟩ := deref_of_data H H3 c rc (hdata c) hrc
    exact (are_same_data _ s rc r rfl h2).trans (hkc c hc r h1)
  · unfold parent_of
    rw [hd3u, hs]
    rfl

/-- The second loop of `smapsproc_collapse_threads`: `pre` is the part of the
child list of `u` that the loop has visited, `kept` are the children in it,
`todo` are the children that the loop has not visited yet.  The loop ends
within one iteration for every record of the trees of `todo`. -/
theorem collapse_threads_merge_spec (n : Nat) (u : Int) (fuel : Nat) :
    ∀ (H : List smapsproc_t) (s : smapsproc_t) (pre : List (Option Int))
      (kept todo : List Int) (Lkept Ltodo : List (List Int)),
      proc_deref H u = some s →
      s.smapsproc_children = pre ++ todo.map some →
      pre.filter (fun c => decide (c ≠ none)) = kept.map some →
      List.Forall₂ (fun k Lk => shape H n k Lk) kept Lkept →
      List.Forall₂ (fun k Lk => shape H n k Lk) todo Ltodo →
      (u :: (Lkept.flatten ++ Ltodo.flatten)).Nodup →
      linked H (u :: (Lkept.flatten ++ Ltodo.flatten)) →
      nosame H (Lkept.flatten ++ Ltodo.flatten) →
      (∀ c ∈ kept, ∀ rc, proc_deref H c = some rc → smapsproc_are_same s rc = 0) →
      Ltodo.flatten.length + 1 ≤ fuel →
      ∃ H2 s2 kept2 Lkept2,
        collapse_threads_merge u fuel pre.length H = some H2 ∧
        proc_deref H2 u = some s2 ∧
        s2.smapsproc_children.filter (fun c => decide (c ≠ none)) = kept2.map some ∧
        List.Forall₂ (fun k Lk => shape H2 n k Lk) kept2 Lkept2 ∧
        region H H2 (u :: (Lkept.flatten ++ Ltodo.flatten)) (u :: Lkept2.flatten) ∧
        linked H2 (u :: Lkept2.flatten) ∧
        nosame H2 (u :: Lkept2.flatten) ∧
        parent_of H2 u = parent_of H u := by
  induction fuel with
  | zero => intro H s pre kept todo Lkept Ltodo _ _ _ _ _ _ _ _ _ hfuel; omega
  | succ f ih =>
    intro H s pre kept todo Lkept Ltodo hs hch hfil hfk hft hnd hlk hns hkc hfuel
    cases hft with
    | nil =>
      simp only [List.flatten_nil, List.append_nil, List.map_nil] at hnd hlk hns hch ⊢
      refine ⟨H, s, kept, Lkept, ?_, hs, by rw [hch]; exact hfil, hfk, region_refl H _ hnd,
        hlk, ?_, rfl⟩
      · unfold collapse_threads_merge
        rw [hs]
        simp only [hch, lt_irrefl, if_false]
      · intro x hx rx hrx c hc rc hrc
        rcases List.mem_cons.1 hx with h | h
        · rw [h, hs] at hrx
          simp only [Option.some.injEq] at hrx
          rw [← hrx] at hc ⊢
          rw [hch] at hc
          exact hkc c ((mem_of_filter_some pre kept hfil c).1 hc) rc hrc
        · exact hns x h rx hrx c hc rc hrc
    | @cons k Lk todo Ltodo hk hrest =>
      cases n with
      | zero => exact absurd hk (by simp [shape])
      | succ m =>
      obtain ⟨t, gks, Lgs, ht, htc, hLk, hfg⟩ := hk
      subst hLk
      have hlen : pre.length < s.smapsproc_children.length := by
        rw [hch]; simp
      have hget : s.smapsproc_children[pre.length]? = some (some k) := by
        rw [hch, List.getElem?_append_right (le_refl _)]; simp
      rw [List.flatten_cons] at hnd hlk hns hfuel ⊢
      by_cases hsame : smapsproc_are_same s t = 0
      · -- the child is kept
        have heq : (Lkept ++ [k :: Lgs.flatten]).flatten ++ Ltodo.flatten
            = Lkept.flatten ++ ((k :: Lgs.flatten) ++ Ltodo.flatten) := by
          simp
        obtain ⟨H2, s2, kept2, Lkept2, h1, h2, h3, h4, h5, h6, h7, h8⟩ :=
          ih H s (pre ++ [some k]) (kept ++ [k]) todo (Lkept ++ [k :: Lgs.flatten]) Ltodo hs
            (by rw [hch]; simp) (by rw [List.filter_append, hfil]; simp)
            (List.rel_append hfk (List.Forall₂.cons ⟨t, gks, Lgs, ht, htc, rfl, hfg⟩
              List.Forall₂.nil)) hrest
            (by rw [heq]; exact hnd) (by rw [heq]; exact hlk) (by rw [heq]; exact hns)
            (by
              intro c hc rc hrc
              rcases List.mem_append.1 hc with h | h
              · exact hkc c h rc hrc
              · rw [List.mem_singleton] at h
                rw [h, ht] at hrc
                simp only [Option.some.injEq] at hrc
                rw [← hrc]
                exact hsame)
            (by simp only [List.length_append, List.length_cons] at hfuel; omega)
        rw [heq] at h5
        refine ⟨H2, s2, kept2, Lkept2, ?_, h2, h3, h4, h5, h6, h7, h8⟩
        unfold collapse_threads_merge
        rw [hs]
        simp only [hlen, if_true, hget, ht, hsame, ne_eq, not_true_eq_false, if_false]
        simpa using h1
      · -- the child is a thread
        obtain ⟨H3, s3, e1, e2, e3, e4, e5, e6, e7, e8, e9, e10⟩ :=
          collapse_thread_step m u k H s t pre kept todo gks Lkept Ltodo Lgs hs ht hch hfil
            hfk hrest htc hfg hnd hlk hns hkc
        obtain ⟨H2, s2, kept2, Lkept2, h1, h2, h3, h4, h5, h6, h7, h8⟩ :=
          ih H3 s3 (pre ++ [none]) kept (todo ++ gks) Lkept (Ltodo ++ Lgs) e2 e3
            (by rw [List.filter_append, hfil]; simp) e4 e5 e6.2.1 e7 e8 e9
            (by
              simp only [List.length_append, List.length_cons, List.flatten_append] at hfuel ⊢
              omega)
        refine ⟨H2, s2, kept2, Lkept2, ?_, h2, h3, h4, region_trans H H3 H2 _ _ _ e6 h5, h6, h7,
          h8.trans e10⟩
        unfold collapse_threads_merge
        rw [hs]
        simp only [hlen, if_true, hget, ht, hsame, ne_eq, not_false_eq_true, e1]
        simpa using h1

/-- `smapsproc_collapse_threads` returns on every tree of child lists, and
does to it what `collapsed` says. -/
theorem smapsproc_collapse_threads_spec (n : Nat) :
    ∀ (fuel : Nat) (H : List smapsproc_t) (u : Int) (L : List Int),
      shape H n u L → L.Nodup → linked H L → n ≤ fuel →
      ∃ H1 L1, smapsproc_collapse_threads fuel u H = some H1 ∧ collapsed H H1 n u L L1 := by
  induction n with
  | zero => intro fuel H u L h; exact absurd h (by simp [shape])
  | succ n ih =>
    intro fuel H u L hsh hnd hlk hfuel
    obtain ⟨f, rfl⟩ : ∃ f, fuel = f + 1 := ⟨fuel - 1, by omega⟩
    have hshape := hsh
    obtain ⟨r, ks, Ls, hr, hch, hL, hf⟩ := hsh
    subst hL
    have hu : u ∉ Ls.flatten := (List.nodup_cons.1 hnd).1
    have hlen : (u :: Ls.flatten).length ≤ H.length :=
      nodup_length_le H _ hnd (shape_deref H (n + 1) u _ hshape)
    have hks : ks.length ≤ Ls.flatten.length :=
      forall₂_length_flatten _ ks Ls hf (fun k Lk h => by
        obtain ⟨rest, hrest⟩ := shape_head H n k Lk h
        rw [hrest]
        simp)
    rw [List.length_cons] at hlen
    -- the first loop
    obtain ⟨H1, Ls1, hc1, hreg1, hsh1, hl1, hn1, hp1⟩ :=
      collapse_threads_recurse_spec (smapsproc_collapse_threads f) n u
        (fun H k Lk h1 h2 h3 => ih f H k Lk h1 h2 h3 (by omega)) ks Ls H r [] (H.length + 1)
        hf hr (by rw [hch]; rfl) hnd
        (linked_sub H _ _ hlk (fun x hx => List.mem_cons_of_mem _ hx)
          (forest_closed H n ks Ls hf)) (by omega)
    have hreg10 := hreg1
    obtain ⟨a1, a2, a3, a4, a5, a6, a7⟩ := hreg1
    have hr1 : proc_deref H1 u = some r := by rw [a4 u hu]; exact hr
    have hu1 : u ∉ Ls1.flatten := fun h => hu (a3 u h)
    have hlen1 : H1.length = H.length := by
      have := congrArg List.length a1
      simpa using this
    have hlen2 : Ls1.flatten.length ≤ H.length := by
      rw [← hlen1]
      exact nodup_length_le H1 _ a2 (forest_deref H1 n ks Ls1 hsh1)
    have hlk1 : linked H1 (u :: Ls1.flatten) := by
      intro x hx rx hrx c hc
      rcases List.mem_cons.1 hx with h | h
      · rw [h, hr1] at hrx
        simp only [Option.some.injEq] at hrx
        rw [← hrx, hch, List.mem_map] at hc
        obtain ⟨c2, hc2, hc3⟩ := hc
        simp only [Option.some.injEq] at hc3
        subst hc3
        refine ⟨List.mem_cons_of_mem _ (forest_head_mem H1 n ks Ls1 hsh1 c2 hc2), ?_⟩
        obtain ⟨_, rc, h1, h2⟩ := hlk u (List.mem_cons_self _ _) r hr c2
          (by rw [hch]; exact List.mem_map.2 ⟨c2, hc2, rfl⟩)
        have hp := hp1 c2 hc2
        unfold parent_of at hp
        rw [h1] at hp
        cases h3 : proc_deref H1 c2 with
        | none => rw [h3] at hp; cases hp
        | some rc1 =>
          rw [h3] at hp
          simp only [Option.map_some', Option.some.injEq, Prod.mk.injEq] at hp
          exact ⟨rc1, rfl, by rw [h, hp.1, h2]⟩
      · obtain ⟨h1, h2⟩ := hl1 x h rx hrx c hc
        exact ⟨List.mem_cons_of_mem _ h1, h2⟩
    -- the second loop
    obtain ⟨H2, s2, kept2, Lkept2, hm, hs2, hfil2, hsh2, hreg2, hl2, hn2, hp2⟩ :=
      collapse_threads_merge_spec n u (H.length + 1) H1 r [] [] ks [] Ls1 hr1
        (by rw [hch]; rfl) rfl List.Forall₂.nil hsh1
        (by
          simp only [List.flatten_nil, List.nil_append]
          exact List.nodup_cons.2 ⟨hu1, a2⟩)
        (by simpa using hlk1) (by simpa using hn1)
        (fun c hc => by cases hc) (by omega)
    simp only [List.flatten_nil, List.nil_append] at hreg2
    have hreg20 := hreg2
    obtain ⟨b1, b2, b3, b4, b5, b6, b7⟩ := hreg2
    have hu2 : u ∉ Lkept2.flatten := (List.nodup_cons.1 b2).1
    -- the child list is compacted
    have hd : ∀ x, proc_deref (proc_store H2 u (fun r => { r with
        smapsproc_children := r.smapsproc_children.filter (fun c => decide (c ≠ none)) })) x
        = if x = u then some { s2 with
            smapsproc_children := s2.smapsproc_children.filter (fun c => decide (c ≠ none)) }
          else proc_deref H2 x := by
      intro x
      rw [proc_deref_store H2 u x (fun r => { r with
        smapsproc_children := r.smapsproc_children.filter (fun c => decide (c ≠ none)) })
        (fun _ => rfl), hs2]
      rfl
    have hdo : ∀ x, x ≠ u → proc_deref (proc_store H2 u (fun r => { r with
        smapsproc_children := r.smapsproc_children.filter (fun c => decide (c ≠ none)) })) x
        = proc_deref H2 x := by
      intro x hx
      rw [hd x, if_neg hx]
    have hdu := hd u
    rw [if_pos rfl] at hdu
    have hpar : ∀ c rc, proc_deref H2 c = some rc → ∃ rc1, proc_deref (proc_store H2 u
        (fun r => { r with
          smapsproc_children := r.smapsproc_children.filter (fun c => decide (c ≠ none)) })) c
        = some rc1 ∧ rc1.smapsproc_parent = rc.smapsproc_parent ∧
          proc_data rc1 = proc_data rc := by
      intro c rc hrc
      by_cases h : c = u
      · rw [h, hs2] at hrc
        simp only [Option.some.injEq] at hrc
        rw [h, hdu, ← hrc]
        exact ⟨_, rfl, rfl, rfl⟩
      · rw [hdo c h]
        exact ⟨rc, hrc, rfl, rfl⟩
    have hdata : ∀ x, (proc_deref (proc_store H2 u (fun r => { r with
        smapsproc_children := r.smapsproc_children.filter (fun c => decide (c ≠ none)) })) x).map
        proc_data = (proc_deref H2 x).map proc_data := by
      intro x
      by_cases h : x = u
      · rw [h, hdu, hs2]; rfl
      · rw [hdo x h]
    have hchild : ∀ x rx1, proc_deref (proc_store H2 u (fun r => { r with
        smapsproc_children := r.smapsproc_children.filter (fun c => decide (c ≠ none)) })) x
        = some rx1 → ∃ rx, proc_deref H2 x = some rx ∧ proc_data rx1 = proc_data rx ∧
          ∀ c, some c ∈ rx1.smapsproc_children → some c ∈ rx.smapsproc_children := by
      intro x rx1 hrx1
      by_cases h : x = u
      · rw [h, hdu] at hrx1
        simp only [Option.some.injEq] at hrx1
        rw [h, ← hrx1]
        exact ⟨s2, hs2, rfl, fun c hc => (List.mem_filter.1 hc).1⟩
      · rw [hdo x h] at hrx1
        exact ⟨rx1, hrx1, rfl, fun c hc => hc⟩
    refine ⟨proc_store H2 u (fun r => { r with
        smapsproc_children := r.smapsproc_children.filter (fun c => decide (c ≠ none)) }),
      u :: Lkept2.flatten, ?_, ⟨?_, ?_, ?_, ?_, ?_⟩⟩
    · unfold smapsproc_collapse_threads
      simp only [List.length_nil] at hc1 hm
      rw [hc1]
      simp only []
      rw [hm]
    · refine region_trans H H2 _ _ _ _
        (region_trans H H1 H2 _ _ _ (region_cons H H1 u _ _ hreg10 hu) hreg20) ?_
      refine ⟨proc_store_uids H2 u _ (fun _ => rfl), b2, fun _ h => h, ?_, hdata,
        fun x h1 h2 => absurd h1 h2, ?_⟩
      · intro x hx
        exact hdo x (fun h => hx (by rw [h]; exact List.mem_cons_self _ _))
      · have hthr : ∀ x, threads_of (proc_store H2 u (fun r => { r with
            smapsproc_children := r.smapsproc_children.filter (fun c => decide (c ≠ none)) })) x
            = threads_of H2 x := by
          intro x
          unfold threads_of
          by_cases h : x = u
          · rw [h, hdu, hs2]; rfl
          · rw [hdo x h]
        have hsum := thread_sum_congr_threads H2 _ (u :: Lkept2.flatten) (fun x _ => hthr x)
        refine ⟨by rw [hsum], fun hn _ => ⟨fun x hx => ?_, hsum⟩⟩
        rw [hthr x]
        exact hn x hx
    · refine ⟨_, kept2, Lkept2, hdu, hfil2, rfl, ?_⟩
      exact forest_congr H2 _ n kept2 Lkept2 hsh2 (fun x hx => by
        rw [hdo x (fun h => hu2 (h ▸ hx))])
    · intro x hx rx1 hrx1 c hc
      obtain ⟨rx, h1, _, h3⟩ := hchild x rx1 hrx1
      obtain ⟨h4, rc, h5, h6⟩ := hl2 x hx rx h1 c (h3 c hc)
      obtain ⟨rc1, h7, h8, _⟩ := hpar c rc h5
      exact ⟨h4, rc1, h7, by rw [h8, h6]⟩
    · intro x hx rx1 hrx1 c hc rc1 hrc1
      obtain ⟨rx, h1, h2, h3⟩ := hchild x rx1 hrx1
      obtain ⟨rc, h4, h5⟩ := deref_of_data H2 _ c rc1 (hdata c) hrc1
      rw [are_same_data rx1 rx rc1 rc h2 h5]
      exact hn2 x hx rx h1 c (h3 c hc) rc h4
    · unfold parent_of at hp2 ⊢
      rw [hs2, hr1] at hp2
      rw [hdu, hr]
      exact hp2

/-! ## A tree without threads -/

theorem collapse_threads_recurse_fixed
    (collapse : Int → List smapsproc_t → Option (List smapsproc_t)) (u : Int)
    (H : List smapsproc_t) (r : smapsproc_t) (hr : proc_deref H u = some r) (todo : List Int) :
    ∀ (done : List (Option Int)) (fuel : Nat),
      r.smapsproc_children = done ++ todo.map some →
      (∀ k ∈ todo, collapse k H = some H) → todo.length + 1 ≤ fuel →
      collapse_threads_recurse collapse u fuel done.length H = some H := by
  induction todo with
  | nil =>
    intro done fuel hch _ hfuel
    obtain ⟨f, rfl⟩ : ∃ f, fuel = f + 1 := ⟨fuel - 1, by omega⟩
    unfold collapse_threads_recurse
    rw [hr]
    simp only [hch, List.map_nil, List.append_nil, lt_irrefl, if_false]
  | cons k todo ih =>
    intro done fuel hch hk hfuel
    obtain ⟨f, rfl⟩ : ∃ f, fuel = f + 1 := ⟨fuel - 1, by omega⟩
    have hlen : done.length < r.smapsproc_children.length := by
      rw [hch]; simp
    have hget : r.smapsproc_children[done.length]? = some (some k) := by
      rw [hch, List.getElem?_append_right (le_refl _)]; simp
    unfold collapse_threads_recurse
    rw [hr]
    simp only [hlen, if_true, hget, hk k (List.mem_cons_self _ _)]
    have := ih (done ++ [some k]) f (by rw [hch]; simp)
      (fun k2 h => hk k2 (List.mem_cons_of_mem _ h))
      (by simp only [List.length_cons] at hfuel; omega)
    simpa using this

theorem collapse_threads_merge_fixed (u : Int) (H : List smapsproc_t) (r : smapsproc_t)
    (hr : proc_deref H u = some r) (todo : List Int) :
    ∀ (done : List (Option Int)) (fuel : Nat),
      r.smapsproc_children = done ++ todo.map some →
      (∀ k ∈ todo, ∃ t, proc_deref H k = some t ∧ smapsproc_are_same r t = 0) →
      todo.length + 1 ≤ fuel →
      collapse_threads_merge u fuel done.length H = some H := by
  induction todo with
  | nil =>
    intro done fuel hch _ hfuel
    obtain ⟨f, rfl⟩ : ∃ f, fuel = f + 1 := ⟨fuel - 1, by omega⟩
    unfold collapse_threads_merge
    rw [hr]
    simp only [hch, List.map_nil, List.append_nil, lt_irrefl, if_false]
  | cons k todo ih =>
    intro done fuel hch hk hfuel
    obtain ⟨f, rfl⟩ : ∃ f, fuel = f + 1 := ⟨fuel - 1, by omega⟩
    have hlen : done.length < r.smapsproc_children.length := by
      rw [hch]; simp
    have hget : r.smapsproc_children[done.length]? = some (some k) := by
      rw [hch, List.getElem?_append_right (le_refl _)]; simp
    obtain ⟨t, ht, hsame⟩ := hk k (List.mem_cons_self _ _)
    unfold collapse_threads_merge
    rw [hr]
    simp only [hlen, if_true, hget, ht, hsame, ne_eq, not_true_eq_false, if_false]
    have := ih (done ++ [some k]) f (by rw [hch]; simp)
      (fun k2 h => hk k2 (List.mem_cons_of_mem _ h))
      (by simp only [List.length_cons] at hfuel; omega)
    simpa using this

/-- `smapsproc_collapse_threads` changes nothing in a memory whose tree has
no thread. -/
theorem smapsproc_collapse_threads_fixed (H : List smapsproc_t)
    (huid : (H.map (fun r => r.smapsproc_uid)).Nodup) (n : Nat) :
    ∀ (fuel : Nat) (u : Int) (L : List Int),
      shape H n u L → L.Nodup → nosame H L → n ≤ fuel →
      smapsproc_collapse_threads fuel u H = some H := by
  induction n with
  | zero => intro fuel u L h; exact absurd h (by simp [shape])
  | succ n ih =>
    intro fuel u L hsh hnd hns hfuel
    obtain ⟨f, rfl⟩ : ∃ f, fuel = f + 1 := ⟨fuel - 1, by omega⟩
    have hshape := hsh
    obtain ⟨r, ks, Ls, hr, hch, hL, hf⟩ := hsh
    subst hL
    have hlen : (u :: Ls.flatten).length ≤ H.length :=
      nodup_length_le H _ hnd (shape_deref H (n + 1) u _ hshape)
    have hks : ks.length ≤ Ls.flatten.length :=
      forall₂_length_flatten _ ks Ls hf (fun k Lk h => by
        obtain ⟨rest, hrest⟩ := shape_head H n k Lk h
        rw [hrest]
        simp)
    rw [List.length_cons] at hlen
    have hnd2 := (List.nodup_cons.1 hnd).2
    have h1 : collapse_threads_recurse (smapsproc_collapse_threads f) u (H.length + 1) 0 H
        = some H := by
      refine collapse_threads_recurse_fixed _ u H r hr ks [] (H.length + 1)
        (by rw [hch]; rfl) (fun k hk => ?_) (by omega)
      obtain ⟨Lk, hLk, hk2⟩ := forall₂_mem_flatten _ ks Ls hf k hk
      have hsub : ∀ x ∈ Lk, x ∈ u :: Ls.flatten :=
        fun x hx => List.mem_cons_of_mem _ (List.mem_flatten.2 ⟨Lk, hLk, hx⟩)
      exact ih f k Lk hk2 ((List.nodup_flatten.1 hnd2).1 Lk hLk)
        (fun x hx => hns x (hsub x hx)) (by omega)
    have h2 : collapse_threads_merge u (H.length + 1) 0 H = some H := by
      refine collapse_threads_merge_fixed u H r hr ks [] (H.length + 1)
        (by rw [hch]; rfl) (fun k hk => ?_) (by omega)
      obtain ⟨t, ht⟩ := shape_deref H (n + 1) u _ hshape k
        (List.mem_cons_of_mem _ (forest_head_mem H n ks Ls hf k hk))
      exact ⟨t, ht, hns u (List.mem_cons_self _ _) r hr k
        (by rw [hch]; exact List.mem_map.2 ⟨k, hk, rfl⟩) t ht⟩
    unfold smapsproc_collapse_threads
    rw [h1]
    simp only []
    rw [h2]
    simp only [Option.some.injEq]
    unfold proc_store
    rw [List.map_congr_left (g := id), List.map_id]
    intro x hx
    show (if x.smapsproc_uid = u then { x with
      smapsproc_children := x.smapsproc_children.filter (fun c => decide (c ≠ none)) }
      else x) = x
    by_cases hxu : x.smapsproc_uid = u
    · have hx2 := proc_deref_of_mem H huid x hx
      rw [hxu, hr] at hx2
      simp only [Option.some.injEq] at hx2
      have hfl : x.smapsproc_children.filter (fun c => decide (c ≠ none))
          = x.smapsproc_children := by
        rw [List.filter_eq_self]
        intro c hc
        rw [← hx2, hch, List.mem_map] at hc
        obtain ⟨c2, _, hc3⟩ := hc
        rw [← hc3]
        rfl
      rw [if_pos hxu, hfl]
    · rw [if_neg hxu]

/-! ## The tree of a hierarchy -/

theorem ancestor_add (H : List smapsproc_t) (a b : Nat) (x : Int) :
    ancestor H (a + b) x = (ancestor H a x).bind (ancestor H b) := by
  induction a generalizing x with
  | zero => simp [ancestor]
  | succ a ih =>
    rw [Nat.add_right_comm]
    cases hx : proc_deref H x with
    | none => simp [ancestor, hx]
    | some r =>
      cases hp : r.smapsproc_parent with
      | none => simp [ancestor, hx, hp]
      | some q =>
        simp only [ancestor, hx, hp]
        exact ih q

theorem ancestor_one (H : List smapsproc_t) (k x : Int) (rk : smapsproc_t)
    (h1 : proc_deref H k = some rk) (h2 : rk.smapsproc_parent = some x) :
    ancestor H 1 k = some x := by
  simp [ancestor, h1, h2]

theorem ancestor_root (H : List smapsproc_t) (u : Int) (ru : smapsproc_t)
    (h1 : proc_deref H u = some ru) (h2 : ru.smapsproc_parent = none) (e : Nat) :
    ancestor H (e + 1) u = none := by
  simp [ancestor, h1, h2]

theorem ancestor_deref (H : List smapsproc_t) (u : Int) (ru : smapsproc_t)
    (h1 : proc_deref H u = some ru) (d : Nat) (x : Int) (h : ancestor H d x = some u) :
    ∃ r, proc_deref H x = some r := by
  cases d with
  | zero =>
    simp only [ancestor, Option.some.injEq] at h
    rw [h]
    exact ⟨ru, h1⟩
  | succ d =>
    unfold ancestor at h
    cases hx : proc_deref H x with
    | none => rw [hx] at h; cases h
    | some r => exact ⟨r, rfl⟩

/-- No record below the root is its own ancestor. -/
theorem ancestor_no_cycle (H : List smapsproc_t) (u : Int) (ru : smapsproc_t)
    (h1 : proc_deref H u = some ru) (h2 : ru.smapsproc_parent = none) (d c : Nat) (x : Int)
    (hd : ancestor H d x = some u) (hc : ancestor H (c + 1) x = some x) : False := by
  have e1 : ancestor H (c + 1 + d) x = some u := by
    rw [ancestor_add, hc]
    exact hd
  have e2 : ancestor H (d + (c + 1)) x = none := by
    rw [ancestor_add, hd]
    exact ancestor_root H u ru h1 h2 c
  rw [Nat.add_comm] at e1
  rw [e1] at e2
  cases e2

theorem ancestor_inj (H : List smapsproc_t) (u : Int) (ru : smapsproc_t)
    (h1 : proc_deref H u = some ru) (h2 : ru.smapsproc_parent = none) (d i j : Nat) (x y : Int)
    (hd : ancestor H d x = some u) (hi : ancestor H i x = some y)
    (hj : ancestor H j x = some y) (hij : i < j) : False := by
  have hjd : j ≤ d := by
    by_contra hlt
    have e : ancestor H (d + (j - d - 1 + 1)) x = none := by
      rw [ancestor_add, hd]
      exact ancestor_root H u ru h1 h2 _
    have : d + (j - d - 1 + 1) = j := by omega
    rw [this, hj] at e
    cases e
  have ei : ancestor H (d - i) y = some u := by
    have : ancestor H (i + (d - i)) x = some u := by
      rw [show i + (d - i) = d by omega]
      exact hd
    rw [ancestor_add, hi] at this
    exact this
  have ej : ancestor H (d - j) y = some u := by
    have : ancestor H (j + (d - j)) x = some u := by
      rw [show j + (d - j) = d by omega]
      exact hd
    rw [ancestor_add, hj] at this
    exact this
  have e : ancestor H ((d - j) + (j - i - 1 + 1)) y = none := by
    rw [ancestor_add, ej]
    exact ancestor_root H u ru h1 h2 _
  rw [show (d - j) + (j - i - 1 + 1) = d - i by omega, ei] at e
  cases e

theorem ancestor_some_le (H : List smapsproc_t) (d i : Nat) (x u : Int)
    (hd : ancestor H d x = some u) (hi : i ≤ d) : ∃ y, ancestor H i x = some y ∧
      ancestor H (d - i) y = some u := by
  have : ancestor H (i + (d - i)) x = some u := by
    rw [show i + (d - i) = d by omega]
    exact hd
  rw [ancestor_add] at this
  cases h : ancestor H i x with
  | none => rw [h] at this; cases this
  | some y =>
    rw [h] at this
    exact ⟨y, rfl, this⟩

/-- The number of parent links from a record to the root is less than the
number of records. -/
theorem ancestor_depth (H : List smapsproc_t) (u : Int) (ru : smapsproc_t)
    (h1 : proc_deref H u = some ru) (h2 : ru.smapsproc_parent = none) (d : Nat) (x : Int)
    (hd : ancestor H d x = some u) : d + 1 ≤ H.length := by
  have hnd : ((List.range (d + 1)).map (fun i => (ancestor H i x).getD 0)).Nodup := by
    refine List.Nodup.map_on ?_ (List.nodup_range _)
    intro i hi j hj hij
    rw [List.mem_range] at hi hj
    obtain ⟨yi, hyi, _⟩ := ancestor_some_le H d i x u hd (by omega)
    obtain ⟨yj, hyj, _⟩ := ancestor_some_le H d j x u hd (by omega)
    rw [hyi, hyj] at hij
    simp only [Option.getD_some] at hij
    rw [hij] at hyi
    rcases Nat.lt_trichotomy i j with h | h | h
    · exact absurd (ancestor_inj H u ru h1 h2 d i j x yj hd hyi hyj h) id
    · exact h
    · exact absurd (ancestor_inj H u ru h1 h2 d j i x yj hd hyj hyi h) id
  have := nodup_length_le H _ hnd (by
    intro y hy
    rw [List.mem_map] at hy
    obtain ⟨i, hi, hy⟩ := hy
    rw [List.mem_range] at hi
    obtain ⟨yi, hyi, hyu⟩ := ancestor_some_le H d i x u hd (by omega)
    rw [hyi] at hy
    simp only [Option.getD_some] at hy
    rw [← hy]
    exact ancestor_deref H u ru h1 (d - i) yi hyu)
  simpa using this

/-- No record is below two children of a record that is below the root. -/
theorem ancestor_siblings (H : List smapsproc_t) (u : Int) (ru : smapsproc_t)
    (h1 : proc_deref H u = some ru) (h2 : ru.smapsproc_parent = none) (d : Nat) (x : Int)
    (hd : ancestor H d x = some u) (k k2 : Int) (rk rk2 : smapsproc_t)
    (hk : proc_deref H k = some rk) (hkp : rk.smapsproc_parent = some x)
    (hk2 : proc_deref H k2 = some rk2) (hkp2 : rk2.smapsproc_parent = some x)
    (e e2 : Nat) (y : Int) (he : ancestor H e y = some k) (he2 : ancestor H e2 y = some k2)
    (hlt : e < e2) : False := by
  have a1 : ancestor H (e + (e2 - e - 1 + 1)) y = some k2 := by
    rw [show e + (e2 - e - 1 + 1) = e2 by omega]
    exact he2
  rw [ancestor_add, he] at a1
  have a2 : ancestor H (1 + (e2 - e - 1)) k = some k2 := by
    rw [Nat.add_comm]
    exact a1
  rw [ancestor_add, ancestor_one H k x rk hk hkp] at a2
  have a3 : ancestor H ((e2 - e - 1) + 1) x = some x := by
    rw [ancestor_add]
    have : ancestor H (e2 - e - 1) x = some k2 := a2
    rw [this]
    exact ancestor_one H k2 x rk2 hk2 hkp2
  exact ancestor_no_cycle H u ru h1 h2 d _ x hd a3

/-- The records below a record of a hierarchy, at most `m` levels, make a
tree when the record is `d` parent links below the root and there are at
most `d + m` records. -/
theorem hierarchy_shape (H : List smapsproc_t) (u : Int) (hh : hierarchy H u) (m : Nat) :
    ∀ (d : Nat) (x : Int), ancestor H d x = some u → H.length ≤ d + m →
      ∃ L, shape H m x L ∧ L.Nodup ∧ ∀ y ∈ L, ∃ e, ancestor H e y = some x := by
  obtain ⟨_, ⟨ru, h1, h2⟩, hch, _⟩ := hh
  induction m with
  | zero =>
    intro d x hd hlen
    have := ancestor_depth H u ru h1 h2 d x hd
    omega
  | succ m ih =>
    intro d x hd hlen
    obtain ⟨r, hr⟩ := ancestor_deref H u ru h1 d x hd
    obtain ⟨ks, hks, hknd, hkp⟩ := hch x r hr
    have hcyc : ∀ c, ancestor H (c + 1) x = some x → False :=
      fun c hc => ancestor_no_cycle H u ru h1 h2 d c x hd hc
    have hforest : ∀ ks2 : List Int, (∀ k ∈ ks2, k ∈ ks) → ks2.Nodup →
        ∃ Ls, List.Forall₂ (fun k Lk => shape H m k Lk) ks2 Ls ∧ Ls.flatten.Nodup ∧
          ∀ y ∈ Ls.flatten, ∃ k ∈ ks2, ∃ e, ancestor H e y = some k := by
      intro ks2
      induction ks2 with
      | nil => intro _ _; exact ⟨[], List.Forall₂.nil, List.nodup_nil, fun y hy => by cases hy⟩
      | cons k ks2 ih2 =>
        intro hsub hnd2
        rw [List.nodup_cons] at hnd2
        obtain ⟨Ls, f1, f2, f3⟩ := ih2 (fun k2 h => hsub k2 (List.mem_cons_of_mem _ h)) hnd2.2
        obtain ⟨rk, hrk, hrkp⟩ := hkp k (hsub k (List.mem_cons_self _ _))
        have hdk : ancestor H (d + 1) k = some u := by
          rw [Nat.add_comm, ancestor_add, ancestor_one H k x rk hrk hrkp]
          exact hd
        obtain ⟨Lk, g1, g2, g3⟩ := ih (d + 1) k hdk (by omega)
        refine ⟨Lk :: Ls, List.Forall₂.cons g1 f1, ?_, ?_⟩
        · rw [List.flatten_cons, List.nodup_append]
          refine ⟨g2, f2, ?_⟩
          intro y hy hy2
          obtain ⟨e, he⟩ := g3 y hy
          obtain ⟨k2, hk2, e2, he2⟩ := f3 y hy2
          obtain ⟨rk2, hrk2, hrkp2⟩ := hkp k2 (hsub k2 (List.mem_cons_of_mem _ hk2))
          rcases Nat.lt_trichotomy e e2 with h | h | h
          · exact ancestor_siblings H u ru h1 h2 d x hd k k2 rk rk2 hrk hrkp hrk2 hrkp2 e e2 y
              he he2 h
          · rw [h, he2] at he
            simp only [Option.some.injEq] at he
            rw [he] at hk2
            exact hnd2.1 hk2
          · exact ancestor_siblings H u ru h1 h2 d x hd k2 k rk2 rk hrk2 hrkp2 hrk hrkp e2 e y
              he2 he h
        · intro y hy
          rw [List.flatten_cons] at hy
          rcases List.mem_append.1 hy with h | h
          · obtain ⟨e, he⟩ := g3 y h
            exact ⟨k, List.mem_cons_self _ _, e, he⟩
          · obtain ⟨k2, hk2, e2, he2⟩ := f3 y h
            exact ⟨k2, List.mem_cons_of_mem _ hk2, e2, he2⟩
    obtain ⟨Ls, f1, f2, f3⟩ := hforest ks (fun _ h => h) hknd
    have hup : ∀ y ∈ Ls.flatten, ∃ e, ancestor H (e + 1) y = some x := by
      intro y hy
      obtain ⟨k, hk, e, he⟩ := f3 y hy
      obtain ⟨rk, hrk, hrkp⟩ := hkp k hk
      refine ⟨e, ?_⟩
      rw [ancestor_add, he]
      exact ancestor_one H k x rk hrk hrkp
    refine ⟨x :: Ls.flatten, ⟨r, ks, Ls, hr, hks, rfl, f1⟩, ?_, ?_⟩
    · rw [List.nodup_cons]
      refine ⟨fun hx => ?_, f2⟩
      obtain ⟨e, he⟩ := hup x hx
      exact hcyc e he
    · intro y hy
      rcases List.mem_cons.1 hy with h | h
      · exact ⟨0, by rw [h]; rfl⟩
      · obtain ⟨e, he⟩ := hup y h
        exact ⟨e + 1, he⟩

/-- The records that the child lists lead to from the root of a hierarchy
make a tree. -/
theorem hierarchy_tree (H : List smapsproc_t) (u : Int) (hh : hierarchy H u) :
    ∃ L, shape H H.length u L ∧ L.Nodup ∧ linked H L := by
  obtain ⟨L, h1, h2, _⟩ := hierarchy_shape H u hh H.length 0 u rfl (by omega)
  refine ⟨L, h1, h2, ?_⟩
  intro x hx rx hrx c hc
  refine ⟨shape_closed H _ u L h1 x hx rx hrx c hc, ?_⟩
  obtain ⟨ks, hks, _, hkp⟩ := hh.2.2.1 x rx hrx
  rw [hks, List.mem_map] at hc
  obtain ⟨c2, hc2, hc3⟩ := hc
  simp only [Option.some.injEq] at hc3
  rw [← hc3]
  exact hkp c2 hc2

/-! ## The hierarchy of a snapshot -/

theorem built_uid (root : Int) (S : List smapsproc_t) (k : Nat) (r : smapsproc_t) :
    (built root S k r).smapsproc_uid = r.smapsproc_uid := rfl

/-- The records that `smapssnap_create_hierarchy` leaves make a hierarchy. -/
theorem built_hierarchy (root : smapsproc_t) (S : List smapsproc_t)
    (hnd : ((root :: S).map (fun r => r.smapsproc_uid)).Nodup) :
    hierarchy ((root :: S).map (built root.smapsproc_uid S S.length)) root.smapsproc_uid := by
  have huid : (((root :: S).map (built root.smapsproc_uid S S.length)).map
      (fun r => r.smapsproc_uid)) = (root :: S).map (fun r => r.smapsproc_uid) := by
    rw [List.map_map]
    rfl
  have hnd2 : (((root :: S).map (built root.smapsproc_uid S S.length)).map
      (fun r => r.smapsproc_uid)).Nodup := by rw [huid]; exact hnd
  have hS : (S.map (fun r => r.smapsproc_uid)).Nodup := by
    rw [List.map_cons] at hnd
    exact (List.nodup_cons.1 hnd).2
  have hroot : root.smapsproc_uid ∉ S.map (fun r => r.smapsproc_uid) := by
    rw [List.map_cons] at hnd
    exact (List.nodup_cons.1 hnd).1
  have hder : ∀ r ∈ root :: S, proc_deref ((root :: S).map (built root.smapsproc_uid S S.length))
      r.smapsproc_uid = some (built root.smapsproc_uid S S.length r) := by
    intro r hr
    exact proc_deref_of_mem _ hnd2 (built root.smapsproc_uid S S.length r)
      (List.mem_map.2 ⟨r, hr, rfl⟩)
  have hinv : ∀ y ry, proc_deref ((root :: S).map (built root.smapsproc_uid S S.length)) y
      = some ry → ∃ r ∈ root :: S, ry = built root.smapsproc_uid S S.length r ∧
        y = r.smapsproc_uid := by
    intro y ry h
    have h1 := proc_deref_mem _ y ry h
    have h2 := proc_deref_uid _ y ry h
    obtain ⟨r, hr, hr2⟩ := List.mem_map.1 h1
    exact ⟨r, hr, hr2.symm, by rw [← h2, ← hr2]; rfl⟩
  have hpar : ∀ c ∈ S, (built root.smapsproc_uid S S.length c).smapsproc_parent
      = some (hier_target root.smapsproc_uid S c) := by
    intro c hc
    simp only [built, List.take_length]
    rw [if_pos (List.mem_map.2 ⟨c, hc, rfl⟩)]
  refine ⟨hnd2, ⟨_, hder root (List.mem_cons_self _ _), ?_⟩, ?_, ?_⟩
  · simp only [built, List.take_length]
    rw [if_neg hroot]
  · intro y ry h
    obtain ⟨r, hr, rfl, rfl⟩ := hinv y ry h
    refine ⟨(S.filter (fun c => decide (hier_target root.smapsproc_uid S c
      = r.smapsproc_uid))).map (fun c => c.smapsproc_uid), ?_, ?_, ?_⟩
    · simp only [built, List.take_length, List.map_map]
      rfl
    · exact List.Nodup.sublist ((List.filter_sublist _).map _) hS
    · intro k hk
      obtain ⟨c, hc, rfl⟩ := List.mem_map.1 hk
      rw [List.mem_filter] at hc
      refine ⟨_, hder c (List.mem_cons_of_mem _ hc.1), ?_⟩
      rw [hpar c hc.1]
      simpa using hc.2
  · intro x y rx ry hx hy hp
    obtain ⟨c, hc, rfl, rfl⟩ := hinv x rx hx
    obtain ⟨r, hr, rfl, rfl⟩ := hinv y ry hy
    have hcS : c ∈ S := by
      rcases List.mem_cons.1 hc with h | h
      · rw [h] at hp
        simp only [built, List.take_length] at hp
        rw [if_neg hroot] at hp
        cases hp
      · exact h
    rw [hpar c hcS] at hp
    simp only [Option.some.injEq] at hp
    simp only [built, List.take_length, List.mem_map, Option.some.injEq]
    exact ⟨c, List.mem_filter.2 ⟨hcS, by simpa using hp⟩, rfl⟩

/-- After `smapssnap_create_hierarchy` the records of the snapshot make a
hierarchy. -/
theorem create_hierarchy_hierarchy (sort_pid : List smapsproc_t → List smapsproc_t)
    (hperm : ∀ l, (sort_pid l).Perm l) (snap : smapssnap_t) (hfresh : fresh_snap snap)
    (hmax : 2 * (snap.smapssnap_proclist.length : Int) ≤ INT_MAX) :
    ∃ snap1, smapssnap_create_hierarchy sort_pid snap = some snap1 ∧
      hierarchy (snap1.smapssnap_rootproc :: snap1.smapssnap_proclist)
        snap1.smapssnap_rootproc.smapsproc_uid ∧
      snap1.smapssnap_proclist.length = snap.smapssnap_proclist.length := by
  have hp := hperm snap.smapssnap_proclist
  have hnd : ((snap.smapssnap_rootproc :: sort_pid snap.smapssnap_proclist).map
      (fun r => r.smapsproc_uid)).Nodup := by
    refine (List.Perm.nodup_iff ?_).2 hfresh.1
    exact (List.Perm.cons _ hp).map _
  have h := built_hierarchy snap.smapssnap_rootproc (sort_pid snap.smapssnap_proclist) hnd
  rw [hp.length_eq] at h
  exact ⟨_, smapssnap_create_hierarchy_eq sort_pid hperm snap hfresh hmax, h,
    by simp [hp.length_eq]⟩

/-! ## `smapssnap_collapse_threads` -/

/-- Every record of a tree but the root has a parent in the tree, and is in
the child list of it. -/
theorem shape_parent (H : List smapsproc_t) (n : Nat) :
    ∀ (u : Int) (L : List Int), shape H n u L → linked H L → ∀ x ∈ L, x = u ∨
      ∃ rx p rp, proc_deref H x = some rx ∧ rx.smapsproc_parent = some p ∧ p ∈ L ∧
        proc_deref H p = some rp ∧ some x ∈ rp.smapsproc_children := by
  induction n with
  | zero => intro u L h; exact absurd h (by simp [shape])
  | succ n ih =>
    intro u L hsh hlk x hx
    have hshape := hsh
    obtain ⟨r, ks, Ls, hr, hch, hL, hf⟩ := hsh
    subst hL
    rcases List.mem_cons.1 hx with h | h
    · exact Or.inl h
    · right
      obtain ⟨Lk, hLk, hxk⟩ := List.mem_flatten.1 h
      obtain ⟨k, hk, hk2⟩ := forall₂_mem_right _ ks Ls hf Lk hLk
      have hsub : ∀ y ∈ Lk, y ∈ u :: Ls.flatten :=
        fun y hy => List.mem_cons_of_mem _ (List.mem_flatten.2 ⟨Lk, hLk, hy⟩)
      rcases ih k Lk hk2 (linked_sub H _ Lk hlk hsub (shape_closed H n k Lk hk2)) x hxk
        with h1 | ⟨rx, p, rp, h1, h2, h3, h4, h5⟩
      · have hin : some k ∈ r.smapsproc_children := by
          rw [hch]; exact List.mem_map.2 ⟨k, hk, rfl⟩
        obtain ⟨_, rk, h2, h3⟩ := hlk u (List.mem_cons_self _ _) r hr k hin
        rw [h1]
        exact ⟨rk, u, r, h2, h3, List.mem_cons_self _ _, hr, hin⟩
      · exact ⟨rx, p, rp, h1, h2, hsub p h3, h4, h5⟩

theorem nosame_congr_linked (H H1 : List smapsproc_t) (L : List Int) (h : nosame H L)
    (hl : linked H L) (hf : ∀ x ∈ L, proc_deref H1 x = proc_deref H x) : nosame H1 L := by
  intro x hx rx hrx c hc rc hrc
  rw [hf x hx] at hrx
  rw [hf c (hl x hx rx hrx c hc).1] at hrc
  exact h x hx rx hrx c hc rc hrc

theorem find?_filter_some {α : Type} (p q : α → Bool) (l : List α) (a : α)
    (h : l.find? q = some a) (hp : p a = true) : (l.filter p).find? q = some a := by
  induction l with
  | nil => cases h
  | cons b l ih =>
    rw [List.find?_cons] at h
    cases hq : q b with
    | true =>
      rw [hq] at h
      simp only [Option.some.injEq] at h
      rw [h] at hq ⊢
      rw [List.filter_cons_of_pos hp, List.find?_cons, hq]
    | false =>
      rw [hq] at h
      cases hpb : p b with
      | true => rw [List.filter_cons_of_pos hpb, List.find?_cons, hq]; exact ih h
      | false => rw [List.filter_cons_of_neg (by simp [hpb])]; exact ih h

/-- The records that have a parent are found in the memory from which the
records without a parent are removed. -/
theorem proc_deref_filter (root : smapsproc_t) (procs : List smapsproc_t) (x : Int)
    (rx : smapsproc_t) (h : proc_deref (root :: procs) x = some rx)
    (hp : x = root.smapsproc_uid ∨ rx.smapsproc_parent ≠ none) :
    proc_deref (root :: procs.filter (fun r => decide (r.smapsproc_parent ≠ none))) x
      = some rx := by
  unfold proc_deref at h ⊢
  rw [List.find?_cons] at h ⊢
  by_cases hx : root.smapsproc_uid = x
  · simp only [hx, decide_True] at h ⊢
    exact h
  · simp only [hx, decide_False] at h ⊢
    rcases hp with hp | hp
    · exact absurd hp.symm hx
    · exact find?_filter_some _ _ procs rx h (by simpa using hp)

/-- `smapssnap_collapse_threads` returns on a snapshot with a hierarchy: the
records that the child lists lead to from the root make a tree `L`, of which
`smapsproc_collapse_threads` makes the tree `L1`. -/
theorem smapssnap_collapse_threads_spec (snap : smapssnap_t)
    (hh : hierarchy (snap.smapssnap_rootproc :: snap.smapssnap_proclist)
      snap.smapssnap_rootproc.smapsproc_uid) :
    ∃ root1 procs1 L L1,
      smapssnap_collapse_threads snap = some { snap with
        smapssnap_rootproc := root1
        smapssnap_proclist := procs1.filter (fun r => decide (r.smapsproc_parent ≠ none)) } ∧
      shape (snap.smapssnap_rootproc :: snap.smapssnap_proclist)
        (snap.smapssnap_proclist.length + 1) snap.smapssnap_rootproc.smapsproc_uid L ∧
      L.Nodup ∧ linked (snap.smapssnap_rootproc :: snap.smapssnap_proclist) L ∧
      collapsed (snap.smapssnap_rootproc :: snap.smapssnap_proclist) (root1 :: procs1)
        (snap.smapssnap_proclist.length + 1) snap.smapssnap_rootproc.smapsproc_uid L L1 := by
  obtain ⟨L, h1, h2, h3⟩ := hierarchy_tree _ _ hh
  rw [List.length_cons] at h1
  obtain ⟨H1, L1, h4, h5⟩ := smapsproc_collapse_threads_spec
    (snap.smapssnap_proclist.length + 1) (snap.smapssnap_proclist.length + 1) _ _ L h1 h2 h3
    (le_refl _)
  cases H1 with
  | nil =>
    have := congrArg List.length h5.1.1
    simp at this
  | cons root1 procs1 =>
    refine ⟨root1, procs1, L, L1, ?_, h1, h2, h3, h5⟩
    unfold smapssnap_collapse_threads
    rw [h4]

/-- A second run of `smapssnap_collapse_threads` returns the snapshot that
the first run has returned. -/
theorem smapssnap_collapse_threads_twice (snap : smapssnap_t)
    (hh : hierarchy (snap.smapssnap_rootproc :: snap.smapssnap_proclist)
      snap.smapssnap_rootproc.smapsproc_uid) :
    ∃ snap1, smapssnap_collapse_threads snap = some snap1 ∧
      smapssnap_collapse_threads snap1 = some snap1 := by
  obtain ⟨root1, procs1, L, L1, h1, _, _, _, ⟨hreg, hsh, hlk, hns, hpar⟩⟩ :=
    smapssnap_collapse_threads_spec snap hh
  refine ⟨_, h1, ?_⟩
  obtain ⟨a1, a2, a3, a4, a5, a6, a7⟩ := hreg
  have hroot : root1.smapsproc_uid = snap.smapssnap_rootproc.smapsproc_uid := by
    simp only [List.map_cons, List.cons.injEq] at a1
    exact a1.1
  have huid : ((root1 :: procs1).map (fun r => r.smapsproc_uid)).Nodup := by
    rw [a1]; exact hh.1
  have huid2 : ((root1 :: procs1.filter (fun r => decide (r.smapsproc_parent ≠ none))).map
      (fun r => r.smapsproc_uid)).Nodup :=
    List.Nodup.sublist (((List.filter_sublist _).cons₂ root1).map _) huid
  have hder : ∀ x ∈ L1,
      proc_deref (root1 :: procs1.filter (fun r => decide (r.smapsproc_parent ≠ none))) x
        = proc_deref (root1 :: procs1) x := by
    intro x hx
    rcases shape_parent _ _ _ L1 hsh hlk x hx with h | ⟨rx, p, rp, h2, h3, _, _, _⟩
    · obtain ⟨r, hr⟩ := shape_deref _ _ _ L1 hsh x hx
      rw [hr]
      exact proc_deref_filter root1 procs1 x r hr (Or.inl (by rw [h, hroot]))
    · rw [h2]
      exact proc_deref_filter root1 procs1 x rx h2 (Or.inr (by rw [h3]; simp))
  have hsh2 := shape_congr _ _ _ _ L1 hsh (fun x hx => by rw [hder x hx])
  have hns2 := nosame_congr_linked _ _ L1 hns hlk hder
  have hsize := shape_size _ _ _ L1 hsh2
  have hlen := nodup_length_le _ L1 a2 (shape_deref _ _ _ L1 hsh2)
  have hfix := smapsproc_collapse_threads_fixed _ huid2 L1.length
    ((procs1.filter (fun r => decide (r.smapsproc_parent ≠ none))).length + 1)
    snap.smapssnap_rootproc.smapsproc_uid L1 hsize a2 hns2
    (by simpa using hlen)
  unfold smapssnap_collapse_threads
  simp only [hroot, hfix, List.filter_filter, Bool.and_self]

theorem forest_heads_nodup (H : List smapsproc_t) (n : Nat) (ks : List Int)
    (Ls : List (List Int)) (h : List.Forall₂ (fun k Lk => shape H n k Lk) ks Ls)
    (hnd : Ls.flatten.Nodup) : ks.Nodup := by
  induction h with
  | nil => exact List.nodup_nil
  | @cons k Lk ks Ls hk hrest ih =>
    rw [List.flatten_cons, List.nodup_append] at hnd
    obtain ⟨_, h2, h3⟩ := hnd
    refine List.nodup_cons.2 ⟨fun hin => ?_, ih h2⟩
    obtain ⟨rest, hrest2⟩ := shape_head H n k Lk hk
    exact h3 (by rw [hrest2]; exact List.mem_cons_self _ _)
      (forest_head_mem H n ks Ls hrest k hin)

/-- No child list of a tree holds a record twice. -/
theorem shape_children_nodup (H : List smapsproc_t) (n : Nat) :
    ∀ (u : Int) (L : List Int), shape H n u L → L.Nodup → ∀ y ∈ L, ∀ ry,
      proc_deref H y = some ry →
      ∃ ks : List Int, ry.smapsproc_children = ks.map some ∧ ks.Nodup := by
  induction n with
  | zero => intro u L h; exact absurd h (by simp [shape])
  | succ n ih =>
    intro u L hsh hnd y hy ry hry
    obtain ⟨r, ks, Ls, hr, hch, hL, hf⟩ := hsh
    subst hL
    have hnd2 := (List.nodup_cons.1 hnd).2
    rcases List.mem_cons.1 hy with h | h
    · rw [h, hr] at hry
      simp only [Option.some.injEq] at hry
      rw [← hry]
      exact ⟨ks, hch, forest_heads_nodup H n ks Ls hf hnd2⟩
    · obtain ⟨Lk, hLk, hxk⟩ := List.mem_flatten.1 h
      obtain ⟨k, _, hk2⟩ := forall₂_mem_right _ ks Ls hf Lk hLk
      exact ih k Lk hk2 ((List.nodup_flatten.1 hnd2).1 Lk hLk) y hxk ry hry

/-- Two memories that hold the same records in the same order, with the same
data, hold the same data at every place. -/
theorem data_positional (H H1 : List smapsproc_t)
    (hnd : (H.map (fun r => r.smapsproc_uid)).Nodup)
    (hu : H1.map (fun r => r.smapsproc_uid) = H.map (fun r => r.smapsproc_uid))
    (hd : ∀ x, (proc_deref H1 x).map proc_data = (proc_deref H x).map proc_data) :
    H1.map proc_data = H.map proc_data := by
  apply List.ext_getElem?
  intro i
  have hi := congrArg (fun l => l[i]?) hu
  simp only [List.getElem?_map] at hi ⊢
  cases h1 : H1[i]? with
  | none =>
    rw [h1] at hi
    cases h : H[i]? with
    | none => rfl
    | some r => rw [h] at hi; cases hi
  | some r1 =>
    rw [h1] at hi
    cases h : H[i]? with
    | none => rw [h] at hi; cases hi
    | some r =>
      rw [h] at hi
      simp only [Option.map_some', Option.some.injEq] at hi ⊢
      have e1 := proc_deref_of_mem H1 (by rw [hu]; exact hnd) r1 (List.getElem?_mem h1)
      have e2 := proc_deref_of_mem H hnd r (List.getElem?_mem h)
      have := hd r1.smapsproc_uid
      rw [e1, hi, e2] at this
      simpa using this

/-- After `smapssnap_collapse_threads` the records of the snapshot make a
hierarchy again; the records are those that have a parent, in the order that
they had, with the data that they had. -/
theorem smapssnap_collapse_threads_hierarchy (snap : smapssnap_t)
    (hh : hierarchy (snap.smapssnap_rootproc :: snap.smapssnap_proclist)
      snap.smapssnap_rootproc.smapsproc_uid) :
    ∃ snap1 procs1, smapssnap_collapse_threads snap = some snap1 ∧
      hierarchy (snap1.smapssnap_rootproc :: snap1.smapssnap_proclist)
        snap1.smapssnap_rootproc.smapsproc_uid ∧
      snap1.smapssnap_proclist
        = procs1.filter (fun r => decide (r.smapsproc_parent ≠ none)) ∧
      (snap1.smapssnap_rootproc :: procs1).map proc_data
        = (snap.smapssnap_rootproc :: snap.smapssnap_proclist).map proc_data := by
  obtain ⟨root1, procs1, L, L1, h1, hsh0, hnd0, hlk0, ⟨hreg, hsh, hlk, hns, hpar⟩⟩ :=
    smapssnap_collapse_threads_spec snap hh
  obtain ⟨a1, a2, a3, a4, a5, a6, a7⟩ := hreg
  obtain ⟨g1, ⟨ru, g2, g3⟩, g4, g5⟩ := hh
  refine ⟨_, procs1, h1, ?_, rfl, data_positional _ _ g1 a1 a5⟩
  have hroot : root1.smapsproc_uid = snap.smapssnap_rootproc.smapsproc_uid := by
    simp only [List.map_cons, List.cons.injEq] at a1
    exact a1.1
  have huid : ((root1 :: procs1).map (fun r => r.smapsproc_uid)).Nodup := by
    rw [a1]; exact g1
  have huid2 : ((root1 :: procs1.filter (fun r => decide (r.smapsproc_parent ≠ none))).map
      (fun r => r.smapsproc_uid)).Nodup :=
    List.Nodup.sublist (((List.filter_sublist _).cons₂ root1).map _) huid
  -- the root
  have hru : proc_deref (root1 :: procs1) snap.smapssnap_rootproc.smapsproc_uid
      = some root1 := by
    rw [← hroot]
    exact proc_deref_of_mem _ huid root1 (List.mem_cons_self _ _)
  have hrp : root1.smapsproc_parent = none := by
    unfold parent_of at hpar
    rw [hru, g2] at hpar
    simp only [Option.map_some', Option.some.injEq, Prod.mk.injEq] at hpar
    rw [hpar.1, g3]
  have huL : snap.smapssnap_rootproc.smapsproc_uid ∈ L1 := by
    obtain ⟨rest, hrest⟩ := shape_head _ _ _ L1 hsh
    rw [hrest]
    exact List.mem_cons_self _ _
  -- a record found after the removal is found before it
  have hback : ∀ y ry,
      proc_deref (root1 :: procs1.filter (fun r => decide (r.smapsproc_parent ≠ none))) y
        = some ry → proc_deref (root1 :: procs1) y = some ry ∧
          (y = snap.smapssnap_rootproc.smapsproc_uid ∨ ry.smapsproc_parent ≠ none) := by
    intro y ry h
    have hm := proc_deref_mem _ y ry h
    have hy := proc_deref_uid _ y ry h
    have hm1 : ry ∈ root1 :: procs1 := by
      rcases List.mem_cons.1 hm with h2 | h2
      · rw [h2]; exact List.mem_cons_self _ _
      · exact List.mem_cons_of_mem _ (List.mem_filter.1 h2).1
    refine ⟨by rw [← hy]; exact proc_deref_of_mem _ huid ry hm1, ?_⟩
    rcases List.mem_cons.1 hm with h2 | h2
    · left
      rw [← hy, h2, hroot]
    · right
      simpa using (List.mem_filter.1 h2).2
  -- a record of the old tree that is not the root has its parent in the tree
  have hold : ∀ x rx, x ∈ L → proc_deref (snap.smapssnap_rootproc :: snap.smapssnap_proclist) x
      = some rx → ∀ y, rx.smapsproc_parent = some y → y ∈ L := by
    intro x rx hx hrx y hy
    rcases shape_parent _ _ _ L hsh0 hlk0 x hx with h | ⟨rx2, p, rp, e1, e2, e3, _, _⟩
    · rw [h, g2] at hrx
      simp only [Option.some.injEq] at hrx
      rw [← hrx, g3] at hy
      cases hy
    · rw [hrx] at e1
      simp only [Option.some.injEq] at e1
      rw [e1, e2] at hy
      simp only [Option.some.injEq] at hy
      rw [← hy]
      exact e3
  refine ⟨huid2, ⟨root1, ?_, hrp⟩, ?_, ?_⟩
  · show proc_deref (root1 :: procs1.filter (fun r => decide (r.smapsproc_parent ≠ none)))
      root1.smapsproc_uid = some root1
    exact proc_deref_of_mem _ huid2 root1 (List.mem_cons_self _ _)
  · intro y ry hy
    obtain ⟨hy1, hy2⟩ := hback y ry hy
    by_cases hyL1 : y ∈ L1
    · obtain ⟨ks, hks, hknd⟩ := shape_children_nodup _ _ _ L1 hsh a2 y hyL1 ry hy1
      refine ⟨ks, hks, hknd, fun k hk => ?_⟩
      obtain ⟨_, rk, e1, e2⟩ := hlk y hyL1 ry hy1 k (by
        rw [hks]; exact List.mem_map.2 ⟨k, hk, rfl⟩)
      exact ⟨rk, proc_deref_filter root1 procs1 k rk e1 (Or.inr (by rw [e2]; simp)), e2⟩
    · by_cases hyL : y ∈ L
      · obtain ⟨rx, e1, e2, _⟩ := a6 y hyL hyL1
        rw [hy1] at e1
        simp only [Option.some.injEq] at e1
        rcases hy2 with h | h
        · exact absurd (h ▸ huL) hyL1
        · exact absurd (by rw [e1]; exact e2) h
      · have e0 := a4 y hyL
        rw [hy1] at e0
        obtain ⟨ks, hks, hknd, hkp⟩ := g4 y ry e0.symm
        refine ⟨ks, hks, hknd, fun k hk => ?_⟩
        obtain ⟨rk, e1, e2⟩ := hkp k hk
        have hkL : k ∉ L := fun h => hyL (hold k rk h e1 y e2)
        have e3 := a4 k hkL
        rw [e1] at e3
        exact ⟨rk, proc_deref_filter root1 procs1 k rk e3 (Or.inr (by rw [e2]; simp)), e2⟩
  · intro x y rx ry hx hy hp
    obtain ⟨hx1, _⟩ := hback x rx hx
    obtain ⟨hy1, _⟩ := hback y ry hy
    by_cases hxL1 : x ∈ L1
    · rcases shape_parent _ _ _ L1 hsh hlk x hxL1 with h | ⟨rx2, p, rp, e1, e2, _, e4, e5⟩
      · rw [h, hru] at hx1
        simp only [Option.some.injEq] at hx1
        rw [← hx1, hrp] at hp
        cases hp
      · rw [hx1] at e1
        simp only [Option.some.injEq] at e1
        rw [e1, e2] at hp
        simp only [Option.some.injEq] at hp
        rw [hp, hy1] at e4
        simp only [Option.some.injEq] at e4
        rw [e4]
        exact e5
    · by_cases hxL : x ∈ L
      · obtain ⟨rx2, e1, e2, _⟩ := a6 x hxL hxL1
        rw [hx1] at e1
        simp only [Option.some.injEq] at e1
        rw [e1, e2] at hp
        cases hp
      · have e0 := a4 x hxL
        rw [hx1] at e0
        obtain ⟨ry0, e1, _⟩ := deref_of_data _ _ y ry (a5 y) hy1
        have e2 := g5 x y rx ry0 e0.symm e1 hp
        have hyL : y ∉ L := fun h => hxL (shape_closed _ _ _ L hsh0 y h ry0 e1 x e2)
        have e3 := a4 y hyL
        rw [hy1, e1] at e3
        simp only [Option.some.injEq] at e3
        rw [e3]
        exact e2

/-- C20: thread-collapse idempotence.  For a snapshot as the capture parser
leaves it, `smapssnap_create_hierarchy` returns a snapshot `snap1`,
`smapssnap_collapse_threads` returns on it a snapshot `snap2`, and a second
run of `smapssnap_collapse_threads` returns `snap2` again: the process list,
the root, and in every record the parent link, the child list, `PPid` and the
thread count are those after the first run.  `array_sort` is taken to return
a permutation; the process list has at most `INT_MAX / 2` records. -/
theorem collapse_idempotent (sort_pid : List smapsproc_t → List smapsproc_t)
    (hperm : ∀ l, (sort_pid l).Perm l) (snap : smapssnap_t) (hfresh : fresh_snap snap)
    (hmax : 2 * (snap.smapssnap_proclist.length : Int) ≤ INT_MAX) :
    ∃ snap1 snap2, smapssnap_create_hierarchy sort_pid snap = some snap1 ∧
      smapssnap_collapse_threads snap1 = some snap2 ∧
      smapssnap_collapse_threads snap2 = some snap2 := by
  obtain ⟨snap1, h1, h2, _⟩ := create_hierarchy_hierarchy sort_pid hperm snap hfresh hmax
  obtain ⟨snap2, h3, h4⟩ := smapssnap_collapse_threads_twice snap1 h2
  exact ⟨snap1, snap2, h1, h3, h4⟩

theorem collapse_idempotent_witness :
    ((∀ l, (sort_pid_example l).Perm l) ∧ fresh_snap hier_snap ∧
      2 * (hier_snap.smapssnap_proclist.length : Int) ≤ INT_MAX) ∧
    ∃ snap1 snap2, smapssnap_create_hierarchy sort_pid_example hier_snap = some snap1 ∧
      smapssnap_collapse_threads snap1 = some snap2 ∧
      smapssnap_collapse_threads snap2 = some snap2 :=
  ⟨⟨fun l => (sorts_pid_example l).1, ⟨by decide, by decide⟩, by decide⟩,
    collapse_idempotent sort_pid_example (fun l => (sorts_pid_example l).1) hier_snap
      ⟨by decide, by decide⟩ (by decide)⟩

/-- C21: re-parenting on collapse.  Let `k` be the child at index `i` of the
record `u`, taken for a thread of `u`, and `gks` the children of `k`.
`smapsproc_adopt_children` returns, and changes the parent link and the
`PPid` of no record that is not a child of `k`.  The block of the second loop
of `smapsproc_collapse_threads` returns; after it every child of `k` has the
parent `u` and the `PPid` that is the `Pid` of `u`, and is in the child list
of `u`; the child list of `k` is empty; the parent link and the `PPid` of
every record other than `k` and its children are unchanged; `k` keeps its
`PPid`, and the parent link of `k` is what the block clears when it detaches
the thread. -/
theorem collapse_reparents (H : List smapsproc_t) (u k : Int) (i : Nat) (s t : smapsproc_t)
    (gks : List Int) (hu : proc_deref H u = some s) (hk : proc_deref H k = some t)
    (hi : s.smapsproc_children[i]? = some (some k))
    (hne : u ≠ k) (hch : t.smapsproc_children = gks.map some)
    (hg : ∀ g ∈ gks, ∃ r, proc_deref H g = some r) (hug : u ∉ gks) (hkg : k ∉ gks) :
    (∃ H2, smapsproc_adopt_children H u k = some H2 ∧
      ∀ x, x ∉ gks → parent_of H2 x = parent_of H x) ∧
    ∃ H3 s3 t3, collapse_thread H u i k = some H3 ∧
      proc_deref H3 u = some s3 ∧ proc_deref H3 k = some t3 ∧
      (∀ g ∈ gks, some g ∈ s3.smapsproc_children ∧
        ∃ r3, proc_deref H3 g = some r3 ∧ r3.smapsproc_parent = some u ∧
          r3.smapsproc_pid.PPid = s.smapsproc_pid.Pid) ∧
      t3.smapsproc_children = [] ∧
      t3.smapsproc_parent = none ∧ t3.smapsproc_pid.PPid = t.smapsproc_pid.PPid ∧
      ∀ x, x ∉ gks → x ≠ k → parent_of H3 x = parent_of H x := by
  constructor
  · obtain ⟨H2, e1, _, e3⟩ := smapsproc_adopt_children_spec H u k s t gks hu hk hne hch hg
    refine ⟨H2, e1, fun x hx => ?_⟩
    unfold parent_of
    rw [e3 x, if_neg hx]
    by_cases h1 : x = k
    · rw [if_pos h1]
      cases proc_deref H x <;> rfl
    · rw [if_neg h1]
      by_cases h2 : x = u
      · rw [if_pos h2]
        cases proc_deref H x <;> rfl
      · rw [if_neg h2]
  · obtain ⟨H3, e1, _, e3⟩ := collapse_thread_spec H u k i s t gks hu hk hne hch hg hug hkg
    have hlt : i < s.smapsproc_children.length := (List.getElem?_eq_some_iff.1 hi).1
    refine ⟨H3,
      { s with
        smapsproc_children := (s.smapsproc_children ++ gks.map some).set i none
        smapsproc_pid := { s.smapsproc_pid with
          Threads := int_wrap (s.smapsproc_pid.Threads + t.smapsproc_pid.Threads) } },
      { t with smapsproc_children := [], smapsproc_parent := none }, e1,
      by rw [e3 u, if_pos rfl],
      by rw [e3 k, if_neg (Ne.symm hne), if_pos rfl], ?_, rfl, rfl, rfl, ?_⟩
    · intro g hgm
      have hgu : g ≠ u := fun h => hug (h ▸ hgm)
      have hgk : g ≠ k := fun h => hkg (h ▸ hgm)
      obtain ⟨r, hr⟩ := hg g hgm
      refine ⟨?_, reparent u s.smapsproc_pid.Pid r, ?_, rfl, rfl⟩
      · show some g ∈ (s.smapsproc_children ++ gks.map some).set i none
        rw [List.set_append_left _ _ hlt]
        exact List.mem_append_right _ (List.mem_map.2 ⟨g, hgm, rfl⟩)
      · rw [e3 g, if_neg hgu, if_neg hgk, if_pos hgm, hr]
        rfl
    · intro x h1 h2
      unfold parent_of
      rw [e3 x]
      by_cases h3 : x = u
      · rw [if_pos h3, h3, hu]
        rfl
      · rw [if_neg h3, if_neg h2, if_neg h1]

theorem collapse_reparents_witness :
    (proc_deref thread_heap 1
        = some { proc_example 1 "foo" 10 0 1 with
            smapsproc_parent := some 0, smapsproc_children := [some 2] } ∧
      proc_deref thread_heap 2
        = some { proc_example 2 "foo" 11 10 2 with
            smapsproc_parent := some 1, smapsproc_children := [some 3] } ∧
      [some (2 : Int)][0]? = some (some 2) ∧ (1 : Int) ≠ 2 ∧
      [some (3 : Int)] = [(3 : Int)].map some ∧
      (∀ g ∈ [(3 : Int)], ∃ r, proc_deref thread_heap g = some r) ∧
      (1 : Int) ∉ [(3 : Int)] ∧ (2 : Int) ∉ [(3 : Int)]) ∧
    ((∃ H2, smapsproc_adopt_children thread_heap 1 2 = some H2 ∧
      ∀ x, x ∉ [(3 : Int)] → parent_of H2 x = parent_of thread_heap x) ∧
    ∃ H3 s3 t3, collapse_thread thread_heap 1 0 2 = some H3 ∧
      proc_deref H3 1 = some s3 ∧ proc_deref H3 2 = some t3 ∧
      (∀ g ∈ [(3 : Int)], some g ∈ s3.smapsproc_children ∧
        ∃ r3, proc_deref H3 g = some r3 ∧ r3.smapsproc_parent = some 1 ∧
          r3.smapsproc_pid.PPid = (10 : Int)) ∧
      t3.smapsproc_children = [] ∧
      t3.smapsproc_parent = none ∧ t3.smapsproc_pid.PPid = (10 : Int) ∧
      ∀ x, x ∉ [(3 : Int)] → x ≠ 2 → parent_of H3 x = parent_of thread_heap x) :=
  ⟨⟨rfl, rfl, rfl, by decide, rfl,
      fun g hg => by rw [List.mem_singleton.1 hg]; exact ⟨_, rfl⟩, by decide, by decide⟩,
    collapse_reparents thread_heap 1 2 0 _ _ [3] rfl rfl rfl (by decide) rfl
      (fun g hg => by rw [List.mem_singleton.1 hg]; exact ⟨_, rfl⟩) (by decide) (by decide)⟩

theorem nodup_countP_one {α : Type} [DecidableEq α] (l : List α) (a : α) (hnd : l.Nodup)
    (ha : a ∈ l) : l.countP (fun e => decide (e = a)) = 1 := by
  induction l with
  | nil => cases ha
  | cons b l ih =>
    rw [List.nodup_cons] at hnd
    by_cases hb : b = a
    · rw [List.countP_cons_of_pos _ _ (by simpa using hb)]
      have : l.countP (fun e => decide (e = a)) = 0 := by
        rw [List.countP_eq_zero]
        intro e he
        simp only [decide_eq_true_eq]
        intro h
        exact hnd.1 (by rw [hb, ← h]; exact he)
      rw [this]
    · rw [List.countP_cons_of_neg _ _ (by simpa using hb)]
      rcases List.mem_cons.1 ha with h | h
      · exact absurd h.symm hb
      · exact ih hnd.2 h

/-- In a hierarchy the parent links and the child lists agree. -/
theorem hierarchy_adjacency (snap : smapssnap_t)
    (hh : hierarchy (snap.smapssnap_rootproc :: snap.smapssnap_proclist)
      snap.smapssnap_rootproc.smapsproc_uid) : adjacency snap := by
  obtain ⟨g1, _, g4, g5⟩ := hh
  intro c hc n hn
  have hdc := proc_deref_of_mem _ g1 c (List.mem_cons_of_mem _ hc)
  have hdn := proc_deref_of_mem _ g1 n hn
  obtain ⟨ks, hks, hknd, hkp⟩ := g4 n.smapsproc_uid n hdn
  have hiff : some c.smapsproc_uid ∈ n.smapsproc_children ↔
      c.smapsproc_parent = some n.smapsproc_uid := by
    constructor
    · intro h
      rw [hks, List.mem_map] at h
      obtain ⟨k, hk, hk2⟩ := h
      simp only [Option.some.injEq] at hk2
      obtain ⟨rk, e1, e2⟩ := hkp k hk
      rw [hk2, hdc] at e1
      simp only [Option.some.injEq] at e1
      rw [e1]
      exact e2
    · exact fun h => g5 _ _ c n hdc hdn h
  refine ⟨hiff, fun h => ?_⟩
  refine nodup_countP_one _ _ ?_ (hiff.2 h)
  rw [hks]
  exact hknd.map (fun a b hab => by simpa using hab)

/-- The child lists of a hierarchy hold processes of the snapshot. -/
theorem hierarchy_children (snap : smapssnap_t)
    (hh : hierarchy (snap.smapssnap_rootproc :: snap.smapssnap_proclist)
      snap.smapssnap_rootproc.smapsproc_uid) :
    ∀ n ∈ snap.smapssnap_rootproc :: snap.smapssnap_proclist, ∀ c ∈ n.smapsproc_children,
      ∃ r ∈ snap.smapssnap_proclist, c = some r.smapsproc_uid := by
  obtain ⟨g1, ⟨ru, g2, g3⟩, g4, _⟩ := hh
  intro n hn c hc
  have hdn := proc_deref_of_mem _ g1 n hn
  obtain ⟨ks, hks, _, hkp⟩ := g4 n.smapsproc_uid n hdn
  rw [hks, List.mem_map] at hc
  obtain ⟨k, hk, rfl⟩ := hc
  obtain ⟨rk, e1, e2⟩ := hkp k hk
  have hm := proc_deref_mem _ k rk e1
  have hu := proc_deref_uid _ k rk e1
  rcases List.mem_cons.1 hm with h | h
  · have e3 := proc_deref_of_mem _ g1 snap.smapssnap_rootproc (List.mem_cons_self _ _)
    rw [g2] at e3
    simp only [Option.some.injEq] at e3
    rw [h, ← e3, g3] at e2
    cases e2
  · exact ⟨rk, h, by rw [hu]⟩

/-- After `smapssnap_create_hierarchy` every process has a parent. -/
theorem create_hierarchy_parent (sort_pid : List smapsproc_t → List smapsproc_t)
    (hperm : ∀ l, (sort_pid l).Perm l) (snap snap1 : smapssnap_t) (hfresh : fresh_snap snap)
    (hmax : 2 * (snap.smapssnap_proclist.length : Int) ≤ INT_MAX)
    (h : smapssnap_create_hierarchy sort_pid snap = some snap1) :
    ∀ r ∈ snap1.smapssnap_proclist, r.smapsproc_parent ≠ none := by
  rw [smapssnap_create_hierarchy_eq sort_pid hperm snap hfresh hmax] at h
  simp only [Option.some.injEq] at h
  rw [← h]
  intro r hr
  simp only [List.mem_map] at hr
  obtain ⟨c, hc, rfl⟩ := hr
  simp only [built, ← (hperm snap.smapssnap_proclist).length_eq, List.take_length]
  rw [if_pos (List.mem_map.2 ⟨c, hc, rfl⟩)]
  simp

/-- C18: adjacency consistency.  For a snapshot as the capture parser leaves
it, `smapssnap_create_hierarchy` returns a snapshot in which a process is in
the child list of a record (a process or the root) if and only if the record
is its parent, and is then in that list exactly once; on that snapshot
`smapssnap_collapse_threads` returns a snapshot of which the same holds, for
the processes and the records that are left.  In both snapshots the records
are distinct objects.  `array_sort` is taken to return a permutation; the
process list has at most `INT_MAX / 2` records. -/
theorem adjacency_consistent (sort_pid : List smapsproc_t → List smapsproc_t)
    (hperm : ∀ l, (sort_pid l).Perm l) (snap : smapssnap_t) (hfresh : fresh_snap snap)
    (hmax : 2 * (snap.smapssnap_proclist.length : Int) ≤ INT_MAX) :
    ∃ snap1 snap2, smapssnap_create_hierarchy sort_pid snap = some snap1 ∧
      ((snap1.smapssnap_rootproc :: snap1.smapssnap_proclist).map
        (fun r => r.smapsproc_uid)).Nodup ∧ adjacency snap1 ∧
      smapssnap_collapse_threads snap1 = some snap2 ∧
      ((snap2.smapssnap_rootproc :: snap2.smapssnap_proclist).map
        (fun r => r.smapsproc_uid)).Nodup ∧ adjacency snap2 := by
  obtain ⟨snap1, h1, h2, _⟩ := create_hierarchy_hierarchy sort_pid hperm snap hfresh hmax
  obtain ⟨snap2, _, h3, h4, _, _⟩ := smapssnap_collapse_threads_hierarchy snap1 h2
  exact ⟨snap1, snap2, h1, h2.1, hierarchy_adjacency snap1 h2, h3, h4.1,
    hierarchy_adjacency snap2 h4⟩

theorem adjacency_consistent_witness :
    ((∀ l, (sort_pid_example l).Perm l) ∧ fresh_snap hier_snap ∧
      2 * (hier_snap.smapssnap_proclist.length : Int) ≤ INT_MAX) ∧
    ∃ snap1 snap2, smapssnap_create_hierarchy sort_pid_example hier_snap = some snap1 ∧
      ((snap1.smapssnap_rootproc :: snap1.smapssnap_proclist).map
        (fun r => r.smapsproc_uid)).Nodup ∧ adjacency snap1 ∧
      smapssnap_collapse_threads snap1 = some snap2 ∧
      ((snap2.smapssnap_rootproc :: snap2.smapssnap_proclist).map
        (fun r => r.smapsproc_uid)).Nodup ∧ adjacency snap2 :=
  ⟨⟨fun l => (sorts_pid_example l).1, ⟨by decide, by decide⟩, by decide⟩,
    adjacency_consistent sort_pid_example (fun l => (sorts_pid_example l).1) hier_snap
      ⟨by decide, by decide⟩ (by decide)⟩

/-! ## Which records `smapsproc_collapse_threads` takes for threads -/

/-- A child of a thread that is not a thread of the thread is not a thread of
the parent of the thread. -/
theorem are_same_thread_child (a b c : smapsproc_t) (h1 : smapsproc_are_same a b ≠ 0)
    (h2 : smapsproc_are_same b c = 0) : smapsproc_are_same a c = 0 := by
  rcases smapsproc_are_same_01 a c with h | h
  · exact h
  · exfalso
    have hab : smapsproc_are_same a b = 1 := by
      rcases smapsproc_are_same_01 a b with h3 | h3
      · exact absurd h3 h1
      · exact h3
    rw [smapsproc_are_same_iff] at hab h
    have hbc : smapsproc_are_same b c = 1 := by
      rw [smapsproc_are_same_iff]
      obtain ⟨a1, a2, a3, a4, a5, a6, a7, a8, a9⟩ := hab
      obtain ⟨b1, b2, b3, b4, b5, b6, b7, b8, b9⟩ := h
      exact ⟨a1.symm.trans b1, a2.symm.trans b2, a3.symm.trans b3, a4.symm.trans b4,
        a5.symm.trans b5, a6.symm.trans b6, a7.symm.trans b7, a8.symm.trans b8,
        a9.symm.trans b9⟩
    rw [hbc] at h2
    exact absurd h2 (by decide)

theorem is_thread_iff (H : List smapsproc_t) (x p : Int) (rx rp : smapsproc_t)
    (h1 : proc_deref H x = some rx) (h2 : rx.smapsproc_parent = some p)
    (h3 : proc_deref H p = some rp) : is_thread H x ↔ smapsproc_are_same rp rx ≠ 0 := by
  constructor
  · rintro ⟨rx2, p2, rp2, e1, e2, e3, e4⟩
    rw [h1] at e1
    simp only [Option.some.injEq] at e1
    rw [← e1, h2] at e2
    simp only [Option.some.injEq] at e2
    rw [← e2, h3] at e3
    simp only [Option.some.injEq] at e3
    rw [e1, e3]
    exact e4
  · intro h
    exact ⟨rx, p, rp, h1, h2, h3, h⟩

/-- Whether a record is a thread depends on the data of the record and of
its parent only. -/
theorem is_thread_congr (H H1 : List smapsproc_t) (x p : Int) (rx rp : smapsproc_t)
    (h1 : proc_deref H x = some rx) (h2 : rx.smapsproc_parent = some p)
    (h3 : proc_deref H p = some rp)
    (hx : proc_deref H1 x = proc_deref H x) (hp : proc_deref H1 p = proc_deref H p) :
    is_thread H1 x ↔ is_thread H x := by
  rw [is_thread_iff H x p rx rp h1 h2 h3,
    is_thread_iff H1 x p rx rp (by rw [hx]; exact h1) h2 (by rw [hp]; exact h3)]

theorem orphan_congr (H H1 : List smapsproc_t) (x : Int)
    (h : proc_deref H1 x = proc_deref H x) : orphan H1 x ↔ orphan H x := by
  unfold orphan
  rw [h]

theorem not_orphan (H : List smapsproc_t) (x p : Int) (rx : smapsproc_t)
    (h1 : proc_deref H x = some rx) (h2 : rx.smapsproc_parent = some p) : ¬ orphan H x := by
  rintro ⟨r, e1, e2⟩
  rw [h1] at e1
  simp only [Option.some.injEq] at e1
  rw [← e1, h2] at e2
  cases e2

/-- Every record of a forest below the children `ks` of `u` has a parent. -/
theorem forest_parent (H : List smapsproc_t) (n : Nat) (u : Int) (s : smapsproc_t)
    (ks : List Int) (Ls : List (List Int))
    (hf : List.Forall₂ (fun k Lk => shape H n k Lk) ks Ls)
    (hlk : linked H (u :: Ls.flatten)) (hs : proc_deref H u = some s)
    (hk : ∀ k ∈ ks, some k ∈ s.smapsproc_children) :
    ∀ x ∈ Ls.flatten, ∃ rx p rp, proc_deref H x = some rx ∧ rx.smapsproc_parent = some p ∧
      proc_deref H p = some rp ∧ (x ∈ ks ∨ p ∈ Ls.flatten) := by
  intro x hx
  obtain ⟨Lk, hLk, hxk⟩ := List.mem_flatten.1 hx
  obtain ⟨k, hkin, hsh⟩ := forall₂_mem_right _ ks Ls hf Lk hLk
  have hsub : ∀ y ∈ Lk, y ∈ u :: Ls.flatten :=
    fun y hy => List.mem_cons_of_mem _ (List.mem_flatten.2 ⟨Lk, hLk, hy⟩)
  have hl : linked H Lk := linked_sub H _ Lk hlk hsub (shape_closed H n k Lk hsh)
  rcases shape_parent H n k Lk hsh hl x hxk with h | ⟨rx, p, rp, e1, e2, e3, e4, _⟩
  · obtain ⟨_, rc, e1, e2⟩ := hlk u (List.mem_cons_self _ _) s hs k (hk k hkin)
    rw [h]
    exact ⟨rc, u, s, e1, e2, hs, Or.inl hkin⟩
  · exact ⟨rx, p, rp, e1, e2, e4, Or.inr (List.mem_flatten.2 ⟨Lk, hLk, e3⟩)⟩

/-- Every record of a forest that is not the root of one of its trees has a
parent in the forest. -/
theorem forest_inner_parent (H : List smapsproc_t) (n : Nat) (ks : List Int)
    (Ls : List (List Int)) (hf : List.Forall₂ (fun k Lk => shape H n k Lk) ks Ls)
    (hlk : linked H Ls.flatten) :
    ∀ x ∈ Ls.flatten, x ∉ ks → ∃ rx p rp, proc_deref H x = some rx ∧
      rx.smapsproc_parent = some p ∧ proc_deref H p = some rp ∧ p ∈ Ls.flatten := by
  intro x hx hxk
  obtain ⟨Lk, hLk, hxk2⟩ := List.mem_flatten.1 hx
  obtain ⟨k, hkin, hsh⟩ := forall₂_mem_right _ ks Ls hf Lk hLk
  have hsub : ∀ y ∈ Lk, y ∈ Ls.flatten := fun y hy => List.mem_flatten.2 ⟨Lk, hLk, hy⟩
  have hl : linked H Lk := linked_sub H _ Lk hlk hsub (shape_closed H n k Lk hsh)
  rcases shape_parent H n k Lk hsh hl x hxk2 with h | ⟨rx, p, rp, e1, e2, e3, e4, _⟩
  · exact absurd (h ▸ hkin) hxk
  · exact ⟨rx, p, rp, e1, e2, e4, hsub p e3⟩

/-- The second loop of `smapsproc_collapse_threads` takes the parent from the
children of `u` that are threads of `u`, and from no other record of the
trees: the children of a thread are no threads of `u`. -/
theorem collapse_threads_merge_fate (n : Nat) (u : Int) (fuel : Nat) :
    ∀ (H : List smapsproc_t) (s : smapsproc_t) (pre : List (Option Int))
      (kept todo : List Int) (Lkept Ltodo : List (List Int)),
      proc_deref H u = some s →
      s.smapsproc_children = pre ++ todo.map some →
      pre.filter (fun c => decide (c ≠ none)) = kept.map some →
      List.Forall₂ (fun k Lk => shape H n k Lk) kept Lkept →
      List.Forall₂ (fun k Lk => shape H n k Lk) todo Ltodo →
      (u :: (Lkept.flatten ++ Ltodo.flatten)).Nodup →
      linked H (u :: (Lkept.flatten ++ Ltodo.flatten)) →
      nosame H (Lkept.flatten ++ Ltodo.flatten) →
      (∀ c ∈ kept, ∀ rc, proc_deref H c = some rc → smapsproc_are_same s rc = 0) →
      Ltodo.flatten.length + 1 ≤ fuel →
      ∀ H2, collapse_threads_merge u fuel pre.length H = some H2 →
        ∀ x ∈ Lkept.flatten ++ Ltodo.flatten,
          (orphan H2 x ↔
            (x ∈ todo ∧ ∃ rx, proc_deref H x = some rx ∧ smapsproc_are_same s rx ≠ 0)) := by
  induction fuel with
  | zero => intro H s pre kept todo Lkept Ltodo _ _ _ _ _ _ _ _ _ hfuel; omega
  | succ f ih =>
    intro H s pre kept todo Lkept Ltodo hs hch hfil hfk hft hnd hlk hns hkc hfuel H2 hm x hx
    cases hft with
    | nil =>
      simp only [List.flatten_nil, List.append_nil, List.map_nil] at hnd hlk hns hch hx ⊢
      have hH : H2 = H := by
        unfold collapse_threads_merge at hm
        rw [hs] at hm
        simp only [hch, lt_irrefl, if_false, Option.some.injEq] at hm
        exact hm.symm
      rw [hH]
      obtain ⟨rx, p, _, e1, e2, _⟩ := forest_parent H n u s kept Lkept hfk hlk hs
        (fun k hk => by rw [hch]; exact (mem_of_filter_some pre kept hfil k).2 hk) x hx
      constructor
      · intro h
        exact absurd h (not_orphan H x p rx e1 e2)
      · rintro ⟨h, _⟩
        cases h
    | @cons k Lk todo Ltodo hk hrest =>
      cases n with
      | zero => exact absurd hk (by simp [shape])
      | succ m =>
      obtain ⟨t, gks, Lgs, ht, htc, hLk, hfg⟩ := hk
      subst hLk
      have hlen : pre.length < s.smapsproc_children.length := by
        rw [hch]; simp
      have hget : s.smapsproc_children[pre.length]? = some (some k) := by
        rw [hch, List.getElem?_append_right (le_refl _)]; simp
      rw [List.flatten_cons] at hnd hlk hns hfuel hx
      by_cases hsame : smapsproc_are_same s t = 0
      · -- the child is kept
        have heq : (Lkept ++ [k :: Lgs.flatten]).flatten ++ Ltodo.flatten
            = Lkept.flatten ++ ((k :: Lgs.flatten) ++ Ltodo.flatten) := by
          simp
        have hm2 : collapse_threads_merge u f (pre ++ [some k]).length H = some H2 := by
          unfold collapse_threads_merge at hm
          rw [hs] at hm
          simp only [hlen, if_true, hget, ht, hsame, ne_eq, not_true_eq_false, if_false] at hm
          simpa using hm
        have h1 := ih H s (pre ++ [some k]) (kept ++ [k]) todo (Lkept ++ [k :: Lgs.flatten])
            Ltodo hs
            (by rw [hch]; simp) (by rw [List.filter_append, hfil]; simp)
            (List.rel_append hfk (List.Forall₂.cons ⟨t, gks, Lgs, ht, htc, rfl, hfg⟩
              List.Forall₂.nil)) hrest
            (by rw [heq]; exact hnd) (by rw [heq]; exact hlk) (by rw [heq]; exact hns)
            (by
              intro c hc rc hrc
              rcases List.mem_append.1 hc with h | h
              · exact hkc c h rc hrc
              · rw [List.mem_singleton] at h
                rw [h, ht] at hrc
                simp only [Option.some.injEq] at hrc
                rw [← hrc]
                exact hsame)
            (by simp only [List.length_append, List.length_cons] at hfuel; omega)
            H2 hm2 x (by rw [heq]; exact hx)
        rw [h1]
        constructor
        · rintro ⟨h2, h3⟩
          exact ⟨List.mem_cons_of_mem _ h2, h3⟩
        · rintro ⟨h2, rx, h3, h4⟩
          rcases List.mem_cons.1 h2 with h | h
          · rw [h, ht] at h3
            simp only [Option.some.injEq] at h3
            rw [← h3] at h4
            exact absurd hsame h4
          · exact ⟨h, rx, h3, h4⟩
      · -- the child is a thread
        obtain ⟨H3, s3, e1, e2, e3, e4, e5, e6, e7, e8, e9, e10⟩ :=
          collapse_thread_step m u k H s t pre kept todo gks Lkept Ltodo Lgs hs ht hch hfil
            hfk hrest htc hfg hnd hlk hns hkc
        have hm2 : collapse_threads_merge u f (pre ++ [none]).length H3 = some H2 := by
          unfold collapse_threads_merge at hm
          rw [hs] at hm
          simp only [hlen, if_true, hget, ht, hsame, ne_eq, not_false_eq_true, e1] at hm
          simpa using hm
        have hfuel2 : (Ltodo ++ Lgs).flatten.length + 1 ≤ f := by
          simp only [List.length_append, List.length_cons, List.flatten_append] at hfuel ⊢
          omega
        have hfil2 : (pre ++ [none]).filter (fun c => decide (c ≠ none)) = kept.map some := by
          rw [List.filter_append, hfil]; simp
        obtain ⟨a1, a2, a3, a4, a5, a6, a7⟩ := e6
        have hs3 : proc_data s3 = proc_data s := by
          have := a5 u
          rw [e2, hs] at this
          simpa using this
        by_cases hxk : x = k
        · -- the thread itself
          have hk3 : k ∉ u :: (Lkept.flatten ++ (Ltodo ++ Lgs).flatten) := by
            intro h
            rcases List.mem_cons.1 h with h | h
            · have := (List.nodup_cons.1 hnd).1
              exact this (by rw [← h]; simp)
            · have hnd2 := (List.nodup_cons.1 hnd).2
              rw [List.nodup_append] at hnd2
              obtain ⟨_, hnd3, hdis⟩ := hnd2
              rw [List.flatten_append] at h
              rcases List.mem_append.1 h with h | h
              · exact hdis h (by simp)
              · rw [List.cons_append, List.nodup_cons] at hnd3
                exact hnd3.1 (by
                  rcases List.mem_append.1 h with h | h
                  · exact List.mem_append_right _ h
                  · exact List.mem_append_left _ h)
          obtain ⟨rk, d1, d2, _⟩ := a6 k (by simp) hk3
          obtain ⟨H2b, s2, kept2, Lkept2, g1, _, _, _, g5, _⟩ :=
            collapse_threads_merge_spec (m + 1) u f H3 s3 (pre ++ [none]) kept (todo ++ gks)
              Lkept (Ltodo ++ Lgs) e2 e3 hfil2 e4 e5 a2 e7 e8 e9 hfuel2
          rw [hm2] at g1
          simp only [Option.some.injEq] at g1
          have hfr := g5.2.2.2.1 k hk3
          rw [← g1] at hfr
          rw [hxk]
          constructor
          · intro _
            exact ⟨List.mem_cons_self _ _, t, ht, hsame⟩
          · intro _
            exact ⟨rk, by rw [hfr]; exact d1, d2⟩
        · have hx3 : x ∈ Lkept.flatten ++ (Ltodo ++ Lgs).flatten := by
            rw [List.flatten_append]
            rcases List.mem_append.1 hx with h | h
            · exact List.mem_append_left _ h
            · rcases List.mem_append.1 h with h | h
              · rcases List.mem_cons.1 h with h | h
                · exact absurd h hxk
                · exact List.mem_append_right _ (List.mem_append_right _ h)
              · exact List.mem_append_right _ (List.mem_append_left _ h)
          have h1 := ih H3 s3 (pre ++ [none]) kept (todo ++ gks) Lkept (Ltodo ++ Lgs) e2 e3
            hfil2 e4 e5 a2 e7 e8 e9 hfuel2 H2 hm2 x hx3
          rw [h1]
          have hdat : ∀ r3, proc_deref H3 x = some r3 → ∃ r, proc_deref H x = some r ∧
              smapsproc_are_same s3 r3 = smapsproc_are_same s r := by
            intro r3 h3
            obtain ⟨r, h4, h5⟩ := deref_of_data H H3 x r3 (a5 x) h3
            exact ⟨r, h4, are_same_data s3 s r3 r hs3 h5⟩
          have hdat2 : ∀ r, proc_deref H x = some r → ∃ r3, proc_deref H3 x = some r3 ∧
              smapsproc_are_same s3 r3 = smapsproc_are_same s r := by
            intro r h
            have h5 := a5 x
            rw [h] at h5
            cases h3 : proc_deref H3 x with
            | none => rw [h3] at h5; cases h5
            | some r3 =>
              rw [h3] at h5
              simp only [Option.map_some', Option.some.injEq] at h5
              exact ⟨r3, rfl, are_same_data s3 s r3 r hs3 h5⟩
          have hkin : k ∈ Lkept.flatten ++ ((k :: Lgs.flatten) ++ Ltodo.flatten) := by simp
          constructor
          · rintro ⟨h2, r3, h3, h4⟩
            obtain ⟨r, h5, h6⟩ := hdat r3 h3
            rw [h6] at h4
            rcases List.mem_append.1 h2 with h | h
            · exact ⟨List.mem_cons_of_mem _ h, r, h5, h4⟩
            · exfalso
              have := hns k hkin t ht x (by rw [htc]; exact List.mem_map.2 ⟨x, h, rfl⟩) r h5
              exact h4 (are_same_thread_child s t r hsame this)
          · rintro ⟨h2, r, h3, h4⟩
            obtain ⟨r3, h5, h6⟩ := hdat2 r h3
            rcases List.mem_cons.1 h2 with h | h
            · exact absurd h hxk
            · exact ⟨List.mem_append_left _ h, r3, h5, by rw [h6]; exact h4⟩

/-- The first loop of `smapsproc_collapse_threads` on the children `todo` of
`u`: when the recursive call takes the parent from the threads of a tree and
from no other record below its root, so does the loop. -/
theorem collapse_threads_recurse_fate
    (collapse : Int → List smapsproc_t → Option (List smapsproc_t)) (n : Nat) (u : Int)
    (hcol : ∀ H k Lk, shape H n k Lk → Lk.Nodup → linked H Lk →
      ∃ H1 L1, collapse k H = some H1 ∧ collapsed H H1 n k Lk L1)
    (hfate : ∀ H k Lk, shape H n k Lk → Lk.Nodup → linked H Lk →
      ∀ H1, collapse k H = some H1 → ∀ x ∈ Lk, x ≠ k → (orphan H1 x ↔ is_thread H x))
    (todo : List Int) :
    ∀ (Lst : List (List Int)) (H : List smapsproc_t) (r : smapsproc_t)
      (done : List (Option Int)) (fuel : Nat),
      List.Forall₂ (fun k Lk => shape H n k Lk) todo Lst →
      proc_deref H u = some r → r.smapsproc_children = done ++ todo.map some →
      (u :: Lst.flatten).Nodup → linked H Lst.flatten →
      todo.length + 1 ≤ fuel →
      ∀ H1, collapse_threads_recurse collapse u fuel done.length H = some H1 →
        ∀ x ∈ Lst.flatten, x ∉ todo → (orphan H1 x ↔ is_thread H x) := by
  induction todo with
  | nil =>
    intro Lst H r done fuel hf hr hch _ _ hfuel H1 _ x hx
    cases hf
    cases hx
  | cons k todo ih =>
    intro Lst H r done fuel hf hr hch hnd hlk hfuel H1 hm x hx hxt
    obtain ⟨f, rfl⟩ : ∃ f, fuel = f + 1 := ⟨fuel - 1, by omega⟩
    cases hf with
    | @cons _ Lk _ Lst hk hrest =>
    have hforest : List.Forall₂ (fun k Lk => shape H n k Lk) (k :: todo) (Lk :: Lst) :=
      List.Forall₂.cons hk hrest
    have hlk0 := hlk
    rw [List.flatten_cons] at hnd hlk hx
    rw [List.nodup_cons, List.nodup_append] at hnd
    obtain ⟨hu, hndk, hndr, hdis⟩ := hnd
    rw [List.mem_append, not_or] at hu
    have hdis2 : ∀ x ∈ Lk, x ∉ Lst.flatten := fun x h1 h2 => hdis h1 h2
    have hlkk : linked H Lk :=
      linked_sub H _ Lk hlk (fun x hx => List.mem_append_left _ hx) (shape_closed H n k Lk hk)
    have hlkr : linked H Lst.flatten :=
      linked_sub H _ _ hlk (fun x hx => List.mem_append_right _ hx)
        (forest_closed H n todo Lst hrest)
    obtain ⟨H2, Lk1, hc1, hreg, hsh, hl1, hn1, hp1⟩ := hcol H k Lk hk hndk hlkk
    obtain ⟨a1, a2, a3, a4, a5, a6, a7⟩ := hreg
    have hr2 : proc_deref H2 u = some r := by rw [a4 u hu.1]; exact hr
    have hf2 : List.Forall₂ (fun k Lk => shape H2 n k Lk) todo Lst :=
      forest_congr H H2 n todo Lst hrest (fun x hx => by
        rw [a4 x (fun h => hdis2 x h hx)])
    have hlk2 : linked H2 Lst.flatten :=
      linked_congr H H2 _ hlkr (fun x hx => a4 x (fun h => hdis2 x h hx))
    have hlen : done.length < r.smapsproc_children.length := by
      rw [hch]; simp
    have hget : r.smapsproc_children[done.length]? = some (some k) := by
      rw [hch, List.getElem?_append_right (le_refl _)]; simp
    have hm2 : collapse_threads_recurse collapse u f (done ++ [some k]).length H2 = some H1 := by
      unfold collapse_threads_recurse at hm
      rw [hr] at hm
      simp only [hlen, if_true, hget, hc1] at hm
      simpa using hm
    have hch2 : r.smapsproc_children = (done ++ [some k]) ++ todo.map some := by
      rw [hch]; simp
    have hfuel2 : todo.length + 1 ≤ f := by
      simp only [List.length_cons] at hfuel; omega
    obtain ⟨H1b, Lst1, hc2, hreg2, _, _, _, _⟩ :=
      collapse_threads_recurse_spec collapse n u hcol todo Lst H2 r (done ++ [some k]) f hf2 hr2
        hch2 (List.nodup_cons.2 ⟨hu.2, hndr⟩) hlk2 hfuel2
    rw [hm2] at hc2
    simp only [Option.some.injEq] at hc2
    rw [← hc2] at hreg2
    obtain ⟨b1, b2, b3, b4, b5, b6, b7⟩ := hreg2
    rcases List.mem_append.1 hx with hxk | hxr
    · have hne : x ≠ k := fun h => hxt (by rw [h]; exact List.mem_cons_self _ _)
      rw [orphan_congr H2 H1 x (b4 x (hdis2 x hxk))]
      exact hfate H k Lk hk hndk hlkk H2 hc1 x hxk hne
    · have hxt2 : x ∉ todo := fun h => hxt (List.mem_cons_of_mem _ h)
      rw [ih Lst H2 r (done ++ [some k]) f hf2 hr2 hch2 (List.nodup_cons.2 ⟨hu.2, hndr⟩) hlk2
        hfuel2 H1 hm2 x hxr hxt2]
      obtain ⟨rx, p, rp, e1, e2, e3, e4⟩ := forest_inner_parent H n todo Lst hrest hlkr x hxr hxt2
      exact is_thread_congr H H2 x p rx rp e1 e2 e3 (a4 x (fun h => hdis2 x h hxr))
        (a4 p (fun h => hdis2 p h e4))

/-- `smapsproc_collapse_threads` on the tree `L` of the record `u`: the
records below `u` that lose their parent are those that `smapsproc_are_same`
takes for a thread of the parent that they have before the call. -/
theorem smapsproc_collapse_threads_fate (n : Nat) :
    ∀ (fuel : Nat) (H : List smapsproc_t) (u : Int) (L : List Int),
      shape H n u L → L.Nodup → linked H L → n ≤ fuel →
      ∀ H1, smapsproc_collapse_threads fuel u H = some H1 →
        ∀ x ∈ L, x ≠ u → (orphan H1 x ↔ is_thread H x) := by
  induction n with
  | zero => intro fuel H u L h; exact absurd h (by simp [shape])
  | succ n ih =>
    intro fuel H u L hsh hnd hlk hfuel Hf hcf x hx hxu
    obtain ⟨f, rfl⟩ : ∃ f, fuel = f + 1 := ⟨fuel - 1, by omega⟩
    have hshape := hsh
    obtain ⟨r, ks, Ls, hr, hch, hL, hf⟩ := hsh
    subst hL
    have hu : u ∉ Ls.flatten := (List.nodup_cons.1 hnd).1
    have hlen : (u :: Ls.flatten).length ≤ H.length :=
      nodup_length_le H _ hnd (shape_deref H (n + 1) u _ hshape)
    have hks : ks.length ≤ Ls.flatten.length :=
      forall₂_length_flatten _ ks Ls hf (fun k Lk h => by
        obtain ⟨rest, hrest⟩ := shape_head H n k Lk h
        rw [hrest]
        simp)
    rw [List.length_cons] at hlen
    have hcol : ∀ H k Lk, shape H n k Lk → Lk.Nodup → linked H Lk →
        ∃ H1 L1, smapsproc_collapse_threads f k H = some H1 ∧ collapsed H H1 n k Lk L1 :=
      fun H k Lk h1 h2 h3 => smapsproc_collapse_threads_spec n f H k Lk h1 h2 h3 (by omega)
    have hlkf : linked H Ls.flatten :=
      linked_sub H _ _ hlk (fun x hx => List.mem_cons_of_mem _ hx) (forest_closed H n ks Ls hf)
    have hch0 : r.smapsproc_children = ([] : List (Option Int)) ++ ks.map some := by
      rw [hch]; rfl
    -- the first loop
    obtain ⟨H1, Ls1, hc1, hreg1, hsh1, hl1, hn1, hp1⟩ :=
      collapse_threads_recurse_spec (smapsproc_collapse_threads f) n u hcol ks Ls H r []
        (H.length + 1) hf hr hch0 hnd hlkf (by omega)
    have hR := collapse_threads_recurse_fate (smapsproc_collapse_threads f) n u hcol
      (fun H k Lk h1 h2 h3 => ih f H k Lk h1 h2 h3 (by omega)) ks Ls H r []
        (H.length + 1) hf hr hch0 hnd hlkf (by omega) H1 hc1
    obtain ⟨a1, a2, a3, a4, a5, a6, a7⟩ := hreg1
    have hr1 : proc_deref H1 u = some r := by rw [a4 u hu]; exact hr
    have hu1 : u ∉ Ls1.flatten := fun h => hu (a3 u h)
    have hlen1 : H1.length = H.length := by
      have := congrArg List.length a1
      simpa using this
    have hlen2 : Ls1.flatten.length ≤ H.length := by
      rw [← hlen1]
      exact nodup_length_le H1 _ a2 (forest_deref H1 n ks Ls1 hsh1)
    have hlk1 : linked H1 (u :: Ls1.flatten) := by
      intro x hx rx hrx c hc
      rcases List.mem_cons.1 hx with h | h
      · rw [h, hr1] at hrx
        simp only [Option.some.injEq] at hrx
        rw [← hrx, hch, List.mem_map] at hc
        obtain ⟨c2, hc2, hc3⟩ := hc
        simp only [Option.some.injEq] at hc3
        subst hc3
        refine ⟨List.mem_cons_of_mem _ (forest_head_mem H1 n ks Ls1 hsh1 c2 hc2), ?_⟩
        obtain ⟨_, rc, h1, h2⟩ := hlk u (List.mem_cons_self _ _) r hr c2
          (by rw [hch]; exact List.mem_map.2 ⟨c2, hc2, rfl⟩)
        have hp := hp1 c2 hc2
        unfold parent_of at hp
        rw [h1] at hp
        cases h3 : proc_deref H1 c2 with
        | none => rw [h3] at hp; cases hp
        | some rc1 =>
          rw [h3] at hp
          simp only [Option.map_some', Option.some.injEq, Prod.mk.injEq] at hp
          exact ⟨rc1, rfl, by rw [h, hp.1, h2]⟩
      · obtain ⟨h1, h2⟩ := hl1 x h rx hrx c hc
        exact ⟨List.mem_cons_of_mem _ h1, h2⟩
    have hnd1 : (u :: (([] : List (List Int)).flatten ++ Ls1.flatten)).Nodup := by
      simp only [List.flatten_nil, List.nil_append]
      exact List.nodup_cons.2 ⟨hu1, a2⟩
    have hlk1b : linked H1 (u :: (([] : List (List Int)).flatten ++ Ls1.flatten)) := by
      simpa using hlk1
    have hn1b : nosame H1 (([] : List (List Int)).flatten ++ Ls1.flatten) := by
      simpa using hn1
    -- the second loop
    obtain ⟨H2, s2, kept2, Lkept2, hm, hs2, hfil2, hsh2, hreg2, hl2, hn2, hp2⟩ :=
      collapse_threads_merge_spec n u (H.length + 1) H1 r [] [] ks [] Ls1 hr1
        hch0 rfl List.Forall₂.nil hsh1 hnd1 hlk1b hn1b (fun c hc => by cases hc) (by omega)
    have hM := collapse_threads_merge_fate n u (H.length + 1) H1 r [] [] ks [] Ls1 hr1
        hch0 rfl List.Forall₂.nil hsh1 hnd1 hlk1b hn1b (fun c hc => by cases hc) (by omega)
        H2 hm
    simp only [List.flatten_nil, List.nil_append] at hreg2 hM
    obtain ⟨b1, b2, b3, b4, b5, b6, b7⟩ := hreg2
    -- the result
    have hHf : Hf = proc_store H2 u (fun r => { r with
        smapsproc_children := r.smapsproc_children.filter (fun c => decide (c ≠ none)) }) := by
      unfold smapsproc_collapse_threads at hcf
      simp only [List.length_nil] at hc1 hm
      rw [hc1] at hcf
      simp only [] at hcf
      rw [hm] at hcf
      simp only [Option.some.injEq] at hcf
      exact hcf.symm
    have hdo : proc_deref Hf x = proc_deref H2 x := by
      rw [hHf, proc_deref_store H2 u x (fun r => { r with
        smapsproc_children := r.smapsproc_children.filter (fun c => decide (c ≠ none)) })
        (fun _ => rfl), if_neg hxu]
    rw [orphan_congr H2 Hf x hdo]
    have hxs : x ∈ Ls.flatten := by
      rcases List.mem_cons.1 hx with h | h
      · exact absurd h hxu
      · exact h
    have hheads : ∀ k ∈ ks, k ∈ Ls1.flatten := forest_head_mem H1 n ks Ls1 hsh1
    by_cases hx1 : x ∈ Ls1.flatten
    · rw [hM x hx1]
      by_cases hxk : x ∈ ks
      · obtain ⟨_, rc, h1, h2⟩ := hlk u (List.mem_cons_self _ _) r hr x
          (by rw [hch]; exact List.mem_map.2 ⟨x, hxk, rfl⟩)
        rw [is_thread_iff H x u rc r h1 h2 hr]
        have h5 := a5 x
        rw [h1] at h5
        cases h3 : proc_deref H1 x with
        | none => rw [h3] at h5; cases h5
        | some rc1 =>
          rw [h3] at h5
          simp only [Option.map_some', Option.some.injEq] at h5
          have hs := are_same_data r r rc1 rc rfl h5
          constructor
          · rintro ⟨_, rx, e1, e2⟩
            simp only [Option.some.injEq] at e1
            rw [← e1, hs] at e2
            exact e2
          · intro h
            exact ⟨hxk, rc1, rfl, by rw [hs]; exact h⟩
      · rw [← hR x hxs hxk]
        obtain ⟨rx, p, _, e1, e2, _⟩ := forest_parent H1 n u r ks Ls1 hsh1 hlk1 hr1
          (fun k hk => by rw [hch]; exact List.mem_map.2 ⟨k, hk, rfl⟩) x hx1
        constructor
        · rintro ⟨h, _⟩
          exact absurd h hxk
        · intro h
          exact absurd h (not_orphan H1 x p rx e1 e2)
    · have hxk : x ∉ ks := fun h => hx1 (hheads x h)
      rw [← hR x hxs hxk]
      have hfr : proc_deref H2 x = proc_deref H1 x :=
        b4 x (fun h => by
          rcases List.mem_cons.1 h with h | h
          · exact hxu h
          · exact hx1 h)
      exact orphan_congr H1 H2 x hfr

/-- A record from which the parent links lead to the root of a hierarchy is a
record of the tree of the root. -/
theorem ancestor_mem_tree (H : List smapsproc_t) (u : Int) (hh : hierarchy H u) (n : Nat)
    (L : List Int) (hsh : shape H n u L) :
    ∀ (d : Nat) (x : Int), ancestor H d x = some u → x ∈ L := by
  obtain ⟨_, ⟨ru, h1, h2⟩, _, g5⟩ := hh
  intro d
  induction d with
  | zero =>
    intro x hx
    simp only [ancestor, Option.some.injEq] at hx
    obtain ⟨rest, hrest⟩ := shape_head H n u L hsh
    rw [hx, hrest]
    exact List.mem_cons_self _ _
  | succ d ih =>
    intro x hx
    unfold ancestor at hx
    cases hrx : proc_deref H x with
    | none => rw [hrx] at hx; cases hx
    | some rx =>
      rw [hrx] at hx
      simp only [] at hx
      cases hp : rx.smapsproc_parent with
      | none => rw [hp] at hx; cases hx
      | some q =>
        rw [hp] at hx
        simp only [] at hx
        obtain ⟨rq, hrq⟩ := ancestor_deref H u ru h1 d q hx
        exact shape_closed H n u L hsh q (ih q hx) rq hrq x (g5 x q rx rq hrx hrq hp)

/-- Which processes `smapssnap_collapse_threads` removes from a snapshot with
a hierarchy: of the processes from which the parent links lead to the root,
those that `smapsproc_are_same` takes for a thread of their parent are in no
child list any more and are removed from the process list, and the other ones
are kept; the processes from which the parent links do not lead to the root
are kept as they are. -/
theorem smapssnap_collapse_threads_fate (snap : smapssnap_t)
    (hh : hierarchy (snap.smapssnap_rootproc :: snap.smapssnap_proclist)
      snap.smapssnap_rootproc.smapsproc_uid) :
    ∃ snap1 procs1, smapssnap_collapse_threads snap = some snap1 ∧
      snap1.smapssnap_proclist
        = procs1.filter (fun r => decide (r.smapsproc_parent ≠ none)) ∧
      (snap1.smapssnap_rootproc :: procs1).map proc_data
        = (snap.smapssnap_rootproc :: snap.smapssnap_proclist).map proc_data ∧
      (∀ r ∈ snap.smapssnap_proclist,
        ∀ p ∈ snap.smapssnap_rootproc :: snap.smapssnap_proclist,
          (∃ d, ancestor (snap.smapssnap_rootproc :: snap.smapssnap_proclist) d
            r.smapsproc_uid = some snap.smapssnap_rootproc.smapsproc_uid) →
          r.smapsproc_parent = some p.smapsproc_uid →
          (smapsproc_are_same p r ≠ 0 →
            (∀ r2 ∈ snap1.smapssnap_proclist, r2.smapsproc_uid ≠ r.smapsproc_uid) ∧
            (∀ n ∈ snap1.smapssnap_rootproc :: procs1,
              some r.smapsproc_uid ∉ n.smapsproc_children)) ∧
          (smapsproc_are_same p r = 0 →
            ∃ r2 ∈ snap1.smapssnap_proclist, proc_data r2 = proc_data r)) ∧
      (∀ r ∈ snap.smapssnap_proclist,
        (¬ ∃ d, ancestor (snap.smapssnap_rootproc :: snap.smapssnap_proclist) d
          r.smapsproc_uid = some snap.smapssnap_rootproc.smapsproc_uid) →
        r.smapsproc_parent ≠ none → r ∈ snap1.smapssnap_proclist) := by
  obtain ⟨L, h1, h2, hanc⟩ := hierarchy_shape _ _ hh
    (snap.smapssnap_rootproc :: snap.smapssnap_proclist).length 0
    snap.smapssnap_rootproc.smapsproc_uid rfl (by omega)
  have h3 : linked (snap.smapssnap_rootproc :: snap.smapssnap_proclist) L := by
    intro x hx rx hrx c hc
    refine ⟨shape_closed _ _ _ L h1 x hx rx hrx c hc, ?_⟩
    obtain ⟨ks, hks, _, hkp⟩ := hh.2.2.1 x rx hrx
    rw [hks, List.mem_map] at hc
    obtain ⟨c2, hc2, hc3⟩ := hc
    simp only [Option.some.injEq] at hc3
    rw [← hc3]
    exact hkp c2 hc2
  rw [List.length_cons] at h1
  obtain ⟨H1, L1, h4, ⟨hreg, hsh, hlk, _, hpar⟩⟩ := smapsproc_collapse_threads_spec
    (snap.smapssnap_proclist.length + 1) (snap.smapssnap_proclist.length + 1) _ _ L h1 h2 h3
    (le_refl _)
  have hfate := smapsproc_collapse_threads_fate
    (snap.smapssnap_proclist.length + 1) (snap.smapssnap_proclist.length + 1) _ _ L h1 h2 h3
    (le_refl _) H1 h4
  obtain ⟨a1, a2, a3, a4, a5, a6, a7⟩ := hreg
  have hreach := ancestor_mem_tree _ _ hh _ L h1
  obtain ⟨g1, ⟨ru, g2, g3⟩, g4, g5⟩ := hh
  cases H1 with
  | nil =>
    have := congrArg List.length a1
    simp at this
  | cons root1 procs1 =>
    have hsnap : smapssnap_collapse_threads snap = some { snap with
        smapssnap_rootproc := root1
        smapssnap_proclist :=
          procs1.filter (fun r => decide (r.smapsproc_parent ≠ none)) } := by
      unfold smapssnap_collapse_threads
      rw [h4]
    refine ⟨_, procs1, hsnap, rfl, data_positional _ _ g1 a1 a5, ?_, ?_⟩
    rotate_left
    · intro r hr hno hrp
      have hrx := proc_deref_of_mem _ g1 r (List.mem_cons_of_mem _ hr)
      have hxL : r.smapsproc_uid ∉ L := fun h => hno (hanc _ h)
      have e0 := a4 _ hxL
      rw [hrx] at e0
      have hm := proc_deref_mem _ _ r e0
      show r ∈ procs1.filter (fun r => decide (r.smapsproc_parent ≠ none))
      rw [List.mem_filter]
      constructor
      · rcases List.mem_cons.1 hm with h | h
        · exfalso
          have hu0 : r.smapsproc_uid = snap.smapssnap_rootproc.smapsproc_uid := by
            have := congrArg (fun l => l.head?) a1
            simp only [List.map_cons, List.head?_cons, Option.some.injEq] at this
            rw [h]
            exact this
          rw [hu0, g2] at hrx
          simp only [Option.some.injEq] at hrx
          rw [hrx] at g3
          exact hrp g3
        · exact h
      · simpa using hrp
    have hroot : root1.smapsproc_uid = snap.smapssnap_rootproc.smapsproc_uid := by
      simp only [List.map_cons, List.cons.injEq] at a1
      exact a1.1
    have huid : ((root1 :: procs1).map (fun r => r.smapsproc_uid)).Nodup := by
      rw [a1]; exact g1
    intro r hr p hp ⟨d, hd⟩ hrp
    have hrx := proc_deref_of_mem _ g1 r (List.mem_cons_of_mem _ hr)
    have hrpp := proc_deref_of_mem _ g1 p hp
    have hxL : r.smapsproc_uid ∈ L := hreach d _ hd
    have hxu : r.smapsproc_uid ≠ snap.smapssnap_rootproc.smapsproc_uid := by
      intro h
      rw [h, g2] at hrx
      simp only [Option.some.injEq] at hrx
      rw [hrx, hrp] at g3
      cases g3
    have hf := hfate r.smapsproc_uid hxL hxu
    rw [is_thread_iff _ _ _ r p hrx hrp hrpp] at hf
    constructor
    · intro hsame
      obtain ⟨r1, e1, e2⟩ := hf.2 hsame
      constructor
      · intro r2 hr2 hu2
        have hm : r2 ∈ root1 :: procs1 := List.mem_cons_of_mem _ (List.mem_filter.1 hr2).1
        have e3 := proc_deref_of_mem _ huid r2 hm
        rw [hu2, e1] at e3
        simp only [Option.some.injEq] at e3
        have e4 := (List.mem_filter.1 hr2).2
        rw [← e3] at e4
        simp [e2] at e4
      · intro n hn hc
        have hdn := proc_deref_of_mem _ huid n hn
        by_cases hyL1 : n.smapsproc_uid ∈ L1
        · obtain ⟨_, rc, e3, e4⟩ := hlk _ hyL1 n hdn _ hc
          rw [e1] at e3
          simp only [Option.some.injEq] at e3
          rw [← e3, e2] at e4
          cases e4
        · by_cases hyL : n.smapsproc_uid ∈ L
          · obtain ⟨ry, e3, _, e5⟩ := a6 _ hyL hyL1
            rw [hdn] at e3
            simp only [Option.some.injEq] at e3
            rw [e3, e5] at hc
            cases hc
          · have e0 := a4 _ hyL
            rw [hdn] at e0
            obtain ⟨ks, hks, _, hkp⟩ := g4 _ n e0.symm
            rw [hks, List.mem_map] at hc
            obtain ⟨k, hk, hk2⟩ := hc
            simp only [Option.some.injEq] at hk2
            obtain ⟨rk, e3, e4⟩ := hkp k hk
            rw [hk2, hrx] at e3
            simp only [Option.some.injEq] at e3
            rw [← e3] at e4
            rcases shape_parent _ _ _ L h1 h3 _ hxL with h | ⟨rx2, q, _, e5, e6, e7, _, _⟩
            · exact hxu h
            · rw [hrx] at e5
              simp only [Option.some.injEq] at e5
              rw [← e5, e4] at e6
              simp only [Option.some.injEq] at e6
              exact hyL (by rw [e6]; exact e7)
    · intro hsame
      have hno : ¬ orphan (root1 :: procs1) r.smapsproc_uid := fun h => (hf.1 h) hsame
      have h5 := a5 r.smapsproc_uid
      rw [hrx] at h5
      cases h6 : proc_deref (root1 :: procs1) r.smapsproc_uid with
      | none => rw [h6] at h5; cases h5
      | some r1 =>
        rw [h6] at h5
        simp only [Option.map_some', Option.some.injEq] at h5
        have hm := proc_deref_mem _ _ r1 h6
        have hu1 := proc_deref_uid _ _ r1 h6
        refine ⟨r1, ?_, h5⟩
        show r1 ∈ procs1.filter (fun r => decide (r.smapsproc_parent ≠ none))
        rw [List.mem_filter]
        constructor
        · rcases List.mem_cons.1 hm with h | h
          · exfalso
            rw [h, hroot] at hu1
            exact hxu hu1.symm
          · exact h
        · simp only [ne_eq, decide_not, Bool.not_eq_true', decide_eq_false_iff_not]
          intro hn
          exact hno ⟨r1, h6, hn⟩

/-- C22: collapsed threads are discarded whole.  For a snapshot as the capture
parser leaves it, `smapssnap_create_hierarchy` returns a snapshot `snap1` in
which every process has a parent, and `smapssnap_collapse_threads` returns on
it a snapshot `snap2`.  The records `procs1` that the collapse leaves in
memory are the records of `snap1`, in the same order, and differ from them
at most in the parent link, the child list, `PPid` and the thread count: the
mapping list with all its counters, the name and the `Vm` fields are those
of `snap1`.  The process list of `snap2` holds exactly the records of
`procs1` that still have a parent, in their order, and no child list of
`snap2` holds anything but a process of `snap2`.  A process `r` of `snap1`
from which the parent links lead to the root is visited as a child of its
parent `p`: when `smapsproc_are_same p r` is not 0, it is taken for a
thread, and then no process of `snap2` is `r` and no child list of a record
left in memory holds `r`; when `smapsproc_are_same p r` is 0, it is a process
of `snap2`, with its data, also when it has been handed to the parent of a
thread, since a child that is no thread of a thread is no thread of the
parent of the thread either.  A process from which the parent links do not
lead to the root, which `PPid` values that make a cycle leave behind, is not
visited and is a process of `snap2` as it is. -/
theorem collapse_discards_threads (sort_pid : List smapsproc_t → List smapsproc_t)
    (hperm : ∀ l, (sort_pid l).Perm l) (snap : smapssnap_t) (hfresh : fresh_snap snap)
    (hmax : 2 * (snap.smapssnap_proclist.length : Int) ≤ INT_MAX) :
    ∃ snap1 snap2 procs1, smapssnap_create_hierarchy sort_pid snap = some snap1 ∧
      (∀ r ∈ snap1.smapssnap_proclist, r.smapsproc_parent ≠ none) ∧
      smapssnap_collapse_threads snap1 = some snap2 ∧
      (snap2.smapssnap_rootproc :: procs1).map proc_data
        = (snap1.smapssnap_rootproc :: snap1.smapssnap_proclist).map proc_data ∧
      snap2.smapssnap_proclist
        = procs1.filter (fun r => decide (r.smapsproc_parent ≠ none)) ∧
      (∀ n ∈ snap2.smapssnap_rootproc :: snap2.smapssnap_proclist,
        ∀ c ∈ n.smapsproc_children,
          ∃ r ∈ snap2.smapssnap_proclist, c = some r.smapsproc_uid) ∧
      (∀ r ∈ snap1.smapssnap_proclist,
        ∀ p ∈ snap1.smapssnap_rootproc :: snap1.smapssnap_proclist,
          (∃ d, ancestor (snap1.smapssnap_rootproc :: snap1.smapssnap_proclist) d
            r.smapsproc_uid = some snap1.smapssnap_rootproc.smapsproc_uid) →
          r.smapsproc_parent = some p.smapsproc_uid →
          (smapsproc_are_same p r ≠ 0 →
            (∀ r2 ∈ snap2.smapssnap_proclist, r2.smapsproc_uid ≠ r.smapsproc_uid) ∧
            (∀ n ∈ snap2.smapssnap_rootproc :: procs1,
              some r.smapsproc_uid ∉ n.smapsproc_children)) ∧
          (smapsproc_are_same p r = 0 →
            ∃ r2 ∈ snap2.smapssnap_proclist, proc_data r2 = proc_data r)) ∧
      (∀ r ∈ snap1.smapssnap_proclist,
        (¬ ∃ d, ancestor (snap1.smapssnap_rootproc :: snap1.smapssnap_proclist) d
          r.smapsproc_uid = some snap1.smapssnap_rootproc.smapsproc_uid) →
        r ∈ snap2.smapssnap_proclist) := by
  obtain ⟨snap1, h1, h2, _⟩ := create_hierarchy_hierarchy sort_pid hperm snap hfresh hmax
  have hpar := create_hierarchy_parent sort_pid hperm snap snap1 hfresh hmax h1
  obtain ⟨snap3, _, h3, h4, _, _⟩ := smapssnap_collapse_threads_hierarchy snap1 h2
  obtain ⟨snap2, procs1, e3, e5, e6, e7, e8⟩ := smapssnap_collapse_threads_fate snap1 h2
  have hs : snap3 = snap2 := Option.some.inj (h3.symm.trans e3)
  rw [hs] at h4
  exact ⟨snap1, snap2, procs1, h1, hpar, e3, e6, e5, hierarchy_children snap2 h4, e7,
    fun r hr hno => e8 r hr hno (hpar r hr)⟩

theorem collapse_discards_threads_witness :
    ((∀ l, (sort_pid_example l).Perm l) ∧ fresh_snap hier_snap ∧
      2 * (hier_snap.smapssnap_proclist.length : Int) ≤ INT_MAX) ∧
    ∃ snap1 snap2 procs1, smapssnap_create_hierarchy sort_pid_example hier_snap = some snap1 ∧
      (∀ r ∈ snap1.smapssnap_proclist, r.smapsproc_parent ≠ none) ∧
      smapssnap_collapse_threads snap1 = some snap2 ∧
      (snap2.smapssnap_rootproc :: procs1).map proc_data
        = (snap1.smapssnap_rootproc :: snap1.smapssnap_proclist).map proc_data ∧
      snap2.smapssnap_proclist
        = procs1.filter (fun r => decide (r.smapsproc_parent ≠ none)) ∧
      (∀ n ∈ snap2.smapssnap_rootproc :: snap2.smapssnap_proclist,
        ∀ c ∈ n.smapsproc_children,
          ∃ r ∈ snap2.smapssnap_proclist, c = some r.smapsproc_uid) ∧
      (∀ r ∈ snap1.smapssnap_proclist,
        ∀ p ∈ snap1.smapssnap_rootproc :: snap1.smapssnap_proclist,
          (∃ d, ancestor (snap1.smapssnap_rootproc :: snap1.smapssnap_proclist) d
            r.smapsproc_uid = some snap1.smapssnap_rootproc.smapsproc_uid) →
          r.smapsproc_parent = some p.smapsproc_uid →
          (smapsproc_are_same p r ≠ 0 →
            (∀ r2 ∈ snap2.smapssnap_proclist, r2.smapsproc_uid ≠ r.smapsproc_uid) ∧
            (∀ n ∈ snap2.smapssnap_rootproc :: procs1,
              some r.smapsproc_uid ∉ n.smapsproc_children)) ∧
          (smapsproc_are_same p r = 0 →
            ∃ r2 ∈ snap2.smapssnap_proclist, proc_data r2 = proc_data r)) ∧
      (∀ r ∈ snap1.smapssnap_proclist,
        (¬ ∃ d, ancestor (snap1.smapssnap_rootproc :: snap1.smapssnap_proclist) d
          r.smapsproc_uid = some snap1.smapssnap_rootproc.smapsproc_uid) →
        r ∈ snap2.smapssnap_proclist) :=
  ⟨⟨fun l => (sorts_pid_example l).1, ⟨by decide, by decide⟩, by decide⟩,
    collapse_discards_threads sort_pid_example (fun l => (sorts_pid_example l).1) hier_snap
      ⟨by decide, by decide⟩ (by decide)⟩

/-- The collapse of the hierarchy of `hier_snap`: of its six processes, the
processes with the pids 11 and 13, which have the name and the `Vm` fields
of their parent, are removed, and their children are handed to the process
with the pid 10. -/
theorem hier_snap_collapsed :
    ((smapssnap_create_hierarchy sort_pid_example hier_snap).bind
      smapssnap_collapse_threads).map (fun t => t.smapssnap_proclist.map (fun r =>
        (r.smapsproc_pid.Pid, r.smapsproc_parent, r.smapsproc_children)))
      = some [(1, some 0, [some 2]), (10, some 1, [some 4, some 6]), (12, some 2, []),
        (14, some 2, [])] := by
  decide

theorem int_wrap_of_int (x : Int) (h0 : INT_MIN ≤ x) (h1 : x ≤ INT_MAX) : int_wrap x = x := by
  unfold int_wrap
  unfold INT_MAX at h1 ⊢
  unfold INT_MIN at h0
  split <;> omega

/-- The thread counts of the tree of the root before and after
`smapssnap_collapse_threads`. -/
theorem smapssnap_collapse_threads_sum (snap : smapssnap_t)
    (hh : hierarchy (snap.smapssnap_rootproc :: snap.smapssnap_proclist)
      snap.smapssnap_rootproc.smapsproc_uid) :
    ∃ snap1 L L1, smapssnap_collapse_threads snap = some snap1 ∧
      shape (snap.smapssnap_rootproc :: snap.smapssnap_proclist)
        (snap.smapssnap_proclist.length + 1) snap.smapssnap_rootproc.smapsproc_uid L ∧
      L.Nodup ∧
      shape (snap1.smapssnap_rootproc :: snap1.smapssnap_proclist)
        (snap.smapssnap_proclist.length + 1) snap1.smapssnap_rootproc.smapsproc_uid L1 ∧
      L1.Nodup ∧
      threads_kept (snap.smapssnap_rootproc :: snap.smapssnap_proclist)
        (snap1.smapssnap_rootproc :: snap1.smapssnap_proclist) L L1 := by
  obtain ⟨root1, procs1, L, L1, h1, hsh0, hnd0, _, ⟨hreg, hsh, hlk, _, _⟩⟩ :=
    smapssnap_collapse_threads_spec snap hh
  obtain ⟨a1, a2, a3, a4, a5, a6, a7⟩ := hreg
  have hroot : root1.smapsproc_uid = snap.smapssnap_rootproc.smapsproc_uid := by
    simp only [List.map_cons, List.cons.injEq] at a1
    exact a1.1
  have hder : ∀ x ∈ L1,
      proc_deref (root1 :: procs1.filter (fun r => decide (r.smapsproc_parent ≠ none))) x
        = proc_deref (root1 :: procs1) x := by
    intro x hx
    rcases shape_parent _ _ _ L1 hsh hlk x hx with h | ⟨rx, p, rp, h2, h3, _, _, _⟩
    · obtain ⟨r, hr⟩ := shape_deref _ _ _ L1 hsh x hx
      rw [hr]
      exact proc_deref_filter root1 procs1 x r hr (Or.inl (by rw [h, hroot]))
    · rw [h2]
      exact proc_deref_filter root1 procs1 x rx h2 (Or.inr (by rw [h3]; simp))
  have hsum := thread_sum_congr (root1 :: procs1)
    (root1 :: procs1.filter (fun r => decide (r.smapsproc_parent ≠ none))) L1 hder
  refine ⟨_, L, L1, h1, hsh0, hnd0, ?_, a2, ?_, ?_⟩
  · show shape (root1 :: procs1.filter (fun r => decide (r.smapsproc_parent ≠ none)))
      (snap.smapssnap_proclist.length + 1) root1.smapsproc_uid L1
    rw [hroot]
    exact shape_congr _ _ _ _ L1 hsh (fun x hx => by rw [hder x hx])
  · show thread_sum (root1 :: procs1.filter (fun r => decide (r.smapsproc_parent ≠ none))) L1
      % 4294967296 = _
    rw [hsum]
    exact a7.1
  · intro hn hs
    obtain ⟨n1, s1⟩ := a7.2 hn hs
    refine ⟨fun x hx => ?_, ?_⟩
    · show 0 ≤ threads_of (root1 :: procs1.filter
        (fun r => decide (r.smapsproc_parent ≠ none))) x
      unfold threads_of
      rw [hder x hx]
      exact n1 x hx
    · show thread_sum (root1 :: procs1.filter
        (fun r => decide (r.smapsproc_parent ≠ none))) L1 = _
      rw [hsum]
      exact s1

/-- C23: accumulation of the thread count.  When the second loop of
`smapsproc_collapse_threads` takes the child `k` of the record `u` for a
thread, the thread count of `u` becomes the sum of the thread counts of `u`
and of `k`, wrapped to `int`, which is the sum itself when that is in the
range of `int`, and no other thread count changes.  For a snapshot as the
capture parser leaves it, the records that the child lists lead to from the
root make a tree `L` after `smapssnap_create_hierarchy` and a tree `L1` after
`smapssnap_collapse_threads`, and the thread counts of `L1` have the sum of
the thread counts of `L`: modulo `2 ^ 32` in every case, and exactly when no
thread count of `L` is negative and their sum is at most `INT_MAX`. -/
theorem thread_count_accumulates (H : List smapsproc_t) (u k : Int) (i : Nat)
    (s t : smapsproc_t) (gks : List Int)
    (hu : proc_deref H u = some s) (hk : proc_deref H k = some t)
    (hne : u ≠ k) (hch : t.smapsproc_children = gks.map some)
    (hg : ∀ g ∈ gks, ∃ r, proc_deref H g = some r) (hug : u ∉ gks) (hkg : k ∉ gks)
    (sort_pid : List smapsproc_t → List smapsproc_t)
    (hperm : ∀ l, (sort_pid l).Perm l) (snap : smapssnap_t) (hfresh : fresh_snap snap)
    (hmax : 2 * (snap.smapssnap_proclist.length : Int) ≤ INT_MAX) :
    (∃ H3, collapse_thread H u i k = some H3 ∧
      threads_of H3 u = int_wrap (s.smapsproc_pid.Threads + t.smapsproc_pid.Threads) ∧
      (INT_MIN ≤ s.smapsproc_pid.Threads + t.smapsproc_pid.Threads →
        s.smapsproc_pid.Threads + t.smapsproc_pid.Threads ≤ INT_MAX →
        threads_of H3 u = s.smapsproc_pid.Threads + t.smapsproc_pid.Threads) ∧
      ∀ x, x ≠ u → threads_of H3 x = threads_of H x) ∧
    ∃ snap1 snap2 L L1, smapssnap_create_hierarchy sort_pid snap = some snap1 ∧
      smapssnap_collapse_threads snap1 = some snap2 ∧
      shape (snap1.smapssnap_rootproc :: snap1.smapssnap_proclist)
        (snap1.smapssnap_proclist.length + 1) snap1.smapssnap_rootproc.smapsproc_uid L ∧
      L.Nodup ∧
      shape (snap2.smapssnap_rootproc :: snap2.smapssnap_proclist)
        (snap1.smapssnap_proclist.length + 1) snap2.smapssnap_rootproc.smapsproc_uid L1 ∧
      L1.Nodup ∧
      threads_kept (snap1.smapssnap_rootproc :: snap1.smapssnap_proclist)
        (snap2.smapssnap_rootproc :: snap2.smapssnap_proclist) L L1 := by
  constructor
  · obtain ⟨H3, e1, _, e3⟩ := collapse_thread_spec H u k i s t gks hu hk hne hch hg hug hkg
    have h1 : threads_of H3 u
        = int_wrap (s.smapsproc_pid.Threads + t.smapsproc_pid.Threads) := by
      unfold threads_of
      rw [e3 u, if_pos rfl]
      rfl
    refine ⟨H3, e1, h1, fun h0 h2 => by rw [h1, int_wrap_of_int _ h0 h2], fun x hx => ?_⟩
    unfold threads_of
    rw [e3 x, if_neg hx]
    by_cases h2 : x = k
    · rw [if_pos h2, h2, hk]
      rfl
    · rw [if_neg h2]
      split
      · cases proc_deref H x <;> rfl
      · rfl
  · obtain ⟨snap1, h1, h2, _⟩ := create_hierarchy_hierarchy sort_pid hperm snap hfresh hmax
    obtain ⟨snap2, L, L1, h3, h4, h5, h6, h7, h8⟩ := smapssnap_collapse_threads_sum snap1 h2
    exact ⟨snap1, snap2, L, L1, h1, h3, h4, h5, h6, h7, h8⟩

theorem thread_count_accumulates_witness :
    (proc_deref thread_heap 1
        = some { proc_example 1 "foo" 10 0 1 with
            smapsproc_parent := some 0, smapsproc_children := [some 2] } ∧
      proc_deref thread_heap 2
        = some { proc_example 2 "foo" 11 10 2 with
            smapsproc_parent := some 1, smapsproc_children := [some 3] } ∧
      (1 : Int) ≠ 2 ∧ [some (3 : Int)] = [(3 : Int)].map some ∧
      (∀ g ∈ [(3 : Int)], ∃ r, proc_deref thread_heap g = some r) ∧
      (1 : Int) ∉ [(3 : Int)] ∧ (2 : Int) ∉ [(3 : Int)] ∧
      (∀ l, (sort_pid_example l).Perm l) ∧ fresh_snap hier_snap ∧
      2 * (hier_snap.smapssnap_proclist.length : Int) ≤ INT_MAX) ∧
    ((∃ H3, collapse_thread thread_heap 1 0 2 = some H3 ∧
      threads_of H3 1 = int_wrap ((1 : Int) + 2) ∧
      (INT_MIN ≤ (1 : Int) + 2 → (1 : Int) + 2 ≤ INT_MAX → threads_of H3 1 = (1 : Int) + 2) ∧
      ∀ x, x ≠ 1 → threads_of H3 x = threads_of thread_heap x) ∧
    ∃ snap1 snap2 L L1, smapssnap_create_hierarchy sort_pid_example hier_snap = some snap1 ∧
      smapssnap_collapse_threads snap1 = some snap2 ∧
      shape (snap1.smapssnap_rootproc :: snap1.smapssnap_proclist)
        (snap1.smapssnap_proclist.length + 1) snap1.smapssnap_rootproc.smapsproc_uid L ∧
      L.Nodup ∧
      shape (snap2.smapssnap_rootproc :: snap2.smapssnap_proclist)
        (snap1.smapssnap_proclist.length + 1) snap2.smapssnap_rootproc.smapsproc_uid L1 ∧
      L1.Nodup ∧
      threads_kept (snap1.smapssnap_rootproc :: snap1.smapssnap_proclist)
        (snap2.smapssnap_rootproc :: snap2.smapssnap_proclist) L L1) :=
  ⟨⟨rfl, rfl, by decide, rfl,
      fun g hg => by rw [List.mem_singleton.1 hg]; exact ⟨_, rfl⟩, by decide, by decide,
      fun l => (sorts_pid_example l).1, ⟨by decide, by decide⟩, by decide⟩,
    thread_count_accumulates thread_heap 1 2 0 _ _ [3] rfl rfl (by decide) rfl
      (fun g hg => by rw [List.mem_singleton.1 hg]; exact ⟨_, rfl⟩) (by decide) (by decide)
      sort_pid_example (fun l => (sorts_pid_example l).1) hier_snap
      ⟨by decide, by decide⟩ (by decide)⟩

/-- A snapshot in which every process is a child of the root, and every
record is the same as every other one for `smapsproc_are_same`, is left
without a process by `smapssnap_collapse_threads`. -/
theorem collapse_all_threads (snap : smapssnap_t)
    (hh : hierarchy (snap.smapssnap_rootproc :: snap.smapssnap_proclist)
      snap.smapssnap_rootproc.smapsproc_uid)
    (hsame : ∀ a ∈ snap.smapssnap_rootproc :: snap.smapssnap_proclist,
      ∀ b ∈ snap.smapssnap_rootproc :: snap.smapssnap_proclist, smapsproc_are_same a b ≠ 0)
    (hpar : ∀ r ∈ snap.smapssnap_proclist,
      r.smapsproc_parent = some snap.smapssnap_rootproc.smapsproc_uid) :
    ∃ snap1, smapssnap_collapse_threads snap = some snap1 ∧
      snap1.smapssnap_proclist = [] ∧ snap1.smapssnap_rootproc.smapsproc_children = [] := by
  obtain ⟨root1, procs1, L, L1, h1, hsh0, _, _, ⟨hreg, hsh, hlk, hns, _⟩⟩ :=
    smapssnap_collapse_threads_spec snap hh
  obtain ⟨a1, a2, a3, a4, a5, a6, a7⟩ := hreg
  obtain ⟨g1, ⟨ru, g2, g3⟩, g4, g5⟩ := hh
  have hroot : root1.smapsproc_uid = snap.smapssnap_rootproc.smapsproc_uid := by
    simp only [List.map_cons, List.cons.injEq] at a1
    exact a1.1
  have huid : ((root1 :: procs1).map (fun r => r.smapsproc_uid)).Nodup := by
    rw [a1]; exact g1
  have hru : proc_deref (root1 :: procs1) snap.smapssnap_rootproc.smapsproc_uid
      = some root1 := by
    rw [← hroot]
    exact proc_deref_of_mem _ huid root1 (List.mem_cons_self _ _)
  have hr0 := proc_deref_of_mem _ g1 snap.smapssnap_rootproc (List.mem_cons_self _ _)
  have hone : ∀ x rx, proc_deref (root1 :: procs1) x = some rx →
      smapsproc_are_same root1 rx ≠ 0 := by
    intro x rx hx
    obtain ⟨r, e1, e2⟩ := deref_of_data _ _ x rx (a5 x) hx
    obtain ⟨r2, e3, e4⟩ := deref_of_data _ _ _ root1 (a5 _) hru
    rw [are_same_data root1 r2 rx r e4 e2]
    exact hsame r2 (proc_deref_mem _ _ r2 e3) r (proc_deref_mem _ _ r e1)
  -- the tree after the collapse is the root alone
  have hshape := hsh
  obtain ⟨r, ks, Ls, e1, e2, e3, e4⟩ := hsh
  rw [hru] at e1
  simp only [Option.some.injEq] at e1
  subst e1
  have huL1 : snap.smapssnap_rootproc.smapsproc_uid ∈ L1 := by
    rw [e3]; exact List.mem_cons_self _ _
  have hks : ks = [] := by
    cases ks with
    | nil => rfl
    | cons k ks =>
      exfalso
      have hin : some k ∈ root1.smapsproc_children := by rw [e2]; simp
      obtain ⟨_, rk, e5, _⟩ := hlk _ huL1 root1 hru k hin
      exact hone k rk e5 (hns _ huL1 root1 hru k hin rk e5)
  subst hks
  cases e4
  simp only [List.flatten_nil] at e3
  have huL : snap.smapssnap_rootproc.smapsproc_uid ∈ L := by
    obtain ⟨rest, hrest⟩ := shape_head _ _ _ L hsh0
    rw [hrest]
    exact List.mem_cons_self _ _
  refine ⟨_, h1, ?_, by simpa using e2⟩
  show procs1.filter (fun r => decide (r.smapsproc_parent ≠ none)) = []
  rw [List.filter_eq_nil_iff]
  intro r1 hr1
  simp only [ne_eq, decide_not, Bool.not_eq_true', decide_eq_false_iff_not, not_not]
  have hx : r1.smapsproc_uid ∈ snap.smapssnap_proclist.map (fun r => r.smapsproc_uid) := by
    simp only [List.map_cons, List.cons.injEq] at a1
    rw [← a1.2]
    exact List.mem_map.2 ⟨r1, hr1, rfl⟩
  obtain ⟨r0, hr0m, hr0u⟩ := List.mem_map.1 hx
  have hd0 := proc_deref_of_mem _ g1 r0 (List.mem_cons_of_mem _ hr0m)
  have hin := g5 _ _ r0 _ hd0 hr0 (hpar r0 hr0m)
  have hxL : r1.smapsproc_uid ∈ L := by
    rw [← hr0u]
    exact shape_closed _ _ _ L hsh0 _ huL _ hr0 _ hin
  have hxne : r1.smapsproc_uid ≠ snap.smapssnap_rootproc.smapsproc_uid := by
    intro h
    rw [List.map_cons, List.nodup_cons] at g1
    exact g1.1 (h ▸ hx)
  obtain ⟨rx, e5, e6, _⟩ := a6 _ hxL (by rw [e3]; simpa using hxne)
  have e7 := proc_deref_of_mem _ huid r1 (List.mem_cons_of_mem _ hr1)
  rw [e5] at e7
  simp only [Option.some.injEq] at e7
  rw [← e7]
  exact e6

/-! ## A capture file without metadata lines -/

theorem map_set_same {α β : Type} (f : α → β) (l : List α) (p : Nat) (a x : α)
    (h : l[p]? = some a) (hx : f x = f a) : (l.set p x).map f = l.map f := by
  induction l generalizing p with
  | nil => cases h
  | cons b l ih =>
    cases p with
    | zero =>
      simp only [List.getElem?_cons_zero, Option.some.injEq] at h
      simp [List.set, hx, h]
    | succ p =>
      simp only [List.getElem?_cons_succ] at h
      simp only [List.set, List.map_cons, List.cons.injEq, true_and]
      exact ih p h

theorem load_cap_header_pos (U : Nat) (data : List Char) (pid : Int)
    (h : load_cap_header U data = some pid) : 0 < pid := by
  unfold load_cap_header at h
  split at h
  · rename_i hc
    simp only [Option.some.injEq] at h
    rw [← h]
    exact hc.1
  · cases h

/-- A line that is no metadata line keeps the state of a load without
metadata lines. -/
theorem legacy_line (U : Nat) (u0 : Int) (st st1 : load_t) (line : List Char)
    (hst : legacy_state u0 st) (hk : line_kind_of line ≠ line_kind.metadata)
    (h : load_cap_line U st line = some st1) : legacy_state u0 st1 := by
  obtain ⟨i1, i2, i3, i4⟩ := hst
  unfold line_kind_of line_data at hk
  unfold load_cap_line at h
  generalize line.takeWhile (fun c => decide (c ≠ '\r' ∧ c ≠ '\n')) = data at h hk
  by_cases h1 : data = []
  · rw [if_pos h1] at h
    simp only [Option.some.injEq] at h
    rw [← h]
    exact ⟨i1, i2, i3, i4⟩
  rw [if_neg h1] at h hk
  by_cases h2 : data.take 3 = "==>".data
  · rw [if_pos h2] at h
    cases hh : load_cap_header U data with
    | none => rw [hh] at h; cases h
    | some pid =>
      rw [hh] at h
      simp only [Option.some.injEq] at h
      rw [← h]
      have hpos := load_cap_header_pos U data pid hh
      unfold smapssnap_add_process
      cases hf : smapssnap_find_process st.snap.smapssnap_proclist pid
          st.snap.smapssnap_proclist.length with
      | some i => exact ⟨i1, i2, i3, i4⟩
      | none =>
        refine ⟨i1, ?_, ?_, by simp only; omega⟩
        · intro c hc
          simp only [List.map_append, List.mem_append, List.map_cons, List.map_nil,
            List.mem_singleton] at hc
          rcases hc with hc | hc
          · obtain ⟨a, b, c2, d, e, f⟩ := i2 c hc
            exact ⟨a, b, c2, d, e, by simp only; omega⟩
          · rw [hc]
            refine ⟨⟨rfl, rfl, rfl, rfl, rfl, rfl, rfl, rfl, rfl, rfl⟩, hpos, rfl, rfl, i4, ?_⟩
            simp only [proc_core]
            omega
        · simp only [List.map_append, List.map_cons, List.map_nil]
          rw [List.nodup_append]
          refine ⟨i3, List.nodup_singleton _, ?_⟩
          intro x hx hx2
          rw [List.mem_singleton] at hx2
          obtain ⟨c, hc, hc2⟩ := List.mem_map.1 hx
          have := (i2 c hc).2.2.2.2.2
          rw [hc2, hx2] at this
          simp only [proc_core] at this
          omega
  rw [if_neg h2] at h hk
  by_cases h3 : data.head? = some '#'
  · rw [if_pos h3] at hk
    exact absurd rfl hk
  rw [if_neg h3] at h
  by_cases h4 : hexterm data = some '-'
  · rw [if_pos h4] at h
    cases hp : st.proc with
    | none => rw [hp] at h; cases h
    | some p =>
      rw [hp] at h
      simp only at h
      cases hq : st.snap.smapssnap_proclist[p]? with
      | none => rw [hq] at h; cases h
      | some proc =>
        rw [hq] at h
        simp only [Option.some.injEq] at h
        rw [← h]
        have hmap : (st.snap.smapssnap_proclist.set p
            (load_cap_range U st.mapp_uid proc data)).map proc_core
            = st.snap.smapssnap_proclist.map proc_core :=
          map_set_same proc_core _ p proc _ hq rfl
        refine ⟨i1, ?_, ?_, i4⟩
        · simp only [hmap]
          exact i2
        · simp only [hmap]
          exact i3
  · rw [if_neg h4] at h
    cases hm : st.mapp with
    | none => rw [hm] at h; cases h
    | some m =>
      cases hp : st.proc with
      | none => rw [hm, hp] at h; cases h
      | some p =>
        rw [hm, hp] at h
        simp only at h
        cases hq : st.snap.smapssnap_proclist[p]? with
        | none => rw [hq] at h; cases h
        | some proc =>
          rw [hq] at h
          simp only at h
          cases hmm : proc.smapsproc_mapplist[m]? with
          | none => rw [hmm] at h; cases h
          | some mapp =>
            rw [hmm] at h
            simp only [Option.some.injEq] at h
            rw [← h]
            have hmap := map_set_same proc_core st.snap.smapssnap_proclist p proc
              { proc with
                smapsproc_mapplist := proc.smapsproc_mapplist.set m
                  { mapp with
                    smapsmapp_mem := (meminfo_parse U st.unkn_mem mapp.smapsmapp_mem data).1 } }
              hq rfl
            refine ⟨i1, ?_, ?_, i4⟩
            · simp only [hmap]
              exact i2
            · simp only [hmap]
              exact i3

theorem legacy_fold (U : Nat) (u0 : Int) (lines : List (List Char)) :
    ∀ st st1 : load_t, legacy_state u0 st →
      (∀ l ∈ lines, line_kind_of l ≠ line_kind.metadata) →
      lines.foldlM (load_cap_line U) st = some st1 → legacy_state u0 st1 := by
  induction lines with
  | nil =>
    intro st st1 hst _ h
    simp only [List.foldlM_nil, Option.pure_def, Option.some.injEq] at h
    rw [← h]
    exact hst
  | cons l rest ih =>
    intro st st1 hst hk h
    rw [List.foldlM_cons] at h
    cases hl : load_cap_line U st l with
    | none => rw [hl] at h; cases h
    | some st2 =>
      rw [hl] at h
      exact ih st2 st1 (legacy_line U u0 st st2 l hst (hk l (List.mem_cons_self _ _)) hl)
        (fun l2 h2 => hk l2 (List.mem_cons_of_mem _ h2)) h

theorem are_same_legacy (a b : smapsproc_t) (ha : legacy_pid a.smapsproc_pid)
    (hb : legacy_pid b.smapsproc_pid) : smapsproc_are_same a b ≠ 0 := by
  obtain ⟨a0, _, a2, a3, a4, a5, a6, a7, a8, a9⟩ := ha
  obtain ⟨b0, _, b2, b3, b4, b5, b6, b7, b8, b9⟩ := hb
  unfold smapsproc_are_same
  rw [a0, a2, a3, a4, a5, a6, a7, a8, a9, b0, b2, b3, b4, b5, b6, b7, b8, b9]
  decide

/-- The loop of `smapssnap_create_hierarchy` gives the root as the parent to
a record whose `PPid` is the pid of no process. -/
theorem hier_target_root (root : Int) (S : List smapsproc_t) (c : smapsproc_t)
    (hmax : 2 * (S.length : Int) ≤ INT_MAX)
    (hno : ∀ q ∈ S, q.smapsproc_pid.Pid ≠ c.smapsproc_pid.PPid) : hier_target root S c = root := by
  obtain ⟨res, hres, hsome⟩ := create_hierarchy_find_total S c.smapsproc_pid.PPid S.length 0
    S.length (by omega) (le_refl _) (le_refl _) hmax
  unfold hier_target
  rw [hres]
  cases res with
  | none => rfl
  | some u =>
    obtain ⟨q, hq, _, hp⟩ := hsome u rfl
    exact absurd hp (hno q hq)

/-- A snapshot loaded from a file without metadata lines is left without a
process by `smapssnap_create_hierarchy` and `smapssnap_collapse_threads`. -/
theorem legacy_collapse (sort_pid : List smapsproc_t → List smapsproc_t)
    (hperm : ∀ l, (sort_pid l).Perm l) (u0 : Int) (st : load_t) (hst : legacy_state u0 st)
    (hmax : 2 * (st.snap.smapssnap_proclist.length : Int) ≤ INT_MAX) :
    (∀ r ∈ st.snap.smapssnap_proclist, legacy_pid r.smapsproc_pid) ∧
    ∃ snap1 snap2, smapssnap_create_hierarchy sort_pid st.snap = some snap1 ∧
      (∀ r ∈ snap1.smapssnap_proclist,
        r.smapsproc_parent = some snap1.smapssnap_rootproc.smapsproc_uid) ∧
      smapssnap_collapse_threads snap1 = some snap2 ∧
      snap2.smapssnap_proclist = [] ∧ snap2.smapssnap_rootproc.smapsproc_children = [] := by
  obtain ⟨i1, i2, i3, i4⟩ := hst
  have hall : ∀ r ∈ st.snap.smapssnap_proclist, legacy_pid r.smapsproc_pid ∧
      0 < r.smapsproc_pid.Pid ∧ r.smapsproc_parent = none ∧ r.smapsproc_children = [] ∧
      u0 < r.smapsproc_uid :=
    fun r hr => by
      obtain ⟨a, b, c, d, e, _⟩ := i2 (proc_core r) (List.mem_map.2 ⟨r, hr, rfl⟩)
      exact ⟨a, b, c, d, e⟩
  have hrootpid : legacy_pid st.snap.smapssnap_rootproc.smapsproc_pid := by
    rw [i1]
    exact ⟨rfl, rfl, rfl, rfl, rfl, rfl, rfl, rfl, rfl, rfl⟩
  have hrootuid : st.snap.smapssnap_rootproc.smapsproc_uid = u0 := by rw [i1]; rfl
  have hfresh : fresh_snap st.snap := by
    refine ⟨?_, ?_⟩
    · rw [List.map_cons, List.nodup_cons]
      refine ⟨fun h => ?_, by simpa [List.map_map, proc_core, Function.comp] using i3⟩
      obtain ⟨r, hr, hr2⟩ := List.mem_map.1 h
      have := (hall r hr).2.2.2.2
      rw [hr2, hrootuid] at this
      omega
    · intro r hr
      rcases List.mem_cons.1 hr with h | h
      · rw [h, i1]; exact ⟨rfl, rfl⟩
      · exact ⟨(hall r h).2.2.1, (hall r h).2.2.2.1⟩
  have hp := hperm st.snap.smapssnap_proclist
  have heq := smapssnap_create_hierarchy_eq sort_pid hperm st.snap hfresh hmax
  obtain ⟨snap1, h1, h2, _⟩ := create_hierarchy_hierarchy sort_pid hperm st.snap hfresh hmax
  rw [heq] at h1
  simp only [Option.some.injEq] at h1
  have hpid : ∀ r ∈ snap1.smapssnap_rootproc :: snap1.smapssnap_proclist,
      legacy_pid r.smapsproc_pid := by
    rw [← h1]
    intro r hr
    rcases List.mem_cons.1 hr with h | h
    · rw [h]; exact hrootpid
    · obtain ⟨c, hc, rfl⟩ := List.mem_map.1 h
      exact (hall c (hp.mem_iff.1 hc)).1
  have hparent : ∀ r ∈ snap1.smapssnap_proclist,
      r.smapsproc_parent = some snap1.smapssnap_rootproc.smapsproc_uid := by
    rw [← h1]
    intro r hr
    obtain ⟨c, hc, rfl⟩ := List.mem_map.1 hr
    simp only [built, ← hp.length_eq, List.take_length]
    rw [if_pos (List.mem_map.2 ⟨c, hc, rfl⟩),
      hier_target_root _ _ c (by rw [hp.length_eq]; exact hmax) (fun q hq => by
        rw [(hall c (hp.mem_iff.1 hc)).1.2.1]
        have := (hall q (hp.mem_iff.1 hq)).2.1
        omega)]
  obtain ⟨snap2, h3, h4, h5⟩ := collapse_all_threads snap1 h2
    (fun a ha b hb => are_same_legacy a b (hpid a ha) (hpid b hb)) hparent
  exact ⟨fun r hr => (hall r hr).1, snap1, snap2, by rw [heq, h1], hparent, h3, h4, h5⟩

/-- C38: the legacy dialect.  Let a file without metadata lines be loaded
into the snapshot that `smapssnap_create` has made, and let
`smapssnap_load_cap` return (no `assert` fails).  Then every process has the
name `<noname>`, `PPid` 0 and `Vm` fields 0; `smapssnap_create_hierarchy`
returns a snapshot in which the root is the parent of every process; and
`smapssnap_collapse_threads` returns on it a snapshot whose process list and
whose child list of the root are empty.  `array_sort` is taken to return a
permutation; the process list has at most `INT_MAX / 2` records. -/
theorem legacy_capture (ULONG_MOD : Nat) (u0 : Int) (path : String) (text : List Char)
    (sort_pid : List smapsproc_t → List smapsproc_t) (hperm : ∀ l, (sort_pid l).Perm l)
    (st : load_t)
    (hmeta : ∀ l ∈ text_lines text, line_kind_of l ≠ line_kind.metadata)
    (hload : smapssnap_load_cap ULONG_MOD
      { snap := (smapssnap_create u0).1, proc_uid := (smapssnap_create u0).2 } path text
        = some st)
    (hmax : 2 * (st.snap.smapssnap_proclist.length : Int) ≤ INT_MAX) :
    (∀ r ∈ st.snap.smapssnap_proclist, legacy_pid r.smapsproc_pid) ∧
    ∃ snap1 snap2, smapssnap_create_hierarchy sort_pid st.snap = some snap1 ∧
      (∀ r ∈ snap1.smapssnap_proclist,
        r.smapsproc_parent = some snap1.smapssnap_rootproc.smapsproc_uid) ∧
      smapssnap_collapse_threads snap1 = some snap2 ∧
      snap2.smapssnap_proclist = [] ∧ snap2.smapssnap_rootproc.smapsproc_children = [] := by
  refine legacy_collapse sort_pid hperm u0 st ?_ hmax
  unfold smapssnap_load_cap at hload
  refine legacy_fold ULONG_MOD u0 (text_lines text) _ st ?_ hmeta hload
  refine ⟨rfl, fun c hc => absurd hc (List.not_mem_nil c), List.nodup_nil, ?_⟩
  show u0 < u0 + 1
  omega

theorem legacy_capture_witness :
    ((∀ l, (sort_pid_example l).Perm l) ∧
      (∀ l ∈ text_lines legacy_text, line_kind_of l ≠ line_kind.metadata) ∧
      smapssnap_load_cap 18446744073709551616
        { snap := (smapssnap_create 0).1, proc_uid := (smapssnap_create 0).2 } "x" legacy_text
        = some ((smapssnap_load_cap 18446744073709551616
          { snap := (smapssnap_create 0).1, proc_uid := (smapssnap_create 0).2 } "x"
          legacy_text).getD {}) ∧
      2 * (((smapssnap_load_cap 18446744073709551616
          { snap := (smapssnap_create 0).1, proc_uid := (smapssnap_create 0).2 } "x"
          legacy_text).getD {}).snap.smapssnap_proclist.length : Int) ≤ INT_MAX) ∧
    ((∀ r ∈ ((smapssnap_load_cap 18446744073709551616
          { snap := (smapssnap_create 0).1, proc_uid := (smapssnap_create 0).2 } "x"
          legacy_text).getD {}).snap.smapssnap_proclist, legacy_pid r.smapsproc_pid) ∧
    ∃ snap1 snap2, smapssnap_create_hierarchy sort_pid_example
        ((smapssnap_load_cap 18446744073709551616
          { snap := (smapssnap_create 0).1, proc_uid := (smapssnap_create 0).2 } "x"
          legacy_text).getD {}).snap = some snap1 ∧
      (∀ r ∈ snap1.smapssnap_proclist,
        r.smapsproc_parent = some snap1.smapssnap_rootproc.smapsproc_uid) ∧
      smapssnap_collapse_threads snap1 = some snap2 ∧
      snap2.smapssnap_proclist = [] ∧ snap2.smapssnap_rootproc.smapsproc_children = []) :=
  ⟨⟨fun l => (sorts_pid_example l).1, by decide, by decide, by decide⟩,
    legacy_capture 18446744073709551616 0 "x" legacy_text sort_pid_example
      (fun l => (sorts_pid_example l).1) _ (by decide) (by decide) (by decide)⟩

theorem missing_separator_kind (line : List Char) (h : missing_separator line) :
    line_kind_of line = line_kind.counter := by
  obtain ⟨⟨c, hc, hx⟩, hs⟩ := h
  unfold line_kind_of
  have h1 : line_data line ≠ [] := by
    intro h0
    rw [h0] at hc
    cases hc
  rw [if_neg h1]
  have h2 : (line_data line).take 3 ≠ "==>".data := by
    intro h0
    cases hl : line_data line with
    | nil => exact h1 hl
    | cons a rest =>
      rw [hl] at hc h0
      simp only [List.head?_cons, Option.some.injEq] at hc
      simp only [List.take_succ_cons] at h0
      have : a = '=' := (List.cons.inj h0).1
      rw [← hc, this] at hx
      exact absurd hx (by decide)
  rw [if_neg h2]
  have h3 : (line_data line).head? ≠ some '#' := by
    intro h0
    rw [hc] at h0
    simp only [Option.some.injEq] at h0
    rw [h0] at hx
    exact absurd hx (by decide)
  rw [if_neg h3, if_neg hs]

set_option maxRecDepth 100000 in
/-- C31 (counterexample): a capture file in which a range line without the
`-` follows a range line of the same process is loaded to its end. -/
theorem missing_separator_parsed :
    (text_lines unsep_second_text)[2]?
      = some "08051000 08052000 rw-p 00009000 03:03 2060370 /sbin/init".data ∧
    missing_separator "08051000 08052000 rw-p 00009000 03:03 2060370 /sbin/init".data ∧
    (smapssnap_load_cap 18446744073709551616 {} "x" unsep_second_text).isSome = true :=
  ⟨by decide, ⟨⟨'0', by decide, by decide⟩, by decide⟩, by decide⟩

/-- C31 (amended): a range line without the `-` after its leading hexadecimal
digits is a counter line for `smapssnap_load_cap`.  When no range line
stands between it and the last header before it, or no header stands before
it, the load fails, whatever follows; when a range line stands between the
last header and it, the line is handed to `meminfo_parse` and the load fails
only if another line makes it fail. -/
theorem missing_separator_fails (ULONG_MOD : Nat) (st : load_t) (path : String)
    (text : List Char) (pre post : List (List Char)) (line : List Char)
    (hlines : text_lines text = pre ++ line :: post) (hsep : missing_separator line) :
    (has_mapp pre = false → smapssnap_load_cap ULONG_MOD st path text = none) ∧
    (has_mapp pre = true →
      (smapssnap_load_cap ULONG_MOD st path text = none ↔
        ∃ i l, i ≠ pre.length ∧ (text_lines text)[i]? = some l ∧
          line_fatal ULONG_MOD ((text_lines text).take i) l)) := by
  have hk := missing_separator_kind line hsep
  have hfold : smapssnap_load_cap ULONG_MOD st path text = none ↔
      ∃ i l, (text_lines text)[i]? = some l ∧
        line_fatal ULONG_MOD ((text_lines text).take i) l := by
    unfold smapssnap_load_cap
    have := load_cap_fold ULONG_MOD (text_lines text) []
      { st with snap := { st.snap with smapssnap_source := path }, proc := none, mapp := none }
      ⟨fun p hp => by simp at hp, fun m hm => by simp at hm⟩ rfl rfl
    simpa using this
  have hget : (text_lines text)[pre.length]? = some line := by
    rw [hlines, List.getElem?_append_right (le_refl _)]
    simp
  have htake : (text_lines text).take pre.length = pre := by
    rw [hlines, List.take_left']
    rfl
  refine ⟨fun hm => ?_, fun hm => ?_⟩
  · rw [hfold]
    refine ⟨pre.length, line, hget, ?_⟩
    rw [htake]
    exact Or.inr (Or.inr (Or.inr ⟨hk, hm⟩))
  · rw [hfold]
    constructor
    · rintro ⟨i, l, h1, h2⟩
      refine ⟨i, l, fun hi => ?_, h1, h2⟩
      rw [hi, hget] at h1
      simp only [Option.some.injEq] at h1
      rw [hi, htake, ← h1] at h2
      rcases h2 with h | h | h | h
      · rw [hk] at h; exact absurd h.1 (by decide)
      · rw [hk] at h; exact absurd h.1 (by decide)
      · rw [hk] at h; exact absurd h.1 (by decide)
      · rw [hm] at h; exact absurd h.2 (by decide)
    · rintro ⟨i, l, _, h1, h2⟩
      exact ⟨i, l, h1, h2⟩

theorem missing_separator_fails_witness :
    (text_lines unsep_first_text = ["==> /proc/1/smaps <==".data] ++
        "08048000 08051000 r-xp 00000000 03:03 2060370 /sbin/init".data :: [] ∧
      missing_separator "08048000 08051000 r-xp 00000000 03:03 2060370 /sbin/init".data) ∧
    ((has_mapp ["==> /proc/1/smaps <==".data] = false →
      smapssnap_load_cap 18446744073709551616 {} "x" unsep_first_text = none) ∧
    (has_mapp ["==> /proc/1/smaps <==".data] = true →
      (smapssnap_load_cap 18446744073709551616 {} "x" unsep_first_text = none ↔
        ∃ i l, i ≠ ["==> /proc/1/smaps <==".data].length ∧
          (text_lines unsep_first_text)[i]? = some l ∧
          line_fatal 18446744073709551616 ((text_lines unsep_first_text).take i) l))) :=
  ⟨⟨by decide, ⟨⟨'0', by decide, by decide⟩, by decide⟩⟩,
    missing_separator_fails 18446744073709551616 {} "x" unsep_first_text
      ["==> /proc/1/smaps <==".data] []
      "08048000 08051000 r-xp 00000000 03:03 2060370 /sbin/init".data (by decide)
      ⟨⟨'0', by decide, by decide⟩, by decide⟩⟩

/-- C40 (failing input): for a table without an entry the first division
gives `N = 0` and the second one divides by `N`; for every number of entries
from 1 to 2000000000 the interval is computed and is at least 1. -/
theorem emit_table_interval_zero :
    emit_table_interval_step 0 20 = some 0 ∧ emit_table_interval_step 0 0 = none ∧
    emit_table_interval 0 = none ∧
    ∀ n : Int, 1 ≤ n → n ≤ 2000000000 →
      ∃ N, emit_table_interval n = some N ∧ 1 ≤ N := by
  refine ⟨by decide, by decide, by decide, fun n h1 h2 => ?_⟩
  have hq : Int.tdiv (n + 20 - 1) 20 = (n + 20 - 1) / 20 :=
    Int.tdiv_eq_ediv (by omega) (by decide)
  have hN1 : 1 ≤ (n + 20 - 1) / 20 := by omega
  have hN2 : 20 * ((n + 20 - 1) / 20) ≤ n + 19 := by omega
  have e1 : emit_table_interval_step n 20 = some ((n + 20 - 1) / 20) := by
    unfold emit_table_interval_step INT_MIN INT_MAX
    rw [if_neg (by decide), if_neg (by omega), if_neg (by omega), hq]
  generalize (n + 20 - 1) / 20 = N at e1 hN1 hN2
  have hq2 : Int.tdiv (n + N - 1) N = (n + N - 1) / N :=
    Int.tdiv_eq_ediv (by omega) (by omega)
  have hN3 : 1 ≤ (n + N - 1) / N := by
    apply Int.le_ediv_of_mul_le (by omega)
    omega
  have e2 : emit_table_interval_step n N = some ((n + N - 1) / N) := by
    unfold emit_table_interval_step INT_MIN INT_MAX
    rw [if_neg (by omega), if_neg (by omega), if_neg (by omega), hq2]
  unfold emit_table_interval
  rw [e1]
  exact ⟨_, e2, hN3⟩

/-! ## The symbol tables of `analyze_enumerate_data` -/

theorem symtab_enumerate_entry (tab : symtab_t) (k : String) :
    (symtab_enumerate tab k).1.symtab_entry
      = if k ∈ tab.symtab_entry then tab.symtab_entry else tab.symtab_entry ++ [k] := by
  unfold symtab_enumerate
  split <;> rfl

theorem symtab_enumerate_nodup (tab : symtab_t) (k : String) (h : tab.symtab_entry.Nodup) :
    (symtab_enumerate tab k).1.symtab_entry.Nodup := by
  rw [symtab_enumerate_entry]
  split
  · exact h
  · rename_i hk
    rw [List.nodup_append]
    exact ⟨h, List.nodup_singleton _, fun x hx hx2 => hk (by
      rw [List.mem_singleton] at hx2
      rw [← hx2]
      exact hx)⟩

theorem intern_all_append (acc l1 l2 : List String) :
    intern_all acc (l1 ++ l2) = intern_all (intern_all acc l1) l2 := by
  unfold intern_all
  rw [List.foldl_append]

theorem intern_all_base (base : List String) (l : List String) :
    ∀ ext : List String, intern_all (base ++ ext) l
      = base ++ intern_all ext (l.filter (fun k => decide (k ∉ base))) := by
  induction l with
  | nil => intro ext; rfl
  | cons k l ih =>
    intro ext
    by_cases hb : k ∈ base
    · have h1 : intern_all (base ++ ext) (k :: l) = intern_all (base ++ ext) l := by
        unfold intern_all
        rw [List.foldl_cons, if_pos (List.mem_append_left _ hb)]
      rw [h1, ih ext, List.filter_cons_of_neg (by simpa using hb)]
    · rw [List.filter_cons_of_pos (by simpa using hb)]
      by_cases he : k ∈ ext
      · have h1 : intern_all (base ++ ext) (k :: l) = intern_all (base ++ ext) l := by
          unfold intern_all
          rw [List.foldl_cons, if_pos (List.mem_append_right _ he)]
        have h2 : ∀ l2, intern_all ext (k :: l2) = intern_all ext l2 := by
          intro l2
          unfold intern_all
          rw [List.foldl_cons, if_pos he]
        rw [h1, ih ext, h2]
      · have h1 : intern_all (base ++ ext) (k :: l) = intern_all (base ++ (ext ++ [k])) l := by
          unfold intern_all
          rw [List.foldl_cons, if_neg (by
            rw [List.mem_append, not_or]
            exact ⟨hb, he⟩), List.append_assoc]
        have h2 : ∀ l2, intern_all ext (k :: l2) = intern_all (ext ++ [k]) l2 := by
          intro l2
          unfold intern_all
          rw [List.foldl_cons, if_neg he]
        rw [h1, ih (ext ++ [k]), h2]

/-- The type table after the loop over the processes: the keys of the table
at the start, then the types of the mappings in the order in which they are
first seen. -/
theorem enumerate_types (procs : List smapsproc_t) :
    ∀ st : symtab_t × (symtab_t × List smapsmapp_t),
      (procs.foldl enumerate_proc_step st).2.1.symtab_entry
        = intern_all st.2.1.symtab_entry
          ((procs.flatMap (fun p => p.smapsproc_mapplist)).map
            (fun m => m.smapsmapp_map.type)) := by
  have hm : ∀ (AID PID : Int) (ms : List smapsmapp_t) (s : symtab_t × List smapsmapp_t),
      (ms.foldl (enumerate_mapp_step AID PID) s).1.symtab_entry
        = intern_all s.1.symtab_entry (ms.map (fun m => m.smapsmapp_map.type)) := by
    intro AID PID ms
    induction ms with
    | nil => intro s; rfl
    | cons m ms ih =>
      intro s
      rw [List.foldl_cons, ih]
      unfold enumerate_mapp_step
      simp only [List.map_cons]
      rw [symtab_enumerate_entry]
      unfold intern_all
      rw [List.foldl_cons]
  induction procs with
  | nil => intro st; rfl
  | cons p procs ih =>
    intro st
    rw [List.foldl_cons, ih, List.flatMap_cons, List.map_append, intern_all_append]
    unfold enumerate_proc_step
    simp only
    rw [hm]

theorem intern_all_nodup (l : List String) :
    ∀ acc : List String, acc.Nodup → (intern_all acc l).Nodup := by
  induction l with
  | nil => intro acc h; exact h
  | cons k l ih =>
    intro acc h
    unfold intern_all
    rw [List.foldl_cons]
    apply ih
    split
    · exact h
    · rename_i hk
      rw [List.nodup_append]
      exact ⟨h, List.nodup_singleton _, fun x hx hx2 => hk (by
        rw [List.mem_singleton] at hx2
        rw [← hx2]
        exact hx)⟩

/-- After the loop over the processes the type id of every mapping is the
place of its type in the type table. -/
theorem enumerate_procs_tid (procs : List smapsproc_t)
    (st : symtab_t × (symtab_t × List smapsmapp_t))
    (h : ∀ m ∈ st.2.2, 0 ≤ m.smapsmapp_TID ∧
      st.2.1.symtab_entry[m.smapsmapp_TID.toNat]? = some m.smapsmapp_map.type) :
    ∀ m ∈ (procs.foldl enumerate_proc_step st).2.2, 0 ≤ m.smapsmapp_TID ∧
      (procs.foldl enumerate_proc_step st).2.1.symtab_entry[m.smapsmapp_TID.toNat]?
        = some m.smapsmapp_map.type := by
  apply foldl_inv (fun st : symtab_t × (symtab_t × List smapsmapp_t) =>
    ∀ m ∈ st.2.2, 0 ≤ m.smapsmapp_TID ∧
      st.2.1.symtab_entry[m.smapsmapp_TID.toNat]? = some m.smapsmapp_map.type)
  · intro proc _ s hs
    unfold enumerate_proc_step
    simp only
    apply foldl_inv (fun st : symtab_t × List smapsmapp_t =>
      ∀ m ∈ st.2, 0 ≤ m.smapsmapp_TID ∧
        st.1.symtab_entry[m.smapsmapp_TID.toNat]? = some m.smapsmapp_map.type)
    · intro mapp _ s1 hs1 m hm
      unfold enumerate_mapp_step at hm ⊢
      simp only [List.mem_append, List.mem_singleton] at hm
      rcases hm with hm | hm
      · exact ⟨(hs1 m hm).1, symtab_enumerate_keep _ _ _ _ (hs1 m hm).2⟩
      · rw [hm]
        obtain ⟨-, h0, h1⟩ := symtab_enumerate_spec s1.1 mapp.smapsmapp_map.type
        exact ⟨h0, h1⟩
    · exact hs
  · exact h

/-- The loop over the sorted mapping table keeps the type id, the data and
the counters of every mapping. -/
theorem enumerate_paths_keep (src : List smapsmapp_t)
    (st : symtab_t × (symtab_t × List smapsmapp_t)) (h0 : st.2.2 = []) :
    ∀ m ∈ (src.foldl enumerate_path_step st).2.2, ∃ m1 ∈ src,
      m.smapsmapp_TID = m1.smapsmapp_TID ∧ m.smapsmapp_map = m1.smapsmapp_map ∧
      m.smapsmapp_mem = m1.smapsmapp_mem ∧ m.smapsmapp_AID = m1.smapsmapp_AID := by
  apply foldl_inv (fun st : symtab_t × (symtab_t × List smapsmapp_t) =>
    ∀ m ∈ st.2.2, ∃ m1 ∈ src,
      m.smapsmapp_TID = m1.smapsmapp_TID ∧ m.smapsmapp_map = m1.smapsmapp_map ∧
      m.smapsmapp_mem = m1.smapsmapp_mem ∧ m.smapsmapp_AID = m1.smapsmapp_AID)
  · intro mapp hmapp s hs m hm
    unfold enumerate_path_step at hm
    simp only [List.mem_append, List.mem_singleton] at hm
    rcases hm with hm | hm
    · exact hs m hm
    · rw [hm]
      exact ⟨mapp, hmapp, rfl, rfl, rfl, rfl⟩
  · intro m hm
    rw [h0] at hm
    cases hm

theorem enumerate_paths_nodup (src : List smapsmapp_t)
    (st : symtab_t × (symtab_t × List smapsmapp_t)) (h0 : st.2.1.symtab_entry.Nodup) :
    (src.foldl enumerate_path_step st).2.1.symtab_entry.Nodup := by
  apply foldl_inv (fun st : symtab_t × (symtab_t × List smapsmapp_t) =>
    st.2.1.symtab_entry.Nodup)
  · intro mapp _ s hs
    unfold enumerate_path_step
    exact symtab_enumerate_nodup _ _ hs
  · exact h0

/-- `analyze_enumerate_data` returns; the type table holds the six base types,
then the other types of the mappings in the order in which they are first
seen; the type id of a mapping is the place of its type in the table. -/
theorem enumerate_type_ids
    (sort_procs : List smapsproc_t → List smapsproc_t)
    (sort_mapps : List smapsmapp_t → List smapsmapp_t)
    (hsort : ∀ l, (sort_mapps l).Perm l) (snap : smapssnap_t) :
    ∃ az, analyze_enumerate_data sort_procs sort_mapps analyze_create snap = some az ∧
      az.stype = base_types ++ intern_all []
        (((enum_mapps sort_procs snap).map (fun m => m.smapsmapp_map.type)).filter
          (fun k => decide (k ∉ base_types))) ∧
      az.stype.Nodup ∧ az.ntypes = (az.stype.length : Int) ∧
      ∀ m ∈ az.mapp_tab, 0 ≤ m.smapsmapp_TID ∧
        az.stype[m.smapsmapp_TID.toNat]? = some m.smapsmapp_map.type := by
  have h1 := enumerate_procs_inv sort_procs snap
  have h2 := enumerate_paths_inv sort_mapps (fun l m hm => (hsort l).subset hm) _ _ h1.1
  obtain ⟨grp, hg, _⟩ := enumerate_groups_some _ _ _ h2
  have hbase : (symtab_enumerate (symtab_enumerate (symtab_enumerate (symtab_enumerate
      (symtab_enumerate (symtab_enumerate analyze_create.type_tab "total").1 "code").1 "data").1
      "heap").1 "anon").1 "stack").1.symtab_entry = base_types ++ [] := by decide
  have htab : (enumerate_procs sort_procs analyze_create snap).2.1.symtab_entry
      = base_types ++ intern_all []
        (((enum_mapps sort_procs snap).map (fun m => m.smapsmapp_map.type)).filter
          (fun k => decide (k ∉ base_types))) := by
    unfold enumerate_procs
    rw [enumerate_types]
    simp only
    rw [hbase, intern_all_base]
    rfl
  have htid := enumerate_procs_tid (sort_procs snap.smapssnap_proclist)
    (analyze_create.appl_tab,
     ((symtab_enumerate (symtab_enumerate (symtab_enumerate (symtab_enumerate
        (symtab_enumerate (symtab_enumerate analyze_create.type_tab "total").1 "code").1 "data").1
        "heap").1 "anon").1 "stack").1,
      analyze_create.mapp_tab)) (fun m hm => by cases hm)
  have hkeep := enumerate_paths_keep
    (sort_mapps (enumerate_procs sort_procs analyze_create snap).2.2)
    (analyze_create.path_tab, (analyze_create.summ_tab, [])) rfl
  unfold analyze_enumerate_data
  simp only [hg]
  refine ⟨_, rfl, htab, ?_, rfl, ?_⟩
  · show (enumerate_procs sort_procs analyze_create snap).2.1.symtab_entry.Nodup
    rw [htab]
    have := intern_all_nodup
      (((enum_mapps sort_procs snap).map (fun m => m.smapsmapp_map.type)).filter
        (fun k => decide (k ∉ base_types))) (base_types ++ []) (by decide)
    rw [intern_all_base] at this
    simpa using this
  · intro m hm
    obtain ⟨m1, hm1, e1, e2, _, _⟩ := hkeep m hm
    have := htid m1 ((hsort _).subset hm1)
    rw [e1, e2]
    exact this

/-- C32: canonical type ids.  The interning primitive is taken to hand out
the ids in the order of insertion and to return the id of a key that it
knows.  `analyze_enumerate_data` returns on every snapshot; the type table
starts with `total`, `code`, `data`, `heap`, `anon`, `stack`, which have the
ids 0 to 5, followed by the other types of the mappings in the order in which
the walk over the sorted process list first sees them; no type is in the
table twice, `ntypes` is the length of the table and at least 6; the type id
of a mapping is the place of its type in the table, so it is the id of the
base type when the type is one, and at least 6 otherwise. -/
theorem canonical_type_ids
    (sort_procs : List smapsproc_t → List smapsproc_t)
    (sort_mapps : List smapsmapp_t → List smapsmapp_t)
    (hsort : ∀ l, (sort_mapps l).Perm l) (snap : smapssnap_t) :
    ∃ az, analyze_enumerate_data sort_procs sort_mapps analyze_create snap = some az ∧
      az.stype = ["total", "code", "data", "heap", "anon", "stack"] ++ intern_all []
        (((enum_mapps sort_procs snap).map (fun m => m.smapsmapp_map.type)).filter
          (fun k => decide (k ∉ ["total", "code", "data", "heap", "anon", "stack"]))) ∧
      az.stype.Nodup ∧ az.ntypes = (az.stype.length : Int) ∧ 6 ≤ az.ntypes ∧
      ∀ m ∈ az.mapp_tab, 0 ≤ m.smapsmapp_TID ∧
        az.stype[m.smapsmapp_TID.toNat]? = some m.smapsmapp_map.type ∧
        (∀ i : Nat, ["total", "code", "data", "heap", "anon", "stack"][i]?
          = some m.smapsmapp_map.type → m.smapsmapp_TID = (i : Int)) ∧
        (m.smapsmapp_map.type ∉ ["total", "code", "data", "heap", "anon", "stack"] →
          6 ≤ m.smapsmapp_TID) := by
  obtain ⟨az, h1, h2, h3, h4, h5⟩ := enumerate_type_ids sort_procs sort_mapps hsort snap
  have hlen : 6 ≤ az.stype.length := by
    rw [h2, List.length_append]
    exact Nat.le_add_right _ _
  have hpre : ∀ i : Nat, i < 6 → az.stype[i]? = base_types[i]? := by
    intro i hi
    rw [h2, List.getElem?_append_left (by exact hi)]
  refine ⟨az, h1, h2, h3, h4, by rw [h4]; exact_mod_cast hlen, fun m hm => ?_⟩
  obtain ⟨e1, e2⟩ := h5 m hm
  refine ⟨e1, e2, fun i hi => ?_, fun hno => ?_⟩
  · have hi6 : i < 6 := (List.getElem?_eq_some_iff.1 hi).1
    have e3 : az.stype[i]? = some m.smapsmapp_map.type := by
      rw [hpre i hi6]; exact hi
    have hlt1 := (List.getElem?_eq_some_iff.1 e2).1
    have hlt2 := (List.getElem?_eq_some_iff.1 e3).1
    have e4 : az.stype[m.smapsmapp_TID.toNat] = az.stype[i] := by
      rw [(List.getElem?_eq_some_iff.1 e2).2, (List.getElem?_eq_some_iff.1 e3).2]
    have := (List.Nodup.getElem_inj_iff h3).1 e4
    omega
  · by_contra hlt
    have hlt2 : m.smapsmapp_TID.toNat < 6 := by omega
    rw [hpre _ hlt2] at e2
    exact hno (List.getElem?_mem e2)

theorem canonical_type_ids_witness :
    (∀ l : List smapsmapp_t, (id l).Perm l) ∧
    ∃ az, analyze_enumerate_data id id analyze_create total_snap = some az ∧
      az.stype = ["total", "code", "data", "heap", "anon", "stack"] ++ intern_all []
        (((enum_mapps id total_snap).map (fun m => m.smapsmapp_map.type)).filter
          (fun k => decide (k ∉ ["total", "code", "data", "heap", "anon", "stack"]))) ∧
      az.stype.Nodup ∧ az.ntypes = (az.stype.length : Int) ∧ 6 ≤ az.ntypes ∧
      ∀ m ∈ az.mapp_tab, 0 ≤ m.smapsmapp_TID ∧
        az.stype[m.smapsmapp_TID.toNat]? = some m.smapsmapp_map.type ∧
        (∀ i : Nat, ["total", "code", "data", "heap", "anon", "stack"][i]?
          = some m.smapsmapp_map.type → m.smapsmapp_TID = (i : Int)) ∧
        (m.smapsmapp_map.type ∉ ["total", "code", "data", "heap", "anon", "stack"] →
          6 ≤ m.smapsmapp_TID) :=
  ⟨fun l => List.Perm.refl l, canonical_type_ids id id (fun l => List.Perm.refl l) total_snap⟩

/-- C33 (failing input): a process with a mapping whose path is `[total]` and
a mapping of its program, each of size 4.  `smapsproc_add_mapping` gives the
first mapping the type `total`, `analyze_enumerate_data` gives it the type id
0, and after `analyze_accumulate_data` its counters are in row 0 of its
group only: the rows of the application from 1 on hold the other mapping
alone, and the total of the application is 4, not 8. -/
theorem type_total_collision :
    total_snap.smapssnap_proclist.map (fun p => p.smapsproc_mapplist.map
      (fun m => (m.smapsmapp_map.path, m.smapsmapp_map.type, m.smapsmapp_mem.Size)))
      = [[("[total]", "total", 4), ("/bin/foo", "code", 4)]] ∧
    (∃ az, analyze_enumerate_data id id analyze_create total_snap = some az ∧
      az.mapp_tab.map (fun m => (m.smapsmapp_map.type, m.smapsmapp_TID))
        = [("total", 0), ("code", 1)]) ∧
    ∃ az, analyze_snapshot id id total_snap = some az ∧
      (az.grp 0 0).Size = 4 ∧
      (int_range 1 az.ntypes).map (fun t => (az.app 0 t).Size) = [4, 0, 0, 0, 0] ∧
      (az.app 0 0).Size = 4 := by
  refine ⟨by decide, ⟨_, rfl, by decide⟩, ⟨_, rfl, by decide, by decide, by decide⟩⟩

/-- C34: group ids identify (instance, path) pairs.  The interning primitive
is taken to return equal ids exactly for equal keys.  `analyze_enumerate_data`
returns on every snapshot, so none of its four assertions fails; two mappings
have the same group id if and only if they have the same application id and
the same library id; every group id from 0 to `groups - 1` is the group id of
a mapping, and `grp_app` and `grp_lib` give for it the application id and the
library id of every mapping of the group. -/
theorem group_ids_identify_pairs
    (sort_procs : List smapsproc_t → List smapsproc_t)
    (sort_mapps : List smapsmapp_t → List smapsmapp_t)
    (hsort : ∀ l, (sort_mapps l).Perm l) (snap : smapssnap_t) :
    ∃ az, analyze_enumerate_data sort_procs sort_mapps analyze_create snap = some az ∧
      (∀ m1 ∈ az.mapp_tab, ∀ m2 ∈ az.mapp_tab,
        (m1.smapsmapp_EID = m2.smapsmapp_EID ↔
          (m1.smapsmapp_AID = m2.smapsmapp_AID ∧ m1.smapsmapp_LID = m2.smapsmapp_LID))) ∧
      (∀ g : Int, 0 ≤ g → g < az.groups → ∃ m ∈ az.mapp_tab, m.smapsmapp_EID = g) ∧
      (∀ m ∈ az.mapp_tab, 0 ≤ m.smapsmapp_EID ∧ m.smapsmapp_EID < az.groups ∧
        az.grp_app.getD m.smapsmapp_EID.toNat (-1) = m.smapsmapp_AID ∧
        az.grp_lib.getD m.smapsmapp_EID.toNat (-1) = m.smapsmapp_LID) := by
  have h1 := enumerate_procs_inv sort_procs snap
  have h2 := enumerate_paths_inv sort_mapps (fun l m hm => (hsort l).subset hm) _ _ h1.1
  have h3 := enumerate_paths_nodup
    (sort_mapps (enumerate_procs sort_procs analyze_create snap).2.2)
    (analyze_create.path_tab, (analyze_create.summ_tab, [])) List.nodup_nil
  obtain ⟨az, h4, h5⟩ := analyze_enumerate_data_enumerated sort_procs sort_mapps
    (fun l m hm => (hsort l).subset hm) snap
  have hmt : az.mapp_tab
      = (enumerate_paths sort_mapps analyze_create
          (enumerate_procs sort_procs analyze_create snap).2.2).2.2 := by
    obtain ⟨grp, hg, _⟩ := enumerate_groups_some _ _ _ h2
    unfold analyze_enumerate_data at h4
    simp only [hg, Option.some.injEq] at h4
    rw [← h4]
  refine ⟨az, h4, fun m1 hm1 m2 hm2 => ⟨fun he => ?_, fun he => ?_⟩, h5.onto,
    fun m hm => ⟨(h5.ids m hm).1.1, (h5.ids m hm).1.2, (h5.grp m hm).1, (h5.grp m hm).2⟩⟩
  · have a1 := h5.grp m1 hm1
    have a2 := h5.grp m2 hm2
    rw [he] at a1
    exact ⟨a1.1.symm.trans a2.1, a1.2.symm.trans a2.2⟩
  · rw [hmt] at hm1 hm2
    obtain ⟨-, -, -, -, -, -, a7, a8⟩ := h2.1 m1 hm1
    obtain ⟨-, -, -, -, -, -, b7, b8⟩ := h2.1 m2 hm2
    rw [he.1, he.2] at a8
    have hlt1 := (List.getElem?_eq_some_iff.1 a8).1
    have hlt2 := (List.getElem?_eq_some_iff.1 b8).1
    have e : (enumerate_paths sort_mapps analyze_create
        (enumerate_procs sort_procs analyze_create snap).2.2).2.1.symtab_entry[
          m1.smapsmapp_EID.toNat]
        = (enumerate_paths sort_mapps analyze_create
        (enumerate_procs sort_procs analyze_create snap).2.2).2.1.symtab_entry[
          m2.smapsmapp_EID.toNat] := by
      rw [(List.getElem?_eq_some_iff.1 a8).2, (List.getElem?_eq_some_iff.1 b8).2]
    have := (List.Nodup.getElem_inj_iff h3).1 e
    omega

theorem group_ids_identify_pairs_witness :
    (∀ l : List smapsmapp_t, (id l).Perm l) ∧
    ∃ az, analyze_enumerate_data id id analyze_create example_snap = some az ∧
      (∀ m1 ∈ az.mapp_tab, ∀ m2 ∈ az.mapp_tab,
        (m1.smapsmapp_EID = m2.smapsmapp_EID ↔
          (m1.smapsmapp_AID = m2.smapsmapp_AID ∧ m1.smapsmapp_LID = m2.smapsmapp_LID))) ∧
      (∀ g : Int, 0 ≤ g → g < az.groups → ∃ m ∈ az.mapp_tab, m.smapsmapp_EID = g) ∧
      (∀ m ∈ az.mapp_tab, 0 ≤ m.smapsmapp_EID ∧ m.smapsmapp_EID < az.groups ∧
        az.grp_app.getD m.smapsmapp_EID.toNat (-1) = m.smapsmapp_AID ∧
        az.grp_lib.getD m.smapsmapp_EID.toNat (-1) = m.smapsmapp_LID) :=
  ⟨fun l => List.Perm.refl l,
    group_ids_identify_pairs id id (fun l => List.Perm.refl l) example_snap⟩

/-! ## Bounds between the system tables -/

theorem max_list_le_sum (l : List Nat) : max_list l ≤ l.sum := by
  induction l with
  | nil => exact le_refl _
  | cons a l ih =>
    show max a (max_list l) ≤ a + l.sum
    rcases le_total a (max_list l) with h | h
    · rw [max_eq_right h]; omega
    · rw [max_eq_left h]; omega

theorem mem_le_sum (l : List Nat) (x : Nat) (h : x ∈ l) : x ≤ l.sum := by
  induction l with
  | nil => simp at h
  | cons a l ih =>
    rw [List.sum_cons]
    rcases List.mem_cons.mp h with h1 | h1
    · omega
    · have := ih h1
      omega

theorem sum_map_mod_le (l : List Int) (x : Int → Nat) :
    (l.map (fun g => x g % UINT_MOD)).sum ≤ (l.map x).sum :=
  List.sum_le_sum (fun _ _ => Nat.mod_le _ _)

/-- Summing key by key is summing over all elements with a selected key. -/
theorem sum_by_key {α : Type} (ms : List α) (k : α → Int) (f : α → Nat)
    (G : List Int) (hG : G.Nodup) (P : Int → Bool) (hk : ∀ m ∈ ms, k m ∈ G) :
    ((G.filter P).map (fun g => ((ms.filter (fun m => decide (k m = g))).map f).sum)).sum
      = ((ms.filter (fun m => P (k m))).map f).sum := by
  induction ms with
  | nil => simp
  | cons m ms ih =>
    have hsplit : ∀ g, (((m :: ms).filter (fun m => decide (k m = g))).map f).sum
        = (if k m = g then f m else 0) + ((ms.filter (fun m => decide (k m = g))).map f).sum := by
      intro g
      rw [List.filter_cons]
      by_cases h : k m = g
      · simp [h]
      · simp [h]
    simp only [hsplit]
    rw [List.sum_map_add, ih (fun x hx => hk x (List.mem_cons_of_mem _ hx)),
      sum_indicator G hG P (k m) (hk m (List.mem_cons_self _ _)) (f m), List.filter_cons]
    by_cases hp : P (k m) = true
    · simp [hp]
    · simp [hp]

/-- Summing over all keys is summing over all elements. -/
theorem sum_all_keys {α : Type} (ms : List α) (k : α → Int) (f : α → Nat)
    (G : List Int) (hG : G.Nodup) (hk : ∀ m ∈ ms, k m ∈ G) :
    (G.map (fun g => ((ms.filter (fun m => decide (k m = g))).map f).sum)).sum
      = (ms.map f).sum := by
  have h := sum_by_key ms k f G hG (fun _ => true) hk
  rw [List.filter_true, List.filter_true] at h
  exact h

/-- The mappings of type `t`, split by a second id, add up to the mappings of
type `t`. -/
theorem type_sum_split (ms : List smapsmapp_t) (k : smapsmapp_t → Int) (f : smapsmapp_t → Nat)
    (G : List Int) (hG : G.Nodup) (hk : ∀ m ∈ ms, k m ∈ G) (t : Int) :
    (G.map (fun g => ((ms.filter
        (fun m => decide (k m = g) && decide (m.smapsmapp_TID = t))).map f).sum)).sum
      = ((ms.filter (fun m => decide (m.smapsmapp_TID = t))).map f).sum := by
  rw [← sum_all_keys (ms.filter (fun m => decide (m.smapsmapp_TID = t))) k f G hG
    (fun m hm => hk m (List.mem_of_mem_filter hm))]
  congr 1
  apply List.map_congr_left
  intro g _
  rw [List.filter_filter]

/-- The per-type sums of the types `1 ..` add up to the sum over the mappings
of a type `>= 1`. -/
theorem type_sum_total (ms : List smapsmapp_t) (f : smapsmapp_t → Nat) (n : Int)
    (hk : ∀ m ∈ ms, m.smapsmapp_TID < n) :
    ((int_range 1 n).map (fun t => ((ms.filter
        (fun m => decide (m.smapsmapp_TID = t))).map f).sum)).sum
      = ((ms.filter (fun m => decide (1 ≤ m.smapsmapp_TID))).map f).sum := by
  rw [← sum_all_keys (ms.filter (fun m => decide (1 ≤ m.smapsmapp_TID)))
    (fun m => m.smapsmapp_TID) f (int_range 1 n) (int_range_nodup _ _)
    (fun m hm => (mem_int_range _ _ _).mpr
      ⟨of_decide_eq_true (List.mem_filter.mp hm).2, hk m (List.mem_of_mem_filter hm)⟩)]
  congr 1
  apply List.map_congr_left
  intro t ht
  rw [mem_int_range] at ht
  rw [List.filter_filter]
  congr 2
  apply List.filter_congr
  intro m _
  by_cases h : m.smapsmapp_TID = t
  · simp [h, ht.1]
  · simp [h]

/-- The sum of a counter over the mappings of type `t`. -/
theorem type_sum_le_total (ms : List smapsmapp_t) (f : smapsmapp_t → Nat) (t : Int)
    (ht1 : 1 ≤ t) :
    ((ms.filter (fun m => decide (m.smapsmapp_TID = t))).map f).sum
      ≤ ((ms.filter (fun m => decide (1 ≤ m.smapsmapp_TID))).map f).sum := by
  induction ms generalizing t with
  | nil => simp
  | cons m ms ih =>
    rw [List.filter_cons, List.filter_cons]
    by_cases h : m.smapsmapp_TID = t
    · subst h
      simp only [ht1, decide_True, if_true, List.map_cons, List.sum_cons]
      have := ih m.smapsmapp_TID ht1
      omega
    · simp only [h, decide_False, Bool.false_eq_true, if_false]
      by_cases h1 : 1 ≤ m.smapsmapp_TID
      · simp only [h1, decide_True, if_true, List.map_cons, List.sum_cons]
        have := ih t ht1
        omega
      · simp only [h1, decide_False, Bool.false_eq_true, if_false]
        exact ih t ht1

/-- Row `t >= 1` of the group table, summed over all groups. -/
theorem grp_final_sum (az : analyze_t) (he : enumerated az) (t : Int)
    (ht1 : 1 ≤ t) (ht : t < az.ntypes) (c : counter_t) :
    ((int_range 0 az.groups).map
        (fun g => (cell (grp_final az) (flat az.ntypes g t)).field c)).sum % UINT_MOD
      = ((az.mapp_tab.filter (fun m => decide (m.smapsmapp_TID = t))).map
          (fun m => m.smapsmapp_mem.field c)).sum % UINT_MOD ∧
    ((int_range 0 az.groups).map
        (fun g => (cell (grp_final az) (flat az.ntypes g t)).field c)).sum
      ≤ ((az.mapp_tab.filter (fun m => decide (m.smapsmapp_TID = t))).map
          (fun m => m.smapsmapp_mem.field c)).sum := by
  have hb := enumerated_in_bounds az he
  have hg : ∀ g ∈ int_range 0 az.groups,
      (cell (grp_final az) (flat az.ntypes g t)).field c
        = ((az.mapp_tab.filter
            (fun m => decide (m.smapsmapp_EID = g) && decide (m.smapsmapp_TID = t))).map
          (fun m => m.smapsmapp_mem.field c)).sum % UINT_MOD := by
    intro g hg
    have hg1 := (mem_int_range _ _ _).mp hg
    exact grp_final_field az hb g t hg1.1 (by omega) ht c
  have hs := type_sum_split az.mapp_tab (fun m => m.smapsmapp_EID)
    (fun m => m.smapsmapp_mem.field c) (int_range 0 az.groups) (int_range_nodup _ _)
    (fun m hm => (mem_int_range _ _ _).mpr (he.ids m hm).1) t
  rw [List.map_congr_left hg]
  constructor
  · rw [sum_map_mod (int_range 0 az.groups) (fun g => ((az.mapp_tab.filter
        (fun m => decide (m.smapsmapp_EID = g) && decide (m.smapsmapp_TID = t))).map
          (fun m => m.smapsmapp_mem.field c)).sum), hs]
  · rw [← hs]
    exact sum_map_mod_le (int_range 0 az.groups) (fun g => ((az.mapp_tab.filter
        (fun m => decide (m.smapsmapp_EID = g) && decide (m.smapsmapp_TID = t))).map
          (fun m => m.smapsmapp_mem.field c)).sum)

/-- Row `t >= 1` of `sysmax` is the sum over the mappings of type `t`. -/
theorem sysmax_field (az : analyze_t) (he : enumerated az) (t : Int)
    (ht1 : 1 ≤ t) (ht : t < az.ntypes) (c : counter_t) :
    (cell (with_total az (sysmax_rows az)) t.toNat).field c
      = ((az.mapp_tab.filter (fun m => decide (m.smapsmapp_TID = t))).map
          (fun m => m.smapsmapp_mem.field c)).sum % UINT_MOD := by
  rw [with_total_row az (sysmax_rows az) (pertype_length _ _ _ _) t ht1]
  unfold sysmax_rows
  rw [pertype_cell az _ _ _ t (by omega) ht, if_pos ht1,
    field_foldl_sum _ c (fun x y => field_appdata x y c), List.map_map]
  have ha : ∀ a ∈ int_range 0 az.nappls,
      ((fun m : meminfo_t => m.field c) ∘ fun a => cell (app_final az) (flat az.ntypes a t)) a
        = ((az.mapp_tab.filter
            (fun m => decide (m.smapsmapp_AID = a) && decide (m.smapsmapp_TID = t))).map
          (fun m => m.smapsmapp_mem.field c)).sum % UINT_MOD := by
    intro a ha
    have ha1 := (mem_int_range _ _ _).mp ha
    exact app_final_field_mappings az he a t ha1.1 ha1.2 ht1 ht c
  rw [List.map_congr_left ha,
    sum_map_mod (int_range 0 az.nappls) (fun a => ((az.mapp_tab.filter
      (fun m => decide (m.smapsmapp_AID = a) && decide (m.smapsmapp_TID = t))).map
        (fun m => m.smapsmapp_mem.field c)).sum),
    type_sum_split az.mapp_tab (fun m => m.smapsmapp_AID)
      (fun m => m.smapsmapp_mem.field c) (int_range 0 az.nappls) (int_range_nodup _ _)
      (fun m hm => (mem_int_range _ _ _).mpr (he.ids m hm).2.2.1) t]

/-- Row `t >= 1` of `sysest` in terms of the library table. -/
theorem sysest_field (az : analyze_t) (t : Int)
    (ht1 : 1 ≤ t) (ht : t < az.ntypes) (c : counter_t) :
    (cell (with_total az (sysest_rows az)) t.toNat).field c
      = ((int_range 0 az.npaths).map
          (fun l => (cell (lib_final az) (flat az.ntypes l t)).field c)).sum % UINT_MOD := by
  rw [with_total_row az (sysest_rows az) (pertype_length _ _ _ _) t ht1]
  unfold sysest_rows
  rw [pertype_cell az _ _ _ t (by omega) ht, if_pos ht1,
    field_foldl_sum _ c (fun x y => field_appdata x y c), List.map_map]
  rfl

/-- The groups, split by library, add up to all groups. -/
theorem sum_groups_by_lib (az : analyze_t) (hb : in_bounds az) (x : Int → Nat) :
    ((int_range 0 az.npaths).map (fun l => (((int_range 0 az.groups).filter
        (fun g => decide (az.grp_lib.getD g.toNat (-1) = l))).map x).sum)).sum
      = ((int_range 0 az.groups).map x).sum :=
  sum_all_keys (int_range 0 az.groups) (fun g => az.grp_lib.getD g.toNat (-1)) x
    (int_range 0 az.npaths) (int_range_nodup _ _)
    (fun g hg => (mem_int_range _ _ _).mpr
      (hb.2 g ((mem_int_range _ _ _).mp hg).1 ((mem_int_range _ _ _).mp hg).2).2)

/-- Row `t >= 1` of `sysest`: the two private counters are the sum over the
mappings of type `t`, the other four are at most that sum. -/
theorem sysest_field_mappings (az : analyze_t) (he : enumerated az) (t : Int)
    (ht1 : 1 ≤ t) (ht : t < az.ntypes) (c : counter_t) :
    (c.is_private = true →
      (cell (with_total az (sysest_rows az)) t.toNat).field c
        = ((az.mapp_tab.filter (fun m => decide (m.smapsmapp_TID = t))).map
            (fun m => m.smapsmapp_mem.field c)).sum % UINT_MOD) ∧
    (cell (with_total az (sysest_rows az)) t.toNat).field c
      ≤ ((az.mapp_tab.filter (fun m => decide (m.smapsmapp_TID = t))).map
          (fun m => m.smapsmapp_mem.field c)).sum := by
  have hb := enumerated_in_bounds az he
  have hG := grp_final_sum az he t ht1 ht c
  have hL := sum_groups_by_lib az hb
    (fun g => (cell (grp_final az) (flat az.ntypes g t)).field c)
  rw [sysest_field az t ht1 ht c]
  by_cases hc : c.is_private = true
  · have hl : ∀ l ∈ int_range 0 az.npaths,
        (cell (lib_final az) (flat az.ntypes l t)).field c
          = (((int_range 0 az.groups).filter
              (fun g => decide (az.grp_lib.getD g.toNat (-1) = l))).map
            (fun g => (cell (grp_final az) (flat az.ntypes g t)).field c)).sum % UINT_MOD := by
      intro l hl
      have hl1 := (mem_int_range _ _ _).mp hl
      rw [lib_final_field az hb l t hl1.1 hl1.2 ht1 ht c, if_pos hc]
    rw [List.map_congr_left hl,
      sum_map_mod (int_range 0 az.npaths) (fun l => (((int_range 0 az.groups).filter
        (fun g => decide (az.grp_lib.getD g.toNat (-1) = l))).map
          (fun g => (cell (grp_final az) (flat az.ntypes g t)).field c)).sum), hL, hG.1]
    exact ⟨fun _ => rfl, Nat.mod_le _ _⟩
  · refine ⟨fun h => absurd h hc, ?_⟩
    have hl : ∀ l ∈ int_range 0 az.npaths,
        (cell (lib_final az) (flat az.ntypes l t)).field c
          ≤ (((int_range 0 az.groups).filter
              (fun g => decide (az.grp_lib.getD g.toNat (-1) = l))).map
            (fun g => (cell (grp_final az) (flat az.ntypes g t)).field c)).sum := by
      intro l hl
      have hl1 := (mem_int_range _ _ _).mp hl
      rw [lib_final_field az hb l t hl1.1 hl1.2 ht1 ht c, if_neg hc]
      exact max_list_le_sum _
    calc ((int_range 0 az.npaths).map
            (fun l => (cell (lib_final az) (flat az.ntypes l t)).field c)).sum % UINT_MOD
        ≤ ((int_range 0 az.npaths).map
            (fun l => (cell (lib_final az) (flat az.ntypes l t)).field c)).sum := Nat.mod_le _ _
      _ ≤ ((int_range 0 az.npaths).map (fun l => (((int_range 0 az.groups).filter
            (fun g => decide (az.grp_lib.getD g.toNat (-1) = l))).map
              (fun g => (cell (grp_final az) (flat az.ntypes g t)).field c)).sum)).sum :=
          List.sum_le_sum hl
      _ = _ := hL
      _ ≤ _ := hG.2

/-- Row `t >= 1` of `appmax` in terms of the application table. -/
theorem appmax_field (az : analyze_t) (t : Int)
    (ht1 : 1 ≤ t) (ht : t < az.ntypes) (c : counter_t) :
    (cell (with_total az (appmax_rows az)) t.toNat).field c
      = max_list ((int_range 0 az.nappls).map
          (fun a => (cell (app_final az) (flat az.ntypes a t)).field c)) := by
  rw [with_total_row az (appmax_rows az) (pertype_length _ _ _ _) t ht1]
  unfold appmax_rows
  rw [pertype_cell az _ _ _ t (by omega) ht, if_pos ht1,
    field_foldl_max _ c (fun x y => field_maxdata x y c), List.map_map]
  rfl

/-- Row `t >= 1` of an application is at most row `t` of `appmax`. -/
theorem app_le_appmax (az : analyze_t) (a t : Int) (ha0 : 0 ≤ a) (ha : a < az.nappls)
    (ht1 : 1 ≤ t) (ht : t < az.ntypes) (c : counter_t) :
    (cell (app_final az) (flat az.ntypes a t)).field c
      ≤ (cell (with_total az (appmax_rows az)) t.toNat).field c := by
  rw [appmax_field az t ht1 ht c]
  apply le_max_list
  exact List.mem_map.mpr ⟨a, (mem_int_range _ _ _).mpr ⟨ha0, ha⟩, rfl⟩

/-- Row 0 of an application is the sum of its rows `1 ..`. -/
theorem app_final_total (az : analyze_t) (hb : in_bounds az) (hn : 0 < az.ntypes)
    (a : Int) (ha0 : 0 ≤ a) (ha : a < az.nappls) (c : counter_t) :
    (cell (app_final az) (flat az.ntypes a 0)).field c
      = ((int_range 1 az.ntypes).map
          (fun t => (cell (app_final az) (flat az.ntypes a t)).field c)).sum % UINT_MOD := by
  refine final_total az az.nappls (app_rows az) (app_rows_length az hb) ?_ a ha0 ha hn c
  intro a1 ha1
  have := rows_cell az az.grp_app az.nappls accumulate_sum6
    (fun g h0 h1 => (hb.2 g h0 h1).1) a1 0 ha1 (le_refl _) hn
  rw [if_neg (by omega)] at this
  exact this

/-- C35: after `analyze_accumulate_data`, for every application `a` and every
type id `t >= 1`, each of the six counters of `app_mem[a][t]` is at most the
same counter of `appmax[t]`; and for the total row `t = 0` the same holds
whenever the sum of the rows `1 ..` of `appmax` for that counter did not wrap,
that is, stays below `2 ^ 32`. -/
theorem appmax_dominates
    (sort_procs : List smapsproc_t → List smapsproc_t)
    (sort_mapps : List smapsmapp_t → List smapsmapp_t)
    (hsort : ∀ l, (sort_mapps l).Perm l) (snap : smapssnap_t) :
    ∃ az, analyze_snapshot sort_procs sort_mapps snap = some az ∧
      (∀ (a t : Int) (c : counter_t), 0 ≤ a → a < az.nappls → 1 ≤ t → t < az.ntypes →
        (az.app a t).field c ≤ (az.amax t).field c) ∧
      (∀ (a : Int) (c : counter_t), 0 ≤ a → a < az.nappls →
        ((int_range 1 az.ntypes).map (fun t => (az.amax t).field c)).sum < UINT_MOD →
        (az.app a 0).field c ≤ (az.amax 0).field c) := by
  obtain ⟨az0, he, -, h⟩ := analyze_snapshot_eq sort_procs sort_mapps hsort snap
  have hb := enumerated_in_bounds az0 he
  have hn : 0 < az0.ntypes := lt_of_lt_of_le (by decide) he.ntypes_pos
  refine ⟨_, h, ?_, ?_⟩
  · intro a t c ha0 ha ht1 ht
    exact app_le_appmax az0 a t ha0 ha ht1 ht c
  · intro a c ha0 ha hw
    have hw0 : ((int_range 1 az0.ntypes).map
        (fun t => (cell (with_total az0 (appmax_rows az0)) t.toNat).field c)).sum
          < UINT_MOD := hw
    have h0 : (cell (with_total az0 (appmax_rows az0)) (0 : Int).toNat).field c
        = ((int_range 1 az0.ntypes).map
            (fun t => (cell (with_total az0 (appmax_rows az0)) t.toNat).field c)).sum := by
      unfold appmax_rows at hw0 ⊢
      rw [with_total_conservation az0 _ (pertype_length _ _ _ _) (pertype_zero _ _ _ _ hn) c,
        Nat.mod_eq_of_lt hw0]
    show (cell (app_final az0) (flat az0.ntypes a 0)).field c
      ≤ (cell (with_total az0 (appmax_rows az0)) (0 : Int).toNat).field c
    rw [app_final_total az0 hb hn a ha0 ha c, h0]
    refine le_trans (Nat.mod_le _ _) (List.sum_le_sum ?_)
    intro t ht
    have ht1 := (mem_int_range _ _ _).mp ht
    exact app_le_appmax az0 a t ha0 ha ht1.1 ht1.2 c

theorem appmax_dominates_witness :
    (∀ l : List smapsmapp_t, (id l).Perm l) ∧
    (∃ az, analyze_snapshot id id example_snap = some az ∧
      (∀ (a t : Int) (c : counter_t), 0 ≤ a → a < az.nappls → 1 ≤ t → t < az.ntypes →
        (az.app a t).field c ≤ (az.amax t).field c) ∧
      (∀ (a : Int) (c : counter_t), 0 ≤ a → a < az.nappls →
        ((int_range 1 az.ntypes).map (fun t => (az.amax t).field c)).sum < UINT_MOD →
        (az.app a 0).field c ≤ (az.amax 0).field c)) :=
  ⟨fun l => List.Perm.refl l, appmax_dominates id id (fun l => List.Perm.refl l) example_snap⟩

/-- C36: after `analyze_enumerate_data` and `analyze_accumulate_data`, for
every type id `t >= 1` and each of the two private counters (Private_Clean and
Private_Dirty), the counter of `sysest[t]` equals the counter of `sysmax[t]`,
and both are the sum modulo `2 ^ 32` of that counter over all mappings of type
`t`. -/
theorem private_values_accurate
    (sort_procs : List smapsproc_t → List smapsproc_t)
    (sort_mapps : List smapsmapp_t → List smapsmapp_t)
    (hsort : ∀ l, (sort_mapps l).Perm l) (snap : smapssnap_t) :
    ∃ az, analyze_snapshot sort_procs sort_mapps snap = some az ∧
      ∀ (t : Int) (c : counter_t), c.is_private = true → 1 ≤ t → t < az.ntypes →
        (az.est t).field c = (az.smax t).field c ∧
        (az.smax t).field c
          = ((az.mapp_tab.filter (fun m => decide (m.smapsmapp_TID = t))).map
              (fun m => m.smapsmapp_mem.field c)).sum % UINT_MOD := by
  obtain ⟨az0, he, -, h⟩ := analyze_snapshot_eq sort_procs sort_mapps hsort snap
  refine ⟨_, h, ?_⟩
  intro t c hc ht1 ht
  have h1 := (sysest_field_mappings az0 he t ht1 ht c).1 hc
  have h2 := sysmax_field az0 he t ht1 ht c
  exact ⟨h1.trans h2.symm, h2⟩

theorem private_values_accurate_witness :
    (∀ l : List smapsmapp_t, (id l).Perm l) ∧
    (∃ az, analyze_snapshot id id example_snap = some az ∧
      ∀ (t : Int) (c : counter_t), c.is_private = true → 1 ≤ t → t < az.ntypes →
        (az.est t).field c = (az.smax t).field c ∧
        (az.smax t).field c
          = ((az.mapp_tab.filter (fun m => decide (m.smapsmapp_TID = t))).map
              (fun m => m.smapsmapp_mem.field c)).sum % UINT_MOD) :=
  ⟨fun l => List.Perm.refl l,
    private_values_accurate id id (fun l => List.Perm.refl l) example_snap⟩

/-- C37: after `analyze_accumulate_data`, for each of the counters Size, Rss,
Shared_Clean and Shared_Dirty: provided the counter summed over all mappings
of a type id `>= 1` stays below `2 ^ 32` (so that none of the 32-bit sums of
that counter wrapped), the counter of `sysest[t]` is at most the counter of
`sysmax[t]` for every type id `t`, the total row `t = 0` included. -/
theorem sysest_le_sysmax
    (sort_procs : List smapsproc_t → List smapsproc_t)
    (sort_mapps : List smapsmapp_t → List smapsmapp_t)
    (hsort : ∀ l, (sort_mapps l).Perm l) (snap : smapssnap_t) :
    ∃ az, analyze_snapshot sort_procs sort_mapps snap = some az ∧
      ∀ c : counter_t, c.is_private = false →
        ((az.mapp_tab.filter (fun m => decide (1 ≤ m.smapsmapp_TID))).map
          (fun m => m.smapsmapp_mem.field c)).sum < UINT_MOD →
        ∀ t : Int, 0 ≤ t → t < az.ntypes → (az.est t).field c ≤ (az.smax t).field c := by
  obtain ⟨az0, he, -, h⟩ := analyze_snapshot_eq sort_procs sort_mapps hsort snap
  have hn : 0 < az0.ntypes := lt_of_lt_of_le (by decide) he.ntypes_pos
  refine ⟨_, h, ?_⟩
  intro c _ hw t ht0 ht
  have hw0 : ((az0.mapp_tab.filter (fun m => decide (1 ≤ m.smapsmapp_TID))).map
      (fun m => m.smapsmapp_mem.field c)).sum < UINT_MOD := hw
  have hrow : ∀ t : Int, 1 ≤ t → t < az0.ntypes →
      (cell (with_total az0 (sysest_rows az0)) t.toNat).field c
        ≤ ((az0.mapp_tab.filter (fun m => decide (m.smapsmapp_TID = t))).map
            (fun m => m.smapsmapp_mem.field c)).sum ∧
      (cell (with_total az0 (sysmax_rows az0)) t.toNat).field c
        = ((az0.mapp_tab.filter (fun m => decide (m.smapsmapp_TID = t))).map
            (fun m => m.smapsmapp_mem.field c)).sum := by
    intro t ht1 ht
    refine ⟨(sysest_field_mappings az0 he t ht1 ht c).2, ?_⟩
    rw [sysmax_field az0 he t ht1 ht c]
    exact Nat.mod_eq_of_lt (lt_of_le_of_lt
      (type_sum_le_total az0.mapp_tab (fun m => m.smapsmapp_mem.field c) t ht1) hw0)
  show (cell (with_total az0 (sysest_rows az0)) t.toNat).field c
    ≤ (cell (with_total az0 (sysmax_rows az0)) t.toNat).field c
  by_cases ht1 : 1 ≤ t
  · rw [(hrow t ht1 ht).2]
    exact (hrow t ht1 ht).1
  · have ht00 : t = 0 := by omega
    subst ht00
    have hmax : ∀ t ∈ int_range 1 az0.ntypes,
        (cell (with_total az0 (sysmax_rows az0)) t.toNat).field c
          = ((az0.mapp_tab.filter (fun m => decide (m.smapsmapp_TID = t))).map
              (fun m => m.smapsmapp_mem.field c)).sum := by
      intro t ht
      have ht1 := (mem_int_range _ _ _).mp ht
      exact (hrow t ht1.1 ht1.2).2
    have hest : ∀ t ∈ int_range 1 az0.ntypes,
        (cell (with_total az0 (sysest_rows az0)) t.toNat).field c
          ≤ ((az0.mapp_tab.filter (fun m => decide (m.smapsmapp_TID = t))).map
              (fun m => m.smapsmapp_mem.field c)).sum := by
      intro t ht
      have ht1 := (mem_int_range _ _ _).mp ht
      exact (hrow t ht1.1 ht1.2).1
    have htot := type_sum_total az0.mapp_tab (fun m => m.smapsmapp_mem.field c) az0.ntypes
      (fun m hm => (he.ids m hm).2.1.2)
    have he0 : (cell (with_total az0 (sysest_rows az0)) (0 : Int).toNat).field c
        = ((int_range 1 az0.ntypes).map
            (fun t => (cell (with_total az0 (sysest_rows az0)) t.toNat).field c)).sum
              % UINT_MOD := by
      unfold sysest_rows
      exact with_total_conservation az0 _ (pertype_length _ _ _ _)
        (pertype_zero _ _ _ _ hn) c
    have hm0 : (cell (with_total az0 (sysmax_rows az0)) (0 : Int).toNat).field c
        = ((int_range 1 az0.ntypes).map
            (fun t => (cell (with_total az0 (sysmax_rows az0)) t.toNat).field c)).sum
              % UINT_MOD := by
      unfold sysmax_rows
      exact with_total_conservation az0 _ (pertype_length _ _ _ _)
        (pertype_zero _ _ _ _ hn) c
    rw [he0, hm0, List.map_congr_left hmax, htot, Nat.mod_eq_of_lt hw0, ← htot]
    exact le_trans (Nat.mod_le _ _) (List.sum_le_sum hest)

theorem sysest_le_sysmax_witness :
    (∀ l : List smapsmapp_t, (id l).Perm l) ∧
    (∃ az, analyze_snapshot id id example_snap = some az ∧
      ∀ c : counter_t, c.is_private = false →
        ((az.mapp_tab.filter (fun m => decide (1 ≤ m.smapsmapp_TID))).map
          (fun m => m.smapsmapp_mem.field c)).sum < UINT_MOD →
        ∀ t : Int, 0 ≤ t → t < az.ntypes → (az.est t).field c ≤ (az.smax t).field c) :=
  ⟨fun l => List.Perm.refl l, sysest_le_sysmax id id (fun l => List.Perm.refl l) example_snap⟩

/-! ## Totals of the diff table -/

theorem sum_ite_key {κ : Type} [DecidableEq κ] (K : List κ) (hK : K.Nodup) (x : κ)
    (hx : x ∈ K) (v : Nat) :
    (K.map (fun g => if x = g then v else 0)).sum = v := by
  induction K with
  | nil => simp at hx
  | cons a K ih =>
    rw [List.nodup_cons] at hK
    have hzero : ∀ (L : List κ), x ∉ L → (L.map (fun g => if x = g then v else 0)).sum = 0 := by
      intro L hL
      induction L with
      | nil => rfl
      | cons b L ihL =>
        simp only [List.map_cons, List.sum_cons]
        have hne : ¬ x = b := fun h => hL (by rw [h]; exact List.mem_cons_self _ _)
        rw [ihL (fun h => hL (List.mem_cons_of_mem _ h)), if_neg hne]
    rw [List.map_cons, List.sum_cons]
    by_cases hxa : x = a
    · subst hxa
      rw [if_pos rfl, hzero K hK.1, Nat.add_zero]
    · rcases List.mem_cons.mp hx with h | h
      · exact absurd h hxa
      · rw [if_neg hxa, Nat.zero_add, ih hK.2 h]

/-- Summing key by key over a duplicate-free list of keys that covers all
elements is summing over all elements. -/
theorem sum_over_keys {α κ : Type} [DecidableEq κ] (ms : List α) (k : α → κ) (f : α → Nat)
    (K : List κ) (hK : K.Nodup) (hk : ∀ m ∈ ms, k m ∈ K) :
    (K.map (fun g => ((ms.filter (fun m => decide (k m = g))).map f).sum)).sum
      = (ms.map f).sum := by
  induction ms with
  | nil => simp
  | cons m ms ih =>
    have hsplit : ∀ g, (((m :: ms).filter (fun m => decide (k m = g))).map f).sum
        = (if k m = g then f m else 0) + ((ms.filter (fun m => decide (k m = g))).map f).sum := by
      intro g
      rw [List.filter_cons]
      by_cases h : k m = g
      · simp [h]
      · simp [h]
    simp only [hsplit]
    rw [List.sum_map_add, ih (fun x hx => hk x (List.mem_cons_of_mem _ hx)),
      sum_ite_key K hK (k m) (hk m (List.mem_cons_self _ _)) (f m), List.map_cons,
      List.sum_cons]

/-- The items of snapshot `i` are its mappings. -/
theorem diff_items_snap (snaps : List smapssnap_t) (j : Int) (i : Nat) (snap : smapssnap_t)
    (h : snaps[i]? = some snap) :
    ((diff_items snaps j).filter (fun x => decide (x.2 = j + (i : Int)))).map (fun x => x.1)
      = snap_mapps snap := by
  induction snaps generalizing j i with
  | nil => simp at h
  | cons s rest ih =>
    unfold diff_items
    rw [List.filter_append, List.map_append]
    cases i with
    | zero =>
      simp only [List.getElem?_cons_zero, Option.some.injEq] at h
      subst h
      have h1 : ((snap_mapps s).map (fun m => (m, j))).filter
          (fun x => decide (x.2 = j + ((0 : Nat) : Int)))
            = (snap_mapps s).map (fun m => (m, j)) := by
        rw [List.filter_eq_self]
        intro x hx
        obtain ⟨m, -, rfl⟩ := List.mem_map.mp hx
        simp
      have h2 : (diff_items rest (j + 1)).filter
          (fun x => decide (x.2 = j + ((0 : Nat) : Int))) = [] := by
        rw [List.filter_eq_nil_iff]
        intro x hx
        have := (diff_items_cap rest (j + 1) x hx).1
        simp only [decide_eq_true_eq]
        push_cast
        omega
      show (List.filter _ ((snap_mapps s).map (fun m => (m, j)))).map _ ++ _ = _
      rw [h1, h2, List.map_map, List.map_nil, List.append_nil]
      exact List.map_id _
    | succ i =>
      simp only [List.getElem?_cons_succ] at h
      have h1 : ((snap_mapps s).map (fun m => (m, j))).filter
          (fun x => decide (x.2 = j + ((i + 1 : Nat) : Int))) = [] := by
        rw [List.filter_eq_nil_iff]
        intro x hx
        obtain ⟨m, -, rfl⟩ := List.mem_map.mp hx
        simp only [decide_eq_true_eq]
        push_cast
        omega
      have h2 : (diff_items rest (j + 1)).filter
          (fun x => decide (x.2 = j + ((i + 1 : Nat) : Int)))
            = (diff_items rest (j + 1)).filter
          (fun x => decide (x.2 = j + 1 + (i : Int))) := by
        apply List.filter_congr
        intro x _
        have : (x.2 = j + ((i + 1 : Nat) : Int)) ↔ (x.2 = j + 1 + (i : Int)) := by
          push_cast
          omega
        simp only [this]
      show (List.filter _ ((snap_mapps s).map (fun m => (m, j)))).map _ ++ _ = _
      rw [h1, h2, ih (j + 1) i h]
      rfl

/-- The slots `i` of all groups add up to the total over the mappings of
snapshot `i`. -/
theorem diff_slot_sum (d n : Int) (items : List (smapsmapp_t × Int)) (tab : List diffkey_t)
    (hinv : diff_inv d n items tab) (f : smapsmapp_t → Nat) (i : Int) :
    (tab.map (fun e => fsum f d n items (ktup e) i)).sum
      = ((items.filter (fun x => decide (x.2 = i))).map (fun x => f x.1)).sum := by
  obtain ⟨hT, hS, -, -, hK⟩ := hinv
  have hnd := (tab_sorted_pairwise n tab hT hS).2
  have h := sum_over_keys (items.filter (fun x => decide (x.2 = i)))
    (fun x => ktup (masked_key d n x.1)) (fun x => f x.1) (tab.map ktup) hnd
    (fun x hx => by
      obtain ⟨e, he, hk⟩ := (hK _).mpr ⟨x, List.mem_of_mem_filter hx, rfl⟩
      exact List.mem_map.mpr ⟨e, he, hk⟩)
  rw [← h, List.map_map]
  congr 1
  apply List.map_congr_left
  intro e _
  unfold fsum
  simp only [Function.comp]
  rw [List.filter_filter]

/-- The three totals of slot `i` of the diff table. -/
theorem diff_slot_totals (d : Int) (snaps : List smapssnap_t) (tab : List diffkey_t)
    (hinv : diff_inv d snaps.length (diff_items snaps 0) tab)
    (i : Nat) (snap : smapssnap_t) (h : snaps[i]? = some snap) :
    slot_total (fun v => v.pri) tab i
      = ((((snap_mapps snap).map (fun m => m.smapsmapp_mem.Private_Dirty)).sum : Nat) : ℚ) ∧
    slot_total (fun v => v.sha) tab i
      = ((((snap_mapps snap).map (fun m => m.smapsmapp_mem.Shared_Dirty)).sum : Nat) : ℚ) ∧
    slot_total (fun v => v.cln) tab i
      = ((((snap_mapps snap).map clean_of).sum : Nat) : ℚ) := by
  have hi : i < snaps.length := by
    rcases Nat.lt_or_ge i snaps.length with h1 | h1
    · exact h1
    · rw [List.getElem?_eq_none h1] at h
      exact absurd h (by simp)
  have hV := hinv.2.2.2.1
  have hitems : ∀ f : smapsmapp_t → Nat,
      (((diff_items snaps 0).filter (fun x => decide (x.2 = (i : Int)))).map
        (fun x => f x.1)).sum = ((snap_mapps snap).map f).sum := by
    intro f
    have := diff_items_snap snaps 0 i snap h
    rw [Int.zero_add] at this
    rw [← this, List.map_map]
    rfl
  have hslot : ∀ (g : diffval_t → ℚ) (f : smapsmapp_t → Nat),
      (∀ K, g (slot_sum d snaps.length (diff_items snaps 0) K i)
        = (fsum f d snaps.length (diff_items snaps 0) K i : ℚ)) →
      slot_total g tab i = ((((snap_mapps snap).map f).sum : Nat) : ℚ) := by
    intro g f hg
    unfold slot_total
    rw [← hitems f, ← diff_slot_sum d snaps.length (diff_items snaps 0) tab hinv f i,
      Nat.cast_list_sum, List.map_map]
    congr 1
    apply List.map_congr_left
    intro e he
    have := hV e he i (by exact_mod_cast hi)
    rw [List.getD_eq_getElem?_getD, this]
    exact hg (ktup e)
  exact ⟨hslot _ _ (fun _ => rfl), hslot _ _ (fun _ => rfl), hslot _ _ (fun _ => rfl)⟩

/-- C39 (counterexample): a snapshot whose only mapping has
`Shared_Clean = Private_Clean = 2 ^ 31`, diffed at depth 0: the clean pages of
its mappings sum to `2 ^ 32`, but the slots 0 of the groups of the table have
the `cln` total 0, since the sum of the two counters of a mapping is formed in
`unsigned` before it is converted to `double`. -/
theorem diff_total_clean_wraps :
    ∃ tab snap, diff_accumulate fp_exact wrap_snaps 0 = some tab ∧
      wrap_snaps[0]? = some snap ∧
      slot_total (fun v => v.cln) tab 0 = 0 ∧
      ((snap_mapps snap).map
        (fun m => m.smapsmapp_mem.Shared_Clean + m.smapsmapp_mem.Private_Clean)).sum
        = 4294967296 := by
  have hids : ∀ x ∈ diff_items wrap_snaps 0, mapp_ids_ok x.1 := by
    intro x hx
    simp only [diff_items, wrap_snaps, List.map_cons, List.map_nil, List.flatten_cons,
      List.flatten_nil, List.append_nil, List.mem_singleton] at hx
    subst hx
    unfold mapp_ids_ok INT_MAX
    decide
  obtain ⟨tab, h1, hinv⟩ := diff_accumulate_spec fp_exact add_exact_fp_exact
    wrap_snaps 0 (by decide) hids (by decide) (by decide)
  refine ⟨tab, _, h1, rfl, ?_, by decide⟩
  rw [(diff_slot_totals 0 wrap_snaps tab hinv 0 _ rfl).2.2]
  have h0 : ((snap_mapps wrap_snaps[0]).map clean_of).sum = 0 := by decide
  rw [h0]
  rfl

/-- C39 (amended): after the accumulation section of `smapsfilt_diff` at any
depth `d >= 0`, for every snapshot index `i` the sum over all groups of the
table of slot `i` is, for `pri`, the sum of Private_Dirty over all mappings of
snapshot `i`, for `sha` the sum of Shared_Dirty, and for `cln` the sum of
`(Shared_Clean + Private_Clean) mod 2 ^ 32`: no mapping is lost or counted
twice, whatever the depth.  The ids are ids or `-1`, there are fewer than
`2 ^ 30` mappings, and the measures sum to less than `2 ^ 53`, the range in
which `double` addition is exact. -/
theorem diff_totals_depth_independent (fp : fp_ops) (hadd : add_exact fp)
    (snaps : List smapssnap_t) (d : Int) (hd : 0 ≤ d)
    (hids : ∀ x ∈ diff_items snaps 0, mapp_ids_ok x.1)
    (hsum : ((diff_items snaps 0).map (fun y => diff_weight y.1)).sum < 2 ^ 53)
    (hlen : 2 * ((diff_items snaps 0).length : Int) ≤ INT_MAX) :
    ∃ tab, diff_accumulate fp snaps d = some tab ∧
      ∀ (i : Nat) (snap : smapssnap_t), snaps[i]? = some snap →
        slot_total (fun v => v.pri) tab i
          = ((((snap_mapps snap).map
              (fun m => m.smapsmapp_mem.Private_Dirty)).sum : Nat) : ℚ) ∧
        slot_total (fun v => v.sha) tab i
          = ((((snap_mapps snap).map
              (fun m => m.smapsmapp_mem.Shared_Dirty)).sum : Nat) : ℚ) ∧
        slot_total (fun v => v.cln) tab i
          = ((((snap_mapps snap).map
              (fun m => (m.smapsmapp_mem.Shared_Clean + m.smapsmapp_mem.Private_Clean)
                % UINT_MOD)).sum : Nat) : ℚ) := by
  obtain ⟨tab, h1, hinv⟩ := diff_accumulate_spec fp hadd snaps d hd hids hsum hlen
  exact ⟨tab, h1, fun i snap h => diff_slot_totals d snaps tab hinv i snap h⟩

theorem diff_totals_depth_independent_witness :
    (add_exact fp_exact ∧ (0 : Int) ≤ 3 ∧ (∀ x ∈ diff_items example_snaps 0, mapp_ids_ok x.1) ∧
      ((diff_items example_snaps 0).map (fun y => diff_weight y.1)).sum < 2 ^ 53 ∧
      2 * ((diff_items example_snaps 0).length : Int) ≤ INT_MAX) ∧
    ∃ tab, diff_accumulate fp_exact example_snaps 3 = some tab ∧
      ∀ (i : Nat) (snap : smapssnap_t), example_snaps[i]? = some snap →
        slot_total (fun v => v.pri) tab i
          = ((((snap_mapps snap).map
              (fun m => m.smapsmapp_mem.Private_Dirty)).sum : Nat) : ℚ) ∧
        slot_total (fun v => v.sha) tab i
          = ((((snap_mapps snap).map
              (fun m => m.smapsmapp_mem.Shared_Dirty)).sum : Nat) : ℚ) ∧
        slot_total (fun v => v.cln) tab i
          = ((((snap_mapps snap).map
              (fun m => (m.smapsmapp_mem.Shared_Clean + m.smapsmapp_mem.Private_Clean)
                % UINT_MOD)).sum : Nat) : ℚ) :=
  ⟨⟨add_exact_fp_exact, by decide, example_snaps_ids, by decide, by decide⟩,
    diff_totals_depth_independent fp_exact add_exact_fp_exact example_snaps 3 (by decide)
      example_snaps_ids (by decide) (by decide)⟩

/-! ## Diff of two identical snapshots -/

theorem fp_laws_fp_exact : fp_laws fp_exact := by
  refine ⟨add_exact_fp_exact, ?_, ?_, ?_, ?_⟩
  · intro a _
    simp only [fp_exact]
    push_cast
    ring
  · intro a _
    simp [fp_exact]
  · simp [fp_exact]
  · simp only [fp_exact]
    have h0 : nat_sqrt (0 : ℚ).num.toNat = 0 := by decide
    rw [h0]
    simp

theorem pop_stddev_pair (fp : fp_ops) (h : fp_laws fp) (a : Nat) (ha : a + a < 2 ^ 53) :
    pop_stddev fp [(a : ℚ), (a : ℚ)] = 0 := by
  obtain ⟨hadd, hdiv, hsub, hmul, hsqrt⟩ := h
  have h0a : fp.add 0 (a : ℚ) = (a : ℚ) := by
    have := hadd 0 a (by omega)
    simpa using this
  have haa : fp.add (a : ℚ) (a : ℚ) = ((a + a : Nat) : ℚ) := hadd a a ha
  have h00 : fp.add 0 0 = 0 := by
    have := hadd 0 0 (by norm_num)
    simpa using this
  have hd0 : fp.div 0 2 = 0 := by
    have := hdiv 0 (by norm_num)
    simpa using this
  have hs : fp.sub (a : ℚ) (a : ℚ) = 0 := hsub a (by omega)
  unfold pop_stddev
  simp only [List.foldl_cons, List.foldl_nil, List.length_cons, List.length_nil, pow2]
  have h2 : (((0 + 1 + 1 : Nat) : ℚ)) = 2 := by norm_num
  rw [h2, h0a, haa, hdiv a ha, hs, hmul, h00, h00, hd0, hsqrt]

theorem double_to_unsigned_zero : double_to_unsigned 0 = some 0 := by
  unfold double_to_unsigned
  rw [if_pos (by unfold UINT_MOD; norm_num)]
  simp

/-- A group whose two slots hold the same triple of natural numbers has the
rank 0 and the deviations 0. -/
theorem diffkey_rank_pair (fp : fp_ops) (h : fp_laws fp) (e : diffkey_t) (a b c : Nat)
    (hc : e.cnt = 2)
    (hv : e.val = [{ pri := (a : ℚ), sha := (b : ℚ), cln := (c : ℚ) },
                   { pri := (a : ℚ), sha := (b : ℚ), cln := (c : ℚ) }])
    (ha : a + a < 2 ^ 53) (hb : b + b < 2 ^ 53) (hcc : c + c < 2 ^ 53) :
    diffkey_rank fp e = some (0, { pri := 0, sha := 0, cln := 0 }) := by
  rw [diffkey_rank_eq fp e (by omega) (by rw [hv, hc]; rfl), hv]
  simp only [List.map_cons, List.map_nil]
  rw [pop_stddev_pair fp h a ha, pop_stddev_pair fp h b hb, pop_stddev_pair fp h c hcc,
    double_to_unsigned_zero]
  simp [fmax3]

theorem filter_sum_le {α : Type} (l : List α) (P : α → Bool) (f g : α → Nat)
    (hfg : ∀ m, f m ≤ g m) : ((l.filter P).map f).sum ≤ (l.map g).sum := by
  induction l with
  | nil => simp
  | cons m l ih =>
    rw [List.filter_cons]
    have := hfg m
    by_cases hp : P m = true
    · simp only [hp, if_true, List.map_cons, List.sum_cons]
      omega
    · simp only [hp, Bool.false_eq_true, if_false, List.map_cons, List.sum_cons]
      omega

/-- The sum that a slot holds, in terms of the mappings of its snapshot. -/
theorem fsum_snap (snaps : List smapssnap_t) (i : Nat) (snap : smapssnap_t)
    (h : snaps[i]? = some snap) (f : smapsmapp_t → Nat) (d n : Int)
    (K : Int × Int × Int × Int) :
    fsum f d n (diff_items snaps 0) K i
      = (((snap_mapps snap).filter (fun m => decide (ktup (masked_key d n m) = K))).map f).sum := by
  have h1 := diff_items_snap snaps 0 i snap h
  rw [Int.zero_add] at h1
  unfold fsum
  rw [← h1, ← List.filter_filter, List.filter_map, List.map_map]
  rfl

theorem diff_items_twice (S : smapssnap_t) :
    diff_items [S, S] 0
      = (snap_mapps S).map (fun m => (m, 0)) ++ (snap_mapps S).map (fun m => (m, 0 + 1)) := by
  simp [diff_items, snap_mapps]

/-- Two identical snapshots: the table of the accumulation section holds, in
both slots of every group, the same triple of natural numbers. -/
theorem diff_twin_slots (fp : fp_ops) (hadd : add_exact fp) (S : smapssnap_t) (d : Int)
    (hd : 0 ≤ d) (hids2 : ∀ x ∈ diff_items [S, S] 0, mapp_ids_ok x.1)
    (hsum2 : ((diff_items [S, S] 0).map (fun y => diff_weight y.1)).sum < 2 ^ 53)
    (hlen2 : 2 * ((diff_items [S, S] 0).length : Int) ≤ INT_MAX) :
    ∃ tab, diff_accumulate fp [S, S] d = some tab ∧
      ∀ e ∈ tab, e.cnt = 2 ∧ ∃ a b c : Nat,
        a + a < 2 ^ 53 ∧ b + b < 2 ^ 53 ∧ c + c < 2 ^ 53 ∧
        e.val = [{ pri := (a : ℚ), sha := (b : ℚ), cln := (c : ℚ) },
                 { pri := (a : ℚ), sha := (b : ℚ), cln := (c : ℚ) }] := by
  have hsum : 2 * ((snap_mapps S).map diff_weight).sum < 2 ^ 53 := by
    have h := hsum2
    rw [diff_items_twice, List.map_append, List.sum_append, List.map_map, List.map_map] at h
    have e1 : ((snap_mapps S).map ((fun y : smapsmapp_t × Int => diff_weight y.1) ∘
        fun m => (m, (0 : Int)))) = (snap_mapps S).map diff_weight := rfl
    have e2 : ((snap_mapps S).map ((fun y : smapsmapp_t × Int => diff_weight y.1) ∘
        fun m => (m, (0 : Int) + 1))) = (snap_mapps S).map diff_weight := rfl
    rw [e1, e2] at h
    omega
  obtain ⟨tab, h1, hinv⟩ := diff_accumulate_spec fp hadd [S, S] d hd hids2 hsum2 hlen2
  refine ⟨tab, h1, ?_⟩
  intro e he
  obtain ⟨hT, -, -, hV, -⟩ := hinv
  obtain ⟨-, hcnt, hl⟩ := hT e he
  have hcnt2 : e.cnt = 2 := hcnt
  have hl2 : e.val.length = 2 := by rw [hl]; rfl
  have hv0 := hV e he 0 (by simp)
  have hv1 := hV e he 1 (by simp)
  have hf : ∀ (f : smapsmapp_t → Nat) (i : Nat), i < 2 →
      fsum f d (([S, S] : List smapssnap_t).length : Int) (diff_items [S, S] 0) (ktup e) i
        = (((snap_mapps S).filter
            (fun m => decide (ktup (masked_key d (([S, S] : List smapssnap_t).length : Int) m)
              = ktup e))).map f).sum := by
    intro f i hi
    apply fsum_snap [S, S] i S
    rcases i with _ | _ | i
    · rfl
    · rfl
    · omega
  have hb : ∀ (f : smapsmapp_t → Nat), (∀ m, f m ≤ diff_weight m) →
      (((snap_mapps S).filter
          (fun m => decide (ktup (masked_key d (([S, S] : List smapssnap_t).length : Int) m)
            = ktup e))).map f).sum
        + (((snap_mapps S).filter
          (fun m => decide (ktup (masked_key d (([S, S] : List smapssnap_t).length : Int) m)
            = ktup e))).map f).sum < 2 ^ 53 := by
    intro f hfw
    have := filter_sum_le (snap_mapps S)
      (fun m => decide (ktup (masked_key d (([S, S] : List smapssnap_t).length : Int) m)
        = ktup e)) f diff_weight hfw
    omega
  refine ⟨hcnt2, _, _, _,
    hb (fun m => m.smapsmapp_mem.Private_Dirty)
      (fun m => by show m.smapsmapp_mem.Private_Dirty ≤ _; unfold diff_weight; omega),
    hb (fun m => m.smapsmapp_mem.Shared_Dirty)
      (fun m => by show m.smapsmapp_mem.Shared_Dirty ≤ _; unfold diff_weight; omega),
    hb clean_of (fun m => by unfold diff_weight; omega), ?_⟩
  unfold slot_sum at hv0 hv1
  rw [hf _ 0 (by decide), hf _ 0 (by decide), hf _ 0 (by decide)] at hv0
  rw [hf _ 1 (by decide), hf _ 1 (by decide), hf _ 1 (by decide)] at hv1
  apply List.ext_getElem?
  intro i
  rcases i with _ | _ | i
  · exact hv0
  · exact hv1
  · rw [List.getElem?_eq_none (by rw [hl2]; omega)]
    rfl

theorem twin_enumerate :
    (diff_enumerate id id [scenario_snap 10, scenario_snap 10]).2
      = [scenario_enum 10, scenario_enum 10] := by
  decide

theorem twin_ids :
    ∀ x ∈ diff_items (diff_enumerate id id [scenario_snap 10, scenario_snap 10]).2 0,
      mapp_ids_ok x.1 := by
  rw [twin_enumerate]
  intro x hx
  simp only [diff_items, scenario_enum, List.map_cons, List.map_nil, List.flatten_cons,
    List.flatten_nil, List.append_nil, List.singleton_append, List.mem_cons,
    List.mem_singleton, List.not_mem_nil, or_false] at hx
  rcases hx with rfl | rfl <;> (unfold mapp_ids_ok INT_MAX; decide)

/-- C13: diff symmetry.  For every snapshot `S` and every grouping depth
`d >= 0`, `smapsfilt_diff` on the list `[S, S]` emits no row: the enumeration
pass gives both snapshots the same ids, the accumulation section produces a
table in which the two slots of every group hold equal triples, and
`diffkey_rank` returns the rank 0 and the three deviations 0 for every group.
The arithmetic on `double` is exact in the cases listed in `fp_laws`; the ids
of the enumeration are below `INT_MAX`, there are fewer than `2 ^ 30`
mappings, and the measures of the two snapshots sum to less than `2 ^ 53`. -/
theorem diff_identical_snapshots (fp : fp_ops) (hfp : fp_laws fp) (fmt : fmt_ops)
    (symtab_renum : symtab_t → symtab_t) (sort_app_pid : List smapsproc_t → List smapsproc_t)
    (S : smapssnap_t) (d : Int) (hd : 0 ≤ d)
    (hids : ∀ x ∈ diff_items (diff_enumerate symtab_renum sort_app_pid [S, S]).2 0,
      mapp_ids_ok x.1)
    (hsum : ((diff_items (diff_enumerate symtab_renum sort_app_pid [S, S]).2 0).map
      (fun y => diff_weight y.1)).sum < 2 ^ 53)
    (hlen : 2 * ((diff_items (diff_enumerate symtab_renum sort_app_pid [S, S]).2 0).length : Int)
      ≤ INT_MAX)
    (html_diff : Bool) (trim_cols : Int) :
    (∃ E, (diff_enumerate symtab_renum sort_app_pid [S, S]).2 = [E, E]) ∧
    (∃ tab, diff_accumulate fp (diff_enumerate symtab_renum sort_app_pid [S, S]).2 d = some tab ∧
      ∀ e ∈ tab, e.val.length = 2 ∧ e.val[0]? = e.val[1]? ∧
        diffkey_rank fp e = some (0, { pri := 0, sha := 0, cln := 0 })) ∧
    smapsfilt_diff fp fmt symtab_renum sort_app_pid [S, S] d html_diff trim_cols = some [] := by
  have hE := (diff_enumerate_eq symtab_renum sort_app_pid [S, S]).1
  simp only [List.map_cons, List.map_nil] at hE
  rw [hE] at hids hsum hlen
  obtain ⟨tab, h1, h2⟩ := diff_twin_slots fp hfp.1 _ d hd hids hsum hlen
  have hrank : ∀ e ∈ tab, diffkey_rank fp e = some (0, { pri := 0, sha := 0, cln := 0 }) := by
    intro e he
    obtain ⟨hc, a, b, c, ha, hb, hcc, hv⟩ := h2 e he
    exact diffkey_rank_pair fp hfp e a b c hc hv ha hb hcc
  have hemit : ∀ str, diff_emit fp fmt str tab = some [] := by
    intro str
    unfold diff_emit
    have hstep : ∀ (l : List diffkey_t), (∀ e ∈ l, e ∈ tab) →
        ∀ out, l.foldlM (diff_emit_group fp fmt str 4) out = some out := by
      intro l
      induction l with
      | nil => intro _ out; rfl
      | cons e l ih =>
        intro hl out
        have he : diff_emit_group fp fmt str 4 out e = some out := by
          unfold diff_emit_group
          rw [hrank e (hl e (List.mem_cons_self _ _))]
          simp
        rw [List.foldlM_cons, he]
        exact ih (fun x hx => hl x (List.mem_cons_of_mem _ hx)) out
    exact hstep tab (fun _ h => h) []
  refine ⟨⟨_, hE⟩, ?_, ?_⟩
  · rw [hE]
    refine ⟨tab, h1, ?_⟩
    intro e he
    obtain ⟨-, a, b, c, -, -, -, hv⟩ := h2 e he
    exact ⟨by rw [hv]; rfl, by rw [hv]; rfl, hrank e he⟩
  · unfold smapsfilt_diff
    rw [hE, h1]
    simp only
    rw [hemit]
    simp [diff_trim, diff_emit_table]

theorem diff_identical_snapshots_witness :
    (fp_laws fp_exact ∧ (0 : Int) ≤ 3 ∧
      (∀ x ∈ diff_items (diff_enumerate id id [scenario_snap 10, scenario_snap 10]).2 0,
        mapp_ids_ok x.1) ∧
      ((diff_items (diff_enumerate id id [scenario_snap 10, scenario_snap 10]).2 0).map
        (fun y => diff_weight y.1)).sum < 2 ^ 53 ∧
      2 * ((diff_items (diff_enumerate id id [scenario_snap 10, scenario_snap 10]).2 0).length
        : Int) ≤ INT_MAX) ∧
    ((∃ E, (diff_enumerate id id [scenario_snap 10, scenario_snap 10]).2 = [E, E]) ∧
    (∃ tab, diff_accumulate fp_exact
        (diff_enumerate id id [scenario_snap 10, scenario_snap 10]).2 3 = some tab ∧
      ∀ e ∈ tab, e.val.length = 2 ∧ e.val[0]? = e.val[1]? ∧
        diffkey_rank fp_exact e = some (0, { pri := 0, sha := 0, cln := 0 })) ∧
    smapsfilt_diff fp_exact fmt_example id id [scenario_snap 10, scenario_snap 10] 3 false 0
      = some []) :=
  ⟨⟨fp_laws_fp_exact, by decide, twin_ids, by decide, by decide⟩,
    diff_identical_snapshots fp_exact fp_laws_fp_exact fmt_example id id (scenario_snap 10) 3
      (by decide) twin_ids (by decide) (by decide) false 0⟩

/-! ## The text that `smapssnap_save_cap` writes, line by line -/

theorem unlines_append (a b : List (List Char)) : unlines (a ++ b) = unlines a ++ unlines b := by
  simp [unlines]

theorem unlines_nil : unlines [] = [] := rfl

theorem unlines_cons (l : List Char) (ls : List (List Char)) :
    unlines (l :: ls) = l ++ '\n' :: unlines ls := by
  simp [unlines]

theorem unlines_flatten (L : List (List (List Char))) :
    unlines L.flatten = (L.map unlines).flatten := by
  induction L with
  | nil => rfl
  | cons a L ih => rw [List.flatten_cons, unlines_append, ih, List.map_cons, List.flatten_cons]

theorem save_cap_counter_eq (name : String) (v : Nat) :
    save_cap_counter name v = counter_line name v ++ ['\n'] := by
  simp [save_cap_counter, counter_line]

theorem save_cap_mapp_eq (m : smapsmapp_t) : save_cap_mapp m = unlines (mapp_lines m) := by
  simp only [save_cap_mapp, mapp_lines, unlines_cons, unlines_nil, save_cap_counter_eq,
    range_line, List.append_assoc, List.cons_append, List.nil_append, List.append_nil]

theorem save_cap_pidinfo_eq (pi : pidinfo_t) : save_cap_pidinfo pi = unlines (pid_lines pi) := by
  unfold save_cap_pidinfo pid_lines
  split
  · simp only [unlines_cons, unlines_nil, List.append_assoc, List.cons_append,
      List.nil_append, List.append_nil]
  · simp only [unlines_cons, unlines_nil, List.append_assoc, List.cons_append,
      List.nil_append, List.append_nil]

theorem save_cap_proc_eq (proc : smapsproc_t) :
    save_cap_proc proc = unlines (proc_lines proc) := by
  unfold save_cap_proc proc_lines
  rw [unlines_cons, unlines_append, unlines_append, unlines_flatten, List.map_map,
    save_cap_pidinfo_eq]
  have h1 : (List.map save_cap_mapp proc.smapsproc_mapplist)
      = List.map (unlines ∘ mapp_lines) proc.smapsproc_mapplist :=
    List.map_congr_left (fun m _ => save_cap_mapp_eq m)
  rw [h1]
  simp [header_line, unlines]

theorem save_cap_text_eq (sort_pid : List smapsproc_t → List smapsproc_t) (self : smapssnap_t) :
    (smapssnap_save_cap sort_pid self).2
      = unlines ((sort_pid self.smapssnap_proclist).map proc_lines).flatten := by
  unfold smapssnap_save_cap
  simp only
  rw [unlines_flatten, List.map_map]
  congr 1
  exact List.map_congr_left (fun p _ => save_cap_proc_eq p)

/-- The lines of a text that consists of lines ended by newlines. -/
theorem text_lines_from_unlines (ls : List (List Char)) (h : ∀ l ∈ ls, '\n' ∉ l) :
    ∀ fuel, ls.length ≤ fuel → text_lines_from fuel (unlines ls) = ls := by
  induction ls with
  | nil =>
    intro fuel _
    cases fuel with
    | zero => rfl
    | succ f => rfl
  | cons l ls ih =>
    intro fuel hf
    cases fuel with
    | zero => simp at hf
    | succ f =>
      rw [unlines_cons]
      unfold text_lines_from
      have hl := h l (List.mem_cons_self _ _)
      have h1 := dropWhile_append_stop (fun c => decide (c ≠ '\n')) l ('\n' :: unlines ls)
        (fun c hc => by
          simp only [decide_eq_true_eq]
          rintro rfl
          exact hl hc)
        (fun c hc => by
          simp only [List.head?_cons, Option.some.injEq] at hc
          subst hc
          simp)
      rw [if_neg (by simp), h1.1, h1.2, List.drop_one, List.tail_cons,
        ih (fun x hx => h x (List.mem_cons_of_mem _ hx)) f (by simpa using hf)]

theorem unlines_length (ls : List (List Char)) : ls.length ≤ (unlines ls).length := by
  induction ls with
  | nil => simp [unlines]
  | cons l ls ih =>
    rw [unlines_cons]
    simp only [List.length_append, List.length_cons]
    omega

theorem text_lines_unlines (ls : List (List Char)) (h : ∀ l ∈ ls, '\n' ∉ l) :
    text_lines (unlines ls) = ls :=
  text_lines_from_unlines ls h _ (unlines_length ls)

/-! ## Numbers of a saved capture -/

theorem strtol_fmt_d (U : Nat) (hU : 4294967296 ≤ U) (n : Int) (h1 : INT_MIN ≤ n)
    (h2 : n ≤ INT_MAX) : long_to_int (strtol U (fmt_d n) 10) = n := by
  unfold INT_MIN at h1
  unfold INT_MAX at h2
  by_cases hn : n < 0
  · have hsub : strto_subject (fmt_d n) 10 = (true, fmt_u n.natAbs) := by
      unfold fmt_d strto_subject
      rw [if_pos hn]
      rfl
    have hval : strto_digits 10 (fmt_u n.natAbs) = n.natAbs := by
      have := strto_digits_dec (fmt_u n.natAbs) [] (fmt_u_isDigit _) (fun c hc => by simp at hc)
      rw [List.append_nil] at this
      rw [this, parse_dec_fmt_u]
    unfold strtol
    rw [hsub]
    simp only [hval, if_true]
    rw [if_neg (by omega)]
    have : -((n.natAbs : Nat) : Int) = n := by omega
    rw [this]
    exact long_to_int_id n (by unfold INT_MIN; omega) (by unfold INT_MAX; omega)
  · have hf : fmt_d n = fmt_u n.natAbs ++ [] := by
      unfold fmt_d
      rw [if_neg hn, List.append_nil]
    rw [hf, strtol_fmt_u U n.natAbs [] (by omega) (fun c hc => by simp at hc)]
    have : ((n.natAbs : Nat) : Int) = n := by omega
    rw [this]
    exact long_to_int_id n (by unfold INT_MIN; omega) (by unfold INT_MAX; omega)

/-- The hexadecimal digits. -/
theorem digitChar_hex (d : Nat) (h : d < 16) :
    digit_value 16 (Nat.digitChar d) = some d ∧ c_isxdigit (Nat.digitChar d) = true ∧
    ¬ (Nat.digitChar d).toNat ≤ 32 ∧ c_isspace (Nat.digitChar d) = false ∧
    Nat.digitChar d ≠ '-' ∧ Nat.digitChar d ≠ '+' ∧ Nat.digitChar d ≠ 'x' ∧
    Nat.digitChar d ≠ 'X' ∧ Nat.digitChar d ≠ '\n' := by
  interval_cases d <;> decide

theorem hex_digits_char (fuel n : Nat) : ∀ c ∈ hex_digits fuel n, hex_char c := by
  induction fuel generalizing n with
  | zero => intro c hc; simp [hex_digits] at hc
  | succ fuel ih =>
    intro c hc
    unfold hex_digits at hc
    split at hc
    · rename_i hn
      simp only [List.mem_singleton] at hc
      subst hc
      obtain ⟨a, b⟩ := digitChar_hex n hn
      exact ⟨⟨n, hn, a⟩, b⟩
    · rcases List.mem_append.mp hc with h1 | h1
      · exact ih _ c h1
      · simp only [List.mem_singleton] at h1
        subst h1
        obtain ⟨a, b⟩ := digitChar_hex (n % 16) (Nat.mod_lt _ (by decide))
        exact ⟨⟨_, Nat.mod_lt _ (by decide), a⟩, b⟩

theorem hex_digits_value (fuel n : Nat) (h : n < fuel) (acc : Nat) :
    (hex_digits fuel n).foldl (fun acc c => acc * 16 + (digit_value 16 c).getD 0) acc
      = acc * 16 ^ (hex_digits fuel n).length + n := by
  induction fuel generalizing n acc with
  | zero => omega
  | succ fuel ih =>
    unfold hex_digits
    split
    · rename_i hn
      simp [(digitChar_hex n hn).1]
    · rename_i hn
      rw [List.foldl_append, ih (n / 16) (by omega) acc]
      simp only [List.foldl_cons, List.foldl_nil, List.length_append, List.length_singleton]
      rw [(digitChar_hex _ (Nat.mod_lt n (by decide))).1]
      simp only [Option.getD_some]
      rw [pow_succ]
      have := Nat.div_add_mod n 16
      nlinarith [Nat.div_add_mod n 16]

theorem zeros_value (k : Nat) (l : List Char) :
    (List.replicate k '0' ++ l).foldl (fun acc c => acc * 16 + (digit_value 16 c).getD 0) 0
      = l.foldl (fun acc c => acc * 16 + (digit_value 16 c).getD 0) 0 := by
  induction k with
  | zero => simp
  | succ k ih =>
    rw [List.replicate_succ, List.cons_append, List.foldl_cons]
    have : (0 * 16 + (digit_value 16 '0').getD 0) = 0 := by decide
    rw [this]
    exact ih

theorem fmt_08x_char (n : Nat) : ∀ c ∈ fmt_08x n, hex_char c := by
  intro c hc
  unfold fmt_08x at hc
  rcases List.mem_append.mp hc with h | h
  · rw [(List.mem_replicate.mp h).2]
    obtain ⟨a, b⟩ := digitChar_hex 0 (by decide)
    exact ⟨⟨0, by decide, a⟩, b⟩
  · exact hex_digits_char _ _ c h

theorem fmt_08x_length (n : Nat) : 8 ≤ (fmt_08x n).length := by
  unfold fmt_08x
  rw [List.length_append, List.length_replicate]
  omega

/-- The digits that `strtoul` reads in base 16 from the text that `%08x`
prints, followed by something that is not a digit. -/
theorem strto_digits_hex (n : Nat) (junk : List Char)
    (hj : ∀ c, junk.head? = some c → digit_value 16 c = none) :
    strto_digits 16 (fmt_08x n ++ junk) = n := by
  unfold strto_digits
  have h1 := dropWhile_append_stop (fun c => (digit_value 16 c).isSome) (fmt_08x n) junk
    (fun c hc => by
      obtain ⟨⟨d, -, hd⟩, -⟩ := fmt_08x_char n c hc
      simp [hd])
    (fun c hc => by simp [hj c hc])
  rw [h1.2]
  unfold fmt_08x
  rw [zeros_value _ _, hex_digits_value _ _ (by omega) 0]
  omega

theorem strtoul_fmt_08x (U n : Nat) (junk : List Char) (hn : n < U)
    (hj : ∀ c, junk.head? = some c → digit_value 16 c = none) :
    strtoul U (fmt_08x n ++ junk) 16 = n := by
  have hlen := fmt_08x_length n
  have hch := fmt_08x_char n
  have hsub : strto_subject (fmt_08x n ++ junk) 16 = (false, fmt_08x n ++ junk) := by
    cases hf : fmt_08x n with
    | nil => rw [hf] at hlen; simp at hlen
    | cons a t =>
      cases t with
      | nil => rw [hf] at hlen; simp at hlen
      | cons b t =>
        have ha := hch a (by rw [hf]; simp)
        have hb := hch b (by rw [hf]; simp)
        obtain ⟨-, -, -, a4, a5, a6, -⟩ := ha
        obtain ⟨-, -, -, -, -, -, b7, b8, -⟩ := hb
        unfold strto_subject
        rw [List.cons_append, List.dropWhile_cons, a4]
        simp only [Bool.false_eq_true, if_false]
        split
        · rename_i heq
          exact absurd (List.cons.inj heq).1 a5
        · rename_i heq
          exact absurd (List.cons.inj heq).1 a6
        · rw [if_neg]
          simp only [List.cons_append, List.take_succ_cons, List.take_zero, List.cons.injEq,
            and_true, not_and, not_or]
          intro _
          exact ⟨fun _ h => b7 h, fun _ h => b8 h⟩
  unfold strtoul
  rw [hsub]
  simp only [strto_digits_hex n junk hj, Bool.false_eq_true, if_false]
  rw [if_neg (by omega)]

theorem hexterm_fmt_08x (n : Nat) (rest : List Char) :
    hexterm (fmt_08x n ++ '-' :: rest) = some '-' := by
  unfold hexterm
  have h1 := dropWhile_append_stop c_isxdigit (fmt_08x n) ('-' :: rest)
    (fun c hc => (fmt_08x_char n c hc).2.1)
    (fun c hc => by
      simp only [List.head?_cons, Option.some.injEq] at hc
      subst hc
      decide)
  rw [h1.1]
  rfl

/-! ## Lines of a saved capture -/

/-- The two tokens of a metadata line that `smapssnap_save_cap` writes. -/
theorem meta_tokens (key val : List Char)
    (hk1 : ∀ c, (key ++ [':']).head? = some c → ¬ (0 < c.toNat ∧ c.toNat ≤ 32))
    (hk2 : ∀ c ∈ key, c ≠ ':') (hv : is_token val) :
    (slice (key ++ ':' :: ' ' :: val) 58).1 = key ∧
    (slice (slice (key ++ ':' :: ' ' :: val) 58).2 (-1)).1 = val := by
  have e1 := slice_sep [] key (' ' :: val) ':' (fun c hc => by simp at hc) hk1 hk2
  have e1b : slice (key ++ ':' :: ' ' :: val) 58 = (key, ' ' :: val) := e1
  rw [e1b]
  refine ⟨rfl, ?_⟩
  have e2 := slice_blank_end [' '] val
    (fun c hc => by
      simp only [List.mem_singleton] at hc
      subst hc
      decide) hv
  exact congrArg Prod.fst e2

theorem fmt_u_token (v : Nat) : is_token (fmt_u v) :=
  fun c hc => (isDigit_not_space c (fmt_u_isDigit v c hc)).2.2.2.1

theorem fmt_d_token (n : Int) : is_token (fmt_d n) := by
  intro c hc
  unfold fmt_d at hc
  split at hc
  · rcases List.mem_cons.mp hc with h | h
    · subst h
      decide
    · exact fmt_u_token _ c h
  · exact fmt_u_token _ c hc

theorem strtoul_dec (U : Nat) (hU : 4294967296 ≤ U) (v : Nat) (hv : v < UINT_MOD) :
    strtoul U (fmt_u v) 10 % UINT_MOD = v := by
  have := strtoul_fmt_u U v [] (by unfold UINT_MOD at hv; omega) (fun c hc => by simp at hc)
  rw [List.append_nil] at this
  rw [this, Nat.mod_eq_of_lt hv]

/-- The metadata lines that `smapssnap_save_cap` writes, read by
`pidinfo_parse`. -/
theorem pidinfo_parse_saved (U : Nat) (hU : 4294967296 ≤ U) (unkn : List String)
    (pi : pidinfo_t) :
    (∀ name : List Char, is_token name → name.head? ≠ some '-' →
      (pidinfo_parse U unkn pi ("Name: ".data ++ name)).1 = { pi with Name := String.mk name }) ∧
    (∀ n : Int, INT_MIN ≤ n → n ≤ INT_MAX →
      (pidinfo_parse U unkn pi ("Pid: ".data ++ fmt_d n)).1 = { pi with Pid := n } ∧
      (pidinfo_parse U unkn pi ("PPid: ".data ++ fmt_d n)).1 = { pi with PPid := n } ∧
      (pidinfo_parse U unkn pi ("Threads: ".data ++ fmt_d n)).1 = { pi with Threads := n }) ∧
    (∀ v : Nat, v < UINT_MOD →
      (pidinfo_parse U unkn pi ("VmSize: ".data ++ fmt_u v)).1 = { pi with VmSize := v } ∧
      (pidinfo_parse U unkn pi ("VmLck: ".data ++ fmt_u v)).1 = { pi with VmLck := v } ∧
      (pidinfo_parse U unkn pi ("VmRSS: ".data ++ fmt_u v)).1 = { pi with VmRSS := v } ∧
      (pidinfo_parse U unkn pi ("VmData: ".data ++ fmt_u v)).1 = { pi with VmData := v } ∧
      (pidinfo_parse U unkn pi ("VmStk: ".data ++ fmt_u v)).1 = { pi with VmStk := v } ∧
      (pidinfo_parse U unkn pi ("VmExe: ".data ++ fmt_u v)).1 = { pi with VmExe := v } ∧
      (pidinfo_parse U unkn pi ("VmLib: ".data ++ fmt_u v)).1 = { pi with VmLib := v } ∧
      (pidinfo_parse U unkn pi ("VmPTE: ".data ++ fmt_u v)).1 = { pi with VmPTE := v }) := by
  have key : ∀ (k : String) (val : List Char),
      (∀ c, (k.data ++ [':']).head? = some c → ¬ (0 < c.toNat ∧ c.toNat ≤ 32)) →
      (∀ c ∈ k.data, c ≠ ':') → is_token val →
      (slice (k.data ++ ':' :: ' ' :: val) 58).1 = k.data ∧
      (slice (slice (k.data ++ ':' :: ' ' :: val) 58).2 (-1)).1 = val :=
    fun k val h1 h2 h3 => meta_tokens k.data val h1 h2 h3
  refine ⟨?_, ?_, ?_⟩
  · intro name hn hd
    obtain ⟨e1, e2⟩ := key "Name" name (by decide) (by decide) hn
    have e3 : name.dropWhile (fun c => c = '-') = name := by
      cases name with
      | nil => rfl
      | cons c t =>
        have : c ≠ '-' := fun h => hd (by rw [h]; rfl)
        simp [List.dropWhile_cons, this]
    show (pidinfo_parse U unkn pi ("Name".data ++ ':' :: ' ' :: name)).1 = _
    unfold pidinfo_parse
    rw [e2, e1, if_pos rfl, e3]
  · intro n h1 h2
    have hv := strtol_fmt_d U hU n h1 h2
    refine ⟨?_, ?_, ?_⟩
    · obtain ⟨e1, e2⟩ := key "Pid" (fmt_d n) (by decide) (by decide) (fmt_d_token n)
      show (pidinfo_parse U unkn pi ("Pid".data ++ ':' :: ' ' :: fmt_d n)).1 = _
      unfold pidinfo_parse
      rw [e2, e1, if_neg (by decide), if_pos rfl, hv]
    · obtain ⟨e1, e2⟩ := key "PPid" (fmt_d n) (by decide) (by decide) (fmt_d_token n)
      show (pidinfo_parse U unkn pi ("PPid".data ++ ':' :: ' ' :: fmt_d n)).1 = _
      unfold pidinfo_parse
      rw [e2, e1, if_neg (by decide), if_neg (by decide), if_pos rfl, hv]
    · obtain ⟨e1, e2⟩ := key "Threads" (fmt_d n) (by decide) (by decide) (fmt_d_token n)
      show (pidinfo_parse U unkn pi ("Threads".data ++ ':' :: ' ' :: fmt_d n)).1 = _
      unfold pidinfo_parse
      rw [e2, e1, if_neg (by decide), if_neg (by decide), if_neg (by decide), if_pos rfl, hv]
  · intro v hv
    have hx := strtoul_dec U hU v hv
    refine ⟨?_, ?_, ?_, ?_, ?_, ?_, ?_, ?_⟩
    · obtain ⟨e1, e2⟩ := key "VmSize" (fmt_u v) (by decide) (by decide) (fmt_u_token v)
      show (pidinfo_parse U unkn pi ("VmSize".data ++ ':' :: ' ' :: fmt_u v)).1 = _
      unfold pidinfo_parse
      rw [e2, e1, if_neg (by decide), if_neg (by decide), if_neg (by decide),
        if_neg (by decide), if_pos rfl, hx]
    · obtain ⟨e1, e2⟩ := key "VmLck" (fmt_u v) (by decide) (by decide) (fmt_u_token v)
      show (pidinfo_parse U unkn pi ("VmLck".data ++ ':' :: ' ' :: fmt_u v)).1 = _
      unfold pidinfo_parse
      rw [e2, e1, if_neg (by decide), if_neg (by decide), if_neg (by decide),
        if_neg (by decide), if_neg (by decide), if_pos rfl, hx]
    · obtain ⟨e1, e2⟩ := key "VmRSS" (fmt_u v) (by decide) (by decide) (fmt_u_token v)
      show (pidinfo_parse U unkn pi ("VmRSS".data ++ ':' :: ' ' :: fmt_u v)).1 = _
      unfold pidinfo_parse
      rw [e2, e1, if_neg (by decide), if_neg (by decide), if_neg (by decide),
        if_neg (by decide), if_neg (by decide), if_neg (by decide), if_pos rfl, hx]
    · obtain ⟨e1, e2⟩ := key "VmData" (fmt_u v) (by decide) (by decide) (fmt_u_token v)
      show (pidinfo_parse U unkn pi ("VmData".data ++ ':' :: ' ' :: fmt_u v)).1 = _
      unfold pidinfo_parse
      rw [e2, e1, if_neg (by decide), if_neg (by decide), if_neg (by decide),
        if_neg (by decide), if_neg (by decide), if_neg (by decide), if_neg (by decide),
        if_pos rfl, hx]
    · obtain ⟨e1, e2⟩ := key "VmStk" (fmt_u v) (by decide) (by decide) (fmt_u_token v)
      show (pidinfo_parse U unkn pi ("VmStk".data ++ ':' :: ' ' :: fmt_u v)).1 = _
      unfold pidinfo_parse
      rw [e2, e1, if_neg (by decide), if_neg (by decide), if_neg (by decide),
        if_neg (by decide), if_neg (by decide), if_neg (by decide), if_neg (by decide),
        if_neg (by decide), if_pos rfl, hx]
    · obtain ⟨e1, e2⟩ := key "VmExe" (fmt_u v) (by decide) (by decide) (fmt_u_token v)
      show (pidinfo_parse U unkn pi ("VmExe".data ++ ':' :: ' ' :: fmt_u v)).1 = _
      unfold pidinfo_parse
      rw [e2, e1, if_neg (by decide), if_neg (by decide), if_neg (by decide),
        if_neg (by decide), if_neg (by decide), if_neg (by decide), if_neg (by decide),
        if_neg (by decide), if_neg (by decide), if_pos rfl, hx]
    · obtain ⟨e1, e2⟩ := key "VmLib" (fmt_u v) (by decide) (by decide) (fmt_u_token v)
      show (pidinfo_parse U unkn pi ("VmLib".data ++ ':' :: ' ' :: fmt_u v)).1 = _
      unfold pidinfo_parse
      rw [e2, e1, if_neg (by decide), if_neg (by decide), if_neg (by decide),
        if_neg (by decide), if_neg (by decide), if_neg (by decide), if_neg (by decide),
        if_neg (by decide), if_neg (by decide), if_neg (by decide), if_pos rfl, hx]
    · obtain ⟨e1, e2⟩ := key "VmPTE" (fmt_u v) (by decide) (by decide) (fmt_u_token v)
      show (pidinfo_parse U unkn pi ("VmPTE".data ++ ':' :: ' ' :: fmt_u v)).1 = _
      unfold pidinfo_parse
      rw [e2, e1, if_neg (by decide), if_neg (by decide), if_neg (by decide),
        if_neg (by decide), if_neg (by decide), if_neg (by decide), if_neg (by decide),
        if_neg (by decide), if_neg (by decide), if_neg (by decide), if_neg (by decide),
        if_pos rfl, hx]

theorem blanks_blank (k : Nat) : ∀ c ∈ List.replicate k ' ', 0 < c.toNat ∧ c.toNat ≤ 32 := by
  intro c hc
  rw [(List.mem_replicate.mp hc).2]
  decide

/-- The two tokens of a counter line that `smapssnap_save_cap` writes. -/
theorem counter_line_saved (name : String) (v : Nat)
    (hk1 : ∀ c, (name.data ++ [':']).head? = some c → ¬ (0 < c.toNat ∧ c.toNat ≤ 32))
    (hk2 : ∀ c ∈ name.data, c ≠ ':') :
    (slice (counter_line name v) 58).1 = name.data ∧
    (slice (slice (counter_line name v) 58).2 (-1)).1 = fmt_u v := by
  have h := counter_line_tokens name.data (fmt_u v) []
    (List.replicate (14 - (name.data ++ [':']).length) ' ' ++
      ' ' :: List.replicate (8 - (fmt_u v).length) ' ') " kB".data hk1 hk2
    (fun c hc => by simp at hc)
    (fun c hc => by
      rcases List.mem_append.mp hc with h | h
      · exact blanks_blank _ c h
      · rcases List.mem_cons.mp h with h | h
        · subst h; decide
        · exact blanks_blank _ c h)
    (fmt_u_token v) (fmt_u_ne_nil v)
    (fun c hc => by
      simp only [String.data, List.head?_cons, Option.some.injEq] at hc
      subst hc
      decide)
  have e : counter_line name v = [] ++ name.data ++ ':' ::
      ((List.replicate (14 - (name.data ++ [':']).length) ' ' ++
        ' ' :: List.replicate (8 - (fmt_u v).length) ' ') ++ fmt_u v ++ " kB".data) := by
    simp [counter_line, fmt_left, fmt_right]
  rw [e]
  exact h

/-- The counter lines that `smapssnap_save_cap` writes, read by
`meminfo_parse`. -/
theorem meminfo_parse_saved (U : Nat) (hU : 4294967296 ≤ U) (unkn : List String)
    (mem : meminfo_t) (v : Nat) (hv : v < UINT_MOD) :
    (meminfo_parse U unkn mem (counter_line "Size" v)).1 = { mem with Size := v } ∧
    (meminfo_parse U unkn mem (counter_line "Rss" v)).1 = { mem with Rss := v } ∧
    (meminfo_parse U unkn mem (counter_line "Shared_Clean" v)).1
      = { mem with Shared_Clean := v } ∧
    (meminfo_parse U unkn mem (counter_line "Shared_Dirty" v)).1
      = { mem with Shared_Dirty := v } ∧
    (meminfo_parse U unkn mem (counter_line "Private_Clean" v)).1
      = { mem with Private_Clean := v } ∧
    (meminfo_parse U unkn mem (counter_line "Private_Dirty" v)).1
      = { mem with Private_Dirty := v } := by
  have hx := strtoul_dec U hU v hv
  refine ⟨?_, ?_, ?_, ?_, ?_, ?_⟩
  · obtain ⟨e1, e2⟩ := counter_line_saved "Size" v (by decide) (by decide)
    unfold meminfo_parse
    rw [e2, e1, if_pos rfl, hx]
  · obtain ⟨e1, e2⟩ := counter_line_saved "Rss" v (by decide) (by decide)
    unfold meminfo_parse
    rw [e2, e1, if_neg (by decide), if_pos rfl, hx]
  · obtain ⟨e1, e2⟩ := counter_line_saved "Shared_Clean" v (by decide) (by decide)
    unfold meminfo_parse
    rw [e2, e1, if_neg (by decide), if_neg (by decide), if_pos rfl, hx]
  · obtain ⟨e1, e2⟩ := counter_line_saved "Shared_Dirty" v (by decide) (by decide)
    unfold meminfo_parse
    rw [e2, e1, if_neg (by decide), if_neg (by decide), if_neg (by decide), if_pos rfl, hx]
  · obtain ⟨e1, e2⟩ := counter_line_saved "Private_Clean" v (by decide) (by decide)
    unfold meminfo_parse
    rw [e2, e1, if_neg (by decide), if_neg (by decide), if_neg (by decide),
      if_neg (by decide), if_pos rfl, hx]
  · obtain ⟨e1, e2⟩ := counter_line_saved "Private_Dirty" v (by decide) (by decide)
    unfold meminfo_parse
    rw [e2, e1, if_neg (by decide), if_neg (by decide), if_neg (by decide),
      if_neg (by decide), if_neg (by decide), if_pos rfl, hx]

theorem fmt_08x_token (n : Nat) : is_token (fmt_08x n) :=
  fun c hc => (fmt_08x_char n c hc).2.2.1

theorem fmt_08x_ne_nil (n : Nat) : fmt_08x n ≠ [] := by
  intro h
  have := fmt_08x_length n
  rw [h] at this
  simp at this

theorem strtoul_hex (U : Nat) (hU : 4294967296 ≤ U) (v : Nat) (hv : v < UINT_MOD) :
    strtoul U (fmt_08x v) 16 % UINT_MOD = v := by
  have := strtoul_fmt_08x U v [] (by unfold UINT_MOD at hv; omega) (fun c hc => by simp at hc)
  rw [List.append_nil] at this
  rw [this, Nat.mod_eq_of_lt hv]

/-- The seven tokens of a range line that `smapssnap_save_cap` writes. -/
theorem range_line_tokens (map : mapinfo_t)
    (hprot : is_token map.prot.data ∧ map.prot.data ≠ [])
    (hnode : is_token map.node.data ∧ map.node.data ≠ [])
    (hpath : (∀ c, map.path.data.head? = some c → ¬ c.toNat ≤ 32) ∧
      (∀ c ∈ map.path.data, c.toNat ≠ 0)) :
    ∃ r1 r2 r3 r4 r5 r6,
      slice (range_line map) 45 = (fmt_08x map.head, r1) ∧
      slice r1 (-1) = (fmt_08x map.tail, r2) ∧
      slice r2 (-1) = (map.prot.data, r3) ∧
      slice r3 (-1) = (fmt_08x map.offs, r4) ∧
      slice r4 (-1) = (map.node.data, r5) ∧
      slice r5 (-1) = (fmt_u map.flgs, r6) ∧
      slice r6 0 = (map.path.data, []) := by
  have hb : (' ' : Char).toNat ≤ 32 := by decide
  have hnil : ∀ c ∈ ([] : List Char), 0 < c.toNat ∧ c.toNat ≤ 32 := fun c hc => by simp at hc
  have e1 : slice (range_line map) 45 = (fmt_08x map.head,
      fmt_08x map.tail ++ ' ' :: (map.prot.data ++ ' ' :: (fmt_08x map.offs ++ ' ' ::
        (map.node.data ++ ' ' :: (fmt_u map.flgs ++ ' ' ::
          (List.replicate (10 - (fmt_u map.flgs).length) ' ' ++ map.path.data)))))) := by
    have := slice_sep [] (fmt_08x map.head)
      (fmt_08x map.tail ++ ' ' :: (map.prot.data ++ ' ' :: (fmt_08x map.offs ++ ' ' ::
        (map.node.data ++ ' ' :: (fmt_u map.flgs ++ ' ' ::
          (List.replicate (10 - (fmt_u map.flgs).length) ' ' ++ map.path.data)))))) '-'
      hnil
      (fun c hc h => by
        have hne := fmt_08x_ne_nil map.head
        cases hf : fmt_08x map.head with
        | nil => exact hne hf
        | cons a t =>
          rw [hf] at hc
          simp only [List.cons_append, List.head?_cons, Option.some.injEq] at hc
          subst hc
          exact fmt_08x_token map.head a (by rw [hf]; simp) h.2)
      (fun c hc => (fmt_08x_char map.head c hc).2.2.2.2.1)
    have e : range_line map = [] ++ fmt_08x map.head ++ '-' ::
        (fmt_08x map.tail ++ ' ' :: (map.prot.data ++ ' ' :: (fmt_08x map.offs ++ ' ' ::
        (map.node.data ++ ' ' :: (fmt_u map.flgs ++ ' ' ::
          (List.replicate (10 - (fmt_u map.flgs).length) ' ' ++ map.path.data)))))) := by
      have hpad : List.replicate (10 - (fmt_u map.flgs).length) ' ' ++ ' ' :: map.path.data
          = ' ' :: (List.replicate (10 - (fmt_u map.flgs).length) ' ' ++ map.path.data) := by
        rw [← List.singleton_append, ← List.append_assoc, ← List.replicate_succ',
          List.replicate_succ]
        rfl
      simp only [range_line, fmt_left, List.nil_append, List.append_assoc, List.cons_append,
        List.singleton_append, hpad]
    rw [e]
    exact this
  have e2 := slice_blank [] (fmt_08x map.tail)
    (map.prot.data ++ ' ' :: (fmt_08x map.offs ++ ' ' ::
        (map.node.data ++ ' ' :: (fmt_u map.flgs ++ ' ' ::
          (List.replicate (10 - (fmt_u map.flgs).length) ' ' ++ map.path.data))))) ' '
    hnil (fmt_08x_token _) (fmt_08x_ne_nil _) hb
  have e3 := slice_blank [] map.prot.data
    (fmt_08x map.offs ++ ' ' ::
        (map.node.data ++ ' ' :: (fmt_u map.flgs ++ ' ' ::
          (List.replicate (10 - (fmt_u map.flgs).length) ' ' ++ map.path.data)))) ' '
    hnil hprot.1 hprot.2 hb
  have e4 := slice_blank [] (fmt_08x map.offs)
    (map.node.data ++ ' ' :: (fmt_u map.flgs ++ ' ' ::
          (List.replicate (10 - (fmt_u map.flgs).length) ' ' ++ map.path.data))) ' '
    hnil (fmt_08x_token _) (fmt_08x_ne_nil _) hb
  have e5 := slice_blank [] map.node.data
    (fmt_u map.flgs ++ ' ' ::
          (List.replicate (10 - (fmt_u map.flgs).length) ' ' ++ map.path.data)) ' '
    hnil hnode.1 hnode.2 hb
  have e6 := slice_blank [] (fmt_u map.flgs)
    (List.replicate (10 - (fmt_u map.flgs).length) ' ' ++ map.path.data) ' '
    hnil (fmt_u_token _) (fmt_u_ne_nil _) hb
  have e7 := slice_sep_end (List.replicate (10 - (fmt_u map.flgs).length) ' ') map.path.data
    (Char.ofNat 0) (blanks_blank _)
    (fun c hc h => hpath.1 c hc h.2)
    (fun c hc h => hpath.2 c hc (by rw [h]; rfl))
  rw [List.nil_append] at e2 e3 e4 e5 e6
  exact ⟨_, _, _, _, _, _, e1, e2, e3, e4, e5, e6, e7⟩

/-- The range line that `smapssnap_save_cap` writes for a mapping is read as
the mapping. -/
theorem load_cap_range_saved (U : Nat) (hU : 4294967296 ≤ U) (uid : Int) (proc : smapsproc_t)
    (m : smapsmapp_t) (hm : mapp_parsed m)
    (hne : m.smapsmapp_map.prot.data ≠ [] ∧ m.smapsmapp_map.node.data ≠ []) :
    ∃ m1, load_cap_range U uid proc (range_line m.smapsmapp_map)
        = { proc with smapsproc_mapplist := proc.smapsproc_mapplist ++ [m1] } ∧
      m1.smapsmapp_map = m.smapsmapp_map ∧ m1.smapsmapp_mem = {} := by
  obtain ⟨⟨n1, n2, n3, n4⟩, ⟨t1, t2⟩, ⟨p1, p2, p3⟩, hty, -⟩ := hm
  obtain ⟨r1, r2, r3, r4, r5, r6, e1, e2, e3, e4, e5, e6, e7⟩ :=
    range_line_tokens m.smapsmapp_map ⟨t1, hne.1⟩ ⟨t2, hne.2⟩
      ⟨p2, fun c hc => (p3 c hc).1⟩
  unfold load_cap_range
  simp only [e1, e2, e3, e4, e5, e6, e7]
  rw [strtoul_hex U hU _ n1, strtoul_hex U hU _ n2, strtoul_hex U hU _ n3,
    strtoul_dec U hU _ n4]
  refine ⟨_, rfl, ?_, rfl⟩
  have hp : (if (some m.smapsmapp_map.path.data : Option (List Char)) = none ∨
      some m.smapsmapp_map.path.data = some [] then "[anon]".data
      else (some m.smapsmapp_map.path.data).getD []) = m.smapsmapp_map.path.data := by
    rw [if_neg]
    · rfl
    · simp [p1]
  simp only [hp]
  cases hmap : m.smapsmapp_map with
  | mk head tail prot offs node flgs path type =>
    rw [hmap] at hty
    simp only at hty ⊢
    rw [hty]
    rfl

/-! ## The parser on the lines of a saved capture -/

theorem line_data_id (l : List Char) (h : ∀ c ∈ l, c ≠ '\r' ∧ c ≠ '\n') :
    l.takeWhile (fun c => decide (c ≠ '\r' ∧ c ≠ '\n')) = l := by
  rw [List.takeWhile_eq_self_iff]
  intro c hc
  simpa using h c hc

theorem token_line (l : List Char) (h : is_token l) : ∀ c ∈ l, c ≠ '\r' ∧ c ≠ '\n' := by
  intro c hc
  have := h c hc
  constructor
  · rintro rfl
    exact this (by decide)
  · rintro rfl
    exact this (by decide)

theorem load_cap_line_blank (U : Nat) (st : load_t) : load_cap_line U st [] = some st := by
  unfold load_cap_line
  rw [if_pos (show List.takeWhile _ ([] : List Char) = [] from rfl)]

/-- A header line of a saved capture whose pid is not in the process list yet:
a record is appended. -/
theorem load_cap_line_header (U : Nat) (hU : 4294967296 ≤ U) (st : load_t) (pid : Int)
    (h0 : 0 < pid) (h1 : pid ≤ INT_MAX)
    (hnew : ∀ q ∈ st.snap.smapssnap_proclist, q.smapsproc_pid.Pid ≠ pid) :
    ∃ st1 r, load_cap_line U st (header_line pid) = some st1 ∧
      st1.snap.smapssnap_proclist = st.snap.smapssnap_proclist ++ [r] ∧
      st1.proc = some st.snap.smapssnap_proclist.length ∧ st1.mapp = none ∧
      r.smapsproc_pid = { Name := "<noname>", Pid := pid } ∧ r.smapsproc_mapplist = [] := by
  have hd : (header_line pid).takeWhile (fun c => decide (c ≠ '\r' ∧ c ≠ '\n'))
      = header_line pid := by
    apply line_data_id
    intro c hc
    unfold header_line at hc
    rcases List.mem_append.mp hc with h | h
    · rcases List.mem_append.mp h with h | h
      · exact (by decide : ∀ c ∈ "==> /proc/".data, c ≠ '\r' ∧ c ≠ '\n') c h
      · exact token_line _ (fmt_d_token pid) c h
    · exact (by decide : ∀ c ∈ "/smaps <==".data, c ≠ '\r' ∧ c ≠ '\n') c h
  have hfind : smapssnap_find_process st.snap.smapssnap_proclist pid
      st.snap.smapssnap_proclist.length = none := by
    cases hf : smapssnap_find_process st.snap.smapssnap_proclist pid
      st.snap.smapssnap_proclist.length with
    | none => rfl
    | some i =>
      exfalso
      obtain ⟨-, ⟨q, hq, hp⟩, -⟩ := (smapssnap_find_process_spec _ pid _ (le_refl _)).1 i hf
      exact hnew q (List.getElem?_mem hq) hp
  have hadd : smapssnap_add_process st.proc_uid st.snap pid
      = ({ st.snap with smapssnap_proclist := st.snap.smapssnap_proclist ++ [
          { smapsproc_uid := st.proc_uid
            smapsproc_AID := -1
            smapsproc_PID := -1
            smapsproc_pid := { Name := "<noname>", Pid := pid, PPid := 0, Threads := 0,
                               VmSize := 0, VmLck := 0, VmRSS := 0, VmData := 0, VmStk := 0,
                               VmExe := 0, VmLib := 0, VmPTE := 0 }
            smapsproc_mapplist := []
            smapsproc_parent := none
            smapsproc_children := [] }] },
         st.snap.smapssnap_proclist.length, st.proc_uid + 1) := by
    unfold smapssnap_add_process
    rw [hfind]
  unfold load_cap_line
  rw [hd, if_neg (by unfold header_line; simp), if_pos (by unfold header_line; rfl),
    load_cap_header_line U pid h0 h1 hU]
  simp only [hadd]
  exact ⟨_, _, rfl, rfl, rfl, rfl, rfl, rfl⟩

/-- A metadata line while the section of the last process is read. -/
theorem load_cap_line_meta (U : Nat) (st : load_t) (L : List smapsproc_t) (r : smapsproc_t)
    (hL : st.snap.smapssnap_proclist = L ++ [r]) (hp : st.proc = some L.length)
    (body : List Char) (hb : ∀ c ∈ body, c ≠ '\r' ∧ c ≠ '\n') :
    ∃ st1, load_cap_line U st ('#' :: body) = some st1 ∧
      st1.snap.smapssnap_proclist = L ++ [{ r with
        smapsproc_pid := (pidinfo_parse U st.unkn_pid r.smapsproc_pid body).1 }] ∧
      st1.proc = st.proc ∧ st1.mapp = st.mapp := by
  have hd : ('#' :: body).takeWhile (fun c => decide (c ≠ '\r' ∧ c ≠ '\n')) = '#' :: body := by
    apply line_data_id
    intro c hc
    rcases List.mem_cons.mp hc with h | h
    · subst h; decide
    · exact hb c h
  have hget : st.snap.smapssnap_proclist[L.length]? = some r := by
    rw [hL, List.getElem?_append_right (le_refl _)]
    simp
  unfold load_cap_line
  rw [hd, if_neg (by simp), if_neg (by
    intro h
    have : (('#' :: body).take 3).head? = ("==>".data).head? := by rw [h]
    simp at this), if_pos (show ('#' :: body).head? = some '#' from rfl), hp]
  simp only [hget, List.drop_one, List.tail_cons]
  refine ⟨_, rfl, ?_, rfl, rfl⟩
  simp only [hL]
  rw [List.set_append_right _ _ (le_refl _)]
  simp

theorem blanks_line (k : Nat) : ∀ c ∈ List.replicate k ' ', c ≠ '\r' ∧ c ≠ '\n' := by
  intro c hc
  rw [(List.mem_replicate.mp hc).2]
  decide

theorem range_line_chars (m : smapsmapp_t) (hm : mapp_parsed m) :
    (∀ c ∈ range_line m.smapsmapp_map, c ≠ '\r' ∧ c ≠ '\n') ∧
    ∃ a t, range_line m.smapsmapp_map = a :: t ∧ hex_char a ∧
      hexterm (range_line m.smapsmapp_map) = some '-' := by
  obtain ⟨-, ⟨t1, t2⟩, ⟨-, -, p3⟩, -, -⟩ := hm
  have hsp : ∀ c ∈ [' '], c ≠ '\r' ∧ c ≠ '\n' := by decide
  have hmi : ∀ c ∈ ['-'], c ≠ '\r' ∧ c ≠ '\n' := by decide
  constructor
  · unfold range_line fmt_left
    simp only [List.forall_mem_append, and_assoc]
    exact ⟨token_line _ (fmt_08x_token _), hmi, token_line _ (fmt_08x_token _), hsp,
      token_line _ t1, hsp, token_line _ (fmt_08x_token _), hsp, token_line _ t2, hsp,
      token_line _ (fmt_u_token _), blanks_line _, hsp,
      fun c h => ⟨(p3 c h).2.1, (p3 c h).2.2⟩⟩
  · have hne := fmt_08x_ne_nil m.smapsmapp_map.head
    have e : range_line m.smapsmapp_map = fmt_08x m.smapsmapp_map.head ++ '-' ::
        (fmt_08x m.smapsmapp_map.tail ++ [' '] ++
        m.smapsmapp_map.prot.data ++ [' '] ++ fmt_08x m.smapsmapp_map.offs ++ [' '] ++
        m.smapsmapp_map.node.data ++ [' '] ++ fmt_left 10 (fmt_u m.smapsmapp_map.flgs) ++
        [' '] ++ m.smapsmapp_map.path.data) := by
      simp [range_line]
    cases hf : fmt_08x m.smapsmapp_map.head with
    | nil => exact absurd hf hne
    | cons a t =>
      refine ⟨a, t ++ '-' ::
        (fmt_08x m.smapsmapp_map.tail ++ [' '] ++
        m.smapsmapp_map.prot.data ++ [' '] ++ fmt_08x m.smapsmapp_map.offs ++ [' '] ++
        m.smapsmapp_map.node.data ++ [' '] ++ fmt_left 10 (fmt_u m.smapsmapp_map.flgs) ++
        [' '] ++ m.smapsmapp_map.path.data), ?_,
        fmt_08x_char m.smapsmapp_map.head a (by rw [hf]; simp), ?_⟩
      · rw [e, hf]
        rfl
      · rw [e]
        exact hexterm_fmt_08x _ _

/-- A range line of a saved capture while the section of the last process is
read: the mapping is appended to the process. -/
theorem load_cap_line_range (U : Nat) (hU : 4294967296 ≤ U) (st : load_t)
    (L : List smapsproc_t) (r : smapsproc_t)
    (hL : st.snap.smapssnap_proclist = L ++ [r]) (hp : st.proc = some L.length)
    (m : smapsmapp_t) (hm : mapp_parsed m)
    (hne : m.smapsmapp_map.prot.data ≠ [] ∧ m.smapsmapp_map.node.data ≠ []) :
    ∃ st1 m1, load_cap_line U st (range_line m.smapsmapp_map) = some st1 ∧
      st1.snap.smapssnap_proclist = L ++ [{ r with
        smapsproc_mapplist := r.smapsproc_mapplist ++ [m1] }] ∧
      st1.proc = st.proc ∧ st1.mapp = some r.smapsproc_mapplist.length ∧
      m1.smapsmapp_map = m.smapsmapp_map ∧ m1.smapsmapp_mem = {} := by
  obtain ⟨hc, a, t, hat, ha, hx⟩ := range_line_chars m hm
  have hd := line_data_id _ hc
  have hget : st.snap.smapssnap_proclist[L.length]? = some r := by
    rw [hL, List.getElem?_append_right (le_refl _)]
    simp
  obtain ⟨m1, e1, e2, e3⟩ := load_cap_range_saved U hU st.mapp_uid r m hm hne
  have ha1 : a ≠ '=' := by
    rintro rfl
    exact absurd ha.2.1 (by decide)
  have ha2 : a ≠ '#' := by
    rintro rfl
    exact absurd ha.2.1 (by decide)
  unfold load_cap_line
  rw [hd, if_neg (by rw [hat]; simp), if_neg (by
      rw [hat]
      intro h
      have : ((a :: t).take 3).head? = ("==>".data).head? := by rw [h]
      simp at this
      exact ha1 this),
    if_neg (by
      rw [hat]
      intro h
      simp at h
      exact ha2 h), if_pos hx, hp]
  simp only [hget, e1]
  refine ⟨_, m1, rfl, ?_, rfl, rfl, e2, e3⟩
  simp only [hL]
  rw [List.set_append_right _ _ (le_refl _)]
  simp

/-- What the parser needs of the key of a counter line. -/
theorem counter_key_chars :
    ∀ name ∈ ["Size", "Rss", "Shared_Clean", "Shared_Dirty", "Private_Clean", "Private_Dirty"],
      (∀ c ∈ (name : String).data, c ≠ '\r' ∧ c ≠ '\n') ∧
      ∃ a t, name.data = a :: t ∧ a ≠ '=' ∧ a ≠ '#' ∧ c_isxdigit a = false ∧ a ≠ '-' := by
  intro name hn
  simp only [List.mem_cons, List.mem_singleton, List.not_mem_nil, or_false] at hn
  rcases hn with h | h | h | h | h | h <;> subst h
  · exact ⟨by decide, _, _, rfl, by decide, by decide, by decide, by decide⟩
  · exact ⟨by decide, _, _, rfl, by decide, by decide, by decide, by decide⟩
  · exact ⟨by decide, _, _, rfl, by decide, by decide, by decide, by decide⟩
  · exact ⟨by decide, _, _, rfl, by decide, by decide, by decide, by decide⟩
  · exact ⟨by decide, _, _, rfl, by decide, by decide, by decide, by decide⟩
  · exact ⟨by decide, _, _, rfl, by decide, by decide, by decide, by decide⟩

/-- A counter line of a saved capture while the last mapping of the last
process is read. -/
theorem load_cap_line_counter (U : Nat) (st : load_t)
    (L : List smapsproc_t) (r : smapsproc_t) (ms : List smapsmapp_t) (m1 : smapsmapp_t)
    (hL : st.snap.smapssnap_proclist = L ++ [r]) (hp : st.proc = some L.length)
    (hr : r.smapsproc_mapplist = ms ++ [m1]) (hmp : st.mapp = some ms.length)
    (name : String) (v : Nat)
    (hn : name ∈ ["Size", "Rss", "Shared_Clean", "Shared_Dirty", "Private_Clean",
      "Private_Dirty"]) :
    ∃ st1, load_cap_line U st (counter_line name v) = some st1 ∧
      st1.snap.smapssnap_proclist = L ++ [{ r with
        smapsproc_mapplist := ms ++ [{ m1 with
          smapsmapp_mem := (meminfo_parse U st.unkn_mem m1.smapsmapp_mem
            (counter_line name v)).1 }] }] ∧
      st1.proc = st.proc ∧ st1.mapp = st.mapp := by
  obtain ⟨hc, a, t, hat, ha1, ha2, ha3, ha4⟩ := counter_key_chars name hn
  have hline : ∀ c ∈ counter_line name v, c ≠ '\r' ∧ c ≠ '\n' := by
    unfold counter_line fmt_left fmt_right
    simp only [List.forall_mem_append, and_assoc]
    exact ⟨hc, by decide, blanks_line _, by decide, blanks_line _,
      token_line _ (fmt_u_token _), by decide⟩
  have hd := line_data_id _ hline
  have hcl : ∃ t2, counter_line name v = a :: t2 := by
    refine ⟨t ++ [':'] ++ List.replicate (14 - (name.data ++ [':']).length) ' ' ++ [' '] ++
      fmt_right 8 (fmt_u v) ++ " kB".data, ?_⟩
    unfold counter_line fmt_left
    rw [hat]
    simp
  obtain ⟨t2, ht2⟩ := hcl
  have hget : st.snap.smapssnap_proclist[L.length]? = some r := by
    rw [hL, List.getElem?_append_right (le_refl _)]
    simp
  have hgm : r.smapsproc_mapplist[ms.length]? = some m1 := by
    rw [hr, List.getElem?_append_right (le_refl _)]
    simp
  have hx : ¬ hexterm (counter_line name v) = some '-' := by
    rw [ht2]
    unfold hexterm
    rw [List.dropWhile_cons, ha3]
    simp only [Bool.false_eq_true, if_false, List.head?_cons, Option.some.injEq]
    exact ha4
  unfold load_cap_line
  rw [hd, if_neg (by rw [ht2]; simp), if_neg (by
      rw [ht2]
      intro h
      have : ((a :: t2).take 3).head? = ("==>".data).head? := by rw [h]
      simp at this
      exact ha1 this),
    if_neg (by
      rw [ht2]
      intro h
      simp at h
      exact ha2 h), if_neg hx, hp, hmp]
  simp only [hget, hgm]
  refine ⟨_, rfl, ?_, rfl, rfl⟩
  simp only [hL, hr]
  rw [List.set_append_right _ _ (le_refl _), List.set_append_right _ _ (le_refl _)]
  simp

/-! ## The parser on the section of a process of a saved capture -/

theorem ite_fst_congr {α β : Type} (c : Prop) [Decidable c] (x y x1 y1 : α × β)
    (hx : x.1 = x1.1) (hy : y.1 = y1.1) :
    (if c then x else y).1 = (if c then x1 else y1).1 := by
  split
  · exact hx
  · exact hy

theorem pidinfo_parse_fst (U : Nat) (unkn : List String) (pi : pidinfo_t) (line : List Char) :
    (pidinfo_parse U unkn pi line).1 = (pidinfo_parse U [] pi line).1 := by
  unfold pidinfo_parse
  refine ite_fst_congr _ _ _ _ _ rfl ?_
  refine ite_fst_congr _ _ _ _ _ rfl ?_
  refine ite_fst_congr _ _ _ _ _ rfl ?_
  refine ite_fst_congr _ _ _ _ _ rfl ?_
  refine ite_fst_congr _ _ _ _ _ rfl ?_
  refine ite_fst_congr _ _ _ _ _ rfl ?_
  refine ite_fst_congr _ _ _ _ _ rfl ?_
  refine ite_fst_congr _ _ _ _ _ rfl ?_
  refine ite_fst_congr _ _ _ _ _ rfl ?_
  refine ite_fst_congr _ _ _ _ _ rfl ?_
  refine ite_fst_congr _ _ _ _ _ rfl ?_
  exact ite_fst_congr _ _ _ _ _ rfl rfl

theorem meminfo_parse_fst (U : Nat) (unkn : List String) (mem : meminfo_t) (line : List Char) :
    (meminfo_parse U unkn mem line).1 = (meminfo_parse U [] mem line).1 := by
  unfold meminfo_parse
  refine ite_fst_congr _ _ _ _ _ rfl ?_
  refine ite_fst_congr _ _ _ _ _ rfl ?_
  refine ite_fst_congr _ _ _ _ _ rfl ?_
  refine ite_fst_congr _ _ _ _ _ rfl ?_
  refine ite_fst_congr _ _ _ _ _ rfl ?_
  exact ite_fst_congr _ _ _ _ _ rfl rfl

theorem foldlM_step {σ α : Type} (f : σ → α → Option σ) (s s1 : σ) (a : α) (l : List α)
    (h : f s a = some s1) : (a :: l).foldlM f s = l.foldlM f s1 := by
  rw [List.foldlM_cons, h]
  rfl

theorem foldlM_append_some {σ α : Type} (f : σ → α → Option σ) (s s1 : σ) (l1 l2 : List α)
    (h : l1.foldlM f s = some s1) : (l1 ++ l2).foldlM f s = l2.foldlM f s1 := by
  rw [List.foldlM_append, h]
  rfl

/-- Metadata lines while the section of the last process is read. -/
theorem load_meta_lines (U : Nat) (bodies : List (List Char))
    (hb : ∀ b ∈ bodies, ∀ c ∈ b, c ≠ '\r' ∧ c ≠ '\n') :
    ∀ (st : load_t) (L : List smapsproc_t) (r : smapsproc_t),
      st.snap.smapssnap_proclist = L ++ [r] → st.proc = some L.length →
      ∃ st1, (bodies.map (fun b => '#' :: b)).foldlM (load_cap_line U) st = some st1 ∧
        st1.snap.smapssnap_proclist = L ++ [{ r with
          smapsproc_pid := bodies.foldl (fun pi b => (pidinfo_parse U [] pi b).1)
            r.smapsproc_pid }] ∧
        st1.proc = st.proc ∧ st1.mapp = st.mapp := by
  induction bodies with
  | nil =>
    intro st L r hL hp
    exact ⟨st, rfl, hL, rfl, rfl⟩
  | cons b bodies ih =>
    intro st L r hL hp
    obtain ⟨st1, h1, h2, h3, h4⟩ := load_cap_line_meta U st L r hL hp b
      (hb b (List.mem_cons_self _ _))
    obtain ⟨st2, k1, k2, k3, k4⟩ := ih (fun x hx => hb x (List.mem_cons_of_mem _ hx)) st1 L _
      h2 (by rw [h3, hp])
    refine ⟨st2, ?_, ?_, by rw [k3, h3], by rw [k4, h4]⟩
    · rw [List.map_cons, foldlM_step _ _ _ _ _ h1]
      exact k1
    · rw [k2, List.foldl_cons, pidinfo_parse_fst]

/-- Counter lines while the last mapping of the last process is read. -/
theorem load_counter_lines (U : Nat) (cs : List (String × Nat))
    (hn : ∀ p ∈ cs, p.1 ∈ ["Size", "Rss", "Shared_Clean", "Shared_Dirty", "Private_Clean",
      "Private_Dirty"]) :
    ∀ (st : load_t) (L : List smapsproc_t) (r : smapsproc_t) (ms : List smapsmapp_t)
      (m1 : smapsmapp_t),
      st.snap.smapssnap_proclist = L ++ [r] → st.proc = some L.length →
      r.smapsproc_mapplist = ms ++ [m1] → st.mapp = some ms.length →
      ∃ st1, (cs.map (fun p => counter_line p.1 p.2)).foldlM (load_cap_line U) st = some st1 ∧
        st1.snap.smapssnap_proclist = L ++ [{ r with
          smapsproc_mapplist := ms ++ [{ m1 with
            smapsmapp_mem := cs.foldl
              (fun mem p => (meminfo_parse U [] mem (counter_line p.1 p.2)).1)
              m1.smapsmapp_mem }] }] ∧
        st1.proc = st.proc ∧ st1.mapp = st.mapp := by
  induction cs with
  | nil =>
    intro st L r ms m1 hL hp hr hm
    refine ⟨st, rfl, ?_, rfl, rfl⟩
    show st.snap.smapssnap_proclist = L ++ [{ r with smapsproc_mapplist := ms ++ [m1] }]
    rw [hL, ← hr]
  | cons p cs ih =>
    intro st L r ms m1 hL hp hr hm
    obtain ⟨st1, h1, h2, h3, h4⟩ := load_cap_line_counter U st L r ms m1 hL hp hr hm p.1 p.2
      (hn p (List.mem_cons_self _ _))
    obtain ⟨st2, k1, k2, k3, k4⟩ := ih (fun x hx => hn x (List.mem_cons_of_mem _ hx)) st1 L _
      ms _ h2 (by rw [h3, hp]) rfl (by rw [h4, hm])
    refine ⟨st2, ?_, ?_, by rw [k3, h3], by rw [k4, h4]⟩
    · rw [List.map_cons, foldlM_step _ _ _ _ _ h1]
      exact k1
    · rw [k2, List.foldl_cons, meminfo_parse_fst]

/-- The six counter lines of a mapping give back its counters. -/
theorem counter_lines_mem (U : Nat) (hU : 4294967296 ≤ U) (mem : meminfo_t)
    (h : mem.Size < UINT_MOD ∧ mem.Rss < UINT_MOD ∧ mem.Shared_Clean < UINT_MOD ∧
      mem.Shared_Dirty < UINT_MOD ∧ mem.Private_Clean < UINT_MOD ∧
      mem.Private_Dirty < UINT_MOD) (mem0 : meminfo_t) :
    [("Size", mem.Size), ("Rss", mem.Rss), ("Shared_Clean", mem.Shared_Clean),
      ("Shared_Dirty", mem.Shared_Dirty), ("Private_Clean", mem.Private_Clean),
      ("Private_Dirty", mem.Private_Dirty)].foldl
        (fun mem p => (meminfo_parse U [] mem (counter_line p.1 p.2)).1) mem0 = mem := by
  obtain ⟨h1, h2, h3, h4, h5, h6⟩ := h
  simp only [List.foldl_cons, List.foldl_nil]
  rw [(meminfo_parse_saved U hU [] _ _ h1).1, (meminfo_parse_saved U hU [] _ _ h2).2.1,
    (meminfo_parse_saved U hU [] _ _ h3).2.2.1, (meminfo_parse_saved U hU [] _ _ h4).2.2.2.1,
    (meminfo_parse_saved U hU [] _ _ h5).2.2.2.2.1,
    (meminfo_parse_saved U hU [] _ _ h6).2.2.2.2.2]

/-- The bodies of the metadata lines of `pid_lines`. -/
theorem pid_lines_eq (pi : pidinfo_t) :
    pid_lines pi = (["Name: ".data ++ pi.Name.data, "Pid: ".data ++ fmt_d pi.Pid,
      "PPid: ".data ++ fmt_d pi.PPid, "Threads: ".data ++ fmt_d pi.Threads] ++
      (if pi.VmSize ≠ 0 ∨ pi.VmLck ≠ 0 ∨ pi.VmRSS ≠ 0 ∨ pi.VmData ≠ 0 ∨
          pi.VmStk ≠ 0 ∨ pi.VmExe ≠ 0 ∨ pi.VmLib ≠ 0 ∨ pi.VmPTE ≠ 0 then
        ["VmSize: ".data ++ fmt_u pi.VmSize, "VmLck: ".data ++ fmt_u pi.VmLck,
         "VmRSS: ".data ++ fmt_u pi.VmRSS, "VmData: ".data ++ fmt_u pi.VmData,
         "VmStk: ".data ++ fmt_u pi.VmStk, "VmExe: ".data ++ fmt_u pi.VmExe,
         "VmLib: ".data ++ fmt_u pi.VmLib, "VmPTE: ".data ++ fmt_u pi.VmPTE]
      else [])).map (fun b => '#' :: b) := by
  unfold pid_lines
  split <;> rfl

/-- The metadata lines of a process give back its record `smapsproc_pid`. -/
theorem pid_lines_pid (U : Nat) (hU : 4294967296 ≤ U) (pi : pidinfo_t) (h : pid_parsed pi) :
    (["Name: ".data ++ pi.Name.data, "Pid: ".data ++ fmt_d pi.Pid,
      "PPid: ".data ++ fmt_d pi.PPid, "Threads: ".data ++ fmt_d pi.Threads] ++
      (if pi.VmSize ≠ 0 ∨ pi.VmLck ≠ 0 ∨ pi.VmRSS ≠ 0 ∨ pi.VmData ≠ 0 ∨
          pi.VmStk ≠ 0 ∨ pi.VmExe ≠ 0 ∨ pi.VmLib ≠ 0 ∨ pi.VmPTE ≠ 0 then
        ["VmSize: ".data ++ fmt_u pi.VmSize, "VmLck: ".data ++ fmt_u pi.VmLck,
         "VmRSS: ".data ++ fmt_u pi.VmRSS, "VmData: ".data ++ fmt_u pi.VmData,
         "VmStk: ".data ++ fmt_u pi.VmStk, "VmExe: ".data ++ fmt_u pi.VmExe,
         "VmLib: ".data ++ fmt_u pi.VmLib, "VmPTE: ".data ++ fmt_u pi.VmPTE]
      else [])).foldl (fun pi b => (pidinfo_parse U [] pi b).1)
        { Name := "<noname>", Pid := pi.Pid } = pi := by
  obtain ⟨⟨n1, n2⟩, ⟨⟨a1, a2⟩, ⟨b1, b2⟩, ⟨c1, c2⟩⟩, v1, v2, v3, v4, v5, v6, v7, v8⟩ := h
  rw [List.foldl_append]
  simp only [List.foldl_cons, List.foldl_nil]
  rw [(pidinfo_parse_saved U hU [] _).1 _ n1 n2,
    ((pidinfo_parse_saved U hU [] _).2.1 _ a1 a2).1,
    ((pidinfo_parse_saved U hU [] _).2.1 _ b1 b2).2.1,
    ((pidinfo_parse_saved U hU [] _).2.1 _ c1 c2).2.2]
  split
  · simp only [List.foldl_cons, List.foldl_nil]
    rw [((pidinfo_parse_saved U hU [] _).2.2 _ v1).1,
      ((pidinfo_parse_saved U hU [] _).2.2 _ v2).2.1,
      ((pidinfo_parse_saved U hU [] _).2.2 _ v3).2.2.1,
      ((pidinfo_parse_saved U hU [] _).2.2 _ v4).2.2.2.1,
      ((pidinfo_parse_saved U hU [] _).2.2 _ v5).2.2.2.2.1,
      ((pidinfo_parse_saved U hU [] _).2.2 _ v6).2.2.2.2.2.1,
      ((pidinfo_parse_saved U hU [] _).2.2 _ v7).2.2.2.2.2.2.1,
      ((pidinfo_parse_saved U hU [] _).2.2 _ v8).2.2.2.2.2.2.2]
  · rename_i hz
    simp only [not_or, not_not] at hz
    obtain ⟨z1, z2, z3, z4, z5, z6, z7, z8⟩ := hz
    simp only [List.foldl_nil]
    cases pi
    simp only at z1 z2 z3 z4 z5 z6 z7 z8
    subst z1 z2 z3 z4 z5 z6 z7 z8
    rfl

theorem pid_bodies_line (pi : pidinfo_t) (h : pid_parsed pi) :
    ∀ b ∈ (["Name: ".data ++ pi.Name.data, "Pid: ".data ++ fmt_d pi.Pid,
      "PPid: ".data ++ fmt_d pi.PPid, "Threads: ".data ++ fmt_d pi.Threads] ++
      (if pi.VmSize ≠ 0 ∨ pi.VmLck ≠ 0 ∨ pi.VmRSS ≠ 0 ∨ pi.VmData ≠ 0 ∨
          pi.VmStk ≠ 0 ∨ pi.VmExe ≠ 0 ∨ pi.VmLib ≠ 0 ∨ pi.VmPTE ≠ 0 then
        ["VmSize: ".data ++ fmt_u pi.VmSize, "VmLck: ".data ++ fmt_u pi.VmLck,
         "VmRSS: ".data ++ fmt_u pi.VmRSS, "VmData: ".data ++ fmt_u pi.VmData,
         "VmStk: ".data ++ fmt_u pi.VmStk, "VmExe: ".data ++ fmt_u pi.VmExe,
         "VmLib: ".data ++ fmt_u pi.VmLib, "VmPTE: ".data ++ fmt_u pi.VmPTE]
      else [])), ∀ c ∈ b, c ≠ '\r' ∧ c ≠ '\n' := by
  have hk : ∀ (k : String) (v : List Char), (∀ c ∈ k.data, c ≠ '\r' ∧ c ≠ '\n') →
      is_token v → ∀ c ∈ k.data ++ v, c ≠ '\r' ∧ c ≠ '\n' := by
    intro k v h1 h2 c hc
    rcases List.mem_append.mp hc with h3 | h3
    · exact h1 c h3
    · exact token_line v h2 c h3
  intro b hb
  rcases List.mem_append.mp hb with h1 | h1
  · simp only [List.mem_cons, List.mem_singleton, List.not_mem_nil, or_false] at h1
    rcases h1 with rfl | rfl | rfl | rfl
    · exact hk "Name: " _ (by decide) h.1.1
    · exact hk "Pid: " _ (by decide) (fmt_d_token _)
    · exact hk "PPid: " _ (by decide) (fmt_d_token _)
    · exact hk "Threads: " _ (by decide) (fmt_d_token _)
  · split at h1
    · simp only [List.mem_cons, List.mem_singleton, List.not_mem_nil, or_false] at h1
      rcases h1 with rfl | rfl | rfl | rfl | rfl | rfl | rfl | rfl
      · exact hk "VmSize: " _ (by decide) (fmt_u_token _)
      · exact hk "VmLck: " _ (by decide) (fmt_u_token _)
      · exact hk "VmRSS: " _ (by decide) (fmt_u_token _)
      · exact hk "VmData: " _ (by decide) (fmt_u_token _)
      · exact hk "VmStk: " _ (by decide) (fmt_u_token _)
      · exact hk "VmExe: " _ (by decide) (fmt_u_token _)
      · exact hk "VmLib: " _ (by decide) (fmt_u_token _)
      · exact hk "VmPTE: " _ (by decide) (fmt_u_token _)
    · simp at h1

/-- The seven lines of a mapping while the section of the last process is
read: the mapping is appended with its fields. -/
theorem load_mapp_lines (U : Nat) (hU : 4294967296 ≤ U) (st : load_t)
    (L : List smapsproc_t) (r : smapsproc_t)
    (hL : st.snap.smapssnap_proclist = L ++ [r]) (hp : st.proc = some L.length)
    (m : smapsmapp_t) (hm : mapp_parsed m)
    (hne : m.smapsmapp_map.prot.data ≠ [] ∧ m.smapsmapp_map.node.data ≠ []) :
    ∃ st1 m1, (mapp_lines m).foldlM (load_cap_line U) st = some st1 ∧
      st1.snap.smapssnap_proclist = L ++ [{ r with
        smapsproc_mapplist := r.smapsproc_mapplist ++ [m1] }] ∧
      st1.proc = st.proc ∧
      m1.smapsmapp_map = m.smapsmapp_map ∧ m1.smapsmapp_mem = m.smapsmapp_mem := by
  obtain ⟨st1, m1, h1, h2, h3, h4, h5, h6⟩ := load_cap_line_range U hU st L r hL hp m hm hne
  obtain ⟨st2, k1, k2, k3, -⟩ := load_counter_lines U
    [("Size", m.smapsmapp_mem.Size), ("Rss", m.smapsmapp_mem.Rss),
      ("Shared_Clean", m.smapsmapp_mem.Shared_Clean),
      ("Shared_Dirty", m.smapsmapp_mem.Shared_Dirty),
      ("Private_Clean", m.smapsmapp_mem.Private_Clean),
      ("Private_Dirty", m.smapsmapp_mem.Private_Dirty)]
    (by
      intro p hp
      simp only [List.mem_cons, List.mem_singleton, List.not_mem_nil, or_false] at hp
      rcases hp with rfl | rfl | rfl | rfl | rfl | rfl <;> simp)
    st1 L _ r.smapsproc_mapplist m1 h2 (by rw [h3, hp]) rfl h4
  rw [counter_lines_mem U hU m.smapsmapp_mem hm.2.2.2.2] at k2
  refine ⟨st2, { m1 with smapsmapp_mem := m.smapsmapp_mem }, ?_, k2, by rw [k3, h3], h5, rfl⟩
  have e : mapp_lines m = range_line m.smapsmapp_map ::
      [("Size", m.smapsmapp_mem.Size), ("Rss", m.smapsmapp_mem.Rss),
        ("Shared_Clean", m.smapsmapp_mem.Shared_Clean),
        ("Shared_Dirty", m.smapsmapp_mem.Shared_Dirty),
        ("Private_Clean", m.smapsmapp_mem.Private_Clean),
        ("Private_Dirty", m.smapsmapp_mem.Private_Dirty)].map
          (fun p => counter_line p.1 p.2) := rfl
  rw [e, foldlM_step _ _ _ _ _ h1]
  exact k1

/-- The lines of the mappings of a process while its section is read. -/
theorem load_mapps_lines (U : Nat) (hU : 4294967296 ≤ U) (ms : List smapsmapp_t)
    (hms : ∀ m ∈ ms, mapp_parsed m ∧
      m.smapsmapp_map.prot.data ≠ [] ∧ m.smapsmapp_map.node.data ≠ []) :
    ∀ (st : load_t) (L : List smapsproc_t) (r : smapsproc_t),
      st.snap.smapssnap_proclist = L ++ [r] → st.proc = some L.length →
      ∃ st1 ms1, ((ms.map mapp_lines).flatten).foldlM (load_cap_line U) st = some st1 ∧
        st1.snap.smapssnap_proclist = L ++ [{ r with
          smapsproc_mapplist := r.smapsproc_mapplist ++ ms1 }] ∧
        st1.proc = st.proc ∧
        ms1.map (fun m => (m.smapsmapp_map, m.smapsmapp_mem))
          = ms.map (fun m => (m.smapsmapp_map, m.smapsmapp_mem)) := by
  induction ms with
  | nil =>
    intro st L r hL hp
    refine ⟨st, [], rfl, ?_, rfl, rfl⟩
    rw [hL, List.append_nil]
  | cons m ms ih =>
    intro st L r hL hp
    obtain ⟨st1, m1, h1, h2, h3, h4, h5⟩ := load_mapp_lines U hU st L r hL hp m
      (hms m (List.mem_cons_self _ _)).1 (hms m (List.mem_cons_self _ _)).2
    obtain ⟨st2, ms1, k1, k2, k3, k4⟩ := ih (fun x hx => hms x (List.mem_cons_of_mem _ hx))
      st1 L _ h2 (by rw [h3, hp])
    refine ⟨st2, m1 :: ms1, ?_, ?_, by rw [k3, h3], ?_⟩
    · rw [List.map_cons, List.flatten_cons, foldlM_append_some _ _ _ _ _ h1]
      exact k1
    · rw [k2]
      simp
    · rw [List.map_cons, List.map_cons, k4, h4, h5]

/-- The section of a process of a saved capture: a record with the fields of
the process is appended to the process list. -/
theorem load_proc_lines (U : Nat) (hU : 4294967296 ≤ U) (st : load_t) (p : smapsproc_t)
    (hp : proc_parsed p) (h0 : 0 < p.smapsproc_pid.Pid)
    (hne : ∀ m ∈ p.smapsproc_mapplist,
      m.smapsmapp_map.prot.data ≠ [] ∧ m.smapsmapp_map.node.data ≠ [])
    (hnew : ∀ q ∈ st.snap.smapssnap_proclist,
      q.smapsproc_pid.Pid ≠ p.smapsproc_pid.Pid) :
    ∃ st1 r1, (proc_lines p).foldlM (load_cap_line U) st = some st1 ∧
      st1.snap.smapssnap_proclist = st.snap.smapssnap_proclist ++ [r1] ∧
      cap_fields r1 = cap_fields p := by
  obtain ⟨st1, r, h1, h2, h3, -, h5, h6⟩ := load_cap_line_header U hU st p.smapsproc_pid.Pid h0
    hp.1.2.1.1.2 hnew
  obtain ⟨st2, k1, k2, k3, -⟩ := load_meta_lines U _ (pid_bodies_line p.smapsproc_pid hp.1)
    st1 _ r h2 h3
  rw [h5, pid_lines_pid U hU p.smapsproc_pid hp.1] at k2
  obtain ⟨st3, ms1, j1, j2, -, j4⟩ := load_mapps_lines U hU p.smapsproc_mapplist
    (fun m hm => ⟨hp.2 m hm, hne m hm⟩) st2 _ _ k2 (by rw [k3, h3])
  refine ⟨st3, _, ?_, j2, ?_⟩
  · unfold proc_lines
    rw [foldlM_step _ _ _ _ _ h1, List.append_assoc, pid_lines_eq,
      foldlM_append_some _ _ _ _ _ k1, foldlM_append_some _ _ _ _ _ j1]
    exact load_cap_line_blank U st3
  · unfold cap_fields
    simp only [h6, List.nil_append, j4]

/-- The sections of the processes of a saved capture. -/
theorem load_procs_lines (U : Nat) (hU : 4294967296 ≤ U) (procs : List smapsproc_t)
    (hp : ∀ p ∈ procs, proc_parsed p ∧ 0 < p.smapsproc_pid.Pid ∧
      ∀ m ∈ p.smapsproc_mapplist,
        m.smapsmapp_map.prot.data ≠ [] ∧ m.smapsmapp_map.node.data ≠ []) :
    ∀ (st : load_t),
      ((st.snap.smapssnap_proclist ++ procs).map (fun q => q.smapsproc_pid.Pid)).Nodup →
      ∃ st1 R, ((procs.map proc_lines).flatten).foldlM (load_cap_line U) st = some st1 ∧
        st1.snap.smapssnap_proclist = st.snap.smapssnap_proclist ++ R ∧
        R.map cap_fields = procs.map cap_fields := by
  induction procs with
  | nil =>
    intro st _
    exact ⟨st, [], rfl, by rw [List.append_nil], rfl⟩
  | cons p procs ih =>
    intro st hnd
    rw [List.map_append, List.map_cons] at hnd
    have hnew : ∀ q ∈ st.snap.smapssnap_proclist,
        q.smapsproc_pid.Pid ≠ p.smapsproc_pid.Pid := by
      intro q hq he
      have h1 := (List.nodup_append.mp hnd).2.2
      exact h1 (List.mem_map.mpr ⟨q, hq, rfl⟩) (by rw [he]; exact List.mem_cons_self _ _)
    obtain ⟨hp1, hp2, hp3⟩ := hp p (List.mem_cons_self _ _)
    obtain ⟨st1, r1, h1, h2, h3⟩ := load_proc_lines U hU st p hp1 hp2 hp3 hnew
    have hpid : r1.smapsproc_pid.Pid = p.smapsproc_pid.Pid := by
      have := congrArg (fun x => x.1.Pid) h3
      exact this
    obtain ⟨st2, R, k1, k2, k3⟩ := ih (fun x hx => hp x (List.mem_cons_of_mem _ hx)) st1 (by
      rw [h2, List.map_append, List.map_append, List.map_cons, List.map_nil, hpid,
        List.append_assoc]
      exact hnd)
    refine ⟨st2, r1 :: R, ?_, ?_, ?_⟩
    · rw [List.map_cons, List.flatten_cons, foldlM_append_some _ _ _ _ _ h1]
      exact k1
    · rw [k2, h2, List.append_assoc]
      rfl
    · rw [List.map_cons, List.map_cons, h3, k3]

/-! ## The records that the capture parser makes -/

theorem long_to_int_range (x : Int) : INT_MIN ≤ long_to_int x ∧ long_to_int x ≤ INT_MAX := by
  unfold long_to_int INT_MIN INT_MAX
  split
  · rename_i h
    constructor
    · have := Int.emod_nonneg x (by decide : (4294967296 : Int) ≠ 0)
      omega
    · exact h
  · rename_i h
    have := Int.emod_lt_of_pos x (by decide : (0 : Int) < 4294967296)
    omega

theorem slice_token (s : List Char) : is_token (slice s (-1)).1 := by
  intro c hc
  unfold slice at hc
  rw [if_pos (by decide)] at hc
  have := List.mem_takeWhile_imp hc
  simpa using this

theorem slice_mem (s : List Char) (sep : Int) :
    (∀ c ∈ (slice s sep).1, c ∈ s) ∧ (∀ c ∈ (slice s sep).2, c ∈ s) := by
  unfold slice
  split
  · constructor
    · intro c hc
      exact (List.dropWhile_sublist _).subset ((List.takeWhile_sublist _).subset hc)
    · intro c hc
      exact (List.dropWhile_sublist _).subset ((List.dropWhile_sublist _).subset
        (List.mem_of_mem_drop hc))
  · constructor
    · intro c hc
      exact (List.dropWhile_sublist _).subset ((List.takeWhile_sublist _).subset hc)
    · intro c hc
      exact (List.dropWhile_sublist _).subset ((List.dropWhile_sublist _).subset
        (List.mem_of_mem_drop hc))

theorem head_dropWhile (p : Char → Bool) (l : List Char) (c : Char)
    (h : (l.dropWhile p).head? = some c) : p c = false := by
  induction l with
  | nil => simp at h
  | cons a l ih =>
    rw [List.dropWhile_cons] at h
    split at h
    · exact ih h
    · rename_i hp
      simp only [List.head?_cons, Option.some.injEq] at h
      subst h
      simpa using hp

theorem head_takeWhile (p : Char → Bool) (l : List Char) (c : Char)
    (h : (l.takeWhile p).head? = some c) : l.head? = some c := by
  cases l with
  | nil => simp at h
  | cons a l =>
    rw [List.takeWhile_cons] at h
    split at h
    · exact h
    · simp at h

/-- The path that `slice` cuts at the end of a range line. -/
theorem slice_path (s : List Char) :
    (∀ c, (slice s 0).1.head? = some c → ¬ c.toNat ≤ 32) ∧
    (∀ c ∈ (slice s 0).1, c.toNat ≠ 0) := by
  unfold slice
  rw [if_neg (by decide)]
  have h2 : ∀ c ∈ (s.dropWhile (fun c => decide (0 < c.toNat ∧ c.toNat ≤ 32))).takeWhile
      (fun c => decide (¬ (c.toNat : Int) = 0)), c.toNat ≠ 0 := by
    intro c hc
    have := List.mem_takeWhile_imp hc
    simp only [decide_eq_true_eq] at this
    exact_mod_cast this
  refine ⟨?_, h2⟩
  intro c hc hle
  have h0 := h2 c (List.mem_of_mem_head? hc)
  have h1 := head_dropWhile _ _ c (head_takeWhile _ _ c hc)
  simp only [decide_eq_false_iff_not, not_and] at h1
  exact h1 (by omega) hle

theorem ite_fst_prop {α β : Type} (P : α → Prop) (c : Prop) [Decidable c] (x y : α × β)
    (hx : P x.1) (hy : P y.1) : P (if c then x else y).1 := by
  split
  · exact hx
  · exact hy

theorem pidinfo_parse_parsed (U : Nat) (unkn : List String) (pi : pidinfo_t)
    (line : List Char) (h : pid_parsed pi) : pid_parsed (pidinfo_parse U unkn pi line).1 := by
  obtain ⟨hn, ⟨a, b, c⟩, v1, v2, v3, v4, v5, v6, v7, v8⟩ := h
  have hm : ∀ x : Nat, x % UINT_MOD < UINT_MOD := fun x => Nat.mod_lt _ (by decide)
  have hr := long_to_int_range
  unfold pidinfo_parse
  refine ite_fst_prop pid_parsed _ _ _ ⟨⟨?_, ?_⟩, ⟨a, b, c⟩, v1, v2, v3, v4, v5, v6, v7, v8⟩ ?_
  · intro ch hch
    exact slice_token _ ch ((List.dropWhile_sublist _).subset hch)
  · intro hh
    have := head_dropWhile _ _ _ hh
    simp at this
  refine ite_fst_prop pid_parsed _ _ _ ⟨hn, ⟨hr _, b, c⟩, v1, v2, v3, v4, v5, v6, v7, v8⟩ ?_
  refine ite_fst_prop pid_parsed _ _ _ ⟨hn, ⟨a, hr _, c⟩, v1, v2, v3, v4, v5, v6, v7, v8⟩ ?_
  refine ite_fst_prop pid_parsed _ _ _ ⟨hn, ⟨a, b, hr _⟩, v1, v2, v3, v4, v5, v6, v7, v8⟩ ?_
  refine ite_fst_prop pid_parsed _ _ _ ⟨hn, ⟨a, b, c⟩, hm _, v2, v3, v4, v5, v6, v7, v8⟩ ?_
  refine ite_fst_prop pid_parsed _ _ _ ⟨hn, ⟨a, b, c⟩, v1, hm _, v3, v4, v5, v6, v7, v8⟩ ?_
  refine ite_fst_prop pid_parsed _ _ _ ⟨hn, ⟨a, b, c⟩, v1, v2, hm _, v4, v5, v6, v7, v8⟩ ?_
  refine ite_fst_prop pid_parsed _ _ _ ⟨hn, ⟨a, b, c⟩, v1, v2, v3, hm _, v5, v6, v7, v8⟩ ?_
  refine ite_fst_prop pid_parsed _ _ _ ⟨hn, ⟨a, b, c⟩, v1, v2, v3, v4, hm _, v6, v7, v8⟩ ?_
  refine ite_fst_prop pid_parsed _ _ _ ⟨hn, ⟨a, b, c⟩, v1, v2, v3, v4, v5, hm _, v7, v8⟩ ?_
  refine ite_fst_prop pid_parsed _ _ _ ⟨hn, ⟨a, b, c⟩, v1, v2, v3, v4, v5, v6, hm _, v8⟩ ?_
  exact ite_fst_prop pid_parsed _ _ _ ⟨hn, ⟨a, b, c⟩, v1, v2, v3, v4, v5, v6, v7, hm _⟩
    ⟨hn, ⟨a, b, c⟩, v1, v2, v3, v4, v5, v6, v7, v8⟩

theorem meminfo_parse_parsed (U : Nat) (unkn : List String) (mem : meminfo_t)
    (line : List Char)
    (h : mem.Size < UINT_MOD ∧ mem.Rss < UINT_MOD ∧ mem.Shared_Clean < UINT_MOD ∧
      mem.Shared_Dirty < UINT_MOD ∧ mem.Private_Clean < UINT_MOD ∧
      mem.Private_Dirty < UINT_MOD) :
    (meminfo_parse U unkn mem line).1.Size < UINT_MOD ∧
    (meminfo_parse U unkn mem line).1.Rss < UINT_MOD ∧
    (meminfo_parse U unkn mem line).1.Shared_Clean < UINT_MOD ∧
    (meminfo_parse U unkn mem line).1.Shared_Dirty < UINT_MOD ∧
    (meminfo_parse U unkn mem line).1.Private_Clean < UINT_MOD ∧
    (meminfo_parse U unkn mem line).1.Private_Dirty < UINT_MOD := by
  obtain ⟨v1, v2, v3, v4, v5, v6⟩ := h
  have hm : ∀ x : Nat, x % UINT_MOD < UINT_MOD := fun x => Nat.mod_lt _ (by decide)
  unfold meminfo_parse
  refine ite_fst_prop (fun m : meminfo_t => m.Size < UINT_MOD ∧ m.Rss < UINT_MOD ∧
    m.Shared_Clean < UINT_MOD ∧ m.Shared_Dirty < UINT_MOD ∧ m.Private_Clean < UINT_MOD ∧
    m.Private_Dirty < UINT_MOD) _ _ _ ⟨hm _, v2, v3, v4, v5, v6⟩ ?_
  refine ite_fst_prop (fun m : meminfo_t => m.Size < UINT_MOD ∧ m.Rss < UINT_MOD ∧
    m.Shared_Clean < UINT_MOD ∧ m.Shared_Dirty < UINT_MOD ∧ m.Private_Clean < UINT_MOD ∧
    m.Private_Dirty < UINT_MOD) _ _ _ ⟨v1, hm _, v3, v4, v5, v6⟩ ?_
  refine ite_fst_prop (fun m : meminfo_t => m.Size < UINT_MOD ∧ m.Rss < UINT_MOD ∧
    m.Shared_Clean < UINT_MOD ∧ m.Shared_Dirty < UINT_MOD ∧ m.Private_Clean < UINT_MOD ∧
    m.Private_Dirty < UINT_MOD) _ _ _ ⟨v1, v2, hm _, v4, v5, v6⟩ ?_
  refine ite_fst_prop (fun m : meminfo_t => m.Size < UINT_MOD ∧ m.Rss < UINT_MOD ∧
    m.Shared_Clean < UINT_MOD ∧ m.Shared_Dirty < UINT_MOD ∧ m.Private_Clean < UINT_MOD ∧
    m.Private_Dirty < UINT_MOD) _ _ _ ⟨v1, v2, v3, hm _, v5, v6⟩ ?_
  refine ite_fst_prop (fun m : meminfo_t => m.Size < UINT_MOD ∧ m.Rss < UINT_MOD ∧
    m.Shared_Clean < UINT_MOD ∧ m.Shared_Dirty < UINT_MOD ∧ m.Private_Clean < UINT_MOD ∧
    m.Private_Dirty < UINT_MOD) _ _ _ ⟨v1, v2, v3, v4, hm _, v6⟩ ?_
  exact ite_fst_prop (fun m : meminfo_t => m.Size < UINT_MOD ∧ m.Rss < UINT_MOD ∧
    m.Shared_Clean < UINT_MOD ∧ m.Shared_Dirty < UINT_MOD ∧ m.Private_Clean < UINT_MOD ∧
    m.Private_Dirty < UINT_MOD) _ _ _ ⟨v1, v2, v3, v4, v5, hm _⟩ ⟨v1, v2, v3, v4, v5, v6⟩

/-- The mapping that a range line makes. -/
theorem load_cap_range_parsed (U : Nat) (uid : Int) (proc : smapsproc_t) (data : List Char)
    (hd : ∀ c ∈ data, c ≠ '\r' ∧ c ≠ '\n') :
    ∃ m1, load_cap_range U uid proc data
        = { proc with smapsproc_mapplist := proc.smapsproc_mapplist ++ [m1] } ∧
      mapp_parsed m1 := by
  have hm : ∀ x : Nat, x % UINT_MOD < UINT_MOD := fun x => Nat.mod_lt _ (by decide)
  unfold load_cap_range smapsproc_add_mapping
  have hz : (0 : Nat) < UINT_MOD := by decide
  refine ⟨_, rfl, ⟨hm _, hm _, hm _, hm _⟩, ⟨slice_token _, slice_token _⟩, ?_, ?_,
    ⟨hz, hz, hz, hz, hz, hz⟩⟩
  · generalize hs : slice (slice (slice (slice (slice (slice data 45).2 (-1)).2 (-1)).2
      (-1)).2 (-1)).2 (-1) = s6
    have hsub : ∀ c ∈ (slice s6.2 0).1, c ∈ data := by
      intro c hc
      have h7 := (slice_mem s6.2 0).1 c hc
      rw [← hs] at h7
      exact (slice_mem _ _).2 c ((slice_mem _ _).2 c ((slice_mem _ _).2 c
        ((slice_mem _ _).2 c ((slice_mem _ _).2 c ((slice_mem _ _).2 c h7)))))
    obtain ⟨q1, q2⟩ := slice_path s6.2
    cases hp : (slice s6.2 0).1 with
    | nil =>
      simp only [or_true, if_true]
      exact ⟨by decide, by decide, by decide⟩
    | cons a t =>
      rw [hp] at q1 q2 hsub
      simp only [reduceCtorEq, Option.some.injEq, or_self, if_false, Option.getD_some]
      exact ⟨by simp, q1, fun c hc => ⟨q2 c hc, hd c (hsub c hc)⟩⟩
  · generalize (slice (slice (slice (slice (slice (slice (slice data 45).2 (-1)).2 (-1)).2
      (-1)).2 (-1)).2 (-1)).2 0).1 = path
    cases path with
    | nil => rfl
    | cons a t =>
      simp only [reduceCtorEq, Option.some.injEq, or_self, if_false, Option.getD_some]
      rfl

theorem mem_set_cases {α : Type} (l : List α) (i : Nat) (a x : α) (h : x ∈ l.set i a) :
    x ∈ l ∨ x = a := by
  induction l generalizing i with
  | nil => simp at h
  | cons b l ih =>
    cases i with
    | zero =>
      simp only [List.set_cons_zero, List.mem_cons] at h
      rcases h with h | h
      · exact Or.inr h
      · exact Or.inl (List.mem_cons_of_mem _ h)
    | succ i =>
      simp only [List.set_cons_succ, List.mem_cons] at h
      rcases h with h | h
      · exact Or.inl (by rw [h]; exact List.mem_cons_self _ _)
      · rcases ih i h with h1 | h1
        · exact Or.inl (List.mem_cons_of_mem _ h1)
        · exact Or.inr h1

/-- One line of the capture parser keeps the records as the parser makes
them. -/
theorem load_cap_line_parsed (U : Nat) (st st1 : load_t) (line : List Char)
    (h : load_cap_line U st line = some st1)
    (hinv : ∀ r ∈ st.snap.smapssnap_proclist, proc_parsed r) :
    ∀ r ∈ st1.snap.smapssnap_proclist, proc_parsed r := by
  have hdata : ∀ c ∈ line.takeWhile (fun c => decide (c ≠ '\r' ∧ c ≠ '\n')),
      c ≠ '\r' ∧ c ≠ '\n' := by
    intro c hc
    simpa using List.mem_takeWhile_imp hc
  unfold load_cap_line at h
  generalize line.takeWhile (fun c => decide (c ≠ '\r' ∧ c ≠ '\n')) = data at h hdata
  by_cases h1 : data = []
  · rw [if_pos h1] at h
    simp only [Option.some.injEq] at h
    rw [← h]
    exact hinv
  rw [if_neg h1] at h
  by_cases h2 : data.take 3 = "==>".data
  · rw [if_pos h2] at h
    cases hh : load_cap_header U data with
    | none => rw [hh] at h; cases h
    | some pid =>
      rw [hh] at h
      simp only [Option.some.injEq] at h
      rw [← h]
      have hpid : INT_MIN ≤ pid ∧ pid ≤ INT_MAX := by
        unfold load_cap_header at hh
        split at hh
        · simp only [Option.some.injEq] at hh
          rw [← hh]
          exact long_to_int_range _
        · cases hh
      unfold smapssnap_add_process
      cases hf : smapssnap_find_process st.snap.smapssnap_proclist pid
          st.snap.smapssnap_proclist.length with
      | some i => exact hinv
      | none =>
        intro r hr
        simp only [List.mem_append, List.mem_singleton] at hr
        rcases hr with hr | hr
        · exact hinv r hr
        · rw [hr]
          have hz : (0 : Nat) < UINT_MOD := by decide
          have hi : INT_MIN ≤ (0 : Int) ∧ (0 : Int) ≤ INT_MAX := by decide
          have hn : is_token "<noname>".data ∧ "<noname>".data.head? ≠ some '-' := by
            unfold is_token
            decide
          exact ⟨⟨hn, ⟨hpid, hi, hi⟩, hz, hz, hz, hz, hz, hz, hz, hz⟩,
            fun m hm => by simp at hm⟩
  rw [if_neg h2] at h
  by_cases h3 : data.head? = some '#'
  · rw [if_pos h3] at h
    cases hp : st.proc with
    | none => rw [hp] at h; cases h
    | some p =>
      rw [hp] at h
      simp only at h
      cases hq : st.snap.smapssnap_proclist[p]? with
      | none => rw [hq] at h; cases h
      | some proc =>
        rw [hq] at h
        simp only [Option.some.injEq] at h
        rw [← h]
        intro r hr
        have hpp := hinv proc (List.getElem?_mem hq)
        rcases mem_set_cases _ _ _ _ hr with hr | hr
        · exact hinv r hr
        · rw [hr]
          exact ⟨pidinfo_parse_parsed U _ _ _ hpp.1, hpp.2⟩
  rw [if_neg h3] at h
  by_cases h4 : hexterm data = some '-'
  · rw [if_pos h4] at h
    cases hp : st.proc with
    | none => rw [hp] at h; cases h
    | some p =>
      rw [hp] at h
      simp only at h
      cases hq : st.snap.smapssnap_proclist[p]? with
      | none => rw [hq] at h; cases h
      | some proc =>
        rw [hq] at h
        simp only [Option.some.injEq] at h
        rw [← h]
        intro r hr
        have hpp := hinv proc (List.getElem?_mem hq)
        rcases mem_set_cases _ _ _ _ hr with hr | hr
        · exact hinv r hr
        · obtain ⟨m1, e1, e2⟩ := load_cap_range_parsed U st.mapp_uid proc data hdata
          rw [hr, e1]
          refine ⟨hpp.1, ?_⟩
          intro m hm
          simp only [List.mem_append, List.mem_singleton] at hm
          rcases hm with hm | hm
          · exact hpp.2 m hm
          · rw [hm]; exact e2
  · rw [if_neg h4] at h
    cases hm : st.mapp with
    | none => rw [hm] at h; cases h
    | some m =>
      cases hp : st.proc with
      | none => rw [hm, hp] at h; cases h
      | some p =>
        rw [hm, hp] at h
        simp only at h
        cases hq : st.snap.smapssnap_proclist[p]? with
        | none => rw [hq] at h; cases h
        | some proc =>
          rw [hq] at h
          simp only at h
          cases hmm : proc.smapsproc_mapplist[m]? with
          | none => rw [hmm] at h; cases h
          | some mapp =>
            rw [hmm] at h
            simp only [Option.some.injEq] at h
            rw [← h]
            intro r hr
            have hpp := hinv proc (List.getElem?_mem hq)
            rcases mem_set_cases _ _ _ _ hr with hr | hr
            · exact hinv r hr
            · rw [hr]
              refine ⟨hpp.1, ?_⟩
              intro x hx
              rcases mem_set_cases _ _ _ _ hx with hx | hx
              · exact hpp.2 x hx
              · have hmp := hpp.2 mapp (List.getElem?_mem hmm)
                rw [hx]
                exact ⟨hmp.1, hmp.2.1, hmp.2.2.1, hmp.2.2.2.1,
                  meminfo_parse_parsed U _ _ _ hmp.2.2.2.2⟩

/-- The capture parser makes records as `proc_parsed` describes them. -/
theorem load_cap_parsed (U : Nat) (st st1 : load_t) (path : String) (text : List Char)
    (h : smapssnap_load_cap U st path text = some st1)
    (hinv : ∀ r ∈ st.snap.smapssnap_proclist, proc_parsed r) :
    ∀ r ∈ st1.snap.smapssnap_proclist, proc_parsed r := by
  unfold smapssnap_load_cap at h
  have hfold : ∀ (lines : List (List Char)) (s s1 : load_t),
      lines.foldlM (load_cap_line U) s = some s1 →
      (∀ r ∈ s.snap.smapssnap_proclist, proc_parsed r) →
      ∀ r ∈ s1.snap.smapssnap_proclist, proc_parsed r := by
    intro lines
    induction lines with
    | nil =>
      intro s s1 hs hi
      simp only [List.foldlM_nil] at hs
      cases hs
      exact hi
    | cons l lines ih =>
      intro s s1 hs hi
      rw [List.foldlM_cons] at hs
      cases hl : load_cap_line U s l with
      | none => rw [hl] at hs; cases hs
      | some s2 =>
        rw [hl] at hs
        exact ih s2 s1 hs (load_cap_line_parsed U s s2 l hl hi)
  exact hfold _ _ _ h hinv

/-! ## Round trip of a capture -/

theorem header_line_chars (pid : Int) : ∀ c ∈ header_line pid, c ≠ '\r' ∧ c ≠ '\n' := by
  unfold header_line
  simp only [List.forall_mem_append, and_assoc]
  exact ⟨by decide, token_line _ (fmt_d_token pid), by decide⟩

theorem counter_line_chars (name : String) (v : Nat)
    (hn : name ∈ ["Size", "Rss", "Shared_Clean", "Shared_Dirty", "Private_Clean",
      "Private_Dirty"]) : ∀ c ∈ counter_line name v, c ≠ '\r' ∧ c ≠ '\n' := by
  obtain ⟨hc, -⟩ := counter_key_chars name hn
  unfold counter_line fmt_left fmt_right
  simp only [List.forall_mem_append, and_assoc]
  exact ⟨hc, by decide, blanks_line _, by decide, blanks_line _,
    token_line _ (fmt_u_token _), by decide⟩

/-- No line of the section of a process holds a newline. -/
theorem proc_lines_chars (p : smapsproc_t) (hp : proc_parsed p) :
    ∀ l ∈ proc_lines p, '\n' ∉ l := by
  have hk : ∀ l : List Char, (∀ c ∈ l, c ≠ '\r' ∧ c ≠ '\n') → '\n' ∉ l :=
    fun l h hm => (h _ hm).2 rfl
  intro l hl
  unfold proc_lines at hl
  rcases List.mem_cons.mp hl with h | h
  · rw [h]
    exact hk _ (header_line_chars _)
  rcases List.mem_append.mp h with h | h
  · rcases List.mem_append.mp h with h | h
    · rw [pid_lines_eq] at h
      obtain ⟨b, hb, rfl⟩ := List.mem_map.mp h
      apply hk
      intro c hc
      rcases List.mem_cons.mp hc with h1 | h1
      · rw [h1]; decide
      · exact pid_bodies_line p.smapsproc_pid hp.1 b hb c h1
    · obtain ⟨ls, hls, hl2⟩ := List.mem_flatten.mp h
      obtain ⟨m, hm, rfl⟩ := List.mem_map.mp hls
      have hcl : ∀ (name : String) (v : Nat), name ∈ ["Size", "Rss", "Shared_Clean",
          "Shared_Dirty", "Private_Clean", "Private_Dirty"] → l = counter_line name v →
          '\n' ∉ l := by
        intro name v hn he
        rw [he]
        exact hk _ (counter_line_chars name v hn)
      unfold mapp_lines at hl2
      rcases List.mem_cons.mp hl2 with h1 | h1
      · rw [h1]
        exact hk _ (range_line_chars m (hp.2 m hm)).1
      rcases List.mem_cons.mp h1 with h2 | h2
      · exact hcl _ _ (by decide) h2
      rcases List.mem_cons.mp h2 with h3 | h3
      · exact hcl _ _ (by decide) h3
      rcases List.mem_cons.mp h3 with h4 | h4
      · exact hcl _ _ (by decide) h4
      rcases List.mem_cons.mp h4 with h5 | h5
      · exact hcl _ _ (by decide) h5
      rcases List.mem_cons.mp h5 with h6 | h6
      · exact hcl _ _ (by decide) h6
      rcases List.mem_cons.mp h6 with h7 | h7
      · exact hcl _ _ (by decide) h7
      · cases h7
  · rw [List.mem_singleton.mp h]
    exact List.not_mem_nil _

/-- Loading the capture that `smapssnap_save_cap` writes for a snapshot whose
records are as the parser makes them, with distinct pids greater than 0 and
mappings that have a protection and a node: the process list has the fields of
the records in the order of the file. -/
theorem save_load_fields (U : Nat) (hU : 4294967296 ≤ U)
    (sort_pid : List smapsproc_t → List smapsproc_t) (hsort : ∀ l, (sort_pid l).Perm l)
    (S : smapssnap_t)
    (hS : ∀ p ∈ S.smapssnap_proclist, proc_parsed p ∧ 0 < p.smapsproc_pid.Pid ∧
      ∀ m ∈ p.smapsproc_mapplist,
        m.smapsmapp_map.prot.data ≠ [] ∧ m.smapsmapp_map.node.data ≠ [])
    (hnd : (S.smapssnap_proclist.map (fun q => q.smapsproc_pid.Pid)).Nodup)
    (st0 : load_t) (h0 : st0.snap.smapssnap_proclist = []) (path : String) :
    ∃ st1, smapssnap_load_cap U st0 path (smapssnap_save_cap sort_pid S).2 = some st1 ∧
      st1.snap.smapssnap_proclist.map cap_fields
        = (sort_pid S.smapssnap_proclist).map cap_fields := by
  have hperm := hsort S.smapssnap_proclist
  have hS2 : ∀ p ∈ sort_pid S.smapssnap_proclist, proc_parsed p ∧ 0 < p.smapsproc_pid.Pid ∧
      ∀ m ∈ p.smapsproc_mapplist,
        m.smapsmapp_map.prot.data ≠ [] ∧ m.smapsmapp_map.node.data ≠ [] :=
    fun p hp => hS p (hperm.subset hp)
  have hnd2 : ((sort_pid S.smapssnap_proclist).map (fun q => q.smapsproc_pid.Pid)).Nodup :=
    ((hperm.map _).nodup_iff).mpr hnd
  have hlines : ∀ l ∈ ((sort_pid S.smapssnap_proclist).map proc_lines).flatten, '\n' ∉ l := by
    intro l hl
    obtain ⟨ls, hls, hl2⟩ := List.mem_flatten.mp hl
    obtain ⟨p, hp, rfl⟩ := List.mem_map.mp hls
    exact proc_lines_chars p (hS2 p hp).1 l hl2
  obtain ⟨st1, R, h1, h2, h3⟩ := load_procs_lines U hU (sort_pid S.smapssnap_proclist) hS2
    { st0 with snap := { st0.snap with smapssnap_source := path }, proc := none, mapp := none }
    (by
      show ((st0.snap.smapssnap_proclist ++ sort_pid S.smapssnap_proclist).map _).Nodup
      rw [h0, List.nil_append]
      exact hnd2)
  refine ⟨st1, ?_, ?_⟩
  · unfold smapssnap_load_cap
    rw [save_cap_text_eq, text_lines_unlines _ hlines]
    exact h1
  · rw [h2]
    show ((st0.snap.smapssnap_proclist ++ R).map cap_fields) = _
    rw [h0, List.nil_append, h3]

set_option maxRecDepth 100000 in
/-- C24 (counterexample): a capture whose only range line is `0-1`, without
protection and node.  It is parsed to a snapshot of one process with one
mapping whose protection is empty; in the capture that `smapssnap_save_cap`
writes for this snapshot the range line has two blanks in a row, and parsing
it gives a mapping whose protection is `00000000`. -/
theorem round_trip_bare_range :
    ∃ st st1, smapssnap_load_cap 18446744073709551616 {} "a" bare_range_text = some st ∧
      smapssnap_load_cap 18446744073709551616 {} "b" (smapssnap_save_cap id st.snap).2
        = some st1 ∧
      st.snap.smapssnap_proclist.map
        (fun r => r.smapsproc_mapplist.map (fun m => m.smapsmapp_map.prot)) = [[""]] ∧
      st1.snap.smapssnap_proclist.map
        (fun r => r.smapsproc_mapplist.map (fun m => m.smapsmapp_map.prot))
          = [["00000000"]] :=
  ⟨(smapssnap_load_cap 18446744073709551616 {} "a" bare_range_text).getD {},
    (smapssnap_load_cap 18446744073709551616 {} "b" (smapssnap_save_cap id
      ((smapssnap_load_cap 18446744073709551616 {} "a" bare_range_text).getD {}).snap).2).getD {},
    by decide, by decide, by decide, by decide⟩

/-- C24 (amended): round trip.  Let a capture be parsed by `smapssnap_load_cap`
(starting from an empty process list) to a snapshot in which the pids of the
processes are distinct and greater than 0 and every mapping has a protection
and a node that are not empty.  Then parsing the text that
`smapssnap_save_cap` writes for the snapshot succeeds and yields the same
processes, in the order of the file and hence as a set: every process has the
same record `smapsproc_pid` (name, pid, parent pid, thread count and the
eight `Vm` fields) and the same mappings in the same order, each with the same
record `smapsmapp_map` (head, tail, prot, offs, node, flgs, path, type) and
the same six counters.  `unsigned long` has at least 32 bits and `array_sort`
returns a rearrangement of the process list. -/
theorem capture_round_trip (U : Nat) (hU : 4294967296 ≤ U)
    (sort_pid : List smapsproc_t → List smapsproc_t) (hsort : ∀ l, (sort_pid l).Perm l)
    (st0 : load_t) (h0 : st0.snap.smapssnap_proclist = []) (path : String) (text : List Char)
    (st : load_t) (hload : smapssnap_load_cap U st0 path text = some st)
    (hpid : (st.snap.smapssnap_proclist.map (fun q => q.smapsproc_pid.Pid)).Nodup)
    (hpos : ∀ r ∈ st.snap.smapssnap_proclist, 0 < r.smapsproc_pid.Pid)
    (hmap : ∀ r ∈ st.snap.smapssnap_proclist, ∀ m ∈ r.smapsproc_mapplist,
      m.smapsmapp_map.prot ≠ "" ∧ m.smapsmapp_map.node ≠ "")
    (st2 : load_t) (h2 : st2.snap.smapssnap_proclist = []) (path2 : String) :
    ∃ st1, smapssnap_load_cap U st2 path2 (smapssnap_save_cap sort_pid st.snap).2 = some st1 ∧
      st1.snap.smapssnap_proclist.map cap_fields
        = (sort_pid st.snap.smapssnap_proclist).map cap_fields ∧
      (st1.snap.smapssnap_proclist.map cap_fields).Perm
        (st.snap.smapssnap_proclist.map cap_fields) := by
  have hparsed := load_cap_parsed U st0 st path text hload (by rw [h0]; intro r hr; cases hr)
  have hdata : ∀ s : String, s ≠ "" → s.data ≠ [] := by
    intro s hs hd
    apply hs
    cases s
    simp only at hd
    rw [hd]
  obtain ⟨st1, k1, k2⟩ := save_load_fields U hU sort_pid hsort st.snap
    (fun p hp => ⟨hparsed p hp, hpos p hp,
      fun m hm => ⟨hdata _ (hmap p hp m hm).1, hdata _ (hmap p hp m hm).2⟩⟩)
    hpid st2 h2 path2
  refine ⟨st1, k1, k2, ?_⟩
  rw [k2]
  exact (hsort _).map _

set_option maxRecDepth 100000 in
theorem capture_round_trip_witness :
    ((4294967296 ≤ 18446744073709551616) ∧ (∀ l : List smapsproc_t, (id l).Perm l) ∧
      ({} : load_t).snap.smapssnap_proclist = [] ∧
      smapssnap_load_cap 18446744073709551616 {} "a" round_trip_text
        = some ((smapssnap_load_cap 18446744073709551616 {} "a" round_trip_text).getD {}) ∧
      ((((smapssnap_load_cap 18446744073709551616 {} "a" round_trip_text).getD
        {}).snap.smapssnap_proclist.map (fun q => q.smapsproc_pid.Pid)).Nodup) ∧
      (∀ r ∈ ((smapssnap_load_cap 18446744073709551616 {} "a" round_trip_text).getD
        {}).snap.smapssnap_proclist, 0 < r.smapsproc_pid.Pid) ∧
      (∀ r ∈ ((smapssnap_load_cap 18446744073709551616 {} "a" round_trip_text).getD
        {}).snap.smapssnap_proclist, ∀ m ∈ r.smapsproc_mapplist,
        m.smapsmapp_map.prot ≠ "" ∧ m.smapsmapp_map.node ≠ "") ∧
      ({} : load_t).snap.smapssnap_proclist = []) ∧
    ∃ st1, smapssnap_load_cap 18446744073709551616 {} "b" (smapssnap_save_cap id
        ((smapssnap_load_cap 18446744073709551616 {} "a" round_trip_text).getD {}).snap).2
          = some st1 ∧
      st1.snap.smapssnap_proclist.map cap_fields
        = (id ((smapssnap_load_cap 18446744073709551616 {} "a" round_trip_text).getD
          {}).snap.smapssnap_proclist).map cap_fields ∧
      (st1.snap.smapssnap_proclist.map cap_fields).Perm
        (((smapssnap_load_cap 18446744073709551616 {} "a" round_trip_text).getD
          {}).snap.smapssnap_proclist.map cap_fields) :=
  ⟨⟨by decide, fun l => List.Perm.refl l, rfl, by decide, by decide, by decide, by decide, rfl⟩,
    capture_round_trip 18446744073709551616 (by decide) id (fun l => List.Perm.refl l)
      {} rfl "a" round_trip_text _ (by decide) (by decide) (by decide) (by decide) {} rfl "b"⟩

end SpSmaps
